import Mathlib

/-!
# Pointer State Subgraph builder (`src/llvm/PSS.cpp`)

A shallow embedding of the LLVM-to-PSS lowering of `src/llvm/PSS.cpp`.

* The IR (module, functions, basic blocks, instructions, constants) is plain data.
  Results of LLVM library queries that the builder only consumes
  (`accumulateConstantOffset`, `isLosslessCast`, `getTypeAllocSize`, ...) are fields
  of that data.
* The graph is an arena of nodes addressed by index; a nullable `PSSNode *` is an
  `Option Nat`.
* The builder is a state-and-error monad over `LLVMPSSBuilder`; `abort()` and a failed
  `assert` are errors.  Recursion of the source that is not structural takes a fuel
  argument.
-/

namespace PSS

/-! ## The IR -/

/-- The part of an `llvm::Type` the builder looks at. -/
inductive Ty where
  | void
  | int (bits : Nat)
  | ptr (addrSpace : Nat)
  | aggregate (id : Nat)
  | unsized (id : Nat)
  | other (id : Nat)
  deriving DecidableEq, Repr

/-- `Type::isPointerTy`. -/
def Ty.isPointerTy : Ty → Bool
  | .ptr _ => true
  | _ => false

/-- `Type::isAggregateType` (struct or array). -/
def Ty.isAggregateType : Ty → Bool
  | .aggregate _ => true
  | _ => false

/-- `Type::isSized`. -/
def Ty.isSized : Ty → Bool
  | .void => false
  | .unsized _ => false
  | _ => true

/-- `Type::getPointerAddressSpace`. -/
def Ty.getPointerAddressSpace : Ty → Nat
  | .ptr a => a
  | _ => 0

/-- Intrinsic identifiers the builder distinguishes. -/
inductive Intrinsic where
  | memcpy | memmove | memset | vastart | stacksave | stackrestore
  | dbg_value | dbg_declare
  | other (id : Nat)
  deriving DecidableEq, Repr

/-- An `llvm::Constant`, structurally (LLVM uniques constants).  `accumulated` is the
result of `accumulateConstantOffset` on a GEP (`none` when it fails), `zeroIdx` is
`hasAllZeroIndices`, `lossless` is `isLosslessCast`.  `exprOther` is a constant
expression of any other opcode, `other` any other constant (undef, floating point,
aggregate, ...). -/
inductive Constant where
  | global (g : Nat)
  | func (f : Nat)
  | nullPtr (addrSpace : Nat)
  | int (bits value : Nat)
  | gep (base : Constant) (accumulated : Option Nat) (zeroIdx inBounds : Bool)
  | bitCast (op : Constant) (ty : Ty) (lossless : Bool)
  | intToPtr (op : Constant)
  | exprOther (id : Nat) (ty : Ty)
  | other (id : Nat) (ty : Ty)
  deriving DecidableEq, Repr

/-- An `llvm::Value`, by identity.  Instructions are named by their position
(function, block, index in the block), arguments by function and index. -/
inductive Value where
  | inst (f b i : Nat)
  | arg (f i : Nat)
  | const (c : Constant)
  deriving DecidableEq, Repr

/-- `dyn_cast<Function>`: the function a value is, if it is one. -/
def Value.asFunction : Value → Option Nat
  | .const (.func f) => some f
  | _ => none

/-- `isa<Constant>`. -/
def Value.isConstant : Value → Bool
  | .const _ => true
  | _ => false

/-- `isa<ConstantExpr>`. -/
def Constant.isConstantExpr : Constant → Bool
  | .gep _ _ _ _ => true
  | .bitCast _ _ _ => true
  | .intToPtr _ => true
  | .exprOther _ _ => true
  | _ => false

/-- `isa<Function>`. -/
def Constant.isFunction : Constant → Bool
  | .func _ => true
  | _ => false

/-- Nesting depth of a constant expression. -/
def Constant.depth : Constant → Nat
  | .gep base _ _ _ => base.depth + 1
  | .bitCast op _ _ => op.depth + 1
  | .intToPtr op => op.depth + 1
  | _ => 0

/-- `Value::getType` of a constant. -/
def Constant.getType : Constant → Ty
  | .global _ => .ptr 0
  | .func _ => .ptr 0
  | .nullPtr a => .ptr a
  | .int bits _ => .int bits
  | .gep _ _ _ _ => .ptr 0
  | .bitCast _ ty _ => ty
  | .intToPtr _ => .ptr 0
  | .exprOther _ ty => ty
  | .other _ ty => ty

/-- `Value::stripPointerCasts` on a constant: looks through pointer bitcasts and
all-zero-index GEPs. -/
def Constant.stripPointerCasts : Constant → Constant
  | .bitCast op ty lossless =>
    if ty.isPointerTy then op.stripPointerCasts else .bitCast op ty lossless
  | .gep base accumulated zeroIdx inBounds =>
    if zeroIdx then base.stripPointerCasts else .gep base accumulated zeroIdx inBounds
  | c => c

/-- `Value::stripInBoundsOffsets` on a constant: looks through pointer bitcasts and
in-bounds GEPs. -/
def Constant.stripInBoundsOffsets : Constant → Constant
  | .bitCast op ty lossless =>
    if ty.isPointerTy then op.stripInBoundsOffsets else .bitCast op ty lossless
  | .gep base accumulated zeroIdx inBounds =>
    if inBounds then base.stripInBoundsOffsets else .gep base accumulated zeroIdx inBounds
  | c => c

/-- An instruction, by opcode, with the operands and types the builder reads.
For `gep`, `accumulated`, `zeroIdx` and `inBounds` are as for `Value.constGEP`.
`other` is every opcode `buildPSSBlock` has no case for (branches, arithmetic, ...). -/
inductive Inst where
  | alloca (allocatedTy : Ty)
  | store (val ptr : Value)
  | load (ty : Ty) (ptr : Value)
  | gep (ptr : Value) (accumulated : Option Nat) (zeroIdx inBounds : Bool)
  | select (ty : Ty) (cond op1 op2 : Value)
  | phi (ty : Ty) (incoming : List Value)
  | bitcast (ty : Ty) (op : Value)
  | ptrtoint (ty : Ty) (op : Value)
  | inttoptr (ty : Ty) (op : Value)
  | ret (retVal : Option Value)
  | call (ty : Ty) (calledValue : Value) (args : List Value)
  | other (ty : Ty)
  deriving DecidableEq, Repr

/-- A basic block: its instructions and the successor blocks of its terminator
(`succ_begin .. succ_end`), as indices into the function's block list. -/
structure BasicBlock where
  insts : List Inst
  succs : List Nat
  deriving DecidableEq, Repr

/-- An `llvm::Function`.  `blocks = []` is a declaration (`size() == 0`). -/
structure Function where
  name : Option String
  params : List Ty
  isVarArg : Bool
  intrinsicID : Option Intrinsic
  blocks : List BasicBlock
  deriving DecidableEq, Repr

/-- A global variable initializer, by the shape `handleGlobalVariableInitializer`
distinguishes: `aggregateZero` is a `ConstantAggregateZero`, `aggregate` a constant of
aggregate type with its operands, `scalar` any other constant. -/
inductive Initializer where
  | scalar (c : Constant)
  | aggregateZero
  | aggregate (elems : List Constant)
  deriving DecidableEq, Repr

/-- An `llvm::GlobalVariable`. -/
structure GlobalVariable where
  initializer : Option Initializer
  externallyInitialized : Bool
  deriving DecidableEq, Repr

/-- The `llvm::DataLayout` queries the builder makes. -/
structure DataLayout where
  pointerSizeInBits : Nat → Nat
  typeAllocSize : Ty → Nat

/-- An `llvm::Module` with its data layout. -/
structure Module where
  globals : List GlobalVariable
  functions : List Function
  DL : DataLayout

/-- The function with index `f`; an index out of range reads as an unnamed declaration. -/
def Module.getFunc (m : Module) (f : Nat) : Function :=
  (m.functions.get? f).getD ⟨none, [], false, none, []⟩

/-- The block `b` of function `f`; out of range reads as an empty block. -/
def Module.getBlock (m : Module) (f b : Nat) : BasicBlock :=
  ((m.getFunc f).blocks.get? b).getD ⟨[], []⟩

/-- The instruction at position `(f, b, i)`. -/
def Module.getInst (m : Module) (f b i : Nat) : Option Inst :=
  (m.getBlock f b).insts.get? i

/-- `Module::getFunction(name)`: index of the first function with that name. -/
def Module.getFunction (m : Module) (name : String) : Option Nat :=
  let i := m.functions.findIdx (fun F => F.name == some name)
  if i < m.functions.length then some i else none

/-- Result type of an instruction. -/
def Inst.getType : Inst → Ty
  | .alloca _ => .ptr 0
  | .store _ _ => .void
  | .load ty _ => ty
  | .gep _ _ _ _ => .ptr 0
  | .select ty _ _ _ => ty
  | .phi ty _ => ty
  | .bitcast ty _ => ty
  | .ptrtoint ty _ => ty
  | .inttoptr ty _ => ty
  | .ret _ => .void
  | .call ty _ _ => ty
  | .other ty => ty

/-- `Value::getType`. -/
def Module.typeOf (m : Module) : Value → Ty
  | .inst f b i =>
    match m.getInst f b i with
    | some I => I.getType
    | none => .void
  | .arg f i => ((m.getFunc f).params.get? i).getD .void
  | .const c => c.getType

/-- Number of instructions of the module (bounds every chain of cast instructions). -/
def Module.numInsts (m : Module) : Nat :=
  (m.functions.map (fun F => (F.blocks.map (fun B => B.insts.length)).sum)).sum

/-- `Value::stripPointerCasts` with a bound on the instructions looked through:
bitcasts and all-zero-index GEPs, as instructions and as constant expressions. -/
def stripPointerCastsAux (m : Module) : Nat → Value → Value
  | _, .const c => .const c.stripPointerCasts
  | 0, v => v
  | fuel + 1, .inst f b i =>
    match m.getInst f b i with
    | some (.bitcast ty op) =>
      if ty.isPointerTy then stripPointerCastsAux m fuel op else .inst f b i
    | some (.gep ptr _ zeroIdx _) =>
      if zeroIdx then stripPointerCastsAux m fuel ptr else .inst f b i
    | _ => .inst f b i
  | _ + 1, v => v

/-- `Value::stripPointerCasts`. -/
def stripPointerCasts (m : Module) (v : Value) : Value :=
  stripPointerCastsAux m (m.numInsts + 1) v

/-- `Value::stripInBoundsOffsets` with a bound on the instructions looked through:
bitcasts and in-bounds GEPs. -/
def stripInBoundsOffsetsAux (m : Module) : Nat → Value → Value
  | _, .const c => .const c.stripInBoundsOffsets
  | 0, v => v
  | fuel + 1, .inst f b i =>
    match m.getInst f b i with
    | some (.bitcast ty op) =>
      if ty.isPointerTy then stripInBoundsOffsetsAux m fuel op else .inst f b i
    | some (.gep ptr _ _ inBounds) =>
      if inBounds then stripInBoundsOffsetsAux m fuel ptr else .inst f b i
    | _ => .inst f b i
  | _ + 1, v => v

/-- `Value::stripInBoundsOffsets`. -/
def stripInBoundsOffsets (m : Module) (v : Value) : Value :=
  stripInBoundsOffsetsAux m (m.numInsts + 1) v

/-- `APInt::getLimitedValue()` of a constant integer as a `uint64_t`: the value,
or all ones when it does not fit. -/
def getLimitedValue (value : Nat) : Nat :=
  if value > 2 ^ 64 - 1 then 2 ^ 64 - 1 else value

/-! ## The graph -/

/-- Node kinds. -/
inductive PSSNodeType where
  | ALLOC | DYN_ALLOC | LOAD | STORE | GEP | PHI | CAST | FUNCTION
  | CALL | CALL_FUNCPTR | CALL_RETURN | ENTRY | RETURN | CONSTANT | NOOP | MEMCPY
  | NULLPTR | UNKNOWN_MEM
  deriving DecidableEq, Repr

/-- Modelled from the spec: the byte offset of a pointer (declared in `analysis/PSS.h`,
which is not among the sources): a non-negative integer or the sentinel
`UNKNOWN_OFFSET`. -/
inductive Offset where
  | known (n : Nat)
  | unknown
  deriving DecidableEq, Repr

/-- `Offset::isUnknown`. -/
def Offset.isUnknown : Offset → Bool
  | .unknown => true
  | .known _ => false

/-- The sentinel offset. -/
def UNKNOWN_OFFSET : Offset := .unknown

/-- Modelled from the spec: a pointer (declared in `analysis/PSS.h`), a pair of a
target node and an offset. -/
structure Pointer where
  target : Nat
  offset : Offset
  deriving DecidableEq, Repr

/-- Modelled from the spec: the node record of section 3 (declared in `analysis/PSS.h`):
kind, ordered operands (an operand may be null), ordered successor edges, a-priori
points-to set, paired node, size, offset, and the two flags.  `len` is the second
offset of a `MEMCPY`. -/
structure PSSNode where
  kind : PSSNodeType
  operands : List (Option Nat)
  successors : List Nat
  pointsTo : List Pointer
  pairedNode : Option Nat
  size : Nat
  offset : Offset
  len : Offset
  isHeap : Bool
  zeroInitialized : Bool
  deriving DecidableEq, Repr

/-- A node of the given kind with every other attribute empty. -/
def PSSNode.blank (k : PSSNodeType) : PSSNode :=
  ⟨k, [], [], [], none, 0, .known 0, .known 0, false, false⟩

/-- The per-function record `(root, ret, args)`; default-constructed it is all null,
which is what `subgraphs_map[F]` yields for a function not yet registered. -/
structure Subgraph where
  root : Option Nat
  ret : Option Nat
  args : Option Nat × Option Nat
  deriving DecidableEq, Repr

/-- The default-constructed `Subgraph`. -/
def Subgraph.empty : Subgraph := ⟨none, none, (none, none)⟩

/-- The builder state: the node arena (`node i` for `i < size`), the symbol table
`nodes_map`, the registry `subgraphs_map` and the cache `built_blocks` (keyed by
function and block index). -/
structure LLVMPSSBuilder where
  size : Nat
  node : Nat → PSSNode
  nodes_map : Value → Option Nat
  subgraphs_map : Nat → Subgraph
  built_blocks : Nat × Nat → Option Nat × Option Nat

/-- The sentinel node `NULLPTR`. -/
def NULLPTR : Nat := 0

/-- The sentinel node `UNKNOWN_MEMORY`. -/
def UNKNOWN_MEMORY : Nat := 1

/-- The sentinel pointer `PointerUnknown`. -/
def PointerUnknown : Pointer := ⟨UNKNOWN_MEMORY, UNKNOWN_OFFSET⟩

/-- The builder before anything is lowered: the arena holds the two sentinels, the null
pointer pointing to itself at offset 0 and unknown memory pointing to itself at the
unknown offset; the maps are empty. -/
def LLVMPSSBuilder.init : LLVMPSSBuilder where
  size := 2
  node := fun i =>
    if i = NULLPTR then { PSSNode.blank .NULLPTR with pointsTo := [⟨NULLPTR, .known 0⟩] }
    else if i = UNKNOWN_MEMORY then
      { PSSNode.blank .UNKNOWN_MEM with pointsTo := [⟨UNKNOWN_MEMORY, UNKNOWN_OFFSET⟩] }
    else PSSNode.blank .NOOP
  nodes_map := fun _ => none
  subgraphs_map := fun _ => Subgraph.empty
  built_blocks := fun _ => (none, none)

/-- Ways the lowering stops: `abort()`, a failed `assert`, an operand index outside
an instruction, a null node dereferenced, and exhausted fuel of the embedding. -/
inductive Error where
  | abort (msg : String)
  | assertion (msg : String)
  | outOfRange
  | nullDeref
  | outOfFuel
  deriving DecidableEq, Repr

/-- The builder monad: state passing over `LLVMPSSBuilder` with errors. -/
def M (α : Type) : Type := LLVMPSSBuilder → Except Error (α × LLVMPSSBuilder)

instance : Monad M where
  pure a := fun s => .ok (a, s)
  bind x f := fun s =>
    match x s with
    | .ok (a, s') => f a s'
    | .error e => .error e

/-- Stop with an error. -/
def M.fail {α : Type} (e : Error) : M α := fun _ => .error e

/-- Read the state. -/
def M.get : M LLVMPSSBuilder := fun s => .ok (s, s)

/-- Replace the state. -/
def M.modify (f : LLVMPSSBuilder → LLVMPSSBuilder) : M Unit := fun s => .ok ((), f s)

/-- `assert(c)`. -/
def M.assert (c : Bool) (msg : String) : M Unit :=
  if c then pure () else M.fail (.assertion msg)

/-- The state with node `n` replaced by `f` of it. -/
def LLVMPSSBuilder.update (s : LLVMPSSBuilder) (n : Nat) (f : PSSNode → PSSNode) :
    LLVMPSSBuilder :=
  { s with node := fun i => if i = n then f (s.node n) else s.node i }

/-- The state with the node `x` put at the next free index. -/
def LLVMPSSBuilder.push (s : LLVMPSSBuilder) (x : PSSNode) : LLVMPSSBuilder :=
  { s with size := s.size + 1, node := fun i => if i = s.size then x else s.node i }

/-- `new PSSNode(...)`: put a node at the next free index and return the index. The
node may mention its own index. -/
def newNode (mk : Nat → PSSNode) : M Nat := fun s => .ok (s.size, s.push (mk s.size))

/-- Modelled from the spec: the `PSSNode` constructor (`analysis/PSS.h`): the operands
given are the node's operands, `offset` and `len` are stored. Memory nodes (`ALLOC`,
`DYN_ALLOC`) and `FUNCTION` nodes point to themselves at offset 0, which is what the
assertions of `handleConstantGep`, `handleConstantBitCast` and
`handleGlobalVariableInitializer` on their operands rely on. -/
def mkNode (k : PSSNodeType) (operands : List (Option Nat)) (offset len : Offset) : M Nat :=
  newNode fun self =>
    { PSSNode.blank k with
      operands := operands
      offset := offset
      len := len
      pointsTo :=
        if k = .ALLOC ∨ k = .DYN_ALLOC ∨ k = .FUNCTION then [⟨self, .known 0⟩] else [] }

/-- Modelled from the spec: `new PSSNode(CONSTANT, target, offset)`: a node whose
points-to set is the one pointer `(target, offset)`. -/
def mkConstant (target : Nat) (offset : Offset) : M Nat :=
  newNode fun _ =>
    { PSSNode.blank .CONSTANT with offset := offset, pointsTo := [⟨target, offset⟩] }

/-- Read node `n`. -/
def getNodeData (n : Nat) : M PSSNode := fun s => .ok (s.node n, s)

/-- Modelled from the spec: `PSSNode::addSuccessor`: append an outgoing edge. -/
def addSuccessor (n succ : Nat) : M Unit :=
  M.modify fun s => s.update n fun x => { x with successors := x.successors ++ [succ] }

/-- Modelled from the spec: `PSSNode::addOperand`: append an operand. -/
def addOperand (n op : Nat) : M Unit :=
  M.modify fun s => s.update n fun x => { x with operands := x.operands ++ [some op] }

/-- Modelled from the spec: `PSSNode::setPairedNode`. -/
def setPairedNode (n p : Nat) : M Unit :=
  M.modify fun s => s.update n fun x => { x with pairedNode := some p }

/-- Modelled from the spec: `PSSNode::setSize`. -/
def setSize (n size : Nat) : M Unit :=
  M.modify fun s => s.update n fun x => { x with size := size }

/-- Modelled from the spec: `PSSNode::setIsHeap`. -/
def setIsHeap (n : Nat) : M Unit :=
  M.modify fun s => s.update n fun x => { x with isHeap := true }

/-- Modelled from the spec: `PSSNode::setZeroInitialized`. -/
def setZeroInitialized (n : Nat) : M Unit :=
  M.modify fun s => s.update n fun x => { x with zeroInitialized := true }

/-- Modelled from the spec: `PSSNode::addPointsTo`: insert a pointer into the set. -/
def addPointsTo (n : Nat) (p : Pointer) : M Unit :=
  M.modify fun s => s.update n fun x =>
    { x with pointsTo := if p ∈ x.pointsTo then x.pointsTo else x.pointsTo ++ [p] }

/-- Modelled from the spec: `PSSNode::insertAfter` ("inserted after the current tail"):
node `n` takes over the successors of `after` and becomes the only successor of
`after`. -/
def insertAfter (n after : Nat) : M Unit :=
  M.modify fun s =>
    (s.update n fun x => { x with successors := (s.node after).successors }).update after
      fun x => { x with successors := [n] }

/-- Modelled from the spec: `PSSNode::getPredecessors`: the nodes that have `n` among
their successors, in order of creation. -/
def getPredecessors (s : LLVMPSSBuilder) (n : Nat) : List Nat :=
  (List.range s.size).filter fun p => decide (n ∈ (s.node p).successors)

/-- `LLVMPSSBuilder::addNode`: `nodes_map[val] = node`. -/
def addNode (val : Value) (n : Nat) : M Unit :=
  M.modify fun s => { s with nodes_map := fun v => if v = val then some n else s.nodes_map v }

/-- `LLVMPSSBuilder::getNode` and `nodes_map[val]`: the node of `val` or null. -/
def getNode (val : Value) : M (Option Nat) := fun s => .ok (s.nodes_map val, s)

/-- `new PSSNode(kind, operands...)` for the kinds without offsets. -/
def mkOpNode (k : PSSNodeType) (operands : List (Option Nat)) : M Nat :=
  mkNode k operands (.known 0) (.known 0)

/-- Run a computation that does not touch the builder. -/
def M.ofExcept {α : Type} (x : Except Error α) : M α := fun s =>
  match x with
  | .ok a => .ok (a, s)
  | .error e => .error e

/-! ## `src/llvm/PSS.cpp` -/

/-- `enum MemAllocationFuncs`. -/
inductive MemAllocationFuncs where
  | NONEMEM | MALLOC | CALLOC | ALLOCA
  deriving DecidableEq, Repr

/-- `getMemAllocationFunc` (lines 85-102). -/
def getMemAllocationFunc (func : Option Function) : Except Error MemAllocationFuncs :=
  match func with
  | none => .ok .NONEMEM
  | some F =>
    match F.name with
    | none => .ok .NONEMEM
    | some name =>
      if name = "malloc" then .ok .MALLOC
      else if name = "calloc" then .ok .CALLOC
      else if name = "alloca" then .ok .ALLOCA
      else if name = "realloc" then .error (.assertion "realloc not implemented yet")
      else .ok .NONEMEM

/-- `getPointerBitwidth` (lines 104-110). -/
def getPointerBitwidth (m : Module) (ptr : Value) : Nat :=
  m.DL.pointerSizeInBits (m.typeOf ptr).getPointerAddressSpace

/-- `getAllocatedSize` (lines 112-119). -/
def getAllocatedSize (m : Module) (ty : Ty) : Nat :=
  if !ty.isSized then 0 else m.DL.typeAllocSize ty

/-- The one pointer of a node's points-to set, or the assertion failure when the set
does not hold exactly one. -/
def singlePointer (n : Nat) (msg : String) : M Pointer := do
  let x ← getNodeData n
  match x.pointsTo with
  | [p] => pure p
  | _ => M.fail (.assertion msg)

/-- `LLVMPSSBuilder::handleConstantBitCast` (lines 121-139) for the constant expression
`CE = bitCast op ty lossless`.  When nothing is stripped the operand is the
instruction materialised from `CE`, which has no node and is not a constant, so
`getOperand` ends in `getConstant`'s abort. -/
def handleConstantBitCast (getOperand : Constant → M Nat) (CE : Constant)
    (lossless : Bool) : M Pointer := do
  if !lossless then M.fail (.abort "Not a loss less cast unhandled ConstExpr")
  else if CE.stripPointerCasts = CE then M.fail (.abort "Unsupported constant")
  else do
    let op ← getOperand CE.stripPointerCasts
    singlePointer op "Constant BitCast with not only one pointer"

/-- `LLVMPSSBuilder::handleConstantGep` (lines 141-168) for a GEP with pointer operand
`op` and `accumulateConstantOffset` result `accumulated`. -/
def handleConstantGep (m : Module) (getOperand : Constant → M Nat) (op : Constant)
    (accumulated : Option Nat) : M Pointer := do
  let opNode ← getOperand op
  let pointer ← singlePointer opNode "Constant node has more that 1 pointer"
  let bitwidth := getPointerBitwidth m (.const op)
  match accumulated with
  | some offset =>
    if offset < 2 ^ bitwidth && !pointer.offset.isUnknown then
      pure { pointer with offset := .known offset }
    else pure pointer
  | none => pure pointer

/-- `LLVMPSSBuilder::getConstantExprPointer` (lines 170-191). -/
def getConstantExprPointer (m : Module) (getOperand : Constant → M Nat) (CE : Constant) :
    M Pointer :=
  match CE with
  | .gep base accumulated _ _ => handleConstantGep m getOperand base accumulated
  | .bitCast _ _ lossless => handleConstantBitCast getOperand CE lossless
  | .intToPtr _ => pure PointerUnknown
  | _ => M.fail (.abort "Unsupported ConstantExpr")

/-- `LLVMPSSBuilder::createConstantExpr` (lines 193-202). -/
def createConstantExpr (m : Module) (getOperand : Constant → M Nat) (CE : Constant) :
    M Nat := do
  let ptr ← getConstantExprPointer m getOperand CE
  let node ← mkConstant ptr.target ptr.offset
  addNode (.const CE) node
  pure node

/-- `LLVMPSSBuilder::getConstant` (lines 204-220); a value that is no constant ends in
the last branch. -/
def getConstant (m : Module) (getOperand : Constant → M Nat) (val : Value) : M Nat :=
  match val with
  | .const (.nullPtr _) => pure NULLPTR
  | .const (.func f) => do
    let ret ← mkOpNode .FUNCTION []
    addNode (.const (.func f)) ret
    pure ret
  | .const c =>
    if c.isConstantExpr then createConstantExpr m getOperand c
    else M.fail (.abort "Unsupported constant")
  | _ => M.fail (.abort "Unsupported constant")

/-- `LLVMPSSBuilder::getOperand` (lines 222-237), with a bound on the nesting of
constant expressions it may descend through. -/
def getOperandAux (m : Module) : Nat → Value → M Nat
  | 0, _ => M.fail .outOfFuel
  | fuel + 1, val => do
    let known ← getNode val
    let op ← (match known with
      | some op => pure op
      | none => getConstant m (fun c => getOperandAux m fuel (.const c)) val : M Nat)
    let x ← getNodeData op
    let op ← (if x.kind = .CALL ∨ x.kind = .CALL_FUNCPTR then pure x.pairedNode
              else pure (some op) : M (Option Nat))
    match op with
    | some op => pure op
    | none => M.fail (.assertion "Did not find an operand")

/-- Nesting depth of a value: that of a constant, 0 otherwise. -/
def Value.depth : Value → Nat
  | .const c => c.depth
  | _ => 0

/-- `LLVMPSSBuilder::getOperand`: a constant of nesting depth `d` needs `d + 1` levels. -/
def getOperand (m : Module) (val : Value) : M Nat :=
  getOperandAux m (val.depth + 1) val

/-- `CallInst::getOperand(k)`: the arguments, then the called value. -/
def callOperand (args : List Value) (calledValue : Value) (k : Nat) : M Value :=
  match (args ++ [calledValue]).get? k with
  | some v => pure v
  | none => M.fail .outOfRange

/-- `CallInst::getArgOperand(k)`. -/
def getArgOperand (args : List Value) (k : Nat) : M Value :=
  match args.get? k with
  | some v => pure v
  | none => M.fail .outOfRange

/-- `createDynamicAlloc` (lines 239-289); sizes are `uint64_t`. -/
def createDynamicAlloc (args : List Value) (calledValue : Value)
    (type : MemAllocationFuncs) : M Nat := do
  let node ← mkOpNode .DYN_ALLOC []
  let op ← (match type with
    | .MALLOC => do
      setIsHeap node
      callOperand args calledValue 0
    | .ALLOCA => callOperand args calledValue 0
    | .CALLOC => do
      setIsHeap node
      setZeroInitialized node
      callOperand args calledValue 1
    | .NONEMEM => M.fail (.assertion "unknown memory allocation type") : M Value)
  let size ← (match op with
    | .const (.int _ value) =>
      let size := if getLimitedValue value = 2 ^ 64 - 1 then 0 else getLimitedValue value
      if type = .CALLOC then do
        let op0 ← callOperand args calledValue 0
        match op0 with
        | .const (.int _ value2) =>
          let size2 := getLimitedValue value2
          if size2 = 2 ^ 64 - 1 then pure size else pure ((size * size2) % 2 ^ 64)
        | _ => pure size
      else pure size
    | _ => pure 0 : M Nat)
  setSize node size
  pure node

/-- `LLVMPSSBuilder::createDynamicMemAlloc` (lines 291-300). -/
def createDynamicMemAlloc (CInst : Value) (args : List Value) (calledValue : Value)
    (type : MemAllocationFuncs) : M (Nat × Nat) := do
  let node ← createDynamicAlloc args calledValue type
  addNode CInst node
  pure (node, node)

/-- Append each node of the list as an operand of `n`. -/
def addOperands (n : Nat) : List Nat → M Unit
  | [] => pure ()
  | r :: rest => do
    addOperand n r
    addOperands n rest

/-- The loop over the callee's parameters in `createCallToFunction` (lines 336-350):
`params` are the parameters from index `idx` on, `arg` is the current argument PHI.
Returns the final `idx` and `arg`. -/
def createCallToFunctionArgs (m : Module) (args : List Value) :
    List Ty → Nat → Option Nat → M (Nat × Option Nat)
  | [], idx, arg => pure (idx, arg)
  | A :: rest, idx, arg =>
    if A.isPointerTy then
      match arg with
      | none => M.fail (.assertion "BUG: do not have argument")
      | some a => do
        let v ← getArgOperand args idx
        let op ← getOperand m v
        addOperand a op
        let x ← getNodeData a
        M.assert (decide (x.successors.length ≤ 1)) "arg->successorsNum() <= 1"
        let arg := if x.successors.length = 1 then x.successors.head? else some a
        createCallToFunctionArgs m args rest (idx + 1) arg
    else createCallToFunctionArgs m args rest (idx + 1) arg

/-- The loop over the variadic call arguments in `createCallToFunction`
(lines 359-365): `rest` are the call arguments from index `idx` on. -/
def createCallToFunctionVarArgs (m : Module) (arg : Nat) : List Value → M Unit
  | [] => pure ()
  | llvmOp :: rest => do
    (if (m.typeOf llvmOp).isPointerTy then do
      let op ← getOperand m llvmOp
      addOperand arg op
    else pure () : M Unit)
    createCallToFunctionVarArgs m arg rest

/-- `LLVMPSSBuilder::createCallToFunction` (lines 302-379) for a call of result type
`ty` with arguments `args` to the function `F`; `build` is `buildLLVMPSS(const
llvm::Function&)`. -/
def createCallToFunction (m : Module) (build : Nat → M Nat) (ty : Ty) (args : List Value)
    (F : Nat) : M (Nat × Nat) := do
  let returnNode ← mkOpNode .CALL_RETURN []
  let callNode ← mkOpNode .CALL []
  setPairedNode returnNode callNode
  setPairedNode callNode returnNode
  let s0 ← M.get
  let subg ← (if (s0.subgraphs_map F).root.isNone then do
      let _ ← build F
      let s1 ← M.get
      pure (s1.subgraphs_map F)
    else pure (s0.subgraphs_map F) : M Subgraph)
  match subg.root, subg.ret with
  | some root, some ret => do
    addSuccessor callNode root
    addSuccessor ret returnNode
    let r ← createCallToFunctionArgs m args (m.getFunc F).params 0 subg.args.1
    (if (m.getFunc F).isVarArg then
      match r.2 with
      | none => M.fail (.assertion "arg")
      | some a => createCallToFunctionVarArgs m a (args.drop r.1)
    else pure () : M Unit)
    (if ty.isPointerTy then do
      let s ← M.get
      addOperands returnNode
        ((getPredecessors s ret).filter fun r => (s.node r).kind = .RETURN)
    else pure () : M Unit)
    pure (callNode, returnNode)
  | _, _ => M.fail (.assertion "subg.root && subg.ret")

/-- `LLVMPSSBuilder::createOrGetSubgraph` (lines 381-392). -/
def createOrGetSubgraph (m : Module) (build : Nat → M Nat) (CInst : Value) (ty : Ty)
    (args : List Value) (F : Nat) : M (Nat × Nat) := do
  let cf ← createCallToFunction m build ty args F
  addNode CInst cf.1
  pure cf

/-- `LLVMPSSBuilder::createUnknownCall` (lines 394-408). -/
def createUnknownCall (CInst : Value) (ty : Ty) : M (Nat × Nat) := do
  M.assert ty.isPointerTy "CInst->getType()->isPointerTy()"
  let call ← mkOpNode .CALL []
  setPairedNode call call
  addPointsTo call PointerUnknown
  addNode CInst call
  pure (call, call)

/-- `LLVMPSSBuilder::createMemTransfer` (lines 410-435). -/
def createMemTransfer (m : Module) (I : Value) (id : Option Intrinsic) (args : List Value)
    (calledValue : Value) : M Nat := do
  if id = some .memmove ∨ id = some .memcpy then
    let dest ← callOperand args calledValue 0
    let src ← callOperand args calledValue 1
    let _lenVal ← callOperand args calledValue 2
    let destNode ← getOperand m dest
    let srcNode ← getOperand m src
    let node ← mkNode .MEMCPY [some srcNode, some destNode] UNKNOWN_OFFSET UNKNOWN_OFFSET
    addNode I node
    pure node
  else M.fail (.abort "unhandled mem transfer intrinsic")

/-- `LLVMPSSBuilder::createVarArg` (lines 437-477); `F` is the function the
instruction stands in. -/
def createVarArg (m : Module) (Inst : Value) (F : Nat) (args : List Value)
    (calledValue : Value) : M (Nat × Nat) := do
  let s0 ← M.get
  M.assert (m.getFunc F).isVarArg "vastart in non-variadic function"
  match (s0.subgraphs_map F).args.2 with
  | none => M.fail (.assertion "Don't have variadic argument in variadic function")
  | some arg => do
    let vastart ← mkOpNode .ALLOC []
    let op0 ← callOperand args calledValue 0
    let op ← getOperand m (stripInBoundsOffsets m op0)
    let x ← getNodeData op
    M.assert (decide (x.kind = .ALLOC)) "Argument of vastart is not an alloca"
    let ptr ← mkConstant op UNKNOWN_OFFSET
    let S1 ← mkOpNode .STORE [some vastart, some ptr]
    let S2 ← mkOpNode .STORE [some arg, some vastart]
    addNode Inst vastart
    addSuccessor vastart S1
    addSuccessor S1 S2
    pure (vastart, S2)

/-- `LLVMPSSBuilder::createAlloc` (lines 543-556); `allocatedTy` is the allocated type
when the instruction is an `AllocaInst`. -/
def createAlloc (m : Module) (Inst : Value) (allocatedTy : Option Ty) : M Nat := do
  let node ← mkOpNode .ALLOC []
  addNode Inst node
  (match allocatedTy with
    | some ty => setSize node (getAllocatedSize m ty)
    | none => pure () : M Unit)
  pure node

/-- `LLVMPSSBuilder::createStore` (lines 558-570). -/
def createStore (m : Module) (Inst : Value) (valOp ptrOp : Value) : M Nat := do
  let op1 ← getOperand m valOp
  let op2 ← getOperand m ptrOp
  let node ← mkOpNode .STORE [some op1, some op2]
  addNode Inst node
  pure node

/-- `LLVMPSSBuilder::createLoad` (lines 572-583). -/
def createLoad (m : Module) (Inst : Value) (op : Value) : M Nat := do
  let op1 ← getOperand m op
  let node ← mkOpNode .LOAD [some op1]
  addNode Inst node
  pure node

/-- `LLVMPSSBuilder::createGEP` (lines 585-612). -/
def createGEP (m : Module) (Inst : Value) (ptrOp : Value) (accumulated : Option Nat) :
    M Nat := do
  let bitwidth := getPointerBitwidth m ptrOp
  let op ← getOperand m ptrOp
  let node ← (match accumulated with
    | some offset =>
      if offset < 2 ^ bitwidth then
        mkNode .GEP [some op] (.known offset) (.known 0)
      else mkNode .GEP [some op] UNKNOWN_OFFSET (.known 0)
    | none => mkNode .GEP [some op] UNKNOWN_OFFSET (.known 0) : M Nat)
  addNode Inst node
  pure node

/-- `LLVMPSSBuilder::createSelect` (lines 614-630). -/
def createSelect (m : Module) (Inst : Value) (ty : Ty) (v1 v2 : Value) : M Nat := do
  M.assert ty.isPointerTy "BUG: This select is not a pointer"
  let op1 ← getOperand m v1
  let op2 ← getOperand m v2
  let node ← mkOpNode .PHI [some op1, some op2]
  addNode Inst node
  pure node

/-- `LLVMPSSBuilder::createPHI` (lines 632-646). -/
def createPHI (Inst : Value) (ty : Ty) : M Nat := do
  M.assert ty.isPointerTy "BUG: This PHI is not a pointer"
  let node ← mkOpNode .PHI []
  addNode Inst node
  pure node

/-- `LLVMPSSBuilder::addPHIOperands(PSSNode *, const llvm::PHINode *)` (lines 648-656):
the loop over the incoming values. -/
def addPHIOperands (m : Module) (node : Nat) : List Value → M Unit
  | [] => pure ()
  | v :: rest => do
    let op ← getOperand m v
    addOperand node op
    addPHIOperands m node rest

/-- The loop over the instructions of a block in
`LLVMPSSBuilder::addPHIOperands(const llvm::Function&)` (lines 661-668); `i` is the
index of the first instruction of the list. -/
def addPHIOperandsBlock (m : Module) (F b : Nat) : List Inst → Nat → M Unit
  | [], _ => pure ()
  | I :: rest, i => do
    (if I.getType.isPointerTy then
      match I with
      | .phi ty incoming => do
        M.assert ty.isPointerTy "BUG: This PHI is not a pointer"
        let known ← getNode (.inst F b i)
        match known with
        | some node => addPHIOperands m node incoming
        | none => M.fail .nullDeref
      | _ => pure ()
    else pure () : M Unit)
    addPHIOperandsBlock m F b rest (i + 1)

/-- The loop over the blocks in `LLVMPSSBuilder::addPHIOperands(const llvm::Function&)`
(lines 658-670); `b` is the index of the first block of the list. -/
def addPHIOperandsBlocks (m : Module) (F : Nat) : List BasicBlock → Nat → M Unit
  | [], _ => pure ()
  | B :: rest, b => do
    addPHIOperandsBlock m F b B.insts 0
    addPHIOperandsBlocks m F rest (b + 1)

/-- `LLVMPSSBuilder::addPHIOperands(const llvm::Function&)` (lines 658-670). -/
def addPHIOperandsFunction (m : Module) (F : Nat) : M Unit :=
  addPHIOperandsBlocks m F (m.getFunc F).blocks 0

/-- `LLVMPSSBuilder::createCast` (lines 672-682). -/
def createCast (m : Module) (Inst : Value) (op : Value) : M Nat := do
  let op1 ← getOperand m op
  let node ← mkOpNode .CAST [some op1]
  addNode Inst node
  pure node

/-- `LLVMPSSBuilder::createPtrToInt` (lines 685-696). -/
def createPtrToInt (m : Module) (Inst : Value) (op : Value) : M Nat := do
  let op1 ← getOperand m op
  let node ← mkOpNode .CAST [some op1]
  addNode Inst node
  pure node

/-- `LLVMPSSBuilder::createIntToPtr` (lines 698-714). -/
def createIntToPtr (m : Module) (Inst : Value) (op : Value) : M Nat := do
  let op1 ← (if op.isConstant then pure none else do
    let n ← getOperand m op
    pure (some n) : M (Option Nat))
  let node ← mkOpNode .CAST [op1]
  addNode Inst node
  pure node

/-- `LLVMPSSBuilder::createReturn` (lines 716-737). -/
def createReturn (m : Module) (Inst : Value) (retVal : Option Value) : M Nat := do
  let op1 ← (match retVal with
    | some v =>
      if (m.typeOf v).isPointerTy then do
        let n ← getOperand m v
        pure (some n)
      else pure none
    | none => pure none : M (Option Nat))
  let node ← mkOpNode .RETURN (match op1 with
    | some n => [some n]
    | none => [])
  addNode Inst node
  pure node

/-- `LLVMPSSBuilder::createIntrinsic` (lines 479-500). -/
def createIntrinsic (m : Module) (Inst : Value) (F : Nat) (id : Option Intrinsic)
    (args : List Value) (calledValue : Value) : M (Nat × Nat) := do
  if id = some .memcpy ∨ id = some .memmove then
    let n ← createMemTransfer m Inst id args calledValue
    pure (n, n)
  else if id = some .vastart then createVarArg m Inst F args calledValue
  else if id = some .stacksave then
    let n ← createAlloc m Inst none
    pure (n, n)
  else if id = some .stackrestore then
    let op0 ← callOperand args calledValue 0
    let n ← createLoad m Inst op0
    pure (n, n)
  else M.fail (.assertion "Unhandled intrinsic")

/-- `LLVMPSSBuilder::createCall` (lines 505-541) for the call instruction `Inst` of
function `F`, with result type `ty`, called value `calledValue` and arguments `args`. -/
def createCall (m : Module) (build : Nat → M Nat) (Inst : Value) (F : Nat) (ty : Ty)
    (calledValue : Value) (args : List Value) : M (Nat × Nat) := do
  match (stripPointerCasts m calledValue).asFunction with
  | some f => do
    let type ← M.ofExcept (getMemAllocationFunc (some (m.getFunc f)))
    if type ≠ .NONEMEM then createDynamicMemAlloc Inst args calledValue type
    else if (m.getFunc f).intrinsicID.isSome then
      createIntrinsic m Inst F (m.getFunc f).intrinsicID args calledValue
    else if (m.getFunc f).blocks.length = 0 then createUnknownCall Inst ty
    else createOrGetSubgraph m build Inst ty args f
  | none => do
    let op ← getOperand m (stripPointerCasts m calledValue)
    let call_funcptr ← mkOpNode .CALL_FUNCPTR [some op]
    let ret_call ← mkOpNode .RETURN []
    setPairedNode ret_call call_funcptr
    setPairedNode call_funcptr ret_call
    addSuccessor call_funcptr ret_call
    addNode Inst call_funcptr
    pure (call_funcptr, ret_call)

/-- `isa<DbgValueInst>`: a direct call of the `llvm.dbg.value` intrinsic. -/
def isDbgValueInst (m : Module) (calledValue : Value) : Bool :=
  match calledValue.asFunction with
  | some f => (m.getFunc f).intrinsicID = some .dbg_value
  | none => false

/-- `isRelevantCall` (lines 739-795) for a call of result type `ty`. -/
def isRelevantCall (m : Module) (ty : Ty) (calledValue : Value) : Except Error Bool :=
  if isDbgValueInst m calledValue then .ok false else
  match (stripPointerCasts m calledValue).asFunction with
  | some f =>
    if (m.getFunc f).blocks.length = 0 then do
      let type ← getMemAllocationFunc (some (m.getFunc f))
      if type ≠ .NONEMEM then pure true
      else
        match (m.getFunc f).intrinsicID with
        | some id =>
          match id with
          | .memmove | .memcpy | .memset | .vastart | .stacksave | .stackrestore => pure true
          | _ => pure false
        | none => if ty.isPointerTy then pure true else pure false
    else pure true
  | none => .ok true

/-- The end of the loop body of `buildPSSBlock` (lines 869-874). -/
def buildPSSBlockLink (retFirst prev_node node : Option Nat) :
    M (Option Nat × Option Nat) := do
  (match prev_node with
    | some p =>
      if prev_node ≠ node then
        match node with
        | some n => addSuccessor p n
        | none => M.fail .nullDeref
      else pure ()
    | none => pure () : M Unit)
  pure (if node.isSome && prev_node.isNone then node else retFirst, node)

/-- The cases of the `switch` of `buildPSSBlock` (lines 810-851) other than `Call`, for
the instruction `I` at position `(F, b, i)`: the new value of `node`, which stays
`node` when the instruction emits nothing. -/
def lowerInst (m : Module) (F b i : Nat) (I : Inst) (node : Option Nat) : M (Option Nat) :=
  match I with
  | .alloca allocatedTy => do
    let n ← createAlloc m (.inst F b i) (some allocatedTy)
    pure (some n)
  | .store val ptr => do
    let known ← getNode val
    if (m.typeOf val).isPointerTy || known.isSome then do
      let n ← createStore m (.inst F b i) val ptr
      pure (some n)
    else pure node
  | .load ty ptr => do
    let known ← getNode ptr
    if ty.isPointerTy || known.isSome then do
      let n ← createLoad m (.inst F b i) ptr
      pure (some n)
    else pure node
  | .gep ptr accumulated _ _ => do
    let n ← createGEP m (.inst F b i) ptr accumulated
    pure (some n)
  | .select ty _ op1 op2 =>
    if ty.isPointerTy then do
      let n ← createSelect m (.inst F b i) ty op1 op2
      pure (some n)
    else pure node
  | .phi ty _ =>
    if ty.isPointerTy then do
      let n ← createPHI (.inst F b i) ty
      pure (some n)
    else pure node
  | .bitcast _ op => do
    let n ← createCast m (.inst F b i) op
    pure (some n)
  | .ptrtoint _ op => do
    let n ← createPtrToInt m (.inst F b i) op
    pure (some n)
  | .inttoptr _ op => do
    let n ← createIntToPtr m (.inst F b i) op
    pure (some n)
  | .ret retVal => do
    let n ← createReturn m (.inst F b i) retVal
    pure (some n)
  | _ => pure node

/-- The loop body of `buildPSSBlock` (lines 808-875) for the instruction `I` at
position `(F, b, i)`; `retFirst` is `ret.first` and `node` the node of the previous
iteration.  Returns the new `ret.first` and `node`. -/
def buildPSSBlockInst (m : Module) (build : Nat → M Nat) (F b i : Nat) (I : Inst)
    (retFirst node : Option Nat) : M (Option Nat × Option Nat) := do
  match I with
  | .call ty calledValue args => do
    let relevant ← M.ofExcept (isRelevantCall m ty calledValue)
    if !relevant then buildPSSBlockLink retFirst node node
    else do
      let subg ← createCall m build (.inst F b i) F ty calledValue args
      let retFirst ← (match node with
        | some p => do
          addSuccessor p subg.1
          pure retFirst
        | none => pure (some subg.1) : M (Option Nat))
      buildPSSBlockLink retFirst (some subg.2) (some subg.2)
  | I => do
    let n ← lowerInst m F b i I node
    buildPSSBlockLink retFirst node n

/-- The loop of `buildPSSBlock` (lines 807-875) over the instructions from index `i`. -/
def buildPSSBlockLoop (m : Module) (build : Nat → M Nat) (F b : Nat) :
    List Inst → Nat → Option Nat → Option Nat → M (Option Nat × Option Nat)
  | [], _, retFirst, node => pure (retFirst, node)
  | I :: rest, i, retFirst, node => do
    let r ← buildPSSBlockInst m build F b i I retFirst node
    buildPSSBlockLoop m build F b rest (i + 1) r.1 r.2

/-- `LLVMPSSBuilder::buildPSSBlock` (lines 798-881) for block `b` of function `F`:
the first and last nodes of the block. -/
def buildPSSBlock (m : Module) (build : Nat → M Nat) (F b : Nat) :
    M (Option Nat × Option Nat) :=
  buildPSSBlockLoop m build F b (m.getBlock F b).insts 0 none none

/-- The loop of `blockAddSuccessors` (lines 891-911) over the IR successors `S` of a
block, for the starting block whose last node is `pssnSecond`; `recurse` is
`blockAddSuccessors` itself.  `found` is `found_blocks`, `num` the count so far. -/
def blockAddSuccessorsLoop (recurse : Nat → List Nat → M (Nat × List Nat))
    (F pssnSecond : Nat) : List Nat → List Nat → Nat → M (Nat × List Nat)
  | [], found, num => pure (num, found)
  | S :: rest, found, num =>
    if S ∈ found then blockAddSuccessorsLoop recurse F pssnSecond rest found num
    else do
      let s ← M.get
      M.assert (((s.built_blocks (F, S)).1.isSome && (s.built_blocks (F, S)).2.isSome) ||
          ((s.built_blocks (F, S)).1.isNone && (s.built_blocks (F, S)).2.isNone))
        "(succ.first && succ.second) || (!succ.first && !succ.second)"
      match (s.built_blocks (F, S)).1 with
      | none => do
        let r ← recurse S (S :: found)
        blockAddSuccessorsLoop recurse F pssnSecond rest r.2 (num + r.1)
      | some first => do
        addSuccessor pssnSecond first
        blockAddSuccessorsLoop recurse F pssnSecond rest (S :: found) (num + 1)

/-- `blockAddSuccessors` (lines 883-914) with a bound on the depth of the recursion
through empty blocks.  Returns the number of edges added and the new `found_blocks`. -/
def blockAddSuccessors (m : Module) (F pssnSecond : Nat) :
    Nat → Nat → List Nat → M (Nat × List Nat)
  | 0, _, _ => M.fail .outOfFuel
  | fuel + 1, block, found =>
    blockAddSuccessorsLoop (blockAddSuccessors m F pssnSecond fuel) F pssnSecond
      (m.getBlock F block).succs found 0

/-- A bound on the depth of `blockAddSuccessors` in function `F`: every nested call
enters a block newly put into `found_blocks`, and that block is an entry of some
successor list. -/
def stitchFuel (m : Module) (F : Nat) : Nat :=
  ((m.getFunc F).blocks.map fun B => B.succs.length).sum + 1

/-- The loop of `buildArguments` (lines 925-938) over the parameters; `arg` is the
last PHI created, `retFirst` is `ret.first`, `idx` the index of the first parameter of
the list. -/
def buildArgumentsLoop (F : Nat) : List Ty → Nat → Option Nat → Option Nat →
    M (Option Nat × Option Nat)
  | [], _, retFirst, arg => pure (retFirst, arg)
  | A :: rest, idx, retFirst, prev =>
    if A.isPointerTy then do
      let arg ← mkOpNode .PHI []
      addNode (.arg F idx) arg
      let retFirst ← (match prev with
        | some p => do
          addSuccessor p arg
          pure retFirst
        | none => pure (some arg) : M (Option Nat))
      buildArgumentsLoop F rest (idx + 1) retFirst (some arg)
    else buildArgumentsLoop F rest (idx + 1) retFirst prev

/-- `LLVMPSSBuilder::buildArguments` (lines 916-956). -/
def buildArguments (m : Module) (F : Nat) : M (Option Nat × Option Nat) := do
  let r ← buildArgumentsLoop F (m.getFunc F).params 0 none none
  let ret ← (if (m.getFunc F).isVarArg then do
      let retSecond ← mkOpNode .PHI []
      match r.2 with
      | some a => do
        addSuccessor a retSecond
        pure (r.1, some retSecond)
      | none => pure (some retSecond, some retSecond)
    else pure r : M (Option Nat × Option Nat))
  M.assert ((ret.1.isSome && ret.2.isSome) || (ret.1.isNone && ret.2.isNone))
    "(ret.first && ret.second) || (!ret.first && !ret.second)"
  pure ret

/-- `built_blocks[block] = nds`. -/
def setBuiltBlock (key : Nat × Nat) (nds : Option Nat × Option Nat) : M Unit :=
  M.modify fun s =>
    { s with built_blocks := fun k => if k = key then nds else s.built_blocks k }

/-- `subgraphs_map[F] = subg`. -/
def setSubgraph (F : Nat) (subg : Subgraph) : M Unit :=
  M.modify fun s =>
    { s with subgraphs_map := fun k => if k = F then subg else s.subgraphs_map k }

/-- The first loop of `buildLLVMPSS(const llvm::Function&)` (lines 990-1012), over the
blocks from index `b` on; `first` is the local of that name. -/
def buildBlocksLoop (m : Module) (build : Nat → M Nat) (F root lastNode : Nat) :
    List BasicBlock → Nat → Option Nat → M Unit
  | [], _, _ => pure ()
  | _ :: rest, b, first => do
    let nds ← buildPSSBlock m build F b
    let r ← (match first with
      | none =>
        match nds.1 with
        | none => pure ((some root, some root), some root)
        | some f => do
          addSuccessor lastNode f
          pure (nds, some f)
      | some f => pure (nds, some f) : M ((Option Nat × Option Nat) × Option Nat))
    setBuiltBlock (F, b) r.1
    buildBlocksLoop m build F root lastNode rest (b + 1) r.2

/-- The second loop of `buildLLVMPSS(const llvm::Function&)` (lines 1014-1036), over
the blocks from index `b` on: stitch the successors of every block that has nodes and
collect in `rets` the last nodes of the blocks that got no successor. -/
def stitchBlocksLoop (m : Module) (F : Nat) : List BasicBlock → Nat → List Nat → M (List Nat)
  | [], _, rets => pure rets
  | _ :: rest, b, rets => do
    let s ← M.get
    M.assert (((s.built_blocks (F, b)).1.isSome && (s.built_blocks (F, b)).2.isSome) ||
        ((s.built_blocks (F, b)).1.isNone && (s.built_blocks (F, b)).2.isNone))
      "(pssn.first && pssn.second) || (!pssn.first && !pssn.second)"
    match (s.built_blocks (F, b)).1, (s.built_blocks (F, b)).2 with
    | some _, some last => do
      let r ← blockAddSuccessors m F last (stitchFuel m F) b []
      if r.1 = 0 then stitchBlocksLoop m F rest (b + 1) (rets ++ [last])
      else stitchBlocksLoop m F rest (b + 1) rets
    | _, _ => stitchBlocksLoop m F rest (b + 1) rets

/-- Add `ret` as a successor of every node of the list (lines 1040-1041). -/
def addReturnEdges (ret : Nat) : List Nat → M Unit
  | [] => pure ()
  | r :: rest => do
    addSuccessor r ret
    addReturnEdges ret rest

/-- The body of `LLVMPSSBuilder::buildLLVMPSS(const llvm::Function&)` (lines 960-1049);
`build` is the function itself, for the calls met in the blocks. -/
def buildLLVMPSSBody (m : Module) (build : Nat → M Nat) (F : Nat) : M Nat := do
  let root ← mkOpNode .ENTRY []
  let ret ← mkOpNode .NOOP []
  let args ← buildArguments m F
  setSubgraph F ⟨some root, some ret, args⟩
  let lastNode ← (match args.1 with
    | some a => do
      addSuccessor root a
      pure args.2
    | none => pure (some root) : M (Option Nat))
  match lastNode with
  | none => M.fail (.assertion "lastNode")
  | some lastNode => do
    buildBlocksLoop m build F root lastNode (m.getFunc F).blocks 0 none
    let rets ← stitchBlocksLoop m F (m.getFunc F).blocks 0 []
    M.assert (!rets.isEmpty) "BUG: Did not find any return node in function"
    addReturnEdges ret rets
    addPHIOperandsFunction m F
    pure root

/-- `LLVMPSSBuilder::buildLLVMPSS(const llvm::Function&)` (lines 960-1049), with a
bound on the nesting of functions being built. -/
def buildLLVMPSSFunction (m : Module) : Nat → Nat → M Nat
  | 0, _ => M.fail .outOfFuel
  | fuel + 1, F => buildLLVMPSSBody m (buildLLVMPSSFunction m fuel) F

/-- The loop over the operands of an aggregate initializer in
`handleGlobalVariableInitializer` (lines 1094-1112); `off` is a `uint64_t`. -/
def handleAggregateInitializer (m : Module) (node : Nat) : List Constant → Nat → Nat → M Nat
  | [], _, last => pure last
  | val :: rest, off, last => do
    let last ← (if val.getType.isPointerTy then do
        let op ← getOperand m (.const val)
        let target ← mkConstant node (.known off)
        let store ← mkOpNode .STORE [some op, some target]
        insertAfter store last
        pure store
      else pure last : M Nat)
    handleAggregateInitializer m node rest ((off + m.DL.typeAllocSize val.getType) % 2 ^ 64)
      last

/-- `LLVMPSSBuilder::handleGlobalVariableInitializer` (lines 1081-1128). -/
def handleGlobalVariableInitializer (m : Module) (C : Initializer) (node : Nat) : M Nat :=
  match C with
  | .aggregateZero => do
    setZeroInitialized node
    pure node
  | .aggregate elems => handleAggregateInitializer m node elems 0 node
  | .scalar c =>
    match c with
    | .nullPtr _ => do
      setZeroInitialized node
      pure node
    | _ =>
      if c.getType.isAggregateType then pure node
      else if c.isConstantExpr || c.isFunction then
        if c.getType.isPointerTy then do
          let value ← getOperand m (.const c)
          let _p ← singlePointer value "BUG: We should have constant"
          let store ← mkOpNode .STORE [some value, some node]
          insertAfter store node
          pure store
        else pure node
      else pure node

/-- The first loop of `buildGlobals` (lines 1134-1145), over the globals from index
`g` on. -/
def buildGlobalsAlloc : List GlobalVariable → Nat → Option Nat → Option Nat →
    M (Option Nat × Option Nat)
  | [], _, cur, first => pure (cur, first)
  | _ :: rest, g, prev, first => do
    let cur ← mkOpNode .ALLOC []
    addNode (.const (.global g)) cur
    let first ← (match prev with
      | some p => do
        addSuccessor p cur
        pure first
      | none => pure (some cur) : M (Option Nat))
    buildGlobalsAlloc rest (g + 1) (some cur) first

/-- The second loop of `buildGlobals` (lines 1149-1159), over the globals from index
`g` on. -/
def buildGlobalsInit (m : Module) : List GlobalVariable → Nat → Option Nat → M (Option Nat)
  | [], _, cur => pure cur
  | GV :: rest, g, cur => do
    let cur ← (match GV.initializer with
      | some C =>
        if !GV.externallyInitialized then do
          let known ← getNode (.const (.global g))
          match known with
          | some node => do
            let last ← handleGlobalVariableInitializer m C node
            pure (some last)
          | none => M.fail (.assertion "BUG: Do not have global variable")
        else pure cur
      | none => pure cur : M (Option Nat))
    buildGlobalsInit m rest (g + 1) cur

/-- `LLVMPSSBuilder::buildGlobals` (lines 1130-1163). -/
def buildGlobals (m : Module) : M (Option Nat × Option Nat) := do
  let r ← buildGlobalsAlloc m.globals 0 none none
  let cur ← buildGlobalsInit m m.globals 0 r.1
  M.assert ((r.2.isNone && cur.isNone) || (r.2.isSome && cur.isSome))
    "(!first && !cur) || (first && cur)"
  pure (r.2, cur)

/-- `LLVMPSSBuilder::buildLLVMPSS()` (lines 1051-1078); `fuel` bounds the nesting of
functions being built. -/
def buildLLVMPSS (m : Module) (fuel : Nat) : M Nat := do
  match m.getFunction "main" with
  | none => M.fail (.abort "Need main function in module")
  | some F => do
    let glob ← buildGlobals m
    let root ← buildLLVMPSSFunction m fuel F
    match glob.1 with
    | some globFirst =>
      match glob.2 with
      | none => M.fail (.assertion "Have the start but not the end")
      | some globSecond => do
        addSuccessor globSecond root
        pure globFirst
    | none => pure root

/-- Build the PSS of a module from the initial builder state. -/
def build (m : Module) (fuel : Nat) : Except Error (Nat × LLVMPSSBuilder) :=
  buildLLVMPSS m fuel LLVMPSSBuilder.init

/-! ## Predicates on builder states used by the statements below -/

/-- Kinds of nodes that carry no call or subgraph structure. -/
def PSSNodeType.isPlain : PSSNodeType → Bool
  | .CALL | .CALL_FUNCPTR | .CALL_RETURN | .ENTRY | .NOOP => false
  | _ => true

/-- Node `n` may receive successors while blocks are chained and stitched: it is not a
subgraph's `ret` (`NOOP`), not the entry node of an indirect call, and not the entry
node of a direct call (a `CALL` that is not paired with itself). -/
def Exit (s : LLVMPSSBuilder) (n : Nat) : Prop :=
  n < s.size ∧ (s.node n).kind ≠ .NOOP ∧ (s.node n).kind ≠ .CALL_FUNCPTR ∧
    ((s.node n).kind = .CALL → (s.node n).pairedNode = some n)

/-- The entry node of a call: a `CALL_FUNCPTR`, or a `CALL` not paired with itself
(one made by `createCallToFunction`; `createUnknownCall` pairs its `CALL` with
itself). -/
def isCallEntry (s : LLVMPSSBuilder) (n : Nat) : Prop :=
  (s.node n).kind = .CALL_FUNCPTR ∨
    ((s.node n).kind = .CALL ∧ (s.node n).pairedNode ≠ some n)

/-- A node made by a step that builds no call or subgraph structure: a plain node
without pairing, or the self-paired `CALL` of `createUnknownCall`. -/
def Harmless (x : PSSNode) (n : Nat) : Prop :=
  (x.kind.isPlain = true ∧ x.pairedNode = none) ∨ (x.kind = .CALL ∧ x.pairedNode = some n)

/-- A step of the global phase: it adds harmless nodes, keeps kind and pairing of the
existing nodes, the registry and the block cache, and maps values to existing nodes. -/
structure Inert0 (s s' : LLVMPSSBuilder) : Prop where
  size_le : s.size ≤ s'.size
  kind_eq : ∀ n, n < s.size → (s'.node n).kind = (s.node n).kind
  paired_eq : ∀ n, n < s.size → (s'.node n).pairedNode = (s.node n).pairedNode
  fresh : ∀ n, s.size ≤ n → n < s'.size → Harmless (s'.node n) n
  map_lt : (∀ v n, s.nodes_map v = some n → n < s.size) →
    ∀ v n, s'.nodes_map v = some n → n < s'.size
  subg_eq : s'.subgraphs_map = s.subgraphs_map
  blocks_eq : s'.built_blocks = s.built_blocks

/-- A step that builds no call or subgraph structure: as `Inert0`, and successor lists
only grow, and only those of nodes that may receive successors (`Exit`). -/
structure Inert (s s' : LLVMPSSBuilder) : Prop where
  size_le : s.size ≤ s'.size
  kind_eq : ∀ n, n < s.size → (s'.node n).kind = (s.node n).kind
  paired_eq : ∀ n, n < s.size → (s'.node n).pairedNode = (s.node n).pairedNode
  succ_prefix : ∀ n, n < s.size → (s.node n).successors <+: (s'.node n).successors
  succ_eq : ∀ n, n < s.size → ¬ Exit s n → (s'.node n).successors = (s.node n).successors
  fresh : ∀ n, s.size ≤ n → n < s'.size → Harmless (s'.node n) n
  map_lt : (∀ v n, s.nodes_map v = some n → n < s.size) →
    ∀ v n, s'.nodes_map v = some n → n < s'.size
  subg_eq : s'.subgraphs_map = s.subgraphs_map
  blocks_eq : s'.built_blocks = s.built_blocks

/-- An inert step that made the node `n`. -/
def Created (s s' : LLVMPSSBuilder) (n : Nat) : Prop :=
  Inert s s' ∧ s.size ≤ n ∧ n < s'.size

/-- What every lowering step of the function phase keeps of the graph it started from:
nodes are only added, kinds and pairing of existing nodes stay, successor lists only
grow, the successors of call entry nodes stay as they are, and registered subgraph
records stay. -/
structure Ext (s s' : LLVMPSSBuilder) : Prop where
  size_le : s.size ≤ s'.size
  kind_eq : ∀ n, n < s.size → (s'.node n).kind = (s.node n).kind
  paired_eq : ∀ n, n < s.size → (s'.node n).pairedNode = (s.node n).pairedNode
  succ_prefix : ∀ n, n < s.size → (s.node n).successors <+: (s'.node n).successors
  call_succ_eq : ∀ n, n < s.size → isCallEntry s n →
    (s'.node n).successors = (s.node n).successors
  subg_eq : ∀ F, (s.subgraphs_map F).root ≠ none → s'.subgraphs_map F = s.subgraphs_map F

/-- The shape of the graph while functions are being built.  `P` holds of the direct
call nodes whose callee subgraph is being built at the moment (they have no successor
yet); at the end of the build there is none. -/
structure WF (P : Nat → Prop) (s : LLVMPSSBuilder) : Prop where
  pend_lt : ∀ n, P n → n < s.size
  pair_call : ∀ n, n < s.size → (s.node n).kind = .CALL →
    ∃ p, (s.node n).pairedNode = some p ∧ p < s.size ∧
      (p = n ∨ ((s.node p).kind = .CALL_RETURN ∧ (s.node p).pairedNode = some n))
  pair_fptr : ∀ n, n < s.size → (s.node n).kind = .CALL_FUNCPTR →
    ∃ p, (s.node n).pairedNode = some p ∧ p < s.size ∧ (s.node p).kind = .RETURN ∧
      (s.node p).pairedNode = some n ∧ (s.node n).successors = [p]
  pair_ret : ∀ q, q < s.size → (s.node q).kind = .CALL_RETURN →
    ∃ c, (s.node q).pairedNode = some c ∧ c < s.size ∧ (s.node c).kind = .CALL ∧
      (s.node c).pairedNode = some q
  call_succ : ∀ n, n < s.size → (s.node n).kind = .CALL → (s.node n).pairedNode ≠ some n →
    (P n ∧ (s.node n).successors = []) ∨
      (¬ P n ∧ ∃ F r, (s.subgraphs_map F).root = some r ∧ (s.node n).successors = [r])
  subg_ok : ∀ F r, (s.subgraphs_map F).root = some r →
    r < s.size ∧ (s.node r).kind = .ENTRY ∧
      ∃ t, (s.subgraphs_map F).ret = some t ∧ t < s.size ∧ (s.node t).kind = .NOOP
  root_inj : ∀ F G r, (s.subgraphs_map F).root = some r →
    (s.subgraphs_map G).root = some r → F = G
  ret_inj : ∀ F G t, (s.subgraphs_map F).root ≠ none → (s.subgraphs_map G).root ≠ none →
    (s.subgraphs_map F).ret = some t → (s.subgraphs_map G).ret = some t → F = G
  entry_root : ∀ n, n < s.size → (s.node n).kind = .ENTRY →
    ∃ F, (s.subgraphs_map F).root = some n
  ret_succ : ∀ F r t, (s.subgraphs_map F).root = some r → (s.subgraphs_map F).ret = some t →
    (s.node t).successors.Nodup ∧
      ∀ q, q ∈ (s.node t).successors ↔
        ∃ c, c < s.size ∧ (s.node c).kind = .CALL ∧ (s.node c).pairedNode = some q ∧
          q ≠ c ∧ (s.node c).successors = [r]
  blocks_ok : ∀ F b l, (s.built_blocks (F, b)).2 = some l → Exit s l
  blocks_cons : ∀ F b,
    (s.built_blocks (F, b)).1.isSome = (s.built_blocks (F, b)).2.isSome

/-- The contract of `buildLLVMPSS(const llvm::Function&)` that the lowering of calls
relies on: building a function that has no subgraph yet keeps the shape invariant and
extends the graph. -/
def BuildOK (build : Nat → M Nat) : Prop :=
  ∀ (P : Nat → Prop) (F r : Nat) (s s' : LLVMPSSBuilder),
    WF P s → (s.subgraphs_map F).root = none → build F s = .ok (r, s') → WF P s' ∧ Ext s s'

/-- Block `S` of function `F` is reached from block `B` by one or more IR successor
edges such that every block strictly between them has no node in the table `bb` of
built blocks. -/
inductive StitchReach (m : Module) (bb : Nat × Nat → Option Nat × Option Nat) (F : Nat) :
    Nat → Nat → Prop
  | edge {B S : Nat} : S ∈ (m.getBlock F B).succs → StitchReach m bb F B S
  | through {B E S : Nat} : E ∈ (m.getBlock F B).succs → (bb (F, E)).1 = none →
      StitchReach m bb F E S → StitchReach m bb F B S

/-- All entries of the successor lists of the blocks of function `F`. -/
def succEntries (m : Module) (F : Nat) : List Nat :=
  ((m.getFunc F).blocks.map fun B => B.succs).flatten

/-- What a run of `blockAddSuccessors` for the last node `last` does to the graph and to
`found_blocks`: only the successor list of `last` changes, by appending the first
nodes of the blocks with nodes that were newly put into `found_blocks`, in number
`num`; `found_blocks` only grows, without repetition, by entries of successor
lists. -/
structure StitchStep (m : Module) (F last : Nat) (found : List Nat) (s : LLVMPSSBuilder)
    (num : Nat) (found' : List Nat) (s' : LLVMPSSBuilder) : Prop where
  blocks_eq : s'.built_blocks = s.built_blocks
  size_eq : s'.size = s.size
  other : ∀ i, i ≠ last → s'.node i = s.node i
  edges : ∃ L, (s'.node last).successors = (s.node last).successors ++ L ∧ L.length = num ∧
    ∀ x, x ∈ L ↔ ∃ S, S ∈ found' ∧ S ∉ found ∧ (s.built_blocks (F, S)).1 = some x
  mono : ∀ x, x ∈ found → x ∈ found'
  nodup : found'.Nodup
  entries : ∀ x, x ∈ found' → x ∈ succEntries m F
  len_le : found.length ≤ found'.length
  closed : ∀ e, e ∈ found' → e ∉ found → (s.built_blocks (F, e)).1 = none →
    ∀ x, x ∈ (m.getBlock F e).succs → x ∈ found'

/-- The computation never stops because a recursion bound of the model is used up. -/
structure NoFuel {α : Type} (x : M α) : Prop where
  never : ∀ s, x s ≠ .error .outOfFuel

/-- The number of functions of the module that have no subgraph yet. -/
def unbuilt (m : Module) (s : LLVMPSSBuilder) : Nat :=
  ((List.range m.functions.length).filter fun F => (s.subgraphs_map F).root.isNone).length

/-- The recursion bound of `build` is not used up when it is called, in a well-formed
graph, for a function without subgraph while fewer than `k` functions have none. -/
def BuildNoFuel (m : Module) (build : Nat → M Nat) (k : Nat) : Prop :=
  ∀ (P : Nat → Prop) (F : Nat) (s : LLVMPSSBuilder), WF P s → F < m.functions.length →
    (s.subgraphs_map F).root = none → unbuilt m s < k → build F s ≠ .error .outOfFuel

/-- A step that lowers at most the value `I`: the nodes already there keep their
operands, except those in `T`; `nodes_map` changes at `I` and at constants only; a
constant that has a node keeps it; null pointer constants are left as they are. -/
structure Quiet (T : Nat → Prop) (I : Value) (s s' : LLVMPSSBuilder) : Prop where
  size_le : s.size ≤ s'.size
  ops_eq : ∀ n, n < s.size → ¬ T n → (s'.node n).operands = (s.node n).operands
  map_eq : ∀ v, v ≠ I → v.isConstant = false → s'.nodes_map v = s.nodes_map v
  const_mono : ∀ c x, s.nodes_map (.const c) = some x → s'.nodes_map (.const c) = some x
  null_eq : ∀ a, s'.nodes_map (.const (.nullPtr a)) = s.nodes_map (.const (.nullPtr a))

/-- Every run of the computation is a `Quiet` step. -/
structure Quiets {α : Type} (T : Nat → Prop) (I : Value) (x : M α) : Prop where
  keeps : ∀ s a s', x s = .ok (a, s') → Quiet T I s s'

/-- The node that stands for a value as an operand, read off the finished maps the way
`getOperand` does it: the node of the value, or `NULLPTR` for a null pointer constant
without node, and for a call node its paired return node. -/
def operandOf (s : LLVMPSSBuilder) (v : Value) : Option Nat :=
  let x : Option Nat :=
    match s.nodes_map v with
    | some x => some x
    | none =>
      match v with
      | .const (.nullPtr _) => some NULLPTR
      | _ => none
  match x with
  | some x =>
    if (s.node x).kind = .CALL ∨ (s.node x).kind = .CALL_FUNCPTR then (s.node x).pairedNode
    else some x
  | none => none

/-- What a run of `getOperand` for a value nested `d` deep does to the state: a `Quiet`
step, for every `T` and `I`, that changes `nodes_map` at constants nested at most `d`
deep only. -/
def OperandStep (d : Nat) (s s' : LLVMPSSBuilder) : Prop :=
  (∀ T I, Quiet T I s s') ∧
    ∀ c : Constant, d < c.depth → s'.nodes_map (.const c) = s.nodes_map (.const c)

/-- A step that only adds to the graph: nodes are added, kinds and pairing of the
existing nodes stay, successor lists only grow, the registry of subgraphs stays, and
values are mapped to existing nodes. -/
structure Grow (s s' : LLVMPSSBuilder) : Prop where
  size_le : s.size ≤ s'.size
  kind_eq : ∀ n, n < s.size → (s'.node n).kind = (s.node n).kind
  paired_eq : ∀ n, n < s.size → (s'.node n).pairedNode = (s.node n).pairedNode
  succ_prefix : ∀ n, n < s.size → (s.node n).successors <+: (s'.node n).successors
  subg_eq : s'.subgraphs_map = s.subgraphs_map
  blocks_eq : s'.built_blocks = s.built_blocks
  map_lt : (∀ v n, s.nodes_map v = some n → n < s.size) →
    ∀ v n, s'.nodes_map v = some n → n < s'.size

/-- Every run of the computation is a `Grow` step. -/
structure Grows {α : Type} (x : M α) : Prop where
  keeps : ∀ s a s', x s = .ok (a, s') → Grow s s'

/-- A step that leaves the successor lists of the existing nodes as they are, and gives
the nodes it makes successors among the nodes it makes only. -/
structure SuccKeep (s s' : LLVMPSSBuilder) : Prop where
  size_le : s.size ≤ s'.size
  old_eq : ∀ n, n < s.size → (s'.node n).successors = (s.node n).successors
  fresh_tgt : ∀ n x, s.size ≤ n → n < s'.size → x ∈ (s'.node n).successors →
    s.size ≤ x ∧ x < s'.size
  beyond : ∀ n, s'.size ≤ n → (s'.node n).successors = (s.node n).successors

/-- Every run of the computation is a `SuccKeep` step. -/
structure SuccKeeps {α : Type} (x : M α) : Prop where
  keeps : ∀ s a s', x s = .ok (a, s') → SuccKeep s s'

/-- A step of the global phase, which maps constants only: the values that are no
constants and the null pointer constants keep their entry of `nodes_map`. -/
structure GFrame (s s' : LLVMPSSBuilder) : Prop where
  map_eq : ∀ v : Value, v.isConstant = false → s'.nodes_map v = s.nodes_map v
  null_eq : ∀ a, s'.nodes_map (.const (.nullPtr a)) = s.nodes_map (.const (.nullPtr a))

/-- Every run of the computation is a `GFrame` step. -/
structure GFrames {α : Type} (x : M α) : Prop where
  keeps : ∀ s a s', x s = .ok (a, s') → GFrame s s'

/-- Position `p` of a function, a pair of a block and an instruction index, comes before
position `q`. -/
def posLt (p q : Nat × Nat) : Prop :=
  p.1 < q.1 ∨ (p.1 = q.1 ∧ p.2 < q.2)

/-- The function an instruction result or an argument belongs to. -/
def Value.owner : Value → Option Nat
  | .inst F _ _ => some F
  | .arg F _ => some F
  | .const _ => none

/-- The number of pointer parameters of function `G`. -/
def ptrParams (m : Module) (G : Nat) : Nat :=
  ((m.getFunc G).params.filter fun A => A.isPointerTy).length

/-- The number of argument nodes `buildArguments` makes for function `G`: one for each
pointer parameter and one more for a variadic function. -/
def argCount (m : Module) (G : Nat) : Nat :=
  ptrParams m G + (if (m.getFunc G).isVarArg then 1 else 0)

/-- Node `n` is an argument node of a function with a subgraph: `buildArguments` makes
them right after the root and the ret node. -/
def ArgNode (m : Module) (s : LLVMPSSBuilder) (n : Nat) : Prop :=
  ∃ G r, (s.subgraphs_map G).root = some r ∧ r + 2 ≤ n ∧ n < r + 2 + argCount m G

/-- How far the functions being built have got.  `Pend F = some (p, q)`: the instructions
of `F` before position `p` have been lowered, those from `p` on not yet, and the PHI
instructions before position `q` have got their operands.  `Pend F = none`: `F` is not
being built; it has no subgraph yet or it is finished. -/
structure PW (m : Module) (Pend : Nat → Option ((Nat × Nat) × (Nat × Nat)))
    (s : LLVMPSSBuilder) : Prop where
  null_lt : NULLPTR < s.size
  map_lt : ∀ v x, s.nodes_map v = some x → x < s.size
  null_none : ∀ a, s.nodes_map (.const (.nullPtr a)) = none
  unreg : ∀ F, (s.subgraphs_map F).root = none →
    Pend F = none ∧ ∀ v : Value, v.owner = some F → s.nodes_map v = none
  pending : ∀ F p q, Pend F = some (p, q) → (s.subgraphs_map F).root ≠ none ∧
    ∀ b i, ¬ posLt (b, i) p → s.nodes_map (.inst F b i) = none
  phi : ∀ F b i ty inc, (s.subgraphs_map F).root ≠ none →
    m.getInst F b i = some (.phi ty inc) → ty.isPointerTy = true →
    (∀ p q, Pend F = some (p, q) → posLt (b, i) p) →
    ∃ n, s.nodes_map (.inst F b i) = some n ∧ (s.node n).kind = .PHI ∧ ¬ ArgNode m s n ∧
      ((∃ p q, Pend F = some (p, q) ∧ ¬ posLt (b, i) q) → (s.node n).operands = []) ∧
      ((∀ p q, Pend F = some (p, q) → posLt (b, i) q) →
        (s.node n).operands = inc.map (operandOf s) ∧ ∀ v, v ∈ inc → operandOf s v ≠ none)
  phi_inj : ∀ F1 b1 i1 F2 b2 i2 ty1 inc1 ty2 inc2 n,
    m.getInst F1 b1 i1 = some (.phi ty1 inc1) → ty1.isPointerTy = true →
    m.getInst F2 b2 i2 = some (.phi ty2 inc2) → ty2.isPointerTy = true →
    s.nodes_map (.inst F1 b1 i1) = some n → s.nodes_map (.inst F2 b2 i2) = some n →
    F1 = F2 ∧ b1 = b2 ∧ i1 = i2
  args : ∀ G r, (s.subgraphs_map G).root = some r →
    r + 2 + argCount m G ≤ s.size ∧
    (s.subgraphs_map G).args.1 = (if argCount m G = 0 then none else some (r + 2)) ∧
    ∀ j, j + 1 < argCount m G → [r + 3 + j] <+: (s.node (r + 2 + j)).successors

/-- The number of pointer parameters of function `G` before parameter `idx`. -/
def ptrsBefore (m : Module) (G idx : Nat) : Nat :=
  (((m.getFunc G).params.take idx).filter fun A => A.isPointerTy).length

/-- The argument nodes of the functions that have a subgraph: they are `PHI` nodes, each
but the last has the next one as its only successor, the last one has at most one
successor and is the subgraph's `args.second`, the node of a pointer parameter is the
argument node at the parameter's place among the pointer parameters, and no last node
of a block is an argument node. -/
structure AW (m : Module) (s : LLVMPSSBuilder) : Prop where
  kinds : ∀ G r j, (s.subgraphs_map G).root = some r → j < argCount m G →
    (s.node (r + 2 + j)).kind = .PHI
  chain : ∀ G r j, (s.subgraphs_map G).root = some r → j + 1 < argCount m G →
    (s.node (r + 2 + j)).successors = [r + 3 + j]
  last : ∀ G r, (s.subgraphs_map G).root = some r → 0 < argCount m G →
    (s.node (r + 1 + argCount m G)).successors.length ≤ 1
  second : ∀ G r, (s.subgraphs_map G).root = some r →
    (s.subgraphs_map G).args.2 =
      (if argCount m G = 0 then none else some (r + 1 + argCount m G))
  argmap : ∀ G r idx A, (s.subgraphs_map G).root = some r →
    (m.getFunc G).params.get? idx = some A → A.isPointerTy = true →
    s.nodes_map (.arg G idx) = some (r + 2 + ptrsBefore m G idx)
  blocks_last : ∀ F b l, (s.built_blocks (F, b)).2 = some l → l < s.size ∧ ¬ ArgNode m s l

/-- Every successor edge leads to a node of the arena. -/
def SuccLt (s : LLVMPSSBuilder) : Prop :=
  ∀ n x, x ∈ (s.node n).successors → x < s.size

/-- Node `n` is the last node of a block of function `G` that is recorded with nodes
and from which the stitching reaches no block recorded with nodes: the second loop of
`buildLLVMPSS(const llvm::Function&)` adds no successor to it and puts it into
`rets`.  An entry block that emitted no node is recorded with the root as its first
and last node. -/
def IsRetLast (m : Module) (s : LLVMPSSBuilder) (G n : Nat) : Prop :=
  ∃ b, b < (m.getFunc G).blocks.length ∧ (s.built_blocks (G, b)).1 ≠ none ∧
    (s.built_blocks (G, b)).2 = some n ∧
    ∀ S, StitchReach m s.built_blocks G b S → (s.built_blocks (G, S)).1 = none

/-- The edges to the `ret` nodes.  No node has the `ret` node of a function in progress
as a successor; the nodes that have the `ret` node of a finished function as a
successor are the last nodes of its blocks that the stitching gave no successor; the
first node recorded for a block is no `NOOP`; and the node of a `ret` instruction that
ends a block already recorded is the last node recorded for the block, a `RETURN`. -/
structure RW (m : Module) (Pend : Nat → Option ((Nat × Nat) × (Nat × Nat)))
    (s : LLVMPSSBuilder) : Prop where
  succ_lt : SuccLt s
  pend : ∀ G p q t, (s.subgraphs_map G).root ≠ none → Pend G = some (p, q) →
    (s.subgraphs_map G).ret = some t → ∀ n, n < s.size → t ∉ (s.node n).successors
  done : ∀ G t, (s.subgraphs_map G).root ≠ none → Pend G = none →
    (s.subgraphs_map G).ret = some t →
    ∀ n, n < s.size → (t ∈ (s.node n).successors ↔ IsRetLast m s G n)
  firsts : ∀ G b f, (s.built_blocks (G, b)).1 = some f →
    f < s.size ∧ (s.node f).kind ≠ .NOOP
  rets : ∀ G b i rv, (s.subgraphs_map G).root ≠ none →
    m.getInst G b i = some (.ret rv) → i + 1 = (m.getBlock G b).insts.length →
    (∀ p q, Pend G = some (p, q) → b < p.1) →
    ∃ n, s.nodes_map (.inst G b i) = some n ∧ (s.built_blocks (G, b)).2 = some n ∧
      (s.node n).kind = .RETURN

/-- What a step does to the argument nodes: the argument nodes stay argument nodes,
no other existing node becomes one, and the argument nodes keep their successors. -/
structure ArgFrame (m : Module) (s s' : LLVMPSSBuilder) : Prop where
  mono : ∀ n, ArgNode m s n → ArgNode m s' n
  anti : ∀ n, n < s.size → ArgNode m s' n → ArgNode m s n
  succ_eq : ∀ n, ArgNode m s n → (s'.node n).successors = (s.node n).successors

/-- The nodes `base`, ..., `base + j - 1` at the end of the arena are the argument nodes
that `buildArguments` has made so far: `PHI` nodes without operands and pairing, each
with the next one as its only successor, the last one without successor. -/
def ArgChain (s : LLVMPSSBuilder) (base j : Nat) : Prop :=
  s.size = base + j ∧
    ∀ k, k < j → (s.node (base + k)).kind = .PHI ∧ (s.node (base + k)).operands = [] ∧
      (s.node (base + k)).pairedNode = none ∧
      (s.node (base + k)).successors = (if k + 1 < j then [base + k + 1] else [])

/-- The contract of `buildLLVMPSS(const llvm::Function&)` on the progress invariant, the
argument nodes and the edges to the `ret` nodes: building a function that has no
subgraph yet keeps them, for the functions in progress, and leaves the argument nodes
of the other functions as they are. -/
def BuildPW (m : Module) (build : Nat → M Nat) : Prop :=
  ∀ (Pend : Nat → Option ((Nat × Nat) × (Nat × Nat))) (P : Nat → Prop) (F r : Nat)
    (s s' : LLVMPSSBuilder), WF P s → PW m Pend s → AW m s → RW m Pend s →
    (s.subgraphs_map F).root = none → build F s = .ok (r, s') →
    PW m Pend s' ∧ AW m s' ∧ RW m Pend s' ∧ ArgFrame m s s'

/-- The part of `createCallToFunction` before the walk over the parameters (lines
306-333): the call node and the return node are made and paired, the subgraph of the
callee is fetched, or built if there is none, and the two call edges are added.
Returns the call node, the return node and the subgraph. -/
def callSetup (build : Nat → M Nat) (F : Nat) : M (Nat × Nat × Subgraph) := do
  let returnNode ← mkOpNode .CALL_RETURN []
  let callNode ← mkOpNode .CALL []
  setPairedNode returnNode callNode
  setPairedNode callNode returnNode
  let s0 ← M.get
  let subg ← (if (s0.subgraphs_map F).root.isNone then do
      let _ ← build F
      let s1 ← M.get
      pure (s1.subgraphs_map F)
    else pure (s0.subgraphs_map F) : M Subgraph)
  match subg.root, subg.ret with
  | some root, some ret => do
    addSuccessor callNode root
    addSuccessor ret returnNode
    pure (callNode, returnNode, subg)
  | _, _ => M.fail (.assertion "subg.root && subg.ret")

/-- The `switch` of `buildPSSBlock` (lines 810-865) for the instruction `I` at position
`(F, b, i)`, without the linking that follows it: the entry and exit nodes of what the
instruction emits, if it emits anything.  For a relevant call these are `subg.first` and
`subg.second`; for any other instruction both are the node the case assigns to `node`,
which is what `lowerInst` returns when it starts from a null `node`. -/
def emitInst (m : Module) (build : Nat → M Nat) (F b i : Nat) (I : Inst) :
    M (Option (Nat × Nat)) :=
  match I with
  | .call ty calledValue args => do
    let relevant ← M.ofExcept (isRelevantCall m ty calledValue)
    if !relevant then pure none
    else do
      let subg ← createCall m build (.inst F b i) F ty calledValue args
      pure (some subg)
  | I => do
    let n ← lowerInst m F b i I none
    pure (n.map fun n => (n, n))

/-- The entry and exit nodes the instructions of a block emit, in order: the loop body
of `buildPSSBlock` is run instruction by instruction, and what `emitInst` gives for the
instruction in the state the loop body starts from is recorded. -/
def blockEmits (m : Module) (build : Nat → M Nat) (F b : Nat) :
    List Inst → Nat → Option Nat → Option Nat → LLVMPSSBuilder → List (Nat × Nat)
  | [], _, _, _, _ => []
  | I :: rest, i, retFirst, node, s =>
    match emitInst m build F b i I s, buildPSSBlockInst m build F b i I retFirst node s with
    | .ok (e, _), .ok (r, s') => e.toList ++ blockEmits m build F b rest (i + 1) r.1 r.2 s'
    | _, _ => []

/-- Element `i` of `elems`, when it is pointer-typed, with the sum of the allocation sizes
of the elements of the aggregate `pre ++ elems` before it. -/
def aggregatePointerElem (m : Module) (pre elems : List Constant) (i : Nat) :
    Option (Constant × Nat) :=
  match elems.get? i with
  | some e =>
    if e.getType.isPointerTy then
      some (e, ((pre ++ elems.take i).map fun x => m.DL.typeAllocSize x.getType).sum)
    else none
  | none => none

/-- The pointer-typed elements of the aggregate `pre ++ elems` that lie in `elems`, in
element order, each with the sum of the allocation sizes of the elements before it. -/
def aggregatePointerElems (m : Module) (pre elems : List Constant) : List (Constant × Nat) :=
  (List.range elems.length).filterMap (aggregatePointerElem m pre elems)

/-- The part of `LLVMPSSBuilder::buildLLVMPSS(const llvm::Function&)` before the
assertion that a return node was found (lines 960-1036): the root, the `ret` node, the
arguments, the registration of the subgraph, the first loop over the blocks, and the
second loop, which stitches the blocks and collects `rets`.  The result is the root, the
`ret` node and `rets`. -/
def buildLLVMPSSRets (m : Module) (build : Nat → M Nat) (F : Nat) :
    M (Nat × Nat × List Nat) := do
  let root ← mkOpNode .ENTRY []
  let ret ← mkOpNode .NOOP []
  let args ← buildArguments m F
  setSubgraph F ⟨some root, some ret, args⟩
  let lastNode ← (match args.1 with
    | some a => do
      addSuccessor root a
      pure args.2
    | none => pure (some root) : M (Option Nat))
  match lastNode with
  | none => M.fail (.assertion "lastNode")
  | some lastNode => do
    buildBlocksLoop m build F root lastNode (m.getFunc F).blocks 0 none
    let rets ← stitchBlocksLoop m F (m.getFunc F).blocks 0 []
    pure (root, ret, rets)

/-- What the lowering of instructions and calls leaves alone: the `ENTRY` nodes that
are there keep their successors, and the functions that have a subgraph keep their
record and the nodes recorded for their blocks. -/
structure EKeep (s s' : LLVMPSSBuilder) : Prop where
  size_le : s.size ≤ s'.size
  kind_eq : ∀ n, n < s.size → (s'.node n).kind = (s.node n).kind
  succ_eq : ∀ n, n < s.size → (s.node n).kind = .ENTRY →
    (s'.node n).successors = (s.node n).successors
  subg_eq : ∀ G, (s.subgraphs_map G).root ≠ none → s'.subgraphs_map G = s.subgraphs_map G
  blocks_eq : ∀ G, (s.subgraphs_map G).root ≠ none →
    ∀ b, s'.built_blocks (G, b) = s.built_blocks (G, b)

/-- The contract of `buildLLVMPSS(const llvm::Function&)` for the `ENTRY` nodes:
building a function that has no subgraph yet leaves the `ENTRY` nodes and the recorded
blocks of the other functions alone. -/
def BuildEK (build : Nat → M Nat) : Prop :=
  ∀ (P : Nat → Prop) (F r : Nat) (s s' : LLVMPSSBuilder),
    WF P s → (s.subgraphs_map F).root = none → build F s = .ok (r, s') → EKeep s s'

/-- The start of `LLVMPSSBuilder::buildLLVMPSS(const llvm::Function&)` (lines 960-988):
the root, the `ret` node, the arguments, the registration of the subgraph, the edge from
the root to the first argument node, and `lastNode`.  The result is the root, the `ret`
node and `lastNode`. -/
def buildLLVMPSSStart (m : Module) (F : Nat) : M (Nat × Nat × Nat) := do
  let root ← mkOpNode .ENTRY []
  let ret ← mkOpNode .NOOP []
  let args ← buildArguments m F
  setSubgraph F ⟨some root, some ret, args⟩
  let lastNode ← (match args.1 with
    | some a => do
      addSuccessor root a
      pure args.2
    | none => pure (some root) : M (Option Nat))
  match lastNode with
  | none => M.fail (.assertion "lastNode")
  | some lastNode => pure (root, ret, lastNode)

/-- The callee of the call instruction at position `(F, b, i)`, when `createCall` (lines
505-526) hands the call to `createOrGetSubgraph`: the called value, stripped of pointer
casts, is a function that is no memory allocation function and no intrinsic, and that
has a body. -/
def directCallee (m : Module) (F b i : Nat) : Option Nat :=
  match m.getInst F b i with
  | some (.call _ calledValue _) =>
    match (stripPointerCasts m calledValue).asFunction with
    | some f =>
      match getMemAllocationFunc (some (m.getFunc f)) with
      | .ok .NONEMEM =>
        if (m.getFunc f).intrinsicID.isSome then none
        else if (m.getFunc f).blocks.length = 0 then none
        else some f
      | _ => none
    | none => none
  | _ => none

/-- The wiring of the direct calls to defined functions while functions are being
built, with `Pend` as in `PW`.  Every such call instruction of a function with a
subgraph that has been lowered has a node; the node registered for such a call
instruction is a `CALL` node not paired with itself whose only successor is the root of
the subgraph of the instruction's callee; every `CALL` node not paired with itself
that has a successor is the node registered for such a call instruction; and two such
call instructions have different nodes. -/
structure CW (m : Module) (Pend : Nat → Option ((Nat × Nat) × (Nat × Nat)))
    (s : LLVMPSSBuilder) : Prop where
  calls : ∀ F b i f, (s.subgraphs_map F).root ≠ none → directCallee m F b i = some f →
    (∀ p q, Pend F = some (p, q) → posLt (b, i) p) →
    ∃ c, s.nodes_map (.inst F b i) = some c
  wired : ∀ F b i f c, directCallee m F b i = some f → s.nodes_map (.inst F b i) = some c →
    c < s.size ∧ (s.node c).kind = .CALL ∧ (s.node c).pairedNode ≠ some c ∧
      ∃ r, (s.subgraphs_map f).root = some r ∧ (s.node c).successors = [r]
  nodes : ∀ c, c < s.size → (s.node c).kind = .CALL → (s.node c).pairedNode ≠ some c →
    (s.node c).successors ≠ [] →
    ∃ F b i f, directCallee m F b i = some f ∧ s.nodes_map (.inst F b i) = some c
  inj : ∀ F1 b1 i1 f1 F2 b2 i2 f2 c, directCallee m F1 b1 i1 = some f1 →
    directCallee m F2 b2 i2 = some f2 → s.nodes_map (.inst F1 b1 i1) = some c →
    s.nodes_map (.inst F2 b2 i2) = some c → F1 = F2 ∧ b1 = b2 ∧ i1 = i2

/-- The contract of `buildLLVMPSS(const llvm::Function&)` on the wiring of the direct
calls: building a function that has no subgraph yet keeps it. -/
def BuildCW (m : Module) (build : Nat → M Nat) : Prop :=
  ∀ (Pend : Nat → Option ((Nat × Nat) × (Nat × Nat))) (P : Nat → Prop) (F r : Nat)
    (s s' : LLVMPSSBuilder), WF P s → PW m Pend s → AW m s → RW m Pend s → CW m Pend s →
    (s.subgraphs_map F).root = none → build F s = .ok (r, s') → CW m Pend s'

/-- The result of a run of a computation, when it succeeds. -/
def M.result? {α : Type} (x : M α) (s : LLVMPSSBuilder) : Option (α × LLVMPSSBuilder) :=
  match x s with
  | .ok r => some r
  | .error _ => none

/-! ## Example modules -/

/-- A data layout with 64-bit pointers where every type takes 8 bytes. -/
def exDL : DataLayout := ⟨fun _ => 64, fun _ => 8⟩

/-- The module
```
define void @main() { %x = alloca i8; %r = call i8* @f(i8* %x); ret void }
define i8* @f(i8* %p) { %r = call i8* @f(i8* %p); ret i8* %r }
```
-/
def exRecursive : Module where
  globals := []
  functions := [
    ⟨some "main", [], false, none,
      [⟨[.alloca (.int 8), .call (.ptr 0) (.const (.func 1)) [.inst 0 0 0], .ret none], []⟩]⟩,
    ⟨some "f", [.ptr 0], false, none,
      [⟨[.call (.ptr 0) (.const (.func 1)) [.arg 1 0], .ret (some (.inst 1 0 0))], []⟩]⟩]
  DL := exDL

/-- The module
```
@g = global i8* @h
@h = global i8 0
define void @main() { ret void }
```
-/
def exGlobalAddr : Module where
  globals := [⟨some (.scalar (.global 1)), false⟩, ⟨some (.scalar (.int 8 0)), false⟩]
  functions := [⟨some "main", [], false, none, [⟨[.ret none], []⟩]⟩]
  DL := exDL

/-- The module
```
@g = global i8* null
@h = external global i8
define void @main() { ret void }
```
-/
def exGlobalTail : Module where
  globals := [⟨some (.scalar (.nullPtr 0)), false⟩, ⟨none, false⟩]
  functions := [⟨some "main", [], false, none, [⟨[.ret none], []⟩]⟩]
  DL := exDL

/-- The module
```
define void @main() {
b0: %x = alloca i8; br label %b1
b1: br i1 undef, label %b2, label %b1
b2: ret void
}
```
whose block `b1` is lowered to no node. -/
def exStitch : Module where
  globals := []
  functions := [⟨some "main", [], false, none,
    [⟨[.alloca (.int 8), .other .void], [1]⟩, ⟨[.other .void], [2, 1]⟩, ⟨[.ret none], []⟩]⟩]
  DL := exDL

/-- The module
```
define void @main() {
  %x = alloca i8
  call void @llvm.memset.p0i8.i64(i8* %x, i8 0, i64 1, i1 false)
  ret void
}
declare void @llvm.memset.p0i8.i64(i8*, i8, i64, i1)
```
-/
def exMemset : Module where
  globals := []
  functions := [
    ⟨some "main", [], false, none,
      [⟨[.alloca (.int 8),
          .call .void (.const (.func 1))
            [.inst 0 0 0, .const (.int 8 0), .const (.int 64 1), .const (.int 1 0)],
          .ret none], []⟩]⟩,
    ⟨some "llvm.memset.p0i8.i64", [.ptr 0, .int 8, .int 64, .int 1], false, some .memset, []⟩]
  DL := exDL

/-- The module
```
define void @main() { %r = call i8* @llvm.returnaddress(i32 0); ret void }
declare i8* @llvm.returnaddress(i32)
```
-/
def exReturnAddress : Module where
  globals := []
  functions := [
    ⟨some "main", [], false, none,
      [⟨[.call (.ptr 0) (.const (.func 1)) [.const (.int 32 0)], .ret none], []⟩]⟩,
    ⟨some "llvm.returnaddress", [.int 32], false, some (.other 0), []⟩]
  DL := exDL

/-- The module
```
@a = external global i8
@p = global i8* getelementptr (i8, i8* @a, ...)
@q = global i8* getelementptr (i8, i8* @a, ...)
define void @main() { ret void }
```
with two constant `getelementptr` expressions on `@a`: `accumulateConstantOffset` fails
for the one in `@p`, and gives `2 ^ 64` for the one in `@q`, which does not fit the 64
bits of a pointer. -/
def exConstGep : Module where
  globals := [⟨none, false⟩,
    ⟨some (.scalar (.gep (.global 0) none false false)), false⟩,
    ⟨some (.scalar (.gep (.global 0) (some (2 ^ 64)) false false)), false⟩]
  functions := [⟨some "main", [], false, none, [⟨[.ret none], []⟩]⟩]
  DL := exDL

/-- The module
```
define void @main() {
  %p = call i8* @malloc(i64 16)
  %x = alloca i8
  %c = add i64 1, 2
  store i8* %x, i8** %p
  %q = load i8*, i8** %p
  ret void
}
declare i8* @malloc(i64)
```
-/
def exChain : Module where
  globals := []
  functions := [
    ⟨some "main", [], false, none,
      [⟨[.call (.ptr 0) (.const (.func 1)) [.const (.int 64 16)], .alloca (.int 8),
          .other (.int 64), .store (.inst 0 0 1) (.inst 0 0 0), .load (.ptr 0) (.inst 0 0 0),
          .ret none], []⟩]⟩,
    ⟨some "malloc", [.int 64], false, none, []⟩]
  DL := exDL

/-- The result of lowering the block of `main` of the module `exChain` from the initial
builder state. -/
def exChainBlock : (Option Nat × Option Nat) × LLVMPSSBuilder :=
  (M.result? (buildPSSBlock exChain (buildLLVMPSSFunction exChain 1) 0 0)
    LLVMPSSBuilder.init).getD ((none, none), LLVMPSSBuilder.init)

/-- The module
```
define void @main() {
entry: %x = alloca i8
       br label %loop
loop:  %p = phi i8* [ %x, %entry ], [ %p, %loop ]
       br i1 undef, label %loop, label %exit
exit:  ret void
}
```
-/
def exPhi : Module where
  globals := []
  functions := [⟨some "main", [], false, none,
    [⟨[.alloca (.int 8), .other .void], [1]⟩,
      ⟨[.phi (.ptr 0) [.inst 0 0 0, .inst 0 1 0], .other .void], [1, 2]⟩,
      ⟨[.ret none], []⟩]⟩]
  DL := exDL

/-- The module
```
define void @main() { ret void }
define void @v(i8* %p, i64 %n, i8* %q, ...) { ret void }
```
-/
def exVarArg : Module where
  globals := []
  functions := [
    ⟨some "main", [], false, none, [⟨[.ret none], []⟩]⟩,
    ⟨some "v", [.ptr 0, .int 64, .ptr 0], true, none, [⟨[.ret none], []⟩]⟩]
  DL := exDL

/-- The module
```
define void @main() {
entry: br label %loop
loop:  br label %loop
}
```
none of whose blocks is lowered to a node. -/
def exSpin : Module where
  globals := []
  functions := [⟨some "main", [], false, none,
    [⟨[.other .void], [1]⟩, ⟨[.other .void], [1]⟩]⟩]
  DL := exDL

/-- The result of lowering a call `f(null)` of the function `f` of the module
`exRecursive` from the initial builder state, where `f` has no subgraph yet. -/
def exRecursiveCall : (Nat × Nat) × LLVMPSSBuilder :=
  (M.result? (createCallToFunction exRecursive (buildLLVMPSSFunction exRecursive 1) (.ptr 0)
    [.const (.nullPtr 0)] 1) LLVMPSSBuilder.init).getD ((0, 0), LLVMPSSBuilder.init)

/-- The result of lowering a call `v(null, 1, null, null, 2, null)` of the variadic
function `v` of the module `exVarArg` from the initial builder state. -/
def exVarArgCall : (Nat × Nat) × LLVMPSSBuilder :=
  (M.result? (createCallToFunction exVarArg (buildLLVMPSSFunction exVarArg 1) .void
    [.const (.nullPtr 0), .const (.int 64 1), .const (.nullPtr 0), .const (.nullPtr 0),
      .const (.int 64 2), .const (.nullPtr 0)] 1) LLVMPSSBuilder.init).getD
    ((0, 0), LLVMPSSBuilder.init)

/-- The module
```
define void @main() { %p = call i8* @realloc(i8* null, i64 8); ret void }
declare i8* @realloc(i8*, i64)
```
-/
def exRealloc : Module where
  globals := []
  functions := [
    ⟨some "main", [], false, none,
      [⟨[.call (.ptr 0) (.const (.func 1)) [.const (.nullPtr 0), .const (.int 64 8)],
        .ret none], []⟩]⟩,
    ⟨some "realloc", [.ptr 0, .int 64], false, none, []⟩]
  DL := exDL

/-- The module
```
define void @main() { %p = call i8* @ext(); ret void }
declare i8* @ext()
```
-/
def exExternal : Module where
  globals := []
  functions := [
    ⟨some "main", [], false, none, [⟨[.call (.ptr 0) (.const (.func 1)) [], .ret none], []⟩]⟩,
    ⟨some "ext", [], false, none, []⟩]
  DL := exDL

/-- The result of `getOperand` for the constant expression
`getelementptr (i8, i8* bitcast (void ()* @main to i8*), i64 4)`, of accumulated offset
4 on the function `main`, in the module `exRecursive` from the initial builder state. -/
def exGepBase : Nat × LLVMPSSBuilder :=
  (M.result? (getOperand exRecursive (.const (.gep (.func 0) (some 4) false false)))
    LLVMPSSBuilder.init).getD (0, LLVMPSSBuilder.init)

/-- The result of `getOperand` for the constant expression
`bitcast (void ()* @main to i8*)` in the module `exRecursive` from the initial builder
state. -/
def exBitCast : Nat × LLVMPSSBuilder :=
  (M.result? (getOperand exRecursive (.const (.bitCast (.func 0) (.ptr 0) true)))
    LLVMPSSBuilder.init).getD (0, LLVMPSSBuilder.init)

/-- The module
```
@g = global { i8*, i32, i8* } { i8* @h, i32 0, i8* bitcast (void ()* @main to i8*) }
@h = global i8 0
define void @main() { ret void }
```
-/
def exAggregate : Module where
  globals := [⟨some (.aggregate [.global 1, .int 32 0, .bitCast (.func 0) (.ptr 0) true]), false⟩,
    ⟨some (.scalar (.int 8 0)), false⟩]
  functions := [⟨some "main", [], false, none, [⟨[.ret none], []⟩]⟩]
  DL := exDL

/-- The builder of `exAggregate` after the first loop of `buildGlobals`. -/
def exAggregateStart : LLVMPSSBuilder :=
  ((M.result? (buildGlobalsAlloc exAggregate.globals 0 none none) LLVMPSSBuilder.init).getD
    ((none, none), LLVMPSSBuilder.init)).2

/-- The result of `handleGlobalVariableInitializer` for the global `@g` of `exAggregate`,
whose node is 2, and the builder after it. -/
def exAggregateEnd : Nat × LLVMPSSBuilder :=
  (M.result? (handleGlobalVariableInitializer exAggregate
    (.aggregate [.global 1, .int 32 0, .bitCast (.func 0) (.ptr 0) true]) 2)
    exAggregateStart).getD (0, LLVMPSSBuilder.init)

/-- The result of `buildLLVMPSSRets` for `main` of the module `exRecursive`, from the
initial builder, and the builder after it. -/
def exRecursiveRets : (Nat × Nat × List Nat) × LLVMPSSBuilder :=
  (M.result? (buildLLVMPSSRets exRecursive (buildLLVMPSSFunction exRecursive 1) 0)
    LLVMPSSBuilder.init).getD ((0, 0, []), LLVMPSSBuilder.init)

/-- The module
```
define void @main() { call void @f(i8* null); ret void }
define void @f(i8* %p) {
entry: br label %exit
exit:  ret void
}
```
whose function `f` has a pointer parameter and an entry block that is lowered to no
node. -/
def exDeadArg : Module where
  globals := []
  functions := [
    ⟨some "main", [], false, none,
      [⟨[.call .void (.const (.func 1)) [.const (.nullPtr 0)], .ret none], []⟩]⟩,
    ⟨some "f", [.ptr 0], false, none, [⟨[.other .void], [1]⟩, ⟨[.ret none], []⟩]⟩]
  DL := exDL

/-- The result of building the function `f` of the module `exDeadArg` from the initial
builder, and the builder after it. -/
def exDeadArgEnd : Nat × LLVMPSSBuilder :=
  (M.result? (buildLLVMPSSFunction exDeadArg 1 1) LLVMPSSBuilder.init).getD
    (0, LLVMPSSBuilder.init)

/-- The state a build ends in, when it succeeds. -/
def finalState (m : Module) (fuel : Nat) : Option LLVMPSSBuilder :=
  match build m fuel with
  | .ok (_, s) => some s
  | .error _ => none

/-- The root a build returns, when it succeeds. -/
def finalRoot (m : Module) (fuel : Nat) : Option Nat :=
  match build m fuel with
  | .ok (root, _) => some root
  | .error _ => none

/-- The state a build ends in, or the initial state when the build fails. -/
def endState (m : Module) (fuel : Nat) : LLVMPSSBuilder :=
  (finalState m fuel).getD LLVMPSSBuilder.init

/-- The root a build returns, or 0 when the build fails. -/
def endRoot (m : Module) (fuel : Nat) : Nat :=
  (finalRoot m fuel).getD 0
/-! ## The builder monad -/

theorem M.bind_ok {α β : Type} (x : M α) (f : α → M β) (s : LLVMPSSBuilder) (b : β)
    (s'' : LLVMPSSBuilder) :
    (x >>= f) s = .ok (b, s'') ↔ ∃ a s', x s = .ok (a, s') ∧ f a s' = .ok (b, s'') := by
  show (match x s with
    | .ok (a, s') => f a s'
    | .error e => .error e) = _ ↔ _
  cases h : x s with
  | error e => simp
  | ok r =>
    obtain ⟨a, s'⟩ := r
    constructor
    · intro h2
      exact ⟨a, s', rfl, h2⟩
    · rintro ⟨a', s1, h1, h2⟩
      cases h1
      exact h2

theorem M.pure_ok {α : Type} (a b : α) (s s' : LLVMPSSBuilder) :
    (pure a : M α) s = .ok (b, s') ↔ a = b ∧ s = s' := by
  show Except.ok (a, s) = .ok (b, s') ↔ _
  constructor
  · intro h
    cases h
    exact ⟨rfl, rfl⟩
  · rintro ⟨rfl, rfl⟩
    rfl

theorem M.fail_ok {α : Type} (e : Error) (b : α) (s s' : LLVMPSSBuilder) :
    (M.fail e : M α) s = .ok (b, s') ↔ False := by
  show Except.error e = .ok (b, s') ↔ _
  simp

theorem M.get_ok (b s s' : LLVMPSSBuilder) :
    M.get s = .ok (b, s') ↔ s = b ∧ s = s' := by
  show Except.ok (s, s) = .ok (b, s') ↔ _
  constructor
  · intro h
    cases h
    exact ⟨rfl, rfl⟩
  · rintro ⟨rfl, rfl⟩
    rfl

theorem M.modify_ok (f : LLVMPSSBuilder → LLVMPSSBuilder) (u : Unit) (s s' : LLVMPSSBuilder) :
    M.modify f s = .ok (u, s') ↔ f s = s' := by
  show Except.ok ((), f s) = .ok (u, s') ↔ _
  constructor
  · intro h
    cases h
    rfl
  · rintro rfl
    rfl

theorem M.assert_ok (c : Bool) (msg : String) (u : Unit) (s s' : LLVMPSSBuilder) :
    M.assert c msg s = .ok (u, s') ↔ c = true ∧ s = s' := by
  unfold M.assert
  cases c
  · simp [M.fail_ok]
  · simp [M.pure_ok]

theorem M.ofExcept_ok {α : Type} (x : Except Error α) (a : α) (s s' : LLVMPSSBuilder) :
    M.ofExcept x s = .ok (a, s') ↔ x = .ok a ∧ s = s' := by
  unfold M.ofExcept
  cases x with
  | error e => simp
  | ok b =>
    constructor
    · intro h
      cases h
      exact ⟨rfl, rfl⟩
    · rintro ⟨h, rfl⟩
      cases h
      rfl

theorem getNodeData_ok (n : Nat) (x : PSSNode) (s s' : LLVMPSSBuilder) :
    getNodeData n s = .ok (x, s') ↔ s.node n = x ∧ s = s' := by
  show Except.ok (s.node n, s) = .ok (x, s') ↔ _
  constructor
  · intro h
    cases h
    exact ⟨rfl, rfl⟩
  · rintro ⟨rfl, rfl⟩
    rfl

theorem getNode_ok (v : Value) (r : Option Nat) (s s' : LLVMPSSBuilder) :
    getNode v s = .ok (r, s') ↔ s.nodes_map v = r ∧ s = s' := by
  show Except.ok (s.nodes_map v, s) = .ok (r, s') ↔ _
  constructor
  · intro h
    cases h
    exact ⟨rfl, rfl⟩
  · rintro ⟨rfl, rfl⟩
    rfl

theorem newNode_ok (mk : Nat → PSSNode) (n : Nat) (s s' : LLVMPSSBuilder) :
    newNode mk s = .ok (n, s') ↔ s.size = n ∧ s.push (mk s.size) = s' := by
  show Except.ok (s.size, _) = .ok (n, s') ↔ _
  constructor
  · intro h
    cases h
    exact ⟨rfl, rfl⟩
  · rintro ⟨rfl, rfl⟩
    rfl

@[simp] theorem LLVMPSSBuilder.push_size (s : LLVMPSSBuilder) (x : PSSNode) :
    (s.push x).size = s.size + 1 := rfl

@[simp] theorem LLVMPSSBuilder.push_node (s : LLVMPSSBuilder) (x : PSSNode) (i : Nat) :
    (s.push x).node i = if i = s.size then x else s.node i := rfl

@[simp] theorem LLVMPSSBuilder.push_nodes_map (s : LLVMPSSBuilder) (x : PSSNode) :
    (s.push x).nodes_map = s.nodes_map := rfl

@[simp] theorem LLVMPSSBuilder.push_subgraphs_map (s : LLVMPSSBuilder) (x : PSSNode) :
    (s.push x).subgraphs_map = s.subgraphs_map := rfl

@[simp] theorem LLVMPSSBuilder.push_built_blocks (s : LLVMPSSBuilder) (x : PSSNode) :
    (s.push x).built_blocks = s.built_blocks := rfl

@[simp] theorem LLVMPSSBuilder.update_size (s : LLVMPSSBuilder) (n : Nat)
    (f : PSSNode → PSSNode) : (s.update n f).size = s.size := rfl

@[simp] theorem LLVMPSSBuilder.update_node (s : LLVMPSSBuilder) (n : Nat)
    (f : PSSNode → PSSNode) (i : Nat) :
    (s.update n f).node i = if i = n then f (s.node n) else s.node i := rfl

@[simp] theorem LLVMPSSBuilder.update_nodes_map (s : LLVMPSSBuilder) (n : Nat)
    (f : PSSNode → PSSNode) : (s.update n f).nodes_map = s.nodes_map := rfl

@[simp] theorem LLVMPSSBuilder.update_subgraphs_map (s : LLVMPSSBuilder) (n : Nat)
    (f : PSSNode → PSSNode) : (s.update n f).subgraphs_map = s.subgraphs_map := rfl

@[simp] theorem LLVMPSSBuilder.update_built_blocks (s : LLVMPSSBuilder) (n : Nat)
    (f : PSSNode → PSSNode) : (s.update n f).built_blocks = s.built_blocks := rfl

theorem mkOpNode_ok (k : PSSNodeType) (ops : List (Option Nat)) (n : Nat)
    (s s' : LLVMPSSBuilder) :
    mkOpNode k ops s = .ok (n, s') →
      ∃ x : PSSNode, x.kind = k ∧ x.successors = [] ∧ x.pairedNode = none ∧
        x.operands = ops ∧ s.size = n ∧ s.push x = s' := by
  intro h
  unfold mkOpNode mkNode at h
  rw [newNode_ok] at h
  exact ⟨_, rfl, rfl, rfl, rfl, h.1, h.2⟩

theorem setPairedNode_ok (n p : Nat) (u : Unit) (s s' : LLVMPSSBuilder) :
    setPairedNode n p s = .ok (u, s') ↔
      s.update n (fun x => { x with pairedNode := some p }) = s' := by
  unfold setPairedNode
  rw [M.modify_ok]

theorem addSuccessor_ok (n t : Nat) (u : Unit) (s s' : LLVMPSSBuilder) :
    addSuccessor n t s = .ok (u, s') ↔
      s.update n (fun x => { x with successors := x.successors ++ [t] }) = s' := by
  unfold addSuccessor
  rw [M.modify_ok]

/-! ## Steps that build no call or subgraph structure -/

theorem Harmless.is_exit {s : LLVMPSSBuilder} {n : Nat} (hn : n < s.size)
    (h : Harmless (s.node n) n) : Exit s n := by
  refine ⟨hn, ?_, ?_, ?_⟩
  · rcases h with ⟨h, -⟩ | ⟨h, -⟩
    · intro hk
      rw [hk] at h
      cases h
    · rw [h]
      decide
  · rcases h with ⟨h, -⟩ | ⟨h, -⟩
    · intro hk
      rw [hk] at h
      cases h
    · rw [h]
      decide
  · intro hk
    rcases h with ⟨h, -⟩ | ⟨-, h⟩
    · rw [hk] at h
      cases h
    · exact h

theorem Inert.rfl_inert (s : LLVMPSSBuilder) : Inert s s :=
  ⟨le_refl _, fun _ _ => rfl, fun _ _ => rfl, fun _ _ => List.prefix_refl _,
    fun _ _ _ => rfl, fun _ h1 h2 => absurd h2 (not_lt.mpr h1), fun h => h, rfl, rfl⟩

theorem Exit.mono_inert {s s' : LLVMPSSBuilder} {n : Nat} (h : Exit s n) (hi : Inert s s') :
    Exit s' n := by
  obtain ⟨h1, h2, h3, h4⟩ := h
  refine ⟨lt_of_lt_of_le h1 hi.size_le, ?_, ?_, ?_⟩
  · rw [hi.kind_eq n h1]
    exact h2
  · rw [hi.kind_eq n h1]
    exact h3
  · rw [hi.kind_eq n h1, hi.paired_eq n h1]
    exact h4

theorem Exit.of_inert {s s' : LLVMPSSBuilder} {n : Nat} (hn : n < s.size) (hi : Inert s s')
    (h : Exit s' n) : Exit s n := by
  obtain ⟨-, h2, h3, h4⟩ := h
  rw [hi.kind_eq n hn] at h2 h3 h4
  rw [hi.paired_eq n hn] at h4
  exact ⟨hn, h2, h3, h4⟩

theorem Inert.trans_inert {s1 s2 s3 : LLVMPSSBuilder} (h12 : Inert s1 s2) (h23 : Inert s2 s3) :
    Inert s1 s3 := by
  refine ⟨le_trans h12.size_le h23.size_le, ?_, ?_, ?_, ?_, ?_, ?_, ?_, ?_⟩
  · intro n hn
    rw [h23.kind_eq n (lt_of_lt_of_le hn h12.size_le), h12.kind_eq n hn]
  · intro n hn
    rw [h23.paired_eq n (lt_of_lt_of_le hn h12.size_le), h12.paired_eq n hn]
  · intro n hn
    exact (h12.succ_prefix n hn).trans (h23.succ_prefix n (lt_of_lt_of_le hn h12.size_le))
  · intro n hn hx
    have hn2 := lt_of_lt_of_le hn h12.size_le
    rw [h23.succ_eq n hn2 (fun h => hx (Exit.of_inert hn h12 h)), h12.succ_eq n hn hx]
  · intro n h1 h3
    by_cases h2 : n < s2.size
    · have := h12.fresh n h1 h2
      unfold Harmless at this ⊢
      rw [h23.kind_eq n h2, h23.paired_eq n h2]
      exact this
    · exact h23.fresh n (not_lt.mp h2) h3
  · intro h
    exact h23.map_lt (h12.map_lt h)
  · rw [h23.subg_eq, h12.subg_eq]
  · rw [h23.blocks_eq, h12.blocks_eq]

/-- A fresh node of an inert step may receive successors. -/
theorem Inert.exit_fresh {s s' : LLVMPSSBuilder} {n : Nat} (hi : Inert s s')
    (h1 : s.size ≤ n) (h2 : n < s'.size) : Exit s' n :=
  Harmless.is_exit h2 (hi.fresh n h1 h2)

/-- Changing attributes of a node other than kind, successors and pairing. -/
theorem Inert.update (s : LLVMPSSBuilder) (n : Nat) (f : PSSNode → PSSNode)
    (hk : ∀ x, (f x).kind = x.kind) (hs : ∀ x, (f x).successors = x.successors)
    (hp : ∀ x, (f x).pairedNode = x.pairedNode) : Inert s (s.update n f) := by
  have key : ∀ i, ((s.update n f).node i).kind = (s.node i).kind ∧
      ((s.update n f).node i).successors = (s.node i).successors ∧
      ((s.update n f).node i).pairedNode = (s.node i).pairedNode := by
    intro i
    rw [LLVMPSSBuilder.update_node]
    split
    · subst_vars
      exact ⟨hk _, hs _, hp _⟩
    · exact ⟨rfl, rfl, rfl⟩
  refine ⟨le_refl _, fun i _ => (key i).1, fun i _ => (key i).2.2, ?_, fun i _ _ => (key i).2.1,
    fun _ h1 h2 => absurd h2 (not_lt.mpr h1), fun h => h, rfl, rfl⟩
  intro i _
  rw [(key i).2.1]

/-- Appending a successor to a node that may receive successors. -/
theorem addSuccessor_inert {p t : Nat} {u : Unit} {s s' : LLVMPSSBuilder}
    (hp : Exit s p) (h : addSuccessor p t s = .ok (u, s')) : Inert s s' := by
  unfold addSuccessor at h
  rw [M.modify_ok] at h
  subst h
  refine ⟨le_refl _, ?_, ?_, ?_, ?_, fun _ h1 h2 => absurd h2 (not_lt.mpr h1), fun h => h,
    rfl, rfl⟩
  · intro i _
    rw [LLVMPSSBuilder.update_node]
    split
    · subst_vars
      rfl
    · rfl
  · intro i _
    rw [LLVMPSSBuilder.update_node]
    split
    · subst_vars
      rfl
    · rfl
  · intro i _
    rw [LLVMPSSBuilder.update_node]
    split
    · subst_vars
      exact List.prefix_append _ _
    · exact List.prefix_refl _
  · intro i _ hx
    rw [LLVMPSSBuilder.update_node]
    split
    · subst_vars
      exact absurd hp hx
    · rfl

theorem addSuccessor_succ {p t : Nat} {u : Unit} {s s' : LLVMPSSBuilder}
    (h : addSuccessor p t s = .ok (u, s')) :
    (s'.node p).successors = (s.node p).successors ++ [t] ∧
      ∀ i, i ≠ p → s'.node i = s.node i := by
  unfold addSuccessor at h
  rw [M.modify_ok] at h
  subst h
  constructor
  · rw [LLVMPSSBuilder.update_node, if_pos rfl]
  · intro i hi
    rw [LLVMPSSBuilder.update_node, if_neg hi]

theorem addOperand_inert {n op : Nat} {u : Unit} {s s' : LLVMPSSBuilder}
    (h : addOperand n op s = .ok (u, s')) : Inert s s' := by
  unfold addOperand at h
  rw [M.modify_ok] at h
  subst h
  exact Inert.update s n _ (fun _ => rfl) (fun _ => rfl) (fun _ => rfl)

theorem setSize_inert {n k : Nat} {u : Unit} {s s' : LLVMPSSBuilder}
    (h : setSize n k s = .ok (u, s')) : Inert s s' := by
  unfold setSize at h
  rw [M.modify_ok] at h
  subst h
  exact Inert.update s n _ (fun _ => rfl) (fun _ => rfl) (fun _ => rfl)

theorem setIsHeap_inert {n : Nat} {u : Unit} {s s' : LLVMPSSBuilder}
    (h : setIsHeap n s = .ok (u, s')) : Inert s s' := by
  unfold setIsHeap at h
  rw [M.modify_ok] at h
  subst h
  exact Inert.update s n _ (fun _ => rfl) (fun _ => rfl) (fun _ => rfl)

theorem setZeroInitialized_inert {n : Nat} {u : Unit} {s s' : LLVMPSSBuilder}
    (h : setZeroInitialized n s = .ok (u, s')) : Inert s s' := by
  unfold setZeroInitialized at h
  rw [M.modify_ok] at h
  subst h
  exact Inert.update s n _ (fun _ => rfl) (fun _ => rfl) (fun _ => rfl)

theorem addPointsTo_inert {n : Nat} {p : Pointer} {u : Unit} {s s' : LLVMPSSBuilder}
    (h : addPointsTo n p s = .ok (u, s')) : Inert s s' := by
  unfold addPointsTo at h
  rw [M.modify_ok] at h
  subst h
  exact Inert.update s n _ (fun _ => rfl) (fun _ => rfl) (fun _ => rfl)

/-- Registering an existing node for a value. -/
theorem addNode_inert {v : Value} {n : Nat} {u : Unit} {s s' : LLVMPSSBuilder}
    (hn : n < s.size) (h : addNode v n s = .ok (u, s')) : Inert s s' := by
  unfold addNode at h
  rw [M.modify_ok] at h
  subst h
  refine ⟨le_refl _, fun _ _ => rfl, fun _ _ => rfl, fun _ _ => List.prefix_refl _,
    fun _ _ _ => rfl, fun _ h1 h2 => absurd h2 (not_lt.mpr h1), ?_, rfl, rfl⟩
  intro hm v' n' hv
  simp only at hv
  split at hv
  · cases hv
    exact hn
  · exact hm v' n' hv

/-- A new node of a plain kind, without pairing. -/
theorem newNode_inert {mk : Nat → PSSNode} {n : Nat} {s s' : LLVMPSSBuilder}
    (hk : ∀ i, (mk i).kind.isPlain = true) (hp : ∀ i, (mk i).pairedNode = none)
    (h : newNode mk s = .ok (n, s')) : Inert s s' ∧ n = s.size ∧ s'.size = s.size + 1 := by
  rw [newNode_ok] at h
  obtain ⟨rfl, rfl⟩ := h
  have key : ∀ i, i < s.size → (s.push (mk s.size)).node i = s.node i := by
    intro i hi
    rw [LLVMPSSBuilder.push_node, if_neg (ne_of_lt hi)]
  refine ⟨⟨Nat.le_succ _, ?_, ?_, ?_, ?_, ?_, ?_, rfl, rfl⟩, rfl, rfl⟩
  · intro i hi
    rw [key i hi]
  · intro i hi
    rw [key i hi]
  · intro i hi
    rw [key i hi]
  · intro i hi _
    rw [key i hi]
  · intro i h1 h2
    have : i = s.size := le_antisymm (Nat.lt_succ_iff.mp h2) h1
    subst this
    rw [LLVMPSSBuilder.push_node, if_pos rfl]
    exact Or.inl ⟨hk _, hp _⟩
  · intro hm v n hv
    exact Nat.lt_succ_of_lt (hm v n hv)

theorem mkNode_inert {k : PSSNodeType} {ops : List (Option Nat)} {o l : Offset} {n : Nat}
    {s s' : LLVMPSSBuilder} (hk : k.isPlain = true) (h : mkNode k ops o l s = .ok (n, s')) :
    Inert s s' ∧ n = s.size ∧ s'.size = s.size + 1 := by
  unfold mkNode at h
  refine newNode_inert ?_ ?_ h
  · intro i
    exact hk
  · intro i
    rfl

theorem mkOpNode_inert {k : PSSNodeType} {ops : List (Option Nat)} {n : Nat}
    {s s' : LLVMPSSBuilder} (hk : k.isPlain = true) (h : mkOpNode k ops s = .ok (n, s')) :
    Inert s s' ∧ n = s.size ∧ s'.size = s.size + 1 := by
  unfold mkOpNode at h
  exact mkNode_inert hk h

theorem mkConstant_inert {t : Nat} {o : Offset} {n : Nat} {s s' : LLVMPSSBuilder}
    (h : mkConstant t o s = .ok (n, s')) :
    Inert s s' ∧ n = s.size ∧ s'.size = s.size + 1 := by
  unfold mkConstant at h
  refine newNode_inert ?_ ?_ h <;> intro i <;> rfl

theorem addNode_size {v : Value} {n : Nat} {u : Unit} {s s' : LLVMPSSBuilder}
    (h : addNode v n s = .ok (u, s')) : s'.size = s.size := by
  unfold addNode at h
  rw [M.modify_ok] at h
  subst h
  rfl

/-- Creating a node and registering it for a value. -/
theorem Inert.addNode_after {v : Value} {n : Nat} {u : Unit} {s s1 s2 : LLVMPSSBuilder}
    (h1 : Inert s s1 ∧ n = s.size ∧ s1.size = s.size + 1)
    (h2 : addNode v n s1 = .ok (u, s2)) :
    Inert s s2 ∧ n = s.size ∧ s2.size = s.size + 1 := by
  obtain ⟨hi, hn, hs⟩ := h1
  refine ⟨hi.trans_inert (addNode_inert ?_ h2), hn, ?_⟩
  · rw [hs, hn]
    exact Nat.lt_succ_self _
  · rw [addNode_size h2, hs]

/-! ## Constants and operands build no call or subgraph structure -/

theorem singlePointer_ok {n : Nat} {msg : String} {p : Pointer} {s s' : LLVMPSSBuilder}
    (h : singlePointer n msg s = .ok (p, s')) : s = s' ∧ (s.node n).pointsTo = [p] := by
  unfold singlePointer at h
  simp only [M.bind_ok, getNodeData_ok] at h
  obtain ⟨x, s1, ⟨rfl, rfl⟩, h⟩ := h
  cases hp : (s.node n).pointsTo with
  | nil =>
    rw [hp] at h
    exact ((M.fail_ok _ _ _ _).mp h).elim
  | cons a l =>
    cases l with
    | nil =>
      rw [hp] at h
      obtain ⟨rfl, rfl⟩ := (M.pure_ok _ _ _ _).mp h
      exact ⟨rfl, rfl⟩
    | cons b l =>
      rw [hp] at h
      exact ((M.fail_ok _ _ _ _).mp h).elim

theorem handleConstantBitCast_inert {getOp : Constant → M Nat}
    (hrec : ∀ c n s s', getOp c s = .ok (n, s') → Inert s s')
    {CE : Constant} {lossless : Bool} {p : Pointer} {s s' : LLVMPSSBuilder}
    (h : handleConstantBitCast getOp CE lossless s = .ok (p, s')) : Inert s s' := by
  unfold handleConstantBitCast at h
  split at h
  · rw [M.fail_ok] at h
    exact h.elim
  · split at h
    · rw [M.fail_ok] at h
      exact h.elim
    · simp only [M.bind_ok] at h
      obtain ⟨op, s1, h1, h2⟩ := h
      obtain ⟨rfl, -⟩ := singlePointer_ok h2
      exact hrec _ _ _ _ h1

theorem handleConstantGep_inert {m : Module} {getOp : Constant → M Nat}
    (hrec : ∀ c n s s', getOp c s = .ok (n, s') → Inert s s')
    {op : Constant} {acc : Option Nat} {p : Pointer} {s s' : LLVMPSSBuilder}
    (h : handleConstantGep m getOp op acc s = .ok (p, s')) : Inert s s' := by
  unfold handleConstantGep at h
  simp only [M.bind_ok] at h
  obtain ⟨opNode, s1, h1, pointer, s2, h2, h3⟩ := h
  obtain ⟨rfl, -⟩ := singlePointer_ok h2
  have hs : s1 = s' := by
    split at h3
    · split at h3 <;> exact ((M.pure_ok _ _ _ _).mp h3).2
    · exact ((M.pure_ok _ _ _ _).mp h3).2
  subst hs
  exact hrec _ _ _ _ h1

theorem getConstantExprPointer_inert {m : Module} {getOp : Constant → M Nat}
    (hrec : ∀ c n s s', getOp c s = .ok (n, s') → Inert s s')
    {CE : Constant} {p : Pointer} {s s' : LLVMPSSBuilder}
    (h : getConstantExprPointer m getOp CE s = .ok (p, s')) : Inert s s' := by
  unfold getConstantExprPointer at h
  split at h
  · exact handleConstantGep_inert hrec h
  · exact handleConstantBitCast_inert hrec h
  · obtain ⟨-, rfl⟩ := (M.pure_ok _ _ _ _).mp h
    exact Inert.rfl_inert _
  · rw [M.fail_ok] at h
    exact h.elim

theorem createConstantExpr_inert {m : Module} {getOp : Constant → M Nat}
    (hrec : ∀ c n s s', getOp c s = .ok (n, s') → Inert s s')
    {CE : Constant} {n : Nat} {s s' : LLVMPSSBuilder}
    (h : createConstantExpr m getOp CE s = .ok (n, s')) : Inert s s' := by
  unfold createConstantExpr at h
  simp only [M.bind_ok, M.pure_ok] at h
  obtain ⟨ptr, s1, h1, node, s2, h2, u, s3, h3, -, rfl⟩ := h
  exact (getConstantExprPointer_inert hrec h1).trans_inert
    (Inert.addNode_after (mkConstant_inert h2) h3).1

theorem getConstant_inert {m : Module} {getOp : Constant → M Nat}
    (hrec : ∀ c n s s', getOp c s = .ok (n, s') → Inert s s')
    {val : Value} {n : Nat} {s s' : LLVMPSSBuilder}
    (h : getConstant m getOp val s = .ok (n, s')) : Inert s s' := by
  unfold getConstant at h
  split at h
  · obtain ⟨-, rfl⟩ := (M.pure_ok _ _ _ _).mp h
    exact Inert.rfl_inert _
  · simp only [M.bind_ok, M.pure_ok] at h
    obtain ⟨r, s1, h1, u, s2, h2, -, rfl⟩ := h
    exact (Inert.addNode_after (mkOpNode_inert (by rfl) h1) h2).1
  · split at h
    · exact createConstantExpr_inert hrec h
    · rw [M.fail_ok] at h
      exact h.elim
  · rw [M.fail_ok] at h
    exact h.elim

theorem getOperandAux_inert (m : Module) (fuel : Nat) :
    ∀ (val : Value) (n : Nat) (s s' : LLVMPSSBuilder),
      getOperandAux m fuel val s = .ok (n, s') → Inert s s' := by
  induction fuel with
  | zero =>
    intro val n s s' h
    unfold getOperandAux at h
    rw [M.fail_ok] at h
    exact h.elim
  | succ fuel ih =>
    intro val n s s' h
    unfold getOperandAux at h
    simp only [M.bind_ok, getNode_ok, getNodeData_ok] at h
    obtain ⟨r, s0, ⟨hr, rfl⟩, op, s1, h1, x, s2, ⟨rfl, rfl⟩, op2, s3, h3, h4⟩ := h
    have h13 : s1 = s3 := by
      split at h3 <;> exact ((M.pure_ok _ _ _ _).mp h3).2
    subst h13
    have h14 : s1 = s' := by
      split at h4
      · exact ((M.pure_ok _ _ _ _).mp h4).2
      · rw [M.fail_ok] at h4
        exact h4.elim
    subst h14
    split at h1
    · obtain ⟨-, rfl⟩ := (M.pure_ok _ _ _ _).mp h1
      exact Inert.rfl_inert _
    · exact getConstant_inert (fun c n s s' hc => ih (.const c) n s s' hc) h1

theorem getOperand_inert {m : Module} {val : Value} {n : Nat} {s s' : LLVMPSSBuilder}
    (h : getOperand m val s = .ok (n, s')) : Inert s s' :=
  getOperandAux_inert m _ val n s s' h

/-! ## Lowering of the instructions that build no call or subgraph structure -/

theorem Created.exit_new {s s' : LLVMPSSBuilder} {n : Nat} (h : Created s s' n) : Exit s' n :=
  h.1.exit_fresh h.2.1 h.2.2

theorem Created.of_mk {s s' : LLVMPSSBuilder} {n : Nat}
    (h : Inert s s' ∧ n = s.size ∧ s'.size = s.size + 1) : Created s s' n := by
  obtain ⟨hi, hn, hs⟩ := h
  refine ⟨hi, le_of_eq hn.symm, ?_⟩
  rw [hs, hn]
  exact Nat.lt_succ_self _

theorem Created.after {s s1 s2 : LLVMPSSBuilder} {n : Nat} (h1 : Inert s s1)
    (h2 : Created s1 s2 n) : Created s s2 n :=
  ⟨h1.trans_inert h2.1, le_trans h1.size_le h2.2.1, h2.2.2⟩

theorem Created.before {s s1 s2 : LLVMPSSBuilder} {n : Nat} (h1 : Created s s1 n)
    (h2 : Inert s1 s2) : Created s s2 n :=
  ⟨h1.1.trans_inert h2, h1.2.1, lt_of_lt_of_le h1.2.2 h2.size_le⟩

theorem callOperand_ok {args : List Value} {cv v : Value} {k : Nat} {s s' : LLVMPSSBuilder}
    (h : callOperand args cv k s = .ok (v, s')) : s = s' := by
  unfold callOperand at h
  cases hk : (args ++ [cv]).get? k with
  | none =>
    rw [hk] at h
    exact ((M.fail_ok _ _ _ _).mp h).elim
  | some w =>
    rw [hk] at h
    exact ((M.pure_ok _ _ _ _).mp h).2

theorem getArgOperand_ok {args : List Value} {v : Value} {k : Nat} {s s' : LLVMPSSBuilder}
    (h : getArgOperand args k s = .ok (v, s')) : s = s' ∧ args.get? k = some v := by
  unfold getArgOperand at h
  cases hk : args.get? k with
  | none =>
    rw [hk] at h
    exact ((M.fail_ok _ _ _ _).mp h).elim
  | some w =>
    rw [hk] at h
    obtain ⟨rfl, rfl⟩ := (M.pure_ok _ _ _ _).mp h
    exact ⟨rfl, rfl⟩

theorem createAlloc_created {m : Module} {I : Value} {ty : Option Ty} {n : Nat}
    {s s' : LLVMPSSBuilder} (h : createAlloc m I ty s = .ok (n, s')) : Created s s' n := by
  unfold createAlloc at h
  simp only [M.bind_ok, M.pure_ok] at h
  obtain ⟨node, s1, h1, u, s2, h2, v, s3, h3, rfl, rfl⟩ := h
  refine (Created.of_mk (Inert.addNode_after (mkOpNode_inert (by rfl) h1) h2)).before ?_
  split at h3
  · exact setSize_inert h3
  · obtain ⟨-, rfl⟩ := (M.pure_ok _ _ _ _).mp h3
    exact Inert.rfl_inert _

theorem createStore_created {m : Module} {I v p : Value} {n : Nat}
    {s s' : LLVMPSSBuilder} (h : createStore m I v p s = .ok (n, s')) : Created s s' n := by
  unfold createStore at h
  simp only [M.bind_ok, M.pure_ok] at h
  obtain ⟨op1, s1, h1, op2, s2, h2, node, s3, h3, u, s4, h4, rfl, rfl⟩ := h
  exact Created.after ((getOperand_inert h1).trans_inert (getOperand_inert h2))
    (Created.of_mk (Inert.addNode_after (mkOpNode_inert (by rfl) h3) h4))

theorem createLoad_created {m : Module} {I p : Value} {n : Nat}
    {s s' : LLVMPSSBuilder} (h : createLoad m I p s = .ok (n, s')) : Created s s' n := by
  unfold createLoad at h
  simp only [M.bind_ok, M.pure_ok] at h
  obtain ⟨op1, s1, h1, node, s3, h3, u, s4, h4, rfl, rfl⟩ := h
  exact Created.after (getOperand_inert h1)
    (Created.of_mk (Inert.addNode_after (mkOpNode_inert (by rfl) h3) h4))

theorem createGEP_created {m : Module} {I p : Value} {acc : Option Nat} {n : Nat}
    {s s' : LLVMPSSBuilder} (h : createGEP m I p acc s = .ok (n, s')) : Created s s' n := by
  unfold createGEP at h
  simp only [M.bind_ok, M.pure_ok] at h
  obtain ⟨op1, s1, h1, node, s3, h3, u, s4, h4, rfl, rfl⟩ := h
  refine Created.after (getOperand_inert h1) (Created.of_mk (Inert.addNode_after ?_ h4))
  split at h3
  · split at h3
    · exact mkNode_inert (by rfl) h3
    · exact mkNode_inert (by rfl) h3
  · exact mkNode_inert (by rfl) h3

theorem createSelect_created {m : Module} {I v1 v2 : Value} {ty : Ty} {n : Nat}
    {s s' : LLVMPSSBuilder} (h : createSelect m I ty v1 v2 s = .ok (n, s')) :
    Created s s' n := by
  unfold createSelect at h
  simp only [M.bind_ok, M.pure_ok, M.assert_ok] at h
  obtain ⟨u0, s0, ⟨-, rfl⟩, op1, s1, h1, op2, s2, h2, node, s3, h3, u, s4, h4, rfl, rfl⟩ := h
  exact Created.after ((getOperand_inert h1).trans_inert (getOperand_inert h2))
    (Created.of_mk (Inert.addNode_after (mkOpNode_inert (by rfl) h3) h4))

theorem createPHI_created {I : Value} {ty : Ty} {n : Nat}
    {s s' : LLVMPSSBuilder} (h : createPHI I ty s = .ok (n, s')) : Created s s' n := by
  unfold createPHI at h
  simp only [M.bind_ok, M.pure_ok, M.assert_ok] at h
  obtain ⟨u0, s0, ⟨-, rfl⟩, node, s3, h3, u, s4, h4, rfl, rfl⟩ := h
  exact Created.of_mk (Inert.addNode_after (mkOpNode_inert (by rfl) h3) h4)

theorem createCast_created {m : Module} {I p : Value} {n : Nat}
    {s s' : LLVMPSSBuilder} (h : createCast m I p s = .ok (n, s')) : Created s s' n := by
  unfold createCast at h
  simp only [M.bind_ok, M.pure_ok] at h
  obtain ⟨op1, s1, h1, node, s3, h3, u, s4, h4, rfl, rfl⟩ := h
  exact Created.after (getOperand_inert h1)
    (Created.of_mk (Inert.addNode_after (mkOpNode_inert (by rfl) h3) h4))

theorem createPtrToInt_created {m : Module} {I p : Value} {n : Nat}
    {s s' : LLVMPSSBuilder} (h : createPtrToInt m I p s = .ok (n, s')) : Created s s' n := by
  unfold createPtrToInt at h
  simp only [M.bind_ok, M.pure_ok] at h
  obtain ⟨op1, s1, h1, node, s3, h3, u, s4, h4, rfl, rfl⟩ := h
  exact Created.after (getOperand_inert h1)
    (Created.of_mk (Inert.addNode_after (mkOpNode_inert (by rfl) h3) h4))

theorem createIntToPtr_created {m : Module} {I p : Value} {n : Nat}
    {s s' : LLVMPSSBuilder} (h : createIntToPtr m I p s = .ok (n, s')) : Created s s' n := by
  unfold createIntToPtr at h
  simp only [M.bind_ok, M.pure_ok] at h
  obtain ⟨op1, s1, h1, node, s3, h3, u, s4, h4, rfl, rfl⟩ := h
  refine Created.after ?_ (Created.of_mk (Inert.addNode_after (mkOpNode_inert (by rfl) h3) h4))
  split at h1
  · obtain ⟨-, rfl⟩ := (M.pure_ok _ _ _ _).mp h1
    exact Inert.rfl_inert _
  · simp only [M.bind_ok, M.pure_ok] at h1
    obtain ⟨k, s0, h0, -, rfl⟩ := h1
    exact getOperand_inert h0

theorem createReturn_created {m : Module} {I : Value} {rv : Option Value} {n : Nat}
    {s s' : LLVMPSSBuilder} (h : createReturn m I rv s = .ok (n, s')) : Created s s' n := by
  unfold createReturn at h
  simp only [M.bind_ok, M.pure_ok] at h
  obtain ⟨op1, s1, h1, node, s3, h3, u, s4, h4, rfl, rfl⟩ := h
  refine Created.after ?_ (Created.of_mk (Inert.addNode_after (mkOpNode_inert (by rfl) h3) h4))
  split at h1
  · split at h1
    · simp only [M.bind_ok, M.pure_ok] at h1
      obtain ⟨k, s0, h0, -, rfl⟩ := h1
      exact getOperand_inert h0
    · obtain ⟨-, rfl⟩ := (M.pure_ok _ _ _ _).mp h1
      exact Inert.rfl_inert _
  · obtain ⟨-, rfl⟩ := (M.pure_ok _ _ _ _).mp h1
    exact Inert.rfl_inert _

theorem createDynamicAlloc_created {args : List Value} {cv : Value} {type : MemAllocationFuncs}
    {n : Nat} {s s' : LLVMPSSBuilder}
    (h : createDynamicAlloc args cv type s = .ok (n, s')) : Created s s' n := by
  unfold createDynamicAlloc at h
  simp only [M.bind_ok, M.pure_ok] at h
  obtain ⟨node, s1, h1, op, s2, h2, size, s3, h3, u, s4, h4, rfl, rfl⟩ := h
  have h12 : Inert s1 s2 := by
    cases type with
    | NONEMEM => exact ((M.fail_ok _ _ _ _).mp h2).elim
    | MALLOC =>
      simp only [M.bind_ok] at h2
      obtain ⟨u1, t1, g1, g2⟩ := h2
      obtain rfl := callOperand_ok g2
      exact setIsHeap_inert g1
    | ALLOCA =>
      obtain rfl := callOperand_ok h2
      exact Inert.rfl_inert _
    | CALLOC =>
      simp only [M.bind_ok] at h2
      obtain ⟨u1, t1, g1, u2, t2, g2, g3⟩ := h2
      obtain rfl := callOperand_ok g3
      exact (setIsHeap_inert g1).trans_inert (setZeroInitialized_inert g2)
  have h23 : s2 = s3 := by
    split at h3
    · split at h3
      · simp only [M.bind_ok] at h3
        obtain ⟨op0, t1, g1, g2⟩ := h3
        obtain rfl := callOperand_ok g1
        split at g2
        · split at g2 <;> exact ((M.pure_ok _ _ _ _).mp g2).2
        · exact ((M.pure_ok _ _ _ _).mp g2).2
      · exact ((M.pure_ok _ _ _ _).mp h3).2
    · exact ((M.pure_ok _ _ _ _).mp h3).2
  subst h23
  exact ((Created.of_mk (mkOpNode_inert (by rfl) h1)).before h12).before (setSize_inert h4)

theorem createDynamicMemAlloc_created {I : Value} {args : List Value} {cv : Value}
    {type : MemAllocationFuncs} {r : Nat × Nat} {s s' : LLVMPSSBuilder}
    (h : createDynamicMemAlloc I args cv type s = .ok (r, s')) :
    Created s s' r.2 ∧ r.1 = r.2 := by
  unfold createDynamicMemAlloc at h
  simp only [M.bind_ok, M.pure_ok] at h
  obtain ⟨node, s1, h1, u, s2, h2, rfl, rfl⟩ := h
  have hc := createDynamicAlloc_created h1
  exact ⟨hc.before (addNode_inert hc.2.2 h2), rfl⟩

theorem createMemTransfer_created {m : Module} {I : Value} {id : Option Intrinsic}
    {args : List Value} {cv : Value} {n : Nat} {s s' : LLVMPSSBuilder}
    (h : createMemTransfer m I id args cv s = .ok (n, s')) : Created s s' n := by
  unfold createMemTransfer at h
  split at h
  · simp only [M.bind_ok, M.pure_ok] at h
    obtain ⟨d, s1, h1, sr, s2, h2, l, s3, h3, dn, s4, h4, sn, s5, h5, node, s6, h6, u, s7, h7,
      rfl, rfl⟩ := h
    obtain rfl := callOperand_ok h1
    obtain rfl := callOperand_ok h2
    obtain rfl := callOperand_ok h3
    exact Created.after ((getOperand_inert h4).trans_inert (getOperand_inert h5))
      (Created.of_mk (Inert.addNode_after (mkNode_inert (by rfl) h6) h7))
  · exact ((M.fail_ok _ _ _ _).mp h).elim

theorem createVarArg_created {m : Module} {I : Value} {F : Nat} {args : List Value}
    {cv : Value} {r : Nat × Nat} {s s' : LLVMPSSBuilder}
    (h : createVarArg m I F args cv s = .ok (r, s')) : Created s s' r.2 ∧ r.1 < s'.size := by
  unfold createVarArg at h
  simp only [M.bind_ok, M.get_ok, M.assert_ok] at h
  obtain ⟨s0, t0, ⟨rfl, rfl⟩, u0, t1, ⟨-, rfl⟩, h⟩ := h
  generalize (s.subgraphs_map F).args.2 = a at h
  cases a with
  | none => exact ((M.fail_ok _ _ _ _).mp h).elim
  | some arg =>
    simp only [M.bind_ok, M.pure_ok, M.assert_ok, getNodeData_ok] at h
    obtain ⟨va, s1, h1, op0, s2, h2, op, s3, h3, x, s4, ⟨-, rfl⟩, u1, s5, ⟨-, rfl⟩,
      ptr, s6, h6, S1, s7, h7, S2, s8, h8, u2, s9, h9, u3, s10, h10, u4, s11, h11, rfl, rfl⟩ := h
    obtain rfl := callOperand_ok h2
    have c1 := Created.of_mk (mkOpNode_inert (by rfl) h1)
    have i3 := getOperand_inert h3
    have c6 := Created.of_mk (mkConstant_inert h6)
    have c7 := Created.of_mk (mkOpNode_inert (by rfl) h7)
    have c8 := Created.of_mk (mkOpNode_inert (by rfl) h8)
    have va8 : Created s s8 va := ((c1.before i3).before c6.1).before (c7.1.trans_inert c8.1)
    have i9 := addNode_inert va8.2.2 h9
    have S1_8 : Created s s8 S1 :=
      (Created.after (c1.1.trans_inert (i3.trans_inert c6.1)) c7).before c8.1
    have i10 := addSuccessor_inert (va8.before i9).exit_new h10
    have i11 := addSuccessor_inert ((S1_8.before i9).before i10).exit_new h11
    have S2_8 : Created s s8 S2 := Created.after (c1.1.trans_inert (i3.trans_inert (c6.1.trans_inert c7.1))) c8
    exact ⟨((S2_8.before i9).before i10).before i11,
      (((va8.before i9).before i10).before i11).2.2⟩

/-- The self-paired `CALL` node of an unknown call. -/
theorem mkSelfPaired_inert {c : Nat} {u : Unit} {s s1 s2 : LLVMPSSBuilder}
    (h1 : mkOpNode .CALL [] s = .ok (c, s1)) (h2 : setPairedNode c c s1 = .ok (u, s2)) :
    Inert s s2 ∧ c = s.size ∧ s2.size = s.size + 1 := by
  obtain ⟨x, hk, hs, hp, -, rfl, rfl⟩ := mkOpNode_ok _ _ _ _ _ h1
  rw [setPairedNode_ok] at h2
  subst h2
  have key : ∀ i, i < s.size →
      (((s.push x).update s.size fun x => { x with pairedNode := some s.size }).node i)
        = s.node i := by
    intro i hi
    simp [ne_of_lt hi]
  refine ⟨⟨Nat.le_succ _, ?_, ?_, ?_, ?_, ?_, ?_, rfl, rfl⟩, rfl, rfl⟩
  · intro i hi
    rw [key i hi]
  · intro i hi
    rw [key i hi]
  · intro i hi
    rw [key i hi]
  · intro i hi _
    rw [key i hi]
  · intro i g1 g2
    have : i = s.size := le_antisymm (Nat.lt_succ_iff.mp g2) g1
    subst this
    right
    simp [hk]
  · intro hm v n hv
    exact Nat.lt_succ_of_lt (hm v n hv)

theorem createUnknownCall_created {I : Value} {ty : Ty} {r : Nat × Nat}
    {s s' : LLVMPSSBuilder} (h : createUnknownCall I ty s = .ok (r, s')) :
    Created s s' r.2 ∧ r.1 = r.2 := by
  unfold createUnknownCall at h
  simp only [M.bind_ok, M.pure_ok, M.assert_ok] at h
  obtain ⟨u0, s0, ⟨-, rfl⟩, call, s1, h1, u1, s2, h2, u2, s3, h3, u3, s4, h4, rfl, rfl⟩ := h
  have c := (Created.of_mk (mkSelfPaired_inert h1 h2)).before (addPointsTo_inert h3)
  exact ⟨c.before (addNode_inert c.2.2 h4), rfl⟩

theorem createIntrinsic_created {m : Module} {I : Value} {F : Nat} {id : Option Intrinsic}
    {args : List Value} {cv : Value} {r : Nat × Nat} {s s' : LLVMPSSBuilder}
    (h : createIntrinsic m I F id args cv s = .ok (r, s')) :
    Created s s' r.2 ∧ r.1 < s'.size := by
  unfold createIntrinsic at h
  split at h
  · simp only [M.bind_ok, M.pure_ok] at h
    obtain ⟨n, s1, h1, rfl, rfl⟩ := h
    have c := createMemTransfer_created h1
    exact ⟨c, c.2.2⟩
  · split at h
    · exact createVarArg_created h
    · split at h
      · simp only [M.bind_ok, M.pure_ok] at h
        obtain ⟨n, s1, h1, rfl, rfl⟩ := h
        have c := createAlloc_created h1
        exact ⟨c, c.2.2⟩
      · split at h
        · simp only [M.bind_ok, M.pure_ok] at h
          obtain ⟨op0, s0, h0, n, s1, h1, rfl, rfl⟩ := h
          obtain rfl := callOperand_ok h0
          have c := createLoad_created h1
          exact ⟨c, c.2.2⟩
        · exact ((M.fail_ok _ _ _ _).mp h).elim

theorem lowerInst_inert {m : Module} {F b i : Nat} {I : Inst} {node r : Option Nat}
    {s s' : LLVMPSSBuilder} (h : lowerInst m F b i I node s = .ok (r, s')) :
    Inert s s' ∧ (r = node ∨ ∃ n, r = some n ∧ s.size ≤ n ∧ n < s'.size) := by
  have fin : ∀ {n : Nat} {s1 : LLVMPSSBuilder}, Created s s1 n →
      Inert s s1 ∧ (some n = node ∨ ∃ k, some n = some k ∧ s.size ≤ k ∧ k < s1.size) :=
    fun c => ⟨c.1, Or.inr ⟨_, rfl, c.2.1, c.2.2⟩⟩
  have same : ∀ {r : Option Nat} {s1 : LLVMPSSBuilder},
      (pure node : M (Option Nat)) s = .ok (r, s1) →
      Inert s s1 ∧ (r = node ∨ ∃ k, r = some k ∧ s.size ≤ k ∧ k < s1.size) := by
    intro r s1 h
    obtain ⟨rfl, rfl⟩ := (M.pure_ok _ _ _ _).mp h
    exact ⟨Inert.rfl_inert _, Or.inl rfl⟩
  unfold lowerInst at h
  split at h
  · simp only [M.bind_ok, M.pure_ok] at h
    obtain ⟨n, s1, h1, rfl, rfl⟩ := h
    exact fin (createAlloc_created h1)
  · simp only [M.bind_ok, getNode_ok] at h
    obtain ⟨k, s0, ⟨-, rfl⟩, h⟩ := h
    split at h
    · simp only [M.bind_ok, M.pure_ok] at h
      obtain ⟨n, s1, h1, rfl, rfl⟩ := h
      exact fin (createStore_created h1)
    · exact same h
  · simp only [M.bind_ok, getNode_ok] at h
    obtain ⟨k, s0, ⟨-, rfl⟩, h⟩ := h
    split at h
    · simp only [M.bind_ok, M.pure_ok] at h
      obtain ⟨n, s1, h1, rfl, rfl⟩ := h
      exact fin (createLoad_created h1)
    · exact same h
  · simp only [M.bind_ok, M.pure_ok] at h
    obtain ⟨n, s1, h1, rfl, rfl⟩ := h
    exact fin (createGEP_created h1)
  · split at h
    · simp only [M.bind_ok, M.pure_ok] at h
      obtain ⟨n, s1, h1, rfl, rfl⟩ := h
      exact fin (createSelect_created h1)
    · exact same h
  · split at h
    · simp only [M.bind_ok, M.pure_ok] at h
      obtain ⟨n, s1, h1, rfl, rfl⟩ := h
      exact fin (createPHI_created h1)
    · exact same h
  · simp only [M.bind_ok, M.pure_ok] at h
    obtain ⟨n, s1, h1, rfl, rfl⟩ := h
    exact fin (createCast_created h1)
  · simp only [M.bind_ok, M.pure_ok] at h
    obtain ⟨n, s1, h1, rfl, rfl⟩ := h
    exact fin (createPtrToInt_created h1)
  · simp only [M.bind_ok, M.pure_ok] at h
    obtain ⟨n, s1, h1, rfl, rfl⟩ := h
    exact fin (createIntToPtr_created h1)
  · simp only [M.bind_ok, M.pure_ok] at h
    obtain ⟨n, s1, h1, rfl, rfl⟩ := h
    exact fin (createReturn_created h1)
  · exact same h

theorem addOperands_inert {n : Nat} {l : List Nat} :
    ∀ {u : Unit} {s s' : LLVMPSSBuilder}, addOperands n l s = .ok (u, s') → Inert s s' := by
  induction l with
  | nil =>
    intro u s s' h
    unfold addOperands at h
    obtain ⟨-, rfl⟩ := (M.pure_ok _ _ _ _).mp h
    exact Inert.rfl_inert _
  | cons r rest ih =>
    intro u s s' h
    unfold addOperands at h
    simp only [M.bind_ok] at h
    obtain ⟨u1, s1, h1, h2⟩ := h
    exact (addOperand_inert h1).trans_inert (ih h2)

theorem addPHIOperands_inert {m : Module} {n : Nat} {l : List Value} :
    ∀ {u : Unit} {s s' : LLVMPSSBuilder}, addPHIOperands m n l s = .ok (u, s') →
      Inert s s' := by
  induction l with
  | nil =>
    intro u s s' h
    unfold addPHIOperands at h
    obtain ⟨-, rfl⟩ := (M.pure_ok _ _ _ _).mp h
    exact Inert.rfl_inert _
  | cons v rest ih =>
    intro u s s' h
    unfold addPHIOperands at h
    simp only [M.bind_ok] at h
    obtain ⟨op, s1, h1, u2, s2, h2, h3⟩ := h
    exact ((getOperand_inert h1).trans_inert (addOperand_inert h2)).trans_inert (ih h3)

theorem addPHIOperandsBlock_inert {m : Module} {F b : Nat} {l : List Inst} :
    ∀ {i : Nat} {u : Unit} {s s' : LLVMPSSBuilder},
      addPHIOperandsBlock m F b l i s = .ok (u, s') → Inert s s' := by
  induction l with
  | nil =>
    intro i u s s' h
    unfold addPHIOperandsBlock at h
    obtain ⟨-, rfl⟩ := (M.pure_ok _ _ _ _).mp h
    exact Inert.rfl_inert _
  | cons I rest ih =>
    intro i u s s' h
    unfold addPHIOperandsBlock at h
    simp only [M.bind_ok] at h
    obtain ⟨u1, s1, h1, h2⟩ := h
    refine Inert.trans_inert ?_ (ih h2)
    split at h1
    · split at h1
      · simp only [M.bind_ok, M.assert_ok, getNode_ok] at h1
        obtain ⟨u0, s0, ⟨-, rfl⟩, k, t0, ⟨-, rfl⟩, h1⟩ := h1
        split at h1
        · exact addPHIOperands_inert h1
        · exact ((M.fail_ok _ _ _ _).mp h1).elim
      · obtain ⟨-, rfl⟩ := (M.pure_ok _ _ _ _).mp h1
        exact Inert.rfl_inert _
    · obtain ⟨-, rfl⟩ := (M.pure_ok _ _ _ _).mp h1
      exact Inert.rfl_inert _

theorem addPHIOperandsBlocks_inert {m : Module} {F : Nat} {l : List BasicBlock} :
    ∀ {b : Nat} {u : Unit} {s s' : LLVMPSSBuilder},
      addPHIOperandsBlocks m F l b s = .ok (u, s') → Inert s s' := by
  induction l with
  | nil =>
    intro b u s s' h
    unfold addPHIOperandsBlocks at h
    obtain ⟨-, rfl⟩ := (M.pure_ok _ _ _ _).mp h
    exact Inert.rfl_inert _
  | cons B rest ih =>
    intro b u s s' h
    unfold addPHIOperandsBlocks at h
    simp only [M.bind_ok] at h
    obtain ⟨u1, s1, h1, h2⟩ := h
    exact (addPHIOperandsBlock_inert h1).trans_inert (ih h2)

theorem addPHIOperandsFunction_inert {m : Module} {F : Nat} {u : Unit}
    {s s' : LLVMPSSBuilder} (h : addPHIOperandsFunction m F s = .ok (u, s')) : Inert s s' :=
  addPHIOperandsBlocks_inert h

theorem createCallToFunctionArgs_inert {m : Module} {args : List Value} {params : List Ty} :
    ∀ {idx : Nat} {arg : Option Nat} {r : Nat × Option Nat} {s s' : LLVMPSSBuilder},
      createCallToFunctionArgs m args params idx arg s = .ok (r, s') → Inert s s' := by
  induction params with
  | nil =>
    intro idx arg r s s' h
    unfold createCallToFunctionArgs at h
    obtain ⟨-, rfl⟩ := (M.pure_ok _ _ _ _).mp h
    exact Inert.rfl_inert _
  | cons A rest ih =>
    intro idx arg r s s' h
    unfold createCallToFunctionArgs at h
    split at h
    · cases arg with
      | none => exact ((M.fail_ok _ _ _ _).mp h).elim
      | some a =>
        simp only [M.bind_ok, getNodeData_ok, M.assert_ok] at h
        obtain ⟨v, s0, h0, op, s1, h1, u2, s2, h2, x, s3, ⟨-, rfl⟩, u4, s4, ⟨-, rfl⟩, h5⟩ := h
        obtain ⟨rfl, -⟩ := getArgOperand_ok h0
        exact ((getOperand_inert h1).trans_inert (addOperand_inert h2)).trans_inert (ih h5)
    · exact ih h

theorem createCallToFunctionVarArgs_inert {m : Module} {arg : Nat} {l : List Value} :
    ∀ {u : Unit} {s s' : LLVMPSSBuilder},
      createCallToFunctionVarArgs m arg l s = .ok (u, s') → Inert s s' := by
  induction l with
  | nil =>
    intro u s s' h
    unfold createCallToFunctionVarArgs at h
    obtain ⟨-, rfl⟩ := (M.pure_ok _ _ _ _).mp h
    exact Inert.rfl_inert _
  | cons v rest ih =>
    intro u s s' h
    unfold createCallToFunctionVarArgs at h
    simp only [M.bind_ok] at h
    obtain ⟨u1, s1, h1, h2⟩ := h
    refine Inert.trans_inert ?_ (ih h2)
    split at h1
    · simp only [M.bind_ok] at h1
      obtain ⟨op, t1, g1, g2⟩ := h1
      exact (getOperand_inert g1).trans_inert (addOperand_inert g2)
    · obtain ⟨-, rfl⟩ := (M.pure_ok _ _ _ _).mp h1
      exact Inert.rfl_inert _

theorem buildPSSBlockLink_inert {retFirst prev node : Option Nat} {r : Option Nat × Option Nat}
    {s s' : LLVMPSSBuilder} (hp : ∀ p, prev = some p → Exit s p)
    (h : buildPSSBlockLink retFirst prev node s = .ok (r, s')) :
    Inert s s' ∧ r = (if node.isSome && prev.isNone then node else retFirst, node) := by
  unfold buildPSSBlockLink at h
  simp only [M.bind_ok, M.pure_ok] at h
  obtain ⟨u, s1, h1, rfl, rfl⟩ := h
  refine ⟨?_, rfl⟩
  cases prev with
  | none =>
    obtain ⟨-, rfl⟩ := (M.pure_ok _ _ _ _).mp h1
    exact Inert.rfl_inert _
  | some p =>
    dsimp only at h1
    split at h1
    · cases node with
      | none => exact ((M.fail_ok _ _ _ _).mp h1).elim
      | some n => exact addSuccessor_inert (hp p rfl) h1
    · obtain ⟨-, rfl⟩ := (M.pure_ok _ _ _ _).mp h1
      exact Inert.rfl_inert _

theorem addReturnEdges_inert {ret : Nat} {l : List Nat} :
    ∀ {u : Unit} {s s' : LLVMPSSBuilder}, (∀ r ∈ l, Exit s r) →
      addReturnEdges ret l s = .ok (u, s') → Inert s s' := by
  induction l with
  | nil =>
    intro u s s' _ h
    unfold addReturnEdges at h
    obtain ⟨-, rfl⟩ := (M.pure_ok _ _ _ _).mp h
    exact Inert.rfl_inert _
  | cons r rest ih =>
    intro u s s' hl h
    unfold addReturnEdges at h
    simp only [M.bind_ok] at h
    obtain ⟨u1, s1, h1, h2⟩ := h
    have i1 := addSuccessor_inert (hl r (List.mem_cons_self _ _)) h1
    exact i1.trans_inert (ih (fun x hx => (hl x (List.mem_cons_of_mem _ hx)).mono_inert i1) h2)

theorem blockAddSuccessorsLoop_inert {recurse : Nat → List Nat → M (Nat × List Nat)}
    {F p : Nat}
    (hrec : ∀ S found r s s', Exit s p → recurse S found s = .ok (r, s') → Inert s s')
    {succs : List Nat} :
    ∀ {found : List Nat} {num : Nat} {r : Nat × List Nat} {s s' : LLVMPSSBuilder},
      Exit s p → blockAddSuccessorsLoop recurse F p succs found num s = .ok (r, s') →
        Inert s s' := by
  induction succs with
  | nil =>
    intro found num r s s' _ h
    unfold blockAddSuccessorsLoop at h
    obtain ⟨-, rfl⟩ := (M.pure_ok _ _ _ _).mp h
    exact Inert.rfl_inert _
  | cons S rest ih =>
    intro found num r s s' hp h
    unfold blockAddSuccessorsLoop at h
    split at h
    · exact ih hp h
    · simp only [M.bind_ok, M.get_ok, M.assert_ok] at h
      obtain ⟨s0, t0, ⟨rfl, rfl⟩, u1, t1, ⟨-, rfl⟩, h⟩ := h
      generalize (s.built_blocks (F, S)).1 = fst at h
      cases fst with
      | none =>
        simp only [M.bind_ok] at h
        obtain ⟨r1, s1, h1, h2⟩ := h
        have i1 := hrec _ _ _ _ _ hp h1
        exact i1.trans_inert (ih (hp.mono_inert i1) h2)
      | some first =>
        simp only [M.bind_ok] at h
        obtain ⟨u2, s1, h1, h2⟩ := h
        have i1 := addSuccessor_inert hp h1
        exact i1.trans_inert (ih (hp.mono_inert i1) h2)

theorem blockAddSuccessors_inert {m : Module} {F p : Nat} (fuel : Nat) :
    ∀ (block : Nat) (found : List Nat) (r : Nat × List Nat) (s s' : LLVMPSSBuilder),
      Exit s p → blockAddSuccessors m F p fuel block found s = .ok (r, s') → Inert s s' := by
  induction fuel with
  | zero =>
    intro block found r s s' _ h
    unfold blockAddSuccessors at h
    exact ((M.fail_ok _ _ _ _).mp h).elim
  | succ fuel ih =>
    intro block found r s s' hp h
    unfold blockAddSuccessors at h
    exact blockAddSuccessorsLoop_inert (fun S f r s s' hx hr => ih S f r s s' hx hr) hp h

/-! ## The shape invariant of the function phase -/

theorem isCallEntry.not_exit {s : LLVMPSSBuilder} {n : Nat} (h : isCallEntry s n) :
    ¬ Exit s n := by
  rintro ⟨-, -, h3, h4⟩
  rcases h with h | ⟨h1, h2⟩
  · exact h3 h
  · exact h2 (h4 h1)

theorem Ext.rfl_ext (s : LLVMPSSBuilder) : Ext s s :=
  ⟨le_refl _, fun _ _ => rfl, fun _ _ => rfl, fun _ _ => List.prefix_refl _,
    fun _ _ _ => rfl, fun _ _ => rfl⟩

theorem Ext.trans_ext {s1 s2 s3 : LLVMPSSBuilder} (h12 : Ext s1 s2) (h23 : Ext s2 s3) :
    Ext s1 s3 := by
  refine ⟨le_trans h12.size_le h23.size_le, ?_, ?_, ?_, ?_, ?_⟩
  · intro n hn
    rw [h23.kind_eq n (lt_of_lt_of_le hn h12.size_le), h12.kind_eq n hn]
  · intro n hn
    rw [h23.paired_eq n (lt_of_lt_of_le hn h12.size_le), h12.paired_eq n hn]
  · intro n hn
    exact (h12.succ_prefix n hn).trans (h23.succ_prefix n (lt_of_lt_of_le hn h12.size_le))
  · intro n hn hc
    have hn2 := lt_of_lt_of_le hn h12.size_le
    have hc2 : isCallEntry s2 n := by
      unfold isCallEntry at hc ⊢
      rw [h12.kind_eq n hn, h12.paired_eq n hn]
      exact hc
    rw [h23.call_succ_eq n hn2 hc2, h12.call_succ_eq n hn hc]
  · intro F hF
    have h1 := h12.subg_eq F hF
    rw [h23.subg_eq F (by rw [h1]; exact hF), h1]

theorem Inert.to_ext {s s' : LLVMPSSBuilder} (h : Inert s s') : Ext s s' :=
  ⟨h.size_le, h.kind_eq, h.paired_eq, h.succ_prefix,
    fun n hn hc => h.succ_eq n hn hc.not_exit, fun F _ => by rw [h.subg_eq]⟩

theorem Exit.after_ext {s s' : LLVMPSSBuilder} {n : Nat} (h : Exit s n) (he : Ext s s') :
    Exit s' n := by
  obtain ⟨h1, h2, h3, h4⟩ := h
  refine ⟨lt_of_lt_of_le h1 he.size_le, ?_, ?_, ?_⟩
  · rw [he.kind_eq n h1]
    exact h2
  · rw [he.kind_eq n h1]
    exact h3
  · rw [he.kind_eq n h1, he.paired_eq n h1]
    exact h4

/-- The shape invariant is kept when nodes are added and subgraphs are registered for
new `ENTRY` and `NOOP` nodes, as long as the new nodes satisfy it among themselves: new
`CALL` nodes are paired, and pending unless self-paired; new `CALL_FUNCPTR` and
`CALL_RETURN` nodes are paired; every new `ENTRY` is the root of a subgraph.  Existing
nodes that may receive successors (`Exit`) may have received some. -/
theorem WF.extend_reg {P P' : Nat → Prop} {s s' : LLVMPSSBuilder} (hwf : WF P s)
    (hsz : s.size ≤ s'.size)
    (hkind : ∀ n, n < s.size → (s'.node n).kind = (s.node n).kind)
    (hpaired : ∀ n, n < s.size → (s'.node n).pairedNode = (s.node n).pairedNode)
    (hsucc : ∀ n, n < s.size → ¬ Exit s n → (s'.node n).successors = (s.node n).successors)
    (hsubold : ∀ G, (s.subgraphs_map G).root ≠ none → s'.subgraphs_map G = s.subgraphs_map G)
    (hsubnew : ∀ G r, (s.subgraphs_map G).root = none → (s'.subgraphs_map G).root = some r →
      s.size ≤ r ∧ r < s'.size ∧ (s'.node r).kind = .ENTRY ∧
        ∃ t, (s'.subgraphs_map G).ret = some t ∧ s.size ≤ t ∧ t < s'.size ∧
          (s'.node t).kind = .NOOP ∧ (s'.node t).successors = [])
    (hnewinj : ∀ G1 G2, (s.subgraphs_map G1).root = none → (s.subgraphs_map G2).root = none →
      (s'.subgraphs_map G1).root ≠ none → (s'.subgraphs_map G2).root ≠ none →
      ((s'.subgraphs_map G1).root = (s'.subgraphs_map G2).root ∨
        (s'.subgraphs_map G1).ret = (s'.subgraphs_map G2).ret) → G1 = G2)
    (hblk : s'.built_blocks = s.built_blocks)
    (hP1 : ∀ n, P n → P' n) (hP2 : ∀ n, n < s.size → P' n → P n)
    (hP3 : ∀ n, P' n → n < s'.size)
    (hcall : ∀ n, s.size ≤ n → n < s'.size → (s'.node n).kind = .CALL →
      ∃ p, (s'.node n).pairedNode = some p ∧ p < s'.size ∧
        (p = n ∨ ((s'.node p).kind = .CALL_RETURN ∧ (s'.node p).pairedNode = some n)))
    (hpend : ∀ n, s.size ≤ n → n < s'.size → (s'.node n).kind = .CALL →
      (s'.node n).pairedNode ≠ some n → P' n ∧ (s'.node n).successors = [])
    (hfptr : ∀ n, s.size ≤ n → n < s'.size → (s'.node n).kind = .CALL_FUNCPTR →
      ∃ p, (s'.node n).pairedNode = some p ∧ p < s'.size ∧ (s'.node p).kind = .RETURN ∧
        (s'.node p).pairedNode = some n ∧ (s'.node n).successors = [p])
    (hret : ∀ q, s.size ≤ q → q < s'.size → (s'.node q).kind = .CALL_RETURN →
      ∃ c, (s'.node q).pairedNode = some c ∧ c < s'.size ∧ (s'.node c).kind = .CALL ∧
        (s'.node c).pairedNode = some q)
    (hentry : ∀ n, s.size ≤ n → n < s'.size → (s'.node n).kind = .ENTRY →
      ∃ G, (s'.subgraphs_map G).root = some n) : WF P' s' := by
  have hexit : ∀ n, Exit s n → Exit s' n := by
    rintro n ⟨h1, h2, h3, h4⟩
    refine ⟨lt_of_lt_of_le h1 hsz, ?_, ?_, ?_⟩
    · rw [hkind n h1]
      exact h2
    · rw [hkind n h1]
      exact h3
    · rw [hkind n h1, hpaired n h1]
      exact h4
  have hentrysucc : ∀ n, n < s.size → (s.node n).kind = .CALL →
      (s.node n).pairedNode ≠ some n → (s'.node n).successors = (s.node n).successors := by
    intro n hn hk hp
    exact hsucc n hn (isCallEntry.not_exit (Or.inr ⟨hk, hp⟩))
  have hreg : ∀ G r, (s.subgraphs_map G).root = some r → (s'.subgraphs_map G) = s.subgraphs_map G :=
    fun G r h => hsubold G (by rw [h]; simp)
  -- the successors of an existing direct call node are never a new root
  have hcallroot : ∀ c, c < s.size → (s.node c).kind = .CALL →
      (s.node c).pairedNode ≠ some c → ∀ r, (s.node c).successors = [r] → r < s.size := by
    intro c c1 c2 c3 r c5
    rcases hwf.call_succ c c1 c2 c3 with ⟨-, h⟩ | ⟨-, G, r', h1, h2⟩
    · rw [h] at c5
      cases c5
    · rw [h2] at c5
      cases c5
      exact (hwf.subg_ok G r h1).1
  refine ⟨hP3, ?_, ?_, ?_, ?_, ?_, ?_, ?_, ?_, ?_, ?_,
    by rw [hblk]; exact hwf.blocks_cons⟩
  · intro n hn hk
    by_cases hold : n < s.size
    · rw [hkind n hold] at hk
      obtain ⟨p, h1, h2, h3⟩ := hwf.pair_call n hold hk
      refine ⟨p, by rw [hpaired n hold]; exact h1, lt_of_lt_of_le h2 hsz, ?_⟩
      rw [hkind p h2, hpaired p h2]
      exact h3
    · exact hcall n (not_lt.mp hold) hn hk
  · intro n hn hk
    by_cases hold : n < s.size
    · rw [hkind n hold] at hk
      obtain ⟨p, h1, h2, h3, h4, h5⟩ := hwf.pair_fptr n hold hk
      refine ⟨p, by rw [hpaired n hold]; exact h1, lt_of_lt_of_le h2 hsz, ?_, ?_, ?_⟩
      · rw [hkind p h2]
        exact h3
      · rw [hpaired p h2]
        exact h4
      · rw [hsucc n hold (isCallEntry.not_exit (Or.inl hk))]
        exact h5
    · exact hfptr n (not_lt.mp hold) hn hk
  · intro q hq hk
    by_cases hold : q < s.size
    · rw [hkind q hold] at hk
      obtain ⟨c, h1, h2, h3, h4⟩ := hwf.pair_ret q hold hk
      refine ⟨c, by rw [hpaired q hold]; exact h1, lt_of_lt_of_le h2 hsz, ?_, ?_⟩
      · rw [hkind c h2]
        exact h3
      · rw [hpaired c h2]
        exact h4
    · exact hret q (not_lt.mp hold) hq hk
  · intro n hn hk hp
    by_cases hold : n < s.size
    · rw [hkind n hold] at hk
      rw [hpaired n hold] at hp
      rw [hentrysucc n hold hk hp]
      rcases hwf.call_succ n hold hk hp with ⟨h1, h2⟩ | ⟨h1, G, r, h2, h3⟩
      · exact Or.inl ⟨hP1 n h1, h2⟩
      · exact Or.inr ⟨fun h => h1 (hP2 n hold h), G, r, by rw [hreg G r h2]; exact h2, h3⟩
    · exact Or.inl (hpend n (not_lt.mp hold) hn hk hp)
  · intro F r hr
    cases hF : (s.subgraphs_map F).root with
    | none =>
      obtain ⟨g1, g2, g3, t, g4, g5, g6, g7, -⟩ := hsubnew F r hF hr
      exact ⟨g2, g3, t, g4, g6, g7⟩
    | some r0 =>
      rw [hreg F r0 hF] at hr ⊢
      obtain ⟨h1, h2, t, h3, h4, h5⟩ := hwf.subg_ok F r hr
      exact ⟨lt_of_lt_of_le h1 hsz, by rw [hkind r h1]; exact h2, t, h3,
        lt_of_lt_of_le h4 hsz, by rw [hkind t h4]; exact h5⟩
  · intro F G r h1 h2
    cases hF : (s.subgraphs_map F).root with
    | none =>
      cases hG : (s.subgraphs_map G).root with
      | none =>
        exact hnewinj F G hF hG (by rw [h1]; simp) (by rw [h2]; simp) (Or.inl (by rw [h1, h2]))
      | some r0 =>
        rw [hreg G r0 hG] at h2
        have := (hwf.subg_ok G r h2).1
        have := (hsubnew F r hF h1).1
        omega
    | some r0 =>
      cases hG : (s.subgraphs_map G).root with
      | none =>
        rw [hreg F r0 hF] at h1
        have := (hwf.subg_ok F r h1).1
        have := (hsubnew G r hG h2).1
        omega
      | some r1 =>
        rw [hreg F r0 hF] at h1
        rw [hreg G r1 hG] at h2
        exact hwf.root_inj F G r h1 h2
  · intro F G t h1 h2 h3 h4
    cases hF : (s.subgraphs_map F).root with
    | none =>
      obtain ⟨rF, hrF⟩ := Option.ne_none_iff_exists'.mp h1
      obtain ⟨-, -, -, tF, f1, f2, -⟩ := hsubnew F rF hF hrF
      rw [h3] at f1
      cases f1
      cases hG : (s.subgraphs_map G).root with
      | none => exact hnewinj F G hF hG h1 h2 (Or.inr (by rw [h3, h4]))
      | some r1 =>
        rw [hreg G r1 hG] at h4
        obtain ⟨-, -, t', g1, g2, -⟩ := hwf.subg_ok G r1 hG
        rw [h4] at g1
        cases g1
        omega
    | some r0 =>
      obtain ⟨-, -, t', f1, f2, -⟩ := hwf.subg_ok F r0 hF
      have h3' := h3
      rw [hreg F r0 hF] at h3'
      rw [h3'] at f1
      cases f1
      cases hG : (s.subgraphs_map G).root with
      | none =>
        obtain ⟨rG, hrG⟩ := Option.ne_none_iff_exists'.mp h2
        obtain ⟨-, -, -, tG, g1, g2, -⟩ := hsubnew G rG hG hrG
        rw [h4] at g1
        cases g1
        omega
      | some r1 =>
        rw [hreg G r1 hG] at h4
        exact hwf.ret_inj F G t (by rw [hF]; simp) (by rw [hG]; simp) h3' h4
  · intro n hn hk
    by_cases hold : n < s.size
    · rw [hkind n hold] at hk
      obtain ⟨G, hG⟩ := hwf.entry_root n hold hk
      exact ⟨G, by rw [hreg G n hG]; exact hG⟩
    · exact hentry n (not_lt.mp hold) hn hk
  · intro F r t hr ht
    have key : ∀ q, (∃ c, c < s'.size ∧ (s'.node c).kind = .CALL ∧
        (s'.node c).pairedNode = some q ∧ q ≠ c ∧ (s'.node c).successors = [r]) →
        ∃ c, c < s.size ∧ (s.node c).kind = .CALL ∧ (s.node c).pairedNode = some q ∧ q ≠ c ∧
          (s.node c).successors = [r] := by
      rintro q ⟨c, c1, c2, c3, c4, c5⟩
      have hcp : (s'.node c).pairedNode ≠ some c := by
        rw [c3]
        intro hx
        cases hx
        exact c4 rfl
      by_cases hold : c < s.size
      · rw [hkind c hold] at c2
        rw [hpaired c hold] at c3 hcp
        rw [hentrysucc c hold c2 hcp] at c5
        exact ⟨c, hold, c2, c3, c4, c5⟩
      · have := (hpend c (not_lt.mp hold) c1 c2 hcp).2
        rw [this] at c5
        cases c5
    cases hF : (s.subgraphs_map F).root with
    | none =>
      obtain ⟨g1, -, -, t', g4, -, -, -, g8⟩ := hsubnew F r hF hr
      rw [ht] at g4
      cases g4
      rw [g8]
      refine ⟨List.nodup_nil, fun q => ?_⟩
      constructor
      · intro hq
        cases hq
      · intro hq
        obtain ⟨c, c1, c2, c3, c4, c5⟩ := key q hq
        have hcp : (s.node c).pairedNode ≠ some c := by
          rw [c3]
          intro hx
          cases hx
          exact c4 rfl
        have := hcallroot c c1 c2 hcp r c5
        omega
    | some r0 =>
      rw [hreg F r0 hF] at hr ht
      obtain ⟨h1, h2, t', h3, h4, h5⟩ := hwf.subg_ok F r hr
      rw [ht] at h3
      cases h3
      have hts : (s'.node t).successors = (s.node t).successors :=
        hsucc t h4 (fun hx => hx.2.1 h5)
      obtain ⟨hnd, hiff⟩ := hwf.ret_succ F r t hr ht
      rw [hts]
      refine ⟨hnd, fun q => ?_⟩
      rw [hiff q]
      constructor
      · rintro ⟨c, c1, c2, c3, c4, c5⟩
        have hcp : (s.node c).pairedNode ≠ some c := by
          rw [c3]
          intro hx
          cases hx
          exact c4 rfl
        exact ⟨c, lt_of_lt_of_le c1 hsz, by rw [hkind c c1]; exact c2,
          by rw [hpaired c c1]; exact c3, c4, by rw [hentrysucc c c1 c2 hcp]; exact c5⟩
      · exact key q
  · intro F b l hl
    rw [hblk] at hl
    exact hexit l (hwf.blocks_ok F b l hl)

/-- `WF.extend_reg` when no subgraph is registered. -/
theorem WF.extend {P P' : Nat → Prop} {s s' : LLVMPSSBuilder} (hwf : WF P s)
    (hsz : s.size ≤ s'.size)
    (hkind : ∀ n, n < s.size → (s'.node n).kind = (s.node n).kind)
    (hpaired : ∀ n, n < s.size → (s'.node n).pairedNode = (s.node n).pairedNode)
    (hsucc : ∀ n, n < s.size → ¬ Exit s n → (s'.node n).successors = (s.node n).successors)
    (hsub : s'.subgraphs_map = s.subgraphs_map) (hblk : s'.built_blocks = s.built_blocks)
    (hP1 : ∀ n, P n → P' n) (hP2 : ∀ n, n < s.size → P' n → P n)
    (hP3 : ∀ n, P' n → n < s'.size)
    (hcall : ∀ n, s.size ≤ n → n < s'.size → (s'.node n).kind = .CALL →
      ∃ p, (s'.node n).pairedNode = some p ∧ p < s'.size ∧
        (p = n ∨ ((s'.node p).kind = .CALL_RETURN ∧ (s'.node p).pairedNode = some n)))
    (hpend : ∀ n, s.size ≤ n → n < s'.size → (s'.node n).kind = .CALL →
      (s'.node n).pairedNode ≠ some n → P' n ∧ (s'.node n).successors = [])
    (hfptr : ∀ n, s.size ≤ n → n < s'.size → (s'.node n).kind = .CALL_FUNCPTR →
      ∃ p, (s'.node n).pairedNode = some p ∧ p < s'.size ∧ (s'.node p).kind = .RETURN ∧
        (s'.node p).pairedNode = some n ∧ (s'.node n).successors = [p])
    (hret : ∀ q, s.size ≤ q → q < s'.size → (s'.node q).kind = .CALL_RETURN →
      ∃ c, (s'.node q).pairedNode = some c ∧ c < s'.size ∧ (s'.node c).kind = .CALL ∧
        (s'.node c).pairedNode = some q)
    (hentry : ∀ n, s.size ≤ n → n < s'.size → (s'.node n).kind ≠ .ENTRY) : WF P' s' := by
  refine hwf.extend_reg hsz hkind hpaired hsucc (fun G _ => by rw [hsub]) ?_ ?_ hblk hP1 hP2 hP3
    hcall hpend hfptr hret (fun n h1 h2 h3 => absurd h3 (hentry n h1 h2))
  · intro G r h1 h2
    rw [hsub, h1] at h2
    cases h2
  · intro G1 G2 h1 _ h3
    rw [hsub, h1] at h3
    exact absurd rfl h3

theorem WF.step_inert {P : Nat → Prop} {s s' : LLVMPSSBuilder} (hwf : WF P s) (hi : Inert s s') :
    WF P s' := by
  have hk : ∀ n, s.size ≤ n → n < s'.size → ∀ k : PSSNodeType, k.isPlain = false → k ≠ .CALL →
      (s'.node n).kind ≠ k := by
    intro n h1 h2 k hk1 hk2 hx
    rcases hi.fresh n h1 h2 with ⟨h, -⟩ | ⟨h, -⟩
    · rw [hx, hk1] at h
      cases h
    · rw [hx] at h
      exact hk2 h
  refine hwf.extend hi.size_le hi.kind_eq hi.paired_eq hi.succ_eq hi.subg_eq hi.blocks_eq
    (fun _ h => h) (fun _ _ h => h)
    (fun n h => lt_of_lt_of_le (hwf.pend_lt n h) hi.size_le) ?_ ?_ ?_ ?_ ?_
  · intro n h1 h2 hc
    rcases hi.fresh n h1 h2 with ⟨h, -⟩ | ⟨-, h⟩
    · rw [hc] at h
      cases h
    · exact ⟨n, h, h2, Or.inl rfl⟩
  · intro n h1 h2 hc hp
    rcases hi.fresh n h1 h2 with ⟨h, -⟩ | ⟨-, h⟩
    · rw [hc] at h
      cases h
    · exact absurd h hp
  · intro n h1 h2 hc
    exact absurd hc (hk n h1 h2 _ rfl (by decide))
  · intro n h1 h2 hc
    exact absurd hc (hk n h1 h2 _ rfl (by decide))
  · intro n h1 h2
    exact hk n h1 h2 _ rfl (by decide)

theorem Ext.of_old {s s' : LLVMPSSBuilder} (hsz : s.size ≤ s'.size)
    (hold : ∀ i, i < s.size → s'.node i = s.node i)
    (hsub : s'.subgraphs_map = s.subgraphs_map) : Ext s s' :=
  ⟨hsz, fun n hn => by rw [hold n hn], fun n hn => by rw [hold n hn],
    fun n hn => by rw [hold n hn], fun n hn _ => by rw [hold n hn], fun F _ => by rw [hsub]⟩

/-- The node pair of an indirect call (`createCall`, lines 530-536). -/
theorem funcPtrPair_wf {P : Nat → Prop} {ops : List (Option Nat)} {cf rc : Nat}
    {u1 u2 u3 : Unit} {s s1 s2 s3 s4 s5 : LLVMPSSBuilder} (hwf : WF P s)
    (h1 : mkOpNode .CALL_FUNCPTR ops s = .ok (cf, s1))
    (h2 : mkOpNode .RETURN [] s1 = .ok (rc, s2))
    (h3 : setPairedNode rc cf s2 = .ok (u1, s3))
    (h4 : setPairedNode cf rc s3 = .ok (u2, s4))
    (h5 : addSuccessor cf rc s4 = .ok (u3, s5)) :
    WF P s5 ∧ Ext s s5 ∧ Exit s5 rc ∧ cf < s5.size := by
  obtain ⟨x, xk, xs, xp, -, rfl, rfl⟩ := mkOpNode_ok _ _ _ _ _ h1
  obtain ⟨y, yk, ys, yp, -, rfl, rfl⟩ := mkOpNode_ok _ _ _ _ _ h2
  rw [setPairedNode_ok] at h3
  subst h3
  rw [setPairedNode_ok] at h4
  subst h4
  rw [addSuccessor_ok] at h5
  subst h5
  simp only [LLVMPSSBuilder.push_size] at *
  have hold : ∀ i, i < s.size → ((((((s.push x).push y).update (s.size + 1) fun x =>
      { x with pairedNode := some s.size }).update s.size fun x =>
      { x with pairedNode := some (s.size + 1) }).update s.size fun x =>
      { x with successors := x.successors ++ [s.size + 1] }).node i) = s.node i := by
    intro i hi
    have h1 : i ≠ s.size := ne_of_lt hi
    have h2 : i ≠ s.size + 1 := ne_of_lt (Nat.lt_succ_of_lt hi)
    simp [h1, h2]
  have hcf : ((((((s.push x).push y).update (s.size + 1) fun x =>
      { x with pairedNode := some s.size }).update s.size fun x =>
      { x with pairedNode := some (s.size + 1) }).update s.size fun x =>
      { x with successors := x.successors ++ [s.size + 1] }).node s.size) =
      { x with pairedNode := some (s.size + 1), successors := x.successors ++ [s.size + 1] } := by
    simp
  have hrc : ((((((s.push x).push y).update (s.size + 1) fun x =>
      { x with pairedNode := some s.size }).update s.size fun x =>
      { x with pairedNode := some (s.size + 1) }).update s.size fun x =>
      { x with successors := x.successors ++ [s.size + 1] }).node (s.size + 1)) =
      { y with pairedNode := some s.size } := by
    simp
  have hsz : ((((((s.push x).push y).update (s.size + 1) fun x =>
      { x with pairedNode := some s.size }).update s.size fun x =>
      { x with pairedNode := some (s.size + 1) }).update s.size fun x =>
      { x with successors := x.successors ++ [s.size + 1] }).size) = s.size + 2 := rfl
  have hsub : ((((((s.push x).push y).update (s.size + 1) fun x =>
      { x with pairedNode := some s.size }).update s.size fun x =>
      { x with pairedNode := some (s.size + 1) }).update s.size fun x =>
      { x with successors := x.successors ++ [s.size + 1] }).subgraphs_map) =
      s.subgraphs_map := rfl
  have hblk : ((((((s.push x).push y).update (s.size + 1) fun x =>
      { x with pairedNode := some s.size }).update s.size fun x =>
      { x with pairedNode := some (s.size + 1) }).update s.size fun x =>
      { x with successors := x.successors ++ [s.size + 1] }).built_blocks) =
      s.built_blocks := rfl
  generalize ((((((s.push x).push y).update (s.size + 1) fun x =>
      { x with pairedNode := some s.size }).update s.size fun x =>
      { x with pairedNode := some (s.size + 1) }).update s.size fun x =>
      { x with successors := x.successors ++ [s.size + 1] })) = s5 at *
  have hnew : ∀ n, s.size ≤ n → n < s5.size → n = s.size ∨ n = s.size + 1 := by
    intro n g1 g2
    omega
  refine ⟨?_, Ext.of_old (by omega) hold hsub, ?_, by omega⟩
  · refine hwf.extend (by omega) (fun n hn => by rw [hold n hn]) (fun n hn => by rw [hold n hn])
      (fun n hn _ => by rw [hold n hn]) hsub hblk (fun _ h => h) (fun _ _ h => h)
      (fun n h => lt_of_lt_of_le (hwf.pend_lt n h) (by omega)) ?_ ?_ ?_ ?_ ?_
    · intro n g1 g2 gk
      rcases hnew n g1 g2 with rfl | rfl
      · rw [hcf] at gk
        simp [xk] at gk
      · rw [hrc] at gk
        simp [yk] at gk
    · intro n g1 g2 gk
      rcases hnew n g1 g2 with rfl | rfl
      · rw [hcf] at gk
        simp [xk] at gk
      · rw [hrc] at gk
        simp [yk] at gk
    · intro n g1 g2 gk
      rcases hnew n g1 g2 with rfl | rfl
      · refine ⟨s.size + 1, ?_, by omega, ?_, ?_, ?_⟩
        · rw [hcf]
        · rw [hrc]
          exact yk
        · rw [hrc]
        · rw [hcf]
          simp [xs]
      · rw [hrc] at gk
        simp [yk] at gk
    · intro n g1 g2 gk
      rcases hnew n g1 g2 with rfl | rfl
      · rw [hcf] at gk
        simp [xk] at gk
      · rw [hrc] at gk
        simp [yk] at gk
    · intro n g1 g2
      rcases hnew n g1 g2 with rfl | rfl
      · rw [hcf]
        simp [xk]
      · rw [hrc]
        simp [yk]
  · refine ⟨by omega, ?_, ?_, ?_⟩ <;> rw [hrc] <;> simp [yk]

/-- The `CALL_RETURN` and `CALL` nodes of a direct call, paired
(`createCallToFunction`, lines 310-314): the new `CALL` is pending. -/
theorem callPair_wf {P : Nat → Prop} {q c : Nat} {u1 u2 : Unit}
    {s s1 s2 s3 s4 : LLVMPSSBuilder} (hwf : WF P s)
    (h1 : mkOpNode .CALL_RETURN [] s = .ok (q, s1))
    (h2 : mkOpNode .CALL [] s1 = .ok (c, s2))
    (h3 : setPairedNode q c s2 = .ok (u1, s3))
    (h4 : setPairedNode c q s3 = .ok (u2, s4)) :
    WF (fun n => P n ∨ n = c) s4 ∧ Ext s s4 ∧ q = s.size ∧ c = s.size + 1 ∧
      s4.size = s.size + 2 ∧ (s4.node c).kind = .CALL ∧ (s4.node c).pairedNode = some q ∧
      (s4.node c).successors = [] ∧ (s4.node q).kind = .CALL_RETURN ∧
      (s4.node q).pairedNode = some c := by
  obtain ⟨x, xk, xs, xp, -, rfl, rfl⟩ := mkOpNode_ok _ _ _ _ _ h1
  obtain ⟨y, yk, ys, yp, -, rfl, rfl⟩ := mkOpNode_ok _ _ _ _ _ h2
  rw [setPairedNode_ok] at h3
  subst h3
  rw [setPairedNode_ok] at h4
  subst h4
  simp only [LLVMPSSBuilder.push_size] at *
  have hold : ∀ i, i < s.size → (((((s.push x).push y).update s.size fun x =>
      { x with pairedNode := some (s.size + 1) }).update (s.size + 1) fun x =>
      { x with pairedNode := some s.size }).node i) = s.node i := by
    intro i hi
    have h1 : i ≠ s.size := ne_of_lt hi
    have h2 : i ≠ s.size + 1 := ne_of_lt (Nat.lt_succ_of_lt hi)
    simp [h1, h2]
  have hq : (((((s.push x).push y).update s.size fun x =>
      { x with pairedNode := some (s.size + 1) }).update (s.size + 1) fun x =>
      { x with pairedNode := some s.size }).node s.size) =
      { x with pairedNode := some (s.size + 1) } := by
    simp
  have hc : (((((s.push x).push y).update s.size fun x =>
      { x with pairedNode := some (s.size + 1) }).update (s.size + 1) fun x =>
      { x with pairedNode := some s.size }).node (s.size + 1)) =
      { y with pairedNode := some s.size } := by
    simp
  have hsz : (((((s.push x).push y).update s.size fun x =>
      { x with pairedNode := some (s.size + 1) }).update (s.size + 1) fun x =>
      { x with pairedNode := some s.size }).size) = s.size + 2 := rfl
  have hsub : (((((s.push x).push y).update s.size fun x =>
      { x with pairedNode := some (s.size + 1) }).update (s.size + 1) fun x =>
      { x with pairedNode := some s.size }).subgraphs_map) = s.subgraphs_map := rfl
  have hblk : (((((s.push x).push y).update s.size fun x =>
      { x with pairedNode := some (s.size + 1) }).update (s.size + 1) fun x =>
      { x with pairedNode := some s.size }).built_blocks) = s.built_blocks := rfl
  generalize ((((s.push x).push y).update s.size fun x =>
      { x with pairedNode := some (s.size + 1) }).update (s.size + 1) fun x =>
      { x with pairedNode := some s.size }) = s4 at *
  have hnew : ∀ n, s.size ≤ n → n < s4.size → n = s.size ∨ n = s.size + 1 := by
    intro n g1 g2
    omega
  refine ⟨?_, Ext.of_old (by omega) hold hsub, trivial, trivial, hsz, by rw [hc]; exact yk,
    by rw [hc], by rw [hc]; exact ys, by rw [hq]; exact xk, by rw [hq]⟩
  refine hwf.extend (by omega) (fun n hn => by rw [hold n hn]) (fun n hn => by rw [hold n hn])
    (fun n hn _ => by rw [hold n hn]) hsub hblk (fun _ h => Or.inl h) ?_ ?_ ?_ ?_ ?_ ?_ ?_
  · rintro n hn (h | rfl)
    · exact h
    · omega
  · rintro n (h | rfl)
    · exact lt_of_lt_of_le (hwf.pend_lt n h) (by omega)
    · omega
  · intro n g1 g2 gk
    rcases hnew n g1 g2 with rfl | rfl
    · rw [hq] at gk
      simp [xk] at gk
    · refine ⟨s.size, by rw [hc], by omega, Or.inr ⟨?_, ?_⟩⟩
      · rw [hq]
        exact xk
      · rw [hq]
  · intro n g1 g2 gk _
    rcases hnew n g1 g2 with rfl | rfl
    · rw [hq] at gk
      simp [xk] at gk
    · exact ⟨Or.inr rfl, by rw [hc]; exact ys⟩
  · intro n g1 g2 gk
    rcases hnew n g1 g2 with rfl | rfl
    · rw [hq] at gk
      simp [xk] at gk
    · rw [hc] at gk
      simp [yk] at gk
  · intro n g1 g2 gk
    rcases hnew n g1 g2 with rfl | rfl
    · refine ⟨s.size + 1, by rw [hq], by omega, ?_, ?_⟩
      · rw [hc]
        exact yk
      · rw [hc]
    · rw [hc] at gk
      simp [yk] at gk
  · intro n g1 g2
    rcases hnew n g1 g2 with rfl | rfl
    · rw [hq]
      simp [xk]
    · rw [hc]
      simp [yk]

/-- The two edges of a direct call (`createCallToFunction`, lines 332-333): the pending
`CALL` node `c` gets the callee's root as successor, the callee's `ret` gets the
`CALL_RETURN` node `q`. -/
theorem callEdges_wf {P P' : Nat → Prop} {F c q r t : Nat} {s5 s7 : LLVMPSSBuilder}
    (hwf : WF P' s5) (hP' : ∀ n, P' n ↔ (P n ∨ n = c)) (hPc : ¬ P c)
    (hc : c < s5.size) (hck : (s5.node c).kind = .CALL)
    (hcp : (s5.node c).pairedNode = some q) (hqc : q ≠ c) (hcs : (s5.node c).successors = [])
    (hqp : (s5.node q).pairedNode = some c)
    (hr : (s5.subgraphs_map F).root = some r) (ht : (s5.subgraphs_map F).ret = some t)
    (hsz : s7.size = s5.size)
    (hkind : ∀ i, (s7.node i).kind = (s5.node i).kind)
    (hpaired : ∀ i, (s7.node i).pairedNode = (s5.node i).pairedNode)
    (hsc : (s7.node c).successors = [r])
    (hst : (s7.node t).successors = (s5.node t).successors ++ [q])
    (hso : ∀ i, i ≠ c → i ≠ t → (s7.node i).successors = (s5.node i).successors)
    (hsub : s7.subgraphs_map = s5.subgraphs_map) (hblk : s7.built_blocks = s5.built_blocks) :
    WF P s7 := by
  obtain ⟨hrlt, hrk, t', ht', htlt, htk⟩ := hwf.subg_ok F r hr
  rw [ht] at ht'
  cases ht'
  have hct : c ≠ t := by
    intro h
    rw [h, htk] at hck
    cases hck
  have hPn : ∀ n, n ≠ c → (P' n ↔ P n) := by
    intro n hn
    rw [hP']
    exact ⟨fun h => h.elim id (fun h => absurd h hn), Or.inl⟩
  have hne : ∀ n, (s5.node n).kind = .CALL → n ≠ t := by
    intro n hk h
    rw [h, htk] at hk
    cases hk
  -- a direct call node whose successor list is a root is not `c`
  have hnotc : ∀ n r', (s5.node n).successors = [r'] → n ≠ c := by
    intro n r' h hn
    rw [hn, hcs] at h
    cases h
  refine ⟨?_, ?_, ?_, ?_, ?_, ?_, ?_, ?_, ?_, ?_, ?_,
    by rw [hblk]; exact hwf.blocks_cons⟩
  · intro n hn
    rw [hsz]
    exact hwf.pend_lt n ((hP' n).mpr (Or.inl hn))
  · intro n hn hk
    rw [hsz] at hn
    rw [hkind] at hk
    obtain ⟨p, h1, h2, h3⟩ := hwf.pair_call n hn hk
    refine ⟨p, by rw [hpaired]; exact h1, by rw [hsz]; exact h2, ?_⟩
    rw [hkind, hpaired]
    exact h3
  · intro n hn hk
    rw [hsz] at hn
    rw [hkind] at hk
    obtain ⟨p, h1, h2, h3, h4, h5⟩ := hwf.pair_fptr n hn hk
    have n1 : n ≠ c := by
      intro h
      rw [h, hck] at hk
      cases hk
    have n2 : n ≠ t := by
      intro h
      rw [h, htk] at hk
      cases hk
    refine ⟨p, by rw [hpaired]; exact h1, by rw [hsz]; exact h2, by rw [hkind]; exact h3,
      by rw [hpaired]; exact h4, by rw [hso n n1 n2]; exact h5⟩
  · intro n hn hk
    rw [hsz] at hn
    rw [hkind] at hk
    obtain ⟨p, h1, h2, h3, h4⟩ := hwf.pair_ret n hn hk
    exact ⟨p, by rw [hpaired]; exact h1, by rw [hsz]; exact h2, by rw [hkind]; exact h3,
      by rw [hpaired]; exact h4⟩
  · intro n hn hk hp
    rw [hsz] at hn
    rw [hkind] at hk
    rw [hpaired] at hp
    rw [hsub]
    by_cases hnc : n = c
    · subst hnc
      exact Or.inr ⟨hPc, F, r, hr, hsc⟩
    · rw [hso n hnc (hne n hk)]
      rcases hwf.call_succ n hn hk hp with ⟨h1, h2⟩ | ⟨h1, h2⟩
      · exact Or.inl ⟨(hPn n hnc).mp h1, h2⟩
      · exact Or.inr ⟨fun h => h1 ((hPn n hnc).mpr h), h2⟩
  · intro G r' hr'
    rw [hsub] at hr' ⊢
    obtain ⟨h1, h2, t2, h3, h4, h5⟩ := hwf.subg_ok G r' hr'
    exact ⟨by rw [hsz]; exact h1, by rw [hkind]; exact h2, t2, h3, by rw [hsz]; exact h4,
      by rw [hkind]; exact h5⟩
  · intro G1 G2 r' h1 h2
    rw [hsub] at h1 h2
    exact hwf.root_inj G1 G2 r' h1 h2
  · intro G1 G2 t2 h1 h2 h3 h4
    rw [hsub] at h1 h2 h3 h4
    exact hwf.ret_inj G1 G2 t2 h1 h2 h3 h4
  · intro n hn hk
    rw [hsz] at hn
    rw [hkind] at hk
    rw [hsub]
    exact hwf.entry_root n hn hk
  · intro G rG tG hrG htG
    rw [hsub] at hrG htG
    obtain ⟨hnd, hiff⟩ := hwf.ret_succ G rG tG hrG htG
    obtain ⟨-, -, t2, g3, g4, g5⟩ := hwf.subg_ok G rG hrG
    rw [htG] at g3
    cases g3
    have htGc : tG ≠ c := by
      intro h
      rw [h, hck] at g5
      cases g5
    by_cases hG : tG = t
    · subst hG
      have hGF : G = F := hwf.ret_inj G F tG (by rw [hrG]; simp) (by rw [hr]; simp) htG ht
      subst hGF
      rw [hr] at hrG
      cases hrG
      have hqn : q ∉ (s5.node tG).successors := by
        intro hq
        obtain ⟨c', c1, c2, c3, c4, c5⟩ := (hiff q).mp hq
        obtain ⟨p, p1, p2, p3⟩ := hwf.pair_call c' c1 c2
        rw [c3] at p1
        cases p1
        rcases p3 with p3 | ⟨-, p3⟩
        · exact c4 p3
        · rw [hqp] at p3
          cases p3
          rw [hcs] at c5
          cases c5
      rw [hst]
      refine ⟨List.Nodup.append hnd (List.nodup_singleton q) ?_, fun q' => ?_⟩
      · intro a ha1 ha2
        rw [List.mem_singleton] at ha2
        subst ha2
        exact hqn ha1
      · rw [List.mem_append, List.mem_singleton, hiff q', hsz]
        constructor
        · rintro (⟨c', c1, c2, c3, c4, c5⟩ | rfl)
          · exact ⟨c', c1, by rw [hkind]; exact c2, by rw [hpaired]; exact c3, c4,
              by rw [hso c' (hnotc c' _ c5) (hne c' c2)]; exact c5⟩
          · exact ⟨c, hc, by rw [hkind]; exact hck, by rw [hpaired]; exact hcp, hqc, hsc⟩
        · rintro ⟨c', c1, c2, c3, c4, c5⟩
          rw [hkind] at c2
          rw [hpaired] at c3
          by_cases hcc : c' = c
          · subst hcc
            rw [hcp] at c3
            cases c3
            exact Or.inr rfl
          · rw [hso c' hcc (hne c' c2)] at c5
            exact Or.inl ⟨c', c1, c2, c3, c4, c5⟩
    · rw [hso tG htGc hG]
      refine ⟨hnd, fun q' => ?_⟩
      rw [hiff q', hsz]
      constructor
      · rintro ⟨c', c1, c2, c3, c4, c5⟩
        exact ⟨c', c1, by rw [hkind]; exact c2, by rw [hpaired]; exact c3, c4,
          by rw [hso c' (hnotc c' _ c5) (hne c' c2)]; exact c5⟩
      · rintro ⟨c', c1, c2, c3, c4, c5⟩
        rw [hkind] at c2
        rw [hpaired] at c3
        by_cases hcc : c' = c
        · subst hcc
          rw [hsc] at c5
          cases c5
          have := hwf.root_inj G F _ hrG hr
          subst this
          rw [ht] at htG
          cases htG
          exact absurd rfl hG
        · rw [hso c' hcc (hne c' c2)] at c5
          exact ⟨c', c1, c2, c3, c4, c5⟩
  · intro G b l hl
    rw [hblk] at hl
    obtain ⟨h1, h2, h3, h4⟩ := hwf.blocks_ok G b l hl
    refine ⟨by rw [hsz]; exact h1, ?_, ?_, ?_⟩
    · rw [hkind]
      exact h2
    · rw [hkind]
      exact h3
    · rw [hkind, hpaired]
      exact h4

theorem createCallToFunction_wf {m : Module} {build : Nat → M Nat} (hb : BuildOK build)
    {P : Nat → Prop} {ty : Ty} {args : List Value} {F : Nat} {res : Nat × Nat}
    {s s' : LLVMPSSBuilder} (hwf : WF P s)
    (h : createCallToFunction m build ty args F s = .ok (res, s')) :
    WF P s' ∧ Ext s s' ∧ Exit s' res.2 ∧ res.1 < s'.size ∧
      s.size ≤ res.1 ∧ (s'.node res.1).kind = .CALL ∧
      (s'.node res.1).pairedNode = some res.2 ∧ res.2 ≠ res.1 ∧
      ∃ r, (s'.subgraphs_map F).root = some r ∧ (s'.node res.1).successors = [r] := by
  unfold createCallToFunction at h
  simp only [M.bind_ok, M.get_ok] at h
  obtain ⟨q, s1, h1, c, s2, h2, u3, s3, h3, u4, s4, h4, s0, t0, ⟨rfl, rfl⟩, subg, s5, hsubg, h⟩ := h
  obtain ⟨hwf4, hext4, hq, hcv, hsz4, hck4, hcp4, hcs4, hqk4, hqp4⟩ := callPair_wf hwf h1 h2 h3 h4
  have hclt4 : c < s4.size := by omega
  have hqlt4 : q < s4.size := by omega
  have hqc : q ≠ c := by omega
  -- the callee's subgraph, built now if it was not there
  have h5 : WF (fun n => P n ∨ n = c) s5 ∧ Ext s4 s5 ∧ subg = s5.subgraphs_map F := by
    split at hsubg
    · simp only [M.bind_ok, M.get_ok, M.pure_ok] at hsubg
      obtain ⟨r0, t1, hbuild, t2, t3, ⟨rfl, rfl⟩, rfl, rfl⟩ := hsubg
      have hnone : (s4.subgraphs_map F).root = none := by
        cases hx : (s4.subgraphs_map F).root with
        | none => rfl
        | some v =>
          rename_i hcond
          rw [hx] at hcond
          simp at hcond
      obtain ⟨g1, g2⟩ := hb _ F r0 s4 _ hwf4 hnone hbuild
      exact ⟨g1, g2, rfl⟩
    · obtain ⟨rfl, rfl⟩ := (M.pure_ok _ _ _ _).mp hsubg
      exact ⟨hwf4, Ext.rfl_ext _, rfl⟩
  obtain ⟨hwf5, hext5, rfl⟩ := h5
  have hck5 : (s5.node c).kind = .CALL := by rw [hext5.kind_eq c hclt4]; exact hck4
  have hcp5 : (s5.node c).pairedNode = some q := by rw [hext5.paired_eq c hclt4]; exact hcp4
  have hcs5 : (s5.node c).successors = [] := by
    rw [hext5.call_succ_eq c hclt4 (Or.inr ⟨hck4, by rw [hcp4]; intro hx; cases hx; exact hqc rfl⟩)]
    exact hcs4
  have hqk5 : (s5.node q).kind = .CALL_RETURN := by rw [hext5.kind_eq q hqlt4]; exact hqk4
  have hqp5 : (s5.node q).pairedNode = some c := by rw [hext5.paired_eq q hqlt4]; exact hqp4
  cases hroot : (s5.subgraphs_map F).root with
  | none =>
    simp only [hroot] at h
    exact ((M.fail_ok _ _ _ _).mp h).elim
  | some root =>
  cases hret : (s5.subgraphs_map F).ret with
  | none =>
    simp only [hroot, hret] at h
    exact ((M.fail_ok _ _ _ _).mp h).elim
  | some ret =>
    simp only [hroot, hret, M.bind_ok, M.pure_ok] at h
    obtain ⟨u6, s6, h6, u7, s7, h7, r8, s8, h8, u9, s9, h9, u10, s10, h10, rfl, rfl⟩ := h
    obtain ⟨hrlt, hrk, t', ht', htlt, htk⟩ := hwf5.subg_ok F root hroot
    rw [hret] at ht'
    cases ht'
    have hct : c ≠ ret := by
      intro hx
      rw [hx, htk] at hck5
      cases hck5
    rw [addSuccessor_ok] at h6
    subst h6
    rw [addSuccessor_ok] at h7
    subst h7
    have hkind : ∀ i, (((s5.update c fun x => { x with successors := x.successors ++ [root] }).update
        ret fun x => { x with successors := x.successors ++ [q] }).node i).kind =
        (s5.node i).kind := by
      intro i
      simp only [LLVMPSSBuilder.update_node]
      split
      · split
        · subst_vars
          rfl
        · subst_vars
          rfl
      · split
        · subst_vars
          rfl
        · rfl
    have hpaired : ∀ i, (((s5.update c fun x => { x with successors := x.successors ++ [root] }).update
        ret fun x => { x with successors := x.successors ++ [q] }).node i).pairedNode =
        (s5.node i).pairedNode := by
      intro i
      simp only [LLVMPSSBuilder.update_node]
      split
      · split
        · subst_vars
          rfl
        · subst_vars
          rfl
      · split
        · subst_vars
          rfl
        · rfl
    have hsc : (((s5.update c fun x => { x with successors := x.successors ++ [root] }).update
        ret fun x => { x with successors := x.successors ++ [q] }).node c).successors =
        [root] := by
      simp [hct, hcs5]
    have hst : (((s5.update c fun x => { x with successors := x.successors ++ [root] }).update
        ret fun x => { x with successors := x.successors ++ [q] }).node ret).successors =
        (s5.node ret).successors ++ [q] := by
      simp [Ne.symm hct]
    have hso : ∀ i, i ≠ c → i ≠ ret →
        (((s5.update c fun x => { x with successors := x.successors ++ [root] }).update
        ret fun x => { x with successors := x.successors ++ [q] }).node i).successors =
        (s5.node i).successors := by
      intro i g1 g2
      simp [g1, g2]
    have hsz7 : ((s5.update c fun x => { x with successors := x.successors ++ [root] }).update
        ret fun x => { x with successors := x.successors ++ [q] }).size = s5.size := rfl
    have hsub7 : ((s5.update c fun x => { x with successors := x.successors ++ [root] }).update
        ret fun x => { x with successors := x.successors ++ [q] }).subgraphs_map =
        s5.subgraphs_map := rfl
    have hblk7 : ((s5.update c fun x => { x with successors := x.successors ++ [root] }).update
        ret fun x => { x with successors := x.successors ++ [q] }).built_blocks =
        s5.built_blocks := rfl
    generalize ((s5.update c fun x => { x with successors := x.successors ++ [root] }).update
        ret fun x => { x with successors := x.successors ++ [q] }) = s7 at *
    have hPc : ¬ P c := by
      intro hx
      have := hwf.pend_lt c hx
      omega
    have hwf7 : WF P s7 :=
      callEdges_wf hwf5 (fun n => Iff.rfl) hPc (lt_of_lt_of_le hclt4 hext5.size_le) hck5 hcp5
        hqc hcs5 hqp5 hroot hret hsz7 hkind hpaired hsc hst hso hsub7 hblk7
    have hext05 : Ext s s5 := hext4.trans_ext hext5
    have hext7 : Ext s s7 := by
      refine ⟨by rw [hsz7]; exact hext05.size_le, ?_, ?_, ?_, ?_, ?_⟩
      · intro n hn
        rw [hkind, hext05.kind_eq n hn]
      · intro n hn
        rw [hpaired, hext05.paired_eq n hn]
      · intro n hn
        have hnc : n ≠ c := by omega
        by_cases hnt : n = ret
        · subst hnt
          rw [hst]
          exact (hext05.succ_prefix n hn).trans (List.prefix_append _ _)
        · rw [hso n hnc hnt]
          exact hext05.succ_prefix n hn
      · intro n hn hce
        have hnc : n ≠ c := by omega
        have hnt : n ≠ ret := by
          intro hx
          subst hx
          have hk := hext05.kind_eq n hn
          rw [htk] at hk
          rcases hce with hce | ⟨hce, -⟩
          · rw [hce] at hk
            cases hk
          · rw [hce] at hk
            cases hk
        rw [hso n hnc hnt]
        exact hext05.call_succ_eq n hn hce
      · intro G hG
        rw [hsub7]
        exact hext05.subg_eq G hG
    have hex7 : Exit s7 q := by
      refine ⟨by rw [hsz7]; exact lt_of_lt_of_le hqlt4 hext5.size_le, ?_, ?_, ?_⟩
      · rw [hkind, hqk5]
        decide
      · rw [hkind, hqk5]
        decide
      · rw [hkind, hqk5]
        intro hx
        cases hx
    have i8 : Inert s7 s8 := createCallToFunctionArgs_inert h8
    have i9 : Inert s8 s9 := by
      split at h9
      · cases ha : r8.2 with
        | none =>
          simp only [ha] at h9
          exact ((M.fail_ok _ _ _ _).mp h9).elim
        | some a =>
          simp only [ha] at h9
          exact createCallToFunctionVarArgs_inert h9
      · obtain ⟨-, rfl⟩ := (M.pure_ok _ _ _ _).mp h9
        exact Inert.rfl_inert _
    have i10 : Inert s9 s10 := by
      split at h10
      · simp only [M.bind_ok, M.get_ok] at h10
        obtain ⟨t1, t2, ⟨rfl, rfl⟩, h10⟩ := h10
        exact addOperands_inert h10
      · obtain ⟨-, rfl⟩ := (M.pure_ok _ _ _ _).mp h10
        exact Inert.rfl_inert _
    have i710 := (i8.trans_inert i9).trans_inert i10
    have hclt7 : c < s7.size := by
      rw [hsz7]
      exact lt_of_lt_of_le hclt4 hext5.size_le
    have hnex7 : ¬ Exit s7 c := by
      intro hx
      have := hx.2.2.2 (by rw [hkind]; exact hck5)
      rw [hpaired, hcp5] at this
      cases this
      exact hqc rfl
    refine ⟨hwf7.step_inert i710, hext7.trans_ext i710.to_ext, hex7.mono_inert i710,
      lt_of_lt_of_le hclt7 i710.size_le, by omega, ?_, ?_, hqc, root, ?_, ?_⟩
    · rw [i710.kind_eq c hclt7, hkind]
      exact hck5
    · rw [i710.paired_eq c hclt7, hpaired]
      exact hcp5
    · rw [i710.subg_eq, hsub7]
      exact hroot
    · rw [i710.succ_eq c hclt7 hnex7]
      exact hsc

theorem createOrGetSubgraph_wf {m : Module} {build : Nat → M Nat} (hb : BuildOK build)
    {P : Nat → Prop} {I : Value} {ty : Ty} {args : List Value} {F : Nat} {res : Nat × Nat}
    {s s' : LLVMPSSBuilder} (hwf : WF P s)
    (h : createOrGetSubgraph m build I ty args F s = .ok (res, s')) :
    WF P s' ∧ Ext s s' ∧ Exit s' res.2 := by
  unfold createOrGetSubgraph at h
  simp only [M.bind_ok, M.pure_ok] at h
  obtain ⟨cf, s1, h1, u, s2, h2, rfl, rfl⟩ := h
  obtain ⟨g1, g2, g3, g4, -⟩ := createCallToFunction_wf hb hwf h1
  have i2 := addNode_inert g4 h2
  exact ⟨g1.step_inert i2, g2.trans_ext i2.to_ext, g3.mono_inert i2⟩

theorem Created.wf {P : Nat → Prop} {s s' : LLVMPSSBuilder} {n : Nat} (hwf : WF P s)
    (h : Created s s' n) : WF P s' ∧ Ext s s' ∧ Exit s' n :=
  ⟨hwf.step_inert h.1, h.1.to_ext, h.exit_new⟩

theorem createCall_wf {m : Module} {build : Nat → M Nat} (hb : BuildOK build)
    {P : Nat → Prop} {I : Value} {F : Nat} {ty : Ty} {cv : Value} {args : List Value}
    {res : Nat × Nat} {s s' : LLVMPSSBuilder} (hwf : WF P s)
    (h : createCall m build I F ty cv args s = .ok (res, s')) :
    WF P s' ∧ Ext s s' ∧ Exit s' res.2 := by
  unfold createCall at h
  cases hf : (stripPointerCasts m cv).asFunction with
  | some f =>
    simp only [hf, M.bind_ok, M.ofExcept_ok] at h
    obtain ⟨type, s0, ⟨-, rfl⟩, h⟩ := h
    split at h
    · exact Created.wf hwf (createDynamicMemAlloc_created h).1
    · split at h
      · exact Created.wf hwf (createIntrinsic_created h).1
      · split at h
        · exact Created.wf hwf (createUnknownCall_created h).1
        · exact createOrGetSubgraph_wf hb hwf h
  | none =>
    simp only [hf, M.bind_ok, M.pure_ok] at h
    obtain ⟨op, s1, h1, cf, s2, h2, rc, s3, h3, u4, s4, h4, u5, s5, h5, u6, s6, h6, u7, s7, h7,
      rfl, rfl⟩ := h
    have i1 := getOperand_inert h1
    obtain ⟨g1, g2, g3, g4⟩ := funcPtrPair_wf (hwf.step_inert i1) h2 h3 h4 h5 h6
    have i7 := addNode_inert g4 h7
    exact ⟨g1.step_inert i7, (i1.to_ext.trans_ext g2).trans_ext i7.to_ext, g3.mono_inert i7⟩

theorem buildPSSBlockInst_wf {m : Module} {build : Nat → M Nat} (hb : BuildOK build)
    {P : Nat → Prop} {F b i : Nat} {I : Inst} {retFirst node : Option Nat}
    {res : Option Nat × Option Nat} {s s' : LLVMPSSBuilder} (hwf : WF P s)
    (hnode : ∀ n, node = some n → Exit s n)
    (h : buildPSSBlockInst m build F b i I retFirst node s = .ok (res, s')) :
    WF P s' ∧ Ext s s' ∧ (∀ n, res.2 = some n → Exit s' n) ∧
      (retFirst.isSome = node.isSome → res.1.isSome = res.2.isSome) := by
  unfold buildPSSBlockInst at h
  split at h
  · simp only [M.bind_ok, M.ofExcept_ok] at h
    obtain ⟨rel, s0, ⟨-, rfl⟩, h⟩ := h
    split at h
    · obtain ⟨i1, rfl⟩ := buildPSSBlockLink_inert hnode h
      refine ⟨hwf.step_inert i1, i1.to_ext, fun n hn => (hnode n hn).mono_inert i1, ?_⟩
      intro hc
      cases retFirst <;> cases node <;> simp at hc ⊢
    · simp only [M.bind_ok] at h
      obtain ⟨subg, s1, h1, rf, s2, h2, h3⟩ := h
      obtain ⟨g1, g2, g3⟩ := createCall_wf hb hwf h1
      have i2 : Inert s1 s2 := by
        cases node with
        | none =>
          obtain ⟨-, rfl⟩ := (M.pure_ok _ _ _ _).mp h2
          exact Inert.rfl_inert _
        | some p =>
          simp only [M.bind_ok, M.pure_ok] at h2
          obtain ⟨u, t1, k1, -, rfl⟩ := h2
          exact addSuccessor_inert ((hnode p rfl).after_ext g2) k1
      obtain ⟨i3, rfl⟩ := buildPSSBlockLink_inert
        (fun p hp => by cases hp; exact g3.mono_inert i2) h3
      refine ⟨(g1.step_inert i2).step_inert i3, (g2.trans_ext i2.to_ext).trans_ext i3.to_ext, ?_,
        ?_⟩
      · intro n hn
        cases hn
        exact (g3.mono_inert i2).mono_inert i3
      · intro hc
        cases node with
        | none =>
          obtain ⟨rfl, -⟩ := (M.pure_ok _ _ _ _).mp h2
          simp
        | some p =>
          simp only [M.bind_ok, M.pure_ok] at h2
          obtain ⟨u, t1, k1, rfl, -⟩ := h2
          cases retFirst <;> simp at hc ⊢
  · simp only [M.bind_ok] at h
    obtain ⟨n, s1, h1, h2⟩ := h
    obtain ⟨i1, hn⟩ := lowerInst_inert h1
    obtain ⟨i2, rfl⟩ := buildPSSBlockLink_inert (fun p hp => (hnode p hp).mono_inert i1) h2
    refine ⟨(hwf.step_inert i1).step_inert i2, (i1.trans_inert i2).to_ext, ?_, ?_⟩
    · intro k hk
      rcases hn with rfl | ⟨n', rfl, g1, g2⟩
      · exact ((hnode k hk).mono_inert i1).mono_inert i2
      · cases hk
        exact (i1.exit_fresh g1 g2).mono_inert i2
    · intro hc
      rcases hn with rfl | ⟨n', rfl, -, -⟩
      · cases retFirst <;> cases n <;> simp at hc ⊢
      · cases retFirst <;> cases node <;> simp at hc ⊢

theorem buildPSSBlockLoop_wf {m : Module} {build : Nat → M Nat} (hb : BuildOK build)
    {P : Nat → Prop} {F b : Nat} {insts : List Inst} :
    ∀ {i : Nat} {retFirst node : Option Nat} {res : Option Nat × Option Nat}
      {s s' : LLVMPSSBuilder}, WF P s → (∀ n, node = some n → Exit s n) →
      buildPSSBlockLoop m build F b insts i retFirst node s = .ok (res, s') →
      WF P s' ∧ Ext s s' ∧ (∀ n, res.2 = some n → Exit s' n) ∧
        (retFirst.isSome = node.isSome → res.1.isSome = res.2.isSome) := by
  induction insts with
  | nil =>
    intro i retFirst node res s s' hwf hnode h
    unfold buildPSSBlockLoop at h
    obtain ⟨rfl, rfl⟩ := (M.pure_ok _ _ _ _).mp h
    exact ⟨hwf, Ext.rfl_ext _, hnode, fun hc => hc⟩
  | cons I rest ih =>
    intro i retFirst node res s s' hwf hnode h
    unfold buildPSSBlockLoop at h
    simp only [M.bind_ok] at h
    obtain ⟨r, s1, h1, h2⟩ := h
    obtain ⟨g1, g2, g3, g4⟩ := buildPSSBlockInst_wf hb hwf hnode h1
    obtain ⟨k1, k2, k3, k4⟩ := ih g1 g3 h2
    exact ⟨k1, g2.trans_ext k2, k3, fun hc => k4 (g4 hc)⟩

theorem buildPSSBlock_wf {m : Module} {build : Nat → M Nat} (hb : BuildOK build)
    {P : Nat → Prop} {F b : Nat} {res : Option Nat × Option Nat} {s s' : LLVMPSSBuilder}
    (hwf : WF P s) (h : buildPSSBlock m build F b s = .ok (res, s')) :
    WF P s' ∧ Ext s s' ∧ (∀ n, res.2 = some n → Exit s' n) ∧
      res.1.isSome = res.2.isSome := by
  obtain ⟨g1, g2, g3, g4⟩ := buildPSSBlockLoop_wf hb hwf (fun _ hn => by cases hn) h
  exact ⟨g1, g2, g3, g4 rfl⟩

theorem setBuiltBlock_wf {P : Nat → Prop} {key : Nat × Nat} {nds : Option Nat × Option Nat}
    {u : Unit} {s s' : LLVMPSSBuilder} (hwf : WF P s) (hl : ∀ l, nds.2 = some l → Exit s l)
    (hc : nds.1.isSome = nds.2.isSome)
    (h : setBuiltBlock key nds s = .ok (u, s')) : WF P s' ∧ Ext s s' := by
  unfold setBuiltBlock at h
  rw [M.modify_ok] at h
  subst h
  refine ⟨⟨hwf.pend_lt, hwf.pair_call, hwf.pair_fptr, hwf.pair_ret, hwf.call_succ, hwf.subg_ok,
    hwf.root_inj, hwf.ret_inj, hwf.entry_root, hwf.ret_succ, ?_, ?_⟩,
    Ext.of_old (le_refl _) (fun _ _ => rfl) rfl⟩
  · intro F b l hx
    simp only at hx
    split at hx
    · exact hl l hx
    · exact hwf.blocks_ok F b l hx
  · intro F b
    simp only
    split
    · exact hc
    · exact hwf.blocks_cons F b

theorem buildBlocksLoop_wf {m : Module} {build : Nat → M Nat} (hb : BuildOK build)
    {P : Nat → Prop} {F root lastNode : Nat} {blocks : List BasicBlock} :
    ∀ {b : Nat} {first : Option Nat} {u : Unit} {s s' : LLVMPSSBuilder}, WF P s →
      Exit s root → Exit s lastNode →
      buildBlocksLoop m build F root lastNode blocks b first s = .ok (u, s') →
      WF P s' ∧ Ext s s' := by
  induction blocks with
  | nil =>
    intro b first u s s' hwf _ _ h
    unfold buildBlocksLoop at h
    obtain ⟨-, rfl⟩ := (M.pure_ok _ _ _ _).mp h
    exact ⟨hwf, Ext.rfl_ext _⟩
  | cons B rest ih =>
    intro b first u s s' hwf hroot hlast h
    unfold buildBlocksLoop at h
    simp only [M.bind_ok] at h
    obtain ⟨nds, s1, h1, r, s2, h2, u3, s3, h3, h4⟩ := h
    obtain ⟨g1, g2, g3, g3c⟩ := buildPSSBlock_wf hb hwf h1
    have hroot1 := hroot.after_ext g2
    have hlast1 := hlast.after_ext g2
    have k : Inert s1 s2 ∧ (∀ l, r.1.2 = some l → Exit s2 l) ∧
        r.1.1.isSome = r.1.2.isSome := by
      cases first with
      | none =>
        cases hn : nds.1 with
        | none =>
          simp only [hn] at h2
          obtain ⟨rfl, rfl⟩ := (M.pure_ok _ _ _ _).mp h2
          refine ⟨Inert.rfl_inert _, fun l hl => ?_, rfl⟩
          cases hl
          exact hroot1
        | some f =>
          simp only [hn, M.bind_ok, M.pure_ok] at h2
          obtain ⟨u1, t1, k1, rfl, rfl⟩ := h2
          have i1 := addSuccessor_inert hlast1 k1
          exact ⟨i1, fun l hl => (g3 l hl).mono_inert i1, g3c⟩
      | some f =>
        obtain ⟨rfl, rfl⟩ := (M.pure_ok _ _ _ _).mp h2
        exact ⟨Inert.rfl_inert _, g3, g3c⟩
    obtain ⟨i2, hl2, hc2⟩ := k
    obtain ⟨w3, e3⟩ := setBuiltBlock_wf (g1.step_inert i2) hl2 hc2 h3
    obtain ⟨w4, e4⟩ := ih w3 (((hroot1.mono_inert i2).after_ext e3)) (((hlast1.mono_inert i2).after_ext e3)) h4
    exact ⟨w4, ((g2.trans_ext i2.to_ext).trans_ext e3).trans_ext e4⟩

theorem stitchBlocksLoop_inert {m : Module} {F : Nat} {blocks : List BasicBlock} :
    ∀ {b : Nat} {rets res : List Nat} {s s' : LLVMPSSBuilder},
      (∀ b l, (s.built_blocks (F, b)).2 = some l → Exit s l) → (∀ r ∈ rets, Exit s r) →
      stitchBlocksLoop m F blocks b rets s = .ok (res, s') →
      Inert s s' ∧ ∀ r ∈ res, Exit s' r := by
  induction blocks with
  | nil =>
    intro b rets res s s' _ hrets h
    unfold stitchBlocksLoop at h
    obtain ⟨rfl, rfl⟩ := (M.pure_ok _ _ _ _).mp h
    exact ⟨Inert.rfl_inert _, hrets⟩
  | cons B rest ih =>
    intro b rets res s s' hblk hrets h
    unfold stitchBlocksLoop at h
    simp only [M.bind_ok, M.get_ok, M.assert_ok] at h
    obtain ⟨s0, t0, ⟨rfl, rfl⟩, u1, t1, ⟨-, rfl⟩, h⟩ := h
    cases h1 : (s.built_blocks (F, b)).1 with
    | none =>
      simp only [h1] at h
      exact ih hblk hrets h
    | some f =>
      cases h2 : (s.built_blocks (F, b)).2 with
      | none =>
        simp only [h1, h2] at h
        exact ih hblk hrets h
      | some last =>
        simp only [h1, h2, M.bind_ok] at h
        obtain ⟨r, s1, k1, k2⟩ := h
        have hlast := hblk b last h2
        have i1 := blockAddSuccessors_inert _ _ _ _ _ _ hlast k1
        have hblk1 : ∀ b l, (s1.built_blocks (F, b)).2 = some l → Exit s1 l := by
          intro b' l hl
          rw [i1.blocks_eq] at hl
          exact (hblk b' l hl).mono_inert i1
        split at k2
        · obtain ⟨i2, g⟩ := ih hblk1 (by
            intro x hx
            rcases List.mem_append.mp hx with hx | hx
            · exact (hrets x hx).mono_inert i1
            · rw [List.mem_singleton] at hx
              subst hx
              exact hlast.mono_inert i1) k2
          exact ⟨i1.trans_inert i2, g⟩
        · obtain ⟨i2, g⟩ := ih hblk1 (fun x hx => (hrets x hx).mono_inert i1) k2
          exact ⟨i1.trans_inert i2, g⟩

theorem buildArgumentsLoop_inert {F : Nat} {params : List Ty} :
    ∀ {idx : Nat} {retFirst prev : Option Nat} {res : Option Nat × Option Nat}
      {s s' : LLVMPSSBuilder}, (∀ p, prev = some p → Exit s p) →
      buildArgumentsLoop F params idx retFirst prev s = .ok (res, s') →
      Inert s s' ∧ ∀ a, res.2 = some a → Exit s' a := by
  induction params with
  | nil =>
    intro idx retFirst prev res s s' hp h
    unfold buildArgumentsLoop at h
    obtain ⟨rfl, rfl⟩ := (M.pure_ok _ _ _ _).mp h
    exact ⟨Inert.rfl_inert _, hp⟩
  | cons A rest ih =>
    intro idx retFirst prev res s s' hp h
    unfold buildArgumentsLoop at h
    split at h
    · simp only [M.bind_ok] at h
      obtain ⟨arg, s1, h1, u2, s2, h2, rf, s3, h3, h4⟩ := h
      have c2 := Created.of_mk (Inert.addNode_after (mkOpNode_inert (by rfl) h1) h2)
      have i3 : Inert s2 s3 := by
        cases prev with
        | none =>
          obtain ⟨-, rfl⟩ := (M.pure_ok _ _ _ _).mp h3
          exact Inert.rfl_inert _
        | some p =>
          simp only [M.bind_ok, M.pure_ok] at h3
          obtain ⟨u, t1, k1, -, rfl⟩ := h3
          exact addSuccessor_inert ((hp p rfl).mono_inert c2.1) k1
      obtain ⟨i4, g⟩ := ih (fun p hx => by cases hx; exact c2.exit_new.mono_inert i3) h4
      exact ⟨(c2.1.trans_inert i3).trans_inert i4, g⟩
    · exact ih hp h

theorem buildArguments_inert {m : Module} {F : Nat} {res : Option Nat × Option Nat}
    {s s' : LLVMPSSBuilder} (h : buildArguments m F s = .ok (res, s')) :
    Inert s s' ∧ ∀ a, res.2 = some a → Exit s' a := by
  unfold buildArguments at h
  simp only [M.bind_ok, M.pure_ok, M.assert_ok] at h
  obtain ⟨r, s1, h1, ret, s2, h2, u, s3, ⟨-, rfl⟩, rfl, rfl⟩ := h
  obtain ⟨i1, g1⟩ := buildArgumentsLoop_inert (fun _ hx => by cases hx) h1
  split at h2
  · simp only [M.bind_ok] at h2
    obtain ⟨rs, t1, k1, k2⟩ := h2
    have c1 := Created.of_mk (mkOpNode_inert (by rfl) k1)
    cases ha : r.2 with
    | none =>
      simp only [ha] at k2
      obtain ⟨rfl, rfl⟩ := (M.pure_ok _ _ _ _).mp k2
      refine ⟨i1.trans_inert c1.1, fun a hx => ?_⟩
      cases hx
      exact c1.exit_new
    | some a =>
      simp only [ha, M.bind_ok, M.pure_ok] at k2
      obtain ⟨u2, t2, k3, rfl, rfl⟩ := k2
      have i3 := addSuccessor_inert ((g1 a ha).mono_inert c1.1) k3
      refine ⟨(i1.trans_inert c1.1).trans_inert i3, fun x hx => ?_⟩
      cases hx
      exact c1.exit_new.mono_inert i3
  · obtain ⟨rfl, rfl⟩ := (M.pure_ok _ _ _ _).mp h2
    exact ⟨i1, g1⟩

/-- The start of `buildLLVMPSS(const llvm::Function&)` (lines 968-978): the `ENTRY` and
`NOOP` nodes, the argument nodes, and the record in `subgraphs_map`. -/
theorem registerSubgraph_wf {P : Nat → Prop} {F root ret : Nat}
    {args : Option Nat × Option Nat} {u : Unit} {s s1 s2 s3 s4 : LLVMPSSBuilder}
    (hwf : WF P s) (hF : (s.subgraphs_map F).root = none)
    (h1 : mkOpNode .ENTRY [] s = .ok (root, s1)) (h2 : mkOpNode .NOOP [] s1 = .ok (ret, s2))
    (h3 : Inert s2 s3) (h4 : setSubgraph F ⟨some root, some ret, args⟩ s3 = .ok (u, s4)) :
    WF P s4 ∧ Ext s s4 ∧ Exit s4 root ∧ (∀ a, Exit s3 a → Exit s4 a) ∧
      s4.subgraphs_map F = ⟨some root, some ret, args⟩ := by
  obtain ⟨x, xk, xs, xp, -, rfl, rfl⟩ := mkOpNode_ok _ _ _ _ _ h1
  obtain ⟨y, yk, ys, yp, -, rfl, rfl⟩ := mkOpNode_ok _ _ _ _ _ h2
  unfold setSubgraph at h4
  rw [M.modify_ok] at h4
  subst h4
  simp only [LLVMPSSBuilder.push_size] at *
  have hsz2 : ((s.push x).push y).size = s.size + 2 := rfl
  have hold2 : ∀ i, i < s.size → ((s.push x).push y).node i = s.node i := by
    intro i hi
    have h1 : i ≠ s.size := ne_of_lt hi
    have h2 : i ≠ s.size + 1 := ne_of_lt (Nat.lt_succ_of_lt hi)
    simp [h1, h2]
  have hr2 : ((s.push x).push y).node s.size = x := by simp
  have ht2 : ((s.push x).push y).node (s.size + 1) = y := by simp
  have hsub2 : ((s.push x).push y).subgraphs_map = s.subgraphs_map := rfl
  have hblk2 : ((s.push x).push y).built_blocks = s.built_blocks := rfl
  generalize (s.push x).push y = s2 at *
  have hsz3 := h3.size_le
  have hkind3 : ∀ n, n < s.size → (s3.node n).kind = (s.node n).kind := by
    intro n hn
    rw [h3.kind_eq n (by omega), hold2 n hn]
  have hpaired3 : ∀ n, n < s.size → (s3.node n).pairedNode = (s.node n).pairedNode := by
    intro n hn
    rw [h3.paired_eq n (by omega), hold2 n hn]
  have hsucc3 : ∀ n, n < s.size → ¬ Exit s n →
      (s3.node n).successors = (s.node n).successors := by
    intro n hn hx
    rw [h3.succ_eq n (by omega) ?_, hold2 n hn]
    rintro ⟨-, e2, e3, e4⟩
    rw [hold2 n hn] at e2 e3 e4
    exact hx ⟨hn, e2, e3, e4⟩
  have hrk3 : (s3.node s.size).kind = .ENTRY := by
    rw [h3.kind_eq _ (by omega), hr2]
    exact xk
  have hrp3 : (s3.node s.size).pairedNode = none := by
    rw [h3.paired_eq _ (by omega), hr2]
    exact xp
  have htk3 : (s3.node (s.size + 1)).kind = .NOOP := by
    rw [h3.kind_eq _ (by omega), ht2]
    exact yk
  have hts3 : (s3.node (s.size + 1)).successors = [] := by
    rw [h3.succ_eq _ (by omega) ?_, ht2]
    · exact ys
    · rintro ⟨-, e2, -⟩
      rw [ht2] at e2
      exact e2 yk
  have hnew : ∀ n, s.size ≤ n → n < s3.size →
      n = s.size ∨ n = s.size + 1 ∨ Harmless (s3.node n) n := by
    intro n g1 g2
    by_cases hn : n < s2.size
    · omega
    · exact Or.inr (Or.inr (h3.fresh n (not_lt.mp hn) g2))
  have hexit4 : ∀ a, Exit s3 a → Exit
      { s3 with subgraphs_map := fun k =>
          if k = F then ⟨some s.size, some (s.size + 1), args⟩ else s3.subgraphs_map k } a :=
    fun a h => h
  refine ⟨?_, ?_, ?_, hexit4, ?_⟩
  · refine hwf.extend_reg (by show s.size ≤ s3.size; omega) hkind3 hpaired3 hsucc3 ?_ ?_ ?_
      (by show s3.built_blocks = _; rw [h3.blocks_eq, hblk2]) (fun _ h => h) (fun _ _ h => h)
      (fun n h => lt_of_lt_of_le (hwf.pend_lt n h) (by show s.size ≤ s3.size; omega))
      ?_ ?_ ?_ ?_ ?_
    · intro G hG
      show (if G = F then _ else s3.subgraphs_map G) = _
      have : G ≠ F := by
        intro hx
        subst hx
        exact hG hF
      rw [if_neg this, h3.subg_eq, hsub2]
    · intro G r hG hr
      have hGF : G = F := by
        by_contra hx
        have : (s3.subgraphs_map G).root = some r := by
          have h := hr
          simp only [if_neg hx] at h
          exact h
        rw [h3.subg_eq, hsub2, hG] at this
        cases this
      subst hGF
      simp only [if_pos] at hr ⊢
      cases hr
      exact ⟨le_refl _, by show s.size < s3.size; omega, hrk3, s.size + 1, rfl, by omega,
        by show s.size + 1 < s3.size; omega, htk3, hts3⟩
    · intro G1 G2 g1 g2 g3 g4 _
      have key : ∀ G, (s.subgraphs_map G).root = none →
          (if G = F then (⟨some s.size, some (s.size + 1), args⟩ : Subgraph)
            else s3.subgraphs_map G).root ≠ none → G = F := by
        intro G k1 k2
        by_contra hx
        rw [if_neg hx, h3.subg_eq, hsub2] at k2
        exact k2 k1
      rw [key G1 g1 g3, key G2 g2 g4]
    · intro n g1 g2 gk
      rcases hnew n g1 g2 with rfl | rfl | ⟨h, -⟩ | ⟨-, h⟩
      · rw [hrk3] at gk
        cases gk
      · rw [htk3] at gk
        cases gk
      · change (s3.node n).kind = .CALL at gk
        rw [gk] at h
        cases h
      · exact ⟨n, h, g2, Or.inl rfl⟩
    · intro n g1 g2 gk gp
      rcases hnew n g1 g2 with rfl | rfl | ⟨h, -⟩ | ⟨-, h⟩
      · rw [hrk3] at gk
        cases gk
      · rw [htk3] at gk
        cases gk
      · change (s3.node n).kind = .CALL at gk
        rw [gk] at h
        cases h
      · exact absurd h gp
    · intro n g1 g2 gk
      rcases hnew n g1 g2 with rfl | rfl | ⟨h, -⟩ | ⟨h, -⟩
      · rw [hrk3] at gk
        cases gk
      · rw [htk3] at gk
        cases gk
      · change (s3.node n).kind = .CALL_FUNCPTR at gk
        rw [gk] at h
        cases h
      · change (s3.node n).kind = .CALL_FUNCPTR at gk
        rw [gk] at h
        cases h
    · intro n g1 g2 gk
      rcases hnew n g1 g2 with rfl | rfl | ⟨h, -⟩ | ⟨h, -⟩
      · rw [hrk3] at gk
        cases gk
      · rw [htk3] at gk
        cases gk
      · change (s3.node n).kind = .CALL_RETURN at gk
        rw [gk] at h
        cases h
      · change (s3.node n).kind = .CALL_RETURN at gk
        rw [gk] at h
        cases h
    · intro n g1 g2 gk
      rcases hnew n g1 g2 with rfl | rfl | ⟨h, -⟩ | ⟨h, -⟩
      · exact ⟨F, by simp⟩
      · rw [htk3] at gk
        cases gk
      · change (s3.node n).kind = .ENTRY at gk
        rw [gk] at h
        cases h
      · change (s3.node n).kind = .ENTRY at gk
        rw [gk] at h
        cases h
  · refine ⟨by show s.size ≤ s3.size; omega, hkind3, hpaired3, ?_, ?_, ?_⟩
    · intro n hn
      show _ <+: (s3.node n).successors
      have := h3.succ_prefix n (by omega)
      rw [hold2 n hn] at this
      exact this
    · intro n hn hc
      exact hsucc3 n hn hc.not_exit
    · intro G hG
      show (if G = F then _ else s3.subgraphs_map G) = _
      have : G ≠ F := by
        intro hx
        subst hx
        exact hG hF
      rw [if_neg this, h3.subg_eq, hsub2]
  · refine ⟨by show s.size < s3.size; omega, ?_, ?_, ?_⟩
    · show (s3.node s.size).kind ≠ _
      rw [hrk3]
      decide
    · show (s3.node s.size).kind ≠ _
      rw [hrk3]
      decide
    · show (s3.node s.size).kind = _ → _
      rw [hrk3]
      intro hx
      cases hx
  · simp

theorem buildLLVMPSSBody_wf {m : Module} {build : Nat → M Nat} (hb : BuildOK build)
    {P : Nat → Prop} {F r : Nat} {s s' : LLVMPSSBuilder} (hwf : WF P s)
    (hF : (s.subgraphs_map F).root = none)
    (h : buildLLVMPSSBody m build F s = .ok (r, s')) :
    WF P s' ∧ Ext s s' ∧ (s'.subgraphs_map F).root = some r := by
  unfold buildLLVMPSSBody at h
  simp only [M.bind_ok] at h
  obtain ⟨root, s1, h1, ret, s2, h2, args, s3, h3, u4, s4, h4, lastNode, s5, h5, h⟩ := h
  obtain ⟨i3, ha3⟩ := buildArguments_inert h3
  obtain ⟨w4, e4, hroot4, hex4, hreg4⟩ := registerSubgraph_wf hwf hF h1 h2 i3 h4
  have k5 : Inert s4 s5 ∧ ∀ l, lastNode = some l → Exit s5 l := by
    cases ha : args.1 with
    | none =>
      simp only [ha] at h5
      obtain ⟨rfl, rfl⟩ := (M.pure_ok _ _ _ _).mp h5
      refine ⟨Inert.rfl_inert _, fun l hl => ?_⟩
      cases hl
      exact hroot4
    | some a =>
      simp only [ha, M.bind_ok, M.pure_ok] at h5
      obtain ⟨u, t1, k1, rfl, rfl⟩ := h5
      have i1 := addSuccessor_inert hroot4 k1
      exact ⟨i1, fun l hl => (hex4 l (ha3 l hl)).mono_inert i1⟩
  obtain ⟨i5, hlast5⟩ := k5
  cases lastNode with
  | none => exact ((M.fail_ok _ _ _ _).mp h).elim
  | some last =>
    simp only [M.bind_ok, M.pure_ok, M.assert_ok] at h
    obtain ⟨u6, s6, h6, rets, s7, h7, u8, s8, ⟨-, rfl⟩, u9, s9, h9, u10, s10, h10, rfl, rfl⟩ := h
    obtain ⟨w6, e6⟩ := buildBlocksLoop_wf hb (w4.step_inert i5) (hroot4.mono_inert i5) (hlast5 last rfl) h6
    obtain ⟨i7, hrets⟩ := stitchBlocksLoop_inert (fun b l hl => w6.blocks_ok F b l hl)
      (fun _ hx => by cases hx) h7
    have i9 := addReturnEdges_inert hrets h9
    have i10 := addPHIOperandsFunction_inert h10
    have e410 : Ext s4 s10 := (i5.to_ext.trans_ext e6).trans_ext ((i7.trans_inert i9).trans_inert i10).to_ext
    refine ⟨((w6.step_inert i7).step_inert i9).step_inert i10, e4.trans_ext e410, ?_⟩
    rw [e410.subg_eq F (by rw [hreg4]; simp), hreg4]

theorem buildLLVMPSSFunction_wf (m : Module) (fuel : Nat) :
    BuildOK (buildLLVMPSSFunction m fuel) := by
  induction fuel with
  | zero =>
    intro P F r s s' _ _ h
    unfold buildLLVMPSSFunction at h
    exact ((M.fail_ok _ _ _ _).mp h).elim
  | succ fuel ih =>
    intro P F r s s' hwf hF h
    unfold buildLLVMPSSFunction at h
    obtain ⟨g1, g2, -⟩ := buildLLVMPSSBody_wf ih hwf hF h
    exact ⟨g1, g2⟩

/-! ## The global phase -/

theorem Inert.inert0 {s s' : LLVMPSSBuilder} (h : Inert s s') : Inert0 s s' :=
  ⟨h.size_le, h.kind_eq, h.paired_eq, h.fresh, h.map_lt, h.subg_eq, h.blocks_eq⟩

theorem Inert0.rfl_inert0 (s : LLVMPSSBuilder) : Inert0 s s :=
  (Inert.rfl_inert s).inert0

theorem Inert0.trans_inert0 {s1 s2 s3 : LLVMPSSBuilder} (h12 : Inert0 s1 s2) (h23 : Inert0 s2 s3) :
    Inert0 s1 s3 := by
  refine ⟨le_trans h12.size_le h23.size_le, ?_, ?_, ?_, ?_, ?_, ?_⟩
  · intro n hn
    rw [h23.kind_eq n (lt_of_lt_of_le hn h12.size_le), h12.kind_eq n hn]
  · intro n hn
    rw [h23.paired_eq n (lt_of_lt_of_le hn h12.size_le), h12.paired_eq n hn]
  · intro n h1 h3
    by_cases h2 : n < s2.size
    · have := h12.fresh n h1 h2
      unfold Harmless at this ⊢
      rw [h23.kind_eq n h2, h23.paired_eq n h2]
      exact this
    · exact h23.fresh n (not_lt.mp h2) h3
  · intro h
    exact h23.map_lt (h12.map_lt h)
  · rw [h23.subg_eq, h12.subg_eq]
  · rw [h23.blocks_eq, h12.blocks_eq]

theorem insertAfter_inert0 {n after : Nat} {u : Unit} {s s' : LLVMPSSBuilder}
    (h : insertAfter n after s = .ok (u, s')) : Inert0 s s' := by
  unfold insertAfter at h
  rw [M.modify_ok] at h
  subst h
  refine ⟨le_refl _, ?_, ?_, fun _ h1 h2 => absurd h2 (not_lt.mpr h1), fun h => h, rfl, rfl⟩
  · intro i _
    simp only [LLVMPSSBuilder.update_node]
    split
    · split
      · subst_vars
        rfl
      · subst_vars
        rfl
    · split
      · subst_vars
        rfl
      · rfl
  · intro i _
    simp only [LLVMPSSBuilder.update_node]
    split
    · split
      · subst_vars
        rfl
      · subst_vars
        rfl
    · split
      · subst_vars
        rfl
      · rfl

theorem addSuccessor_inert0 {p t : Nat} {u : Unit} {s s' : LLVMPSSBuilder}
    (h : addSuccessor p t s = .ok (u, s')) : Inert0 s s' := by
  rw [addSuccessor_ok] at h
  subst h
  refine ⟨le_refl _, ?_, ?_, fun _ h1 h2 => absurd h2 (not_lt.mpr h1), fun h => h, rfl, rfl⟩
  · intro i _
    simp only [LLVMPSSBuilder.update_node]
    split
    · subst_vars
      rfl
    · rfl
  · intro i _
    simp only [LLVMPSSBuilder.update_node]
    split
    · subst_vars
      rfl
    · rfl

theorem handleAggregateInitializer_inert0 {m : Module} {node : Nat} {elems : List Constant} :
    ∀ {off last res : Nat} {s s' : LLVMPSSBuilder}, last < s.size →
      handleAggregateInitializer m node elems off last s = .ok (res, s') →
      Inert0 s s' ∧ res < s'.size := by
  induction elems with
  | nil =>
    intro off last res s s' hl h
    unfold handleAggregateInitializer at h
    obtain ⟨rfl, rfl⟩ := (M.pure_ok _ _ _ _).mp h
    exact ⟨Inert0.rfl_inert0 _, hl⟩
  | cons val rest ih =>
    intro off last res s s' hl h
    unfold handleAggregateInitializer at h
    simp only [M.bind_ok] at h
    obtain ⟨l1, s1, h1, h2⟩ := h
    have k : Inert0 s s1 ∧ l1 < s1.size := by
      split at h1
      · simp only [M.bind_ok, M.pure_ok] at h1
        obtain ⟨op, t1, k1, tg, t2, k2, st, t3, k3, u, t4, k4, rfl, rfl⟩ := h1
        have c3 := Created.after ((getOperand_inert k1).trans_inert (mkConstant_inert k2).1)
          (Created.of_mk (mkOpNode_inert (by rfl) k3))
        have i4 := insertAfter_inert0 k4
        exact ⟨c3.1.inert0.trans_inert0 i4, lt_of_lt_of_le c3.2.2 i4.size_le⟩
      · obtain ⟨rfl, rfl⟩ := (M.pure_ok _ _ _ _).mp h1
        exact ⟨Inert0.rfl_inert0 _, hl⟩
    obtain ⟨g1, g2⟩ := ih k.2 h2
    exact ⟨k.1.trans_inert0 g1, g2⟩

theorem handleGlobalVariableInitializer_inert0 {m : Module} {C : Initializer} {node res : Nat}
    {s s' : LLVMPSSBuilder} (hn : node < s.size)
    (h : handleGlobalVariableInitializer m C node s = .ok (res, s')) :
    Inert0 s s' ∧ res < s'.size := by
  have zero : ∀ {s s' : LLVMPSSBuilder} {res : Nat}, node < s.size →
      (do setZeroInitialized node; pure node : M Nat) s = .ok (res, s') →
      Inert0 s s' ∧ res < s'.size := by
    intro s s' res hn h
    simp only [M.bind_ok, M.pure_ok] at h
    obtain ⟨u, t1, k1, rfl, rfl⟩ := h
    have i1 := setZeroInitialized_inert k1
    exact ⟨i1.inert0, lt_of_lt_of_le hn i1.size_le⟩
  have same : ∀ {s s' : LLVMPSSBuilder} {res : Nat}, node < s.size →
      (pure node : M Nat) s = .ok (res, s') → Inert0 s s' ∧ res < s'.size := by
    intro s s' res hn h
    obtain ⟨rfl, rfl⟩ := (M.pure_ok _ _ _ _).mp h
    exact ⟨Inert0.rfl_inert0 _, hn⟩
  unfold handleGlobalVariableInitializer at h
  split at h
  · exact zero hn h
  · exact handleAggregateInitializer_inert0 hn h
  · split at h
    · exact zero hn h
    · split at h
      · exact same hn h
      · split at h
        · split at h
          · simp only [M.bind_ok, M.pure_ok] at h
            obtain ⟨v, t1, k1, p, t2, k2, st, t3, k3, u, t4, k4, rfl, rfl⟩ := h
            obtain ⟨rfl, -⟩ := singlePointer_ok k2
            have c3 := Created.after (getOperand_inert k1)
              (Created.of_mk (mkOpNode_inert (by rfl) k3))
            have i4 := insertAfter_inert0 k4
            exact ⟨c3.1.inert0.trans_inert0 i4, lt_of_lt_of_le c3.2.2 i4.size_le⟩
          · exact same hn h
        · exact same hn h

theorem buildGlobalsAlloc_inert0 {globals : List GlobalVariable} :
    ∀ {g : Nat} {prev first : Option Nat} {res : Option Nat × Option Nat}
      {s s' : LLVMPSSBuilder}, (∀ p, prev = some p → p < s.size) →
      buildGlobalsAlloc globals g prev first s = .ok (res, s') →
      Inert0 s s' ∧ ∀ p, res.1 = some p → p < s'.size := by
  induction globals with
  | nil =>
    intro g prev first res s s' hp h
    unfold buildGlobalsAlloc at h
    obtain ⟨rfl, rfl⟩ := (M.pure_ok _ _ _ _).mp h
    exact ⟨Inert0.rfl_inert0 _, hp⟩
  | cons G rest ih =>
    intro g prev first res s s' hp h
    unfold buildGlobalsAlloc at h
    simp only [M.bind_ok] at h
    obtain ⟨cur, s1, h1, u2, s2, h2, f3, s3, h3, h4⟩ := h
    have c2 := Created.of_mk (Inert.addNode_after (mkOpNode_inert (by rfl) h1) h2)
    have i3 : Inert0 s2 s3 := by
      cases prev with
      | none =>
        obtain ⟨-, rfl⟩ := (M.pure_ok _ _ _ _).mp h3
        exact Inert0.rfl_inert0 _
      | some p =>
        simp only [M.bind_ok, M.pure_ok] at h3
        obtain ⟨u, t1, k1, -, rfl⟩ := h3
        exact addSuccessor_inert0 k1
    obtain ⟨g1, g2⟩ := ih (fun p hx => by
      cases hx
      exact lt_of_lt_of_le c2.2.2 i3.size_le) h4
    exact ⟨(c2.1.inert0.trans_inert0 i3).trans_inert0 g1, g2⟩

theorem buildGlobalsInit_inert0 {m : Module} {globals : List GlobalVariable} :
    ∀ {g : Nat} {cur res : Option Nat} {s s' : LLVMPSSBuilder},
      (∀ v n, s.nodes_map v = some n → n < s.size) → (∀ p, cur = some p → p < s.size) →
      buildGlobalsInit m globals g cur s = .ok (res, s') →
      Inert0 s s' ∧ ∀ p, res = some p → p < s'.size := by
  induction globals with
  | nil =>
    intro g cur res s s' _ hp h
    unfold buildGlobalsInit at h
    obtain ⟨rfl, rfl⟩ := (M.pure_ok _ _ _ _).mp h
    exact ⟨Inert0.rfl_inert0 _, hp⟩
  | cons GV rest ih =>
    intro g cur res s s' hm hp h
    unfold buildGlobalsInit at h
    simp only [M.bind_ok] at h
    obtain ⟨c1, s1, h1, h2⟩ := h
    have k : Inert0 s s1 ∧ ∀ p, c1 = some p → p < s1.size := by
      have same : ∀ {c1 : Option Nat} {s1 : LLVMPSSBuilder},
          (pure cur : M (Option Nat)) s = .ok (c1, s1) →
          Inert0 s s1 ∧ ∀ p, c1 = some p → p < s1.size := by
        intro c1 s1 h
        obtain ⟨rfl, rfl⟩ := (M.pure_ok _ _ _ _).mp h
        exact ⟨Inert0.rfl_inert0 _, hp⟩
      cases hi : GV.initializer with
      | none =>
        simp only [hi] at h1
        exact same h1
      | some C =>
        simp only [hi] at h1
        split at h1
        · simp only [M.bind_ok, getNode_ok] at h1
          obtain ⟨known, t0, ⟨hk, rfl⟩, h1⟩ := h1
          cases known with
          | none => exact ((M.fail_ok _ _ _ _).mp h1).elim
          | some node =>
            simp only [M.bind_ok, M.pure_ok] at h1
            obtain ⟨last, t1, k1, rfl, rfl⟩ := h1
            obtain ⟨g1, g2⟩ := handleGlobalVariableInitializer_inert0 (hm _ _ hk) k1
            refine ⟨g1, fun p hx => ?_⟩
            cases hx
            exact g2
        · exact same h1
    obtain ⟨g1, g2⟩ := ih (k.1.map_lt hm) k.2 h2
    exact ⟨k.1.trans_inert0 g1, g2⟩

theorem buildGlobals_inert0 {m : Module} {res : Option Nat × Option Nat}
    {s s' : LLVMPSSBuilder} (hm : ∀ v n, s.nodes_map v = some n → n < s.size)
    (h : buildGlobals m s = .ok (res, s')) :
    Inert0 s s' ∧ ∀ p, res.2 = some p → p < s'.size := by
  unfold buildGlobals at h
  simp only [M.bind_ok, M.pure_ok, M.assert_ok] at h
  obtain ⟨r, s1, h1, cur, s2, h2, u, s3, ⟨-, rfl⟩, rfl, rfl⟩ := h
  obtain ⟨g1, g2⟩ := buildGlobalsAlloc_inert0 (fun _ hx => by cases hx) h1
  obtain ⟨k1, k2⟩ := buildGlobalsInit_inert0 (g1.map_lt hm) g2 h2
  exact ⟨g1.trans_inert0 k1, k2⟩

/-- After the global phase every node is harmless and nothing is registered, so the
shape invariant holds with no pending call. -/
theorem WF.of_inert0 {s : LLVMPSSBuilder} (h : Inert0 LLVMPSSBuilder.init s) :
    WF (fun _ => False) s ∧ ∀ n, n < s.size → Exit s n := by
  have hharm : ∀ n, n < s.size → Harmless (s.node n) n := by
    intro n hn
    by_cases h2 : n < LLVMPSSBuilder.init.size
    · left
      rw [h.kind_eq n h2, h.paired_eq n h2]
      have : n = 0 ∨ n = 1 := by
        have : LLVMPSSBuilder.init.size = 2 := rfl
        omega
      rcases this with rfl | rfl
      · exact ⟨rfl, rfl⟩
      · exact ⟨rfl, rfl⟩
    · exact h.fresh n (not_lt.mp h2) hn
  have hk : ∀ n, n < s.size → ∀ k : PSSNodeType, k.isPlain = false → k ≠ .CALL →
      (s.node n).kind ≠ k := by
    intro n h1 k hk1 hk2 hx
    rcases hharm n h1 with ⟨h, -⟩ | ⟨h, -⟩
    · rw [hx, hk1] at h
      cases h
    · rw [hx] at h
      exact hk2 h
  have hsub : ∀ F, (s.subgraphs_map F).root = none := by
    intro F
    rw [h.subg_eq]
    rfl
  have hnone : ∀ F r, (s.subgraphs_map F).root ≠ some r := by
    intro F r hx
    rw [hsub F] at hx
    cases hx
  refine ⟨⟨fun _ hx => hx.elim, ?_, ?_, ?_, ?_, ?_, ?_, ?_, ?_, ?_, ?_,
    by rw [h.blocks_eq]; exact fun _ _ => rfl⟩,
    fun n hn => Harmless.is_exit hn (hharm n hn)⟩
  · intro n hn hkk
    rcases hharm n hn with ⟨hx, -⟩ | ⟨-, hx⟩
    · rw [hkk] at hx
      cases hx
    · exact ⟨n, hx, hn, Or.inl rfl⟩
  · intro n hn hkk
    exact absurd hkk (hk n hn _ rfl (by decide))
  · intro n hn hkk
    exact absurd hkk (hk n hn _ rfl (by decide))
  · intro n hn hkk hp
    rcases hharm n hn with ⟨hx, -⟩ | ⟨-, hx⟩
    · rw [hkk] at hx
      cases hx
    · exact absurd hx hp
  · intro F r hr
    exact absurd hr (hnone F r)
  · intro F G r hr
    exact absurd hr (hnone F r)
  · intro F G t hF
    exact absurd (hsub F) hF
  · intro n hn hkk
    exact absurd hkk (hk n hn _ rfl (by decide))
  · intro F r t hr
    exact absurd hr (hnone F r)
  · intro F b l hl
    rw [h.blocks_eq] at hl
    cases hl

/-- The finished graph satisfies the shape invariant with no pending call. -/
theorem buildLLVMPSS_wf {m : Module} {fuel root : Nat} {s : LLVMPSSBuilder}
    (h : build m fuel = .ok (root, s)) : WF (fun _ => False) s := by
  unfold build buildLLVMPSS at h
  cases hmain : m.getFunction "main" with
  | none =>
    simp only [hmain] at h
    exact ((M.fail_ok _ _ _ _).mp h).elim
  | some F =>
    simp only [hmain, M.bind_ok] at h
    obtain ⟨glob, s1, h1, r, s2, h2, h3⟩ := h
    obtain ⟨g1, g2⟩ := buildGlobals_inert0 (fun v n hx => by cases hx) h1
    obtain ⟨w1, ex1⟩ := WF.of_inert0 g1
    have hF : (s1.subgraphs_map F).root = none := by
      rw [g1.subg_eq]
      rfl
    obtain ⟨w2, e2⟩ := buildLLVMPSSFunction_wf m fuel _ F r s1 s2 w1 hF h2
    cases hg1 : glob.1 with
    | none =>
      simp only [hg1] at h3
      obtain ⟨-, rfl⟩ := (M.pure_ok _ _ _ _).mp h3
      exact w2
    | some gf =>
      cases hg2 : glob.2 with
      | none =>
        simp only [hg1, hg2] at h3
        exact ((M.fail_ok _ _ _ _).mp h3).elim
      | some gs =>
        simp only [hg1, hg2, M.bind_ok, M.pure_ok] at h3
        obtain ⟨u, t1, k1, -, rfl⟩ := h3
        exact w2.step_inert (addSuccessor_inert ((ex1 gs (g2 gs hg2)).after_ext e2) k1)

/-! ## Call paths and return edges in a recursive module -/

set_option maxRecDepth 100000 in
/-- C10, the claim as written fails: in the module `exRecursive` the function `f` is
called from `main` and from itself, and its ret node 8 has two successors, the
`CALL_RETURN` nodes 10 and 5 of the two call sites. -/
theorem ret_successors_counterexample :
    (finalState exRecursive 2).map (fun s =>
      ((s.subgraphs_map 1).ret, (s.node 8).successors,
        (s.node 10).kind, (s.node 5).kind)) =
      some (some 8, [10, 5], .CALL_RETURN, .CALL_RETURN) := by decide!

/-! ## Concrete builds -/

theorem build_eq_end {m : Module} {fuel : Nat} (h : (finalState m fuel).isSome = true) :
    build m fuel = .ok (endRoot m fuel, endState m fuel) := by
  unfold endRoot endState finalRoot
  unfold finalState at h ⊢
  cases hb : build m fuel with
  | error e =>
    rw [hb] at h
    cases h
  | ok p => rfl

set_option maxRecDepth 100000 in
theorem exRecursive_builds : (finalState exRecursive 2).isSome = true := by decide!

/-! ## Return operands of a recursive call -/

set_option maxRecDepth 100000 in
/-- C1: in the module `exRecursive` the call of `f` inside `f` has a pointer result and
is lowered to the `CALL` node 11 paired with the `CALL_RETURN` node 10; the ret node of
`f` is node 8, whose only `RETURN` predecessor is node 12; when the build has finished
node 10 has no operand, while the `CALL_RETURN` node 5 of the call in `main` has the
operand 12. -/
theorem recursive_call_return_has_no_operands :
    (finalState exRecursive 2).map (fun s =>
      ((s.node 11).kind, (s.node 11).pairedNode, (s.node 11).successors,
        (s.subgraphs_map 1).root, (s.subgraphs_map 1).ret)) =
      some (.CALL, some 10, [7], some 7, some 8) ∧
    (finalState exRecursive 2).map (fun s =>
      ((s.node 10).kind, (s.node 10).operands, (s.node 5).operands,
        (getPredecessors s 8).filter fun r => (s.node r).kind = .RETURN)) =
      some (.CALL_RETURN, [], [some 12], [12]) := by
  constructor <;> decide!

/-! ## Globals -/

set_option maxRecDepth 100000 in
/-- C2: in the module `exGlobalAddr`, where `@g = global i8* @h`, the build makes the
`ALLOC` nodes 2 for `g` and 3 for `h`, chains them in front of the root 4 of `main`,
and makes no `STORE` node at all. -/
theorem global_address_initializer_no_store :
    (finalState exGlobalAddr 1).map (fun s =>
      (s.nodes_map (.const (.global 0)), s.nodes_map (.const (.global 1)),
        (s.node 2).kind, (s.node 3).kind)) = some (some 2, some 3, .ALLOC, .ALLOC) ∧
    (finalState exGlobalAddr 1).map (fun s => ((s.node 2).successors, (s.node 3).successors)) =
      some ([3], [4]) ∧
    (finalState exGlobalAddr 1).map (fun s =>
      ((s.subgraphs_map 0).root, s.size,
        (List.range s.size).filter fun n => (s.node n).kind = .STORE)) =
      some (some 4, 7, []) := by
  refine ⟨?_, ?_, ?_⟩ <;> decide!

set_option maxRecDepth 100000 in
/-- C3: in the module `exGlobalTail`, where `g` has an initializer and the later global
`h` has none, the build returns the node 2 of `g`, and it is node 2 that gets the root 4
of `main` as a successor, next to node 3 of `h`; node 3 has no successor, so it does
not reach the node in front of `main`. -/
theorem global_tail_is_not_terminal :
    finalRoot exGlobalTail 1 = some 2 ∧
    (finalState exGlobalTail 1).map (fun s =>
      (s.nodes_map (.const (.global 0)), s.nodes_map (.const (.global 1)),
        (s.subgraphs_map 0).root, (s.node 2).successors, (s.node 3).successors)) =
      some (some 2, some 3, some 4, [3, 4], []) := by
  constructor <;> decide!

/-! ## The size of a `calloc` -/

theorem getLimitedValue_small {v : Nat} (h : v < 2 ^ 64 - 1) :
    getLimitedValue v = v ∧ getLimitedValue v ≠ 2 ^ 64 - 1 := by
  unfold getLimitedValue
  have : ¬ v > 2 ^ 64 - 1 := by omega
  rw [if_neg this]
  exact ⟨rfl, by omega⟩

theorem callOperand_get {args : List Value} {cv v : Value} {k : Nat}
    (h : args.get? k = some v) (s : LLVMPSSBuilder) :
    callOperand args cv k s = .ok (v, s) := by
  unfold callOperand
  have hk : k < args.length := by
    by_contra hx
    rw [List.get?_eq_none.mpr (not_lt.mp hx)] at h
    cases h
  have : (args ++ [cv]).get? k = some v := by
    rw [List.get?_eq_getElem?] at h ⊢
    rw [List.getElem?_append_left hk]
    exact h
  rw [this]
  rfl

/-- C4, amended: a `calloc` whose count `c` and element size `sz` are constant integers
below the all-ones 64-bit value is lowered to a `DYN_ALLOC` node with `is_heap` and
`zero_initialized` set whose size is `c * sz` reduced modulo `2 ^ 64`, which is
`c * sz` itself when that product is below `2 ^ 64`. -/
theorem createDynamicAlloc_calloc (args : List Value) (cv : Value) (w0 w1 c sz : Nat)
    (s : LLVMPSSBuilder) (h0 : args.get? 0 = some (.const (.int w0 c)))
    (h1 : args.get? 1 = some (.const (.int w1 sz)))
    (hc : c < 2 ^ 64 - 1) (hs : sz < 2 ^ 64 - 1) :
    ∃ s', createDynamicAlloc args cv .CALLOC s = .ok (s.size, s') ∧
      (s'.node s.size).kind = .DYN_ALLOC ∧ (s'.node s.size).isHeap = true ∧
      (s'.node s.size).zeroInitialized = true ∧
      (s'.node s.size).size = (c * sz) % 2 ^ 64 ∧
      (c * sz < 2 ^ 64 → (s'.node s.size).size = c * sz) := by
  obtain ⟨c1, c2⟩ := getLimitedValue_small hc
  obtain ⟨z1, z2⟩ := getLimitedValue_small hs
  have key : ∃ s', createDynamicAlloc args cv .CALLOC s = .ok (s.size, s') ∧
      (s'.node s.size).kind = .DYN_ALLOC ∧ (s'.node s.size).isHeap = true ∧
      (s'.node s.size).zeroInitialized = true ∧
      (s'.node s.size).size = (sz * c) % 2 ^ 64 := by
    have hc' : ¬ c = 2 ^ 64 - 1 := by omega
    have hs' : ¬ sz = 2 ^ 64 - 1 := by omega
    cases hres : createDynamicAlloc args cv .CALLOC s with
    | error e =>
      unfold createDynamicAlloc at hres
      simp only [bind, mkOpNode, mkNode, newNode, setIsHeap, setZeroInitialized,
        setSize, M.modify, M.get, pure, callOperand_get h0, callOperand_get h1,
        if_true, z1, c1, if_neg hc', if_neg hs'] at hres
      cases hres
    | ok p =>
      unfold createDynamicAlloc at hres
      simp only [bind, mkOpNode, mkNode, newNode, setIsHeap, setZeroInitialized,
        setSize, M.modify, M.get, pure, callOperand_get h0, callOperand_get h1,
        if_true, z1, c1, if_neg hc', if_neg hs'] at hres
      cases hres
      refine ⟨_, rfl, ?_⟩
      simp [PSSNode.blank]
  obtain ⟨s', k1, k2, k3, k4, k5⟩ := key
  refine ⟨s', k1, k2, k3, k4, ?_, ?_⟩
  · rw [k5, Nat.mul_comm]
  · intro hlt
    rw [k5, Nat.mul_comm, Nat.mod_eq_of_lt hlt]

/-- C4, amended, at `calloc(4, 8)`: the size is 32. -/
theorem createDynamicAlloc_calloc_witness :
    ∃ s', createDynamicAlloc [.const (.int 64 4), .const (.int 64 8)] (.const (.func 0))
        .CALLOC LLVMPSSBuilder.init = .ok (LLVMPSSBuilder.init.size, s') ∧
      (s'.node LLVMPSSBuilder.init.size).kind = .DYN_ALLOC ∧
      (s'.node LLVMPSSBuilder.init.size).isHeap = true ∧
      (s'.node LLVMPSSBuilder.init.size).zeroInitialized = true ∧
      (s'.node LLVMPSSBuilder.init.size).size = (4 * 8) % 2 ^ 64 ∧
      (4 * 8 < 2 ^ 64 → (s'.node LLVMPSSBuilder.init.size).size = 4 * 8) :=
  createDynamicAlloc_calloc _ _ 64 64 4 8 _ rfl rfl (by decide) (by decide)

set_option maxRecDepth 100000 in
/-- C4, the claim as written fails: for `calloc(2^32, 2^32)` both arguments are known,
the product is `2 ^ 64`, and the node gets the size 0. -/
theorem calloc_size_counterexample :
    (createDynamicAlloc [.const (.int 64 (2 ^ 32)), .const (.int 64 (2 ^ 32))]
        (.const (.func 0)) .CALLOC LLVMPSSBuilder.init).toOption.map
      (fun r => ((r.2.node r.1).kind, (r.2.node r.1).size)) = some (.DYN_ALLOC, 0) ∧
    2 ^ 32 < 2 ^ 64 - 1 ∧ 2 ^ 32 * 2 ^ 32 ≠ 0 := by
  refine ⟨by decide!, by decide, by decide⟩

/-! ## Stitching the blocks of a function -/

theorem M.bind_run {α β : Type} {x : M α} {f : α → M β} {s s1 : LLVMPSSBuilder} {a : α}
    (h : x s = .ok (a, s1)) : (x >>= f) s = f a s1 := by
  show (match x s with
    | .ok (a, s') => f a s'
    | .error e => .error e) = _
  rw [h]

theorem M.get_bind {β : Type} (f : LLVMPSSBuilder → M β) (s : LLVMPSSBuilder) :
    (M.get >>= f) s = f s s := rfl

theorem M.assert_bind {β : Type} {c : Bool} (msg : String) (f : Unit → M β)
    (s : LLVMPSSBuilder) (h : c = true) : (M.assert c msg >>= f) s = f () s := by
  subst h
  rfl

theorem addSuccessor_bind {β : Type} (p t : Nat) (f : Unit → M β) (s : LLVMPSSBuilder) :
    (addSuccessor p t >>= f) s =
      f () (s.update p fun x => { x with successors := x.successors ++ [t] }) := rfl

theorem succs_entries {m : Module} {F b x : Nat} (h : x ∈ (m.getBlock F b).succs) :
    x ∈ succEntries m F := by
  unfold Module.getBlock at h
  unfold succEntries
  cases hb : (m.getFunc F).blocks.get? b with
  | none =>
    rw [hb] at h
    simp at h
  | some B =>
    rw [hb] at h
    simp only [Option.getD_some] at h
    exact List.mem_flatten.mpr ⟨B.succs, List.mem_map.mpr ⟨B, List.get?_mem hb, rfl⟩, h⟩

theorem stitchStep_refl {m : Module} {F z : Nat} {found : List Nat} {s : LLVMPSSBuilder}
    (hnd : found.Nodup) (hent : ∀ x, x ∈ found → x ∈ succEntries m F) :
    StitchStep m F z found s 0 found s := by
  refine ⟨rfl, rfl, fun _ _ => rfl, ⟨[], by simp, rfl, ?_⟩, fun _ h => h, hnd, hent, le_refl _,
    fun e h1 h2 => absurd h1 h2⟩
  intro x
  constructor
  · intro h
    cases h
  · rintro ⟨S, h1, h2, -⟩
    exact absurd h1 h2

theorem stitchStep_edge {m : Module} {F z S f : Nat} {found : List Nat}
    {s : LLVMPSSBuilder} (hnd : found.Nodup) (hent : ∀ x, x ∈ found → x ∈ succEntries m F)
    (hS : S ∉ found) (hSe : S ∈ succEntries m F) (hf : (s.built_blocks (F, S)).1 = some f) :
    StitchStep m F z found s 1 (S :: found)
      (s.update z fun x => { x with successors := x.successors ++ [f] }) := by
  refine ⟨rfl, rfl, ?_, ⟨[f], by simp, rfl, ?_⟩, fun x h => List.mem_cons_of_mem _ h,
    List.nodup_cons.mpr ⟨hS, hnd⟩, ?_, by simp, ?_⟩
  · intro i hi
    simp [hi]
  · intro x
    constructor
    · intro h
      have : x = f := by simpa using h
      subst this
      exact ⟨S, List.mem_cons_self _ _, hS, hf⟩
    · rintro ⟨S', h1, h2, h3⟩
      rcases List.mem_cons.mp h1 with rfl | h1
      · rw [hf] at h3
        cases h3
        simp
      · exact absurd h1 h2
  · intro x hx
    rcases List.mem_cons.mp hx with rfl | hx
    · exact hSe
    · exact hent x hx
  · intro e h1 h2 h3
    rcases List.mem_cons.mp h1 with rfl | h1
    · rw [hf] at h3
      cases h3
    · exact absurd h1 h2

theorem stitchStep_enter {m : Module} {F z S num : Nat} {found found' : List Nat}
    {s s' : LLVMPSSBuilder} (h : StitchStep m F z (S :: found) s num found' s')
    (hSn : (s.built_blocks (F, S)).1 = none)
    (hcl : ∀ x, x ∈ (m.getBlock F S).succs → x ∈ found') :
    StitchStep m F z found s num found' s' := by
  obtain ⟨L, hL1, hL2, hL3⟩ := h.edges
  refine ⟨h.blocks_eq, h.size_eq, h.other, ⟨L, hL1, hL2, ?_⟩,
    fun x hx => h.mono x (List.mem_cons_of_mem _ hx), h.nodup, h.entries,
    le_trans (by simp) h.len_le, ?_⟩
  · intro x
    rw [hL3 x]
    constructor
    · rintro ⟨S', h1, h2, h3⟩
      exact ⟨S', h1, fun hx => h2 (List.mem_cons_of_mem _ hx), h3⟩
    · rintro ⟨S', h1, h2, h3⟩
      refine ⟨S', h1, ?_, h3⟩
      intro hx
      rcases List.mem_cons.mp hx with rfl | hx
      · rw [hSn] at h3
        cases h3
      · exact h2 hx
  · intro e h1 h2 h3
    by_cases he : e = S
    · subst he
      exact hcl
    · refine h.closed e h1 ?_ h3
      intro hx
      rcases List.mem_cons.mp hx with rfl | hx
      · exact he rfl
      · exact h2 hx

theorem stitchStep_trans {m : Module} {F z k1 k2 : Nat} {f0 f1 f2 : List Nat}
    {s0 s1 s2 : LLVMPSSBuilder} (h1 : StitchStep m F z f0 s0 k1 f1 s1)
    (h2 : StitchStep m F z f1 s1 k2 f2 s2) :
    StitchStep m F z f0 s0 (k1 + k2) f2 s2 := by
  obtain ⟨L1, a1, a2, a3⟩ := h1.edges
  obtain ⟨L2, b1, b2, b3⟩ := h2.edges
  refine ⟨by rw [h2.blocks_eq, h1.blocks_eq], by rw [h2.size_eq, h1.size_eq], ?_,
    ⟨L1 ++ L2, ?_, ?_, ?_⟩, fun x hx => h2.mono x (h1.mono x hx), h2.nodup, h2.entries,
    le_trans h1.len_le h2.len_le, ?_⟩
  · intro i hi
    rw [h2.other i hi, h1.other i hi]
  · rw [b1, a1, List.append_assoc]
  · rw [List.length_append, a2, b2]
  · intro x
    rw [List.mem_append, a3 x, b3 x, h1.blocks_eq]
    constructor
    · rintro (⟨S, g1, g2, g3⟩ | ⟨S, g1, g2, g3⟩)
      · exact ⟨S, h2.mono S g1, g2, g3⟩
      · exact ⟨S, g1, fun hx => g2 (h1.mono S hx), g3⟩
    · rintro ⟨S, g1, g2, g3⟩
      by_cases hS : S ∈ f1
      · exact Or.inl ⟨S, hS, g2, g3⟩
      · exact Or.inr ⟨S, g1, hS, g3⟩
  · intro e g1 g2 g3
    by_cases he : e ∈ f1
    · intro x hx
      exact h2.mono x (h1.closed e he g2 g3 x hx)
    · refine h2.closed e g1 he ?_
      rw [h1.blocks_eq]
      exact g3

theorem assert_consistent {a b : Option Nat} (h : a.isSome = b.isSome) :
    ((a.isSome && b.isSome) || (a.isNone && b.isNone)) = true := by
  cases a <;> cases b <;> simp at h ⊢

theorem length_le_entries {m : Module} {F : Nat} {found : List Nat} (hnd : found.Nodup)
    (hent : ∀ x, x ∈ found → x ∈ succEntries m F) :
    found.length ≤ (succEntries m F).length :=
  (hnd.subperm hent).length_le

theorem blockAddSuccessorsLoop_spec {m : Module} {F z fuel : Nat}
    {recurse : Nat → List Nat → M (Nat × List Nat)}
    (hrec : ∀ (S : Nat) (found : List Nat) (s : LLVMPSSBuilder), found.Nodup →
      (∀ x, x ∈ found → x ∈ succEntries m F) →
      (succEntries m F).length < fuel + found.length →
      (∀ b, (s.built_blocks (F, b)).1.isSome = (s.built_blocks (F, b)).2.isSome) →
      ∃ num found' s', recurse S found s = .ok ((num, found'), s') ∧
        StitchStep m F z found s num found' s' ∧
        (∀ x, x ∈ (m.getBlock F S).succs → x ∈ found') ∧
        (∀ T, T ∈ found' → T ∉ found → StitchReach m s.built_blocks F S T)) :
    ∀ (list found : List Nat) (num : Nat) (s : LLVMPSSBuilder),
      (∀ x, x ∈ list → x ∈ succEntries m F) → found.Nodup →
      (∀ x, x ∈ found → x ∈ succEntries m F) →
      (succEntries m F).length < fuel + 1 + found.length →
      (∀ b, (s.built_blocks (F, b)).1.isSome = (s.built_blocks (F, b)).2.isSome) →
      ∃ k found' s',
        blockAddSuccessorsLoop recurse F z list found num s = .ok ((num + k, found'), s') ∧
        StitchStep m F z found s k found' s' ∧ (∀ x, x ∈ list → x ∈ found') ∧
        (∀ T, T ∈ found' → T ∉ found → T ∈ list ∨
          ∃ E, E ∈ list ∧ (s.built_blocks (F, E)).1 = none ∧
            StitchReach m s.built_blocks F E T) := by
  intro list
  induction list with
  | nil =>
    intro found num s _ hnd hent _ _
    refine ⟨0, found, s, rfl, stitchStep_refl hnd hent, fun x hx => (by cases hx),
      fun T h1 h2 => absurd h1 h2⟩
  | cons S rest ih =>
    intro found num s hlist hnd hent hfuel hcons
    have hrest : ∀ x, x ∈ rest → x ∈ succEntries m F :=
      fun x hx => hlist x (List.mem_cons_of_mem _ hx)
    unfold blockAddSuccessorsLoop
    by_cases hS : S ∈ found
    · rw [if_pos hS]
      obtain ⟨k, found', s', g1, g2, g3, g4⟩ := ih found num s hrest hnd hent hfuel hcons
      refine ⟨k, found', s', g1, g2, ?_, ?_⟩
      · intro x hx
        rcases List.mem_cons.mp hx with rfl | hx
        · exact g2.mono _ hS
        · exact g3 x hx
      · intro T h1 h2
        rcases g4 T h1 h2 with h | ⟨E, h3, h4, h5⟩
        · exact Or.inl (List.mem_cons_of_mem _ h)
        · exact Or.inr ⟨E, List.mem_cons_of_mem _ h3, h4, h5⟩
    · rw [if_neg hS, M.get_bind, M.assert_bind _ _ _ (assert_consistent (hcons S))]
      have hSe : S ∈ succEntries m F := hlist S (List.mem_cons_self _ _)
      have hnd1 : (S :: found).Nodup := List.nodup_cons.mpr ⟨hS, hnd⟩
      have hent1 : ∀ x, x ∈ S :: found → x ∈ succEntries m F := by
        intro x hx
        rcases List.mem_cons.mp hx with rfl | hx
        · exact hSe
        · exact hent x hx
      have hlen1 := length_le_entries hnd1 hent1
      simp only [List.length_cons] at hlen1
      cases hf : (s.built_blocks (F, S)).1 with
      | none =>
        simp only []
        obtain ⟨n1, f1, s1, r1, r2, r3, r4⟩ := hrec S (S :: found) s hnd1 hent1
          (by simp only [List.length_cons]; omega) hcons
        rw [M.bind_run r1]
        have r2' := stitchStep_enter r2 hf r3
        have hcons1 : ∀ b, (s1.built_blocks (F, b)).1.isSome =
            (s1.built_blocks (F, b)).2.isSome := by
          rw [r2.blocks_eq]
          exact hcons
        obtain ⟨k, found', s', g1, g2, g3, g4⟩ := ih f1 (num + n1) s1 hrest r2.nodup
          r2.entries (by have := r2'.len_le; omega) hcons1
        refine ⟨n1 + k, found', s', ?_, stitchStep_trans r2' g2, ?_, ?_⟩
        · rw [← Nat.add_assoc]
          exact g1
        · intro x hx
          rcases List.mem_cons.mp hx with rfl | hx
          · exact g2.mono _ (r2.mono _ (List.mem_cons_self _ _))
          · exact g3 x hx
        · intro T h1 h2
          by_cases hT : T ∈ f1
          · by_cases hTS : T = S
            · exact Or.inl (hTS ▸ List.mem_cons_self _ _)
            · refine Or.inr ⟨S, List.mem_cons_self _ _, hf, r4 T hT ?_⟩
              intro hx
              rcases List.mem_cons.mp hx with rfl | hx
              · exact hTS rfl
              · exact h2 hx
          · rcases g4 T h1 hT with h | ⟨E, h3, h4, h5⟩
            · exact Or.inl (List.mem_cons_of_mem _ h)
            · rw [r2.blocks_eq] at h4 h5
              exact Or.inr ⟨E, List.mem_cons_of_mem _ h3, h4, h5⟩
      | some f =>
        simp only []
        rw [addSuccessor_bind]
        have e1 := stitchStep_edge (z := z) hnd hent hS hSe hf
        obtain ⟨k, found', s', g1, g2, g3, g4⟩ := ih (S :: found) (num + 1)
          (s.update z fun x => { x with successors := x.successors ++ [f] }) hrest hnd1 hent1
          (by simp only [List.length_cons]; omega) (fun b => hcons b)
        refine ⟨1 + k, found', s', ?_, stitchStep_trans e1 g2, ?_, ?_⟩
        · rw [← Nat.add_assoc]
          exact g1
        · intro x hx
          rcases List.mem_cons.mp hx with rfl | hx
          · exact g2.mono _ (List.mem_cons_self _ _)
          · exact g3 x hx
        · intro T h1 h2
          by_cases hTS : T = S
          · exact Or.inl (hTS ▸ List.mem_cons_self _ _)
          · have hT : T ∉ S :: found := by
              intro hx
              rcases List.mem_cons.mp hx with rfl | hx
              · exact hTS rfl
              · exact h2 hx
            rcases g4 T h1 hT with h | ⟨E, h3, h4, h5⟩
            · exact Or.inl (List.mem_cons_of_mem _ h)
            · exact Or.inr ⟨E, List.mem_cons_of_mem _ h3, h4, h5⟩

theorem blockAddSuccessors_spec {m : Module} {F z : Nat} :
    ∀ (fuel block : Nat) (found : List Nat) (s : LLVMPSSBuilder), found.Nodup →
      (∀ x, x ∈ found → x ∈ succEntries m F) →
      (succEntries m F).length < fuel + found.length →
      (∀ b, (s.built_blocks (F, b)).1.isSome = (s.built_blocks (F, b)).2.isSome) →
      ∃ num found' s', blockAddSuccessors m F z fuel block found s = .ok ((num, found'), s') ∧
        StitchStep m F z found s num found' s' ∧
        (∀ x, x ∈ (m.getBlock F block).succs → x ∈ found') ∧
        (∀ T, T ∈ found' → T ∉ found → StitchReach m s.built_blocks F block T) := by
  intro fuel
  induction fuel with
  | zero =>
    intro block found s hnd hent hfuel _
    have := length_le_entries hnd hent
    omega
  | succ fuel ih =>
    intro block found s hnd hent hfuel hcons
    unfold blockAddSuccessors
    obtain ⟨k, found', s', g1, g2, g3, g4⟩ :=
      blockAddSuccessorsLoop_spec (z := z) (fun S fd t => ih S fd t)
        (m.getBlock F block).succs found 0 s (fun x hx => succs_entries hx) hnd hent hfuel hcons
    rw [Nat.zero_add] at g1
    refine ⟨k, found', s', g1, g2, g3, ?_⟩
    intro T h1 h2
    rcases g4 T h1 h2 with h | ⟨E, h3, h4, h5⟩
    · exact StitchReach.edge h
    · exact StitchReach.through h3 h4 h5

theorem entries_lt_stitchFuel (m : Module) (F : Nat) :
    (succEntries m F).length < stitchFuel m F + ([] : List Nat).length := by
  unfold succEntries stitchFuel
  rw [List.length_flatten, List.map_map]
  simp only [List.length_nil, Nat.add_zero]
  exact Nat.lt_succ_self _

/-- One call of `blockAddSuccessors` from the stitching loop, for a block `B` whose last
node is `last`: it returns, and it appends to the successors of `last` exactly the first
nodes of the blocks with nodes reached from `B` through blocks without nodes. -/
theorem blockAddSuccessors_top {m : Module} {F z B : Nat} {s : LLVMPSSBuilder}
    (hcons : ∀ b, (s.built_blocks (F, b)).1.isSome = (s.built_blocks (F, b)).2.isSome) :
    ∃ num found' s',
      blockAddSuccessors m F z (stitchFuel m F) B [] s = .ok ((num, found'), s') ∧
      s'.built_blocks = s.built_blocks ∧ s'.size = s.size ∧
      (∀ i, i ≠ z → s'.node i = s.node i) ∧
      ∃ L, (s'.node z).successors = (s.node z).successors ++ L ∧ L.length = num ∧
        ∀ x, x ∈ L ↔ ∃ S, StitchReach m s.built_blocks F B S ∧
          (s.built_blocks (F, S)).1 = some x := by
  obtain ⟨num, found', s', g1, g2, g3, g4⟩ :=
    blockAddSuccessors_spec (m := m) (F := F) (z := z) (stitchFuel m F) B [] s
      List.nodup_nil (fun x hx => by cases hx) (entries_lt_stitchFuel m F) hcons
  have hcomplete : ∀ A S, StitchReach m s.built_blocks F A S →
      (A = B ∨ (A ∈ found' ∧ (s.built_blocks (F, A)).1 = none)) → S ∈ found' := by
    intro A S hr
    induction hr with
    | edge hS =>
      rename_i A' S'
      rintro (rfl | ⟨h1, h2⟩)
      · exact g3 _ hS
      · exact g2.closed _ h1 (by simp) h2 _ hS
    | through hE hEn _ ih =>
      rename_i A' E' S'
      intro hA
      apply ih
      right
      refine ⟨?_, hEn⟩
      rcases hA with rfl | ⟨h1, h2⟩
      · exact g3 _ hE
      · exact g2.closed _ h1 (by simp) h2 _ hE
  obtain ⟨L, hL1, hL2, hL3⟩ := g2.edges
  refine ⟨num, found', s', g1, g2.blocks_eq, g2.size_eq, g2.other, L, hL1, hL2, ?_⟩
  intro x
  rw [hL3 x]
  constructor
  · rintro ⟨S, h1, h2, h3⟩
    exact ⟨S, g4 S h1 h2, h3⟩
  · rintro ⟨S, h1, h2⟩
    exact ⟨S, hcomplete B S h1 (Or.inl rfl), by simp, h2⟩

theorem stitchBlocksLoop_spec {m : Module} {F : Nat} :
    ∀ (list : List BasicBlock) (b : Nat) (rets : List Nat) (s : LLVMPSSBuilder),
      (∀ b, (s.built_blocks (F, b)).1.isSome = (s.built_blocks (F, b)).2.isSome) →
      ∃ rets' s', stitchBlocksLoop m F list b rets s = .ok (rets', s') ∧
        s'.built_blocks = s.built_blocks ∧ s'.size = s.size ∧
        (∀ l, (s.node l).successors <+: (s'.node l).successors) ∧
        (∀ B l, b ≤ B → B < b + list.length → (s.built_blocks (F, B)).2 = some l →
          ∀ S f, StitchReach m s.built_blocks F B S → (s.built_blocks (F, S)).1 = some f →
            f ∈ (s'.node l).successors) ∧
        (∀ l x, x ∈ (s'.node l).successors → x ∈ (s.node l).successors ∨
          ∃ B S, b ≤ B ∧ B < b + list.length ∧ (s.built_blocks (F, B)).2 = some l ∧
            StitchReach m s.built_blocks F B S ∧ (s.built_blocks (F, S)).1 = some x) := by
  intro list
  induction list with
  | nil =>
    intro b rets s _
    refine ⟨rets, s, rfl, rfl, rfl, fun _ => List.prefix_refl _, ?_, fun l x hx => Or.inl hx⟩
    intro B l h1 h2
    simp at h2
    omega
  | cons B0 rest ih =>
    intro b rets s hcons
    unfold stitchBlocksLoop
    rw [M.get_bind, M.assert_bind _ _ _ (assert_consistent (hcons b))]
    cases h1 : (s.built_blocks (F, b)).1 with
    | none =>
      have h2 : (s.built_blocks (F, b)).2 = none := by
        have := hcons b
        rw [h1] at this
        cases hx : (s.built_blocks (F, b)).2 with
        | none => rfl
        | some v =>
          rw [hx] at this
          cases this
      simp only [h2]
      obtain ⟨rets', s', g1, g2, g3, g4, g5, g6⟩ := ih (b + 1) rets s hcons
      refine ⟨rets', s', g1, g2, g3, g4, ?_, ?_⟩
      · intro B l k1 k2 k3
        by_cases hB : B = b
        · subst hB
          rw [h2] at k3
          cases k3
        · exact g5 B l (by omega) (by simp only [List.length_cons] at k2; omega) k3
      · intro l x hx
        rcases g6 l x hx with h | ⟨B, S, k1, k2, k3, k4, k5⟩
        · exact Or.inl h
        · exact Or.inr ⟨B, S, by omega, by simp only [List.length_cons]; omega, k3, k4, k5⟩
    | some first =>
      cases h2 : (s.built_blocks (F, b)).2 with
      | none =>
        have := hcons b
        rw [h1, h2] at this
        cases this
      | some last =>
        simp only []
        obtain ⟨num, found', s1, r1, r2, r3, r4, L, r5, r6, r7⟩ :=
          blockAddSuccessors_top (m := m) (F := F) (z := last) (B := b) hcons
        rw [M.bind_run r1]
        have hcons1 : ∀ b, (s1.built_blocks (F, b)).1.isSome =
            (s1.built_blocks (F, b)).2.isSome := by
          rw [r2]
          exact hcons
        have hpre : ∀ l, (s.node l).successors <+: (s1.node l).successors := by
          intro l
          by_cases hl : l = last
          · subst hl
            rw [r5]
            exact List.prefix_append _ _
          · rw [r4 l hl]
        have key : ∀ rets0, ∃ rets' s', stitchBlocksLoop m F rest (b + 1) rets0 s1 =
            .ok (rets', s') ∧
            s'.built_blocks = s.built_blocks ∧ s'.size = s.size ∧
            (∀ l, (s.node l).successors <+: (s'.node l).successors) ∧
            (∀ B l, b ≤ B → B < b + (B0 :: rest).length → (s.built_blocks (F, B)).2 = some l →
              ∀ S f, StitchReach m s.built_blocks F B S → (s.built_blocks (F, S)).1 = some f →
                f ∈ (s'.node l).successors) ∧
            (∀ l x, x ∈ (s'.node l).successors → x ∈ (s.node l).successors ∨
              ∃ B S, b ≤ B ∧ B < b + (B0 :: rest).length ∧ (s.built_blocks (F, B)).2 = some l ∧
                StitchReach m s.built_blocks F B S ∧ (s.built_blocks (F, S)).1 = some x) := by
          intro rets0
          obtain ⟨rets', s', g1, g2, g3, g4, g5, g6⟩ := ih (b + 1) rets0 s1 hcons1
          rw [r2] at g5 g6
          refine ⟨rets', s', g1, by rw [g2, r2], by rw [g3, r3],
            fun l => (hpre l).trans (g4 l), ?_, ?_⟩
          · intro B l k1 k2 k3 S f k4 k5
            by_cases hB : B = b
            · rw [hB] at k3 k4
              have hl : l = last := by
                rw [h2] at k3
                exact (Option.some.inj k3).symm
              rw [hl]
              apply (g4 last).subset
              rw [r5]
              exact List.mem_append_right _ ((r7 f).mpr ⟨S, k4, k5⟩)
            · exact g5 B l (by omega) (by simp only [List.length_cons] at k2; omega) k3 S f k4 k5
          · intro l x hx
            rcases g6 l x hx with h | ⟨B, S, k1, k2, k3, k4, k5⟩
            · by_cases hl : l = last
              · subst hl
                rw [r5] at h
                rcases List.mem_append.mp h with h | h
                · exact Or.inl h
                · obtain ⟨S, k4, k5⟩ := (r7 x).mp h
                  exact Or.inr ⟨b, S, le_refl _, by simp, h2, k4, k5⟩
              · rw [r4 l hl] at h
                exact Or.inl h
            · exact Or.inr ⟨B, S, by omega, by simp only [List.length_cons]; omega, k3, k4, k5⟩
        split
        · exact key _
        · exact key _

/-- C5: stitching the blocks of a function, for a table of built blocks in which every
block has both a first and a last node or neither, returns (the bound on the descent
through blocks without nodes is never hit), and afterwards: for every block `B` of the
function with last node `l` and every block `S` with first node `f` reached from `B` by
IR successor edges through blocks without nodes, `f` is a successor of `l`; and every
successor a node has got from stitching is such an `f`, for a block `B` of which the
node is the last one. -/
theorem stitch_adds_exactly_reachable_firsts (m : Module) (F : Nat) (s : LLVMPSSBuilder)
    (hcons : ∀ b, (s.built_blocks (F, b)).1.isSome = (s.built_blocks (F, b)).2.isSome) :
    ∃ rets s', stitchBlocksLoop m F (m.getFunc F).blocks 0 [] s = .ok (rets, s') ∧
      s'.built_blocks = s.built_blocks ∧
      (∀ B l, B < (m.getFunc F).blocks.length → (s.built_blocks (F, B)).2 = some l →
        ∀ S f, StitchReach m s.built_blocks F B S → (s.built_blocks (F, S)).1 = some f →
          f ∈ (s'.node l).successors) ∧
      (∀ l x, x ∈ (s'.node l).successors → x ∈ (s.node l).successors ∨
        ∃ B S, B < (m.getFunc F).blocks.length ∧ (s.built_blocks (F, B)).2 = some l ∧
          StitchReach m s.built_blocks F B S ∧ (s.built_blocks (F, S)).1 = some x) := by
  obtain ⟨rets, s', g1, g2, -, -, g5, g6⟩ :=
    stitchBlocksLoop_spec (m := m) (F := F) (m.getFunc F).blocks 0 [] s hcons
  refine ⟨rets, s', g1, g2, ?_, ?_⟩
  · intro B l h1 h2
    exact g5 B l (Nat.zero_le _) (by omega) h2
  · intro l x hx
    rcases g6 l x hx with h | ⟨B, S, -, k2, k3, k4, k5⟩
    · exact Or.inl h
    · exact Or.inr ⟨B, S, by omega, k3, k4, k5⟩

set_option maxRecDepth 100000 in
theorem exStitch_builds : (finalState exStitch 1).isSome = true := by decide!

/-- C5 at the function `main` of the module `exStitch`, for the table of built blocks
that its build leaves: block 0 has the nodes 4 to 4, block 1 none, block 2 the nodes 5
to 5. -/
theorem stitch_adds_exactly_reachable_firsts_witness :
    ∃ rets s', stitchBlocksLoop exStitch 0 (exStitch.getFunc 0).blocks 0 []
        (endState exStitch 1) = .ok (rets, s') ∧
      s'.built_blocks = (endState exStitch 1).built_blocks ∧
      (∀ B l, B < (exStitch.getFunc 0).blocks.length →
        ((endState exStitch 1).built_blocks (0, B)).2 = some l →
        ∀ S f, StitchReach exStitch (endState exStitch 1).built_blocks 0 B S →
          ((endState exStitch 1).built_blocks (0, S)).1 = some f →
          f ∈ (s'.node l).successors) ∧
      (∀ l x, x ∈ (s'.node l).successors → x ∈ ((endState exStitch 1).node l).successors ∨
        ∃ B S, B < (exStitch.getFunc 0).blocks.length ∧
          ((endState exStitch 1).built_blocks (0, B)).2 = some l ∧
          StitchReach exStitch (endState exStitch 1).built_blocks 0 B S ∧
          ((endState exStitch 1).built_blocks (0, S)).1 = some x) :=
  stitch_adds_exactly_reachable_firsts exStitch 0 (endState exStitch 1)
    (fun b => (buildLLVMPSS_wf (build_eq_end exStitch_builds)).blocks_cons 0 b)

/-! ## The recursion bounds are never used up -/

set_option linter.unusedTactic false
set_option linter.unreachableTactic false

theorem NoFuel.bind {α β : Type} {x : M α} {f : α → M β} (hx : NoFuel x)
    (hf : ∀ a, NoFuel (f a)) : NoFuel (x >>= f) := by
  refine ⟨fun s => ?_⟩
  show (match x s with
    | .ok (a, s') => f a s'
    | .error e => .error e) ≠ _
  cases h : x s with
  | error e =>
    intro hc
    simp only at hc
    cases hc
    exact hx.never s h
  | ok r => exact (hf r.1).never r.2

@[simp] theorem NoFuel.pure {α : Type} (a : α) : NoFuel (pure a : M α) := by
  refine ⟨fun s h => ?_⟩
  cases h

@[simp] theorem NoFuel.fail_abort {α : Type} (msg : String) :
    NoFuel (M.fail (.abort msg) : M α) := by
  refine ⟨fun s h => ?_⟩
  cases h

@[simp] theorem NoFuel.fail_assertion {α : Type} (msg : String) :
    NoFuel (M.fail (.assertion msg) : M α) := by
  refine ⟨fun s h => ?_⟩
  cases h

@[simp] theorem NoFuel.fail_outOfRange {α : Type} : NoFuel (M.fail .outOfRange : M α) := by
  refine ⟨fun s h => ?_⟩
  cases h

@[simp] theorem NoFuel.fail_nullDeref {α : Type} : NoFuel (M.fail .nullDeref : M α) := by
  refine ⟨fun s h => ?_⟩
  cases h

@[simp] theorem NoFuel.get : NoFuel M.get := by
  refine ⟨fun s h => ?_⟩
  cases h

@[simp] theorem NoFuel.modify (f : LLVMPSSBuilder → LLVMPSSBuilder) : NoFuel (M.modify f) := by
  refine ⟨fun s h => ?_⟩
  cases h

@[simp] theorem NoFuel.assert (c : Bool) (msg : String) : NoFuel (M.assert c msg) := by
  unfold M.assert
  split <;> simp

@[simp] theorem newNode_nofuel (mk : Nat → PSSNode) : NoFuel (newNode mk) := by
  refine ⟨fun s h => ?_⟩
  cases h

@[simp] theorem getNodeData_nofuel (n : Nat) : NoFuel (getNodeData n) := by
  refine ⟨fun s h => ?_⟩
  cases h

@[simp] theorem getNode_nofuel (v : Value) : NoFuel (getNode v) := by
  refine ⟨fun s h => ?_⟩
  cases h

@[simp] theorem mkNode_nofuel (k : PSSNodeType) (ops : List (Option Nat)) (o l : Offset) :
    NoFuel (mkNode k ops o l) := by
  unfold mkNode
  simp

@[simp] theorem mkOpNode_nofuel (k : PSSNodeType) (ops : List (Option Nat)) :
    NoFuel (mkOpNode k ops) := by
  unfold mkOpNode
  simp

@[simp] theorem mkConstant_nofuel (t : Nat) (o : Offset) : NoFuel (mkConstant t o) := by
  unfold mkConstant
  repeat' first
    | (simp; done)
    | apply NoFuel.bind
    | intro _
    | split
    | dsimp only

@[simp] theorem addSuccessor_nofuel (n t : Nat) : NoFuel (addSuccessor n t) := by
  unfold addSuccessor
  simp

@[simp] theorem addOperand_nofuel (n t : Nat) : NoFuel (addOperand n t) := by
  unfold addOperand
  simp

@[simp] theorem setPairedNode_nofuel (n t : Nat) : NoFuel (setPairedNode n t) := by
  unfold setPairedNode
  simp

@[simp] theorem setSize_nofuel (n t : Nat) : NoFuel (setSize n t) := by
  unfold setSize
  simp

@[simp] theorem setIsHeap_nofuel (n : Nat) : NoFuel (setIsHeap n) := by
  unfold setIsHeap
  simp

@[simp] theorem setZeroInitialized_nofuel (n : Nat) : NoFuel (setZeroInitialized n) := by
  unfold setZeroInitialized
  simp

@[simp] theorem addPointsTo_nofuel (n : Nat) (p : Pointer) : NoFuel (addPointsTo n p) := by
  unfold addPointsTo
  simp

@[simp] theorem insertAfter_nofuel (n t : Nat) : NoFuel (insertAfter n t) := by
  unfold insertAfter
  simp

@[simp] theorem addNode_nofuel (v : Value) (n : Nat) : NoFuel (addNode v n) := by
  unfold addNode
  simp

@[simp] theorem setBuiltBlock_nofuel (k : Nat × Nat) (nds : Option Nat × Option Nat) :
    NoFuel (setBuiltBlock k nds) := by
  unfold setBuiltBlock
  simp

@[simp] theorem setSubgraph_nofuel (F : Nat) (sg : Subgraph) : NoFuel (setSubgraph F sg) := by
  unfold setSubgraph
  simp

theorem getMemAllocationFunc_nofuel (f : Option Function) :
    getMemAllocationFunc f ≠ .error .outOfFuel := by
  unfold getMemAllocationFunc
  repeat' first
    | (simp; done)
    | split
    | dsimp only

theorem NoFuel.ofExcept {α : Type} {x : Except Error α} (h : x ≠ .error .outOfFuel) :
    NoFuel (M.ofExcept x) := by
  refine ⟨fun s => ?_⟩
  unfold M.ofExcept
  cases x with
  | error e =>
    intro hc
    simp only at hc
    cases hc
    exact h rfl
  | ok a =>
    intro hc
    cases hc

@[simp] theorem singlePointer_nofuel (n : Nat) (msg : String) :
    NoFuel (singlePointer n msg) := by
  unfold singlePointer
  repeat' first
    | (simp; done)
    | apply NoFuel.bind
    | intro _
    | split
    | dsimp only

@[simp] theorem callOperand_nofuel (args : List Value) (cv : Value) (k : Nat) :
    NoFuel (callOperand args cv k) := by
  unfold callOperand
  repeat' first
    | (simp; done)
    | apply NoFuel.bind
    | intro _
    | split
    | dsimp only

@[simp] theorem getArgOperand_nofuel (args : List Value) (k : Nat) :
    NoFuel (getArgOperand args k) := by
  unfold getArgOperand
  repeat' first
    | (simp; done)
    | apply NoFuel.bind
    | intro _
    | split
    | dsimp only

theorem Constant.depth_stripPointerCasts (c : Constant) :
    c.stripPointerCasts.depth ≤ c.depth := by
  induction c with
  | bitCast op ty l ih =>
    unfold Constant.stripPointerCasts
    split
    · simp only [Constant.depth]
      omega
    · exact le_refl _
  | gep base acc z ib ih =>
    unfold Constant.stripPointerCasts
    split
    · simp only [Constant.depth]
      omega
    · exact le_refl _
  | _ => exact le_refl _

theorem handleConstantBitCast_nofuel {recurse : Constant → M Nat} {op : Constant} {ty : Ty}
    {l : Bool} (h : ∀ c, c.depth < (Constant.bitCast op ty l).depth → NoFuel (recurse c)) :
    NoFuel (handleConstantBitCast recurse (.bitCast op ty l) l) := by
  unfold handleConstantBitCast
  split
  · simp
  · split
    · simp
    · rename_i hne
      have hd : (Constant.bitCast op ty l).stripPointerCasts.depth <
          (Constant.bitCast op ty l).depth := by
        have := Constant.depth_stripPointerCasts op
        unfold Constant.stripPointerCasts at hne ⊢
        split
        · simp only [Constant.depth]
          omega
        · rename_i hty
          rw [if_neg hty] at hne
          exact absurd rfl hne
      have := h _ hd
      repeat' first
        | (simp; done)
        | assumption
        | apply NoFuel.bind
        | intro _

theorem handleConstantGep_nofuel {m : Module} {recurse : Constant → M Nat} {op : Constant}
    {acc : Option Nat} (h : NoFuel (recurse op)) :
    NoFuel (handleConstantGep m recurse op acc) := by
  unfold handleConstantGep
  repeat' first
    | (simp; done)
    | assumption
    | apply NoFuel.bind
    | intro _
    | split
    | dsimp only

theorem getConstantExprPointer_nofuel {m : Module} {recurse : Constant → M Nat}
    {CE : Constant} (h : ∀ c, c.depth < CE.depth → NoFuel (recurse c)) :
    NoFuel (getConstantExprPointer m recurse CE) := by
  unfold getConstantExprPointer
  split
  · exact handleConstantGep_nofuel (h _ (by simp [Constant.depth]))
  · exact handleConstantBitCast_nofuel h
  · simp
  · simp

theorem createConstantExpr_nofuel {m : Module} {recurse : Constant → M Nat}
    {CE : Constant} (h : ∀ c, c.depth < CE.depth → NoFuel (recurse c)) :
    NoFuel (createConstantExpr m recurse CE) := by
  unfold createConstantExpr
  have := getConstantExprPointer_nofuel (m := m) h
  repeat' first
    | (simp; done)
    | assumption
    | apply NoFuel.bind
    | intro _
    | split
    | dsimp only

theorem getConstant_nofuel {m : Module} {recurse : Constant → M Nat} {val : Value}
    (h : ∀ c, c.depth < val.depth → NoFuel (recurse c)) :
    NoFuel (getConstant m recurse val) := by
  unfold getConstant
  split
  · simp
  · repeat' first
      | (simp; done)
      | apply NoFuel.bind
      | intro _
  · split
    · exact createConstantExpr_nofuel h
    · simp
  · simp

theorem getOperandAux_nofuel (m : Module) :
    ∀ (fuel : Nat) (val : Value), val.depth < fuel → NoFuel (getOperandAux m fuel val) := by
  intro fuel
  induction fuel with
  | zero =>
    intro val h
    omega
  | succ fuel ih =>
    intro val h
    unfold getOperandAux
    have hc : NoFuel (getConstant m (fun c => getOperandAux m fuel (.const c)) val) :=
      getConstant_nofuel fun c hc => ih (.const c) (by simp only [Value.depth]; omega)
    repeat' first
      | (simp; done)
      | assumption
      | apply NoFuel.bind
      | intro _
      | split
      | dsimp only

@[simp] theorem getOperand_nofuel (m : Module) (val : Value) : NoFuel (getOperand m val) :=
  getOperandAux_nofuel m _ val (Nat.lt_succ_self _)

set_option linter.unusedTactic false
set_option linter.unreachableTactic false

@[simp] theorem getMemAllocationFunc_ofExcept_nofuel (f : Option Function) :
    NoFuel (M.ofExcept (getMemAllocationFunc f)) :=
  NoFuel.ofExcept (getMemAllocationFunc_nofuel f)

@[simp] theorem createDynamicAlloc_nofuel (args : List Value) (cv : Value) (type : MemAllocationFuncs) :
    NoFuel (createDynamicAlloc args cv type) := by
  unfold createDynamicAlloc
  repeat' first
    | (simp; done)
    | assumption
    | apply NoFuel.bind
    | intro _
    | split
    | dsimp only

@[simp] theorem createDynamicMemAlloc_nofuel (I : Value) (args : List Value) (cv : Value) (type : MemAllocationFuncs) :
    NoFuel (createDynamicMemAlloc I args cv type) := by
  unfold createDynamicMemAlloc
  repeat' first
    | (simp; done)
    | assumption
    | apply NoFuel.bind
    | intro _
    | split
    | dsimp only

@[simp] theorem createUnknownCall_nofuel (I : Value) (ty : Ty) :
    NoFuel (createUnknownCall I ty) := by
  unfold createUnknownCall
  repeat' first
    | (simp; done)
    | assumption
    | apply NoFuel.bind
    | intro _
    | split
    | dsimp only

@[simp] theorem createMemTransfer_nofuel (m : Module) (I : Value) (id : Option Intrinsic) (args : List Value) (cv : Value) :
    NoFuel (createMemTransfer m I id args cv) := by
  unfold createMemTransfer
  repeat' first
    | (simp; done)
    | assumption
    | apply NoFuel.bind
    | intro _
    | split
    | dsimp only

@[simp] theorem createVarArg_nofuel (m : Module) (I : Value) (F : Nat) (args : List Value) (cv : Value) :
    NoFuel (createVarArg m I F args cv) := by
  unfold createVarArg
  repeat' first
    | (simp; done)
    | assumption
    | apply NoFuel.bind
    | intro _
    | split
    | dsimp only

@[simp] theorem addOperands_nofuel (n : Nat) (l : List Nat) : NoFuel (addOperands n l) := by
  induction l with
  | nil =>
    unfold addOperands
    simp
  | cons r rest ih =>
    unfold addOperands
    repeat' first
      | (simp; done)
      | assumption
      | apply ih
      | apply NoFuel.bind
      | intro _
      | split
      | dsimp only

@[simp] theorem createCallToFunctionArgs_nofuel (m : Module) (args : List Value)
    (params : List Ty) (idx : Nat) (arg : Option Nat) :
    NoFuel (createCallToFunctionArgs m args params idx arg) := by
  induction params generalizing idx arg with
  | nil =>
    unfold createCallToFunctionArgs
    simp
  | cons A rest ih =>
    unfold createCallToFunctionArgs
    repeat' first
      | (simp; done)
      | assumption
      | apply ih
      | apply NoFuel.bind
      | intro _
      | split
      | dsimp only

@[simp] theorem createCallToFunctionVarArgs_nofuel (m : Module) (arg : Nat)
    (l : List Value) : NoFuel (createCallToFunctionVarArgs m arg l) := by
  induction l with
  | nil =>
    unfold createCallToFunctionVarArgs
    simp
  | cons v rest ih =>
    unfold createCallToFunctionVarArgs
    repeat' first
      | (simp; done)
      | assumption
      | apply ih
      | apply NoFuel.bind
      | intro _
      | split
      | dsimp only

@[simp] theorem createAlloc_nofuel (m : Module) (I : Value) (ty : Option Ty) :
    NoFuel (createAlloc m I ty) := by
  unfold createAlloc
  repeat' first
    | (simp; done)
    | assumption
    | apply NoFuel.bind
    | intro _
    | split
    | dsimp only

@[simp] theorem createStore_nofuel (m : Module) (I v p : Value) :
    NoFuel (createStore m I v p) := by
  unfold createStore
  repeat' first
    | (simp; done)
    | assumption
    | apply NoFuel.bind
    | intro _
    | split
    | dsimp only

@[simp] theorem createLoad_nofuel (m : Module) (I p : Value) :
    NoFuel (createLoad m I p) := by
  unfold createLoad
  repeat' first
    | (simp; done)
    | assumption
    | apply NoFuel.bind
    | intro _
    | split
    | dsimp only

@[simp] theorem createGEP_nofuel (m : Module) (I p : Value) (acc : Option Nat) :
    NoFuel (createGEP m I p acc) := by
  unfold createGEP
  repeat' first
    | (simp; done)
    | assumption
    | apply NoFuel.bind
    | intro _
    | split
    | dsimp only

@[simp] theorem createSelect_nofuel (m : Module) (I : Value) (ty : Ty) (a b : Value) :
    NoFuel (createSelect m I ty a b) := by
  unfold createSelect
  repeat' first
    | (simp; done)
    | assumption
    | apply NoFuel.bind
    | intro _
    | split
    | dsimp only

@[simp] theorem createPHI_nofuel (I : Value) (ty : Ty) :
    NoFuel (createPHI I ty) := by
  unfold createPHI
  repeat' first
    | (simp; done)
    | assumption
    | apply NoFuel.bind
    | intro _
    | split
    | dsimp only

@[simp] theorem addPHIOperands_nofuel (m : Module) (node : Nat) (l : List Value) :
    NoFuel (addPHIOperands m node l) := by
  induction l with
  | nil =>
    unfold addPHIOperands
    simp
  | cons v rest ih =>
    unfold addPHIOperands
    repeat' first
      | (simp; done)
      | assumption
      | apply ih
      | apply NoFuel.bind
      | intro _
      | split
      | dsimp only

@[simp] theorem addPHIOperandsBlock_nofuel (m : Module) (F b : Nat) (l : List Inst)
    (i : Nat) : NoFuel (addPHIOperandsBlock m F b l i) := by
  induction l generalizing i with
  | nil =>
    unfold addPHIOperandsBlock
    simp
  | cons I rest ih =>
    unfold addPHIOperandsBlock
    repeat' first
      | (simp; done)
      | assumption
      | apply ih
      | apply NoFuel.bind
      | intro _
      | split
      | dsimp only

@[simp] theorem addPHIOperandsBlocks_nofuel (m : Module) (F : Nat) (l : List BasicBlock)
    (b : Nat) : NoFuel (addPHIOperandsBlocks m F l b) := by
  induction l generalizing b with
  | nil =>
    unfold addPHIOperandsBlocks
    simp
  | cons B rest ih =>
    unfold addPHIOperandsBlocks
    repeat' first
      | (simp; done)
      | assumption
      | apply ih
      | apply NoFuel.bind
      | intro _
      | split
      | dsimp only

@[simp] theorem addPHIOperandsFunction_nofuel (m : Module) (F : Nat) :
    NoFuel (addPHIOperandsFunction m F) := by
  unfold addPHIOperandsFunction
  simp

@[simp] theorem createCast_nofuel (m : Module) (I p : Value) :
    NoFuel (createCast m I p) := by
  unfold createCast
  repeat' first
    | (simp; done)
    | assumption
    | apply NoFuel.bind
    | intro _
    | split
    | dsimp only

@[simp] theorem createPtrToInt_nofuel (m : Module) (I p : Value) :
    NoFuel (createPtrToInt m I p) := by
  unfold createPtrToInt
  repeat' first
    | (simp; done)
    | assumption
    | apply NoFuel.bind
    | intro _
    | split
    | dsimp only

@[simp] theorem createIntToPtr_nofuel (m : Module) (I p : Value) :
    NoFuel (createIntToPtr m I p) := by
  unfold createIntToPtr
  repeat' first
    | (simp; done)
    | assumption
    | apply NoFuel.bind
    | intro _
    | split
    | dsimp only

@[simp] theorem createReturn_nofuel (m : Module) (I : Value) (r : Option Value) :
    NoFuel (createReturn m I r) := by
  unfold createReturn
  repeat' first
    | (simp; done)
    | assumption
    | apply NoFuel.bind
    | intro _
    | split
    | dsimp only

@[simp] theorem createIntrinsic_nofuel (m : Module) (I : Value) (F : Nat) (id : Option Intrinsic) (args : List Value) (cv : Value) :
    NoFuel (createIntrinsic m I F id args cv) := by
  unfold createIntrinsic
  repeat' first
    | (simp; done)
    | assumption
    | apply NoFuel.bind
    | intro _
    | split
    | dsimp only

@[simp] theorem lowerInst_nofuel (m : Module) (F b i : Nat) (I : Inst) (node : Option Nat) :
    NoFuel (lowerInst m F b i I node) := by
  unfold lowerInst
  repeat' first
    | (simp; done)
    | assumption
    | apply NoFuel.bind
    | intro _
    | split
    | dsimp only

@[simp] theorem buildPSSBlockLink_nofuel (rf p n : Option Nat) :
    NoFuel (buildPSSBlockLink rf p n) := by
  unfold buildPSSBlockLink
  repeat' first
    | (simp; done)
    | assumption
    | apply NoFuel.bind
    | intro _
    | split
    | dsimp only

@[simp] theorem buildArgumentsLoop_nofuel (F : Nat) (l : List Ty) (idx : Nat)
    (rf prev : Option Nat) : NoFuel (buildArgumentsLoop F l idx rf prev) := by
  induction l generalizing idx rf prev with
  | nil =>
    unfold buildArgumentsLoop
    simp
  | cons A rest ih =>
    unfold buildArgumentsLoop
    repeat' first
      | (simp; done)
      | assumption
      | apply ih
      | apply NoFuel.bind
      | intro _
      | split
      | dsimp only

@[simp] theorem buildArguments_nofuel (m : Module) (F : Nat) :
    NoFuel (buildArguments m F) := by
  unfold buildArguments
  repeat' first
    | (simp; done)
    | assumption
    | apply NoFuel.bind
    | intro _
    | split
    | dsimp only

@[simp] theorem addReturnEdges_nofuel (ret : Nat) (l : List Nat) :
    NoFuel (addReturnEdges ret l) := by
  induction l with
  | nil =>
    unfold addReturnEdges
    simp
  | cons r rest ih =>
    unfold addReturnEdges
    repeat' first
      | (simp; done)
      | assumption
      | apply ih
      | apply NoFuel.bind
      | intro _
      | split
      | dsimp only

@[simp] theorem handleAggregateInitializer_nofuel (m : Module) (node : Nat)
    (l : List Constant) (off last : Nat) :
    NoFuel (handleAggregateInitializer m node l off last) := by
  induction l generalizing off last with
  | nil =>
    unfold handleAggregateInitializer
    simp
  | cons c rest ih =>
    unfold handleAggregateInitializer
    repeat' first
      | (simp; done)
      | assumption
      | apply ih
      | apply NoFuel.bind
      | intro _
      | split
      | dsimp only

@[simp] theorem handleGlobalVariableInitializer_nofuel (m : Module) (C : Initializer) (node : Nat) :
    NoFuel (handleGlobalVariableInitializer m C node) := by
  unfold handleGlobalVariableInitializer
  repeat' first
    | (simp; done)
    | assumption
    | apply NoFuel.bind
    | intro _
    | split
    | dsimp only

@[simp] theorem buildGlobalsAlloc_nofuel (l : List GlobalVariable) (g : Nat)
    (prev first : Option Nat) : NoFuel (buildGlobalsAlloc l g prev first) := by
  induction l generalizing g prev first with
  | nil =>
    unfold buildGlobalsAlloc
    simp
  | cons G rest ih =>
    unfold buildGlobalsAlloc
    repeat' first
      | (simp; done)
      | assumption
      | apply ih
      | apply NoFuel.bind
      | intro _
      | split
      | dsimp only

@[simp] theorem buildGlobalsInit_nofuel (m : Module) (l : List GlobalVariable) (g : Nat)
    (cur : Option Nat) : NoFuel (buildGlobalsInit m l g cur) := by
  induction l generalizing g cur with
  | nil =>
    unfold buildGlobalsInit
    simp
  | cons G rest ih =>
    unfold buildGlobalsInit
    repeat' first
      | (simp; done)
      | assumption
      | apply ih
      | apply NoFuel.bind
      | intro _
      | split
      | dsimp only

@[simp] theorem buildGlobals_nofuel (m : Module) :
    NoFuel (buildGlobals m) := by
  unfold buildGlobals
  repeat' first
    | (simp; done)
    | assumption
    | apply NoFuel.bind
    | intro _
    | split
    | dsimp only

set_option linter.unusedTactic false
set_option linter.unreachableTactic false

theorem M.bind_oof {α β : Type} {x : M α} {f : α → M β} {s : LLVMPSSBuilder} (hx : NoFuel x)
    (h : (x >>= f) s = .error .outOfFuel) :
    ∃ a s1, x s = .ok (a, s1) ∧ f a s1 = .error .outOfFuel := by
  have h' : (match x s with
    | .ok (a, s') => f a s'
    | .error e => .error e) = .error .outOfFuel := h
  cases hx' : x s with
  | error e =>
    rw [hx'] at h'
    simp only at h'
    cases h'
    exact absurd hx' (hx.never s)
  | ok r =>
    rw [hx'] at h'
    exact ⟨r.1, r.2, rfl, h'⟩

theorem M.bind_oof_or {α β : Type} {x : M α} {f : α → M β} {s : LLVMPSSBuilder}
    (h : (x >>= f) s = .error .outOfFuel) :
    x s = .error .outOfFuel ∨ ∃ a s1, x s = .ok (a, s1) ∧ f a s1 = .error .outOfFuel := by
  have h' : (match x s with
    | .ok (a, s') => f a s'
    | .error e => .error e) = .error .outOfFuel := h
  cases hx' : x s with
  | error e =>
    rw [hx'] at h'
    simp only at h'
    cases h'
    exact Or.inl rfl
  | ok r =>
    rw [hx'] at h'
    exact Or.inr ⟨r.1, r.2, rfl, h'⟩

theorem unbuilt_le_of_ext {m : Module} {s s' : LLVMPSSBuilder} (h : Ext s s') :
    unbuilt m s' ≤ unbuilt m s := by
  unfold unbuilt
  apply List.Sublist.length_le
  apply List.monotone_filter_right
  intro F hF
  cases hr : (s.subgraphs_map F).root with
  | none => rfl
  | some r =>
    have := h.subg_eq F (by rw [hr]; simp)
    rw [this, hr] at hF
    exact hF

theorem filter_length_lt {l : List Nat} {p q : Nat → Bool} (hpq : ∀ a, p a = true → q a = true)
    {x : Nat} (hx : x ∈ l) (hq : q x = true) (hp : p x = false) :
    (l.filter p).length < (l.filter q).length := by
  induction l with
  | nil => cases hx
  | cons a rest ih =>
    have hmono : (rest.filter p).length ≤ (rest.filter q).length :=
      (List.monotone_filter_right rest hpq).length_le
    rcases List.mem_cons.mp hx with rfl | hx
    · rw [List.filter_cons_of_neg (by rw [hp]; simp), List.filter_cons_of_pos hq]
      simp only [List.length_cons]
      omega
    · have := ih hx
      by_cases hpa : p a = true
      · rw [List.filter_cons_of_pos hpa, List.filter_cons_of_pos (hpq a hpa)]
        simp only [List.length_cons]
        omega
      · rw [List.filter_cons_of_neg hpa]
        by_cases hqa : q a = true
        · rw [List.filter_cons_of_pos hqa]
          simp only [List.length_cons]
          omega
        · rw [List.filter_cons_of_neg hqa]
          exact this

theorem unbuilt_lt_of_ext {m : Module} {s s' : LLVMPSSBuilder} {F : Nat} (h : Ext s s')
    (hF : F < m.functions.length) (h0 : (s.subgraphs_map F).root = none)
    (h1 : (s'.subgraphs_map F).root ≠ none) : unbuilt m s' < unbuilt m s := by
  unfold unbuilt
  refine filter_length_lt ?_ (List.mem_range.mpr hF) (by rw [h0]; rfl) ?_
  · intro G hG
    cases hr : (s.subgraphs_map G).root with
    | none => rfl
    | some r =>
      have := h.subg_eq G (by rw [hr]; simp)
      rw [this, hr] at hG
      exact hG
  · cases hr : (s'.subgraphs_map F).root with
    | none => exact absurd hr h1
    | some r => rfl

theorem createCallToFunction_nf {m : Module} {build : Nat → M Nat} {k : Nat}
    (hnf : BuildNoFuel m build k) {P : Nat → Prop} {ty : Ty}
    {args : List Value} {F : Nat} {s : LLVMPSSBuilder} (hwf : WF P s)
    (hk : unbuilt m s < k) (hF : F < m.functions.length) :
    createCallToFunction m build ty args F s ≠ .error .outOfFuel := by
  intro h
  unfold createCallToFunction at h
  obtain ⟨q, s1, h1, h⟩ := M.bind_oof (by simp) h
  obtain ⟨c, s2, h2, h⟩ := M.bind_oof (by simp) h
  obtain ⟨u3, s3, h3, h⟩ := M.bind_oof (by simp) h
  obtain ⟨u4, s4, h4, h⟩ := M.bind_oof (by simp) h
  obtain ⟨s0, t0, h0, h⟩ := M.bind_oof (by simp) h
  obtain ⟨rfl, rfl⟩ := (M.get_ok _ _ _).mp h0
  obtain ⟨hwf4, hext4, -⟩ := callPair_wf hwf h1 h2 h3 h4
  have hk4 : unbuilt m s4 < k := lt_of_le_of_lt (unbuilt_le_of_ext hext4) hk
  rcases M.bind_oof_or h with h | ⟨subg, s5, -, h⟩
  · split at h
    · rename_i hcond
      have hnone : (s4.subgraphs_map F).root = none := by
        cases hx : (s4.subgraphs_map F).root with
        | none => rfl
        | some v =>
          rw [hx] at hcond
          simp at hcond
      rcases M.bind_oof_or h with h | ⟨r0, t1, -, h⟩
      · exact hnf _ F s4 hwf4 hF hnone hk4 h
      · exact absurd h (NoFuel.never (by
          repeat' first
            | (simp; done)
            | apply NoFuel.bind
            | intro _) _)
    · cases h
  · refine absurd h (NoFuel.never ?_ _)
    repeat' first
      | (simp; done)
      | apply NoFuel.bind
      | intro _
      | split
      | dsimp only

theorem createOrGetSubgraph_nf {m : Module} {build : Nat → M Nat} {k : Nat}
    (hnf : BuildNoFuel m build k) {P : Nat → Prop} {I : Value} {ty : Ty}
    {args : List Value} {F : Nat} {s : LLVMPSSBuilder} (hwf : WF P s)
    (hk : unbuilt m s < k) (hF : F < m.functions.length) :
    createOrGetSubgraph m build I ty args F s ≠ .error .outOfFuel := by
  intro h
  unfold createOrGetSubgraph at h
  rcases M.bind_oof_or h with h | ⟨cf, s1, -, h⟩
  · exact createCallToFunction_nf hnf hwf hk hF h
  · refine absurd h (NoFuel.never ?_ _)
    repeat' first
      | (simp; done)
      | apply NoFuel.bind
      | intro _

theorem getFunc_blocks_lt {m : Module} {f : Nat} (h : ¬ (m.getFunc f).blocks.length = 0) :
    f < m.functions.length := by
  by_contra hx
  apply h
  unfold Module.getFunc
  rw [List.get?_eq_none.mpr (not_lt.mp hx)]
  rfl

theorem createCall_nf {m : Module} {build : Nat → M Nat} {k : Nat}
    (hnf : BuildNoFuel m build k) {P : Nat → Prop} {I : Value} {F : Nat}
    {ty : Ty} {cv : Value} {args : List Value} {s : LLVMPSSBuilder} (hwf : WF P s)
    (hk : unbuilt m s < k) :
    createCall m build I F ty cv args s ≠ .error .outOfFuel := by
  intro h
  unfold createCall at h
  cases hf : (stripPointerCasts m cv).asFunction with
  | some f =>
    simp only [hf] at h
    obtain ⟨type, s0, h0, h⟩ := M.bind_oof (by simp) h
    obtain ⟨-, rfl⟩ := (M.ofExcept_ok _ _ _ _).mp h0
    split at h
    · exact (createDynamicMemAlloc_nofuel _ _ _ _).never _ h
    · split at h
      · exact (createIntrinsic_nofuel _ _ _ _ _ _).never _ h
      · split at h
        · exact (createUnknownCall_nofuel _ _).never _ h
        · rename_i hblocks
          exact createOrGetSubgraph_nf hnf hwf hk (getFunc_blocks_lt hblocks) h
  | none =>
    simp only [hf] at h
    refine absurd h (NoFuel.never ?_ _)
    repeat' first
      | (simp; done)
      | apply NoFuel.bind
      | intro _

theorem Except.bind_ne_oof {α β : Type} {x : Except Error α} {f : α → Except Error β}
    (hx : x ≠ .error .outOfFuel) (hf : ∀ a, f a ≠ .error .outOfFuel) :
    (x >>= f) ≠ .error .outOfFuel := by
  cases x with
  | error e =>
    intro h
    apply hx
    cases h
    rfl
  | ok a => exact hf a

theorem isRelevantCall_nofuel (m : Module) (ty : Ty) (cv : Value) :
    isRelevantCall m ty cv ≠ .error .outOfFuel := by
  unfold isRelevantCall
  repeat' first
    | (simp [pure, Except.pure]; done)
    | exact getMemAllocationFunc_nofuel _
    | refine Except.bind_ne_oof ?_ (fun _ => ?_)
    | split

theorem buildPSSBlockInst_nf {m : Module} {build : Nat → M Nat} {k : Nat}
    (hnf : BuildNoFuel m build k) {P : Nat → Prop} {F b i : Nat} {I : Inst}
    {retFirst node : Option Nat} {s : LLVMPSSBuilder} (hwf : WF P s)
    (hk : unbuilt m s < k) :
    buildPSSBlockInst m build F b i I retFirst node s ≠ .error .outOfFuel := by
  intro h
  unfold buildPSSBlockInst at h
  split at h
  · obtain ⟨rel, s0, h0, h⟩ := M.bind_oof (NoFuel.ofExcept (isRelevantCall_nofuel _ _ _)) h
    obtain ⟨-, rfl⟩ := (M.ofExcept_ok _ _ _ _).mp h0
    split at h
    · exact (buildPSSBlockLink_nofuel _ _ _).never _ h
    · rcases M.bind_oof_or h with h | ⟨subg, s1, -, h⟩
      · exact createCall_nf hnf hwf hk h
      · refine absurd h (NoFuel.never ?_ _)
        repeat' first
          | (simp; done)
          | apply NoFuel.bind
          | intro _
          | split
  · refine absurd h (NoFuel.never ?_ _)
    repeat' first
      | (simp; done)
      | apply NoFuel.bind
      | intro _

theorem buildPSSBlockLoop_nf {m : Module} {build : Nat → M Nat} {k : Nat}
    (hb : BuildOK build) (hnf : BuildNoFuel m build k) {P : Nat → Prop} {F b : Nat}
    {insts : List Inst} :
    ∀ {i : Nat} {retFirst node : Option Nat} {s : LLVMPSSBuilder}, WF P s →
      (∀ n, node = some n → Exit s n) → unbuilt m s < k →
      buildPSSBlockLoop m build F b insts i retFirst node s ≠ .error .outOfFuel := by
  induction insts with
  | nil =>
    intro i retFirst node s _ _ _ h
    unfold buildPSSBlockLoop at h
    cases h
  | cons I rest ih =>
    intro i retFirst node s hwf hnode hk h
    unfold buildPSSBlockLoop at h
    rcases M.bind_oof_or h with h | ⟨r, s1, h1, h⟩
    · exact buildPSSBlockInst_nf hnf hwf hk h
    · obtain ⟨g1, g2, g3, -⟩ := buildPSSBlockInst_wf hb hwf hnode h1
      exact ih g1 g3 (lt_of_le_of_lt (unbuilt_le_of_ext g2) hk) h

theorem buildBlocksLoop_nf {m : Module} {build : Nat → M Nat} {k : Nat}
    (hb : BuildOK build) (hnf : BuildNoFuel m build k) {P : Nat → Prop}
    {F root lastNode : Nat} {blocks : List BasicBlock} :
    ∀ {b : Nat} {first : Option Nat} {s : LLVMPSSBuilder}, WF P s →
      Exit s root → Exit s lastNode → unbuilt m s < k →
      buildBlocksLoop m build F root lastNode blocks b first s ≠ .error .outOfFuel := by
  induction blocks with
  | nil =>
    intro b first s _ _ _ _ h
    unfold buildBlocksLoop at h
    cases h
  | cons B rest ih =>
    intro b first s hwf hroot hlast hk h
    unfold buildBlocksLoop at h
    rcases M.bind_oof_or h with h | ⟨nds, s1, h1, h⟩
    · exact buildPSSBlockLoop_nf hb hnf hwf (fun _ hn => by cases hn) hk h
    · obtain ⟨g1, g2, g3, g3c⟩ := buildPSSBlock_wf hb hwf h1
      have hroot1 := hroot.after_ext g2
      have hlast1 := hlast.after_ext g2
      obtain ⟨r, s2, h2, h⟩ := M.bind_oof (by
        repeat' first
          | (simp; done)
          | apply NoFuel.bind
          | intro _
          | split) h
      have kk : Inert s1 s2 ∧ (∀ l, r.1.2 = some l → Exit s2 l) ∧
          r.1.1.isSome = r.1.2.isSome := by
        cases first with
        | none =>
          cases hn : nds.1 with
          | none =>
            simp only [hn] at h2
            obtain ⟨rfl, rfl⟩ := (M.pure_ok _ _ _ _).mp h2
            refine ⟨Inert.rfl_inert _, fun l hl => ?_, rfl⟩
            cases hl
            exact hroot1
          | some f =>
            simp only [hn, M.bind_ok, M.pure_ok] at h2
            obtain ⟨u1, t1, k1, rfl, rfl⟩ := h2
            have i1 := addSuccessor_inert hlast1 k1
            exact ⟨i1, fun l hl => (g3 l hl).mono_inert i1, g3c⟩
        | some f =>
          obtain ⟨rfl, rfl⟩ := (M.pure_ok _ _ _ _).mp h2
          exact ⟨Inert.rfl_inert _, g3, g3c⟩
      obtain ⟨i2, hl2, hc2⟩ := kk
      obtain ⟨u3, s3, h3, h⟩ := M.bind_oof (by simp) h
      obtain ⟨w3, e3⟩ := setBuiltBlock_wf (g1.step_inert i2) hl2 hc2 h3
      exact ih w3 ((hroot1.mono_inert i2).after_ext e3) ((hlast1.mono_inert i2).after_ext e3)
        (lt_of_le_of_lt (unbuilt_le_of_ext ((g2.trans_ext i2.to_ext).trans_ext e3)) hk) h

theorem buildLLVMPSSBody_nf {m : Module} {build : Nat → M Nat} {k : Nat}
    (hb : BuildOK build) (hnf : BuildNoFuel m build k) {P : Nat → Prop} {F : Nat}
    {s : LLVMPSSBuilder} (hwf : WF P s) (hF : (s.subgraphs_map F).root = none)
    (hFlt : F < m.functions.length) (hk : unbuilt m s < k + 1) :
    buildLLVMPSSBody m build F s ≠ .error .outOfFuel := by
  intro h
  unfold buildLLVMPSSBody at h
  obtain ⟨root, s1, h1, h⟩ := M.bind_oof (by simp) h
  obtain ⟨ret, s2, h2, h⟩ := M.bind_oof (by simp) h
  obtain ⟨args, s3, h3, h⟩ := M.bind_oof (by simp) h
  obtain ⟨u4, s4, h4, h⟩ := M.bind_oof (by simp) h
  obtain ⟨lastNode, s5, h5, h⟩ := M.bind_oof (by
    repeat' first
      | (simp; done)
      | apply NoFuel.bind
      | intro _
      | split) h
  obtain ⟨i3, ha3⟩ := buildArguments_inert h3
  obtain ⟨w4, e4, hroot4, hex4, hreg4⟩ := registerSubgraph_wf hwf hF h1 h2 i3 h4
  have hk4 : unbuilt m s4 < k := by
    have := unbuilt_lt_of_ext (m := m) e4 hFlt hF (by rw [hreg4]; simp)
    omega
  have k5 : Inert s4 s5 ∧ ∀ l, lastNode = some l → Exit s5 l := by
    cases ha : args.1 with
    | none =>
      simp only [ha] at h5
      obtain ⟨rfl, rfl⟩ := (M.pure_ok _ _ _ _).mp h5
      refine ⟨Inert.rfl_inert _, fun l hl => ?_⟩
      cases hl
      exact hroot4
    | some a =>
      simp only [ha, M.bind_ok, M.pure_ok] at h5
      obtain ⟨u, t1, k1, rfl, rfl⟩ := h5
      have i1 := addSuccessor_inert hroot4 k1
      exact ⟨i1, fun l hl => (hex4 l (ha3 l hl)).mono_inert i1⟩
  obtain ⟨i5, hlast5⟩ := k5
  cases lastNode with
  | none => cases h
  | some last =>
    simp only at h
    rcases M.bind_oof_or h with h | ⟨u6, s6, h6, h⟩
    · exact buildBlocksLoop_nf hb hnf (w4.step_inert i5) (hroot4.mono_inert i5) (hlast5 last rfl)
        (lt_of_le_of_lt (unbuilt_le_of_ext i5.to_ext) hk4) h
    · obtain ⟨w6, e6⟩ := buildBlocksLoop_wf hb (w4.step_inert i5) (hroot4.mono_inert i5)
        (hlast5 last rfl) h6
      rcases M.bind_oof_or h with h | ⟨rets, s7, -, h⟩
      · obtain ⟨rets, s', g1, -⟩ := stitchBlocksLoop_spec (m := m) (F := F)
          (m.getFunc F).blocks 0 [] s6 (w6.blocks_cons F)
        rw [g1] at h
        cases h
      · refine absurd h (NoFuel.never ?_ _)
        repeat' first
          | (simp; done)
          | apply NoFuel.bind
          | intro _

/-- Building a function never uses up the bound on the nesting of functions being
built, when the bound exceeds the number of functions without subgraph. -/
theorem buildLLVMPSSFunction_nf (m : Module) (fuel : Nat) :
    BuildNoFuel m (buildLLVMPSSFunction m fuel) fuel := by
  induction fuel with
  | zero =>
    intro P F s _ _ _ hk
    omega
  | succ fuel ih =>
    intro P F s hwf hFlt hF hk
    unfold buildLLVMPSSFunction
    exact buildLLVMPSSBody_nf (buildLLVMPSSFunction_wf m fuel) ih hwf hF hFlt hk

theorem getFunction_lt {m : Module} {name : String} {F : Nat}
    (h : m.getFunction name = some F) : F < m.functions.length := by
  unfold Module.getFunction at h
  simp only at h
  split at h
  · cases h
    assumption
  · cases h

theorem unbuilt_le_length (m : Module) (s : LLVMPSSBuilder) :
    unbuilt m s ≤ m.functions.length := by
  unfold unbuilt
  exact le_trans (List.length_filter_le _ _) (by rw [List.length_range])

/-- The build of a module never uses up the bound on the nesting of functions being
built when the bound exceeds the number of functions of the module. -/
theorem build_nofuel (m : Module) (fuel : Nat) (hfuel : m.functions.length < fuel) :
    build m fuel ≠ .error .outOfFuel := by
  intro h
  unfold build buildLLVMPSS at h
  cases hmain : m.getFunction "main" with
  | none =>
    simp only [hmain] at h
    cases h
  | some F =>
    simp only [hmain] at h
    obtain ⟨glob, s1, h1, h⟩ := M.bind_oof (by simp) h
    obtain ⟨g1, g2⟩ := buildGlobals_inert0 (fun v n hx => by cases hx) h1
    obtain ⟨w1, ex1⟩ := WF.of_inert0 g1
    have hF : (s1.subgraphs_map F).root = none := by
      rw [g1.subg_eq]
      rfl
    rcases M.bind_oof_or h with h | ⟨r, s2, -, h⟩
    · exact buildLLVMPSSFunction_nf m fuel _ F s1 w1 (getFunction_lt hmain) hF
        (lt_of_le_of_lt (unbuilt_le_length m s1) hfuel) h
    · refine absurd h (NoFuel.never ?_ _)
      repeat' first
        | (simp; done)
        | apply NoFuel.bind
        | intro _
        | split

/-! ## Recursion -/

theorem M.bind_congr_at {α β : Type} {x : M α} {f g : α → M β} {s : LLVMPSSBuilder}
    (h : ∀ a s1, x s = .ok (a, s1) → f a s1 = g a s1) : (x >>= f) s = (x >>= g) s := by
  show (match x s with
    | .ok (a, s') => f a s'
    | .error e => .error e) = (match x s with
    | .ok (a, s') => g a s'
    | .error e => .error e)
  cases hx : x s with
  | error e => rfl
  | ok r => exact h r.1 r.2 (by rw [hx])

/-- A call of a function that has a subgraph already does not build it again: the
result of `createCallToFunction` does not depend on `build`. -/
theorem createCallToFunction_registered (m : Module) (build1 build2 : Nat → M Nat) (ty : Ty)
    (args : List Value) (F r : Nat) (s : LLVMPSSBuilder)
    (hr : (s.subgraphs_map F).root = some r) :
    createCallToFunction m build1 ty args F s = createCallToFunction m build2 ty args F s := by
  unfold createCallToFunction
  refine M.bind_congr_at fun q s1 h1 => ?_
  refine M.bind_congr_at fun c s2 h2 => ?_
  refine M.bind_congr_at fun u3 s3 h3 => ?_
  refine M.bind_congr_at fun u4 s4 h4 => ?_
  refine M.bind_congr_at fun s0 t0 h0 => ?_
  obtain ⟨rfl, rfl⟩ := (M.get_ok _ _ _).mp h0
  obtain ⟨x, -, -, -, -, -, rfl⟩ := mkOpNode_ok _ _ _ _ _ h1
  obtain ⟨y, -, -, -, -, -, rfl⟩ := mkOpNode_ok _ _ _ _ _ h2
  rw [setPairedNode_ok] at h3
  subst h3
  rw [setPairedNode_ok] at h4
  subst h4
  have hsub : ((((s.push x).push y).update q fun x => { x with pairedNode := some c }).update c
      fun x => { x with pairedNode := some q }).subgraphs_map = s.subgraphs_map := rfl
  simp only [hsub, hr, Option.isNone_some]
  rfl

/-- C7: the build of a module, whatever its functions call, does not run into the bound
on the nesting of functions being built when the bound exceeds the number of functions:
it ends, with a graph or with one of the aborts of the source.  In a finished graph
every `ENTRY` node is the root of exactly one function, so no function was lowered twice,
and every `CALL` node of a direct call to a defined function has as its only successor the
root of a registered subgraph.  A call of a function that has a subgraph already does
not build it again (the result does not depend on `build`), keeps the registered root
and makes it the only successor of the new `CALL` node. -/
theorem recursion_terminates_and_links (m : Module) :
    (∀ fuel, m.functions.length < fuel → build m fuel ≠ .error .outOfFuel) ∧
    (∀ fuel root s, build m fuel = .ok (root, s) →
      (∀ n, n < s.size → (s.node n).kind = .ENTRY →
        ∃ F, (s.subgraphs_map F).root = some n ∧
          ∀ G, (s.subgraphs_map G).root = some n → G = F) ∧
      (∀ c, c < s.size → (s.node c).kind = .CALL → (s.node c).pairedNode ≠ some c →
        ∃ F r, (s.subgraphs_map F).root = some r ∧ (s.node c).successors = [r])) ∧
    (∀ (build1 build2 : Nat → M Nat) (P : Nat → Prop) (ty : Ty) (args : List Value)
      (F r : Nat) (s : LLVMPSSBuilder), WF P s → (s.subgraphs_map F).root = some r →
      createCallToFunction m build1 ty args F s = createCallToFunction m build2 ty args F s ∧
      ∀ res s', createCallToFunction m build1 ty args F s = .ok (res, s') →
        (s'.subgraphs_map F).root = some r ∧ (s'.node res.1).kind = .CALL ∧
          (s'.node res.1).successors = [r]) := by
  refine ⟨fun fuel hfuel => build_nofuel m fuel hfuel, fun fuel root s h => ?_,
    fun build1 build2 P ty args F r s hwf hr => ?_⟩
  · have hwf := buildLLVMPSS_wf h
    refine ⟨fun n hn hk => ?_, fun c hc hk hp => ?_⟩
    · obtain ⟨F, hF⟩ := hwf.entry_root n hn hk
      exact ⟨F, hF, fun G hG => hwf.root_inj G F n hG hF⟩
    · rcases hwf.call_succ c hc hk hp with ⟨hx, -⟩ | ⟨-, hx⟩
      · exact hx.elim
      · exact hx
  · refine ⟨createCallToFunction_registered m build1 build2 ty args F r s hr,
      fun res s' h => ?_⟩
    rw [createCallToFunction_registered m build1 (buildLLVMPSSFunction m 0) ty args F r s hr]
      at h
    obtain ⟨-, e, -, -, -, hk, -, -, r', hr', hs'⟩ :=
      createCallToFunction_wf (buildLLVMPSSFunction_wf m 0) hwf h
    have : s'.subgraphs_map F = s.subgraphs_map F := e.subg_eq F (by rw [hr]; simp)
    rw [this, hr] at hr'
    cases hr'
    exact ⟨by rw [this, hr], hk, hs'⟩

set_option maxRecDepth 100000 in
/-- C7 at the module `exRecursive`, where `f(p) { return f(p); }` is called once from
`main`: the build with bound 3 ends, with a graph; the subgraph of `f` has the root 7,
the only `ENTRY` nodes are the roots 2 of `main` and 7 of `f`; the `CALL` node 11 of the
call inside `f` has the single successor 7; and the parameter of `f` is the `PHI` node
9 with the two operands 9, itself, and 4, the node of the argument `%x` of the call in
`main`. -/
theorem recursion_terminates_and_links_witness :
    build exRecursive 3 ≠ .error .outOfFuel ∧
    (finalState exRecursive 3).map (fun s =>
      ((s.subgraphs_map 0).root, (s.subgraphs_map 1).root,
        (List.range s.size).filter fun n => (s.node n).kind = .ENTRY)) =
      some (some 2, some 7, [2, 7]) ∧
    (finalState exRecursive 3).map (fun s =>
      ((s.node 11).kind, (s.node 11).pairedNode, (s.node 11).successors)) =
      some (.CALL, some 10, [7]) ∧
    (finalState exRecursive 3).map (fun s =>
      (s.nodes_map (.arg 1 0), (s.node 9).kind, (s.node 9).operands,
        s.nodes_map (.inst 0 0 0))) =
      some (some 9, .PHI, [some 9, some 4], some 4) :=
  ⟨(recursion_terminates_and_links exRecursive).1 3 (by decide), by decide!, by decide!,
    by decide!⟩

/-! ## Relevant calls -/

set_option maxRecDepth 100000 in
/-- C13: a call of the intrinsic `memset` is accepted by `isRelevantCall`, and
`createIntrinsic` ends in the failed assertion `Unhandled intrinsic` for it, in every
module and state; the build of the module `exMemset`, whose `main` calls `memset`,
ends in that error. -/
theorem relevant_memset_call_aborts :
    (∀ (m : Module) (Inst : Value) (F : Nat) (args : List Value) (cv : Value)
        (s : LLVMPSSBuilder),
      createIntrinsic m Inst F (some .memset) args cv s =
        .error (.assertion "Unhandled intrinsic")) ∧
    isRelevantCall exMemset .void (.const (.func 1)) = .ok true ∧
    (∀ (build : Nat → M Nat) (s : LLVMPSSBuilder),
      createCall exMemset build (.inst 0 0 1) 0 .void (.const (.func 1))
          [.inst 0 0 0, .const (.int 8 0), .const (.int 64 1), .const (.int 1 0)] s =
        .error (.assertion "Unhandled intrinsic")) ∧
    build exMemset 1 = .error (.assertion "Unhandled intrinsic") := by
  refine ⟨fun m Inst F args cv s => rfl, rfl, fun build s => rfl, rfl⟩

theorem getMemAllocationFunc_ok (F : Function) (h : F.name ≠ some "realloc") :
    ∃ t, getMemAllocationFunc (some F) = .ok t ∧
      (t ≠ .NONEMEM ↔
        F.name = some "malloc" ∨ F.name = some "calloc" ∨ F.name = some "alloca") := by
  unfold getMemAllocationFunc
  cases hn : F.name with
  | none =>
    simp only [hn]
    exact ⟨.NONEMEM, rfl, by simp⟩
  | some name =>
    rw [hn] at h
    have hr : name ≠ "realloc" := fun hc => h (by rw [hc])
    simp only [hn]
    by_cases h1 : name = "malloc"
    · exact ⟨.MALLOC, by rw [if_pos h1], by simp [h1]⟩
    · by_cases h2 : name = "calloc"
      · exact ⟨.CALLOC, by rw [if_neg h1, if_pos h2], by simp [h2]⟩
      · by_cases h3 : name = "alloca"
        · exact ⟨.ALLOCA, by rw [if_neg h1, if_neg h2, if_pos h3], by simp [h3]⟩
        · exact ⟨.NONEMEM, by rw [if_neg h1, if_neg h2, if_neg h3, if_neg hr],
            by simp [h1, h2, h3]⟩

theorem buildPSSBlockInst_irrelevant {m : Module} {ty : Ty} {cv : Value}
    (h : isRelevantCall m ty cv = .ok false) (build : Nat → M Nat) (F b i : Nat)
    (args : List Value) (retFirst node : Option Nat) (s : LLVMPSSBuilder) :
    buildPSSBlockInst m build F b i (.call ty cv args) retFirst node s =
      .ok ((retFirst, node), s) := by
  unfold buildPSSBlockInst
  simp only [h]
  cases node with
  | none => rfl
  | some p =>
    show buildPSSBlockLink retFirst (some p) (some p) s = _
    unfold buildPSSBlockLink
    simp
    rfl

/-- C14, amended: for a call whose callee is not named `realloc`, `isRelevantCall`
returns, and it returns true exactly when the call is no `llvm.dbg.value` and the call is
indirect, or the callee is named `malloc`, `calloc` or `alloca`, or is one of the
intrinsics `memcpy`, `memmove`, `memset`, `vastart`, `stacksave`, `stackrestore`, or is
a declaration that is no intrinsic while the call has a pointer result, or is defined.
When it returns false the loop body of `buildPSSBlock` leaves the builder and the
block's `first` and `node` as they are. -/
theorem isRelevantCall_iff (m : Module) (ty : Ty) (cv : Value)
    (hre : ∀ f, (stripPointerCasts m cv).asFunction = some f →
      (m.getFunc f).name ≠ some "realloc") :
    ∃ r, isRelevantCall m ty cv = .ok r ∧
      (r = true ↔ isDbgValueInst m cv = false ∧
        ((stripPointerCasts m cv).asFunction = none ∨
          ∃ f, (stripPointerCasts m cv).asFunction = some f ∧
            ((m.getFunc f).name = some "malloc" ∨ (m.getFunc f).name = some "calloc" ∨
              (m.getFunc f).name = some "alloca" ∨
              (m.getFunc f).intrinsicID = some .memcpy ∨
              (m.getFunc f).intrinsicID = some .memmove ∨
              (m.getFunc f).intrinsicID = some .memset ∨
              (m.getFunc f).intrinsicID = some .vastart ∨
              (m.getFunc f).intrinsicID = some .stacksave ∨
              (m.getFunc f).intrinsicID = some .stackrestore ∨
              ((m.getFunc f).blocks = [] ∧ (m.getFunc f).intrinsicID = none ∧
                ty.isPointerTy = true) ∨
              (m.getFunc f).blocks ≠ []))) ∧
      (r = false → ∀ (build : Nat → M Nat) (F b i : Nat) (args : List Value)
          (retFirst node : Option Nat) (s : LLVMPSSBuilder),
        buildPSSBlockInst m build F b i (.call ty cv args) retFirst node s =
          .ok ((retFirst, node), s)) := by
  suffices hs : ∃ r, isRelevantCall m ty cv = .ok r ∧
      (r = true ↔ isDbgValueInst m cv = false ∧
        ((stripPointerCasts m cv).asFunction = none ∨
          ∃ f, (stripPointerCasts m cv).asFunction = some f ∧
            ((m.getFunc f).name = some "malloc" ∨ (m.getFunc f).name = some "calloc" ∨
              (m.getFunc f).name = some "alloca" ∨
              (m.getFunc f).intrinsicID = some .memcpy ∨
              (m.getFunc f).intrinsicID = some .memmove ∨
              (m.getFunc f).intrinsicID = some .memset ∨
              (m.getFunc f).intrinsicID = some .vastart ∨
              (m.getFunc f).intrinsicID = some .stacksave ∨
              (m.getFunc f).intrinsicID = some .stackrestore ∨
              ((m.getFunc f).blocks = [] ∧ (m.getFunc f).intrinsicID = none ∧
                ty.isPointerTy = true) ∨
              (m.getFunc f).blocks ≠ []))) by
    obtain ⟨r, h1, h2⟩ := hs
    refine ⟨r, h1, h2, ?_⟩
    intro hr build F b i args retFirst node s
    subst hr
    exact buildPSSBlockInst_irrelevant h1 build F b i args retFirst node s
  unfold isRelevantCall
  by_cases hd : isDbgValueInst m cv = true
  · rw [if_pos hd]
    exact ⟨false, rfl, by simp [hd]⟩
  · rw [if_neg hd]
    have hd' : isDbgValueInst m cv = false := by simpa using hd
    cases hf : (stripPointerCasts m cv).asFunction with
    | none => exact ⟨true, rfl, by simp [hd']⟩
    | some f =>
      simp only
      by_cases hb : (m.getFunc f).blocks.length = 0
      · rw [if_pos hb]
        have hb' : (m.getFunc f).blocks = [] := List.length_eq_zero.mp hb
        obtain ⟨t, ht, hiff⟩ := getMemAllocationFunc_ok (m.getFunc f) (hre f hf)
        rw [ht]
        show ∃ r, (if t ≠ .NONEMEM then _ else _) = _ ∧ _
        by_cases hn : t ≠ .NONEMEM
        · rw [if_pos hn]
          refine ⟨true, rfl, ?_⟩
          have := hiff.mp hn
          simp only [hd', true_and, true_iff]
          refine Or.inr ⟨f, rfl, ?_⟩
          rcases this with h | h | h
          · exact Or.inl h
          · exact Or.inr (Or.inl h)
          · exact Or.inr (Or.inr (Or.inl h))
        · rw [if_neg hn]
          have hnn : ¬ ((m.getFunc f).name = some "malloc" ∨
              (m.getFunc f).name = some "calloc" ∨ (m.getFunc f).name = some "alloca") :=
            fun hc => hn (hiff.mpr hc)
          have n1 : (m.getFunc f).name ≠ some "malloc" := fun hc => hnn (Or.inl hc)
          have n2 : (m.getFunc f).name ≠ some "calloc" := fun hc => hnn (Or.inr (Or.inl hc))
          have n3 : (m.getFunc f).name ≠ some "alloca" := fun hc => hnn (Or.inr (Or.inr hc))
          cases hi : (m.getFunc f).intrinsicID with
          | none =>
            simp only
            by_cases hp : ty.isPointerTy = true
            · rw [if_pos hp]
              exact ⟨true, rfl, by simp [hd', hb', hp, hi]⟩
            · rw [if_neg hp]
              exact ⟨false, rfl, by simp [hd', hb', hp, n1, n2, n3, hi]⟩
          | some id =>
            cases id <;> simp only <;>
              first
              | exact ⟨true, rfl, by simp [hd', hi]⟩
              | exact ⟨false, rfl, by simp [hd', hb', n1, n2, n3, hi]⟩
      · rw [if_neg hb]
        have hb' : (m.getFunc f).blocks ≠ [] := fun hc => hb (by rw [hc]; rfl)
        exact ⟨true, rfl, by simp [hd', hb']⟩

/-- C14 at the call of `f` in `main` of the module `exRecursive`: `f` is defined, the
call is relevant. -/
theorem isRelevantCall_iff_witness :
    ∃ r, isRelevantCall exRecursive (.ptr 0) (.const (.func 1)) = .ok r ∧
      (r = true ↔ isDbgValueInst exRecursive (.const (.func 1)) = false ∧
        ((stripPointerCasts exRecursive (.const (.func 1))).asFunction = none ∨
          ∃ f, (stripPointerCasts exRecursive (.const (.func 1))).asFunction = some f ∧
            ((exRecursive.getFunc f).name = some "malloc" ∨
              (exRecursive.getFunc f).name = some "calloc" ∨
              (exRecursive.getFunc f).name = some "alloca" ∨
              (exRecursive.getFunc f).intrinsicID = some .memcpy ∨
              (exRecursive.getFunc f).intrinsicID = some .memmove ∨
              (exRecursive.getFunc f).intrinsicID = some .memset ∨
              (exRecursive.getFunc f).intrinsicID = some .vastart ∨
              (exRecursive.getFunc f).intrinsicID = some .stacksave ∨
              (exRecursive.getFunc f).intrinsicID = some .stackrestore ∨
              ((exRecursive.getFunc f).blocks = [] ∧
                (exRecursive.getFunc f).intrinsicID = none ∧
                (Ty.ptr 0).isPointerTy = true) ∨
              (exRecursive.getFunc f).blocks ≠ []))) ∧
      (r = false → ∀ (build : Nat → M Nat) (F b i : Nat) (args : List Value)
          (retFirst node : Option Nat) (s : LLVMPSSBuilder),
        buildPSSBlockInst exRecursive build F b i (.call (.ptr 0) (.const (.func 1)) args)
            retFirst node s = .ok ((retFirst, node), s)) :=
  isRelevantCall_iff exRecursive (.ptr 0) (.const (.func 1)) (by
    intro f hf
    have h1 : (stripPointerCasts exRecursive (.const (.func 1))).asFunction = some 1 := rfl
    rw [h1] at hf
    injection hf with hf
    subst hf
    decide)

/-- C14, the claim as written fails: `llvm.returnaddress` is an undefined external
function, the call of it in `main` of the module `exReturnAddress` has a pointer result
and is no debug-info intrinsic, and `isRelevantCall` returns false for it; the finished
graph has no node for the call. -/
theorem intrinsic_pointer_call_counterexample :
    isRelevantCall exReturnAddress (.ptr 0) (.const (.func 1)) = .ok false ∧
    (exReturnAddress.getFunc 1).blocks = [] ∧
    (exReturnAddress.getFunc 1).name = some "llvm.returnaddress" ∧
    (Ty.ptr 0).isPointerTy = true ∧
    isDbgValueInst exReturnAddress (.const (.func 1)) = false ∧
    (finalState exReturnAddress 1).map (fun s => s.nodes_map (.inst 0 0 0)) = some none := by
  refine ⟨rfl, rfl, rfl, rfl, rfl, rfl⟩

/-! ## Operands of values that have a node -/

theorem getOperand_mapped_eq (m : Module) {s : LLVMPSSBuilder} {v : Value} {n : Nat}
    (hn : s.nodes_map v = some n) :
    getOperand m v s =
      match (if (s.node n).kind = .CALL ∨ (s.node n).kind = .CALL_FUNCPTR
          then (s.node n).pairedNode else some n) with
      | some op => .ok (op, s)
      | none => .error (.assertion "Did not find an operand") := by
  unfold getOperand getOperandAux
  have h1 : getNode v s = .ok (some n, s) := (getNode_ok _ _ _ _).mpr ⟨hn, rfl⟩
  rw [M.bind_run h1]
  simp only
  have h2 : (pure n : M Nat) s = .ok (n, s) := rfl
  rw [M.bind_run h2]
  have h3 : getNodeData n s = .ok (s.node n, s) := rfl
  rw [M.bind_run h3]
  by_cases hk : (s.node n).kind = .CALL ∨ (s.node n).kind = .CALL_FUNCPTR
  · rw [if_pos hk, if_pos hk]
    have h4 : (pure (s.node n).pairedNode : M (Option Nat)) s =
        .ok ((s.node n).pairedNode, s) := rfl
    rw [M.bind_run h4]
    cases (s.node n).pairedNode <;> rfl
  · rw [if_neg hk, if_neg hk]
    have h4 : (pure (some n) : M (Option Nat)) s = .ok (some n, s) := rfl
    rw [M.bind_run h4]
    rfl

/-- C15: in a well-formed graph, for a value `v` that has the node `n`, `getOperand`
returns without touching the builder; it returns `n` when `n` is no `CALL` and no
`CALL_FUNCPTR`; for a `CALL` it returns the paired node, which is `n` itself (unknown
external call) or a `CALL_RETURN` paired with `n` (direct call); for a `CALL_FUNCPTR`
it returns the paired node, which is a `RETURN`. -/
theorem getOperand_of_mapped (m : Module) {P : Nat → Prop} {s : LLVMPSSBuilder} {v : Value}
    {n : Nat} (hwf : WF P s) (hn : s.nodes_map v = some n) (hlt : n < s.size) :
    ∃ r, getOperand m v s = .ok (r, s) ∧
      ((s.node n).kind ≠ .CALL → (s.node n).kind ≠ .CALL_FUNCPTR → r = n) ∧
      ((s.node n).kind = .CALL → (s.node n).pairedNode = some r ∧
        (r = n ∨ ((s.node r).kind = .CALL_RETURN ∧ (s.node r).pairedNode = some n))) ∧
      ((s.node n).kind = .CALL_FUNCPTR → (s.node n).pairedNode = some r ∧
        (s.node r).kind = .RETURN ∧ (s.node r).pairedNode = some n) := by
  rw [getOperand_mapped_eq m hn]
  by_cases hc : (s.node n).kind = .CALL
  · obtain ⟨p, hp, -, hpp⟩ := hwf.pair_call n hlt hc
    rw [if_pos (Or.inl hc), hp]
    refine ⟨p, rfl, fun h => absurd hc h, fun _ => ⟨rfl, hpp⟩, ?_⟩
    intro h
    rw [hc] at h
    cases h
  · by_cases hf : (s.node n).kind = .CALL_FUNCPTR
    · obtain ⟨p, hp, -, hk, hpp, -⟩ := hwf.pair_fptr n hlt hf
      rw [if_pos (Or.inr hf), hp]
      exact ⟨p, rfl, fun _ h => absurd hf h, fun h => absurd h hc, fun _ => ⟨rfl, hk, hpp⟩⟩
    · rw [if_neg (by rintro (h | h); exact hc h; exact hf h)]
      exact ⟨n, rfl, fun _ _ => rfl, fun h => absurd h hc, fun h => absurd h hf⟩

set_option maxRecDepth 100000 in
/-- C15 at the call `%r = call i8* @f(i8* %x)` in `main` of the module `exRecursive`: its
node is the `CALL` node 6, and `getOperand` returns the paired `CALL_RETURN` node 5. -/
theorem getOperand_of_mapped_witness :
    ∃ r, getOperand exRecursive (.inst 0 0 1) (endState exRecursive 2) =
        .ok (r, endState exRecursive 2) ∧
      (((endState exRecursive 2).node 6).kind ≠ .CALL →
        ((endState exRecursive 2).node 6).kind ≠ .CALL_FUNCPTR → r = 6) ∧
      (((endState exRecursive 2).node 6).kind = .CALL →
        ((endState exRecursive 2).node 6).pairedNode = some r ∧
        (r = 6 ∨ (((endState exRecursive 2).node r).kind = .CALL_RETURN ∧
          ((endState exRecursive 2).node r).pairedNode = some 6))) ∧
      (((endState exRecursive 2).node 6).kind = .CALL_FUNCPTR →
        ((endState exRecursive 2).node 6).pairedNode = some r ∧
        ((endState exRecursive 2).node r).kind = .RETURN ∧
        ((endState exRecursive 2).node r).pairedNode = some 6) :=
  getOperand_of_mapped exRecursive (buildLLVMPSS_wf (build_eq_end exRecursive_builds))
    (by decide!) (by decide!)

/-! ## Constant `getelementptr` expressions -/

set_option maxRecDepth 100000 in
/-- C16: when `accumulateConstantOffset` fails, or gives an offset that does not fit the
pointer width, `handleConstantGep` returns the pointer of the base operand as it is,
offset included.  In the module `exConstGep` the base `@a` is the `ALLOC` node 2, which
points to itself at offset 0, and the `CONSTANT` nodes 5 and 7 made for the two
`getelementptr` expressions point to node 2 at offset 0, not at `UNKNOWN_OFFSET`. -/
theorem constant_gep_keeps_base_offset :
    (∀ (m : Module) (getOp : Constant → M Nat) (op : Constant) (acc : Option Nat)
        (s s1 : LLVMPSSBuilder) (opNode : Nat) (p : Pointer),
      getOp op s = .ok (opNode, s1) → (s1.node opNode).pointsTo = [p] →
      (acc = none ∨ ∃ k, acc = some k ∧ ¬ k < 2 ^ getPointerBitwidth m (.const op)) →
      handleConstantGep m getOp op acc s = .ok (p, s1)) ∧
    (finalState exConstGep 1).map (fun s =>
      (s.nodes_map (.const (.global 0)), (s.node 2).kind, (s.node 2).pointsTo)) =
      some (some 2, .ALLOC, [⟨2, .known 0⟩]) ∧
    (finalState exConstGep 1).map (fun s =>
      (s.nodes_map (.const (.gep (.global 0) none false false)), (s.node 5).kind,
        (s.node 5).pointsTo, (s.node 5).offset)) =
      some (some 5, .CONSTANT, [⟨2, .known 0⟩], .known 0) ∧
    (finalState exConstGep 1).map (fun s =>
      (s.nodes_map (.const (.gep (.global 0) (some (2 ^ 64)) false false)), (s.node 7).kind,
        (s.node 7).pointsTo, (s.node 7).offset)) =
      some (some 7, .CONSTANT, [⟨2, .known 0⟩], .known 0) ∧
    ¬ (2 ^ 64 < 2 ^ getPointerBitwidth exConstGep (.const (.global 0))) := by
  refine ⟨?_, by decide!, by decide!, by decide!, by decide⟩
  intro m getOp op acc s s1 opNode p h1 h2 h3
  unfold handleConstantGep
  rw [M.bind_run h1]
  have hsp : singlePointer opNode "Constant node has more that 1 pointer" s1 = .ok (p, s1) := by
    unfold singlePointer
    have h3 : getNodeData opNode s1 = .ok (s1.node opNode, s1) := rfl
    rw [M.bind_run h3]
    simp only [h2]
    rfl
  rw [M.bind_run hsp]
  rcases h3 with h | ⟨k, hk, hlt⟩
  · subst h
    rfl
  · subst hk
    simp only
    have : (decide (k < 2 ^ getPointerBitwidth m (.const op)) && !p.offset.isUnknown) = false := by
      simp [hlt]
    rw [this]
    rfl

/-! ## Stores and loads -/

theorem buildPSSBlockLink_same (retFirst node : Option Nat) (s : LLVMPSSBuilder) :
    buildPSSBlockLink retFirst node node s = .ok ((retFirst, node), s) := by
  unfold buildPSSBlockLink
  cases node with
  | none => rfl
  | some p =>
    simp
    rfl

theorem mkOpNode_run (k : PSSNodeType) (ops : List (Option Nat)) (s : LLVMPSSBuilder) :
    ∃ s', mkOpNode k ops s = .ok (s.size, s') ∧ s'.size = s.size + 1 ∧
      (s'.node s.size).kind = k ∧ (s'.node s.size).operands = ops ∧
      s'.nodes_map = s.nodes_map ∧ ∀ n, n < s.size → s'.node n = s.node n := by
  refine ⟨_, rfl, rfl, ?_, ?_, rfl, ?_⟩
  · simp [PSSNode.blank]
  · simp [PSSNode.blank]
  · intro n hn
    simp [ne_of_lt hn]

theorem addNode_run (v : Value) (n : Nat) (s : LLVMPSSBuilder) :
    ∃ s', addNode v n s = .ok ((), s') ∧ s'.size = s.size ∧ s'.node = s.node ∧
      s'.nodes_map v = some n := by
  refine ⟨_, rfl, rfl, rfl, ?_⟩
  simp

/-- C19: a `store v, p` is lowered exactly when `v` has a pointer type or has a node: when
neither holds the case of the `switch` and the whole loop body leave the builder and the
block's `first` and `node` as they are; when one holds and the operands of `v` and `p`
are found, the lowering makes the node `STORE(getOperand(v), getOperand(p))` and
registers it for the instruction.  The same for a `load p` with the type of its result
and the node of `p`, and the node `LOAD(getOperand(p))`. -/
theorem store_load_emission (m : Module) (F b i : Nat) (node : Option Nat)
    (s : LLVMPSSBuilder) :
    (∀ val ptr,
      (((m.typeOf val).isPointerTy || (s.nodes_map val).isSome) = false →
        lowerInst m F b i (.store val ptr) node s = .ok (node, s) ∧
        ∀ (build : Nat → M Nat) (retFirst : Option Nat),
          buildPSSBlockInst m build F b i (.store val ptr) retFirst node s =
            .ok ((retFirst, node), s)) ∧
      (((m.typeOf val).isPointerTy || (s.nodes_map val).isSome) = true →
        ∀ op1 s1 op2 s2, getOperand m val s = .ok (op1, s1) →
          getOperand m ptr s1 = .ok (op2, s2) →
          ∃ s', lowerInst m F b i (.store val ptr) node s = .ok (some s2.size, s') ∧
            s'.size = s2.size + 1 ∧ (s'.node s2.size).kind = .STORE ∧
            (s'.node s2.size).operands = [some op1, some op2] ∧
            s'.nodes_map (.inst F b i) = some s2.size ∧
            ∀ n, n < s2.size → s'.node n = s2.node n)) ∧
    (∀ ty ptr,
      ((ty.isPointerTy || (s.nodes_map ptr).isSome) = false →
        lowerInst m F b i (.load ty ptr) node s = .ok (node, s) ∧
        ∀ (build : Nat → M Nat) (retFirst : Option Nat),
          buildPSSBlockInst m build F b i (.load ty ptr) retFirst node s =
            .ok ((retFirst, node), s)) ∧
      ((ty.isPointerTy || (s.nodes_map ptr).isSome) = true →
        ∀ op1 s1, getOperand m ptr s = .ok (op1, s1) →
          ∃ s', lowerInst m F b i (.load ty ptr) node s = .ok (some s1.size, s') ∧
            s'.size = s1.size + 1 ∧ (s'.node s1.size).kind = .LOAD ∧
            (s'.node s1.size).operands = [some op1] ∧
            s'.nodes_map (.inst F b i) = some s1.size ∧
            ∀ n, n < s1.size → s'.node n = s1.node n)) := by
  refine ⟨fun val ptr => ⟨?_, ?_⟩, fun ty ptr => ⟨?_, ?_⟩⟩
  · intro hc
    have h1 : lowerInst m F b i (.store val ptr) node s = .ok (node, s) := by
      unfold lowerInst
      have hg : getNode val s = .ok (s.nodes_map val, s) := rfl
      simp only
      rw [M.bind_run hg, hc]
      rfl
    refine ⟨h1, fun build retFirst => ?_⟩
    unfold buildPSSBlockInst
    simp only
    rw [M.bind_run h1]
    exact buildPSSBlockLink_same retFirst node s
  · intro hc op1 s1 op2 s2 g1 g2
    obtain ⟨s3, k1, k2, k3, k4, k5, k6⟩ := mkOpNode_run .STORE [some op1, some op2] s2
    obtain ⟨s4, a1, a2, a3, a4⟩ := addNode_run (.inst F b i) s2.size s3
    refine ⟨s4, ?_, by rw [a2, k2], by rw [a3]; exact k3, by rw [a3]; exact k4, a4, ?_⟩
    · unfold lowerInst
      have hg : getNode val s = .ok (s.nodes_map val, s) := rfl
      simp only
      rw [M.bind_run hg, hc]
      simp only [if_true]
      have hcs : createStore m (.inst F b i) val ptr s = .ok (s2.size, s4) := by
        unfold createStore
        rw [M.bind_run g1, M.bind_run g2, M.bind_run k1, M.bind_run a1]
        rfl
      rw [M.bind_run hcs]
      rfl
    · intro n hn
      rw [a3]
      exact k6 n hn
  · intro hc
    have h1 : lowerInst m F b i (.load ty ptr) node s = .ok (node, s) := by
      unfold lowerInst
      have hg : getNode ptr s = .ok (s.nodes_map ptr, s) := rfl
      simp only
      rw [M.bind_run hg, hc]
      rfl
    refine ⟨h1, fun build retFirst => ?_⟩
    unfold buildPSSBlockInst
    simp only
    rw [M.bind_run h1]
    exact buildPSSBlockLink_same retFirst node s
  · intro hc op1 s1 g1
    obtain ⟨s3, k1, k2, k3, k4, k5, k6⟩ := mkOpNode_run .LOAD [some op1] s1
    obtain ⟨s4, a1, a2, a3, a4⟩ := addNode_run (.inst F b i) s1.size s3
    refine ⟨s4, ?_, by rw [a2, k2], by rw [a3]; exact k3, by rw [a3]; exact k4, a4, ?_⟩
    · unfold lowerInst
      have hg : getNode ptr s = .ok (s.nodes_map ptr, s) := rfl
      simp only
      rw [M.bind_run hg, hc]
      simp only [if_true]
      have hcs : createLoad m (.inst F b i) ptr s = .ok (s1.size, s4) := by
        unfold createLoad
        rw [M.bind_run g1, M.bind_run k1, M.bind_run a1]
        rfl
      rw [M.bind_run hcs]
      rfl
    · intro n hn
      rw [a3]
      exact k6 n hn

/-! ## Allocations of unknown size -/

theorem callOperand_run {args : List Value} {cv v : Value} {k : Nat}
    (h : (args ++ [cv]).get? k = some v) (s : LLVMPSSBuilder) :
    callOperand args cv k s = .ok (v, s) := by
  unfold callOperand
  rw [h]
  rfl

theorem getLimitedValue_big {v : Nat} (h : 2 ^ 64 - 1 ≤ v) :
    getLimitedValue v = 2 ^ 64 - 1 := by
  unfold getLimitedValue
  by_cases hv : v > 2 ^ 64 - 1
  · rw [if_pos hv]
  · rw [if_neg hv]
    omega

/-- C20: for a call of `malloc`, `alloca` or `calloc` whose size operand (operand 0, for
`calloc` operand 1) is no constant integer, or a constant integer that is the all-ones
64-bit value or greater, `createDynamicAlloc` returns a `DYN_ALLOC` node of size 0. -/
theorem createDynamicAlloc_unknown_size (args : List Value) (cv v : Value)
    (type : MemAllocationFuncs) (s : LLVMPSSBuilder) (ht : type ≠ .NONEMEM)
    (hop : (args ++ [cv]).get? (if type = .CALLOC then 1 else 0) = some v)
    (hv : ∀ bits value, v = .const (.int bits value) → 2 ^ 64 - 1 ≤ value) :
    ∃ s', createDynamicAlloc args cv type s = .ok (s.size, s') ∧
      (s'.node s.size).kind = .DYN_ALLOC ∧ (s'.node s.size).size = 0 := by
  have hint : (∃ bits value, v = .const (.int bits value) ∧ 2 ^ 64 - 1 ≤ value) ∨
      ∀ bits value, v ≠ .const (.int bits value) := by
    cases v with
    | const c =>
      cases c with
      | int bits value => exact Or.inl ⟨bits, value, rfl, hv bits value rfl⟩
      | _ => exact Or.inr (fun _ _ h => by cases h)
    | _ => exact Or.inr (fun _ _ h => by cases h)
  have h0 : ∃ v0, (args ++ [cv]).get? 0 = some v0 := by
    cases args with
    | nil => exact ⟨cv, rfl⟩
    | cons a rest => exact ⟨a, rfl⟩
  obtain ⟨v0, h0⟩ := h0
  cases type with
  | NONEMEM => exact absurd rfl ht
  | MALLOC =>
    simp only [if_neg (by decide : ¬ MemAllocationFuncs.MALLOC = .CALLOC)] at hop
    rcases hint with ⟨bits, value, rfl, hbig⟩ | hno
    · cases hres : createDynamicAlloc args cv .MALLOC s with
      | error e =>
        unfold createDynamicAlloc at hres
        simp [bind, mkOpNode, mkNode, newNode, setIsHeap, setSize, M.modify, pure,
          callOperand_run hop, getLimitedValue_big hbig] at hres
      | ok p =>
        unfold createDynamicAlloc at hres
        simp [bind, mkOpNode, mkNode, newNode, setIsHeap, setSize, M.modify, pure,
          callOperand_run hop, getLimitedValue_big hbig] at hres
        subst hres
        refine ⟨_, rfl, ?_, ?_⟩ <;> simp [PSSNode.blank]
    · cases hres : createDynamicAlloc args cv .MALLOC s with
      | error e =>
        unfold createDynamicAlloc at hres
        simp only [bind, mkOpNode, mkNode, newNode, setIsHeap, setSize, M.modify, pure,
          callOperand_run hop] at hres
        cases v with
        | const c =>
          cases c with
          | int bits value => exact absurd rfl (hno bits value)
          | _ => cases hres
        | _ => cases hres
      | ok p =>
        unfold createDynamicAlloc at hres
        simp only [bind, mkOpNode, mkNode, newNode, setIsHeap, setSize, M.modify, pure,
          callOperand_run hop] at hres
        cases v with
        | const c =>
          cases c with
          | int bits value => exact absurd rfl (hno bits value)
          | _ =>
            cases hres
            refine ⟨_, rfl, ?_, ?_⟩ <;> simp [PSSNode.blank]
        | _ =>
          cases hres
          refine ⟨_, rfl, ?_, ?_⟩ <;> simp [PSSNode.blank]
  | ALLOCA =>
    simp only [if_neg (by decide : ¬ MemAllocationFuncs.ALLOCA = .CALLOC)] at hop
    rcases hint with ⟨bits, value, rfl, hbig⟩ | hno
    · cases hres : createDynamicAlloc args cv .ALLOCA s with
      | error e =>
        unfold createDynamicAlloc at hres
        simp [bind, mkOpNode, mkNode, newNode, setSize, M.modify, pure,
          callOperand_run hop, getLimitedValue_big hbig] at hres
      | ok p =>
        unfold createDynamicAlloc at hres
        simp [bind, mkOpNode, mkNode, newNode, setSize, M.modify, pure,
          callOperand_run hop, getLimitedValue_big hbig] at hres
        subst hres
        refine ⟨_, rfl, ?_, ?_⟩ <;> simp [PSSNode.blank]
    · cases hres : createDynamicAlloc args cv .ALLOCA s with
      | error e =>
        unfold createDynamicAlloc at hres
        simp only [bind, mkOpNode, mkNode, newNode, setSize, M.modify, pure,
          callOperand_run hop] at hres
        cases v with
        | const c =>
          cases c with
          | int bits value => exact absurd rfl (hno bits value)
          | _ => cases hres
        | _ => cases hres
      | ok p =>
        unfold createDynamicAlloc at hres
        simp only [bind, mkOpNode, mkNode, newNode, setSize, M.modify, pure,
          callOperand_run hop] at hres
        cases v with
        | const c =>
          cases c with
          | int bits value => exact absurd rfl (hno bits value)
          | _ =>
            cases hres
            refine ⟨_, rfl, ?_, ?_⟩ <;> simp [PSSNode.blank]
        | _ =>
          cases hres
          refine ⟨_, rfl, ?_, ?_⟩ <;> simp [PSSNode.blank]
  | CALLOC =>
    simp only [if_true] at hop
    rcases hint with ⟨bits, value, rfl, hbig⟩ | hno
    · cases hres : createDynamicAlloc args cv .CALLOC s with
      | error e =>
        unfold createDynamicAlloc at hres
        simp only [bind, mkOpNode, mkNode, newNode, setIsHeap, setZeroInitialized, setSize,
          M.modify, pure, callOperand_run hop, callOperand_run h0,
          getLimitedValue_big hbig, if_true] at hres
        cases v0 with
        | const c =>
          cases c with
          | int bits2 value2 =>
            simp only at hres
            by_cases hl : getLimitedValue value2 = 2 ^ 64 - 1
            · rw [if_pos hl] at hres
              cases hres
            · rw [if_neg hl] at hres
              cases hres
          | _ => cases hres
        | _ => cases hres
      | ok p =>
        unfold createDynamicAlloc at hres
        simp only [bind, mkOpNode, mkNode, newNode, setIsHeap, setZeroInitialized, setSize,
          M.modify, pure, callOperand_run hop, callOperand_run h0,
          getLimitedValue_big hbig, if_true] at hres
        cases v0 with
        | const c =>
          cases c with
          | int bits2 value2 =>
            simp only at hres
            by_cases hl : getLimitedValue value2 = 2 ^ 64 - 1
            · rw [if_pos hl] at hres
              cases hres
              refine ⟨_, rfl, ?_, ?_⟩ <;> simp [PSSNode.blank]
            · rw [if_neg hl] at hres
              cases hres
              refine ⟨_, rfl, ?_, ?_⟩ <;> simp [PSSNode.blank]
          | _ =>
            cases hres
            refine ⟨_, rfl, ?_, ?_⟩ <;> simp [PSSNode.blank]
        | _ =>
          cases hres
          refine ⟨_, rfl, ?_, ?_⟩ <;> simp [PSSNode.blank]
    · cases hres : createDynamicAlloc args cv .CALLOC s with
      | error e =>
        unfold createDynamicAlloc at hres
        simp only [bind, mkOpNode, mkNode, newNode, setIsHeap, setZeroInitialized, setSize,
          M.modify, pure, callOperand_run hop] at hres
        cases v with
        | const c =>
          cases c with
          | int bits value => exact absurd rfl (hno bits value)
          | _ => cases hres
        | _ => cases hres
      | ok p =>
        unfold createDynamicAlloc at hres
        simp only [bind, mkOpNode, mkNode, newNode, setIsHeap, setZeroInitialized, setSize,
          M.modify, pure, callOperand_run hop] at hres
        cases v with
        | const c =>
          cases c with
          | int bits value => exact absurd rfl (hno bits value)
          | _ =>
            cases hres
            refine ⟨_, rfl, ?_, ?_⟩ <;> simp [PSSNode.blank]
        | _ =>
          cases hres
          refine ⟨_, rfl, ?_, ?_⟩ <;> simp [PSSNode.blank]

/-- C20 at `malloc(2^64 - 1)`: the size is 0. -/
theorem createDynamicAlloc_unknown_size_witness :
    ∃ s', createDynamicAlloc [.const (.int 64 (2 ^ 64 - 1))] (.const (.func 0)) .MALLOC
        LLVMPSSBuilder.init = .ok (LLVMPSSBuilder.init.size, s') ∧
      (s'.node LLVMPSSBuilder.init.size).kind = .DYN_ALLOC ∧
      (s'.node LLVMPSSBuilder.init.size).size = 0 :=
  createDynamicAlloc_unknown_size _ _ (.const (.int 64 (2 ^ 64 - 1))) .MALLOC _ (by decide) rfl
    (by
      intro bits value h
      injection h with h
      injection h with h1 h2
      omega)

/-! ## The chain of a block -/

theorem M.result_eq {α : Type} {x : M α} {s : LLVMPSSBuilder}
    (h : (M.result? x s).isSome = true) (d : α × LLVMPSSBuilder) :
    x s = .ok (((M.result? x s).getD d).1, ((M.result? x s).getD d).2) := by
  unfold M.result? at h ⊢
  cases hx : x s with
  | error e =>
    rw [hx] at h
    cases h
  | ok p => rfl

/-- What `lowerInst` does depends on the `node` it is given only in what it returns when
the instruction emits nothing. -/
theorem lowerInst_none {m : Module} {F b i : Nat} {I : Inst} {node r : Option Nat}
    {s s' : LLVMPSSBuilder} (h : lowerInst m F b i I node s = .ok (r, s')) :
    (∃ n, r = some n ∧ lowerInst m F b i I none s = .ok (some n, s') ∧ s.size ≤ n ∧
        n < s'.size) ∨
      (r = node ∧ s' = s ∧ lowerInst m F b i I none s = .ok (none, s)) := by
  have fin : ∀ {n : Nat} {s1 : LLVMPSSBuilder}, Created s s1 n → s.size ≤ n ∧ n < s1.size :=
    fun c => ⟨c.2.1, c.2.2⟩
  cases I with
  | alloca allocatedTy =>
    unfold lowerInst at h
    simp only at h
    simp only [M.bind_ok, M.pure_ok] at h
    obtain ⟨n, s1, h1, rfl, rfl⟩ := h
    refine Or.inl ⟨n, rfl, ?_, fin (createAlloc_created h1)⟩
    unfold lowerInst
    simp only
    rw [M.bind_run h1]
    rfl
  | store val ptr =>
    unfold lowerInst at h
    simp only at h
    simp only [M.bind_ok, getNode_ok] at h
    obtain ⟨k, s0, ⟨rfl, rfl⟩, h⟩ := h
    split at h
    · rename_i hc
      simp only [M.bind_ok, M.pure_ok] at h
      obtain ⟨n, s1, h1, rfl, rfl⟩ := h
      refine Or.inl ⟨n, rfl, ?_, fin (createStore_created h1)⟩
      unfold lowerInst
      simp only
      rw [M.bind_run (rfl : getNode _ s = .ok (s.nodes_map _, s)), if_pos hc, M.bind_run h1]
      rfl
    · rename_i hc
      obtain ⟨rfl, rfl⟩ := (M.pure_ok _ _ _ _).mp h
      refine Or.inr ⟨rfl, rfl, ?_⟩
      unfold lowerInst
      simp only
      rw [M.bind_run (rfl : getNode _ s = .ok (s.nodes_map _, s)), if_neg hc]
      rfl
  | load ty ptr =>
    unfold lowerInst at h
    simp only at h
    simp only [M.bind_ok, getNode_ok] at h
    obtain ⟨k, s0, ⟨rfl, rfl⟩, h⟩ := h
    split at h
    · rename_i hc
      simp only [M.bind_ok, M.pure_ok] at h
      obtain ⟨n, s1, h1, rfl, rfl⟩ := h
      refine Or.inl ⟨n, rfl, ?_, fin (createLoad_created h1)⟩
      unfold lowerInst
      simp only
      rw [M.bind_run (rfl : getNode _ s = .ok (s.nodes_map _, s)), if_pos hc, M.bind_run h1]
      rfl
    · rename_i hc
      obtain ⟨rfl, rfl⟩ := (M.pure_ok _ _ _ _).mp h
      refine Or.inr ⟨rfl, rfl, ?_⟩
      unfold lowerInst
      simp only
      rw [M.bind_run (rfl : getNode _ s = .ok (s.nodes_map _, s)), if_neg hc]
      rfl
  | gep ptr accumulated zeroIdx inBounds =>
    unfold lowerInst at h
    simp only at h
    simp only [M.bind_ok, M.pure_ok] at h
    obtain ⟨n, s1, h1, rfl, rfl⟩ := h
    refine Or.inl ⟨n, rfl, ?_, fin (createGEP_created h1)⟩
    unfold lowerInst
    simp only
    rw [M.bind_run h1]
    rfl
  | select ty cond op1 op2 =>
    unfold lowerInst at h
    simp only at h
    split at h
    · rename_i hc
      simp only [M.bind_ok, M.pure_ok] at h
      obtain ⟨n, s1, h1, rfl, rfl⟩ := h
      refine Or.inl ⟨n, rfl, ?_, fin (createSelect_created h1)⟩
      unfold lowerInst
      simp only
      rw [if_pos hc, M.bind_run h1]
      rfl
    · rename_i hc
      obtain ⟨rfl, rfl⟩ := (M.pure_ok _ _ _ _).mp h
      refine Or.inr ⟨rfl, rfl, ?_⟩
      unfold lowerInst
      simp only
      rw [if_neg hc]
      rfl
  | phi ty incoming =>
    unfold lowerInst at h
    simp only at h
    split at h
    · rename_i hc
      simp only [M.bind_ok, M.pure_ok] at h
      obtain ⟨n, s1, h1, rfl, rfl⟩ := h
      refine Or.inl ⟨n, rfl, ?_, fin (createPHI_created h1)⟩
      unfold lowerInst
      simp only
      rw [if_pos hc, M.bind_run h1]
      rfl
    · rename_i hc
      obtain ⟨rfl, rfl⟩ := (M.pure_ok _ _ _ _).mp h
      refine Or.inr ⟨rfl, rfl, ?_⟩
      unfold lowerInst
      simp only
      rw [if_neg hc]
      rfl
  | bitcast ty op =>
    unfold lowerInst at h
    simp only at h
    simp only [M.bind_ok, M.pure_ok] at h
    obtain ⟨n, s1, h1, rfl, rfl⟩ := h
    refine Or.inl ⟨n, rfl, ?_, fin (createCast_created h1)⟩
    unfold lowerInst
    simp only
    rw [M.bind_run h1]
    rfl
  | ptrtoint ty op =>
    unfold lowerInst at h
    simp only at h
    simp only [M.bind_ok, M.pure_ok] at h
    obtain ⟨n, s1, h1, rfl, rfl⟩ := h
    refine Or.inl ⟨n, rfl, ?_, fin (createPtrToInt_created h1)⟩
    unfold lowerInst
    simp only
    rw [M.bind_run h1]
    rfl
  | inttoptr ty op =>
    unfold lowerInst at h
    simp only at h
    simp only [M.bind_ok, M.pure_ok] at h
    obtain ⟨n, s1, h1, rfl, rfl⟩ := h
    refine Or.inl ⟨n, rfl, ?_, fin (createIntToPtr_created h1)⟩
    unfold lowerInst
    simp only
    rw [M.bind_run h1]
    rfl
  | ret retVal =>
    unfold lowerInst at h
    simp only at h
    simp only [M.bind_ok, M.pure_ok] at h
    obtain ⟨n, s1, h1, rfl, rfl⟩ := h
    refine Or.inl ⟨n, rfl, ?_, fin (createReturn_created h1)⟩
    unfold lowerInst
    simp only
    rw [M.bind_run h1]
    rfl
  | call ty cv args =>
    obtain ⟨rfl, rfl⟩ := (M.pure_ok _ _ _ _).mp h
    exact Or.inr ⟨rfl, rfl, rfl⟩
  | other ty =>
    obtain ⟨rfl, rfl⟩ := (M.pure_ok _ _ _ _).mp h
    exact Or.inr ⟨rfl, rfl, rfl⟩

/-- One run of the loop body of `buildPSSBlock`, in terms of what the instruction emits:
nothing changes when it emits nothing; otherwise the exit node becomes `node`, the
entry node becomes the block's `first` when there was no `node` yet, and it becomes a
successor of the previous `node` when there was one. -/
theorem buildPSSBlockInst_emit {m : Module} {build : Nat → M Nat} {F b i : Nat} {I : Inst}
    {retFirst node : Option Nat} {r : Option Nat × Option Nat} {s s' : LLVMPSSBuilder}
    (hlt : ∀ p, node = some p → p < s.size)
    (h : buildPSSBlockInst m build F b i I retFirst node s = .ok (r, s')) :
    ∃ e s1, emitInst m build F b i I s = .ok (e, s1) ∧
      (e = none → r = (retFirst, node) ∧ s' = s) ∧
      (∀ en ex, e = some (en, ex) →
        r.1 = (if node = none then some en else retFirst) ∧
        r.2 = some ex ∧ ∀ p, node = some p → en ∈ (s'.node p).successors) := by
  have hnc : ∀ (n : Option Nat) (s1 : LLVMPSSBuilder),
      lowerInst m F b i I node s = .ok (n, s1) →
      buildPSSBlockLink retFirst node n s1 = .ok (r, s') →
      ∃ e s1, (lowerInst m F b i I none >>= fun n => pure (n.map fun n => (n, n))) s =
          .ok (e, s1) ∧
        (e = none → r = (retFirst, node) ∧ s' = s) ∧
        (∀ en ex, e = some (en, ex) →
          r.1 = (if node = none then some en else retFirst) ∧
          r.2 = some ex ∧ ∀ p, node = some p → en ∈ (s'.node p).successors) := by
    intro n s1 h1 h2
    rcases lowerInst_none h1 with ⟨k, hn, hk, hge, -⟩ | ⟨hn, hs, hk⟩
    · rw [hn] at h2
      refine ⟨some (k, k), s1, ?_, ?_, ?_⟩
      · rw [M.bind_run hk]
        rfl
      · intro hc
        cases hc
      · intro en ex he
        injection he with he
        injection he with e1 e2
        subst e1
        subst e2
        unfold buildPSSBlockLink at h2
        cases node with
        | none =>
          obtain ⟨hr, hs⟩ := (M.pure_ok _ _ _ _).mp h2
          rw [← hr]
          exact ⟨rfl, rfl, fun p hp => by cases hp⟩
        | some p =>
          have hne : (some p : Option Nat) ≠ some k := by
            intro hc
            injection hc with hc
            have := hlt p rfl
            omega
          simp only [M.bind_ok, M.pure_ok] at h2
          obtain ⟨u, t, ht, hr, hs⟩ := h2
          rw [if_pos hne, addSuccessor_ok] at ht
          rw [← hr, ← hs, ← ht]
          refine ⟨by simp, rfl, ?_⟩
          intro p' hp'
          injection hp' with hp'
          rw [← hp']
          simp
    · rw [hn, hs] at h2
      refine ⟨none, s, ?_, ?_, ?_⟩
      · rw [M.bind_run hk]
        rfl
      · intro _
        rw [buildPSSBlockLink_same] at h2
        injection h2 with h2
        injection h2 with h3 h4
        exact ⟨h3.symm, h4.symm⟩
      · intro en ex hc
        cases hc
  cases I with
  | call ty cv args =>
    unfold buildPSSBlockInst at h
    simp only [M.bind_ok, M.ofExcept_ok] at h
    obtain ⟨rel, s0, ⟨hrel, hs0⟩, h⟩ := h
    rw [← hs0] at h
    have hrel' : M.ofExcept (isRelevantCall m ty cv) s = .ok (rel, s) :=
      (M.ofExcept_ok _ _ _ _).mpr ⟨hrel, rfl⟩
    cases rel with
    | false =>
      simp only [Bool.not_false, if_true] at h
      rw [buildPSSBlockLink_same] at h
      injection h with h
      injection h with h3 h4
      refine ⟨none, s, ?_, fun _ => ⟨h3.symm, h4.symm⟩, fun en ex hc => by cases hc⟩
      unfold emitInst
      simp only
      rw [M.bind_run hrel']
      rfl
    | true =>
      simp only [Bool.not_true, Bool.false_eq_true, if_false, M.bind_ok] at h
      obtain ⟨subg, s1, h1, rf, s2, h2, h3⟩ := h
      rw [buildPSSBlockLink_same] at h3
      injection h3 with h3
      injection h3 with h3 h4
      refine ⟨some subg, s1, ?_, (fun hc => by cases hc), ?_⟩
      · unfold emitInst
        simp only
        rw [M.bind_run hrel']
        simp only [Bool.not_true, Bool.false_eq_true, if_false]
        rw [M.bind_run h1]
        rfl
      · intro en ex he
        injection he with he
        subst he
        rw [← h3, ← h4]
        cases node with
        | none =>
          obtain ⟨hr, hs⟩ := (M.pure_ok _ _ _ _).mp h2
          rw [← hr]
          exact ⟨rfl, rfl, fun p hp => by cases hp⟩
        | some p =>
          simp only [M.bind_ok, M.pure_ok] at h2
          obtain ⟨u, t, ht, hr, hs⟩ := h2
          rw [addSuccessor_ok] at ht
          rw [← hr, ← hs, ← ht]
          refine ⟨by simp, rfl, ?_⟩
          intro p' hp'
          injection hp' with hp'
          rw [← hp']
          simp
  | alloca allocatedTy =>
    unfold buildPSSBlockInst at h
    simp only [M.bind_ok] at h
    obtain ⟨n, s1, h1, h2⟩ := h
    exact hnc n s1 h1 h2
  | store val ptr =>
    unfold buildPSSBlockInst at h
    simp only [M.bind_ok] at h
    obtain ⟨n, s1, h1, h2⟩ := h
    exact hnc n s1 h1 h2
  | load ty ptr =>
    unfold buildPSSBlockInst at h
    simp only [M.bind_ok] at h
    obtain ⟨n, s1, h1, h2⟩ := h
    exact hnc n s1 h1 h2
  | gep ptr accumulated zeroIdx inBounds =>
    unfold buildPSSBlockInst at h
    simp only [M.bind_ok] at h
    obtain ⟨n, s1, h1, h2⟩ := h
    exact hnc n s1 h1 h2
  | select ty cond op1 op2 =>
    unfold buildPSSBlockInst at h
    simp only [M.bind_ok] at h
    obtain ⟨n, s1, h1, h2⟩ := h
    exact hnc n s1 h1 h2
  | phi ty incoming =>
    unfold buildPSSBlockInst at h
    simp only [M.bind_ok] at h
    obtain ⟨n, s1, h1, h2⟩ := h
    exact hnc n s1 h1 h2
  | bitcast ty op =>
    unfold buildPSSBlockInst at h
    simp only [M.bind_ok] at h
    obtain ⟨n, s1, h1, h2⟩ := h
    exact hnc n s1 h1 h2
  | ptrtoint ty op =>
    unfold buildPSSBlockInst at h
    simp only [M.bind_ok] at h
    obtain ⟨n, s1, h1, h2⟩ := h
    exact hnc n s1 h1 h2
  | inttoptr ty op =>
    unfold buildPSSBlockInst at h
    simp only [M.bind_ok] at h
    obtain ⟨n, s1, h1, h2⟩ := h
    exact hnc n s1 h1 h2
  | ret retVal =>
    unfold buildPSSBlockInst at h
    simp only [M.bind_ok] at h
    obtain ⟨n, s1, h1, h2⟩ := h
    exact hnc n s1 h1 h2
  | other ty =>
    unfold buildPSSBlockInst at h
    simp only [M.bind_ok] at h
    obtain ⟨n, s1, h1, h2⟩ := h
    exact hnc n s1 h1 h2

theorem blockEmits_cons {m : Module} {build : Nat → M Nat} {F b i : Nat} {I : Inst}
    {rest : List Inst} {retFirst node : Option Nat} {e : Option (Nat × Nat)}
    {r : Option Nat × Option Nat} {s s0 s1 : LLVMPSSBuilder}
    (he : emitInst m build F b i I s = .ok (e, s0))
    (hr : buildPSSBlockInst m build F b i I retFirst node s = .ok (r, s1)) :
    blockEmits m build F b (I :: rest) i retFirst node s =
      e.toList ++ blockEmits m build F b rest (i + 1) r.1 r.2 s1 := by
  rw [blockEmits, he, hr]

/-- The loop of `buildPSSBlock` in terms of what the instructions emit. -/
theorem buildPSSBlockLoop_chain {m : Module} {build : Nat → M Nat} (hb : BuildOK build)
    {P : Nat → Prop} {F b : Nat} {insts : List Inst} :
    ∀ {i : Nat} {retFirst node : Option Nat} {res : Option Nat × Option Nat}
      {s s' : LLVMPSSBuilder}, WF P s → (∀ n, node = some n → Exit s n) →
      buildPSSBlockLoop m build F b insts i retFirst node s = .ok (res, s') →
      (blockEmits m build F b insts i retFirst node s = [] → res = (retFirst, node)) ∧
      (∀ e, (blockEmits m build F b insts i retFirst node s).getLast? = some e →
        res.2 = some e.2) ∧
      (∀ e, (blockEmits m build F b insts i retFirst node s).head? = some e →
        res.1 = if node = none then some e.1 else retFirst) ∧
      (∀ p e, node = some p →
        (blockEmits m build F b insts i retFirst node s).head? = some e →
        e.1 ∈ (s'.node p).successors) ∧
      (∀ k e1 e2, (blockEmits m build F b insts i retFirst node s).get? k = some e1 →
        (blockEmits m build F b insts i retFirst node s).get? (k + 1) = some e2 →
        e2.1 ∈ (s'.node e1.2).successors) := by
  induction insts with
  | nil =>
    intro i retFirst node res s s' hwf hnode h
    unfold buildPSSBlockLoop at h
    obtain ⟨rfl, rfl⟩ := (M.pure_ok _ _ _ _).mp h
    unfold blockEmits
    refine ⟨fun _ => rfl, ?_, ?_, ?_, ?_⟩
    · intro e he
      cases he
    · intro e he
      cases he
    · intro p e _ he
      cases he
    · intro k e1 e2 he
      cases he
  | cons I rest ih =>
    intro i retFirst node res s s' hwf hnode h
    unfold buildPSSBlockLoop at h
    simp only [M.bind_ok] at h
    obtain ⟨r, s1, h1, h2⟩ := h
    obtain ⟨g1, g2, g3, -⟩ := buildPSSBlockInst_wf hb hwf hnode h1
    obtain ⟨-, x2, -, -⟩ := buildPSSBlockLoop_wf hb g1 g3 h2
    obtain ⟨e, s0, he, hnone, hsome⟩ := buildPSSBlockInst_emit (fun p hp => (hnode p hp).1) h1
    obtain ⟨k1, k2, k3, k4, k5⟩ := ih g1 g3 h2
    rw [blockEmits_cons he h1]
    cases e with
    | none =>
      obtain ⟨hr, hs⟩ := hnone rfl
      subst hr
      subst hs
      simp only [Option.toList, List.nil_append]
      exact ⟨k1, k2, k3, k4, k5⟩
    | some ee =>
      obtain ⟨en, ex⟩ := ee
      obtain ⟨hr1, hr2, hedge⟩ := hsome en ex rfl
      simp only [Option.toList, List.singleton_append]
      have hres1 : res.1 = r.1 := by
        cases hrest : blockEmits m build F b rest (i + 1) r.1 r.2 s1 with
        | nil =>
          rw [k1 hrest]
        | cons a l =>
          have := k3 a (by rw [hrest]; rfl)
          rw [this, hr2]
          simp
      refine ⟨?_, ?_, ?_, ?_, ?_⟩
      · intro hc
        cases hc
      · intro e' he'
        cases hrest : blockEmits m build F b rest (i + 1) r.1 r.2 s1 with
        | nil =>
          rw [hrest] at he'
          simp only [List.getLast?_singleton] at he'
          injection he' with he'
          subst he'
          rw [k1 hrest]
          exact hr2
        | cons a l =>
          rw [hrest, List.getLast?_cons_cons] at he'
          exact k2 e' (by rw [hrest]; exact he')
      · intro e' he'
        simp only [List.head?_cons] at he'
        injection he' with he'
        subst he'
        rw [hres1, hr1]
      · intro p e' hp he'
        simp only [List.head?_cons] at he'
        injection he' with he'
        subst he'
        have hmem := hedge p hp
        have hplt : p < s1.size := lt_of_lt_of_le (hnode p hp).1 g2.size_le
        exact (x2.succ_prefix p hplt).subset hmem
      · intro k e1 e2 he1 he2
        cases k with
        | zero =>
          simp only [List.get?_cons_zero] at he1
          injection he1 with he1
          subst he1
          simp only [List.get?_cons_succ] at he2
          refine k4 ex e2 hr2 ?_
          rw [← he2]
          cases blockEmits m build F b rest (i + 1) r.1 r.2 s1 <;> rfl
        | succ k =>
          simp only [List.get?_cons_succ] at he1 he2
          exact k5 k e1 e2 he1 he2

/-- C17: `buildPSSBlock` returns `(null, null)` exactly when no instruction of the block
emits a node; otherwise `first` is the entry node of the first emitting instruction and
`last` the exit node of the last one (for a call the entry is the call node and the exit
its return node), and the exit node of an emitting instruction has the entry node of
the next emitting instruction among its successors. -/
theorem buildPSSBlock_chain {m : Module} {build : Nat → M Nat} (hb : BuildOK build)
    {P : Nat → Prop} {F b : Nat} {res : Option Nat × Option Nat} {s s' : LLVMPSSBuilder}
    (hwf : WF P s) (h : buildPSSBlock m build F b s = .ok (res, s')) :
    (res = (none, none) ↔
      blockEmits m build F b (m.getBlock F b).insts 0 none none s = []) ∧
    res.1.isSome = res.2.isSome ∧
    (∀ e, (blockEmits m build F b (m.getBlock F b).insts 0 none none s).head? = some e →
      res.1 = some e.1) ∧
    (∀ e, (blockEmits m build F b (m.getBlock F b).insts 0 none none s).getLast? = some e →
      res.2 = some e.2) ∧
    (∀ k e1 e2,
      (blockEmits m build F b (m.getBlock F b).insts 0 none none s).get? k = some e1 →
      (blockEmits m build F b (m.getBlock F b).insts 0 none none s).get? (k + 1) = some e2 →
      e2.1 ∈ (s'.node e1.2).successors) := by
  obtain ⟨-, -, -, hcons⟩ := buildPSSBlock_wf hb hwf h
  unfold buildPSSBlock at h
  obtain ⟨k1, k2, k3, -, k5⟩ :=
    buildPSSBlockLoop_chain hb hwf (fun _ hn => by cases hn) h
  refine ⟨⟨?_, k1⟩, hcons, ?_, k2, k5⟩
  · intro hres
    cases hem : blockEmits m build F b (m.getBlock F b).insts 0 none none s with
    | nil => rfl
    | cons a l =>
      have := k3 a (by rw [hem]; rfl)
      rw [hres] at this
      simp at this
  · intro e he
    have := k3 e he
    simpa using this

set_option maxRecDepth 100000 in
theorem exChain_block_runs :
    (M.result? (buildPSSBlock exChain (buildLLVMPSSFunction exChain 1) 0 0)
      LLVMPSSBuilder.init).isSome = true := by decide!

set_option maxRecDepth 100000 in
/-- The block of `exChain`: `malloc`, `alloca`, `store`, `load` and `ret` emit the nodes
2 to 6, the `add` emits nothing, and the nodes are chained in this order. -/
theorem exChain_block_eval :
    blockEmits exChain (buildLLVMPSSFunction exChain 1) 0 0 (exChain.getBlock 0 0).insts 0
      none none LLVMPSSBuilder.init = [(2, 2), (3, 3), (4, 4), (5, 5), (6, 6)] ∧
    exChainBlock.1 = (some 2, some 6) ∧
    (List.range 7).map (fun n => ((exChainBlock.2.node n).kind,
      (exChainBlock.2.node n).successors)) =
      [(.NULLPTR, []), (.UNKNOWN_MEM, []), (.DYN_ALLOC, [3]), (.ALLOC, [4]), (.STORE, [5]),
        (.LOAD, [6]), (.RETURN, [])] := by
  refine ⟨by decide!, by decide!, by decide!⟩

/-- C17 at the block of `main` of the module `exChain`, lowered from the initial state. -/
theorem buildPSSBlock_chain_witness :
    (exChainBlock.1 = (none, none) ↔
      blockEmits exChain (buildLLVMPSSFunction exChain 1) 0 0 (exChain.getBlock 0 0).insts 0
        none none LLVMPSSBuilder.init = []) ∧
    exChainBlock.1.1.isSome = exChainBlock.1.2.isSome ∧
    (∀ e, (blockEmits exChain (buildLLVMPSSFunction exChain 1) 0 0
        (exChain.getBlock 0 0).insts 0 none none LLVMPSSBuilder.init).head? = some e →
      exChainBlock.1.1 = some e.1) ∧
    (∀ e, (blockEmits exChain (buildLLVMPSSFunction exChain 1) 0 0
        (exChain.getBlock 0 0).insts 0 none none LLVMPSSBuilder.init).getLast? = some e →
      exChainBlock.1.2 = some e.2) ∧
    (∀ k e1 e2,
      (blockEmits exChain (buildLLVMPSSFunction exChain 1) 0 0
        (exChain.getBlock 0 0).insts 0 none none LLVMPSSBuilder.init).get? k = some e1 →
      (blockEmits exChain (buildLLVMPSSFunction exChain 1) 0 0
        (exChain.getBlock 0 0).insts 0 none none LLVMPSSBuilder.init).get? (k + 1) = some e2 →
      e2.1 ∈ (exChainBlock.2.node e1.2).successors) :=
  buildPSSBlock_chain (buildLLVMPSSFunction_wf exChain 1)
    (WF.of_inert0 (Inert0.rfl_inert0 _)).1 (M.result_eq exChain_block_runs _)

/-! ## Steps that leave operands and the value map alone -/

set_option linter.unusedTactic false
set_option linter.unreachableTactic false

theorem Quiet.rfl_quiet (T : Nat → Prop) (I : Value) (s : LLVMPSSBuilder) : Quiet T I s s :=
  ⟨le_refl _, fun _ _ _ => rfl, fun _ _ _ => rfl, fun _ _ h => h, fun _ => rfl⟩

theorem Quiet.trans_quiet {T : Nat → Prop} {I : Value} {s1 s2 s3 : LLVMPSSBuilder}
    (h12 : Quiet T I s1 s2) (h23 : Quiet T I s2 s3) : Quiet T I s1 s3 := by
  refine ⟨le_trans h12.size_le h23.size_le, ?_, ?_, ?_, ?_⟩
  · intro n hn hT
    rw [h23.ops_eq n (lt_of_lt_of_le hn h12.size_le) hT, h12.ops_eq n hn hT]
  · intro v hv hc
    rw [h23.map_eq v hv hc, h12.map_eq v hv hc]
  · intro c x hx
    exact h23.const_mono c x (h12.const_mono c x hx)
  · intro a
    rw [h23.null_eq, h12.null_eq]

theorem Quiet.weaken {T T' : Nat → Prop} {I : Value} {s s' : LLVMPSSBuilder}
    (h : Quiet T I s s') (hT : ∀ n, T n → T' n) : Quiet T' I s s' :=
  ⟨h.size_le, fun n hn hx => h.ops_eq n hn (fun ht => hx (hT n ht)), h.map_eq, h.const_mono,
    h.null_eq⟩

theorem Quiets.bind_quiets {α β : Type} {T : Nat → Prop} {I : Value} {x : M α} {f : α → M β}
    (hx : Quiets T I x) (hf : ∀ a, Quiets T I (f a)) : Quiets T I (x >>= f) := by
  refine ⟨fun s b s' h => ?_⟩
  obtain ⟨a, s1, h1, h2⟩ := (M.bind_ok _ _ _ _ _).mp h
  exact (hx.keeps s a s1 h1).trans_quiet ((hf a).keeps s1 b s' h2)

@[simp] theorem Quiets.pure_quiets {α : Type} (T : Nat → Prop) (I : Value) (a : α) :
    Quiets T I (pure a : M α) := by
  refine ⟨fun s b s' h => ?_⟩
  obtain ⟨-, rfl⟩ := (M.pure_ok _ _ _ _).mp h
  exact Quiet.rfl_quiet _ _ _

@[simp] theorem Quiets.fail_quiets {α : Type} (T : Nat → Prop) (I : Value) (e : Error) :
    Quiets T I (M.fail e : M α) := by
  refine ⟨fun s b s' h => ?_⟩
  cases h

@[simp] theorem Quiets.get_quiets (T : Nat → Prop) (I : Value) : Quiets T I M.get := by
  refine ⟨fun s b s' h => ?_⟩
  obtain ⟨-, rfl⟩ := (M.get_ok _ _ _).mp h
  exact Quiet.rfl_quiet _ _ _

@[simp] theorem Quiets.assert_quiets (T : Nat → Prop) (I : Value) (c : Bool) (msg : String) :
    Quiets T I (M.assert c msg) := by
  unfold M.assert
  split <;> simp

@[simp] theorem Quiets.ofExcept_quiets {α : Type} (T : Nat → Prop) (I : Value) (x : Except Error α) :
    Quiets T I (M.ofExcept x) := by
  refine ⟨fun s b s' h => ?_⟩
  obtain ⟨-, rfl⟩ := (M.ofExcept_ok _ _ _ _).mp h
  exact Quiet.rfl_quiet _ _ _

@[simp] theorem getNode_quiets (T : Nat → Prop) (I v : Value) : Quiets T I (getNode v) := by
  refine ⟨fun s b s' h => ?_⟩
  obtain ⟨-, rfl⟩ := (getNode_ok _ _ _ _).mp h
  exact Quiet.rfl_quiet _ _ _

@[simp] theorem getNodeData_quiets (T : Nat → Prop) (I : Value) (n : Nat) :
    Quiets T I (getNodeData n) := by
  refine ⟨fun s b s' h => ?_⟩
  obtain ⟨-, rfl⟩ := (getNodeData_ok _ _ _ _).mp h
  exact Quiet.rfl_quiet _ _ _

/-- Changing attributes of a node other than its operands. -/
theorem Quiet.update_quiet (T : Nat → Prop) (I : Value) (s : LLVMPSSBuilder) (n : Nat)
    (f : PSSNode → PSSNode) (hf : ∀ x, (f x).operands = x.operands) :
    Quiet T I s (s.update n f) := by
  refine ⟨le_refl _, ?_, fun _ _ _ => rfl, fun _ _ h => h, fun _ => rfl⟩
  intro i _ _
  rw [LLVMPSSBuilder.update_node]
  split
  · subst_vars
    exact hf _
  · rfl

@[simp] theorem newNode_quiets (T : Nat → Prop) (I : Value) (mk : Nat → PSSNode) :
    Quiets T I (newNode mk) := by
  refine ⟨fun s b s' h => ?_⟩
  rw [newNode_ok] at h
  obtain ⟨rfl, rfl⟩ := h
  refine ⟨Nat.le_succ _, ?_, fun _ _ _ => rfl, fun _ _ h => h, fun _ => rfl⟩
  intro i hi _
  rw [LLVMPSSBuilder.push_node, if_neg (ne_of_lt hi)]

@[simp] theorem addSuccessor_quiets (T : Nat → Prop) (I : Value) (n t : Nat) :
    Quiets T I (addSuccessor n t) := by
  refine ⟨fun s b s' h => ?_⟩
  rw [addSuccessor_ok] at h
  subst h
  exact Quiet.update_quiet T I s n _ (fun _ => rfl)

@[simp] theorem setPairedNode_quiets (T : Nat → Prop) (I : Value) (n t : Nat) :
    Quiets T I (setPairedNode n t) := by
  refine ⟨fun s b s' h => ?_⟩
  rw [setPairedNode_ok] at h
  subst h
  exact Quiet.update_quiet T I s n _ (fun _ => rfl)

@[simp] theorem setSize_quiets (T : Nat → Prop) (I : Value) (n t : Nat) :
    Quiets T I (setSize n t) := by
  refine ⟨fun s b s' h => ?_⟩
  unfold setSize at h
  rw [M.modify_ok] at h
  subst h
  exact Quiet.update_quiet T I s n _ (fun _ => rfl)

@[simp] theorem setIsHeap_quiets (T : Nat → Prop) (I : Value) (n : Nat) :
    Quiets T I (setIsHeap n) := by
  refine ⟨fun s b s' h => ?_⟩
  unfold setIsHeap at h
  rw [M.modify_ok] at h
  subst h
  exact Quiet.update_quiet T I s n _ (fun _ => rfl)

@[simp] theorem setZeroInitialized_quiets (T : Nat → Prop) (I : Value) (n : Nat) :
    Quiets T I (setZeroInitialized n) := by
  refine ⟨fun s b s' h => ?_⟩
  unfold setZeroInitialized at h
  rw [M.modify_ok] at h
  subst h
  exact Quiet.update_quiet T I s n _ (fun _ => rfl)

@[simp] theorem addPointsTo_quiets (T : Nat → Prop) (I : Value) (n : Nat) (p : Pointer) :
    Quiets T I (addPointsTo n p) := by
  refine ⟨fun s b s' h => ?_⟩
  unfold addPointsTo at h
  rw [M.modify_ok] at h
  subst h
  exact Quiet.update_quiet T I s n _ (fun _ => rfl)

@[simp] theorem setBuiltBlock_quiets (T : Nat → Prop) (I : Value) (k : Nat × Nat)
    (nds : Option Nat × Option Nat) : Quiets T I (setBuiltBlock k nds) := by
  refine ⟨fun s b s' h => ?_⟩
  unfold setBuiltBlock at h
  rw [M.modify_ok] at h
  subst h
  exact ⟨le_refl _, fun _ _ _ => rfl, fun _ _ _ => rfl, fun _ _ h => h, fun _ => rfl⟩

/-- Registering a node for the value the step lowers. -/
theorem addNode_quiets (T : Nat → Prop) {I : Value} (hI : I.isConstant = false) (n : Nat) :
    Quiets T I (addNode I n) := by
  refine ⟨fun s b s' h => ?_⟩
  unfold addNode at h
  rw [M.modify_ok] at h
  subst h
  refine ⟨le_refl _, fun _ _ _ => rfl, ?_, ?_, ?_⟩
  · intro v hv _
    simp only
    rw [if_neg hv]
  · intro c x hx
    simp only
    rw [if_neg]
    · exact hx
    · intro hc
      rw [← hc] at hI
      cases hI
  · intro a
    simp only
    rw [if_neg]
    intro hc
    rw [← hc] at hI
    cases hI

@[simp] theorem mkNode_quiets (T : Nat → Prop) (I : Value) (k : PSSNodeType)
    (ops : List (Option Nat)) (o l : Offset) : Quiets T I (mkNode k ops o l) := by
  unfold mkNode
  simp

@[simp] theorem mkOpNode_quiets (T : Nat → Prop) (I : Value) (k : PSSNodeType)
    (ops : List (Option Nat)) : Quiets T I (mkOpNode k ops) := by
  unfold mkOpNode
  simp

@[simp] theorem mkConstant_quiets (T : Nat → Prop) (I : Value) (t : Nat) (o : Offset) :
    Quiets T I (mkConstant t o) := by
  unfold mkConstant
  simp

@[simp] theorem singlePointer_quiets (T : Nat → Prop) (I : Value) (n : Nat) (msg : String) :
    Quiets T I (singlePointer n msg) := by
  unfold singlePointer
  repeat' first
    | (simp; done)
    | apply Quiets.bind_quiets
    | intro _
    | split
    | dsimp only

@[simp] theorem callOperand_quiets (T : Nat → Prop) (I : Value) (args : List Value)
    (cv : Value) (k : Nat) : Quiets T I (callOperand args cv k) := by
  unfold callOperand
  repeat' first
    | (simp; done)
    | apply Quiets.bind_quiets
    | intro _
    | split
    | dsimp only

@[simp] theorem getArgOperand_quiets (T : Nat → Prop) (I : Value) (args : List Value)
    (k : Nat) : Quiets T I (getArgOperand args k) := by
  unfold getArgOperand
  repeat' first
    | (simp; done)
    | apply Quiets.bind_quiets
    | intro _
    | split
    | dsimp only

/-! ## Operands: what `getOperand` does to the value map -/

theorem Quiet.of_eq (T : Nat → Prop) (I : Value) {s s' : LLVMPSSBuilder} (h : s = s') :
    Quiet T I s s' := by
  subst h
  exact Quiet.rfl_quiet _ _ _

theorem handleConstantBitCast_quiet {getOp : Constant → M Nat} {CE : Constant}
    {lossless : Bool} {p : Pointer} {s s' : LLVMPSSBuilder}
    (h : handleConstantBitCast getOp CE lossless s = .ok (p, s')) :
    ∃ c k, c.depth < CE.depth ∧ getOp c s = .ok (k, s') := by
  unfold handleConstantBitCast at h
  split at h
  · rw [M.fail_ok] at h
    exact h.elim
  · split at h
    · rw [M.fail_ok] at h
      exact h.elim
    · rename_i hne
      simp only [M.bind_ok] at h
      obtain ⟨op, s1, h1, h2⟩ := h
      obtain ⟨rfl, -⟩ := singlePointer_ok h2
      refine ⟨_, op, ?_, h1⟩
      cases CE with
      | bitCast c ty l =>
        have := Constant.depth_stripPointerCasts c
        unfold Constant.stripPointerCasts at hne ⊢
        split
        · simp only [Constant.depth]
          omega
        · rename_i hty
          rw [if_neg hty] at hne
          exact absurd rfl hne
      | gep c acc z ib =>
        have := Constant.depth_stripPointerCasts c
        unfold Constant.stripPointerCasts at hne ⊢
        split
        · simp only [Constant.depth]
          omega
        · rename_i hz
          rw [if_neg hz] at hne
          exact absurd rfl hne
      | _ =>
        unfold Constant.stripPointerCasts at hne
        exact absurd rfl hne

theorem handleConstantGep_quiet {m : Module} {getOp : Constant → M Nat} {op : Constant}
    {acc : Option Nat} {p : Pointer} {s s' : LLVMPSSBuilder}
    (h : handleConstantGep m getOp op acc s = .ok (p, s')) :
    ∃ k, getOp op s = .ok (k, s') := by
  unfold handleConstantGep at h
  simp only [M.bind_ok] at h
  obtain ⟨opNode, s1, h1, pointer, s2, h2, h3⟩ := h
  obtain ⟨rfl, -⟩ := singlePointer_ok h2
  have hs : s1 = s' := by
    split at h3
    · split at h3 <;> exact ((M.pure_ok _ _ _ _).mp h3).2
    · exact ((M.pure_ok _ _ _ _).mp h3).2
  subst hs
  exact ⟨opNode, h1⟩

/-- `getConstantExprPointer` changes the state through at most one call of `getOperand`,
for a constant nested less deeply. -/
theorem getConstantExprPointer_quiet {m : Module} {getOp : Constant → M Nat} {CE : Constant}
    {p : Pointer} {s s' : LLVMPSSBuilder}
    (h : getConstantExprPointer m getOp CE s = .ok (p, s')) :
    s = s' ∨ ∃ c k, c.depth < CE.depth ∧ getOp c s = .ok (k, s') := by
  unfold getConstantExprPointer at h
  split at h
  · obtain ⟨k, hk⟩ := handleConstantGep_quiet h
    exact Or.inr ⟨_, k, by simp only [Constant.depth]; omega, hk⟩
  · exact Or.inr (handleConstantBitCast_quiet h)
  · obtain ⟨-, rfl⟩ := (M.pure_ok _ _ _ _).mp h
    exact Or.inl rfl
  · rw [M.fail_ok] at h
    exact h.elim

theorem OperandStep.rfl_step (d : Nat) (s : LLVMPSSBuilder) : OperandStep d s s :=
  ⟨fun _ _ => Quiet.rfl_quiet _ _ _, fun _ _ => rfl⟩

theorem OperandStep.trans_step {d : Nat} {s1 s2 s3 : LLVMPSSBuilder}
    (h12 : OperandStep d s1 s2) (h23 : OperandStep d s2 s3) : OperandStep d s1 s3 :=
  ⟨fun T I => (h12.1 T I).trans_quiet (h23.1 T I), fun c hc => by rw [h23.2 c hc, h12.2 c hc]⟩

theorem OperandStep.mono_step {d d' : Nat} {s s' : LLVMPSSBuilder} (h : OperandStep d s s')
    (hd : d ≤ d') : OperandStep d' s s' :=
  ⟨h.1, fun c hc => h.2 c (lt_of_le_of_lt hd hc)⟩

/-- Making a node and registering it for a constant that has none. -/
theorem OperandStep.register {c : Constant} {n : Nat} {u : Unit} {s s1 s2 : LLVMPSSBuilder}
    (hnull : ∀ a, c ≠ .nullPtr a) (hun : s.nodes_map (.const c) = none)
    (h1 : (∀ T I, Quiet T I s s1) ∧ s1.nodes_map = s.nodes_map)
    (h2 : addNode (.const c) n s1 = .ok (u, s2)) :
    OperandStep c.depth s s2 ∧ s2.nodes_map (.const c) = some n := by
  obtain ⟨hq, hm⟩ := h1
  unfold addNode at h2
  rw [M.modify_ok] at h2
  subst h2
  refine ⟨⟨fun T I => ⟨(hq T I).size_le, (hq T I).ops_eq, ?_, ?_, ?_⟩, ?_⟩, ?_⟩
  · intro v _ hc
    simp only
    rw [if_neg, hm]
    intro hx
    rw [hx] at hc
    cases hc
  · intro c' x hx
    simp only
    split
    · rename_i heq
      cases heq
      rw [hun] at hx
      cases hx
    · rw [hm]
      exact hx
  · intro a
    simp only
    rw [if_neg, hm]
    intro hx
    cases hx
    exact hnull a rfl
  · intro c' hc'
    simp only
    rw [if_neg, hm]
    intro hx
    cases hx
    exact absurd hc' (lt_irrefl _)
  · simp

theorem mkConstant_map {t : Nat} {o : Offset} {n : Nat} {s s' : LLVMPSSBuilder}
    (h : mkConstant t o s = .ok (n, s')) :
    (∀ T I, Quiet T I s s') ∧ s'.nodes_map = s.nodes_map := by
  refine ⟨fun T I => (mkConstant_quiets T I t o).keeps _ _ _ h, ?_⟩
  unfold mkConstant at h
  rw [newNode_ok] at h
  obtain ⟨-, rfl⟩ := h
  rfl

theorem mkOpNode_map {k : PSSNodeType} {ops : List (Option Nat)} {n : Nat}
    {s s' : LLVMPSSBuilder} (h : mkOpNode k ops s = .ok (n, s')) :
    (∀ T I, Quiet T I s s') ∧ s'.nodes_map = s.nodes_map := by
  refine ⟨fun T I => (mkOpNode_quiets T I k ops).keeps _ _ _ h, ?_⟩
  obtain ⟨x, -, -, -, -, -, rfl⟩ := mkOpNode_ok _ _ _ _ _ h
  rfl

theorem createConstantExpr_quiet {m : Module} {getOp : Constant → M Nat} {CE : Constant}
    (hrec : ∀ c k t t', c.depth < CE.depth → getOp c t = .ok (k, t') →
      OperandStep c.depth t t')
    (hce : CE.isConstantExpr = true) {n : Nat} {s s' : LLVMPSSBuilder}
    (hun : s.nodes_map (.const CE) = none)
    (h : createConstantExpr m getOp CE s = .ok (n, s')) :
    OperandStep CE.depth s s' ∧ s'.nodes_map (.const CE) = some n := by
  unfold createConstantExpr at h
  simp only [M.bind_ok, M.pure_ok] at h
  obtain ⟨ptr, s1, h1, node, s2, h2, u, s3, h3, rfl, rfl⟩ := h
  have hnull : ∀ a, CE ≠ .nullPtr a := by
    intro a hx
    rw [hx] at hce
    cases hce
  have k1 : OperandStep CE.depth s s1 ∧ s1.nodes_map (.const CE) = none := by
    rcases getConstantExprPointer_quiet h1 with rfl | ⟨c, k, hc, hk⟩
    · exact ⟨OperandStep.rfl_step _ _, hun⟩
    · have := hrec c k s s1 hc hk
      exact ⟨this.mono_step (le_of_lt hc), by rw [this.2 CE hc]; exact hun⟩
  obtain ⟨g1, g2⟩ := OperandStep.register hnull k1.2 (mkConstant_map h2) h3
  exact ⟨k1.1.trans_step g1, g2⟩

theorem getConstant_quiet {m : Module} {getOp : Constant → M Nat} {val : Value}
    (hrec : ∀ c k t t', c.depth < val.depth → getOp c t = .ok (k, t') →
      OperandStep c.depth t t')
    {n : Nat} {s s' : LLVMPSSBuilder} (hun : s.nodes_map val = none)
    (h : getConstant m getOp val s = .ok (n, s')) :
    OperandStep val.depth s s' ∧
      ((s'.nodes_map val = some n) ∨
        (s' = s ∧ n = NULLPTR ∧ ∃ a, val = .const (.nullPtr a))) := by
  unfold getConstant at h
  split at h
  · obtain ⟨rfl, rfl⟩ := (M.pure_ok _ _ _ _).mp h
    exact ⟨OperandStep.rfl_step _ _, Or.inr ⟨rfl, rfl, _, rfl⟩⟩
  · simp only [M.bind_ok, M.pure_ok] at h
    obtain ⟨r, s1, h1, u, s2, h2, rfl, rfl⟩ := h
    obtain ⟨g1, g2⟩ := OperandStep.register (c := .func _) (fun a hx => by cases hx) hun
      (mkOpNode_map h1) h2
    exact ⟨g1, Or.inl g2⟩
  · split at h
    · rename_i hce
      obtain ⟨g1, g2⟩ := createConstantExpr_quiet hrec hce hun h
      exact ⟨g1, Or.inl g2⟩
    · rw [M.fail_ok] at h
      exact h.elim
  · rw [M.fail_ok] at h
    exact h.elim

theorem getOperandAux_quiet (m : Module) (fuel : Nat) :
    ∀ (val : Value) (n : Nat) (s s' : LLVMPSSBuilder),
      getOperandAux m fuel val s = .ok (n, s') →
      OperandStep val.depth s s' ∧ operandOf s' val = some n := by
  induction fuel with
  | zero =>
    intro val n s s' h
    unfold getOperandAux at h
    rw [M.fail_ok] at h
    exact h.elim
  | succ fuel ih =>
    intro val n s s' h
    unfold getOperandAux at h
    simp only [M.bind_ok, getNode_ok, getNodeData_ok] at h
    obtain ⟨r, s0, ⟨hr, rfl⟩, op, s1, h1, x, s2, ⟨rfl, rfl⟩, op2, s3, h3, h4⟩ := h
    have h13 : s1 = s3 := by
      split at h3 <;> exact ((M.pure_ok _ _ _ _).mp h3).2
    subst h13
    cases op2 with
    | none =>
      rw [M.fail_ok] at h4
      exact h4.elim
    | some o =>
      obtain ⟨rfl, rfl⟩ := (M.pure_ok _ _ _ _).mp h4
      have hres : (if (s1.node op).kind = .CALL ∨ (s1.node op).kind = .CALL_FUNCPTR
          then (s1.node op).pairedNode else some op) = some o := by
        split at h3
        · rename_i hk
          rw [if_pos hk]
          exact ((M.pure_ok _ _ _ _).mp h3).1
        · rename_i hk
          rw [if_neg hk]
          exact ((M.pure_ok _ _ _ _).mp h3).1
      cases r with
      | some x =>
        obtain ⟨rfl, rfl⟩ := (M.pure_ok _ _ _ _).mp h1
        refine ⟨OperandStep.rfl_step _ _, ?_⟩
        unfold operandOf
        simp only [hr]
        exact hres
      | none =>
        simp only at h1
        obtain ⟨g1, g2⟩ := getConstant_quiet
          (fun c k t t' _ hk => (ih (.const c) k t t' hk).1) hr h1
        refine ⟨g1, ?_⟩
        unfold operandOf
        rcases g2 with g2 | ⟨rfl, rfl, a, rfl⟩
        · simp only [g2]
          exact hres
        · simp only [hr]
          exact hres

theorem getOperand_quiet {m : Module} {val : Value} {n : Nat} {s s' : LLVMPSSBuilder}
    (h : getOperand m val s = .ok (n, s')) :
    OperandStep val.depth s s' ∧ operandOf s' val = some n :=
  getOperandAux_quiet m _ val n s s' h

@[simp] theorem getOperand_quiets (m : Module) (T : Nat → Prop) (I val : Value) :
    Quiets T I (getOperand m val) :=
  ⟨fun _ _ _ h => (getOperand_quiet h).1.1 T I⟩

set_option linter.unusedTactic false
set_option linter.unreachableTactic false

@[simp] theorem Value.isConstant_inst (F b i : Nat) : (Value.inst F b i).isConstant = false :=
  rfl

@[simp] theorem Value.isConstant_arg (F i : Nat) : (Value.arg F i).isConstant = false :=
  rfl

@[simp] theorem createDynamicAlloc_quiets (T : Nat → Prop) {I : Value} (args : List Value) (cv : Value) (type : MemAllocationFuncs) :
    Quiets T I (createDynamicAlloc args cv type) := by
  unfold createDynamicAlloc
  repeat' first
    | (simp [*]; done)
    | apply Quiets.bind_quiets
    | intro _
    | split
    | dsimp only

@[simp] theorem createDynamicMemAlloc_quiets (T : Nat → Prop) {I : Value} (hI : I.isConstant = false) (args : List Value) (cv : Value) (type : MemAllocationFuncs) :
    Quiets T I (createDynamicMemAlloc I args cv type) := by
  unfold createDynamicMemAlloc
  repeat' first
    | (simp [*]; done)
    | exact addNode_quiets _ hI _
    | apply Quiets.bind_quiets
    | intro _
    | split
    | dsimp only

@[simp] theorem createUnknownCall_quiets (T : Nat → Prop) {I : Value} (hI : I.isConstant = false) (ty : Ty) :
    Quiets T I (createUnknownCall I ty) := by
  unfold createUnknownCall
  repeat' first
    | (simp [*]; done)
    | exact addNode_quiets _ hI _
    | apply Quiets.bind_quiets
    | intro _
    | split
    | dsimp only

@[simp] theorem createMemTransfer_quiets (T : Nat → Prop) {I : Value} (hI : I.isConstant = false) (m : Module) (id : Option Intrinsic) (args : List Value) (cv : Value) :
    Quiets T I (createMemTransfer m I id args cv) := by
  unfold createMemTransfer
  repeat' first
    | (simp [*]; done)
    | exact addNode_quiets _ hI _
    | apply Quiets.bind_quiets
    | intro _
    | split
    | dsimp only

@[simp] theorem createVarArg_quiets (T : Nat → Prop) {I : Value} (hI : I.isConstant = false) (m : Module) (F : Nat) (args : List Value) (cv : Value) :
    Quiets T I (createVarArg m I F args cv) := by
  unfold createVarArg
  repeat' first
    | (simp [*]; done)
    | exact addNode_quiets _ hI _
    | apply Quiets.bind_quiets
    | intro _
    | split
    | dsimp only

@[simp] theorem createAlloc_quiets (T : Nat → Prop) {I : Value} (hI : I.isConstant = false) (m : Module) (ty : Option Ty) :
    Quiets T I (createAlloc m I ty) := by
  unfold createAlloc
  repeat' first
    | (simp [*]; done)
    | exact addNode_quiets _ hI _
    | apply Quiets.bind_quiets
    | intro _
    | split
    | dsimp only

@[simp] theorem createStore_quiets (T : Nat → Prop) {I : Value} (hI : I.isConstant = false) (m : Module) (v p : Value) :
    Quiets T I (createStore m I v p) := by
  unfold createStore
  repeat' first
    | (simp [*]; done)
    | exact addNode_quiets _ hI _
    | apply Quiets.bind_quiets
    | intro _
    | split
    | dsimp only

@[simp] theorem createLoad_quiets (T : Nat → Prop) {I : Value} (hI : I.isConstant = false) (m : Module) (p : Value) :
    Quiets T I (createLoad m I p) := by
  unfold createLoad
  repeat' first
    | (simp [*]; done)
    | exact addNode_quiets _ hI _
    | apply Quiets.bind_quiets
    | intro _
    | split
    | dsimp only

@[simp] theorem createGEP_quiets (T : Nat → Prop) {I : Value} (hI : I.isConstant = false) (m : Module) (p : Value) (acc : Option Nat) :
    Quiets T I (createGEP m I p acc) := by
  unfold createGEP
  repeat' first
    | (simp [*]; done)
    | exact addNode_quiets _ hI _
    | apply Quiets.bind_quiets
    | intro _
    | split
    | dsimp only

@[simp] theorem createSelect_quiets (T : Nat → Prop) {I : Value} (hI : I.isConstant = false) (m : Module) (ty : Ty) (a b : Value) :
    Quiets T I (createSelect m I ty a b) := by
  unfold createSelect
  repeat' first
    | (simp [*]; done)
    | exact addNode_quiets _ hI _
    | apply Quiets.bind_quiets
    | intro _
    | split
    | dsimp only

@[simp] theorem createPHI_quiets (T : Nat → Prop) {I : Value} (hI : I.isConstant = false) (ty : Ty) :
    Quiets T I (createPHI I ty) := by
  unfold createPHI
  repeat' first
    | (simp [*]; done)
    | exact addNode_quiets _ hI _
    | apply Quiets.bind_quiets
    | intro _
    | split
    | dsimp only

@[simp] theorem createCast_quiets (T : Nat → Prop) {I : Value} (hI : I.isConstant = false) (m : Module) (p : Value) :
    Quiets T I (createCast m I p) := by
  unfold createCast
  repeat' first
    | (simp [*]; done)
    | exact addNode_quiets _ hI _
    | apply Quiets.bind_quiets
    | intro _
    | split
    | dsimp only

@[simp] theorem createPtrToInt_quiets (T : Nat → Prop) {I : Value} (hI : I.isConstant = false) (m : Module) (p : Value) :
    Quiets T I (createPtrToInt m I p) := by
  unfold createPtrToInt
  repeat' first
    | (simp [*]; done)
    | exact addNode_quiets _ hI _
    | apply Quiets.bind_quiets
    | intro _
    | split
    | dsimp only

@[simp] theorem createIntToPtr_quiets (T : Nat → Prop) {I : Value} (hI : I.isConstant = false) (m : Module) (p : Value) :
    Quiets T I (createIntToPtr m I p) := by
  unfold createIntToPtr
  repeat' first
    | (simp [*]; done)
    | exact addNode_quiets _ hI _
    | apply Quiets.bind_quiets
    | intro _
    | split
    | dsimp only

@[simp] theorem createReturn_quiets (T : Nat → Prop) {I : Value} (hI : I.isConstant = false) (m : Module) (r : Option Value) :
    Quiets T I (createReturn m I r) := by
  unfold createReturn
  repeat' first
    | (simp [*]; done)
    | exact addNode_quiets _ hI _
    | apply Quiets.bind_quiets
    | intro _
    | split
    | dsimp only

@[simp] theorem createIntrinsic_quiets (T : Nat → Prop) {I : Value} (hI : I.isConstant = false) (m : Module) (F : Nat) (id : Option Intrinsic) (args : List Value) (cv : Value) :
    Quiets T I (createIntrinsic m I F id args cv) := by
  unfold createIntrinsic
  repeat' first
    | (simp [*]; done)
    | exact addNode_quiets _ hI _
    | apply Quiets.bind_quiets
    | intro _
    | split
    | dsimp only

@[simp] theorem lowerInst_quiets (T : Nat → Prop) (m : Module) (F b i : Nat) (I : Inst)
    (node : Option Nat) : Quiets T (.inst F b i) (lowerInst m F b i I node) := by
  unfold lowerInst
  repeat' first
    | (simp [*]; done)
    | apply Quiets.bind_quiets
    | intro _
    | split
    | dsimp only

@[simp] theorem buildPSSBlockLink_quiets (T : Nat → Prop) (I : Value)
    (rf p n : Option Nat) : Quiets T I (buildPSSBlockLink rf p n) := by
  unfold buildPSSBlockLink
  repeat' first
    | (simp [*]; done)
    | apply Quiets.bind_quiets
    | intro _
    | split
    | dsimp only

@[simp] theorem addReturnEdges_quiets (T : Nat → Prop) (I : Value) (ret : Nat)
    (l : List Nat) : Quiets T I (addReturnEdges ret l) := by
  induction l with
  | nil =>
    unfold addReturnEdges
    simp
  | cons r rest ih =>
    unfold addReturnEdges
    repeat' first
      | (simp [*]; done)
      | apply ih
      | apply Quiets.bind_quiets
      | intro _
      | split
      | dsimp only

theorem blockAddSuccessorsLoop_quiets (T : Nat → Prop) (I : Value)
    {recurse : Nat → List Nat → M (Nat × List Nat)}
    (hrec : ∀ S found, Quiets T I (recurse S found)) (F p : Nat) (l : List Nat)
    (found : List Nat) (num : Nat) :
    Quiets T I (blockAddSuccessorsLoop recurse F p l found num) := by
  induction l generalizing found num with
  | nil =>
    unfold blockAddSuccessorsLoop
    simp
  | cons S rest ih =>
    unfold blockAddSuccessorsLoop
    repeat' first
      | (simp [*]; done)
      | apply ih
      | apply Quiets.bind_quiets
      | intro _
      | split
      | dsimp only

@[simp] theorem blockAddSuccessors_quiets (T : Nat → Prop) (I : Value) (m : Module)
    (F p fuel block : Nat) (found : List Nat) :
    Quiets T I (blockAddSuccessors m F p fuel block found) := by
  induction fuel generalizing block found with
  | zero =>
    unfold blockAddSuccessors
    simp
  | succ fuel ih =>
    unfold blockAddSuccessors
    exact blockAddSuccessorsLoop_quiets T I (fun S fd => ih S fd) F p _ _ _

@[simp] theorem stitchBlocksLoop_quiets (T : Nat → Prop) (I : Value) (m : Module) (F : Nat)
    (l : List BasicBlock) (b : Nat) (rets : List Nat) :
    Quiets T I (stitchBlocksLoop m F l b rets) := by
  induction l generalizing b rets with
  | nil =>
    unfold stitchBlocksLoop
    simp
  | cons B rest ih =>
    unfold stitchBlocksLoop
    repeat' first
      | (simp [*]; done)
      | apply ih
      | apply Quiets.bind_quiets
      | intro _
      | split
      | dsimp only

/-! ## Steps that only add to the graph -/

set_option linter.unusedTactic false
set_option linter.unreachableTactic false

theorem Grow.rfl_grow (s : LLVMPSSBuilder) : Grow s s :=
  ⟨le_refl _, fun _ _ => rfl, fun _ _ => rfl, fun _ _ => List.prefix_refl _, rfl, rfl, fun h => h⟩

theorem Grow.trans_grow {s1 s2 s3 : LLVMPSSBuilder} (h12 : Grow s1 s2) (h23 : Grow s2 s3) :
    Grow s1 s3 := by
  refine ⟨le_trans h12.size_le h23.size_le, ?_, ?_, ?_, ?_, ?_, ?_⟩
  · intro n hn
    rw [h23.kind_eq n (lt_of_lt_of_le hn h12.size_le), h12.kind_eq n hn]
  · intro n hn
    rw [h23.paired_eq n (lt_of_lt_of_le hn h12.size_le), h12.paired_eq n hn]
  · intro n hn
    exact (h12.succ_prefix n hn).trans (h23.succ_prefix n (lt_of_lt_of_le hn h12.size_le))
  · rw [h23.subg_eq, h12.subg_eq]
  · rw [h23.blocks_eq, h12.blocks_eq]
  · intro h
    exact h23.map_lt (h12.map_lt h)

theorem Inert.to_grow {s s' : LLVMPSSBuilder} (h : Inert s s') : Grow s s' :=
  ⟨h.size_le, h.kind_eq, h.paired_eq, h.succ_prefix, h.subg_eq, h.blocks_eq, h.map_lt⟩

theorem Grows.bind_grows {α β : Type} {x : M α} {f : α → M β}
    (hx : Grows x) (hf : ∀ a, Grows (f a)) : Grows (x >>= f) := by
  refine ⟨fun s b s' h => ?_⟩
  obtain ⟨a, s1, h1, h2⟩ := (M.bind_ok _ _ _ _ _).mp h
  exact (hx.keeps s a s1 h1).trans_grow ((hf a).keeps s1 b s' h2)

@[simp] theorem Grows.pure_grows {α : Type} (a : α) : Grows (pure a : M α) := by
  refine ⟨fun s b s' h => ?_⟩
  obtain ⟨-, rfl⟩ := (M.pure_ok _ _ _ _).mp h
  exact Grow.rfl_grow _

@[simp] theorem Grows.fail_grows {α : Type} (e : Error) : Grows (M.fail e : M α) := by
  refine ⟨fun s b s' h => ?_⟩
  cases h

@[simp] theorem Grows.get_grows : Grows M.get := by
  refine ⟨fun s b s' h => ?_⟩
  obtain ⟨-, rfl⟩ := (M.get_ok _ _ _).mp h
  exact Grow.rfl_grow _

@[simp] theorem Grows.assert_grows (c : Bool) (msg : String) : Grows (M.assert c msg) := by
  unfold M.assert
  split <;> simp

/-- Changing attributes of a node other than kind and pairing, and adding successors. -/
theorem Grow.update_grow (s : LLVMPSSBuilder) (n : Nat) (f : PSSNode → PSSNode)
    (hk : ∀ x, (f x).kind = x.kind) (hp : ∀ x, (f x).pairedNode = x.pairedNode)
    (hs : ∀ x, x.successors <+: (f x).successors) : Grow s (s.update n f) := by
  refine ⟨le_refl _, ?_, ?_, ?_, rfl, rfl, fun h => h⟩
  · intro i _
    rw [LLVMPSSBuilder.update_node]
    split
    · subst_vars
      exact hk _
    · rfl
  · intro i _
    rw [LLVMPSSBuilder.update_node]
    split
    · subst_vars
      exact hp _
    · rfl
  · intro i _
    rw [LLVMPSSBuilder.update_node]
    split
    · subst_vars
      exact hs _
    · exact List.prefix_refl _

@[simp] theorem addSuccessor_grows (n t : Nat) : Grows (addSuccessor n t) := by
  refine ⟨fun s b s' h => ?_⟩
  rw [addSuccessor_ok] at h
  subst h
  exact Grow.update_grow s n _ (fun _ => rfl) (fun _ => rfl) (fun _ => List.prefix_append _ _)

@[simp] theorem buildPSSBlockLink_grows (rf p n : Option Nat) :
    Grows (buildPSSBlockLink rf p n) := by
  unfold buildPSSBlockLink
  repeat' first
    | (simp [*]; done)
    | apply Grows.bind_grows
    | intro _
    | split
    | dsimp only

@[simp] theorem addReturnEdges_grows (ret : Nat) (l : List Nat) :
    Grows (addReturnEdges ret l) := by
  induction l with
  | nil =>
    unfold addReturnEdges
    simp
  | cons r rest ih =>
    unfold addReturnEdges
    repeat' first
      | (simp [*]; done)
      | apply ih
      | apply Grows.bind_grows
      | intro _
      | split
      | dsimp only

theorem blockAddSuccessorsLoop_grows {recurse : Nat → List Nat → M (Nat × List Nat)}
    (hrec : ∀ S found, Grows (recurse S found)) (F p : Nat) (l : List Nat)
    (found : List Nat) (num : Nat) :
    Grows (blockAddSuccessorsLoop recurse F p l found num) := by
  induction l generalizing found num with
  | nil =>
    unfold blockAddSuccessorsLoop
    simp
  | cons S rest ih =>
    unfold blockAddSuccessorsLoop
    repeat' first
      | (simp [*]; done)
      | apply ih
      | apply Grows.bind_grows
      | intro _
      | split
      | dsimp only

@[simp] theorem blockAddSuccessors_grows (m : Module) (F p fuel block : Nat)
    (found : List Nat) : Grows (blockAddSuccessors m F p fuel block found) := by
  induction fuel generalizing block found with
  | zero =>
    unfold blockAddSuccessors
    simp
  | succ fuel ih =>
    unfold blockAddSuccessors
    exact blockAddSuccessorsLoop_grows (fun S fd => ih S fd) F p _ _ _

@[simp] theorem stitchBlocksLoop_grows (m : Module) (F : Nat) (l : List BasicBlock) (b : Nat)
    (rets : List Nat) : Grows (stitchBlocksLoop m F l b rets) := by
  induction l generalizing b rets with
  | nil =>
    unfold stitchBlocksLoop
    simp
  | cons B rest ih =>
    unfold stitchBlocksLoop
    repeat' first
      | (simp [*]; done)
      | apply ih
      | apply Grows.bind_grows
      | intro _
      | split
      | dsimp only

/-! ## The global phase maps constants only -/

theorem GFrame.rfl_gframe (s : LLVMPSSBuilder) : GFrame s s :=
  ⟨fun _ _ => rfl, fun _ => rfl⟩

theorem GFrame.trans_gframe {s1 s2 s3 : LLVMPSSBuilder} (h12 : GFrame s1 s2)
    (h23 : GFrame s2 s3) : GFrame s1 s3 := by
  refine ⟨?_, ?_⟩
  · intro v hv
    rw [h23.map_eq v hv, h12.map_eq v hv]
  · intro a
    rw [h23.null_eq, h12.null_eq]

theorem Quiet.to_gframe {T : Nat → Prop} {s s' : LLVMPSSBuilder}
    (h : Quiet T (.const (.nullPtr 0)) s s') : GFrame s s' := by
  refine ⟨?_, h.null_eq⟩
  intro v hv
  refine h.map_eq v ?_ hv
  intro hc
  rw [hc] at hv
  cases hv

theorem GFrames.bind_gframes {α β : Type} {x : M α} {f : α → M β}
    (hx : GFrames x) (hf : ∀ a, GFrames (f a)) : GFrames (x >>= f) := by
  refine ⟨fun s b s' h => ?_⟩
  obtain ⟨a, s1, h1, h2⟩ := (M.bind_ok _ _ _ _ _).mp h
  exact (hx.keeps s a s1 h1).trans_gframe ((hf a).keeps s1 b s' h2)

theorem GFrames.of_quiets {α : Type} {x : M α}
    (h : Quiets (fun _ => False) (.const (.nullPtr 0)) x) : GFrames x :=
  ⟨fun s a s' hx => (h.keeps s a s' hx).to_gframe⟩

@[simp] theorem GFrames.pure_gframes {α : Type} (a : α) : GFrames (pure a : M α) :=
  GFrames.of_quiets (by simp)

@[simp] theorem GFrames.fail_gframes {α : Type} (e : Error) : GFrames (M.fail e : M α) :=
  GFrames.of_quiets (by simp)

@[simp] theorem GFrames.assert_gframes (c : Bool) (msg : String) :
    GFrames (M.assert c msg) :=
  GFrames.of_quiets (by simp)

@[simp] theorem getNode_gframes (v : Value) : GFrames (getNode v) :=
  GFrames.of_quiets (by simp)

@[simp] theorem getOperand_gframes (m : Module) (v : Value) : GFrames (getOperand m v) :=
  GFrames.of_quiets (by simp)

@[simp] theorem mkConstant_gframes (t : Nat) (o : Offset) : GFrames (mkConstant t o) :=
  GFrames.of_quiets (by simp)

@[simp] theorem mkOpNode_gframes (k : PSSNodeType) (ops : List (Option Nat)) :
    GFrames (mkOpNode k ops) :=
  GFrames.of_quiets (by simp)

@[simp] theorem singlePointer_gframes (n : Nat) (msg : String) :
    GFrames (singlePointer n msg) :=
  GFrames.of_quiets (by simp)

@[simp] theorem addSuccessor_gframes (n t : Nat) : GFrames (addSuccessor n t) :=
  GFrames.of_quiets (by simp)

@[simp] theorem setZeroInitialized_gframes (n : Nat) : GFrames (setZeroInitialized n) :=
  GFrames.of_quiets (by simp)

@[simp] theorem insertAfter_gframes (n t : Nat) : GFrames (insertAfter n t) := by
  refine ⟨fun s b s' h => ?_⟩
  unfold insertAfter at h
  rw [M.modify_ok] at h
  subst h
  exact ⟨fun _ _ => rfl, fun _ => rfl⟩

@[simp] theorem addNode_global_gframes (g n : Nat) :
    GFrames (addNode (.const (.global g)) n) := by
  refine ⟨fun s b s' h => ?_⟩
  unfold addNode at h
  rw [M.modify_ok] at h
  subst h
  refine ⟨?_, ?_⟩
  · intro v hv
    simp only
    rw [if_neg]
    intro hc
    rw [hc] at hv
    cases hv
  · intro a
    simp only
    rw [if_neg]
    intro hc
    cases hc

@[simp] theorem handleAggregateInitializer_gframes (m : Module) (node : Nat)
    (l : List Constant) (off z : Nat) :
    GFrames (handleAggregateInitializer m node l off z) := by
  induction l generalizing off z with
  | nil =>
    unfold handleAggregateInitializer
    simp
  | cons c rest ih =>
    unfold handleAggregateInitializer
    repeat' first
      | (simp [*]; done)
      | apply ih
      | apply GFrames.bind_gframes
      | intro _
      | split
      | dsimp only

@[simp] theorem handleGlobalVariableInitializer_gframes (m : Module) (C : Initializer)
    (node : Nat) : GFrames (handleGlobalVariableInitializer m C node) := by
  unfold handleGlobalVariableInitializer
  repeat' first
    | (simp [*]; done)
    | apply GFrames.bind_gframes
    | intro _
    | split
    | dsimp only

@[simp] theorem buildGlobalsAlloc_gframes (l : List GlobalVariable) (g : Nat)
    (prev first : Option Nat) : GFrames (buildGlobalsAlloc l g prev first) := by
  induction l generalizing g prev first with
  | nil =>
    unfold buildGlobalsAlloc
    simp
  | cons G rest ih =>
    unfold buildGlobalsAlloc
    repeat' first
      | (simp [*]; done)
      | apply ih
      | apply GFrames.bind_gframes
      | intro _
      | split
      | dsimp only

@[simp] theorem buildGlobalsInit_gframes (m : Module) (l : List GlobalVariable) (g : Nat)
    (cur : Option Nat) : GFrames (buildGlobalsInit m l g cur) := by
  induction l generalizing g cur with
  | nil =>
    unfold buildGlobalsInit
    simp
  | cons G rest ih =>
    unfold buildGlobalsInit
    repeat' first
      | (simp [*]; done)
      | apply ih
      | apply GFrames.bind_gframes
      | intro _
      | split
      | dsimp only

@[simp] theorem buildGlobals_gframes (m : Module) : GFrames (buildGlobals m) := by
  unfold buildGlobals
  repeat' first
    | (simp [*]; done)
    | apply GFrames.bind_gframes
    | intro _
    | split
    | dsimp only

/-! ## The progress invariant along quiet steps -/

theorem operandOf_stable {s s' : LLVMPSSBuilder} {v : Value} {op : Nat}
    (hml : ∀ v x, s.nodes_map v = some x → x < s.size) (h0 : NULLPTR < s.size)
    (hk : ∀ n, n < s.size → (s'.node n).kind = (s.node n).kind)
    (hp : ∀ n, n < s.size → (s'.node n).pairedNode = (s.node n).pairedNode)
    (hmono : ∀ x, s.nodes_map v = some x → s'.nodes_map v = some x)
    (hnull : ∀ a, v = .const (.nullPtr a) → s'.nodes_map v = s.nodes_map v)
    (h : operandOf s v = some op) : operandOf s' v = some op := by
  unfold operandOf at h ⊢
  cases hm : s.nodes_map v with
  | some x =>
    rw [hm] at h
    rw [hmono x hm]
    simp only at h ⊢
    rw [hk x (hml v x hm), hp x (hml v x hm)]
    exact h
  | none =>
    rw [hm] at h
    cases v with
    | const c =>
      cases c with
      | nullPtr a =>
        rw [hnull a rfl, hm]
        simp only at h ⊢
        rw [hk _ h0, hp _ h0]
        exact h
      | _ => simp at h
    | _ => simp at h

theorem Quiet.operandOf_keep {T : Nat → Prop} {I : Value} {s s' : LLVMPSSBuilder}
    (hq : Quiet T I s s') (hg : Grow s s')
    (hml : ∀ v x, s.nodes_map v = some x → x < s.size) (h0 : NULLPTR < s.size)
    (hI : s.nodes_map I = none ∨ I.isConstant = true) {v : Value} {op : Nat}
    (h : operandOf s v = some op) : operandOf s' v = some op := by
  refine operandOf_stable hml h0 hg.kind_eq hg.paired_eq ?_ ?_ h
  · intro x hx
    by_cases hc : v.isConstant = true
    · cases v with
      | const c => exact hq.const_mono c x hx
      | _ => cases hc
    · have hc' : v.isConstant = false := by simpa using hc
      by_cases hv : v = I
      · subst hv
        rcases hI with hI | hI
        · rw [hI] at hx
          cases hx
        · exact absurd hI hc
      · rw [hq.map_eq v hv hc']
        exact hx
  · intro a hv
    subst hv
    exact hq.null_eq a

theorem Quiet.operandOf_map {T : Nat → Prop} {I : Value} {s s' : LLVMPSSBuilder}
    (hq : Quiet T I s s') (hg : Grow s s')
    (hml : ∀ v x, s.nodes_map v = some x → x < s.size) (h0 : NULLPTR < s.size)
    (hI : s.nodes_map I = none ∨ I.isConstant = true) {inc : List Value}
    (hall : ∀ v, v ∈ inc → operandOf s v ≠ none) :
    inc.map (operandOf s') = inc.map (operandOf s) ∧ ∀ v, v ∈ inc → operandOf s' v ≠ none := by
  have key : ∀ v, v ∈ inc → operandOf s' v = operandOf s v := by
    intro v hv
    cases ho : operandOf s v with
    | none => exact absurd ho (hall v hv)
    | some op => exact hq.operandOf_keep hg hml h0 hI ho
  refine ⟨List.map_congr_left key, ?_⟩
  intro v hv
  rw [key v hv]
  exact hall v hv

theorem ArgNode.of_subg_eq {m : Module} {s s' : LLVMPSSBuilder} {n : Nat}
    (h : s'.subgraphs_map = s.subgraphs_map) : ArgNode m s' n ↔ ArgNode m s n := by
  unfold ArgNode
  rw [h]

theorem PW.args_grow {m : Module} {Pend : Nat → Option ((Nat × Nat) × (Nat × Nat))}
    {s s' : LLVMPSSBuilder} (hpw : PW m Pend s) (hg : Grow s s') :
    ∀ G r, (s'.subgraphs_map G).root = some r →
      r + 2 + argCount m G ≤ s'.size ∧
      (s'.subgraphs_map G).args.1 = (if argCount m G = 0 then none else some (r + 2)) ∧
      ∀ j, j + 1 < argCount m G → [r + 3 + j] <+: (s'.node (r + 2 + j)).successors := by
  intro G r hr
  rw [hg.subg_eq] at hr ⊢
  obtain ⟨h1, h2, h3⟩ := hpw.args G r hr
  refine ⟨le_trans h1 hg.size_le, h2, ?_⟩
  intro j hj
  exact (h3 j hj).trans (hg.succ_prefix _ (by omega))

/-- A step that maps no instruction and changes the operands of argument nodes and of
nodes that are no `PHI` only keeps the progress invariant. -/
theorem PW.step_same {m : Module} {Pend : Nat → Option ((Nat × Nat) × (Nat × Nat))}
    {T : Nat → Prop} {s s' : LLVMPSSBuilder} (hpw : PW m Pend s) (hg : Grow s s')
    (hq : Quiet T (.const (.nullPtr 0)) s s')
    (hT : ∀ n, T n → ArgNode m s n ∨ (s.node n).kind ≠ .PHI) : PW m Pend s' := by
  have hmap : ∀ v : Value, v.isConstant = false → s'.nodes_map v = s.nodes_map v := by
    intro v hv
    refine hq.map_eq v ?_ hv
    intro hc
    rw [hc] at hv
    cases hv
  have hmapi : ∀ F b i, s'.nodes_map (.inst F b i) = s.nodes_map (.inst F b i) :=
    fun F b i => hmap (.inst F b i) rfl
  refine ⟨lt_of_lt_of_le hpw.null_lt hg.size_le, hg.map_lt hpw.map_lt, ?_, ?_, ?_, ?_, ?_,
    hpw.args_grow hg⟩
  · intro a
    rw [hq.null_eq]
    exact hpw.null_none a
  · intro F hF
    rw [hg.subg_eq] at hF
    refine ⟨(hpw.unreg F hF).1, ?_⟩
    intro v hv
    rw [hmap v (by cases v <;> first | rfl | cases hv)]
    exact (hpw.unreg F hF).2 v hv
  · intro F p q hp
    rw [hg.subg_eq]
    refine ⟨(hpw.pending F p q hp).1, ?_⟩
    intro b i hbi
    rw [hmapi]
    exact (hpw.pending F p q hp).2 b i hbi
  · intro F b i ty inc hF hI hty hlow
    rw [hg.subg_eq] at hF
    obtain ⟨n, hn, hk, ha, he, hr⟩ := hpw.phi F b i ty inc hF hI hty hlow
    have hlt : n < s.size := hpw.map_lt _ _ hn
    have hops : (s'.node n).operands = (s.node n).operands := by
      refine hq.ops_eq n hlt ?_
      intro ht
      rcases hT n ht with h | h
      · exact ha h
      · exact h hk
    refine ⟨n, ?_, ?_, ?_, ?_, ?_⟩
    · rw [hmapi]
      exact hn
    · rw [hg.kind_eq n hlt]
      exact hk
    · rw [ArgNode.of_subg_eq hg.subg_eq]
      exact ha
    · intro h
      rw [hops]
      exact he h
    · intro h
      obtain ⟨h1, h2⟩ := hr h
      obtain ⟨h3, h4⟩ := hq.operandOf_map hg hpw.map_lt hpw.null_lt (Or.inr rfl) h2
      rw [hops, h3]
      exact ⟨h1, h4⟩
  · intro F1 b1 i1 F2 b2 i2 ty1 inc1 ty2 inc2 n h1 t1 h2 t2 m1 m2
    rw [hmapi] at m1 m2
    exact hpw.phi_inj F1 b1 i1 F2 b2 i2 ty1 inc1 ty2 inc2 n h1 t1 h2 t2 m1 m2

theorem posLt_succ (b i b' i' : Nat) :
    posLt (b', i') (b, i + 1) ↔ posLt (b', i') (b, i) ∨ (b' = b ∧ i' = i) := by
  unfold posLt
  simp only
  omega

theorem posLt_irrefl (p : Nat × Nat) : ¬ posLt p p := by
  unfold posLt
  omega

theorem ArgNode.lt_size {m : Module} {Pend : Nat → Option ((Nat × Nat) × (Nat × Nat))}
    {s : LLVMPSSBuilder} (hpw : PW m Pend s) {n : Nat} (h : ArgNode m s n) : n < s.size := by
  obtain ⟨G, r, hr, -, h2⟩ := h
  have := (hpw.args G r hr).1
  omega

/-- What a quiet step keeps of a lowered pointer `PHI` whose entry of `nodes_map` it
leaves alone. -/
theorem PW.phi_keep {m : Module} {Pend : Nat → Option ((Nat × Nat) × (Nat × Nat))}
    {T : Nat → Prop} {I : Value} {s s' : LLVMPSSBuilder} (hpw : PW m Pend s)
    (inc : List Value) (hg : Grow s s') (hq : Quiet T I s s')
    (hI : s.nodes_map I = none ∨ I.isConstant = true)
    {v : Value} {n : Nat} (hT : ¬ T n) (hv : v ≠ I)
    (hc : v.isConstant = false)
    (hn : s.nodes_map v = some n) (hk : (s.node n).kind = .PHI) (ha : ¬ ArgNode m s n) :
    s'.nodes_map v = some n ∧ (s'.node n).kind = .PHI ∧ ¬ ArgNode m s' n ∧
      (s'.node n).operands = (s.node n).operands ∧
      (((s.node n).operands = inc.map (operandOf s) ∧ ∀ v, v ∈ inc → operandOf s v ≠ none) →
        (s'.node n).operands = inc.map (operandOf s') ∧
          ∀ v, v ∈ inc → operandOf s' v ≠ none) := by
  have hlt : n < s.size := hpw.map_lt _ _ hn
  have hops : (s'.node n).operands = (s.node n).operands := hq.ops_eq n hlt hT
  refine ⟨?_, ?_, ?_, hops, ?_⟩
  · rw [hq.map_eq v hv hc]
    exact hn
  · rw [hg.kind_eq n hlt]
    exact hk
  · rw [ArgNode.of_subg_eq hg.subg_eq]
    exact ha
  · rintro ⟨h1, h2⟩
    obtain ⟨h3, h4⟩ := hq.operandOf_map hg hpw.map_lt hpw.null_lt hI h2
    rw [hops, h3]
    exact ⟨h1, h4⟩

/-- Lowering the instruction at the position a function in progress has got to, by a
step that maps this instruction only: the position moves on. -/
theorem PW.step_lower {m : Module} {Pend : Nat → Option ((Nat × Nat) × (Nat × Nat))}
    {T : Nat → Prop} {s s' : LLVMPSSBuilder} {F b i : Nat} {q : Nat × Nat}
    (hpw : PW m Pend s) (hg : Grow s s') (hq : Quiet T (.inst F b i) s s')
    (hT : ∀ n, T n → ArgNode m s n ∨ (s.node n).kind ≠ .PHI)
    (hp : Pend F = some ((b, i), q)) (hq0 : ¬ posLt (b, i) q)
    (hphi : ∀ ty inc, m.getInst F b i = some (.phi ty inc) → ty.isPointerTy = true →
      ∃ n, s'.nodes_map (.inst F b i) = some n ∧ s.size ≤ n ∧ (s'.node n).kind = .PHI ∧
        (s'.node n).operands = []) :
    PW m (Function.update Pend F (some ((b, i + 1), q))) s' := by
  have hun : s.nodes_map (.inst F b i) = none :=
    (hpw.pending F _ _ hp).2 b i (posLt_irrefl _)
  have hmapi : ∀ F' b' i', ¬ (F' = F ∧ b' = b ∧ i' = i) →
      s'.nodes_map (.inst F' b' i') = s.nodes_map (.inst F' b' i') := by
    intro F' b' i' hne
    refine hq.map_eq _ ?_ rfl
    intro hc
    injection hc with h1 h2 h3
    exact hne ⟨h1, h2, h3⟩
  refine ⟨lt_of_lt_of_le hpw.null_lt hg.size_le, hg.map_lt hpw.map_lt, ?_, ?_, ?_, ?_, ?_,
    hpw.args_grow hg⟩
  · intro a
    rw [hq.null_eq]
    exact hpw.null_none a
  · intro F' hF'
    rw [hg.subg_eq] at hF'
    have hne : F' ≠ F := by
      intro hc
      subst hc
      rw [(hpw.unreg _ hF').1] at hp
      cases hp
    refine ⟨?_, ?_⟩
    · rw [Function.update_noteq hne]
      exact (hpw.unreg F' hF').1
    · intro v hv
      rw [hq.map_eq v ?_ (by cases v <;> first | rfl | cases hv)]
      · exact (hpw.unreg F' hF').2 v hv
      · intro hc
        subst hc
        injection hv with hv
        exact hne hv.symm
  · intro F' p' q' hp'
    rw [hg.subg_eq]
    by_cases hF : F' = F
    · subst hF
      rw [Function.update_same] at hp'
      injection hp' with hp'
      injection hp' with hp1 hp2
      subst hp1
      refine ⟨(hpw.pending _ _ _ hp).1, ?_⟩
      intro b' i' hbi
      rw [posLt_succ] at hbi
      rw [hmapi]
      · exact (hpw.pending _ _ _ hp).2 b' i' (fun h => hbi (Or.inl h))
      · rintro ⟨-, h2, h3⟩
        exact hbi (Or.inr ⟨h2, h3⟩)
    · rw [Function.update_noteq hF] at hp'
      refine ⟨(hpw.pending F' p' q' hp').1, ?_⟩
      intro b' i' hbi
      rw [hmapi]
      · exact (hpw.pending F' p' q' hp').2 b' i' hbi
      · rintro ⟨h1, -, -⟩
        exact hF h1
  · intro F' b' i' ty inc hF' hI hty hlow
    rw [hg.subg_eq] at hF'
    by_cases hpos : F' = F ∧ b' = b ∧ i' = i
    · obtain ⟨rfl, rfl, rfl⟩ := hpos
      obtain ⟨n, hn, hge, hk, ho⟩ := hphi ty inc hI hty
      refine ⟨n, hn, hk, ?_, fun _ => ho, ?_⟩
      · rw [ArgNode.of_subg_eq hg.subg_eq]
        intro ha
        have := ha.lt_size hpw
        omega
      · intro h
        exact absurd (h _ _ (Function.update_same _ _ _)) hq0
    · have hlow' : ∀ p q', Pend F' = some (p, q') → posLt (b', i') p := by
        intro p q' hpq
        by_cases hF : F' = F
        · subst hF
          rw [hp] at hpq
          injection hpq with hpq
          injection hpq with h1 h2
          subst h1
          have := hlow _ _ (Function.update_same _ _ _)
          rw [posLt_succ] at this
          rcases this with h | ⟨h1, h2⟩
          · exact h
          · exact absurd ⟨rfl, h1, h2⟩ hpos
        · refine hlow p q' ?_
          rw [Function.update_noteq hF]
          exact hpq
      obtain ⟨n, hn, hk, ha, he, hr⟩ := hpw.phi F' b' i' ty inc hF' hI hty hlow'
      have hv : Value.inst F' b' i' ≠ Value.inst F b i := by
        intro hc
        injection hc with h1 h2 h3
        exact hpos ⟨h1, h2, h3⟩
      have hTn : ¬ T n := by
        intro ht
        rcases hT n ht with h | h
        · exact ha h
        · exact h hk
      obtain ⟨k1, k2, k3, k4, k5⟩ :=
        hpw.phi_keep inc (v := .inst F' b' i') (n := n) hg hq (Or.inl hun) hTn hv rfl
          hn hk ha
      refine ⟨n, k1, k2, k3, ?_, ?_⟩
      · rintro ⟨p, q', hpq, hnq⟩
        rw [k4]
        refine he ?_
        by_cases hF : F' = F
        · subst hF
          rw [Function.update_same] at hpq
          injection hpq with hpq
          injection hpq with h1 h2
          subst h2
          exact ⟨_, _, hp, hnq⟩
        · rw [Function.update_noteq hF] at hpq
          exact ⟨p, q', hpq, hnq⟩
      · intro h
        refine k5 (hr ?_)
        intro p q' hpq
        by_cases hF : F' = F
        · subst hF
          rw [hp] at hpq
          injection hpq with hpq
          injection hpq with h1 h2
          subst h2
          exact h _ _ (Function.update_same _ _ _)
        · refine h p q' ?_
          rw [Function.update_noteq hF]
          exact hpq
  · intro F1 b1 i1 F2 b2 i2 ty1 inc1 ty2 inc2 n h1 t1 h2 t2 m1 m2
    by_cases hp1 : F1 = F ∧ b1 = b ∧ i1 = i
    · by_cases hp2 : F2 = F ∧ b2 = b ∧ i2 = i
      · obtain ⟨rfl, rfl, rfl⟩ := hp1
        obtain ⟨rfl, rfl, rfl⟩ := hp2
        exact ⟨rfl, rfl, rfl⟩
      · obtain ⟨rfl, rfl, rfl⟩ := hp1
        obtain ⟨n', hn', hge, -, -⟩ := hphi ty1 inc1 h1 t1
        rw [hn'] at m1
        injection m1 with m1
        subst m1
        rw [hmapi _ _ _ hp2] at m2
        have := hpw.map_lt _ _ m2
        omega
    · by_cases hp2 : F2 = F ∧ b2 = b ∧ i2 = i
      · obtain ⟨rfl, rfl, rfl⟩ := hp2
        obtain ⟨n', hn', hge, -, -⟩ := hphi ty2 inc2 h2 t2
        rw [hn'] at m2
        injection m2 with m2
        subst m2
        rw [hmapi _ _ _ hp1] at m1
        have := hpw.map_lt _ _ m1
        omega
      · rw [hmapi _ _ _ hp1] at m1
        rw [hmapi _ _ _ hp2] at m2
        exact hpw.phi_inj F1 b1 i1 F2 b2 i2 ty1 inc1 ty2 inc2 n h1 t1 h2 t2 m1 m2

/-- The operands of the pointer `PHI` at the position the operand phase of a function
has got to are added: this position moves on. -/
theorem PW.step_phi {m : Module} {Pend : Nat → Option ((Nat × Nat) × (Nat × Nat))}
    {s s' : LLVMPSSBuilder} {F b i n : Nat} {p : Nat × Nat} {ty : Ty} {inc : List Value}
    (hpw : PW m Pend s) (hg : Grow s s')
    (hq : Quiet (fun x => x = n) (.const (.nullPtr 0)) s s')
    (hp : Pend F = some (p, (b, i))) (hlow : posLt (b, i) p)
    (hI : m.getInst F b i = some (.phi ty inc)) (hty : ty.isPointerTy = true)
    (hn : s.nodes_map (.inst F b i) = some n)
    (hops : (s'.node n).operands = (s.node n).operands ++ inc.map (operandOf s') ∧
      ∀ v, v ∈ inc → operandOf s' v ≠ none) :
    PW m (Function.update Pend F (some (p, (b, i + 1)))) s' := by
  have hmap : ∀ v : Value, v.isConstant = false → s'.nodes_map v = s.nodes_map v := by
    intro v hv
    refine hq.map_eq v ?_ hv
    intro hc
    rw [hc] at hv
    cases hv
  have hmapi : ∀ F b i, s'.nodes_map (.inst F b i) = s.nodes_map (.inst F b i) :=
    fun F b i => hmap (.inst F b i) rfl
  have hreg : (s.subgraphs_map F).root ≠ none := (hpw.pending F _ _ hp).1
  have hold : (s.node n).operands = [] := by
    obtain ⟨n', hn', -, -, he, -⟩ := hpw.phi F b i ty inc hreg hI hty (by
      intro p' q' hpq
      rw [hp] at hpq
      injection hpq with hpq
      injection hpq with h1 h2
      subst h1
      exact hlow)
    rw [hn] at hn'
    injection hn' with hn'
    subst hn'
    exact he ⟨_, _, hp, posLt_irrefl _⟩
  refine ⟨lt_of_lt_of_le hpw.null_lt hg.size_le, hg.map_lt hpw.map_lt, ?_, ?_, ?_, ?_, ?_,
    hpw.args_grow hg⟩
  · intro a
    rw [hq.null_eq]
    exact hpw.null_none a
  · intro F' hF'
    rw [hg.subg_eq] at hF'
    have hne : F' ≠ F := by
      intro hc
      subst hc
      exact hreg hF'
    refine ⟨?_, ?_⟩
    · rw [Function.update_noteq hne]
      exact (hpw.unreg F' hF').1
    · intro v hv
      rw [hmap v (by cases v <;> first | rfl | cases hv)]
      exact (hpw.unreg F' hF').2 v hv
  · intro F' p' q' hp'
    rw [hg.subg_eq]
    by_cases hF : F' = F
    · subst hF
      rw [Function.update_same] at hp'
      injection hp' with hp'
      injection hp' with hp1 hp2
      subst hp1
      refine ⟨hreg, ?_⟩
      intro b' i' hbi
      rw [hmapi]
      exact (hpw.pending _ _ _ hp).2 b' i' hbi
    · rw [Function.update_noteq hF] at hp'
      refine ⟨(hpw.pending F' p' q' hp').1, ?_⟩
      intro b' i' hbi
      rw [hmapi]
      exact (hpw.pending F' p' q' hp').2 b' i' hbi
  · intro F' b' i' ty' inc' hF' hI' hty' hlow'
    rw [hg.subg_eq] at hF'
    have hlow0 : ∀ p0 q0, Pend F' = some (p0, q0) → posLt (b', i') p0 := by
      intro p0 q0 hpq
      by_cases hF : F' = F
      · subst hF
        rw [hp] at hpq
        injection hpq with hpq
        injection hpq with h1 h2
        subst h1
        exact hlow' _ _ (Function.update_same _ _ _)
      · refine hlow' p0 q0 ?_
        rw [Function.update_noteq hF]
        exact hpq
    obtain ⟨n', hn', hk, ha, he, hr⟩ := hpw.phi F' b' i' ty' inc' hF' hI' hty' hlow0
    by_cases hnn : n' = n
    · subst hnn
      obtain ⟨rfl, rfl, rfl⟩ :=
        hpw.phi_inj F' b' i' F b i ty' inc' ty inc n' hI' hty' hI hty hn' hn
      rw [hI] at hI'
      injection hI' with hI'
      injection hI' with h1 h2
      subst h1
      subst h2
      refine ⟨n', ?_, ?_, ?_, ?_, ?_⟩
      · rw [hmapi]
        exact hn
      · rw [hg.kind_eq _ (hpw.map_lt _ _ hn)]
        exact hk
      · rw [ArgNode.of_subg_eq hg.subg_eq]
        exact ha
      · rintro ⟨p', q', hpq, hnq⟩
        rw [Function.update_same] at hpq
        injection hpq with hpq
        injection hpq with h1 h2
        subst h2
        exact absurd ((posLt_succ _ _ _ _).mpr (Or.inr ⟨rfl, rfl⟩)) hnq
      · intro _
        rw [hops.1, hold]
        exact ⟨rfl, hops.2⟩
    · obtain ⟨k1, k2, k3, k4, k5⟩ :=
        hpw.phi_keep inc' (v := .inst F' b' i') (n := n') hg hq (Or.inr rfl) hnn
          (by intro hc; cases hc) rfl hn' hk ha
      refine ⟨n', k1, k2, k3, ?_, ?_⟩
      · rintro ⟨p', q', hpq, hnq⟩
        rw [k4]
        refine he ?_
        by_cases hF : F' = F
        · subst hF
          rw [Function.update_same] at hpq
          injection hpq with hpq
          injection hpq with h1 h2
          subst h2
          refine ⟨_, _, hp, ?_⟩
          intro hc
          exact hnq ((posLt_succ _ _ _ _).mpr (Or.inl hc))
        · rw [Function.update_noteq hF] at hpq
          exact ⟨p', q', hpq, hnq⟩
      · intro h
        refine k5 (hr ?_)
        intro p0 q0 hpq
        by_cases hF : F' = F
        · subst hF
          rw [hp] at hpq
          injection hpq with hpq
          injection hpq with h1 h2
          subst h2
          have := h _ _ (Function.update_same _ _ _)
          rw [posLt_succ] at this
          rcases this with h | ⟨h1, h2⟩
          · exact h
          · subst h1
            subst h2
            rw [hn] at hn'
            injection hn' with hn'
            exact absurd hn'.symm hnn
        · refine h p0 q0 ?_
          rw [Function.update_noteq hF]
          exact hpq
  · intro F1 b1 i1 F2 b2 i2 ty1 inc1 ty2 inc2 n h1 t1 h2 t2 m1 m2
    rw [hmapi] at m1 m2
    exact hpw.phi_inj F1 b1 i1 F2 b2 i2 ty1 inc1 ty2 inc2 n h1 t1 h2 t2 m1 m2

/-- Renaming the position of a function in progress to one that splits its pointer
`PHI` instructions the same way. -/
theorem PW.repos {m : Module} {Pend : Nat → Option ((Nat × Nat) × (Nat × Nat))}
    {s : LLVMPSSBuilder} {F : Nat} {p q p' q' : Nat × Nat} (hpw : PW m Pend s)
    (hp : Pend F = some (p, q))
    (h1 : ∀ b i, ¬ posLt (b, i) p' → ¬ posLt (b, i) p)
    (h2 : ∀ b i ty inc, m.getInst F b i = some (.phi ty inc) → ty.isPointerTy = true →
      ((posLt (b, i) p' ↔ posLt (b, i) p) ∧ (posLt (b, i) q' ↔ posLt (b, i) q))) :
    PW m (Function.update Pend F (some (p', q'))) s := by
  have hreg : (s.subgraphs_map F).root ≠ none := (hpw.pending F _ _ hp).1
  refine ⟨hpw.null_lt, hpw.map_lt, hpw.null_none, ?_, ?_, ?_, hpw.phi_inj, hpw.args⟩
  · intro F' hF'
    have hne : F' ≠ F := by
      intro hc
      subst hc
      exact hreg hF'
    rw [Function.update_noteq hne]
    exact hpw.unreg F' hF'
  · intro F' p0 q0 hp0
    by_cases hF : F' = F
    · subst hF
      rw [Function.update_same] at hp0
      injection hp0 with hp0
      injection hp0 with e1 e2
      subst e1
      exact ⟨hreg, fun b i hbi => (hpw.pending _ _ _ hp).2 b i (h1 b i hbi)⟩
    · rw [Function.update_noteq hF] at hp0
      exact hpw.pending F' p0 q0 hp0
  · intro F' b i ty inc hF' hI hty hlow
    by_cases hF : F' = F
    · subst hF
      obtain ⟨e1, e2⟩ := h2 b i ty inc hI hty
      have hlow0 : ∀ p0 q0, Pend F' = some (p0, q0) → posLt (b, i) p0 := by
        intro p0 q0 hpq
        rw [hp] at hpq
        injection hpq with hpq
        injection hpq with h1 h2
        subst h1
        exact e1.mp (hlow _ _ (Function.update_same _ _ _))
      obtain ⟨n, hn, hk, ha, he, hr⟩ := hpw.phi F' b i ty inc hF' hI hty hlow0
      refine ⟨n, hn, hk, ha, ?_, ?_⟩
      · rintro ⟨p0, q0, hpq, hnq⟩
        rw [Function.update_same] at hpq
        injection hpq with hpq
        injection hpq with h1 h2
        subst h2
        exact he ⟨_, _, hp, fun hc => hnq (e2.mpr hc)⟩
      · intro h
        refine hr ?_
        intro p0 q0 hpq
        rw [hp] at hpq
        injection hpq with hpq
        injection hpq with h1 h2
        subst h2
        exact e2.mp (h _ _ (Function.update_same _ _ _))
    · have hlow0 : ∀ p0 q0, Pend F' = some (p0, q0) → posLt (b, i) p0 := by
        intro p0 q0 hpq
        refine hlow p0 q0 ?_
        rw [Function.update_noteq hF]
        exact hpq
      obtain ⟨n, hn, hk, ha, he, hr⟩ := hpw.phi F' b i ty inc hF' hI hty hlow0
      refine ⟨n, hn, hk, ha, ?_, ?_⟩
      · rintro ⟨p0, q0, hpq, hnq⟩
        rw [Function.update_noteq hF] at hpq
        exact he ⟨p0, q0, hpq, hnq⟩
      · intro h
        refine hr ?_
        intro p0 q0 hpq
        refine h p0 q0 ?_
        rw [Function.update_noteq hF]
        exact hpq

/-- A function whose instructions are all lowered and whose pointer `PHI` instructions
all have their operands is finished. -/
theorem PW.finish {m : Module} {Pend : Nat → Option ((Nat × Nat) × (Nat × Nat))}
    {s : LLVMPSSBuilder} {F : Nat} {p q : Nat × Nat} (hpw : PW m Pend s)
    (hp : Pend F = some (p, q))
    (h2 : ∀ b i ty inc, m.getInst F b i = some (.phi ty inc) → ty.isPointerTy = true →
      posLt (b, i) p ∧ posLt (b, i) q) :
    PW m (Function.update Pend F none) s := by
  have hreg : (s.subgraphs_map F).root ≠ none := (hpw.pending F _ _ hp).1
  refine ⟨hpw.null_lt, hpw.map_lt, hpw.null_none, ?_, ?_, ?_, hpw.phi_inj, hpw.args⟩
  · intro F' hF'
    have hne : F' ≠ F := by
      intro hc
      subst hc
      exact hreg hF'
    rw [Function.update_noteq hne]
    exact hpw.unreg F' hF'
  · intro F' p0 q0 hp0
    by_cases hF : F' = F
    · subst hF
      rw [Function.update_same] at hp0
      cases hp0
    · rw [Function.update_noteq hF] at hp0
      exact hpw.pending F' p0 q0 hp0
  · intro F' b i ty inc hF' hI hty hlow
    by_cases hF : F' = F
    · subst hF
      obtain ⟨e1, e2⟩ := h2 b i ty inc hI hty
      have hlow0 : ∀ p0 q0, Pend F' = some (p0, q0) → posLt (b, i) p0 := by
        intro p0 q0 hpq
        rw [hp] at hpq
        injection hpq with hpq
        injection hpq with h1 h2
        subst h1
        exact e1
      obtain ⟨n, hn, hk, ha, he, hr⟩ := hpw.phi F' b i ty inc hF' hI hty hlow0
      refine ⟨n, hn, hk, ha, ?_, ?_⟩
      · rintro ⟨p0, q0, hpq, hnq⟩
        rw [Function.update_same] at hpq
        cases hpq
      · intro h
        refine hr ?_
        intro p0 q0 hpq
        rw [hp] at hpq
        injection hpq with hpq
        injection hpq with h1 h2
        subst h2
        exact e2
    · have hlow0 : ∀ p0 q0, Pend F' = some (p0, q0) → posLt (b, i) p0 := by
        intro p0 q0 hpq
        refine hlow p0 q0 ?_
        rw [Function.update_noteq hF]
        exact hpq
      obtain ⟨n, hn, hk, ha, he, hr⟩ := hpw.phi F' b i ty inc hF' hI hty hlow0
      refine ⟨n, hn, hk, ha, ?_, ?_⟩
      · rintro ⟨p0, q0, hpq, hnq⟩
        rw [Function.update_noteq hF] at hpq
        exact he ⟨p0, q0, hpq, hnq⟩
      · intro h
        refine hr ?_
        intro p0 q0 hpq
        refine h p0 q0 ?_
        rw [Function.update_noteq hF]
        exact hpq

/-! ## Steps that leave the successors of the existing nodes alone -/

set_option linter.unusedTactic false
set_option linter.unreachableTactic false

theorem SuccKeep.rfl_sk (s : LLVMPSSBuilder) : SuccKeep s s :=
  ⟨le_refl _, fun _ _ => rfl, fun _ _ h1 h2 => absurd h2 (not_lt.mpr h1), fun _ _ => rfl⟩

theorem SuccKeep.trans_sk {s1 s2 s3 : LLVMPSSBuilder} (h12 : SuccKeep s1 s2)
    (h23 : SuccKeep s2 s3) : SuccKeep s1 s3 := by
  refine ⟨le_trans h12.size_le h23.size_le, ?_, ?_, ?_⟩
  · intro n hn
    rw [h23.old_eq n (lt_of_lt_of_le hn h12.size_le), h12.old_eq n hn]
  · intro n x hn hlt hx
    by_cases h2 : n < s2.size
    · rw [h23.old_eq n h2] at hx
      have := h12.fresh_tgt n x hn h2 hx
      exact ⟨this.1, lt_of_lt_of_le this.2 h23.size_le⟩
    · have := h23.fresh_tgt n x (not_lt.mp h2) hlt hx
      exact ⟨le_trans h12.size_le this.1, this.2⟩
  · intro n hn
    rw [h23.beyond n hn, h12.beyond n (le_trans h23.size_le hn)]

theorem SuccKeeps.bind_sk {α β : Type} {x : M α} {f : α → M β}
    (hx : SuccKeeps x) (hf : ∀ a, SuccKeeps (f a)) : SuccKeeps (x >>= f) := by
  refine ⟨fun s b s' h => ?_⟩
  obtain ⟨a, s1, h1, h2⟩ := (M.bind_ok _ _ _ _ _).mp h
  exact (hx.keeps s a s1 h1).trans_sk ((hf a).keeps s1 b s' h2)

@[simp] theorem SuccKeeps.pure_sk {α : Type} (a : α) : SuccKeeps (pure a : M α) := by
  refine ⟨fun s b s' h => ?_⟩
  obtain ⟨-, rfl⟩ := (M.pure_ok _ _ _ _).mp h
  exact SuccKeep.rfl_sk _

@[simp] theorem SuccKeeps.fail_sk {α : Type} (e : Error) : SuccKeeps (M.fail e : M α) := by
  refine ⟨fun s b s' h => ?_⟩
  cases h

@[simp] theorem SuccKeeps.get_sk : SuccKeeps M.get := by
  refine ⟨fun s b s' h => ?_⟩
  obtain ⟨-, rfl⟩ := (M.get_ok _ _ _).mp h
  exact SuccKeep.rfl_sk _

@[simp] theorem SuccKeeps.assert_sk (c : Bool) (msg : String) :
    SuccKeeps (M.assert c msg) := by
  unfold M.assert
  split <;> simp

@[simp] theorem SuccKeeps.ofExcept_sk {α : Type} (x : Except Error α) :
    SuccKeeps (M.ofExcept x) := by
  refine ⟨fun s b s' h => ?_⟩
  obtain ⟨-, rfl⟩ := (M.ofExcept_ok _ _ _ _).mp h
  exact SuccKeep.rfl_sk _

@[simp] theorem getNode_succkeeps (v : Value) : SuccKeeps (getNode v) := by
  refine ⟨fun s b s' h => ?_⟩
  obtain ⟨-, rfl⟩ := (getNode_ok _ _ _ _).mp h
  exact SuccKeep.rfl_sk _

@[simp] theorem getNodeData_succkeeps (n : Nat) : SuccKeeps (getNodeData n) := by
  refine ⟨fun s b s' h => ?_⟩
  obtain ⟨-, rfl⟩ := (getNodeData_ok _ _ _ _).mp h
  exact SuccKeep.rfl_sk _

/-- Changing attributes of a node other than its successors. -/
theorem SuccKeep.update_sk (s : LLVMPSSBuilder) (n : Nat) (f : PSSNode → PSSNode)
    (hf : ∀ x, (f x).successors = x.successors) : SuccKeep s (s.update n f) := by
  have key : ∀ i, ((s.update n f).node i).successors = (s.node i).successors := by
    intro i
    rw [LLVMPSSBuilder.update_node]
    split
    · subst_vars
      exact hf _
    · rfl
  exact ⟨le_refl _, fun i _ => key i, fun _ _ h1 h2 => absurd h2 (not_lt.mpr h1),
    fun i _ => key i⟩

/-- Changing nothing of the nodes. -/
theorem SuccKeep.of_node_eq {s s' : LLVMPSSBuilder} (h1 : s'.size = s.size)
    (h2 : s'.node = s.node) : SuccKeep s s' := by
  refine ⟨le_of_eq h1.symm, fun _ _ => by rw [h2], ?_, fun _ _ => by rw [h2]⟩
  intro n x hn hlt
  rw [h1] at hlt
  exact absurd hlt (not_lt.mpr hn)

/-- Adding a node without successors. -/
theorem SuccKeep.push_sk (s : LLVMPSSBuilder) (x : PSSNode) (hx : x.successors = []) :
    SuccKeep s (s.push x) := by
  refine ⟨Nat.le_succ _, ?_, ?_, ?_⟩
  · intro i hi
    rw [LLVMPSSBuilder.push_node, if_neg (ne_of_lt hi)]
  · intro n y hn hlt hy
    have : n = s.size := by
      rw [LLVMPSSBuilder.push_size] at hlt
      omega
    subst this
    rw [LLVMPSSBuilder.push_node, if_pos rfl, hx] at hy
    cases hy
  · intro i hi
    rw [LLVMPSSBuilder.push_size] at hi
    rw [LLVMPSSBuilder.push_node, if_neg (by omega)]

@[simp] theorem mkNode_succkeeps (k : PSSNodeType) (ops : List (Option Nat)) (o l : Offset) :
    SuccKeeps (mkNode k ops o l) := by
  refine ⟨fun s b s' h => ?_⟩
  unfold mkNode at h
  rw [newNode_ok] at h
  obtain ⟨-, rfl⟩ := h
  exact SuccKeep.push_sk s _ rfl

@[simp] theorem mkOpNode_succkeeps (k : PSSNodeType) (ops : List (Option Nat)) :
    SuccKeeps (mkOpNode k ops) := by
  unfold mkOpNode
  simp

@[simp] theorem mkConstant_succkeeps (t : Nat) (o : Offset) : SuccKeeps (mkConstant t o) := by
  refine ⟨fun s b s' h => ?_⟩
  unfold mkConstant at h
  rw [newNode_ok] at h
  obtain ⟨-, rfl⟩ := h
  exact SuccKeep.push_sk s _ rfl

@[simp] theorem addOperand_succkeeps (n t : Nat) : SuccKeeps (addOperand n t) := by
  refine ⟨fun s b s' h => ?_⟩
  unfold addOperand at h
  rw [M.modify_ok] at h
  subst h
  exact SuccKeep.update_sk s n _ (fun _ => rfl)

@[simp] theorem setPairedNode_succkeeps (n t : Nat) : SuccKeeps (setPairedNode n t) := by
  refine ⟨fun s b s' h => ?_⟩
  rw [setPairedNode_ok] at h
  subst h
  exact SuccKeep.update_sk s n _ (fun _ => rfl)

@[simp] theorem setSize_succkeeps (n t : Nat) : SuccKeeps (setSize n t) := by
  refine ⟨fun s b s' h => ?_⟩
  unfold setSize at h
  rw [M.modify_ok] at h
  subst h
  exact SuccKeep.update_sk s n _ (fun _ => rfl)

@[simp] theorem setIsHeap_succkeeps (n : Nat) : SuccKeeps (setIsHeap n) := by
  refine ⟨fun s b s' h => ?_⟩
  unfold setIsHeap at h
  rw [M.modify_ok] at h
  subst h
  exact SuccKeep.update_sk s n _ (fun _ => rfl)

@[simp] theorem setZeroInitialized_succkeeps (n : Nat) :
    SuccKeeps (setZeroInitialized n) := by
  refine ⟨fun s b s' h => ?_⟩
  unfold setZeroInitialized at h
  rw [M.modify_ok] at h
  subst h
  exact SuccKeep.update_sk s n _ (fun _ => rfl)

@[simp] theorem addPointsTo_succkeeps (n : Nat) (p : Pointer) :
    SuccKeeps (addPointsTo n p) := by
  refine ⟨fun s b s' h => ?_⟩
  unfold addPointsTo at h
  rw [M.modify_ok] at h
  subst h
  exact SuccKeep.update_sk s n _ (fun _ => rfl)

@[simp] theorem addNode_succkeeps (v : Value) (n : Nat) : SuccKeeps (addNode v n) := by
  refine ⟨fun s b s' h => ?_⟩
  unfold addNode at h
  rw [M.modify_ok] at h
  subst h
  exact SuccKeep.of_node_eq rfl rfl

@[simp] theorem setBuiltBlock_succkeeps (k : Nat × Nat) (nds : Option Nat × Option Nat) :
    SuccKeeps (setBuiltBlock k nds) := by
  refine ⟨fun s b s' h => ?_⟩
  unfold setBuiltBlock at h
  rw [M.modify_ok] at h
  subst h
  exact SuccKeep.of_node_eq rfl rfl

@[simp] theorem setSubgraph_succkeeps (F : Nat) (sg : Subgraph) :
    SuccKeeps (setSubgraph F sg) := by
  refine ⟨fun s b s' h => ?_⟩
  unfold setSubgraph at h
  rw [M.modify_ok] at h
  subst h
  exact SuccKeep.of_node_eq rfl rfl

@[simp] theorem singlePointer_succkeeps (n : Nat) (msg : String) :
    SuccKeeps (singlePointer n msg) := by
  unfold singlePointer
  repeat' first
    | (simp; done)
    | apply SuccKeeps.bind_sk
    | intro _
    | split
    | dsimp only

@[simp] theorem callOperand_succkeeps (args : List Value) (cv : Value) (k : Nat) :
    SuccKeeps (callOperand args cv k) := by
  unfold callOperand
  repeat' first
    | (simp; done)
    | apply SuccKeeps.bind_sk
    | intro _
    | split
    | dsimp only

@[simp] theorem getArgOperand_succkeeps (args : List Value) (k : Nat) :
    SuccKeeps (getArgOperand args k) := by
  unfold getArgOperand
  repeat' first
    | (simp; done)
    | apply SuccKeeps.bind_sk
    | intro _
    | split
    | dsimp only

theorem handleConstantBitCast_succkeeps {getOp : Constant → M Nat}
    (hg : ∀ c, SuccKeeps (getOp c)) (CE : Constant) (lossless : Bool) :
    SuccKeeps (handleConstantBitCast getOp CE lossless) := by
  unfold handleConstantBitCast
  repeat' first
    | (simp [*]; done)
    | apply SuccKeeps.bind_sk
    | intro _
    | split
    | dsimp only

theorem handleConstantGep_succkeeps (m : Module) {getOp : Constant → M Nat}
    (hg : ∀ c, SuccKeeps (getOp c)) (op : Constant) (acc : Option Nat) :
    SuccKeeps (handleConstantGep m getOp op acc) := by
  unfold handleConstantGep
  repeat' first
    | (simp [*]; done)
    | apply SuccKeeps.bind_sk
    | intro _
    | split
    | dsimp only

theorem getConstantExprPointer_succkeeps (m : Module) {getOp : Constant → M Nat}
    (hg : ∀ c, SuccKeeps (getOp c)) (CE : Constant) :
    SuccKeeps (getConstantExprPointer m getOp CE) := by
  unfold getConstantExprPointer
  repeat' first
    | (simp [*]; done)
    | exact handleConstantGep_succkeeps m hg _ _
    | exact handleConstantBitCast_succkeeps hg _ _
    | apply SuccKeeps.bind_sk
    | intro _
    | split
    | dsimp only

theorem createConstantExpr_succkeeps (m : Module) {getOp : Constant → M Nat}
    (hg : ∀ c, SuccKeeps (getOp c)) (CE : Constant) :
    SuccKeeps (createConstantExpr m getOp CE) := by
  unfold createConstantExpr
  repeat' first
    | (simp [*]; done)
    | exact getConstantExprPointer_succkeeps m hg _
    | apply SuccKeeps.bind_sk
    | intro _
    | split
    | dsimp only

theorem getConstant_succkeeps (m : Module) {getOp : Constant → M Nat}
    (hg : ∀ c, SuccKeeps (getOp c)) (val : Value) :
    SuccKeeps (getConstant m getOp val) := by
  unfold getConstant
  repeat' first
    | (simp [*]; done)
    | exact createConstantExpr_succkeeps m hg _
    | apply SuccKeeps.bind_sk
    | intro _
    | split
    | dsimp only

theorem getOperandAux_succkeeps (m : Module) (fuel : Nat) :
    ∀ val, SuccKeeps (getOperandAux m fuel val) := by
  induction fuel with
  | zero =>
    intro val
    unfold getOperandAux
    simp
  | succ fuel ih =>
    intro val
    unfold getOperandAux
    repeat' first
      | (simp [*]; done)
      | exact getConstant_succkeeps m (fun c => ih (.const c)) _
      | apply SuccKeeps.bind_sk
      | intro _
      | split
      | dsimp only

@[simp] theorem getOperand_succkeeps (m : Module) (val : Value) :
    SuccKeeps (getOperand m val) :=
  getOperandAux_succkeeps m _ val

@[simp] theorem createDynamicAlloc_succkeeps (args : List Value) (cv : Value) (type : MemAllocationFuncs) :
    SuccKeeps (createDynamicAlloc args cv type) := by
  unfold createDynamicAlloc
  repeat' first
    | (simp [*]; done)
    | assumption
    | apply SuccKeeps.bind_sk
    | intro _
    | split
    | dsimp only

@[simp] theorem createDynamicMemAlloc_succkeeps (I : Value) (args : List Value) (cv : Value) (type : MemAllocationFuncs) :
    SuccKeeps (createDynamicMemAlloc I args cv type) := by
  unfold createDynamicMemAlloc
  repeat' first
    | (simp [*]; done)
    | assumption
    | apply SuccKeeps.bind_sk
    | intro _
    | split
    | dsimp only

@[simp] theorem createUnknownCall_succkeeps (I : Value) (ty : Ty) :
    SuccKeeps (createUnknownCall I ty) := by
  unfold createUnknownCall
  repeat' first
    | (simp [*]; done)
    | assumption
    | apply SuccKeeps.bind_sk
    | intro _
    | split
    | dsimp only

@[simp] theorem createMemTransfer_succkeeps (m : Module) (I : Value) (id : Option Intrinsic) (args : List Value) (cv : Value) :
    SuccKeeps (createMemTransfer m I id args cv) := by
  unfold createMemTransfer
  repeat' first
    | (simp [*]; done)
    | assumption
    | apply SuccKeeps.bind_sk
    | intro _
    | split
    | dsimp only

/-- Adding a successor made by the step to a node made by the step. -/
theorem SuccKeep.add_fresh {s s1 : LLVMPSSBuilder} (h : SuccKeep s s1) {n t : Nat}
    (hn : s.size ≤ n) (hn1 : n < s1.size) (ht : s.size ≤ t) (ht1 : t < s1.size) :
    SuccKeep s (s1.update n fun x => { x with successors := x.successors ++ [t] }) := by
  refine ⟨h.size_le, ?_, ?_, ?_⟩
  · intro i hi
    rw [LLVMPSSBuilder.update_node, if_neg (by omega)]
    exact h.old_eq i hi
  · intro i x hi hlt hx
    rw [LLVMPSSBuilder.update_node] at hx
    split at hx
    · subst_vars
      simp only [List.mem_append, List.mem_singleton] at hx
      rcases hx with hx | hx
      · exact h.fresh_tgt _ x hi hlt hx
      · rw [hx]
        exact ⟨ht, ht1⟩
    · exact h.fresh_tgt i x hi hlt hx
  · intro i hi
    have hi1 : s1.size ≤ i := hi
    rw [LLVMPSSBuilder.update_node, if_neg (by omega)]
    exact h.beyond i hi1

@[simp] theorem createVarArg_succkeeps (m : Module) (I : Value) (F : Nat) (args : List Value)
    (cv : Value) : SuccKeeps (createVarArg m I F args cv) := by
  refine ⟨fun s r s' h => ?_⟩
  unfold createVarArg at h
  simp only [M.bind_ok, M.get_ok, M.assert_ok] at h
  obtain ⟨s0, t0, ⟨rfl, rfl⟩, u0, t1, ⟨-, rfl⟩, h⟩ := h
  generalize (s.subgraphs_map F).args.2 = a at h
  cases a with
  | none => cases h
  | some arg =>
    simp only [M.bind_ok, M.assert_ok, M.pure_ok, getNodeData_ok] at h
    obtain ⟨vastart, s1, h1, op0, s2, h2, op, s3, h3, x, s4, ⟨-, rfl⟩, u4, s5, ⟨-, rfl⟩,
      ptr, s6, h6, S1, s7, h7, S2, s8, h8, u9, s9, h9, u10, s10, h10, u11, s11, h11, -, rfl⟩ := h
    have k1 := (mkOpNode_succkeeps _ _).keeps _ _ _ h1
    have k2 := (callOperand_succkeeps _ _ _).keeps _ _ _ h2
    have k3 := (getOperand_succkeeps _ _).keeps _ _ _ h3
    have k6 := (mkConstant_succkeeps _ _).keeps _ _ _ h6
    have k7 := (mkOpNode_succkeeps _ _).keeps _ _ _ h7
    have k8 := (mkOpNode_succkeeps _ _).keeps _ _ _ h8
    have k9 := (addNode_succkeeps _ _).keeps _ _ _ h9
    obtain ⟨-, -, -, -, -, e1, -⟩ := mkOpNode_ok _ _ _ _ _ h1
    obtain ⟨x7, -, -, -, -, e7, p7⟩ := mkOpNode_ok _ _ _ _ _ h7
    obtain ⟨x8, -, -, -, -, e8, p8⟩ := mkOpNode_ok _ _ _ _ _ h8
    have hk9 : SuccKeep s s9 :=
      ((((((k1.trans_sk k2).trans_sk k3).trans_sk k6).trans_sk k7).trans_sk k8).trans_sk k9)
    have z6 : s.size ≤ s6.size := (((k1.trans_sk k2).trans_sk k3).trans_sk k6).size_le
    have z7 : s.size ≤ s7.size := le_trans z6 k7.size_le
    have z9 : s8.size ≤ s9.size := k9.size_le
    rw [addSuccessor_ok] at h10 h11
    subst h10
    subst h11
    have y7 : s7.size = s6.size + 1 := by rw [← p7]; rfl
    have y8 : s8.size = s7.size + 1 := by rw [← p8]; rfl
    refine (hk9.add_fresh (by omega) (by omega) (by omega) (by omega)).add_fresh (by omega) ?_
      (by omega) ?_
    · show _ < s9.size
      omega
    · show _ < s9.size
      omega


@[simp] theorem addOperands_succkeeps (n : Nat) (l : List Nat) : SuccKeeps (addOperands n l) := by
  induction l with
  | nil =>
    unfold addOperands
    simp
  | cons r rest ih =>
    unfold addOperands
    repeat' first
      | (simp [*]; done)
      | assumption
      | apply ih
      | apply SuccKeeps.bind_sk
      | intro _
      | split
      | dsimp only

@[simp] theorem createCallToFunctionArgs_succkeeps (m : Module) (args : List Value)
    (params : List Ty) (idx : Nat) (arg : Option Nat) :
    SuccKeeps (createCallToFunctionArgs m args params idx arg) := by
  induction params generalizing idx arg with
  | nil =>
    unfold createCallToFunctionArgs
    simp
  | cons A rest ih =>
    unfold createCallToFunctionArgs
    repeat' first
      | (simp [*]; done)
      | assumption
      | apply ih
      | apply SuccKeeps.bind_sk
      | intro _
      | split
      | dsimp only

@[simp] theorem createCallToFunctionVarArgs_succkeeps (m : Module) (arg : Nat)
    (l : List Value) : SuccKeeps (createCallToFunctionVarArgs m arg l) := by
  induction l with
  | nil =>
    unfold createCallToFunctionVarArgs
    simp
  | cons v rest ih =>
    unfold createCallToFunctionVarArgs
    repeat' first
      | (simp [*]; done)
      | assumption
      | apply ih
      | apply SuccKeeps.bind_sk
      | intro _
      | split
      | dsimp only

@[simp] theorem createAlloc_succkeeps (m : Module) (I : Value) (ty : Option Ty) :
    SuccKeeps (createAlloc m I ty) := by
  unfold createAlloc
  repeat' first
    | (simp [*]; done)
    | assumption
    | apply SuccKeeps.bind_sk
    | intro _
    | split
    | dsimp only

@[simp] theorem createStore_succkeeps (m : Module) (I v p : Value) :
    SuccKeeps (createStore m I v p) := by
  unfold createStore
  repeat' first
    | (simp [*]; done)
    | assumption
    | apply SuccKeeps.bind_sk
    | intro _
    | split
    | dsimp only

@[simp] theorem createLoad_succkeeps (m : Module) (I p : Value) :
    SuccKeeps (createLoad m I p) := by
  unfold createLoad
  repeat' first
    | (simp [*]; done)
    | assumption
    | apply SuccKeeps.bind_sk
    | intro _
    | split
    | dsimp only

@[simp] theorem createGEP_succkeeps (m : Module) (I p : Value) (acc : Option Nat) :
    SuccKeeps (createGEP m I p acc) := by
  unfold createGEP
  repeat' first
    | (simp [*]; done)
    | assumption
    | apply SuccKeeps.bind_sk
    | intro _
    | split
    | dsimp only

@[simp] theorem createSelect_succkeeps (m : Module) (I : Value) (ty : Ty) (a b : Value) :
    SuccKeeps (createSelect m I ty a b) := by
  unfold createSelect
  repeat' first
    | (simp [*]; done)
    | assumption
    | apply SuccKeeps.bind_sk
    | intro _
    | split
    | dsimp only

@[simp] theorem createPHI_succkeeps (I : Value) (ty : Ty) :
    SuccKeeps (createPHI I ty) := by
  unfold createPHI
  repeat' first
    | (simp [*]; done)
    | assumption
    | apply SuccKeeps.bind_sk
    | intro _
    | split
    | dsimp only

@[simp] theorem addPHIOperands_succkeeps (m : Module) (node : Nat) (l : List Value) :
    SuccKeeps (addPHIOperands m node l) := by
  induction l with
  | nil =>
    unfold addPHIOperands
    simp
  | cons v rest ih =>
    unfold addPHIOperands
    repeat' first
      | (simp [*]; done)
      | assumption
      | apply ih
      | apply SuccKeeps.bind_sk
      | intro _
      | split
      | dsimp only

@[simp] theorem addPHIOperandsBlock_succkeeps (m : Module) (F b : Nat) (l : List Inst)
    (i : Nat) : SuccKeeps (addPHIOperandsBlock m F b l i) := by
  induction l generalizing i with
  | nil =>
    unfold addPHIOperandsBlock
    simp
  | cons I rest ih =>
    unfold addPHIOperandsBlock
    repeat' first
      | (simp [*]; done)
      | assumption
      | apply ih
      | apply SuccKeeps.bind_sk
      | intro _
      | split
      | dsimp only

@[simp] theorem addPHIOperandsBlocks_succkeeps (m : Module) (F : Nat) (l : List BasicBlock)
    (b : Nat) : SuccKeeps (addPHIOperandsBlocks m F l b) := by
  induction l generalizing b with
  | nil =>
    unfold addPHIOperandsBlocks
    simp
  | cons B rest ih =>
    unfold addPHIOperandsBlocks
    repeat' first
      | (simp [*]; done)
      | assumption
      | apply ih
      | apply SuccKeeps.bind_sk
      | intro _
      | split
      | dsimp only

@[simp] theorem addPHIOperandsFunction_succkeeps (m : Module) (F : Nat) :
    SuccKeeps (addPHIOperandsFunction m F) := by
  unfold addPHIOperandsFunction
  simp

@[simp] theorem createCast_succkeeps (m : Module) (I p : Value) :
    SuccKeeps (createCast m I p) := by
  unfold createCast
  repeat' first
    | (simp [*]; done)
    | assumption
    | apply SuccKeeps.bind_sk
    | intro _
    | split
    | dsimp only

@[simp] theorem createPtrToInt_succkeeps (m : Module) (I p : Value) :
    SuccKeeps (createPtrToInt m I p) := by
  unfold createPtrToInt
  repeat' first
    | (simp [*]; done)
    | assumption
    | apply SuccKeeps.bind_sk
    | intro _
    | split
    | dsimp only

@[simp] theorem createIntToPtr_succkeeps (m : Module) (I p : Value) :
    SuccKeeps (createIntToPtr m I p) := by
  unfold createIntToPtr
  repeat' first
    | (simp [*]; done)
    | assumption
    | apply SuccKeeps.bind_sk
    | intro _
    | split
    | dsimp only

@[simp] theorem createReturn_succkeeps (m : Module) (I : Value) (r : Option Value) :
    SuccKeeps (createReturn m I r) := by
  unfold createReturn
  repeat' first
    | (simp [*]; done)
    | assumption
    | apply SuccKeeps.bind_sk
    | intro _
    | split
    | dsimp only

@[simp] theorem createIntrinsic_succkeeps (m : Module) (I : Value) (F : Nat) (id : Option Intrinsic) (args : List Value) (cv : Value) :
    SuccKeeps (createIntrinsic m I F id args cv) := by
  unfold createIntrinsic
  repeat' first
    | (simp [*]; done)
    | assumption
    | apply SuccKeeps.bind_sk
    | intro _
    | split
    | dsimp only

@[simp] theorem lowerInst_succkeeps (m : Module) (F b i : Nat) (I : Inst) (node : Option Nat) :
    SuccKeeps (lowerInst m F b i I node) := by
  unfold lowerInst
  repeat' first
    | (simp [*]; done)
    | assumption
    | apply SuccKeeps.bind_sk
    | intro _
    | split
    | dsimp only

/-! ## The argument nodes along the steps -/

theorem ArgNode.nth {m : Module} {s : LLVMPSSBuilder} {G r j : Nat}
    (hr : (s.subgraphs_map G).root = some r) (hj : j < argCount m G) :
    ArgNode m s (r + 2 + j) :=
  ⟨G, r, hr, by omega, by omega⟩

theorem ArgNode.last_arg {m : Module} {s : LLVMPSSBuilder} {G r : Nat}
    (hr : (s.subgraphs_map G).root = some r) (hpos : 0 < argCount m G) :
    ArgNode m s (r + 1 + argCount m G) :=
  ⟨G, r, hr, by omega, by omega⟩

/-- A step that keeps the registry, the block cache, the successors of the argument
nodes and the nodes of the arguments keeps the shape of the argument nodes. -/
theorem AW.step {m : Module} {Pend : Nat → Option ((Nat × Nat) × (Nat × Nat))}
    {s s' : LLVMPSSBuilder} (haw : AW m s) (hpw : PW m Pend s) (hg : Grow s s')
    (hk : ∀ n, ArgNode m s n → (s'.node n).successors = (s.node n).successors)
    (hmap : ∀ G idx, s'.nodes_map (.arg G idx) = s.nodes_map (.arg G idx)) : AW m s' := by
  refine ⟨?_, ?_, ?_, ?_, ?_, ?_⟩
  · intro G r j hr hj
    rw [hg.subg_eq] at hr
    have ha : ArgNode m s (r + 2 + j) := ArgNode.nth hr hj
    rw [hg.kind_eq _ (ha.lt_size hpw)]
    exact haw.kinds G r j hr hj
  · intro G r j hr hj
    rw [hg.subg_eq] at hr
    rw [hk _ (ArgNode.nth hr (by omega))]
    exact haw.chain G r j hr hj
  · intro G r hr hpos
    rw [hg.subg_eq] at hr
    rw [hk _ (ArgNode.last_arg hr hpos)]
    exact haw.last G r hr hpos
  · intro G r hr
    rw [hg.subg_eq] at hr ⊢
    exact haw.second G r hr
  · intro G r idx A hr hA hp
    rw [hg.subg_eq] at hr
    rw [hmap]
    exact haw.argmap G r idx A hr hA hp
  · intro F b l hl
    rw [hg.blocks_eq] at hl
    obtain ⟨h1, h2⟩ := haw.blocks_last F b l hl
    refine ⟨lt_of_lt_of_le h1 hg.size_le, ?_⟩
    rw [ArgNode.of_subg_eq hg.subg_eq]
    exact h2

/-- A step that keeps the successors of all existing nodes and maps no argument. -/
theorem AW.step_keep_aw {m : Module} {Pend : Nat → Option ((Nat × Nat) × (Nat × Nat))}
    {T : Nat → Prop} {I : Value} {s s' : LLVMPSSBuilder} (haw : AW m s) (hpw : PW m Pend s)
    (hg : Grow s s') (hk : SuccKeep s s') (hq : Quiet T I s s')
    (hI : ∀ G idx, I ≠ .arg G idx) : AW m s' := by
  refine haw.step hpw hg (fun n hn => hk.old_eq n (hn.lt_size hpw)) ?_
  intro G idx
  exact hq.map_eq _ (fun hc => hI G idx hc.symm) rfl

theorem Grow.add_succ_grow (s : LLVMPSSBuilder) (p t : Nat) :
    Grow s (s.update p fun x => { x with successors := x.successors ++ [t] }) :=
  Grow.update_grow s p _ (fun _ => rfl) (fun _ => rfl) (fun _ => List.prefix_append _ _)

theorem Quiet.add_succ_quiet (T : Nat → Prop) (I : Value) (s : LLVMPSSBuilder) (p t : Nat) :
    Quiet T I s (s.update p fun x => { x with successors := x.successors ++ [t] }) :=
  Quiet.update_quiet T I s p _ (fun _ => rfl)

/-- A new successor of a node that is no argument node. -/
theorem AW.add_succ_aw {m : Module} {Pend : Nat → Option ((Nat × Nat) × (Nat × Nat))}
    {s : LLVMPSSBuilder} (haw : AW m s) (hpw : PW m Pend s) {p : Nat} (t : Nat)
    (hp : ¬ ArgNode m s p) :
    AW m (s.update p fun x => { x with successors := x.successors ++ [t] }) := by
  refine haw.step hpw (Grow.add_succ_grow s p t) ?_ (fun _ _ => rfl)
  intro n hn
  rw [LLVMPSSBuilder.update_node, if_neg]
  intro hc
  subst hc
  exact hp hn

/-- A new successor of a node, in the progress invariant. -/
theorem PW.add_succ_pw {m : Module} {Pend : Nat → Option ((Nat × Nat) × (Nat × Nat))}
    {s : LLVMPSSBuilder} (hpw : PW m Pend s) (p t : Nat) :
    PW m Pend (s.update p fun x => { x with successors := x.successors ++ [t] }) :=
  hpw.step_same (T := fun _ => False) (Grow.add_succ_grow s p t) (Quiet.add_succ_quiet _ _ s p t)
    (fun _ h => h.elim)

/-- The first successor of the last argument node of a function. -/
theorem AW.add_last {m : Module} {Pend : Nat → Option ((Nat × Nat) × (Nat × Nat))}
    {s : LLVMPSSBuilder} (haw : AW m s) (hpw : PW m Pend s) {G r : Nat} (t : Nat)
    (hr : (s.subgraphs_map G).root = some r)
    (hnil : (s.node (r + 1 + argCount m G)).successors = []) :
    AW m (s.update (r + 1 + argCount m G) fun x =>
      { x with successors := x.successors ++ [t] }) := by
  have hg := Grow.add_succ_grow s (r + 1 + argCount m G) t
  refine ⟨?_, ?_, ?_, ?_, ?_, ?_⟩
  · intro G' r' j hr' hj
    have ha : ArgNode m s (r' + 2 + j) := ArgNode.nth hr' hj
    rw [hg.kind_eq _ (ha.lt_size hpw)]
    exact haw.kinds G' r' j hr' hj
  · intro G' r' j hr' hj
    have hc := haw.chain G' r' j hr' hj
    rw [LLVMPSSBuilder.update_node]
    split
    · rename_i heq
      rw [heq, hnil] at hc
      cases hc
    · exact hc
  · intro G' r' hr' hpos
    have hc := haw.last G' r' hr' hpos
    rw [LLVMPSSBuilder.update_node]
    split
    · rename_i heq
      rw [hnil]
      simp
    · exact hc
  · intro G' r' hr'
    exact haw.second G' r' hr'
  · intro G' r' idx A hr' hA hp
    exact haw.argmap G' r' idx A hr' hA hp
  · intro F b l hl
    exact haw.blocks_last F b l hl

/-- Recording the nodes of a block whose last node is no argument node. -/
theorem AW.set_block_aw {m : Module} {s : LLVMPSSBuilder} (haw : AW m s) (key : Nat × Nat)
    (nds : Option Nat × Option Nat) (hl : ∀ l, nds.2 = some l → l < s.size ∧ ¬ ArgNode m s l) :
    AW m { s with built_blocks := fun k => if k = key then nds else s.built_blocks k } := by
  refine ⟨haw.kinds, haw.chain, haw.last, haw.second, haw.argmap, ?_⟩
  intro F b l h
  simp only at h
  split at h
  · exact hl l h
  · exact haw.blocks_last F b l h

/-- Recording the nodes of a block, in the progress invariant. -/
theorem PW.set_block_pw {m : Module} {Pend : Nat → Option ((Nat × Nat) × (Nat × Nat))}
    {s : LLVMPSSBuilder} (hpw : PW m Pend s) (key : Nat × Nat)
    (nds : Option Nat × Option Nat) :
    PW m Pend { s with built_blocks := fun k => if k = key then nds else s.built_blocks k } :=
  ⟨hpw.null_lt, hpw.map_lt, hpw.null_none, hpw.unreg, hpw.pending, hpw.phi, hpw.phi_inj,
    hpw.args⟩

/-! ## The frame of the argument nodes and the edges to the `ret` nodes -/

theorem ArgFrame.rfl_af (m : Module) (s : LLVMPSSBuilder) : ArgFrame m s s :=
  ⟨fun _ h => h, fun _ _ h => h, fun _ _ => rfl⟩

theorem ArgFrame.trans_af {m : Module} {s1 s2 s3 : LLVMPSSBuilder}
    (h12 : ArgFrame m s1 s2) (h23 : ArgFrame m s2 s3) (hle : s1.size ≤ s2.size) :
    ArgFrame m s1 s3 := by
  refine ⟨fun n h => h23.mono n (h12.mono n h), ?_, ?_⟩
  · intro n hn h
    exact h12.anti n hn (h23.anti n (lt_of_lt_of_le hn hle) h)
  · intro n h
    rw [h23.succ_eq n (h12.mono n h), h12.succ_eq n h]

/-- A step that keeps the registry and the successors of the argument nodes. -/
theorem ArgFrame.of_grow {m : Module} {s s' : LLVMPSSBuilder} (hg : Grow s s')
    (hk : ∀ n, ArgNode m s n → (s'.node n).successors = (s.node n).successors) :
    ArgFrame m s s' :=
  ⟨fun n h => (ArgNode.of_subg_eq hg.subg_eq).mpr h,
    fun n _ h => (ArgNode.of_subg_eq hg.subg_eq).mp h, hk⟩

theorem ArgFrame.of_keep {m : Module} {Pend : Nat → Option ((Nat × Nat) × (Nat × Nat))}
    {s s' : LLVMPSSBuilder} (hpw : PW m Pend s) (hg : Grow s s') (hk : SuccKeep s s') :
    ArgFrame m s s' :=
  ArgFrame.of_grow hg (fun n hn => hk.old_eq n (hn.lt_size hpw))

theorem SuccLt.step_keep_sl {s s' : LLVMPSSBuilder} (h : SuccLt s) (hk : SuccKeep s s') :
    SuccLt s' := by
  intro n x hx
  by_cases h1 : n < s.size
  · rw [hk.old_eq n h1] at hx
    exact lt_of_lt_of_le (h n x hx) hk.size_le
  · by_cases h2 : n < s'.size
    · exact (hk.fresh_tgt n x (not_lt.mp h1) h2 hx).2
    · rw [hk.beyond n (not_lt.mp h2)] at hx
      exact lt_of_lt_of_le (h n x hx) hk.size_le

theorem SuccLt.add_succ_sl {s : LLVMPSSBuilder} (h : SuccLt s) (p : Nat) {x : Nat}
    (hx : x < s.size) :
    SuccLt (s.update p fun y => { y with successors := y.successors ++ [x] }) := by
  intro n y hy
  rw [LLVMPSSBuilder.update_node] at hy
  show y < s.size
  split at hy
  · simp only [List.mem_append, List.mem_singleton] at hy
    rcases hy with hy | hy
    · exact h _ y hy
    · rw [hy]
      exact hx
  · exact h n y hy

theorem IsRetLast.of_blocks_eq {m : Module} {s s' : LLVMPSSBuilder}
    (h : s'.built_blocks = s.built_blocks) (G n : Nat) :
    IsRetLast m s' G n ↔ IsRetLast m s G n := by
  unfold IsRetLast
  rw [h]

theorem IsRetLast.lt_size_rl {m : Module} {P : Nat → Prop} {s : LLVMPSSBuilder} (hwf : WF P s)
    {G n : Nat} (h : IsRetLast m s G n) : n < s.size := by
  obtain ⟨b, -, -, h2, -⟩ := h
  exact (hwf.blocks_ok G b n h2).1

/-- The `ret` node of a function with a subgraph. -/
theorem WF.ret_node {P : Nat → Prop} {s : LLVMPSSBuilder} (hwf : WF P s) {G t : Nat}
    (hr : (s.subgraphs_map G).root ≠ none) (ht : (s.subgraphs_map G).ret = some t) :
    t < s.size ∧ (s.node t).kind = .NOOP := by
  cases hx : (s.subgraphs_map G).root with
  | none => exact absurd hx hr
  | some r =>
    obtain ⟨-, -, t', h1, h2, h3⟩ := hwf.subg_ok G r hx
    rw [ht] at h1
    cases h1
    exact ⟨h2, h3⟩

/-- A step that leaves the successors of the existing nodes alone and maps no `ret`
instruction of a block already recorded keeps the edges to the `ret` nodes. -/
theorem RW.step_keep_rw {m : Module} {Pend : Nat → Option ((Nat × Nat) × (Nat × Nat))}
    {P : Nat → Prop} {T : Nat → Prop} {I : Value} {s s' : LLVMPSSBuilder}
    (hrw : RW m Pend s) (hwf : WF P s) (hg : Grow s s') (hk : SuccKeep s s')
    (hq : Quiet T I s s')
    (hI : ∀ G b i, I = .inst G b i → ∃ p q, Pend G = some (p, q) ∧ p.1 ≤ b) :
    RW m Pend s' := by
  have hfresh : ∀ G t n, (s.subgraphs_map G).root ≠ none → (s.subgraphs_map G).ret = some t →
      s.size ≤ n → n < s'.size → t ∉ (s'.node n).successors := by
    intro G t n hr ht h1 h2 hc
    have h3 := (hk.fresh_tgt n t h1 h2 hc).1
    have h4 := (hwf.ret_node hr ht).1
    omega
  refine ⟨hrw.succ_lt.step_keep_sl hk, ?_, ?_, ?_, ?_⟩
  · intro G p q t hr hp ht n hn
    rw [hg.subg_eq] at hr ht
    by_cases h1 : n < s.size
    · rw [hk.old_eq n h1]
      exact hrw.pend G p q t hr hp ht n h1
    · exact hfresh G t n hr ht (not_lt.mp h1) hn
  · intro G t hr hp ht n hn
    rw [hg.subg_eq] at hr ht
    rw [IsRetLast.of_blocks_eq hg.blocks_eq]
    by_cases h1 : n < s.size
    · rw [hk.old_eq n h1]
      exact hrw.done G t hr hp ht n h1
    · constructor
      · intro hc
        exact absurd hc (hfresh G t n hr ht (not_lt.mp h1) hn)
      · intro hc
        exact absurd (hc.lt_size_rl hwf) h1
  · intro G b f hf
    rw [hg.blocks_eq] at hf
    obtain ⟨h1, h2⟩ := hrw.firsts G b f hf
    refine ⟨lt_of_lt_of_le h1 hg.size_le, ?_⟩
    rw [hg.kind_eq f h1]
    exact h2
  · intro G b i rv hr hi hl hp
    rw [hg.subg_eq] at hr
    obtain ⟨n, h1, h2, h3⟩ := hrw.rets G b i rv hr hi hl hp
    have hne : Value.inst G b i ≠ I := by
      intro hc
      obtain ⟨p, q, h4, h5⟩ := hI G b i hc.symm
      have := hp p q h4
      omega
    refine ⟨n, ?_, ?_, ?_⟩
    · rw [hq.map_eq _ hne rfl]
      exact h1
    · rw [hg.blocks_eq]
      exact h2
    · rw [hg.kind_eq n (hwf.blocks_ok G b n h2).1]
      exact h3

/-- A new successor that is no `NOOP` node keeps the edges to the `ret` nodes. -/
theorem RW.add_succ_rw {m : Module} {Pend : Nat → Option ((Nat × Nat) × (Nat × Nat))}
    {s : LLVMPSSBuilder} (hrw : RW m Pend s)
    (hkr : ∀ G t, (s.subgraphs_map G).root ≠ none → (s.subgraphs_map G).ret = some t →
      (s.node t).kind = .NOOP) (p : Nat)
    {x : Nat} (hx : x < s.size) (hk : (s.node x).kind ≠ .NOOP) :
    RW m Pend (s.update p fun y => { y with successors := y.successors ++ [x] }) := by
  have hmem : ∀ G t n, (s.subgraphs_map G).root ≠ none → (s.subgraphs_map G).ret = some t →
      (t ∈ ((s.update p fun y => { y with successors := y.successors ++ [x] }).node
        n).successors ↔ t ∈ (s.node n).successors) := by
    intro G t n hr ht
    have hne : t ≠ x := by
      intro hc
      rw [← hc] at hk
      exact hk (hkr G t hr ht)
    rw [LLVMPSSBuilder.update_node]
    split
    · subst_vars
      simp [hne]
    · rfl
  have hkind : ∀ n, ((s.update p fun y => { y with successors := y.successors ++ [x] }).node
      n).kind = (s.node n).kind := by
    intro n
    rw [LLVMPSSBuilder.update_node]
    split
    · subst_vars
      rfl
    · rfl
  refine ⟨hrw.succ_lt.add_succ_sl p hx, ?_, ?_, ?_, ?_⟩
  · intro G q1 q2 t hr hp ht n hn
    rw [hmem G t n hr ht]
    exact hrw.pend G q1 q2 t hr hp ht n hn
  · intro G t hr hp ht n hn
    rw [hmem G t n hr ht]
    exact hrw.done G t hr hp ht n hn
  · intro G b f hf
    rw [hkind]
    exact hrw.firsts G b f hf
  · intro G b i rv hr hi hl hp
    obtain ⟨n, h1, h2, h3⟩ := hrw.rets G b i rv hr hi hl hp
    exact ⟨n, h1, h2, by rw [hkind]; exact h3⟩

/-- Moving on inside the same blocks keeps the edges to the `ret` nodes. -/
theorem RW.repend {m : Module} {Pend Pend' : Nat → Option ((Nat × Nat) × (Nat × Nat))}
    {s : LLVMPSSBuilder} (hrw : RW m Pend s)
    (h1 : ∀ G, Pend' G = none ↔ Pend G = none)
    (h2 : ∀ G p q p' q', Pend G = some (p, q) → Pend' G = some (p', q') → p'.1 ≤ p.1) :
    RW m Pend' s := by
  have hsome : ∀ G p' q', Pend' G = some (p', q') → ∃ p q, Pend G = some (p, q) := by
    intro G p' q' h
    cases hx : Pend G with
    | none =>
      rw [(h1 G).mpr hx] at h
      cases h
    | some pq => exact ⟨pq.1, pq.2, rfl⟩
  refine ⟨hrw.succ_lt, ?_, ?_, hrw.firsts, ?_⟩
  · intro G p' q' t hr hp ht n hn
    obtain ⟨p, q, hpq⟩ := hsome G p' q' hp
    exact hrw.pend G p q t hr hpq ht n hn
  · intro G t hr hp ht n hn
    exact hrw.done G t hr ((h1 G).mp hp) ht n hn
  · intro G b i rv hr hi hl hp
    refine hrw.rets G b i rv hr hi hl ?_
    intro p q hpq
    cases hx : Pend' G with
    | none =>
      rw [(h1 G).mp hx] at hpq
      cases hpq
    | some pq' =>
      have := hp pq'.1 pq'.2 hx
      have := h2 G p q pq'.1 pq'.2 hpq hx
      omega

/-! ## Steps that keep all the invariants -/

/-- A step that builds no call or subgraph structure, leaves the successors of the
existing nodes alone and lowers no instruction keeps the invariants. -/
theorem plain_step {m : Module} {Pend : Nat → Option ((Nat × Nat) × (Nat × Nat))}
    {P : Nat → Prop} {T : Nat → Prop} {s s' : LLVMPSSBuilder}
    (hwf : WF P s) (hpw : PW m Pend s) (haw : AW m s) (hrw : RW m Pend s)
    (hi : Inert s s') (hk : SuccKeep s s') (hq : Quiet T (.const (.nullPtr 0)) s s')
    (hT : ∀ n, T n → ArgNode m s n ∨ (s.node n).kind ≠ .PHI) :
    WF P s' ∧ PW m Pend s' ∧ AW m s' ∧ RW m Pend s' ∧ ArgFrame m s s' :=
  ⟨hwf.step_inert hi, hpw.step_same hi.to_grow hq hT,
    haw.step_keep_aw hpw hi.to_grow hk hq (fun _ _ h => by cases h),
    hrw.step_keep_rw hwf hi.to_grow hk hq (fun _ _ _ h => by cases h),
    ArgFrame.of_keep hpw hi.to_grow hk⟩

theorem getOperand_inv {m : Module} {Pend : Nat → Option ((Nat × Nat) × (Nat × Nat))}
    {P : Nat → Prop} {v : Value} {op : Nat} {s s' : LLVMPSSBuilder}
    (hwf : WF P s) (hpw : PW m Pend s) (haw : AW m s) (hrw : RW m Pend s)
    (h : getOperand m v s = .ok (op, s')) :
    (WF P s' ∧ PW m Pend s' ∧ AW m s' ∧ RW m Pend s' ∧ ArgFrame m s s') ∧ Inert s s' ∧
      SuccKeep s s' ∧ (∀ T I, Quiet T I s s') ∧ operandOf s' v = some op := by
  have hi := getOperand_inert h
  have hk := (getOperand_succkeeps m v).keeps _ _ _ h
  obtain ⟨hq, hop⟩ := getOperand_quiet h
  exact ⟨plain_step hwf hpw haw hrw hi hk (hq.1 (fun _ => False) _) (fun _ hn => hn.elim),
    hi, hk, hq.1, hop⟩

/-- What `getOperand` gives for a value that the maps resolve: the node `operandOf`
reads off, in the same state. -/
theorem getOperand_of_operandOf {m : Module} {s : LLVMPSSBuilder} {v : Value} {op : Nat}
    (h : operandOf s v = some op) : getOperand m v s = .ok (op, s) := by
  unfold getOperand getOperandAux
  unfold operandOf at h
  have h0 : getNode v s = .ok (s.nodes_map v, s) := rfl
  rw [M.bind_run h0]
  cases hv : s.nodes_map v with
  | some x =>
    simp only [hv] at h ⊢
    have h1 : (pure x : M Nat) s = .ok (x, s) := rfl
    rw [M.bind_run h1]
    have h2 : getNodeData x s = .ok (s.node x, s) := rfl
    rw [M.bind_run h2]
    by_cases hk : (s.node x).kind = .CALL ∨ (s.node x).kind = .CALL_FUNCPTR
    · rw [if_pos hk] at h ⊢
      have h3 : (pure (s.node x).pairedNode : M (Option Nat)) s =
          .ok ((s.node x).pairedNode, s) := rfl
      rw [M.bind_run h3, h]
      rfl
    · rw [if_neg hk] at h ⊢
      have h3 : (pure (some x) : M (Option Nat)) s = .ok (some x, s) := rfl
      rw [M.bind_run h3]
      cases h
      rfl
  | none =>
    simp only [hv] at h ⊢
    cases v with
    | const c =>
      cases c with
      | nullPtr a =>
        simp only at h
        have h1 : getConstant m (fun c => getOperandAux m (Value.const (.nullPtr a)).depth
            (.const c)) (.const (.nullPtr a)) s = .ok (NULLPTR, s) := rfl
        rw [M.bind_run h1]
        have h2 : getNodeData NULLPTR s = .ok (s.node NULLPTR, s) := rfl
        rw [M.bind_run h2]
        by_cases hk : (s.node NULLPTR).kind = .CALL ∨ (s.node NULLPTR).kind = .CALL_FUNCPTR
        · rw [if_pos hk] at h ⊢
          have h3 : (pure (s.node NULLPTR).pairedNode : M (Option Nat)) s =
              .ok ((s.node NULLPTR).pairedNode, s) := rfl
          rw [M.bind_run h3, h]
          rfl
        · rw [if_neg hk] at h ⊢
          have h3 : (pure (some NULLPTR) : M (Option Nat)) s = .ok (some NULLPTR, s) := rfl
          rw [M.bind_run h3]
          cases h
          rfl
      | _ => cases h
    | _ => cases h

/-- Changing one node changes the operands of that node at most. -/
theorem Quiet.update_at (I : Value) (s : LLVMPSSBuilder) (n : Nat) (f : PSSNode → PSSNode) :
    Quiet (fun x => x = n) I s (s.update n f) := by
  refine ⟨le_refl _, ?_, fun _ _ _ => rfl, fun _ _ h => h, fun _ => rfl⟩
  intro i _ hi
  rw [LLVMPSSBuilder.update_node, if_neg hi]

theorem addOperand_inv {m : Module} {Pend : Nat → Option ((Nat × Nat) × (Nat × Nat))}
    {P : Nat → Prop} {s : LLVMPSSBuilder} (n op : Nat)
    (hwf : WF P s) (hpw : PW m Pend s) (haw : AW m s) (hrw : RW m Pend s)
    (hn : ArgNode m s n ∨ (s.node n).kind ≠ .PHI) :
    WF P (s.update n fun x => { x with operands := x.operands ++ [some op] }) ∧
      PW m Pend (s.update n fun x => { x with operands := x.operands ++ [some op] }) ∧
      AW m (s.update n fun x => { x with operands := x.operands ++ [some op] }) ∧
      RW m Pend (s.update n fun x => { x with operands := x.operands ++ [some op] }) ∧
      ArgFrame m s (s.update n fun x => { x with operands := x.operands ++ [some op] }) := by
  have h : addOperand n op s =
      .ok ((), s.update n fun x => { x with operands := x.operands ++ [some op] }) := rfl
  refine plain_step hwf hpw haw hrw (addOperand_inert h)
    ((addOperand_succkeeps n op).keeps _ _ _ h)
    (Quiet.update_at _ s n _) ?_
  · intro k hk
    rw [hk]
    exact hn

/-! ## The walk over the parameters at a call -/

theorem ptrsBefore_zero (m : Module) (F : Nat) : ptrsBefore m F 0 = 0 := rfl

theorem ptrsBefore_succ {m : Module} {F idx : Nat} {A : Ty}
    (h : (m.getFunc F).params.get? idx = some A) :
    ptrsBefore m F (idx + 1) = ptrsBefore m F idx + (if A.isPointerTy then 1 else 0) := by
  unfold ptrsBefore
  rw [List.take_succ, ← List.get?_eq_getElem?, h]
  simp only [Option.toList, List.filter_append, List.length_append]
  by_cases hA : A.isPointerTy = true
  · simp [hA]
  · simp [hA]

theorem ptrsBefore_mono (m : Module) (F : Nat) {i j : Nat} (h : i ≤ j) :
    ptrsBefore m F i ≤ ptrsBefore m F j := by
  unfold ptrsBefore
  have : (m.getFunc F).params.take i = ((m.getFunc F).params.take j).take i := by
    rw [List.take_take, Nat.min_eq_left h]
  rw [this]
  exact List.Sublist.length_le ((List.take_sublist _ _).filter _)

theorem ptrsBefore_le (m : Module) (F idx : Nat) : ptrsBefore m F idx ≤ ptrParams m F := by
  unfold ptrsBefore ptrParams
  exact List.Sublist.length_le ((List.take_sublist _ _).filter _)

theorem ptrsBefore_all {m : Module} {F idx : Nat} (h : (m.getFunc F).params.length ≤ idx) :
    ptrsBefore m F idx = ptrParams m F := by
  unfold ptrsBefore ptrParams
  rw [List.take_of_length_le h]

theorem ptrsBefore_lt {m : Module} {F idx : Nat} {A : Ty}
    (h : (m.getFunc F).params.get? idx = some A) (hA : A.isPointerTy = true) :
    ptrsBefore m F idx < ptrParams m F := by
  have h1 := ptrsBefore_succ h
  rw [if_pos hA] at h1
  have h2 := ptrsBefore_le m F (idx + 1)
  omega

theorem ptrsBefore_lt_of_lt {m : Module} {F i j : Nat} {A : Ty}
    (h : (m.getFunc F).params.get? i = some A) (hA : A.isPointerTy = true) (hij : i < j) :
    ptrsBefore m F i < ptrsBefore m F j := by
  have h1 := ptrsBefore_succ h
  rw [if_pos hA] at h1
  have h2 := ptrsBefore_mono m F (show i + 1 ≤ j from hij)
  omega

theorem ptrParams_le_argCount (m : Module) (F : Nat) : ptrParams m F ≤ argCount m F := by
  unfold argCount
  omega

/-- The node of a pointer parameter is an argument node. -/
theorem ArgNode.of_param {m : Module} {s : LLVMPSSBuilder} {F r idx : Nat} {A : Ty}
    (hr : (s.subgraphs_map F).root = some r)
    (h : (m.getFunc F).params.get? idx = some A) (hA : A.isPointerTy = true) :
    ArgNode m s (r + 2 + ptrsBefore m F idx) :=
  ArgNode.nth hr (lt_of_lt_of_le (ptrsBefore_lt h hA) (ptrParams_le_argCount m F))

/-- The step of the walk for a pointer parameter, after `getOperand` has given the
operand: the operand is appended to the argument node, the invariants stay, the
argument node has one successor at most, and the walk moves on to the next argument
node. -/
theorem argWalk_head {m : Module} {Pend : Nat → Option ((Nat × Nat) × (Nat × Nat))}
    {P : Nat → Prop} {F r idx : Nat} (op : Nat) {A : Ty} {s : LLVMPSSBuilder}
    (hwf : WF P s) (hpw : PW m Pend s) (haw : AW m s) (hrw : RW m Pend s)
    (hr : (s.subgraphs_map F).root = some r)
    (hA : (m.getFunc F).params.get? idx = some A) (hp : A.isPointerTy = true) :
    (WF P (s.update (r + 2 + ptrsBefore m F idx) fun x =>
        { x with operands := x.operands ++ [some op] }) ∧
      PW m Pend (s.update (r + 2 + ptrsBefore m F idx) fun x =>
        { x with operands := x.operands ++ [some op] }) ∧
      AW m (s.update (r + 2 + ptrsBefore m F idx) fun x =>
        { x with operands := x.operands ++ [some op] }) ∧
      RW m Pend (s.update (r + 2 + ptrsBefore m F idx) fun x =>
        { x with operands := x.operands ++ [some op] }) ∧
      ArgFrame m s (s.update (r + 2 + ptrsBefore m F idx) fun x =>
        { x with operands := x.operands ++ [some op] })) ∧
      (s.node (r + 2 + ptrsBefore m F idx)).successors.length ≤ 1 ∧
      (ptrsBefore m F (idx + 1) < argCount m F →
        (if (s.node (r + 2 + ptrsBefore m F idx)).successors.length = 1
          then (s.node (r + 2 + ptrsBefore m F idx)).successors.head?
          else some (r + 2 + ptrsBefore m F idx)) =
        some (r + 2 + ptrsBefore m F (idx + 1))) := by
  have hj := ptrsBefore_lt hA hp
  have hjc := ptrParams_le_argCount m F
  have hs := ptrsBefore_succ hA
  rw [if_pos hp] at hs
  refine ⟨addOperand_inv _ op hwf hpw haw hrw (Or.inl (ArgNode.of_param hr hA hp)), ?_, ?_⟩
  · by_cases hl : ptrsBefore m F idx + 1 < argCount m F
    · rw [haw.chain F r _ hr hl]
      simp
    · have : r + 2 + ptrsBefore m F idx = r + 1 + argCount m F := by omega
      rw [this]
      exact haw.last F r hr (by omega)
  · intro hlt
    rw [hs] at hlt ⊢
    rw [haw.chain F r _ hr hlt]
    simp only [List.length_singleton, if_true, List.head?_cons]
    congr 1
    omega

theorem createCallToFunctionArgs_inv {m : Module}
    {Pend : Nat → Option ((Nat × Nat) × (Nat × Nat))} {P : Nat → Prop}
    {args : List Value} {F r : Nat} :
    ∀ (rest : List Ty) (idx : Nat) (arg : Option Nat) (res : Nat × Option Nat)
      (s s' : LLVMPSSBuilder), WF P s → PW m Pend s → AW m s → RW m Pend s →
      (s.subgraphs_map F).root = some r →
      (∀ k, rest.get? k = (m.getFunc F).params.get? (idx + k)) →
      (ptrsBefore m F idx < argCount m F → arg = some (r + 2 + ptrsBefore m F idx)) →
      createCallToFunctionArgs m args rest idx arg s = .ok (res, s') →
      (WF P s' ∧ PW m Pend s' ∧ AW m s' ∧ RW m Pend s' ∧ ArgFrame m s s') ∧ Inert s s' ∧
        Quiet (fun _ => True) (.const (.nullPtr 0)) s s' ∧
        res.1 = idx + rest.length ∧
        (ptrsBefore m F (idx + rest.length) < argCount m F →
          res.2 = some (r + 2 + ptrsBefore m F (idx + rest.length))) ∧
        (∀ k A, rest.get? k = some A → A.isPointerTy = true →
          ∃ v op, args.get? (idx + k) = some v ∧ operandOf s' v = some op ∧
            (s'.node (r + 2 + ptrsBefore m F (idx + k))).operands =
              (s.node (r + 2 + ptrsBefore m F (idx + k))).operands ++ [some op]) ∧
        (∀ n, n < s.size →
          (∀ k A, rest.get? k = some A → A.isPointerTy = true →
            n ≠ r + 2 + ptrsBefore m F (idx + k)) →
          (s'.node n).operands = (s.node n).operands) := by
  intro rest
  induction rest with
  | nil =>
    intro idx arg res s s' hwf hpw haw hrw _ _ harg h
    unfold createCallToFunctionArgs at h
    obtain ⟨rfl, rfl⟩ := (M.pure_ok _ _ _ _).mp h
    refine ⟨⟨hwf, hpw, haw, hrw, ArgFrame.rfl_af m _⟩, Inert.rfl_inert _, Quiet.rfl_quiet _ _ _,
      rfl, harg, ?_, fun _ _ _ => rfl⟩
    intro k A hk
    cases hk
  | cons A rest ih =>
    intro idx arg res s s' hwf hpw haw hrw hr hrest harg h
    have hA : (m.getFunc F).params.get? idx = some A := by
      have := hrest 0
      simpa using this.symm
    have hrest' : ∀ k, rest.get? k = (m.getFunc F).params.get? (idx + 1 + k) := by
      intro k
      have := hrest (k + 1)
      rw [List.get?_cons_succ] at this
      rw [this]
      congr 1
      omega
    have hlen : idx + (A :: rest).length = idx + 1 + rest.length := by
      simp only [List.length_cons]
      omega
    unfold createCallToFunctionArgs at h
    by_cases hp : A.isPointerTy = true
    · rw [if_pos hp] at h
      have hj := ptrsBefore_lt hA hp
      have hjc := ptrParams_le_argCount m F
      rw [harg (by omega)] at h
      simp only [M.bind_ok, getNodeData_ok, M.assert_ok] at h
      obtain ⟨v, s0, hv0, op, s1, hop, u, s2, hadd, x, s3, ⟨rfl, rfl⟩, u', s4, ⟨-, rfl⟩, h⟩ := h
      obtain ⟨rfl, hv⟩ := getArgOperand_ok hv0
      obtain ⟨⟨w1, p1, a1, r1, f1⟩, i1, k1, q1, o1⟩ := getOperand_inv hwf hpw haw hrw hop
      have hr1 : (s1.subgraphs_map F).root = some r := by
        rw [i1.subg_eq]
        exact hr
      unfold addOperand at hadd
      rw [M.modify_ok] at hadd
      subst hadd
      obtain ⟨⟨w2, p2, a2, r2, f2⟩, hl2, hnext⟩ :=
        argWalk_head op w1 p1 a1 r1 hr1 hA hp
      have hnode : ∀ n, ((s1.update (r + 2 + ptrsBefore m F idx) fun x =>
          { x with operands := x.operands ++ [some op] }).node n).successors =
          (s1.node n).successors := by
        intro n
        rw [LLVMPSSBuilder.update_node]
        split
        · subst_vars
          rfl
        · rfl
      rw [hnode] at h
      have hr2 : ((s1.update (r + 2 + ptrsBefore m F idx) fun x =>
          { x with operands := x.operands ++ [some op] }).subgraphs_map F).root = some r := hr1
      obtain ⟨⟨w3, p3, a3, r3, f3⟩, i3, q3, e1, e2, e3, e4⟩ :=
        ih (idx + 1) _ res _ s' w2 p2 a2 r2 hr2 hrest' hnext h
      have hadd' : addOperand (r + 2 + ptrsBefore m F idx) op s1 =
          .ok ((), s1.update (r + 2 + ptrsBefore m F idx) fun x =>
            { x with operands := x.operands ++ [some op] }) := rfl
      have i2 := addOperand_inert hadd'
      have q2 : Quiet (fun _ => True) (.const (.nullPtr 0)) s1
          (s1.update (r + 2 + ptrsBefore m F idx) fun x =>
            { x with operands := x.operands ++ [some op] }) :=
        (Quiet.update_at _ s1 _ _).weaken (fun _ _ => trivial)
      have halt : r + 2 + ptrsBefore m F idx < s.size :=
        (ArgNode.of_param hr hA hp).lt_size hpw
      refine ⟨⟨w3, p3, a3, r3, (f1.trans_af (f2.trans_af f3 i2.size_le) i1.size_le)⟩,
        (i1.trans_inert i2).trans_inert i3,
        ((q1 _ _).trans_quiet q2).trans_quiet q3, ?_, ?_, ?_, ?_⟩
      · rw [e1, hlen]
      · rw [hlen]
        exact e2
      · intro k B hk hB
        cases k with
        | zero =>
          simp only [List.get?_cons_zero, Option.some.injEq] at hk
          subst hk
          refine ⟨v, op, hv, ?_, ?_⟩
          · have o2 : operandOf (s1.update (r + 2 + ptrsBefore m F idx) fun x =>
                { x with operands := x.operands ++ [some op] }) v = some op :=
              q2.operandOf_keep i2.to_grow p1.map_lt p1.null_lt (Or.inr rfl) o1
            exact q3.operandOf_keep i3.to_grow p2.map_lt p2.null_lt (Or.inr rfl) o2
          · show (s'.node (r + 2 + ptrsBefore m F idx)).operands =
              (s.node (r + 2 + ptrsBefore m F idx)).operands ++ [some op]
            rw [e4 _ (lt_of_lt_of_le halt i1.size_le) ?_]
            · rw [LLVMPSSBuilder.update_node, if_pos rfl]
              simp only
              rw [(q1 (fun _ => False) (.const (.nullPtr 0))).ops_eq _ halt (fun hc => hc)]
            · intro k C hk hC
              have hC' : (m.getFunc F).params.get? (idx + 1 + k) = some C := by
                rw [← hrest' k]
                exact hk
              have := ptrsBefore_lt_of_lt hA hp (show idx < idx + 1 + k by omega)
              omega
        | succ k =>
          rw [List.get?_cons_succ] at hk
          obtain ⟨v', op', g1, g2, g3⟩ := e3 k B hk hB
          have hidx : idx + (k + 1) = idx + 1 + k := by omega
          rw [hidx]
          refine ⟨v', op', g1, g2, ?_⟩
          rw [g3]
          congr 1
          have hB' : (m.getFunc F).params.get? (idx + 1 + k) = some B := by
            rw [← hrest' k]
            exact hk
          have hlt := ptrsBefore_lt_of_lt hA hp (show idx < idx + 1 + k by omega)
          rw [LLVMPSSBuilder.update_node, if_neg (by omega)]
          exact (q1 (fun _ => False) (.const (.nullPtr 0))).ops_eq _
            ((ArgNode.of_param hr hB' hB).lt_size hpw) (fun hc => hc)
      · intro n hn hne
        have hn1 : n < s1.size := lt_of_lt_of_le hn i1.size_le
        rw [e4 n hn1 ?_]
        · have h0 : n ≠ r + 2 + ptrsBefore m F idx := hne 0 A rfl hp
          rw [LLVMPSSBuilder.update_node, if_neg h0]
          exact (q1 (fun _ => False) (.const (.nullPtr 0))).ops_eq _ hn (fun hc => hc)
        · intro k C hk hC
          have := hne (k + 1) C (by rw [List.get?_cons_succ]; exact hk) hC
          have hidx : idx + (k + 1) = idx + 1 + k := by omega
          rw [hidx] at this
          exact this
    · rw [if_neg hp] at h
      have hs := ptrsBefore_succ hA
      rw [if_neg hp, Nat.add_zero] at hs
      obtain ⟨g0, i3, q3, e1, e2, e3, e4⟩ :=
        ih (idx + 1) arg res s s' hwf hpw haw hrw hr hrest' (by rw [hs]; exact harg) h
      refine ⟨g0, i3, q3, ?_, ?_, ?_, ?_⟩
      · rw [e1, hlen]
      · rw [hlen]
        exact e2
      · intro k B hk hB
        cases k with
        | zero =>
          simp only [List.get?_cons_zero, Option.some.injEq] at hk
          subst hk
          exact absurd hB hp
        | succ k =>
          rw [List.get?_cons_succ] at hk
          have hidx : idx + (k + 1) = idx + 1 + k := by omega
          rw [hidx]
          exact e3 k B hk hB
      · intro n hn hne
        refine e4 n hn ?_
        intro k C hk hC
        have := hne (k + 1) C (by rw [List.get?_cons_succ]; exact hk) hC
        have hidx : idx + (k + 1) = idx + 1 + k := by omega
        rw [hidx] at this
        exact this

/-! ## The setup of a call to a function -/

/-- Adding a node. -/
theorem Grow.push_grow (s : LLVMPSSBuilder) (x : PSSNode) : Grow s (s.push x) := by
  have hold : ∀ n, n < s.size → (s.push x).node n = s.node n := by
    intro n hn
    rw [LLVMPSSBuilder.push_node, if_neg (ne_of_lt hn)]
  refine ⟨Nat.le_succ _, fun n hn => by rw [hold n hn], fun n hn => by rw [hold n hn],
    fun n hn => by rw [hold n hn], rfl, rfl, ?_⟩
  intro h v n hv
  exact Nat.lt_succ_of_lt (h v n hv)

/-- Changing a node made by the step. -/
theorem Grow.update_fresh {s s1 : LLVMPSSBuilder} (h : Grow s s1) (n : Nat)
    (f : PSSNode → PSSNode) (hn : s.size ≤ n) : Grow s (s1.update n f) := by
  have hold : ∀ i, i < s.size → (s1.update n f).node i = s1.node i := by
    intro i hi
    rw [LLVMPSSBuilder.update_node, if_neg (by omega)]
  exact ⟨h.size_le, fun i hi => by rw [hold i hi]; exact h.kind_eq i hi,
    fun i hi => by rw [hold i hi]; exact h.paired_eq i hi,
    fun i hi => by rw [hold i hi]; exact h.succ_prefix i hi, h.subg_eq, h.blocks_eq, h.map_lt⟩

/-- A step that only adds to the graph, leaves the successors of the existing nodes
alone and lowers no instruction keeps the invariants on the maps and the edges. -/
theorem grow_step {m : Module} {Pend : Nat → Option ((Nat × Nat) × (Nat × Nat))}
    {P : Nat → Prop} {T : Nat → Prop} {s s' : LLVMPSSBuilder}
    (hwf : WF P s) (hpw : PW m Pend s) (haw : AW m s) (hrw : RW m Pend s)
    (hg : Grow s s') (hk : SuccKeep s s') (hq : Quiet T (.const (.nullPtr 0)) s s')
    (hT : ∀ n, T n → ArgNode m s n ∨ (s.node n).kind ≠ .PHI) :
    PW m Pend s' ∧ AW m s' ∧ RW m Pend s' ∧ ArgFrame m s s' :=
  ⟨hpw.step_same hg hq hT, haw.step_keep_aw hpw hg hk hq (fun _ _ h => by cases h),
    hrw.step_keep_rw hwf hg hk hq (fun _ _ _ h => by cases h), ArgFrame.of_keep hpw hg hk⟩

/-- Argument nodes are `PHI` nodes. -/
theorem ArgNode.kind_phi {m : Module} {s : LLVMPSSBuilder} (haw : AW m s) {n : Nat}
    (h : ArgNode m s n) : (s.node n).kind = .PHI := by
  obtain ⟨G, r, hr, h1, h2⟩ := h
  have := haw.kinds G r (n - (r + 2)) hr (by omega)
  rw [show r + 2 + (n - (r + 2)) = n by omega] at this
  exact this

/-- The frames of the step that makes the two nodes of a direct call. -/
theorem callPair_frames {q c : Nat} {u1 u2 : Unit} {s s1 s2 s3 s4 : LLVMPSSBuilder}
    (h1 : mkOpNode .CALL_RETURN [] s = .ok (q, s1))
    (h2 : mkOpNode .CALL [] s1 = .ok (c, s2))
    (h3 : setPairedNode q c s2 = .ok (u1, s3))
    (h4 : setPairedNode c q s3 = .ok (u2, s4)) :
    Grow s s4 ∧ SuccKeep s s4 ∧ (∀ T I, Quiet T I s s4) ∧
      (s4.node q).operands = [] ∧ (s4.node c).operands = [] := by
  have k1 := (mkOpNode_succkeeps _ _).keeps _ _ _ h1
  have k2 := (mkOpNode_succkeeps _ _).keeps _ _ _ h2
  have k3 := (setPairedNode_succkeeps _ _).keeps _ _ _ h3
  have k4 := (setPairedNode_succkeeps _ _).keeps _ _ _ h4
  have q1 := fun T I => (mkOpNode_quiets T I _ _).keeps _ _ _ h1
  have q2 := fun T I => (mkOpNode_quiets T I _ _).keeps _ _ _ h2
  have q3 := fun T I => (setPairedNode_quiets T I _ _).keeps _ _ _ h3
  have q4 := fun T I => (setPairedNode_quiets T I _ _).keeps _ _ _ h4
  obtain ⟨x, -, -, -, xo, rfl, rfl⟩ := mkOpNode_ok _ _ _ _ _ h1
  obtain ⟨y, -, -, -, yo, rfl, rfl⟩ := mkOpNode_ok _ _ _ _ _ h2
  rw [setPairedNode_ok] at h3
  subst h3
  rw [setPairedNode_ok] at h4
  subst h4
  refine ⟨?_, ((k1.trans_sk k2).trans_sk k3).trans_sk k4,
    fun T I => (((q1 T I).trans_quiet (q2 T I)).trans_quiet (q3 T I)).trans_quiet (q4 T I),
    ?_, ?_⟩
  · refine Grow.update_fresh (Grow.update_fresh
      ((Grow.push_grow s x).trans_grow (Grow.push_grow _ y)) _ _ (le_refl _)) _ _ ?_
    simp only [LLVMPSSBuilder.push_size]
    omega
  · simp [xo]
  · simp [yo]

/-- A new successor of a node that is no argument node, whose target is an existing
node that is no `NOOP` node, keeps the invariants on the maps and the edges. -/
theorem add_succ_step {m : Module} {Pend : Nat → Option ((Nat × Nat) × (Nat × Nat))}
    {s : LLVMPSSBuilder} (hpw : PW m Pend s) (haw : AW m s) (hrw : RW m Pend s)
    (hkr : ∀ G t, (s.subgraphs_map G).root ≠ none → (s.subgraphs_map G).ret = some t →
      (s.node t).kind = .NOOP)
    {p x : Nat} (hp : ¬ ArgNode m s p) (hx : x < s.size) (hk : (s.node x).kind ≠ .NOOP) :
    (PW m Pend (s.update p fun y => { y with successors := y.successors ++ [x] }) ∧
      AW m (s.update p fun y => { y with successors := y.successors ++ [x] }) ∧
      RW m Pend (s.update p fun y => { y with successors := y.successors ++ [x] }) ∧
      ArgFrame m s (s.update p fun y => { y with successors := y.successors ++ [x] })) ∧
      ∀ G t, ((s.update p fun y => { y with successors := y.successors ++ [x] }).subgraphs_map
          G).root ≠ none →
        ((s.update p fun y => { y with successors := y.successors ++ [x] }).subgraphs_map
          G).ret = some t →
        ((s.update p fun y => { y with successors := y.successors ++ [x] }).node t).kind =
          .NOOP := by
  refine ⟨⟨hpw.add_succ_pw p x, haw.add_succ_aw hpw x hp, hrw.add_succ_rw hkr p hx hk,
    ArgFrame.of_grow (Grow.add_succ_grow s p x) ?_⟩, ?_⟩
  · intro n hn
    rw [LLVMPSSBuilder.update_node, if_neg]
    intro hc
    subst hc
    exact hp hn
  · intro G t hr ht
    rw [LLVMPSSBuilder.update_node]
    split
    · subst_vars
      exact hkr G _ hr ht
    · exact hkr G t hr ht

theorem WF.ret_kind {P : Nat → Prop} {s : LLVMPSSBuilder} (hwf : WF P s) :
    ∀ G t, (s.subgraphs_map G).root ≠ none → (s.subgraphs_map G).ret = some t →
      (s.node t).kind = .NOOP :=
  fun _ _ hr ht => (hwf.ret_node hr ht).2

theorem callSetup_inv {m : Module} {build : Nat → M Nat} (hb : BuildOK build)
    (hbp : BuildPW m build) {Pend : Nat → Option ((Nat × Nat) × (Nat × Nat))}
    {P : Nat → Prop} {F c q : Nat} {subg : Subgraph} {s s0 : LLVMPSSBuilder}
    (hwf : WF P s) (hpw : PW m Pend s) (haw : AW m s) (hrw : RW m Pend s)
    (h : callSetup build F s = .ok ((c, q, subg), s0)) :
    (WF P s0 ∧ PW m Pend s0 ∧ AW m s0 ∧ RW m Pend s0 ∧ ArgFrame m s s0) ∧ Ext s s0 ∧
      q = s.size ∧ c = s.size + 1 ∧ s.size + 2 ≤ s0.size ∧ (s0.node c).kind = .CALL ∧
      (s0.node q).kind = .CALL_RETURN ∧ subg = s0.subgraphs_map F ∧
      (∃ r, subg.root = some r) ∧
      ((s.subgraphs_map F).root ≠ none →
        ∀ n, n < s.size → (s0.node n).operands = (s.node n).operands) := by
  unfold callSetup at h
  simp only [M.bind_ok, M.get_ok] at h
  obtain ⟨q, s1, h1, c, s2, h2, u3, s3, h3, u4, s4, h4, s0', t0, ⟨rfl, rfl⟩, subg', s5, hsubg,
    h⟩ := h
  obtain ⟨hwf4, hext4, hq, hcv, hsz4, hck4, hcp4, hcs4, hqk4, hqp4⟩ := callPair_wf hwf h1 h2 h3 h4
  obtain ⟨hg4, hk4, hq4, -, -⟩ := callPair_frames h1 h2 h3 h4
  obtain ⟨pw4, aw4, rw4, af4⟩ := grow_step hwf hpw haw hrw hg4 hk4
    (hq4 (fun _ => False) _) (fun _ hn => hn.elim)
  have hclt4 : c < s4.size := by omega
  have hqlt4 : q < s4.size := by omega
  have hqc : q ≠ c := by omega
  -- the callee's subgraph, built now if it was not there
  have h5 : (WF (fun n => P n ∨ n = c) s5 ∧ PW m Pend s5 ∧ AW m s5 ∧ RW m Pend s5 ∧
      ArgFrame m s4 s5) ∧ Ext s4 s5 ∧ subg' = s5.subgraphs_map F ∧
      ((s.subgraphs_map F).root ≠ none → s5 = s4) := by
    split at hsubg
    · simp only [M.bind_ok, M.get_ok, M.pure_ok] at hsubg
      obtain ⟨r0, t1, hbuild, t2, t3, ⟨rfl, rfl⟩, rfl, rfl⟩ := hsubg
      have hnone : (s4.subgraphs_map F).root = none := by
        cases hx : (s4.subgraphs_map F).root with
        | none => rfl
        | some v =>
          rename_i hcond
          rw [hx] at hcond
          simp at hcond
      obtain ⟨g1, g2⟩ := hb _ F r0 s4 _ hwf4 hnone hbuild
      obtain ⟨g3, g4, g5, g6⟩ := hbp Pend _ F r0 s4 _ hwf4 pw4 aw4 rw4 hnone hbuild
      refine ⟨⟨g1, g3, g4, g5, g6⟩, g2, rfl, ?_⟩
      intro hreg
      rw [hg4.subg_eq] at hnone
      exact absurd hnone hreg
    · obtain ⟨rfl, rfl⟩ := (M.pure_ok _ _ _ _).mp hsubg
      exact ⟨⟨hwf4, pw4, aw4, rw4, ArgFrame.rfl_af m _⟩, Ext.rfl_ext _, rfl, fun _ => rfl⟩
  obtain ⟨⟨hwf5, pw5, aw5, rw5, af5⟩, hext5, rfl, hsame⟩ := h5
  have hck5 : (s5.node c).kind = .CALL := by rw [hext5.kind_eq c hclt4]; exact hck4
  have hcp5 : (s5.node c).pairedNode = some q := by rw [hext5.paired_eq c hclt4]; exact hcp4
  have hcs5 : (s5.node c).successors = [] := by
    rw [hext5.call_succ_eq c hclt4 (Or.inr ⟨hck4, by rw [hcp4]; intro hx; cases hx; exact hqc rfl⟩)]
    exact hcs4
  have hqk5 : (s5.node q).kind = .CALL_RETURN := by rw [hext5.kind_eq q hqlt4]; exact hqk4
  have hqp5 : (s5.node q).pairedNode = some c := by rw [hext5.paired_eq q hqlt4]; exact hqp4
  have hclt5 : c < s5.size := lt_of_lt_of_le hclt4 hext5.size_le
  have hqlt5 : q < s5.size := lt_of_lt_of_le hqlt4 hext5.size_le
  cases hroot : (s5.subgraphs_map F).root with
  | none =>
    simp only [hroot] at h
    exact ((M.fail_ok _ _ _ _).mp h).elim
  | some root =>
  cases hret : (s5.subgraphs_map F).ret with
  | none =>
    simp only [hroot, hret] at h
    exact ((M.fail_ok _ _ _ _).mp h).elim
  | some ret =>
    simp only [hroot, hret, M.bind_ok, M.pure_ok] at h
    obtain ⟨u6, s6, h6, u7, s7, h7, hres, rfl⟩ := h
    simp only [Prod.mk.injEq] at hres
    obtain ⟨rfl, rfl, rfl⟩ := hres
    obtain ⟨hrlt, hrk, t', ht', htlt, htk⟩ := hwf5.subg_ok F root hroot
    rw [hret] at ht'
    cases ht'
    have hct : c ≠ ret := by
      intro hx
      rw [hx, htk] at hck5
      cases hck5
    rw [addSuccessor_ok] at h6
    subst h6
    rw [addSuccessor_ok] at h7
    subst h7
    -- the invariants on the maps and the edges
    have hca : ¬ ArgNode m s5 c := by
      intro hx
      rw [hx.kind_phi aw5] at hck5
      cases hck5
    have hrk' : (s5.node root).kind ≠ .NOOP := by
      rw [hrk]
      decide
    obtain ⟨⟨pw6, aw6, rw6, af6⟩, hkr6⟩ :=
      add_succ_step pw5 aw5 rw5 hwf5.ret_kind hca hrlt hrk'
    have hkind6 : ∀ i, ((s5.update c fun x =>
        { x with successors := x.successors ++ [root] }).node i).kind = (s5.node i).kind := by
      intro i
      rw [LLVMPSSBuilder.update_node]
      split
      · subst_vars
        rfl
      · rfl
    have hta : ¬ ArgNode m (s5.update c fun x =>
        { x with successors := x.successors ++ [root] }) ret := by
      intro hx
      have := hx.kind_phi aw6
      rw [hkind6, htk] at this
      cases this
    have hqk6 : ((s5.update c fun x =>
        { x with successors := x.successors ++ [root] }).node q).kind ≠ .NOOP := by
      rw [hkind6, hqk5]
      decide
    obtain ⟨⟨pw7, aw7, rw7, af7⟩, -⟩ :=
      add_succ_step (x := q) pw6 aw6 rw6 hkr6 hta hqlt5 hqk6
    -- the shape invariant
    have hkind : ∀ i, (((s5.update c fun x => { x with successors := x.successors ++ [root] }).update
        ret fun x => { x with successors := x.successors ++ [q] }).node i).kind =
        (s5.node i).kind := by
      intro i
      simp only [LLVMPSSBuilder.update_node]
      split
      · split
        · subst_vars
          rfl
        · subst_vars
          rfl
      · split
        · subst_vars
          rfl
        · rfl
    have hpaired : ∀ i, (((s5.update c fun x => { x with successors := x.successors ++ [root] }).update
        ret fun x => { x with successors := x.successors ++ [q] }).node i).pairedNode =
        (s5.node i).pairedNode := by
      intro i
      simp only [LLVMPSSBuilder.update_node]
      split
      · split
        · subst_vars
          rfl
        · subst_vars
          rfl
      · split
        · subst_vars
          rfl
        · rfl
    have hops : ∀ i, (((s5.update c fun x => { x with successors := x.successors ++ [root] }).update
        ret fun x => { x with successors := x.successors ++ [q] }).node i).operands =
        (s5.node i).operands := by
      intro i
      simp only [LLVMPSSBuilder.update_node]
      split
      · split
        · subst_vars
          rfl
        · subst_vars
          rfl
      · split
        · subst_vars
          rfl
        · rfl
    have hsc : (((s5.update c fun x => { x with successors := x.successors ++ [root] }).update
        ret fun x => { x with successors := x.successors ++ [q] }).node c).successors =
        [root] := by
      simp [hct, hcs5]
    have hst : (((s5.update c fun x => { x with successors := x.successors ++ [root] }).update
        ret fun x => { x with successors := x.successors ++ [q] }).node ret).successors =
        (s5.node ret).successors ++ [q] := by
      simp [Ne.symm hct]
    have hso : ∀ i, i ≠ c → i ≠ ret →
        (((s5.update c fun x => { x with successors := x.successors ++ [root] }).update
        ret fun x => { x with successors := x.successors ++ [q] }).node i).successors =
        (s5.node i).successors := by
      intro i g1 g2
      simp [g1, g2]
    have hsz7 : ((s5.update c fun x => { x with successors := x.successors ++ [root] }).update
        ret fun x => { x with successors := x.successors ++ [q] }).size = s5.size := rfl
    have hsub7 : ((s5.update c fun x => { x with successors := x.successors ++ [root] }).update
        ret fun x => { x with successors := x.successors ++ [q] }).subgraphs_map =
        s5.subgraphs_map := rfl
    have hblk7 : ((s5.update c fun x => { x with successors := x.successors ++ [root] }).update
        ret fun x => { x with successors := x.successors ++ [q] }).built_blocks =
        s5.built_blocks := rfl
    have af57 := af6.trans_af af7 (le_refl _)
    generalize ((s5.update c fun x => { x with successors := x.successors ++ [root] }).update
        ret fun x => { x with successors := x.successors ++ [q] }) = s7 at *
    have hPc : ¬ P c := by
      intro hx
      have := hwf.pend_lt c hx
      omega
    have hwf7 : WF P s7 :=
      callEdges_wf hwf5 (fun n => Iff.rfl) hPc hclt5 hck5 hcp5
        hqc hcs5 hqp5 hroot hret hsz7 hkind hpaired hsc hst hso hsub7 hblk7
    have hext05 : Ext s s5 := hext4.trans_ext hext5
    have hext7 : Ext s s7 := by
      refine ⟨by rw [hsz7]; exact hext05.size_le, ?_, ?_, ?_, ?_, ?_⟩
      · intro n hn
        rw [hkind, hext05.kind_eq n hn]
      · intro n hn
        rw [hpaired, hext05.paired_eq n hn]
      · intro n hn
        have hnc : n ≠ c := by omega
        by_cases hnt : n = ret
        · subst hnt
          rw [hst]
          exact (hext05.succ_prefix n hn).trans (List.prefix_append _ _)
        · rw [hso n hnc hnt]
          exact hext05.succ_prefix n hn
      · intro n hn hce
        have hnc : n ≠ c := by omega
        have hnt : n ≠ ret := by
          intro hx
          subst hx
          have hk := hext05.kind_eq n hn
          rw [htk] at hk
          rcases hce with hce | ⟨hce, -⟩
          · rw [hce] at hk
            cases hk
          · rw [hce] at hk
            cases hk
        rw [hso n hnc hnt]
        exact hext05.call_succ_eq n hn hce
      · intro G hG
        rw [hsub7]
        exact hext05.subg_eq G hG
    refine ⟨⟨hwf7, pw7, aw7, rw7, af4.trans_af (af5.trans_af af57 hext5.size_le) hg4.size_le⟩,
      hext7, hq, hcv, ?_, ?_, ?_, ?_, ⟨root, ?_⟩, ?_⟩
    · rw [hsz7]
      have := hext5.size_le
      omega
    · rw [hkind]
      exact hck5
    · rw [hkind]
      exact hqk5
    · rw [hsub7]
    · exact hroot
    · intro hreg n hn
      rw [hops, hsame hreg]
      exact (hq4 (fun _ => False) (.const (.nullPtr 0))).ops_eq n hn (fun hc => hc)

/-! ## The operands given at a call to a function -/

theorem createCallToFunctionVarArgs_inv {m : Module}
    {Pend : Nat → Option ((Nat × Nat) × (Nat × Nat))} {P : Nat → Prop} {a : Nat} :
    ∀ (vs : List Value) (u : Unit) (s s' : LLVMPSSBuilder), WF P s → PW m Pend s → AW m s →
      RW m Pend s → ArgNode m s a →
      createCallToFunctionVarArgs m a vs s = .ok (u, s') →
      (WF P s' ∧ PW m Pend s' ∧ AW m s' ∧ RW m Pend s' ∧ ArgFrame m s s') ∧ Inert s s' ∧
        Quiet (fun _ => True) (.const (.nullPtr 0)) s s' ∧
        ((s'.node a).operands = (s.node a).operands ++
            (vs.filter fun v => (m.typeOf v).isPointerTy).map (operandOf s') ∧
          ∀ v, v ∈ vs → (m.typeOf v).isPointerTy = true → operandOf s' v ≠ none) ∧
        (∀ n, n < s.size → n ≠ a → (s'.node n).operands = (s.node n).operands) := by
  intro vs
  induction vs with
  | nil =>
    intro u s s' hwf hpw haw hrw _ h
    unfold createCallToFunctionVarArgs at h
    obtain ⟨-, rfl⟩ := (M.pure_ok _ _ _ _).mp h
    refine ⟨⟨hwf, hpw, haw, hrw, ArgFrame.rfl_af m _⟩, Inert.rfl_inert _, Quiet.rfl_quiet _ _ _,
      ⟨by simp, ?_⟩, fun _ _ _ => rfl⟩
    intro v hv
    cases hv
  | cons v rest ih =>
    intro u s s' hwf hpw haw hrw ha h
    unfold createCallToFunctionVarArgs at h
    simp only [M.bind_ok] at h
    obtain ⟨u1, s2, hstep, h⟩ := h
    have halt : a < s.size := ha.lt_size hpw
    by_cases hp : (m.typeOf v).isPointerTy = true
    · rw [if_pos hp] at hstep
      simp only [M.bind_ok] at hstep
      obtain ⟨op, s1, hop, hadd⟩ := hstep
      obtain ⟨⟨w1, p1, a1, r1, f1⟩, i1, k1, q1, o1⟩ := getOperand_inv hwf hpw haw hrw hop
      have ha1 : ArgNode m s1 a := f1.mono a ha
      have i2 := addOperand_inert hadd
      unfold addOperand at hadd
      rw [M.modify_ok] at hadd
      subst hadd
      obtain ⟨w2, p2, a2, r2, f2⟩ := addOperand_inv a op w1 p1 a1 r1 (Or.inl ha1)
      have ha2 : ArgNode m (s1.update a fun x =>
          { x with operands := x.operands ++ [some op] }) a := f2.mono a ha1
      obtain ⟨⟨w3, p3, a3, r3, f3⟩, i3, q3, ⟨e1, e2⟩, e3⟩ := ih u _ s' w2 p2 a2 r2 ha2 h
      have q2 : Quiet (fun _ => True) (.const (.nullPtr 0)) s1
          (s1.update a fun x => { x with operands := x.operands ++ [some op] }) :=
        (Quiet.update_at _ s1 _ _).weaken (fun _ _ => trivial)
      have o3 : operandOf s' v = some op := by
        have o2 : operandOf (s1.update a fun x =>
            { x with operands := x.operands ++ [some op] }) v = some op :=
          q2.operandOf_keep i2.to_grow p1.map_lt p1.null_lt (Or.inr rfl) o1
        exact q3.operandOf_keep i3.to_grow p2.map_lt p2.null_lt (Or.inr rfl) o2
      refine ⟨⟨w3, p3, a3, r3, f1.trans_af (f2.trans_af f3 i2.size_le) i1.size_le⟩,
        (i1.trans_inert i2).trans_inert i3,
        ((q1 _ _).trans_quiet q2).trans_quiet q3, ⟨?_, ?_⟩, ?_⟩
      · rw [e1, LLVMPSSBuilder.update_node, if_pos rfl]
        simp only
        rw [(q1 (fun _ => False) (.const (.nullPtr 0))).ops_eq _ halt (fun hc => hc)]
        rw [List.filter_cons_of_pos (by simpa using hp), List.map_cons, o3]
        simp
      · intro w hw hwp
        rcases List.mem_cons.mp hw with rfl | hw
        · rw [o3]
          exact fun hc => by cases hc
        · exact e2 w hw hwp
      · intro n hn hne
        rw [e3 n (lt_of_lt_of_le hn i1.size_le) hne, LLVMPSSBuilder.update_node, if_neg hne]
        exact (q1 (fun _ => False) (.const (.nullPtr 0))).ops_eq _ hn (fun hc => hc)
    · rw [if_neg hp] at hstep
      obtain ⟨-, rfl⟩ := (M.pure_ok _ _ _ _).mp hstep
      obtain ⟨g0, i3, q3, ⟨e1, e2⟩, e3⟩ := ih u _ s' hwf hpw haw hrw ha h
      refine ⟨g0, i3, q3, ⟨?_, ?_⟩, e3⟩
      · rw [e1, List.filter_cons_of_neg (by simpa using hp)]
      · intro w hw hwp
        rcases List.mem_cons.mp hw with rfl | hw
        · exact absurd hwp hp
        · exact e2 w hw hwp

theorem addOperands_inv {m : Module} {Pend : Nat → Option ((Nat × Nat) × (Nat × Nat))}
    {P : Nat → Prop} {q : Nat} :
    ∀ (ops : List Nat) (u : Unit) (s s' : LLVMPSSBuilder), WF P s → PW m Pend s → AW m s →
      RW m Pend s → (s.node q).kind ≠ .PHI → addOperands q ops s = .ok (u, s') →
      (WF P s' ∧ PW m Pend s' ∧ AW m s' ∧ RW m Pend s' ∧ ArgFrame m s s') ∧ Inert s s' ∧
        Quiet (fun _ => True) (.const (.nullPtr 0)) s s' ∧
        (∀ n, n ≠ q → (s'.node n).operands = (s.node n).operands) := by
  intro ops
  induction ops with
  | nil =>
    intro u s s' hwf hpw haw hrw _ h
    unfold addOperands at h
    obtain ⟨-, rfl⟩ := (M.pure_ok _ _ _ _).mp h
    exact ⟨⟨hwf, hpw, haw, hrw, ArgFrame.rfl_af m _⟩, Inert.rfl_inert _, Quiet.rfl_quiet _ _ _,
      fun _ _ => rfl⟩
  | cons op rest ih =>
    intro u s s' hwf hpw haw hrw hq h
    unfold addOperands at h
    simp only [M.bind_ok] at h
    obtain ⟨u1, s1, hadd, h⟩ := h
    have i1 := addOperand_inert hadd
    unfold addOperand at hadd
    rw [M.modify_ok] at hadd
    subst hadd
    obtain ⟨w1, p1, a1, r1, f1⟩ := addOperand_inv q op hwf hpw haw hrw (Or.inr hq)
    have hq1 : ((s.update q fun x => { x with operands := x.operands ++ [some op] }).node
        q).kind ≠ .PHI := by
      rw [LLVMPSSBuilder.update_node, if_pos rfl]
      exact hq
    obtain ⟨⟨w2, p2, a2, r2, f2⟩, i2, q2, e2⟩ := ih u _ s' w1 p1 a1 r1 hq1 h
    refine ⟨⟨w2, p2, a2, r2, f1.trans_af f2 i1.size_le⟩, i1.trans_inert i2,
      ((Quiet.update_at _ s _ _).weaken (fun _ _ => trivial)).trans_quiet q2, ?_⟩
    intro n hn
    rw [e2 n hn, LLVMPSSBuilder.update_node, if_neg hn]

/-- A run of `createCallToFunction` is a run of `callSetup` followed by the walk over
the parameters, the walk over the variadic arguments and the operands of the return
node. -/
theorem createCallToFunction_ok {m : Module} {build : Nat → M Nat} {ty : Ty}
    {args : List Value} {F : Nat} {res : Nat × Nat} {s s' : LLVMPSSBuilder}
    (h : createCallToFunction m build ty args F s = .ok (res, s')) :
    ∃ c q subg s0 ret r8 s8 u9 s9 u10, callSetup build F s = .ok ((c, q, subg), s0) ∧
      subg.ret = some ret ∧
      createCallToFunctionArgs m args (m.getFunc F).params 0 subg.args.1 s0 = .ok (r8, s8) ∧
      (if (m.getFunc F).isVarArg then
        match r8.2 with
        | none => M.fail (.assertion "arg")
        | some a => createCallToFunctionVarArgs m a (args.drop r8.1)
      else pure () : M Unit) s8 = .ok (u9, s9) ∧
      (if ty.isPointerTy then do
        let s ← M.get
        addOperands q ((getPredecessors s ret).filter fun r => (s.node r).kind = .RETURN)
      else pure () : M Unit) s9 = .ok (u10, s') ∧
      res = (c, q) := by
  unfold createCallToFunction at h
  simp only [M.bind_ok, M.get_ok] at h
  obtain ⟨q, s1, h1, c, s2, h2, u3, s3, h3, u4, s4, h4, s0', t0, ⟨rfl, rfl⟩, subg, s5, hsubg,
    h⟩ := h
  cases hroot : subg.root with
  | none =>
    simp only [hroot] at h
    exact ((M.fail_ok _ _ _ _).mp h).elim
  | some root =>
  cases hret : subg.ret with
  | none =>
    simp only [hroot, hret] at h
    exact ((M.fail_ok _ _ _ _).mp h).elim
  | some ret =>
    simp only [hroot, hret, M.bind_ok, M.pure_ok] at h
    obtain ⟨u6, s6, h6, u7, s7, h7, r8, s8, h8, u9, s9, h9, u10, s10, h10, rfl, rfl⟩ := h
    refine ⟨c, q, subg, s7, ret, r8, s8, u9, s9, u10, ?_, hret, h8, h9, h10, rfl⟩
    unfold callSetup
    rw [M.bind_run h1, M.bind_run h2, M.bind_run h3, M.bind_run h4, M.get_bind,
      M.bind_run hsubg]
    simp only [hroot, hret]
    rw [M.bind_run h6, M.bind_run h7]
    rfl

/-- What `createCallToFunction` does, seen from the state `s0` that `callSetup` ends in:
the invariants stay; the node of every pointer parameter gets one more operand, the
node that stands for the argument at the parameter's position; the node for the
variadic arguments of a variadic function gets the nodes of the pointer arguments
beyond the parameters; no other node but the return node gets an operand. -/
theorem createCallToFunction_spec {m : Module} {build : Nat → M Nat} (hb : BuildOK build)
    (hbp : BuildPW m build) {Pend : Nat → Option ((Nat × Nat) × (Nat × Nat))}
    {P : Nat → Prop} {ty : Ty} {args : List Value} {F : Nat} {res : Nat × Nat}
    {s s' : LLVMPSSBuilder}
    (hwf : WF P s) (hpw : PW m Pend s) (haw : AW m s) (hrw : RW m Pend s)
    (h : createCallToFunction m build ty args F s = .ok (res, s')) :
    ∃ subg s0 r, callSetup build F s = .ok ((res.1, res.2, subg), s0) ∧
      (s0.subgraphs_map F).root = some r ∧
      (WF P s' ∧ PW m Pend s' ∧ AW m s' ∧ RW m Pend s' ∧ ArgFrame m s s') ∧
      Inert s0 s' ∧ res.2 = s.size ∧ res.1 = s.size + 1 ∧ s.size + 2 ≤ s0.size ∧
      (s'.node res.1).kind = .CALL ∧ (s'.node res.2).kind = .CALL_RETURN ∧
      ((s.subgraphs_map F).root ≠ none →
        ∀ n, n < s.size → (s0.node n).operands = (s.node n).operands) ∧
      (∀ idx A, (m.getFunc F).params.get? idx = some A → A.isPointerTy = true →
        ∃ v, args.get? idx = some v ∧ operandOf s' v ≠ none ∧
          (s'.node (r + 2 + ptrsBefore m F idx)).operands =
            (s0.node (r + 2 + ptrsBefore m F idx)).operands ++ [operandOf s' v]) ∧
      ((m.getFunc F).isVarArg = true →
        (s'.node (r + 2 + ptrParams m F)).operands =
          (s0.node (r + 2 + ptrParams m F)).operands ++
            ((args.drop (m.getFunc F).params.length).filter fun v =>
              (m.typeOf v).isPointerTy).map (operandOf s') ∧
        ∀ v, v ∈ args.drop (m.getFunc F).params.length → (m.typeOf v).isPointerTy = true →
          operandOf s' v ≠ none) ∧
      (∀ n, n < s0.size → n ≠ res.2 →
        (∀ idx A, (m.getFunc F).params.get? idx = some A → A.isPointerTy = true →
          n ≠ r + 2 + ptrsBefore m F idx) →
        ((m.getFunc F).isVarArg = true → n ≠ r + 2 + ptrParams m F) →
        (s'.node n).operands = (s0.node n).operands) := by
  obtain ⟨c, q, subg, s0, ret, r8, s8, u9, s9, u10, hset, hret, h8, h9, h10, rfl⟩ :=
    createCallToFunction_ok h
  obtain ⟨⟨w0, p0, a0, r0, f0⟩, hext0, hq, hc, hsz0, hck0, hqk0, rfl, ⟨r, hroot⟩, hsame⟩ :=
    callSetup_inv hb hbp hwf hpw haw hrw hset
  have hclt0 : c < s0.size := by omega
  have hqlt0 : q < s0.size := by omega
  -- the walk over the parameters
  have harg : ptrsBefore m F 0 < argCount m F →
      (s0.subgraphs_map F).args.1 = some (r + 2 + ptrsBefore m F 0) := by
    intro hlt
    rw [(p0.args F r hroot).2.1, if_neg (by omega)]
    rfl
  obtain ⟨⟨w8, p8, a8, r8', f8⟩, i8, q8, e1, e2, e3, e4⟩ :=
    createCallToFunctionArgs_inv (m.getFunc F).params 0 _ r8 s0 s8 w0 p0 a0 r0 hroot
      (fun k => by rw [Nat.zero_add]) harg h8
  rw [Nat.zero_add] at e1 e2
  have hroot8 : (s8.subgraphs_map F).root = some r := by
    rw [i8.subg_eq]
    exact hroot
  -- the walk over the variadic arguments
  have hv : (WF P s9 ∧ PW m Pend s9 ∧ AW m s9 ∧ RW m Pend s9 ∧ ArgFrame m s8 s9) ∧
      Inert s8 s9 ∧ Quiet (fun _ => True) (.const (.nullPtr 0)) s8 s9 ∧
      ((m.getFunc F).isVarArg = true →
        (s9.node (r + 2 + ptrParams m F)).operands =
          (s8.node (r + 2 + ptrParams m F)).operands ++
            ((args.drop (m.getFunc F).params.length).filter fun v =>
              (m.typeOf v).isPointerTy).map (operandOf s9) ∧
        ∀ v, v ∈ args.drop (m.getFunc F).params.length → (m.typeOf v).isPointerTy = true →
          operandOf s9 v ≠ none) ∧
      (∀ n, n < s8.size → ((m.getFunc F).isVarArg = true → n ≠ r + 2 + ptrParams m F) →
        (s9.node n).operands = (s8.node n).operands) := by
    by_cases hva : (m.getFunc F).isVarArg = true
    · rw [if_pos hva] at h9
      have hlt : ptrParams m F < argCount m F := by
        unfold argCount
        rw [if_pos hva]
        omega
      rw [ptrsBefore_all (le_refl _)] at e2
      rw [e2 hlt, e1] at h9
      obtain ⟨g0, g1, g2, g3, g4⟩ := createCallToFunctionVarArgs_inv _ u9 s8 s9 w8 p8 a8 r8'
        (ArgNode.nth hroot8 hlt) h9
      exact ⟨g0, g1, g2, fun _ => g3, fun n hn hne => g4 n hn (hne hva)⟩
    · rw [if_neg hva] at h9
      obtain ⟨-, rfl⟩ := (M.pure_ok _ _ _ _).mp h9
      exact ⟨⟨w8, p8, a8, r8', ArgFrame.rfl_af m _⟩, Inert.rfl_inert _, Quiet.rfl_quiet _ _ _,
        fun hc => absurd hc hva, fun _ _ _ => rfl⟩
  obtain ⟨⟨w9, p9, a9, r9, f9⟩, i9, q9, e5, e6⟩ := hv
  -- the operands of the return node
  have i09 := i8.trans_inert i9
  have hqk9 : (s9.node q).kind ≠ .PHI := by
    rw [i09.kind_eq q hqlt0, hqk0]
    decide
  have hr : (WF P s' ∧ PW m Pend s' ∧ AW m s' ∧ RW m Pend s' ∧ ArgFrame m s9 s') ∧
      Inert s9 s' ∧ Quiet (fun _ => True) (.const (.nullPtr 0)) s9 s' ∧
      (∀ n, n ≠ q → (s'.node n).operands = (s9.node n).operands) := by
    by_cases hty : ty.isPointerTy = true
    · rw [if_pos hty] at h10
      simp only [M.bind_ok, M.get_ok] at h10
      obtain ⟨t1, t2, ⟨rfl, rfl⟩, h10⟩ := h10
      exact addOperands_inv _ u10 _ s' w9 p9 a9 r9 hqk9 h10
    · rw [if_neg hty] at h10
      obtain ⟨-, rfl⟩ := (M.pure_ok _ _ _ _).mp h10
      exact ⟨⟨w9, p9, a9, r9, ArgFrame.rfl_af m _⟩, Inert.rfl_inert _, Quiet.rfl_quiet _ _ _,
        fun _ _ => rfl⟩
  obtain ⟨⟨w10, p10, a10, r10, f10⟩, i10, q10, e7⟩ := hr
  have i0 := i09.trans_inert i10
  have hroot' : (s'.subgraphs_map F).root = some r := by
    rw [i0.subg_eq]
    exact hroot
  have hqarg : ∀ n, ArgNode m s0 n → n ≠ q := by
    intro n hn hnq
    rw [← hnq, hn.kind_phi a0] at hqk0
    cases hqk0
  have keep9 : ∀ {v : Value} {op : Nat}, operandOf s9 v = some op → operandOf s' v = some op :=
    fun o => q10.operandOf_keep i10.to_grow p9.map_lt p9.null_lt (Or.inr rfl) o
  have keep8 : ∀ {v : Value} {op : Nat}, operandOf s8 v = some op → operandOf s' v = some op :=
    fun o => keep9 (q9.operandOf_keep i9.to_grow p8.map_lt p8.null_lt (Or.inr rfl) o)
  refine ⟨_, s0, r, hset, hroot,
    ⟨w10, p10, a10, r10, f0.trans_af (f8.trans_af (f9.trans_af f10 i9.size_le) i8.size_le)
      hext0.size_le⟩, i0, hq, hc, hsz0, ?_, ?_, hsame, ?_, ?_, ?_⟩
  · rw [i0.kind_eq c hclt0]
    exact hck0
  · rw [i0.kind_eq q hqlt0]
    exact hqk0
  · intro idx A hA hp
    obtain ⟨v, op, g1, g2, g3⟩ := e3 idx A hA hp
    rw [Nat.zero_add] at g1 g3
    have hn0 : ArgNode m s0 (r + 2 + ptrsBefore m F idx) := ArgNode.of_param hroot hA hp
    have hlt := ptrsBefore_lt hA hp
    refine ⟨v, g1, ?_, ?_⟩
    · rw [keep8 g2]
      exact fun hc => by cases hc
    · rw [keep8 g2, e7 _ (hqarg _ hn0),
        e6 _ (lt_of_lt_of_le (hn0.lt_size p0) i8.size_le) (fun _ => by omega), g3]
  · intro hva
    obtain ⟨g1, g2⟩ := e5 hva
    have hlt : ptrParams m F < argCount m F := by
      unfold argCount
      rw [if_pos hva]
      omega
    have hn0 : ArgNode m s0 (r + 2 + ptrParams m F) := ArgNode.nth hroot hlt
    have hmap : ∀ l : List Value, (∀ v, v ∈ l → operandOf s9 v ≠ none) →
        l.map (operandOf s') = l.map (operandOf s9) := by
      intro l hl
      refine List.map_congr_left ?_
      intro v hv
      cases hx : operandOf s9 v with
      | none => exact absurd hx (hl v hv)
      | some op => exact keep9 hx
    constructor
    · rw [e7 _ (hqarg _ hn0), g1, e4 _ (hn0.lt_size p0) ?_, hmap]
      · intro v hv
        rw [List.mem_filter] at hv
        exact g2 v hv.1 (by simpa using hv.2)
      · intro k A hk hA
        rw [Nat.zero_add]
        have := ptrsBefore_lt hk hA
        omega
    · intro v hv hvp
      cases hx : operandOf s9 v with
      | none => exact absurd hx (g2 v hv hvp)
      | some op =>
        rw [keep9 hx]
        exact fun hc => by cases hc
  · intro n hn hnq hnp hnv
    rw [e7 n hnq, e6 n (lt_of_lt_of_le hn i8.size_le) hnv, e4 n hn ?_]
    intro k A hk hA
    rw [Nat.zero_add]
    exact hnp k A hk hA

/-! ## Lowering one instruction -/

theorem not_posLt_zero (p : Nat × Nat) : ¬ posLt p (0, 0) := by
  unfold posLt
  simp

/-- A step that lowers the instruction at the position the function has got to. -/
theorem lower_step {m : Module} {Pend : Nat → Option ((Nat × Nat) × (Nat × Nat))}
    {P : Nat → Prop} {T : Nat → Prop} {F b i : Nat} {s s' : LLVMPSSBuilder}
    (hwf : WF P s) (hpw : PW m Pend s) (haw : AW m s) (hrw : RW m Pend s)
    (hp : Pend F = some ((b, i), (0, 0))) (hg : Grow s s') (hk : SuccKeep s s')
    (hq : Quiet T (.inst F b i) s s')
    (hT : ∀ n, T n → ArgNode m s n ∨ (s.node n).kind ≠ .PHI)
    (hphi : ∀ ty inc, m.getInst F b i = some (.phi ty inc) → ty.isPointerTy = true →
      ∃ n, s'.nodes_map (.inst F b i) = some n ∧ s.size ≤ n ∧ (s'.node n).kind = .PHI ∧
        (s'.node n).operands = []) :
    PW m (Function.update Pend F (some ((b, i + 1), (0, 0)))) s' ∧ AW m s' ∧
      RW m (Function.update Pend F (some ((b, i + 1), (0, 0)))) s' ∧ ArgFrame m s s' := by
  refine ⟨hpw.step_lower hg hq hT hp (not_posLt_zero _) hphi,
    haw.step_keep_aw hpw hg hk hq (fun _ _ h => by cases h), ?_, ArgFrame.of_keep hpw hg hk⟩
  have hrw' : RW m Pend s' := by
    refine hrw.step_keep_rw hwf hg hk hq ?_
    intro G b' i' hI
    cases hI
    exact ⟨_, _, hp, le_refl _⟩
  refine hrw'.repend ?_ ?_
  · intro G
    by_cases hG : G = F
    · subst hG
      rw [Function.update_same, hp]
      simp
    · rw [Function.update_noteq hG]
  · intro G p q p' q' h1 h2
    by_cases hG : G = F
    · subst hG
      rw [Function.update_same] at h2
      rw [hp] at h1
      cases h1
      cases h2
      exact le_refl _
    · rw [Function.update_noteq hG, h1] at h2
      cases h2
      exact le_refl _

theorem createVarArg_first {m : Module} {I : Value} {F : Nat} {args : List Value}
    {cv : Value} {r : Nat × Nat} {s s' : LLVMPSSBuilder}
    (h : createVarArg m I F args cv s = .ok (r, s')) : s.size ≤ r.1 := by
  unfold createVarArg at h
  simp only [M.bind_ok, M.get_ok, M.assert_ok] at h
  obtain ⟨s0, t0, ⟨rfl, rfl⟩, u0, t1, ⟨-, rfl⟩, h⟩ := h
  generalize (s.subgraphs_map F).args.2 = a at h
  cases a with
  | none => exact ((M.fail_ok _ _ _ _).mp h).elim
  | some arg =>
    simp only [M.bind_ok, M.pure_ok, M.assert_ok, getNodeData_ok] at h
    obtain ⟨va, s1, h1, op0, s2, h2, op, s3, h3, x, s4, ⟨-, rfl⟩, u1, s5, ⟨-, rfl⟩,
      ptr, s6, h6, S1, s7, h7, S2, s8, h8, u2, s9, h9, u3, s10, h10, u4, s11, h11, rfl, rfl⟩ := h
    obtain ⟨-, -, -, -, -, e1, -⟩ := mkOpNode_ok _ _ _ _ _ h1
    exact le_of_eq e1

theorem createIntrinsic_first {m : Module} {I : Value} {F : Nat} {id : Option Intrinsic}
    {args : List Value} {cv : Value} {r : Nat × Nat} {s s' : LLVMPSSBuilder}
    (h : createIntrinsic m I F id args cv s = .ok (r, s')) : s.size ≤ r.1 := by
  unfold createIntrinsic at h
  split at h
  · simp only [M.bind_ok, M.pure_ok] at h
    obtain ⟨n, s1, h1, rfl, rfl⟩ := h
    exact (createMemTransfer_created h1).2.1
  · split at h
    · exact createVarArg_first h
    · split at h
      · simp only [M.bind_ok, M.pure_ok] at h
        obtain ⟨n, s1, h1, rfl, rfl⟩ := h
        exact (createAlloc_created h1).2.1
      · split at h
        · simp only [M.bind_ok, M.pure_ok] at h
          obtain ⟨op0, s0, h0, n, s1, h1, rfl, rfl⟩ := h
          obtain rfl := callOperand_ok h0
          exact (createLoad_created h1).2.1
        · exact ((M.fail_ok _ _ _ _).mp h).elim

/-- A node made by a step that keeps the registry is no argument node. -/
theorem not_argNode_fresh {m : Module} {Pend : Nat → Option ((Nat × Nat) × (Nat × Nat))}
    {s s' : LLVMPSSBuilder} (hpw : PW m Pend s) (hsub : s'.subgraphs_map = s.subgraphs_map)
    {n : Nat} (hn : s.size ≤ n) : ¬ ArgNode m s' n := by
  intro h
  rw [ArgNode.of_subg_eq hsub] at h
  have := h.lt_size hpw
  omega

/-- The node pair of an indirect call, on the frames. -/
theorem funcPtrPair_frames {I : Value} (hI : I.isConstant = false)
    {ops : List (Option Nat)} {cf rc : Nat} {u1 u2 u3 u4 : Unit}
    {s s1 s2 s3 s4 s5 s6 : LLVMPSSBuilder}
    (h1 : mkOpNode .CALL_FUNCPTR ops s = .ok (cf, s1))
    (h2 : mkOpNode .RETURN [] s1 = .ok (rc, s2))
    (h3 : setPairedNode rc cf s2 = .ok (u1, s3))
    (h4 : setPairedNode cf rc s3 = .ok (u2, s4))
    (h5 : addSuccessor cf rc s4 = .ok (u3, s5))
    (h6 : addNode I cf s5 = .ok (u4, s6)) :
    Grow s s6 ∧ SuccKeep s s6 ∧ (∀ T, Quiet T I s s6) ∧ cf = s.size ∧ rc = s.size + 1 ∧
      s6.size = s.size + 2 ∧ (s6.node cf).kind = .CALL_FUNCPTR := by
  have k1 := (mkOpNode_succkeeps _ _).keeps _ _ _ h1
  have k2 := (mkOpNode_succkeeps _ _).keeps _ _ _ h2
  have k3 := (setPairedNode_succkeeps _ _).keeps _ _ _ h3
  have k4 := (setPairedNode_succkeeps _ _).keeps _ _ _ h4
  have k6 := (addNode_succkeeps _ _).keeps _ _ _ h6
  have q1 := fun T => (mkOpNode_quiets T I _ _).keeps _ _ _ h1
  have q2 := fun T => (mkOpNode_quiets T I _ _).keeps _ _ _ h2
  have q3 := fun T => (setPairedNode_quiets T I _ _).keeps _ _ _ h3
  have q4 := fun T => (setPairedNode_quiets T I _ _).keeps _ _ _ h4
  have q5 := fun T => (addSuccessor_quiets T I _ _).keeps _ _ _ h5
  have q6 := fun T => (addNode_quiets T hI _).keeps _ _ _ h6
  obtain ⟨x, xk, -, -, -, rfl, rfl⟩ := mkOpNode_ok _ _ _ _ _ h1
  obtain ⟨y, -, -, -, -, rfl, rfl⟩ := mkOpNode_ok _ _ _ _ _ h2
  rw [setPairedNode_ok] at h3
  subst h3
  rw [setPairedNode_ok] at h4
  subst h4
  rw [addSuccessor_ok] at h5
  subst h5
  have hsz : ((((s.push x).push y).update (s.push x).size fun z =>
      { z with pairedNode := some s.size }).update s.size fun z =>
      { z with pairedNode := some (s.push x).size }).size = s.size + 2 := rfl
  have k5 : SuccKeep s (((((s.push x).push y).update (s.push x).size fun z =>
      { z with pairedNode := some s.size }).update s.size fun z =>
      { z with pairedNode := some (s.push x).size }).update s.size fun z =>
      { z with successors := z.successors ++ [(s.push x).size] }) :=
    (((k1.trans_sk k2).trans_sk k3).trans_sk k4).add_fresh (le_refl _)
      (by rw [hsz]; omega) (by rw [LLVMPSSBuilder.push_size]; omega)
      (by rw [hsz, LLVMPSSBuilder.push_size]; omega)
  have g5 : Grow s (((((s.push x).push y).update (s.push x).size fun z =>
      { z with pairedNode := some s.size }).update s.size fun z =>
      { z with pairedNode := some (s.push x).size }).update s.size fun z =>
      { z with successors := z.successors ++ [(s.push x).size] }) := by
    refine Grow.update_fresh (Grow.update_fresh (Grow.update_fresh
      ((Grow.push_grow s x).trans_grow (Grow.push_grow _ y)) _ _ ?_) _ _ (le_refl _)) _ _
      (le_refl _)
    rw [LLVMPSSBuilder.push_size]
    omega
  have i6 := addNode_inert (show s.size < _ by
    show s.size < s.size + 2
    omega) h6
  have hnode : s6.node = (((((s.push x).push y).update (s.push x).size fun z =>
      { z with pairedNode := some s.size }).update s.size fun z =>
      { z with pairedNode := some (s.push x).size }).update s.size fun z =>
      { z with successors := z.successors ++ [(s.push x).size] }).node := by
    unfold addNode at h6
    rw [M.modify_ok] at h6
    rw [← h6]
  refine ⟨g5.trans_grow i6.to_grow, k5.trans_sk k6,
    fun T => (((((q1 T).trans_quiet (q2 T)).trans_quiet (q3 T)).trans_quiet
      (q4 T)).trans_quiet (q5 T)).trans_quiet (q6 T), rfl, rfl, ?_, ?_⟩
  · have := i6.size_le
    have h6' := h6
    unfold addNode at h6'
    rw [M.modify_ok] at h6'
    rw [← h6']
    rfl
  · rw [hnode]
    simp [xk]

theorem createCall_inv {m : Module} {build : Nat → M Nat} (hb : BuildOK build)
    (hbp : BuildPW m build) {Pend : Nat → Option ((Nat × Nat) × (Nat × Nat))}
    {P : Nat → Prop} {F b i : Nat} {ty : Ty} {cv : Value} {args : List Value}
    {res : Nat × Nat} {s s' : LLVMPSSBuilder}
    (hwf : WF P s) (hpw : PW m Pend s) (haw : AW m s) (hrw : RW m Pend s)
    (hI : m.getInst F b i = some (.call ty cv args)) (hp : Pend F = some ((b, i), (0, 0)))
    (h : createCall m build (.inst F b i) F ty cv args s = .ok (res, s')) :
    (PW m (Function.update Pend F (some ((b, i + 1), (0, 0)))) s' ∧ AW m s' ∧
      RW m (Function.update Pend F (some ((b, i + 1), (0, 0)))) s' ∧ ArgFrame m s s') ∧
      s.size ≤ res.1 ∧ res.1 < s'.size ∧ (s'.node res.1).kind ≠ .NOOP ∧
      ¬ ArgNode m s' res.2 := by
  have hphi : ∀ (t : LLVMPSSBuilder) (z : Nat) ty' inc,
      m.getInst F b i = some (.phi ty' inc) → ty'.isPointerTy = true →
      ∃ n, t.nodes_map (.inst F b i) = some n ∧ z ≤ n ∧ (t.node n).kind = .PHI ∧
        (t.node n).operands = [] := by
    intro t z ty' inc hx
    rw [hI] at hx
    cases hx
  have hcreated : ∀ {r : Nat × Nat}, Created s s' r.2 → s.size ≤ r.1 → r.1 < s'.size →
      SuccKeep s s' → Quiet (fun _ => False) (.inst F b i) s s' →
      (PW m (Function.update Pend F (some ((b, i + 1), (0, 0)))) s' ∧ AW m s' ∧
        RW m (Function.update Pend F (some ((b, i + 1), (0, 0)))) s' ∧ ArgFrame m s s') ∧
        s.size ≤ r.1 ∧ r.1 < s'.size ∧ (s'.node r.1).kind ≠ .NOOP ∧ ¬ ArgNode m s' r.2 := by
    intro r hc h1 h2 hk hq
    exact ⟨lower_step hwf hpw haw hrw hp hc.1.to_grow hk hq (fun _ hn => hn.elim)
      (hphi s' s.size), h1, h2, (hc.1.exit_fresh h1 h2).2.1,
      not_argNode_fresh hpw hc.1.subg_eq hc.2.1⟩
  unfold createCall at h
  cases hf : (stripPointerCasts m cv).asFunction with
  | some f =>
    simp only [hf, M.bind_ok, M.ofExcept_ok] at h
    obtain ⟨type, s0, ⟨-, rfl⟩, h⟩ := h
    split at h
    · obtain ⟨hc, he⟩ := createDynamicMemAlloc_created h
      exact hcreated hc (by rw [he]; exact hc.2.1) (by rw [he]; exact hc.2.2)
        ((createDynamicMemAlloc_succkeeps _ _ _ _).keeps _ _ _ h)
        ((createDynamicMemAlloc_quiets _ (I := .inst F b i) rfl _ _ _).keeps _ _ _ h)
    · split at h
      · obtain ⟨hc, he⟩ := createIntrinsic_created h
        exact hcreated hc (createIntrinsic_first h) he
          ((createIntrinsic_succkeeps _ _ _ _ _ _).keeps _ _ _ h)
          ((createIntrinsic_quiets _ (I := .inst F b i) rfl _ _ _ _ _).keeps _ _ _ h)
      · split at h
        · obtain ⟨hc, he⟩ := createUnknownCall_created h
          exact hcreated hc (by rw [he]; exact hc.2.1) (by rw [he]; exact hc.2.2)
            ((createUnknownCall_succkeeps _ _).keeps _ _ _ h)
            ((createUnknownCall_quiets _ (I := .inst F b i) rfl _).keeps _ _ _ h)
        · unfold createOrGetSubgraph at h
          simp only [M.bind_ok, M.pure_ok] at h
          obtain ⟨cf, s1, h1, u, s2, h2, rfl, rfl⟩ := h
          obtain ⟨subg, t0, r, -, -, ⟨w1, p1, a1, r1, f1⟩, i01, e1, e2, e3, e4, e5, -⟩ :=
            createCallToFunction_spec hb hbp hwf hpw haw hrw h1
          have hlt : cf.1 < s1.size := by
            have := i01.size_le
            omega
          have i2 := addNode_inert hlt h2
          have k2 := (addNode_succkeeps _ _).keeps _ _ _ h2
          have q2 := (addNode_quiets (fun _ => False) (I := .inst F b i) rfl _).keeps _ _ _ h2
          obtain ⟨p2, a2, r2, f2⟩ := lower_step w1 p1 a1 r1 hp i2.to_grow k2 q2
            (fun _ hn => hn.elim) (hphi _ s1.size)
          have hle : s.size ≤ s1.size := by
            have := i01.size_le
            omega
          refine ⟨⟨p2, a2, r2, f1.trans_af f2 hle⟩, by omega,
            lt_of_lt_of_le hlt i2.size_le, ?_, ?_⟩
          · rw [i2.kind_eq _ hlt, e4]
            decide
          · intro hc
            have hlt2 : cf.2 < s1.size := by
              have := i01.size_le
              omega
            have := hc.kind_phi a2
            rw [i2.kind_eq _ hlt2, e5] at this
            cases this
  | none =>
    simp only [hf, M.bind_ok, M.pure_ok] at h
    obtain ⟨op, s1, h1, cf, s2, h2, rc, s3, h3, u4, s4, h4, u5, s5, h5, u6, s6, h6, u7, s7, h7,
      rfl, rfl⟩ := h
    obtain ⟨⟨w1, p1, a1, r1, f1⟩, i1, -, -, -⟩ := getOperand_inv hwf hpw haw hrw h1
    obtain ⟨g7, k7, q7, ecf, erc, esz, ek⟩ := funcPtrPair_frames (I := .inst F b i) rfl
      h2 h3 h4 h5 h6 h7
    obtain ⟨p7, a7, r7, f7⟩ := lower_step w1 p1 a1 r1 hp g7 k7 (q7 (fun _ => False))
      (fun _ hn => hn.elim) (hphi _ s1.size)
    have hle := i1.size_le
    refine ⟨⟨p7, a7, r7, f1.trans_af f7 hle⟩, by omega, by omega, ?_, ?_⟩
    · rw [ek]
      decide
    · exact not_argNode_fresh p1 g7.subg_eq (by omega)

/-! ## The instructions of a block -/

theorem createPHI_spec {I : Value} {ty : Ty} {n : Nat} {s s' : LLVMPSSBuilder}
    (h : createPHI I ty s = .ok (n, s')) :
    n = s.size ∧ s'.nodes_map I = some n ∧ (s'.node n).kind = .PHI ∧
      (s'.node n).operands = [] := by
  unfold createPHI at h
  simp only [M.bind_ok, M.assert_ok, M.pure_ok] at h
  obtain ⟨u, s0, ⟨-, rfl⟩, node, s1, h1, u2, s2, h2, rfl, rfl⟩ := h
  obtain ⟨x, xk, -, -, xo, rfl, rfl⟩ := mkOpNode_ok _ _ _ _ _ h1
  unfold addNode at h2
  rw [M.modify_ok] at h2
  subst h2
  refine ⟨rfl, ?_, ?_, ?_⟩
  · simp
  · simp [xk]
  · simp [xo]

theorem createReturn_spec {m : Module} {I : Value} {rv : Option Value} {n : Nat}
    {s s' : LLVMPSSBuilder} (h : createReturn m I rv s = .ok (n, s')) :
    s'.nodes_map I = some n ∧ (s'.node n).kind = .RETURN := by
  unfold createReturn at h
  simp only [M.bind_ok, M.pure_ok] at h
  obtain ⟨op1, s0, -, node, s1, h1, u2, s2, h2, rfl, rfl⟩ := h
  obtain ⟨x, xk, -, -, -, rfl, rfl⟩ := mkOpNode_ok _ _ _ _ _ h1
  unfold addNode at h2
  rw [M.modify_ok] at h2
  subst h2
  refine ⟨?_, ?_⟩
  · simp
  · simp [xk]

theorem lowerInst_phi {m : Module} {F b i : Nat} {ty : Ty} {inc : List Value}
    {node r : Option Nat} {s s' : LLVMPSSBuilder} (hty : ty.isPointerTy = true)
    (h : lowerInst m F b i (.phi ty inc) node s = .ok (r, s')) :
    ∃ n, r = some n ∧ s'.nodes_map (.inst F b i) = some n ∧ s.size ≤ n ∧
      (s'.node n).kind = .PHI ∧ (s'.node n).operands = [] := by
  unfold lowerInst at h
  simp only [hty, if_true, M.bind_ok, M.pure_ok] at h
  obtain ⟨n, s1, h1, rfl, rfl⟩ := h
  obtain ⟨g1, g2, g3, g4⟩ := createPHI_spec h1
  exact ⟨n, rfl, g2, le_of_eq g1.symm, g3, g4⟩

theorem lowerInst_ret {m : Module} {F b i : Nat} {rv : Option Value}
    {node r : Option Nat} {s s' : LLVMPSSBuilder}
    (h : lowerInst m F b i (.ret rv) node s = .ok (r, s')) :
    ∃ n, r = some n ∧ s'.nodes_map (.inst F b i) = some n ∧ (s'.node n).kind = .RETURN := by
  unfold lowerInst at h
  simp only [M.bind_ok, M.pure_ok] at h
  obtain ⟨n, s1, h1, rfl, rfl⟩ := h
  obtain ⟨g1, g2⟩ := createReturn_spec h1
  exact ⟨n, rfl, g1, g2⟩

/-- The end of the loop body: the edge from the previous node to the new one. -/
theorem buildPSSBlockLink_inv {m : Module} {Pend : Nat → Option ((Nat × Nat) × (Nat × Nat))}
    {P : Nat → Prop} {retFirst prev node : Option Nat} {r : Option Nat × Option Nat}
    {s s' : LLVMPSSBuilder} (hwf : WF P s) (hpw : PW m Pend s) (haw : AW m s)
    (hrw : RW m Pend s)
    (hp : ∀ p, prev = some p → Exit s p ∧ ¬ ArgNode m s p)
    (hn : ∀ n, node = some n → Exit s n)
    (h : buildPSSBlockLink retFirst prev node s = .ok (r, s')) :
    (PW m Pend s' ∧ AW m s' ∧ RW m Pend s' ∧ ArgFrame m s s') ∧ Inert s s' ∧
      s'.nodes_map = s.nodes_map ∧
      r = (if node.isSome && prev.isNone then node else retFirst, node) := by
  obtain ⟨hi, hr⟩ := buildPSSBlockLink_inert (fun p hx => (hp p hx).1) h
  refine ⟨?_, hi, ?_, hr⟩
  · unfold buildPSSBlockLink at h
    simp only [M.bind_ok, M.pure_ok] at h
    obtain ⟨u, s1, h1, rfl, rfl⟩ := h
    cases prev with
    | none =>
      obtain ⟨-, rfl⟩ := (M.pure_ok _ _ _ _).mp h1
      exact ⟨hpw, haw, hrw, ArgFrame.rfl_af m _⟩
    | some p =>
      dsimp only at h1
      split at h1
      · cases node with
        | none => exact ((M.fail_ok _ _ _ _).mp h1).elim
        | some n =>
          rw [addSuccessor_ok] at h1
          subst h1
          exact (add_succ_step hpw haw hrw hwf.ret_kind (hp p rfl).2 (hn n rfl).1
            (hn n rfl).2.1).1
      · obtain ⟨-, rfl⟩ := (M.pure_ok _ _ _ _).mp h1
        exact ⟨hpw, haw, hrw, ArgFrame.rfl_af m _⟩
  · unfold buildPSSBlockLink at h
    simp only [M.bind_ok, M.pure_ok] at h
    obtain ⟨u, s1, h1, rfl, rfl⟩ := h
    cases prev with
    | none =>
      obtain ⟨-, rfl⟩ := (M.pure_ok _ _ _ _).mp h1
      rfl
    | some p =>
      dsimp only at h1
      split at h1
      · cases node with
        | none => exact ((M.fail_ok _ _ _ _).mp h1).elim
        | some n =>
          rw [addSuccessor_ok] at h1
          subst h1
          rfl
      · obtain ⟨-, rfl⟩ := (M.pure_ok _ _ _ _).mp h1
        rfl

theorem buildPSSBlockInst_inv {m : Module} {build : Nat → M Nat} (hb : BuildOK build)
    (hbp : BuildPW m build) {Pend : Nat → Option ((Nat × Nat) × (Nat × Nat))}
    {P : Nat → Prop} {F b i : Nat} {I : Inst} {retFirst node : Option Nat}
    {res : Option Nat × Option Nat} {s s' : LLVMPSSBuilder}
    (hwf : WF P s) (hpw : PW m Pend s) (haw : AW m s) (hrw : RW m Pend s)
    (hI : m.getInst F b i = some I) (hp : Pend F = some ((b, i), (0, 0)))
    (hnode : ∀ n, node = some n → Exit s n ∧ ¬ ArgNode m s n)
    (hrf : ∀ f, retFirst = some f → f < s.size ∧ (s.node f).kind ≠ .NOOP)
    (h : buildPSSBlockInst m build F b i I retFirst node s = .ok (res, s')) :
    (PW m (Function.update Pend F (some ((b, i + 1), (0, 0)))) s' ∧ AW m s' ∧
      RW m (Function.update Pend F (some ((b, i + 1), (0, 0)))) s' ∧ ArgFrame m s s') ∧
      (∀ n, res.2 = some n → ¬ ArgNode m s' n) ∧
      (∀ f, res.1 = some f → f < s'.size ∧ (s'.node f).kind ≠ .NOOP) ∧
      (∀ rv, I = .ret rv → ∃ n, res.2 = some n ∧ s'.nodes_map (.inst F b i) = some n ∧
        (s'.node n).kind = .RETURN) := by
  obtain ⟨hwf', hext, hex, -⟩ := buildPSSBlockInst_wf hb hwf (fun n hn => (hnode n hn).1) h
  have hrf' : ∀ f, retFirst = some f → f < s'.size ∧ (s'.node f).kind ≠ .NOOP := by
    intro f hf
    obtain ⟨g1, g2⟩ := hrf f hf
    exact ⟨lt_of_lt_of_le g1 hext.size_le, by rw [hext.kind_eq f g1]; exact g2⟩
  unfold buildPSSBlockInst at h
  split at h
  · rename_i ty cv args
    simp only [M.bind_ok, M.ofExcept_ok] at h
    obtain ⟨rel, s0, ⟨-, rfl⟩, h⟩ := h
    have hphi : ∀ (t : LLVMPSSBuilder) (z : Nat) ty' inc,
        m.getInst F b i = some (.phi ty' inc) → ty'.isPointerTy = true →
        ∃ n, t.nodes_map (.inst F b i) = some n ∧ z ≤ n ∧ (t.node n).kind = .PHI ∧
          (t.node n).operands = [] := by
      intro t z ty' inc hx
      rw [hI] at hx
      cases hx
    split at h
    · obtain ⟨⟨p1, a1, r1, f1⟩, i1, -, hr⟩ := buildPSSBlockLink_inv hwf hpw haw hrw hnode
        (fun n hn => (hnode n hn).1) h
      obtain ⟨p2, a2, r2, -⟩ := lower_step hwf' p1 a1 r1 hp (Grow.rfl_grow _)
        (SuccKeep.rfl_sk _) (Quiet.rfl_quiet (fun _ => False) _ _) (fun _ hn => hn.elim)
        (hphi s' s'.size)
      have hr1 : res.1 = retFirst := by
        rw [hr]
        cases node <;> rfl
      have hr2 : res.2 = node := by rw [hr]
      refine ⟨⟨p2, a2, r2, f1⟩, ?_, ?_, ?_⟩
      · intro n hn hc
        rw [hr2] at hn
        exact (hnode n hn).2 (f1.anti n (hnode n hn).1.1 hc)
      · intro f hf
        rw [hr1] at hf
        exact hrf' f hf
      · intro rv hc
        cases hc
    · simp only [M.bind_ok] at h
      obtain ⟨subg, s1, h1, rf, s2, h2, h3⟩ := h
      obtain ⟨⟨p1, a1, r1, f1⟩, e1, e2, e3, e4⟩ := createCall_inv hb hbp hwf hpw haw hrw hI hp h1
      obtain ⟨w1, x1, ex1⟩ := createCall_wf hb hwf h1
      have k2 : (PW m (Function.update Pend F (some ((b, i + 1), (0, 0)))) s2 ∧ AW m s2 ∧
          RW m (Function.update Pend F (some ((b, i + 1), (0, 0)))) s2 ∧ ArgFrame m s1 s2) ∧
          WF P s2 ∧ Inert s1 s2 ∧
          (∀ f, rf = some f → f < s2.size ∧ (s2.node f).kind ≠ .NOOP) := by
        cases node with
        | none =>
          obtain ⟨rfl, rfl⟩ := (M.pure_ok _ _ _ _).mp h2
          refine ⟨⟨p1, a1, r1, ArgFrame.rfl_af m _⟩, w1, Inert.rfl_inert _, ?_⟩
          intro f hf
          cases hf
          exact ⟨e2, e3⟩
        | some p =>
          simp only [M.bind_ok, M.pure_ok] at h2
          obtain ⟨u, t1, k1, rfl, rfl⟩ := h2
          have hpe := ((hnode p rfl).1).after_ext x1
          have i2 := addSuccessor_inert hpe k1
          rw [addSuccessor_ok] at k1
          subst k1
          have hpa : ¬ ArgNode m s1 p := fun hc => (hnode p rfl).2 (f1.anti p (hnode p rfl).1.1 hc)
          refine ⟨(add_succ_step p1 a1 r1 w1.ret_kind hpa e2 e3).1, w1.step_inert i2, i2, ?_⟩
          intro f hf
          obtain ⟨g1, g2⟩ := hrf f hf
          have g3 : f < s1.size := lt_of_lt_of_le g1 x1.size_le
          refine ⟨g3, ?_⟩
          rw [i2.kind_eq f g3, x1.kind_eq f g1]
          exact g2
      obtain ⟨⟨p2, a2, r2, f2⟩, w2, i2, hrf2⟩ := k2
      have hex2 : Exit s2 subg.2 := ex1.mono_inert i2
      have ha2 : ¬ ArgNode m s2 subg.2 := fun hc => e4 (f2.anti _ ex1.1 hc)
      obtain ⟨⟨p3, a3, r3, f3⟩, i3, -, hr⟩ := buildPSSBlockLink_inv w2 p2 a2 r2
        (fun p hx => by cases hx; exact ⟨hex2, ha2⟩) (fun n hn => by cases hn; exact hex2) h3
      have hr1 : res.1 = rf := by rw [hr]; rfl
      have hr2 : res.2 = some subg.2 := by rw [hr]
      refine ⟨⟨p3, a3, r3, f1.trans_af (f2.trans_af f3 i2.size_le) x1.size_le⟩, ?_, ?_, ?_⟩
      · intro n hn hc
        rw [hr2] at hn
        cases hn
        exact ha2 (f3.anti _ hex2.1 hc)
      · intro f hf
        rw [hr1] at hf
        obtain ⟨g1, g2⟩ := hrf2 f hf
        exact ⟨lt_of_lt_of_le g1 i3.size_le, by rw [i3.kind_eq f g1]; exact g2⟩
      · intro rv hc
        cases hc
  · simp only [M.bind_ok] at h
    obtain ⟨n, s1, h1, h2⟩ := h
    obtain ⟨i1, hdich⟩ := lowerInst_inert h1
    have k1 := (lowerInst_succkeeps m F b i I node).keeps _ _ _ h1
    have q1 := (lowerInst_quiets (fun _ => False) m F b i I node).keeps _ _ _ h1
    have w1 := hwf.step_inert i1
    obtain ⟨p1, a1, r1, f1⟩ := lower_step hwf hpw haw hrw hp i1.to_grow k1 q1
      (fun _ hn => hn.elim) (by
        intro ty inc hx hty
        rw [hI] at hx
        cases hx
        obtain ⟨x, -, g2, g3, g4, g5⟩ := lowerInst_phi hty h1
        exact ⟨x, g2, g3, g4, g5⟩)
    have hn1 : ∀ x, n = some x → Exit s1 x ∧ ¬ ArgNode m s1 x := by
      intro x hx
      rcases hdich with rfl | ⟨y, rfl, g1, g2⟩
      · exact ⟨(hnode x hx).1.mono_inert i1,
          fun hc => (hnode x hx).2 (f1.anti x (hnode x hx).1.1 hc)⟩
      · cases hx
        exact ⟨i1.exit_fresh g1 g2, not_argNode_fresh hpw i1.subg_eq g1⟩
    obtain ⟨⟨p2, a2, r2, f2⟩, i2, hmap, hr⟩ := buildPSSBlockLink_inv w1 p1 a1 r1
      (fun p hx => ⟨(hnode p hx).1.mono_inert i1,
        fun hc => (hnode p hx).2 (f1.anti p (hnode p hx).1.1 hc)⟩)
      (fun x hx => (hn1 x hx).1) h2
    have hr2 : res.2 = n := by rw [hr]
    refine ⟨⟨p2, a2, r2, f1.trans_af f2 i1.size_le⟩, ?_, ?_, ?_⟩
    · intro x hx hc
      rw [hr2] at hx
      exact (hn1 x hx).2 (f2.anti x (hn1 x hx).1.1 hc)
    · intro f hf
      rw [hr] at hf
      simp only at hf
      split at hf
      · obtain ⟨g1, g2⟩ := hn1 f hf
        exact ⟨lt_of_lt_of_le g1.1 i2.size_le, by rw [i2.kind_eq f g1.1]; exact g1.2.1⟩
      · exact hrf' f hf
    · intro rv hc
      subst hc
      obtain ⟨x, rfl, g2, g3⟩ := lowerInst_ret h1
      refine ⟨x, hr2, by rw [hmap]; exact g2, ?_⟩
      rw [i2.kind_eq x (hn1 x rfl).1.1]
      exact g3

theorem buildPSSBlockLoop_inv {m : Module} {build : Nat → M Nat} (hb : BuildOK build)
    (hbp : BuildPW m build) {P : Nat → Prop} {F b : Nat} :
    ∀ (insts : List Inst) (Pend : Nat → Option ((Nat × Nat) × (Nat × Nat))) (i : Nat)
      (retFirst node : Option Nat) (res : Option Nat × Option Nat) (s s' : LLVMPSSBuilder),
      WF P s → PW m Pend s → AW m s → RW m Pend s →
      (∀ k, insts.get? k = m.getInst F b (i + k)) → Pend F = some ((b, i), (0, 0)) →
      (∀ n, node = some n → Exit s n ∧ ¬ ArgNode m s n) →
      (∀ f, retFirst = some f → f < s.size ∧ (s.node f).kind ≠ .NOOP) →
      buildPSSBlockLoop m build F b insts i retFirst node s = .ok (res, s') →
      (PW m (Function.update Pend F (some ((b, i + insts.length), (0, 0)))) s' ∧ AW m s' ∧
        RW m (Function.update Pend F (some ((b, i + insts.length), (0, 0)))) s' ∧
        ArgFrame m s s') ∧
        (∀ n, res.2 = some n → ¬ ArgNode m s' n) ∧
        (∀ f, res.1 = some f → f < s'.size ∧ (s'.node f).kind ≠ .NOOP) ∧
        (∀ k rv, insts.get? k = some (.ret rv) → k + 1 = insts.length →
          ∃ n, res.2 = some n ∧ s'.nodes_map (.inst F b (i + k)) = some n ∧
            (s'.node n).kind = .RETURN) := by
  intro insts
  induction insts with
  | nil =>
    intro Pend i retFirst node res s s' hwf hpw haw hrw _ hp hnode hrf h
    unfold buildPSSBlockLoop at h
    obtain ⟨rfl, rfl⟩ := (M.pure_ok _ _ _ _).mp h
    have hP : Function.update Pend F (some ((b, i + ([] : List Inst).length), (0, 0))) = Pend := by
      have hx : some ((b, i + ([] : List Inst).length), ((0 : Nat), (0 : Nat))) = Pend F :=
        hp.symm
      rw [hx]
      exact Function.update_eq_self F Pend
    rw [hP]
    refine ⟨⟨hpw, haw, hrw, ArgFrame.rfl_af m _⟩, fun n hn => (hnode n hn).2, hrf, ?_⟩
    intro k rv hk
    cases hk
  | cons I rest ih =>
    intro Pend i retFirst node res s s' hwf hpw haw hrw hins hp hnode hrf h
    unfold buildPSSBlockLoop at h
    simp only [M.bind_ok] at h
    obtain ⟨r, s1, h1, h2⟩ := h
    have hI : m.getInst F b i = some I := by
      have := hins 0
      simpa using this.symm
    have hins' : ∀ k, rest.get? k = m.getInst F b (i + 1 + k) := by
      intro k
      have := hins (k + 1)
      rw [List.get?_cons_succ] at this
      rw [this]
      congr 1
      omega
    obtain ⟨w1, x1, ex1, -⟩ := buildPSSBlockInst_wf hb hwf (fun n hn => (hnode n hn).1) h1
    obtain ⟨⟨p1, a1, r1, f1⟩, e1, e2, e3⟩ :=
      buildPSSBlockInst_inv hb hbp hwf hpw haw hrw hI hp hnode hrf h1
    obtain ⟨⟨p2, a2, r2, f2⟩, g1, g2, g3⟩ :=
      ih _ (i + 1) r.1 r.2 res s1 s' w1 p1 a1 r1 hins' (Function.update_same _ _ _)
        (fun n hn => ⟨ex1 n hn, e1 n hn⟩) e2 h2
    have hP : Function.update (Function.update Pend F (some ((b, i + 1), (0, 0)))) F
        (some ((b, i + 1 + rest.length), (0, 0))) =
        Function.update Pend F (some ((b, i + (I :: rest).length), (0, 0))) := by
      rw [Function.update_idem, List.length_cons,
        show i + 1 + rest.length = i + (rest.length + 1) by omega]
    rw [hP] at p2 r2
    refine ⟨⟨p2, a2, r2, f1.trans_af f2 x1.size_le⟩, g1, g2, ?_⟩
    intro k rv hk hlen
    cases k with
    | zero =>
      simp only [List.get?_cons_zero, Option.some.injEq] at hk
      subst hk
      have hrest : rest = [] := by
        simp only [List.length_cons] at hlen
        exact List.length_eq_zero.mp (by omega)
      subst hrest
      unfold buildPSSBlockLoop at h2
      obtain ⟨rfl, rfl⟩ := (M.pure_ok _ _ _ _).mp h2
      exact e3 rv rfl
    | succ k =>
      rw [List.get?_cons_succ] at hk
      obtain ⟨n, y1, y2, y3⟩ := g3 k rv hk (by simp only [List.length_cons] at hlen; omega)
      refine ⟨n, y1, ?_, y3⟩
      rw [show i + (k + 1) = i + 1 + k by omega]
      exact y2

theorem buildPSSBlock_inv {m : Module} {build : Nat → M Nat} (hb : BuildOK build)
    (hbp : BuildPW m build) {Pend : Nat → Option ((Nat × Nat) × (Nat × Nat))}
    {P : Nat → Prop} {F b : Nat} {res : Option Nat × Option Nat} {s s' : LLVMPSSBuilder}
    (hwf : WF P s) (hpw : PW m Pend s) (haw : AW m s) (hrw : RW m Pend s)
    (hp : Pend F = some ((b, 0), (0, 0)))
    (h : buildPSSBlock m build F b s = .ok (res, s')) :
    (PW m (Function.update Pend F (some ((b, (m.getBlock F b).insts.length), (0, 0)))) s' ∧
      AW m s' ∧
      RW m (Function.update Pend F (some ((b, (m.getBlock F b).insts.length), (0, 0)))) s' ∧
      ArgFrame m s s') ∧
      (∀ n, res.2 = some n → ¬ ArgNode m s' n) ∧
      (∀ f, res.1 = some f → f < s'.size ∧ (s'.node f).kind ≠ .NOOP) ∧
      (∀ k rv, m.getInst F b k = some (.ret rv) → k + 1 = (m.getBlock F b).insts.length →
        ∃ n, res.2 = some n ∧ s'.nodes_map (.inst F b k) = some n ∧
          (s'.node n).kind = .RETURN) := by
  unfold buildPSSBlock at h
  obtain ⟨g0, g1, g2, g3⟩ := buildPSSBlockLoop_inv hb hbp (m.getBlock F b).insts Pend 0 none none
    res s s' hwf hpw haw hrw (fun k => by rw [Nat.zero_add]; rfl) hp
    (fun _ hn => by cases hn) (fun _ hf => by cases hf) h
  rw [Nat.zero_add] at g0
  refine ⟨g0, g1, g2, ?_⟩
  intro k rv hk hlen
  obtain ⟨n, y1, y2, y3⟩ := g3 k rv hk hlen
  rw [Nat.zero_add] at y2
  exact ⟨n, y1, y2, y3⟩

/-! ## Recording the blocks of a function -/

theorem StitchReach.congr_table_sr {m : Module} {bb bb' : Nat × Nat → Option Nat × Option Nat}
    {F B S : Nat} (hbb : ∀ E, bb' (F, E) = bb (F, E)) (h : StitchReach m bb F B S) :
    StitchReach m bb' F B S := by
  induction h with
  | edge h1 => exact StitchReach.edge h1
  | through h1 h2 _ ih => exact StitchReach.through h1 (by rw [hbb]; exact h2) ih

theorem IsRetLast.congr_table_rl {m : Module} {s s' : LLVMPSSBuilder} {G : Nat}
    (hbb : ∀ E, s'.built_blocks (G, E) = s.built_blocks (G, E)) (n : Nat) :
    IsRetLast m s' G n ↔ IsRetLast m s G n := by
  unfold IsRetLast
  constructor
  · rintro ⟨b, h1, h2, h3, h4⟩
    refine ⟨b, h1, by rw [← hbb]; exact h2, by rw [← hbb]; exact h3, ?_⟩
    intro S hS
    rw [← hbb]
    exact h4 S (hS.congr_table_sr hbb)
  · rintro ⟨b, h1, h2, h3, h4⟩
    refine ⟨b, h1, by rw [hbb]; exact h2, by rw [hbb]; exact h3, ?_⟩
    intro S hS
    rw [hbb]
    exact h4 S (hS.congr_table_sr (fun E => (hbb E).symm))

/-- Recording the nodes of the block the function has got to, and moving on to the next
block. -/
theorem RW.set_block_rw {m : Module} {Pend : Nat → Option ((Nat × Nat) × (Nat × Nat))}
    {s : LLVMPSSBuilder} {F b i : Nat} {q : Nat × Nat} (hrw : RW m Pend s)
    (hp : Pend F = some ((b, i), q)) (nds : Option Nat × Option Nat)
    (hf : ∀ f, nds.1 = some f → f < s.size ∧ (s.node f).kind ≠ .NOOP)
    (hret : ∀ k rv, m.getInst F b k = some (.ret rv) →
      k + 1 = (m.getBlock F b).insts.length →
      ∃ n, s.nodes_map (.inst F b k) = some n ∧ nds.2 = some n ∧ (s.node n).kind = .RETURN) :
    RW m (Function.update Pend F (some ((b + 1, 0), q)))
      { s with built_blocks := fun k => if k = (F, b) then nds else s.built_blocks k } := by
  have hother : ∀ G, G ≠ F → ∀ E,
      (if (G, E) = (F, b) then nds else s.built_blocks (G, E)) = s.built_blocks (G, E) := by
    intro G hG E
    rw [if_neg]
    intro hc
    cases hc
    exact hG rfl
  refine ⟨hrw.succ_lt, ?_, ?_, ?_, ?_⟩
  · intro G p' q' t hr hp' ht n hn
    by_cases hG : G = F
    · subst hG
      exact hrw.pend G _ _ t hr hp ht n hn
    · rw [Function.update_noteq hG] at hp'
      exact hrw.pend G p' q' t hr hp' ht n hn
  · intro G t hr hp' ht n hn
    have hG : G ≠ F := by
      intro hc
      subst hc
      rw [Function.update_same] at hp'
      cases hp'
    rw [Function.update_noteq hG] at hp'
    rw [IsRetLast.congr_table_rl (s := s) (hother G hG)]
    exact hrw.done G t hr hp' ht n hn
  · intro G E f hx
    simp only at hx
    split at hx
    · exact hf f hx
    · exact hrw.firsts G E f hx
  · intro G b' i' rv hr hi hl hpos
    by_cases hG : G = F
    · subst hG
      have hb' := hpos _ _ (Function.update_same _ _ _)
      simp only at hb'
      by_cases hbb : b' = b
      · subst hbb
        obtain ⟨n, g1, g2, g3⟩ := hret i' rv hi hl
        exact ⟨n, g1, by simp only [if_true]; exact g2, g3⟩
      · obtain ⟨n, g1, g2, g3⟩ := hrw.rets G b' i' rv hr hi hl (by
          intro p0 q0 h0
          rw [hp] at h0
          cases h0
          simp only
          omega)
        refine ⟨n, g1, ?_, g3⟩
        simp only
        rw [if_neg]
        · exact g2
        · intro hc
          cases hc
          exact hbb rfl
    · obtain ⟨n, g1, g2, g3⟩ := hrw.rets G b' i' rv hr hi hl (by
        intro p0 q0 h0
        have := hpos p0 q0 (by rw [Function.update_noteq hG]; exact h0)
        exact this)
      refine ⟨n, g1, ?_, g3⟩
      simp only
      rw [hother G hG]
      exact g2

/-- Moving on to the next block, in the progress invariant. -/
theorem PW.next_block {m : Module} {Pend : Nat → Option ((Nat × Nat) × (Nat × Nat))}
    {s : LLVMPSSBuilder} {F b : Nat} {q : Nat × Nat} (hpw : PW m Pend s)
    (hp : Pend F = some ((b, (m.getBlock F b).insts.length), q)) :
    PW m (Function.update Pend F (some ((b + 1, 0), q))) s := by
  refine hpw.repos hp ?_ ?_
  · intro b' i' h hc
    apply h
    unfold posLt at hc ⊢
    simp only at hc ⊢
    omega
  · intro b' i' ty inc hI _
    refine ⟨?_, Iff.rfl⟩
    have hlt : i' < (m.getBlock F b').insts.length := by
      unfold Module.getInst at hI
      rw [List.get?_eq_some] at hI
      exact hI.1
    unfold posLt
    simp only
    constructor
    · intro hc
      rcases hc with hc | hc
      · by_cases hbb : b' = b
        · subst hbb
          exact Or.inr ⟨rfl, hlt⟩
        · exact Or.inl (by omega)
      · omega
    · intro hc
      omega

/-- The root of a subgraph is no argument node. -/
theorem not_argNode_root {m : Module} {P : Nat → Prop} {s : LLVMPSSBuilder} (hwf : WF P s)
    (haw : AW m s) {F r : Nat} (hr : (s.subgraphs_map F).root = some r) : ¬ ArgNode m s r := by
  intro hc
  have h1 := hc.kind_phi haw
  rw [(hwf.subg_ok F r hr).2.1] at h1
  cases h1

theorem buildBlocksLoop_inv {m : Module} {build : Nat → M Nat} (hb : BuildOK build)
    (hbp : BuildPW m build) {P : Nat → Prop} {F root lastNode : Nat} :
    ∀ (blocks : List BasicBlock) (Pend : Nat → Option ((Nat × Nat) × (Nat × Nat))) (b : Nat)
      (first : Option Nat) (u : Unit) (s s' : LLVMPSSBuilder),
      WF P s → PW m Pend s → AW m s → RW m Pend s →
      (s.subgraphs_map F).root = some root → Pend F = some ((b, 0), (0, 0)) →
      Exit s root → Exit s lastNode →
      (lastNode = root ∨ (lastNode = root + 1 + argCount m F ∧ 0 < argCount m F ∧
        (first = none → (s.node lastNode).successors = []))) →
      buildBlocksLoop m build F root lastNode blocks b first s = .ok (u, s') →
      (PW m (Function.update Pend F (some ((b + blocks.length, 0), (0, 0)))) s' ∧ AW m s' ∧
        RW m (Function.update Pend F (some ((b + blocks.length, 0), (0, 0)))) s') ∧
        WF P s' ∧ Ext s s' ∧
        (∀ n, ArgNode m s n → ArgNode m s' n) ∧
        (∀ n, n < s.size → ArgNode m s' n → ArgNode m s n) ∧
        (∀ n, ArgNode m s n → n ≠ lastNode →
          (s'.node n).successors = (s.node n).successors) := by
  intro blocks
  induction blocks with
  | nil =>
    intro Pend b first u s s' hwf hpw haw hrw _ hp _ _ _ h
    unfold buildBlocksLoop at h
    obtain ⟨-, rfl⟩ := (M.pure_ok _ _ _ _).mp h
    have hP : Function.update Pend F (some ((b + ([] : List BasicBlock).length, 0), (0, 0))) =
        Pend := by
      have hx : some ((b + ([] : List BasicBlock).length, (0 : Nat)), ((0 : Nat), (0 : Nat))) =
          Pend F := hp.symm
      rw [hx]
      exact Function.update_eq_self F Pend
    rw [hP]
    exact ⟨⟨hpw, haw, hrw⟩, hwf, Ext.rfl_ext _, fun _ h => h, fun _ _ h => h, fun _ _ _ => rfl⟩
  | cons B rest ih =>
    intro Pend b first u s s' hwf hpw haw hrw hroot hp hxr hxl hl h
    unfold buildBlocksLoop at h
    simp only [M.bind_ok] at h
    obtain ⟨nds, s1, h1, r, s2, h2, u3, s3, h3, h4⟩ := h
    obtain ⟨w1, x1, ex1, cons1⟩ := buildPSSBlock_wf hb hwf h1
    obtain ⟨⟨p1, a1, r1, f1⟩, e1, e2, e3⟩ := buildPSSBlock_inv hb hbp hwf hpw haw hrw hp h1
    have hroot1 : (s1.subgraphs_map F).root = some root := by
      rw [x1.subg_eq F (by rw [hroot]; exact fun hc => by cases hc)]
      exact hroot
    have hxr1 := hxr.after_ext x1
    have hxl1 := hxl.after_ext x1
    have hra1 : ¬ ArgNode m s1 root := not_argNode_root w1 a1 hroot1
    have hp1 : Function.update Pend F (some ((b, (m.getBlock F b).insts.length), (0, 0))) F =
        some ((b, (m.getBlock F b).insts.length), (0, 0)) := Function.update_same _ _ _
    -- the edge to the first block with nodes
    have K : (PW m (Function.update Pend F (some ((b, (m.getBlock F b).insts.length),
          (0, 0)))) s2 ∧ AW m s2 ∧
        RW m (Function.update Pend F (some ((b, (m.getBlock F b).insts.length), (0, 0)))) s2) ∧
        WF P s2 ∧ Inert s1 s2 ∧ s2.nodes_map = s1.nodes_map ∧
        (∀ n, n ≠ lastNode → (s2.node n).successors = (s1.node n).successors) ∧
        (∀ l, r.1.2 = some l → Exit s2 l ∧ ¬ ArgNode m s2 l) ∧
        r.1.1.isSome = r.1.2.isSome ∧
        (∀ f, r.1.1 = some f → f < s2.size ∧ (s2.node f).kind ≠ .NOOP) ∧
        (∀ k rv, m.getInst F b k = some (.ret rv) →
          k + 1 = (m.getBlock F b).insts.length →
          ∃ n, s2.nodes_map (.inst F b k) = some n ∧ r.1.2 = some n ∧
            (s2.node n).kind = .RETURN) ∧
        r.2 ≠ none := by
      have same : ∀ first', r = (nds, some first') → s2 = s1 →
          (PW m (Function.update Pend F (some ((b, (m.getBlock F b).insts.length),
              (0, 0)))) s2 ∧ AW m s2 ∧
            RW m (Function.update Pend F (some ((b, (m.getBlock F b).insts.length),
              (0, 0)))) s2) ∧
          WF P s2 ∧ Inert s1 s2 ∧ s2.nodes_map = s1.nodes_map ∧
          (∀ n, n ≠ lastNode → (s2.node n).successors = (s1.node n).successors) ∧
          (∀ l, r.1.2 = some l → Exit s2 l ∧ ¬ ArgNode m s2 l) ∧
          r.1.1.isSome = r.1.2.isSome ∧
          (∀ f, r.1.1 = some f → f < s2.size ∧ (s2.node f).kind ≠ .NOOP) ∧
          (∀ k rv, m.getInst F b k = some (.ret rv) →
            k + 1 = (m.getBlock F b).insts.length →
            ∃ n, s2.nodes_map (.inst F b k) = some n ∧ r.1.2 = some n ∧
              (s2.node n).kind = .RETURN) ∧
          r.2 ≠ none := by
        intro first' hr hs
        subst hr
        subst hs
        refine ⟨⟨p1, a1, r1⟩, w1, Inert.rfl_inert _, rfl, fun _ _ => rfl,
          fun l hx => ⟨ex1 l hx, e1 l hx⟩, cons1, e2, ?_, fun hc => by cases hc⟩
        intro k rv hk hlen
        obtain ⟨n, g1, g2, g3⟩ := e3 k rv hk hlen
        exact ⟨n, g2, g1, g3⟩
      cases first with
      | none =>
        cases hn : nds.1 with
        | none =>
          simp only [hn] at h2
          obtain ⟨rfl, rfl⟩ := (M.pure_ok _ _ _ _).mp h2
          refine ⟨⟨p1, a1, r1⟩, w1, Inert.rfl_inert _, rfl, fun _ _ => rfl, ?_, rfl, ?_, ?_,
            fun hc => by cases hc⟩
          · intro l hx
            cases hx
            exact ⟨hxr1, hra1⟩
          · intro f hx
            cases hx
            exact ⟨hxr1.1, hxr1.2.1⟩
          · intro k rv hk hlen
            obtain ⟨n, g1, -, -⟩ := e3 k rv hk hlen
            rw [hn, g1] at cons1
            cases cons1
        | some f =>
          simp only [hn, M.bind_ok, M.pure_ok] at h2
          obtain ⟨u1, t1, k1, rfl, rfl⟩ := h2
          have i2 := addSuccessor_inert hxl1 k1
          rw [addSuccessor_ok] at k1
          subst k1
          obtain ⟨hf1, hf2⟩ := e2 f hn
          have haw2 : AW m (s1.update lastNode fun x =>
              { x with successors := x.successors ++ [f] }) := by
            rcases hl with rfl | ⟨rfl, hpos, hnil⟩
            · exact a1.add_succ_aw p1 f hra1
            · refine a1.add_last p1 f hroot1 ?_
              rw [f1.succ_eq _ (ArgNode.last_arg hroot hpos)]
              exact hnil rfl
          have hkind : ∀ n, ((s1.update lastNode fun x =>
              { x with successors := x.successors ++ [f] }).node n).kind = (s1.node n).kind := by
            intro n
            rw [LLVMPSSBuilder.update_node]
            split
            · subst_vars
              rfl
            · rfl
          refine ⟨⟨p1.add_succ_pw lastNode f, haw2, r1.add_succ_rw w1.ret_kind lastNode hf1 hf2⟩,
            w1.step_inert i2, i2, rfl, ?_, ?_, cons1, ?_, ?_, fun hc => by cases hc⟩
          · intro n hne
            rw [LLVMPSSBuilder.update_node, if_neg hne]
          · intro l hx
            refine ⟨(ex1 l hx).mono_inert i2, ?_⟩
            intro hc
            exact e1 l hx ((ArgNode.of_subg_eq i2.subg_eq).mp hc)
          · intro f' hx
            obtain ⟨g1, g2⟩ := e2 f' hx
            exact ⟨g1, by rw [hkind]; exact g2⟩
          · intro k rv hk hlen
            obtain ⟨n, g1, g2, g3⟩ := e3 k rv hk hlen
            exact ⟨n, g2, g1, by rw [hkind]; exact g3⟩
      | some f0 =>
        obtain ⟨rfl, rfl⟩ := (M.pure_ok _ _ _ _).mp h2
        exact same f0 rfl rfl
    obtain ⟨⟨p2, a2, r2⟩, w2, i2, hmap2, hsucc2, hl2, hc2, hf2, hret2, hfirst2⟩ := K
    -- the block is recorded
    obtain ⟨w3, x3⟩ := setBuiltBlock_wf w2 (fun l hx => (hl2 l hx).1) hc2 h3
    unfold setBuiltBlock at h3
    rw [M.modify_ok] at h3
    subst h3
    have p3 := (p2.set_block_pw (F, b) r.1).next_block hp1
    have a3 := a2.set_block_aw (F, b) r.1 (fun l hx => ⟨(hl2 l hx).1.1, (hl2 l hx).2⟩)
    have r3 := r2.set_block_rw hp1 r.1 hf2 hret2
    rw [Function.update_idem] at p3 r3
    have x13 : Ext s1 { s2 with built_blocks := fun k =>
        if k = (F, b) then r.1 else s2.built_blocks k } := i2.to_ext.trans_ext x3
    have x03 := x1.trans_ext x13
    have hroot3 : (({ s2 with built_blocks := fun k =>
        if k = (F, b) then r.1 else s2.built_blocks k } : LLVMPSSBuilder).subgraphs_map
        F).root = some root := by
      show (s2.subgraphs_map F).root = some root
      rw [i2.subg_eq]
      exact hroot1
    have hl3 : lastNode = root ∨ (lastNode = root + 1 + argCount m F ∧ 0 < argCount m F ∧
        (r.2 = none → (({ s2 with built_blocks := fun k =>
          if k = (F, b) then r.1 else s2.built_blocks k } : LLVMPSSBuilder).node
          lastNode).successors = [])) := by
      rcases hl with hl | ⟨g1, g2, -⟩
      · exact Or.inl hl
      · exact Or.inr ⟨g1, g2, fun hc => absurd hc hfirst2⟩
    obtain ⟨⟨p4, a4, r4⟩, w4, x4, m4, n4, s4⟩ :=
      ih _ (b + 1) r.2 u _ s' w3 p3 a3 r3 hroot3 (Function.update_same _ _ _)
        (hxr.after_ext x03) (hxl.after_ext x03) hl3 h4
    rw [Function.update_idem, show b + 1 + rest.length = b + (B :: rest).length by
      simp only [List.length_cons]; omega] at p4 r4
    have hsub13 : ({ s2 with built_blocks := fun k =>
        if k = (F, b) then r.1 else s2.built_blocks k } : LLVMPSSBuilder).subgraphs_map =
        s1.subgraphs_map := i2.subg_eq
    refine ⟨⟨p4, a4, r4⟩, w4, x03.trans_ext x4, ?_, ?_, ?_⟩
    · intro n hn
      exact m4 n ((ArgNode.of_subg_eq hsub13).mpr (f1.mono n hn))
    · intro n hn hc
      have hn3 : n < ({ s2 with built_blocks := fun k =>
          if k = (F, b) then r.1 else s2.built_blocks k } : LLVMPSSBuilder).size :=
        lt_of_lt_of_le hn x03.size_le
      exact f1.anti n hn ((ArgNode.of_subg_eq hsub13).mp (n4 n hn3 hc))
    · intro n hn hne
      rw [s4 n ((ArgNode.of_subg_eq hsub13).mpr (f1.mono n hn)) hne]
      show (s2.node n).successors = _
      rw [hsucc2 n hne, f1.succ_eq n hn]

/-! ## The argument nodes of a function -/

theorem ArgChain.push_arg {s : LLVMPSSBuilder} {base j : Nat} (h : ArgChain s base j)
    (x : PSSNode) (hk : x.kind = .PHI) (ho : x.operands = []) (hp : x.pairedNode = none)
    (hs : x.successors = []) :
    ArgChain (if j = 0 then s.push x else
      (s.push x).update (base + j - 1) fun y =>
        { y with successors := y.successors ++ [base + j] }) base (j + 1) := by
  obtain ⟨hsz, hch⟩ := h
  by_cases hj : j = 0
  · subst hj
    rw [if_pos rfl]
    refine ⟨by rw [LLVMPSSBuilder.push_size, hsz], ?_⟩
    intro k hk'
    have hk0 : k = 0 := by omega
    subst hk0
    rw [LLVMPSSBuilder.push_node, if_pos (by omega)]
    exact ⟨hk, ho, hp, by rw [hs]; simp⟩
  · rw [if_neg hj]
    refine ⟨by show (s.push x).size = _; rw [LLVMPSSBuilder.push_size, hsz]; omega, ?_⟩
    intro k hk'
    rw [LLVMPSSBuilder.update_node]
    by_cases h1 : base + k = base + j - 1
    · rw [if_pos h1]
      have hkj : k = j - 1 := by omega
      have hne : base + j - 1 ≠ s.size := by omega
      rw [LLVMPSSBuilder.push_node, if_neg hne]
      obtain ⟨g1, g2, g3, g4⟩ := hch (j - 1) (by omega)
      have e : base + (j - 1) = base + j - 1 := by omega
      rw [e] at g1 g2 g3 g4
      refine ⟨g1, g2, g3, ?_⟩
      simp only
      rw [g4, if_neg (by omega), if_pos (by omega)]
      simp only [List.nil_append, List.cons.injEq, and_true]
      omega
    · rw [if_neg h1]
      by_cases h2 : k = j
      · subst h2
        rw [LLVMPSSBuilder.push_node, if_pos hsz.symm]
        exact ⟨hk, ho, hp, by rw [hs, if_neg (by omega)]⟩
      · have hne : base + k ≠ s.size := by omega
        rw [LLVMPSSBuilder.push_node, if_neg hne]
        obtain ⟨g1, g2, g3, g4⟩ := hch k (by omega)
        refine ⟨g1, g2, g3, ?_⟩
        rw [g4, if_pos (by omega), if_pos (by omega)]

theorem ArgChain.congr_node {s s' : LLVMPSSBuilder} {base j : Nat} (h : ArgChain s base j)
    (h1 : s'.size = s.size) (h2 : s'.node = s.node) : ArgChain s' base j := by
  unfold ArgChain at h ⊢
  rw [h1, h2]
  exact h

theorem buildArgumentsLoop_spec {m : Module} {F base : Nat} :
    ∀ (rest : List Ty) (idx : Nat) (retFirst prev : Option Nat)
      (res : Option Nat × Option Nat) (s s' : LLVMPSSBuilder),
      (∀ k, rest.get? k = (m.getFunc F).params.get? (idx + k)) →
      ArgChain s base (ptrsBefore m F idx) →
      prev = (if ptrsBefore m F idx = 0 then none
        else some (base + ptrsBefore m F idx - 1)) →
      retFirst = (if ptrsBefore m F idx = 0 then none else some base) →
      buildArgumentsLoop F rest idx retFirst prev s = .ok (res, s') →
      ArgChain s' base (ptrsBefore m F (idx + rest.length)) ∧
        res = (if ptrsBefore m F (idx + rest.length) = 0 then none else some base,
          if ptrsBefore m F (idx + rest.length) = 0 then none
          else some (base + ptrsBefore m F (idx + rest.length) - 1)) ∧
        (∀ n, n < base ∨ s'.size ≤ n → s'.node n = s.node n) ∧
        (∀ k A, rest.get? k = some A → A.isPointerTy = true →
          s'.nodes_map (.arg F (idx + k)) = some (base + ptrsBefore m F (idx + k))) ∧
        (∀ v, (∀ k A, rest.get? k = some A → A.isPointerTy = true → v ≠ .arg F (idx + k)) →
          s'.nodes_map v = s.nodes_map v) ∧
        s'.subgraphs_map = s.subgraphs_map ∧ s'.built_blocks = s.built_blocks := by
  intro rest
  induction rest with
  | nil =>
    intro idx retFirst prev res s s' _ hch hprev hrf h
    unfold buildArgumentsLoop at h
    obtain ⟨rfl, rfl⟩ := (M.pure_ok _ _ _ _).mp h
    refine ⟨hch, ?_, fun _ _ => rfl, ?_, fun _ _ => rfl, rfl, rfl⟩
    · rw [hprev, hrf]
      rfl
    · intro k A hk
      cases hk
  | cons A rest ih =>
    intro idx retFirst prev res s s' hrest hch hprev hrf h
    have hA : (m.getFunc F).params.get? idx = some A := by
      have := hrest 0
      simpa using this.symm
    have hrest' : ∀ k, rest.get? k = (m.getFunc F).params.get? (idx + 1 + k) := by
      intro k
      have := hrest (k + 1)
      rw [List.get?_cons_succ] at this
      rw [this]
      congr 1
      omega
    have hlen : idx + (A :: rest).length = idx + 1 + rest.length := by
      simp only [List.length_cons]
      omega
    have hs := ptrsBefore_succ hA
    unfold buildArgumentsLoop at h
    by_cases hp : A.isPointerTy = true
    · rw [if_pos hp] at h hs
      simp only [M.bind_ok] at h
      obtain ⟨arg, s1, h1, u2, s2, h2, rf, s3, h3, h4⟩ := h
      obtain ⟨x, xk, xs, xp, xo, rfl, rfl⟩ := mkOpNode_ok _ _ _ _ _ h1
      unfold addNode at h2
      rw [M.modify_ok] at h2
      subst h2
      have hsz := hch.1
      have k3 : s3.size = s.size + 1 ∧ s3.node = (if ptrsBefore m F idx = 0 then s.push x else
          (s.push x).update (base + ptrsBefore m F idx - 1) fun y =>
            { y with successors := y.successors ++ [base + ptrsBefore m F idx] }).node ∧
          s3.nodes_map = (fun v => if v = .arg F idx then some s.size else s.nodes_map v) ∧
          s3.subgraphs_map = s.subgraphs_map ∧ s3.built_blocks = s.built_blocks ∧
          rf = some base := by
        by_cases hj : ptrsBefore m F idx = 0
        · rw [hj] at hprev hrf
          rw [if_pos rfl] at hprev hrf
          subst hprev
          obtain ⟨rfl, rfl⟩ := (M.pure_ok _ _ _ _).mp h3
          rw [if_pos hj]
          refine ⟨rfl, rfl, rfl, rfl, rfl, ?_⟩
          congr 1
          omega
        · rw [if_neg hj] at hprev hrf
          subst hprev
          simp only [M.bind_ok, M.pure_ok] at h3
          obtain ⟨u, t1, k1, rfl, rfl⟩ := h3
          rw [addSuccessor_ok] at k1
          subst k1
          rw [if_neg hj]
          refine ⟨rfl, ?_, rfl, rfl, rfl, hrf⟩
          show (LLVMPSSBuilder.update _ _ _).node = _
          rw [show s.size = base + ptrsBefore m F idx from hsz]
          rfl
      obtain ⟨z1, z2, z3, z4, z5, z6⟩ := k3
      have hch3 : ArgChain s3 base (ptrsBefore m F (idx + 1)) := by
        rw [hs]
        refine (hch.push_arg x xk xo xp xs).congr_node ?_ z2
        rw [z1]
        by_cases hj : ptrsBefore m F idx = 0
        · rw [if_pos hj]
          rfl
        · rw [if_neg hj]
          rfl
      obtain ⟨g1, g2, g3, g4, g5, g6, g7⟩ := ih (idx + 1) rf (some s.size) res s3 s' hrest' hch3
        (by rw [hs, if_neg (by omega), hsz]; congr 1) (by rw [hs, if_neg (by omega)]; exact z6) h4
      rw [← hlen] at g1 g2
      refine ⟨g1, g2, ?_, ?_, ?_, by rw [g6, z4], by rw [g7, z5]⟩
      · intro n hn
        have hmono := ptrsBefore_mono m F (show idx + 1 ≤ idx + (A :: rest).length by
          simp only [List.length_cons]; omega)
        have hsz' := g1.1
        have hsz3 := hch3.1
        rw [g3 n hn, z2]
        by_cases hj : ptrsBefore m F idx = 0
        · rw [if_pos hj, LLVMPSSBuilder.push_node, if_neg (by omega)]
        · rw [if_neg hj, LLVMPSSBuilder.update_node, if_neg (by omega),
            LLVMPSSBuilder.push_node, if_neg (by omega)]
      · intro k B hk hB
        cases k with
        | zero =>
          rw [g5 _ (fun k _ _ _ hc => by injection hc with c1 c2; omega), z3]
          simp only [Nat.add_zero, if_true, Option.some.injEq]
          exact hsz
        | succ k =>
          rw [List.get?_cons_succ] at hk
          rw [show idx + (k + 1) = idx + 1 + k by omega]
          exact g4 k B hk hB
      · intro v hv
        rw [g5 v ?_, z3]
        · simp only
          rw [if_neg]
          exact hv 0 A rfl hp
        · intro k B hk hB
          have := hv (k + 1) B (by rw [List.get?_cons_succ]; exact hk) hB
          rw [show idx + (k + 1) = idx + 1 + k by omega] at this
          exact this
    · rw [if_neg hp] at h hs
      rw [Nat.add_zero] at hs
      obtain ⟨g1, g2, g3, g4, g5, g6, g7⟩ := ih (idx + 1) retFirst prev res s s' hrest'
        (by rw [hs]; exact hch) (by rw [hs]; exact hprev) (by rw [hs]; exact hrf) h
      rw [← hlen] at g1 g2
      refine ⟨g1, g2, g3, ?_, ?_, g6, g7⟩
      · intro k B hk hB
        cases k with
        | zero =>
          simp only [List.get?_cons_zero, Option.some.injEq] at hk
          subst hk
          exact absurd hB hp
        | succ k =>
          rw [List.get?_cons_succ] at hk
          rw [show idx + (k + 1) = idx + 1 + k by omega]
          exact g4 k B hk hB
      · intro v hv
        refine g5 v ?_
        intro k B hk hB
        have := hv (k + 1) B (by rw [List.get?_cons_succ]; exact hk) hB
        rw [show idx + (k + 1) = idx + 1 + k by omega] at this
        exact this

theorem buildArguments_spec {m : Module} {F : Nat} {res : Option Nat × Option Nat}
    {s s' : LLVMPSSBuilder} (h : buildArguments m F s = .ok (res, s')) :
    ArgChain s' s.size (argCount m F) ∧
      res = (if argCount m F = 0 then none else some s.size,
        if argCount m F = 0 then none else some (s.size + argCount m F - 1)) ∧
      (∀ n, n < s.size ∨ s'.size ≤ n → s'.node n = s.node n) ∧
      (∀ idx A, (m.getFunc F).params.get? idx = some A → A.isPointerTy = true →
        s'.nodes_map (.arg F idx) = some (s.size + ptrsBefore m F idx)) ∧
      (∀ v, (∀ idx A, (m.getFunc F).params.get? idx = some A → A.isPointerTy = true →
        v ≠ .arg F idx) → s'.nodes_map v = s.nodes_map v) ∧
      s'.subgraphs_map = s.subgraphs_map ∧ s'.built_blocks = s.built_blocks := by
  unfold buildArguments at h
  simp only [M.bind_ok, M.assert_ok, M.pure_ok] at h
  obtain ⟨r, s1, h1, ret, s2, h2, u, s3, ⟨-, rfl⟩, rfl, rfl⟩ := h
  have hch0 : ArgChain s s.size (ptrsBefore m F 0) := ⟨rfl, fun k hk => by cases hk⟩
  obtain ⟨g1, g2, g3, g4, g5, g6, g7⟩ := buildArgumentsLoop_spec (m.getFunc F).params 0 none
    none r s s1 (fun k => by rw [Nat.zero_add]) hch0 rfl rfl h1
  rw [Nat.zero_add, ptrsBefore_all (le_refl _)] at g1 g2
  have g4' : ∀ idx A, (m.getFunc F).params.get? idx = some A → A.isPointerTy = true →
      s1.nodes_map (.arg F idx) = some (s.size + ptrsBefore m F idx) := by
    intro idx A hA hp
    have := g4 idx A hA hp
    rw [Nat.zero_add] at this
    exact this
  have g5' : ∀ v, (∀ idx A, (m.getFunc F).params.get? idx = some A → A.isPointerTy = true →
      v ≠ .arg F idx) → s1.nodes_map v = s.nodes_map v := by
    intro v hv
    exact g5 v (fun k A hk hA => by rw [Nat.zero_add]; exact hv k A hk hA)
  by_cases hva : (m.getFunc F).isVarArg = true
  · rw [if_pos hva] at h2
    have hac : argCount m F = ptrParams m F + 1 := by
      unfold argCount
      rw [if_pos hva]
    simp only [M.bind_ok] at h2
    obtain ⟨rs, t1, k1, k2⟩ := h2
    obtain ⟨x, xk, xs, xp, xo, rfl, rfl⟩ := mkOpNode_ok _ _ _ _ _ k1
    have hsz := g1.1
    have key : s2.size = s1.size + 1 ∧ s2.node = (if ptrParams m F = 0 then s1.push x else
        (s1.push x).update (s.size + ptrParams m F - 1) fun y =>
          { y with successors := y.successors ++ [s.size + ptrParams m F] }).node ∧
        s2.nodes_map = s1.nodes_map ∧ s2.subgraphs_map = s1.subgraphs_map ∧
        s2.built_blocks = s1.built_blocks ∧
        ret = (some s.size, some (s.size + ptrParams m F)) := by
      by_cases hj : ptrParams m F = 0
      · simp only [hj, if_true] at g2
        rw [g2] at k2
        obtain ⟨rfl, rfl⟩ := (M.pure_ok _ _ _ _).mp k2
        rw [if_pos hj]
        refine ⟨rfl, rfl, rfl, rfl, rfl, ?_⟩
        rw [hsz, hj]
        rfl
      · simp only [hj, if_false] at g2
        rw [g2] at k2
        simp only [M.bind_ok, M.pure_ok] at k2
        obtain ⟨u', t2, k3, rfl, rfl⟩ := k2
        rw [addSuccessor_ok] at k3
        subst k3
        rw [if_neg hj]
        refine ⟨rfl, ?_, rfl, rfl, rfl, ?_⟩
        · rw [hsz]
        · rw [hsz]
    obtain ⟨z1, z2, z3, z4, z5, z6⟩ := key
    refine ⟨?_, ?_, ?_, ?_, ?_, by rw [z4, g6], by rw [z5, g7]⟩
    · rw [hac]
      refine (g1.push_arg x xk xo xp xs).congr_node ?_ z2
      rw [z1]
      by_cases hj : ptrParams m F = 0
      · rw [if_pos hj]
        rfl
      · rw [if_neg hj]
        rfl
    · rw [z6, hac, if_neg (by omega), if_neg (by omega)]
      congr 2
    · intro n hn
      rw [z2]
      by_cases hj : ptrParams m F = 0
      · rw [if_pos hj, LLVMPSSBuilder.push_node, if_neg (by omega)]
        exact g3 n (by omega)
      · rw [if_neg hj, LLVMPSSBuilder.update_node, if_neg (by omega),
          LLVMPSSBuilder.push_node, if_neg (by omega)]
        exact g3 n (by omega)
    · intro idx A hA hp
      rw [z3]
      exact g4' idx A hA hp
    · intro v hv
      rw [z3]
      exact g5' v hv
  · rw [if_neg hva] at h2
    obtain ⟨rfl, rfl⟩ := (M.pure_ok _ _ _ _).mp h2
    have hac : argCount m F = ptrParams m F := by
      unfold argCount
      rw [if_neg hva]
      rfl
    rw [hac]
    exact ⟨g1, g2, g3, g4', g5', g6, g7⟩

/-! ## The start of a function: root, ret, argument nodes and the record -/

theorem registerSubgraph_shape {m : Module} {F root ret : Nat} {args : Option Nat × Option Nat}
    {lastNode : Option Nat} {u : Unit} {s s1 s2 s3 s4 s5 : LLVMPSSBuilder}
    (h1 : mkOpNode .ENTRY [] s = .ok (root, s1)) (h2 : mkOpNode .NOOP [] s1 = .ok (ret, s2))
    (h3 : buildArguments m F s2 = .ok (args, s3))
    (h4 : setSubgraph F ⟨some root, some ret, args⟩ s3 = .ok (u, s4))
    (h5 : (match args.1 with
      | some a => do
        addSuccessor root a
        pure args.2
      | none => pure (some root) : M (Option Nat)) s4 = .ok (lastNode, s5)) :
    root = s.size ∧ ret = s.size + 1 ∧ s5.size = s.size + 2 + argCount m F ∧
      (∀ n, n < s.size ∨ s5.size ≤ n → s5.node n = s.node n) ∧
      (s5.node s.size).kind = .ENTRY ∧
      (s5.node s.size).successors = (if argCount m F = 0 then [] else [s.size + 2]) ∧
      (s5.node (s.size + 1)).kind = .NOOP ∧ (s5.node (s.size + 1)).successors = [] ∧
      (∀ k, k < argCount m F → (s5.node (s.size + 2 + k)).kind = .PHI ∧
        (s5.node (s.size + 2 + k)).operands = [] ∧
        (s5.node (s.size + 2 + k)).successors =
          (if k + 1 < argCount m F then [s.size + 2 + k + 1] else [])) ∧
      (∀ idx A, (m.getFunc F).params.get? idx = some A → A.isPointerTy = true →
        s5.nodes_map (.arg F idx) = some (s.size + 2 + ptrsBefore m F idx)) ∧
      (∀ v, (∀ idx A, (m.getFunc F).params.get? idx = some A → A.isPointerTy = true →
        v ≠ .arg F idx) → s5.nodes_map v = s.nodes_map v) ∧
      s5.subgraphs_map F = ⟨some s.size, some (s.size + 1),
        (if argCount m F = 0 then none else some (s.size + 2),
          if argCount m F = 0 then none else some (s.size + 1 + argCount m F))⟩ ∧
      (∀ G, G ≠ F → s5.subgraphs_map G = s.subgraphs_map G) ∧
      s5.built_blocks = s.built_blocks ∧
      lastNode = some (if argCount m F = 0 then s.size else s.size + 1 + argCount m F) := by
  obtain ⟨x, xk, xs, -, -, rfl, rfl⟩ := mkOpNode_ok _ _ _ _ _ h1
  obtain ⟨y, yk, ys, -, -, rfl, rfl⟩ := mkOpNode_ok _ _ _ _ _ h2
  obtain ⟨⟨g0, g1⟩, g2, g3, g4, g5, g6, g7⟩ := buildArguments_spec h3
  unfold setSubgraph at h4
  rw [M.modify_ok] at h4
  subst h4
  have hsz2 : ((s.push x).push y).size = s.size + 2 := rfl
  rw [hsz2] at g0 g1 g2 g3 g4
  subst g2
  have hr3 : s3.node s.size = x := by
    rw [g3 _ (Or.inl (by omega))]
    simp
  have ht3 : s3.node (s.size + 1) = y := by
    rw [g3 _ (Or.inl (by omega))]
    simp
  have hold3 : ∀ n, n < s.size ∨ s3.size ≤ n → s3.node n = s.node n := by
    intro n hn
    rw [g3 n (by omega)]
    have e1 : n ≠ s.size := by omega
    have e2 : n ≠ s.size + 1 := by omega
    simp [e1, e2]
  have hmap : ∀ v, (∀ idx A, (m.getFunc F).params.get? idx = some A → A.isPointerTy = true →
      v ≠ .arg F idx) → s3.nodes_map v = s.nodes_map v := by
    intro v hv
    rw [g5 v hv]
    rfl
  have hblk : s3.built_blocks = s.built_blocks := by
    rw [g7]
    rfl
  have hsub3 : s3.subgraphs_map = s.subgraphs_map := by
    rw [g6]
    rfl
  have hargs2 : (if argCount m F = 0 then (none : Option Nat)
      else some (s.size + 2 + argCount m F - 1)) =
      (if argCount m F = 0 then none else some (s.size + 1 + argCount m F)) := by
    by_cases hc : argCount m F = 0
    · rw [if_pos hc, if_pos hc]
    · rw [if_neg hc, if_neg hc]
      congr 1
      omega
  rw [hargs2] at h5
  by_cases hc : argCount m F = 0
  · have h5' := h5
    simp only [hc, if_true] at h5'
    obtain ⟨rfl, rfl⟩ := (M.pure_ok _ _ _ _).mp h5'
    refine ⟨rfl, rfl, by show s3.size = _; rw [g0, hc], hold3, by rw [hr3]; exact xk,
      by rw [hr3, if_pos hc]; exact xs, by rw [ht3]; exact yk, by rw [ht3]; exact ys, ?_, g4,
      hmap, ?_, ?_, hblk, by rw [if_pos hc]⟩
    · intro k hk
      omega
    · show (if F = F then _ else s3.subgraphs_map F) = _
      rw [if_pos rfl, if_pos hc, if_pos hc]
      rfl
    · intro G hG
      show (if G = F then _ else s3.subgraphs_map G) = _
      rw [if_neg hG, hsub3]
  · have h5' := h5
    simp only [hc, if_false] at h5'
    simp only [M.bind_ok, M.pure_ok] at h5'
    obtain ⟨u1, t1, k1, rfl, rfl⟩ := h5'
    rw [addSuccessor_ok] at k1
    subst k1
    refine ⟨rfl, rfl, by show s3.size = _; rw [g0], ?_, ?_, ?_, ?_, ?_, ?_, g4, hmap, ?_, ?_, hblk,
      by rw [if_neg hc]⟩
    · intro n hn
      have hn' : n < s.size ∨ s3.size ≤ n := hn
      rw [LLVMPSSBuilder.update_node, if_neg (by omega)]
      exact hold3 n hn'
    · rw [LLVMPSSBuilder.update_node, if_pos rfl]
      show (s3.node s.size).kind = _
      rw [hr3]
      exact xk
    · rw [LLVMPSSBuilder.update_node, if_pos rfl, if_neg hc]
      show (s3.node s.size).successors ++ _ = _
      rw [hr3, xs]
      rfl
    · rw [LLVMPSSBuilder.update_node, if_neg (by omega)]
      show (s3.node (s.size + 1)).kind = _
      rw [ht3]
      exact yk
    · rw [LLVMPSSBuilder.update_node, if_neg (by omega)]
      show (s3.node (s.size + 1)).successors = _
      rw [ht3]
      exact ys
    · intro k hk
      rw [LLVMPSSBuilder.update_node, if_neg (by omega)]
      obtain ⟨e1, e2, -, e4⟩ := g1 k hk
      exact ⟨e1, e2, e4⟩
    · show (if F = F then _ else s3.subgraphs_map F) = _
      rw [if_pos rfl, if_neg hc, if_neg hc]
      rfl
    · intro G hG
      show (if G = F then _ else s3.subgraphs_map G) = _
      rw [if_neg hG, hsub3]

theorem registerSubgraph_inv {m : Module} {Pend : Nat → Option ((Nat × Nat) × (Nat × Nat))}
    {P : Nat → Prop} {F root ret : Nat} {args : Option Nat × Option Nat}
    {lastNode : Option Nat} {u : Unit} {s s1 s2 s3 s4 s5 : LLVMPSSBuilder}
    (hwf : WF P s) (hpw : PW m Pend s) (haw : AW m s) (hrw : RW m Pend s)
    (hF : (s.subgraphs_map F).root = none)
    (h1 : mkOpNode .ENTRY [] s = .ok (root, s1)) (h2 : mkOpNode .NOOP [] s1 = .ok (ret, s2))
    (h3 : buildArguments m F s2 = .ok (args, s3))
    (h4 : setSubgraph F ⟨some root, some ret, args⟩ s3 = .ok (u, s4))
    (h5 : (match args.1 with
      | some a => do
        addSuccessor root a
        pure args.2
      | none => pure (some root) : M (Option Nat)) s4 = .ok (lastNode, s5)) :
    (PW m (Function.update Pend F (some ((0, 0), (0, 0)))) s5 ∧ AW m s5 ∧
      RW m (Function.update Pend F (some ((0, 0), (0, 0)))) s5 ∧ ArgFrame m s s5) ∧
      root = s.size ∧ (s5.subgraphs_map F).root = some root ∧
      (s5.subgraphs_map F).ret = some ret ∧
      ∃ l, lastNode = some l ∧ (l = root ∨ (l = root + 1 + argCount m F ∧
        0 < argCount m F ∧ (s5.node l).successors = [])) := by
  obtain ⟨rfl, rfl, hsz, hold, hrk, hrs, htk, hts, hargs, hamap, hmap, hsubF, hsub, hblk, hlast⟩ :=
    registerSubgraph_shape h1 h2 h3 h4 h5
  have hreg : ∀ G r, (s5.subgraphs_map G).root = some r → G ≠ F →
      (s.subgraphs_map G).root = some r := by
    intro G r hr hG
    rw [hsub G hG] at hr
    exact hr
  have hregF : (s5.subgraphs_map F).root = some s.size := by rw [hsubF]
  have hAN : ∀ n, ArgNode m s5 n →
      ArgNode m s n ∨ (s.size + 2 ≤ n ∧ n < s.size + 2 + argCount m F) := by
    rintro n ⟨G, r, hr, g1, g2⟩
    by_cases hG : G = F
    · subst hG
      rw [hregF] at hr
      cases hr
      exact Or.inr ⟨g1, g2⟩
    · exact Or.inl ⟨G, r, hreg G r hr hG, g1, g2⟩
  have hANold : ∀ n, ArgNode m s n → ArgNode m s5 n := by
    rintro n ⟨G, r, hr, g1, g2⟩
    have hG : G ≠ F := by
      intro hc
      subst hc
      rw [hF] at hr
      cases hr
    exact ⟨G, r, by rw [hsub G hG]; exact hr, g1, g2⟩
  have hnew : ∀ n x, s.size ≤ n → n < s5.size → x ∈ (s5.node n).successors →
      s.size + 2 ≤ x ∧ x < s5.size := by
    intro n x g1 g2 hx
    by_cases e1 : n = s.size
    · rw [e1, hrs] at hx
      split at hx
      · cases hx
      · rw [List.mem_singleton] at hx
        omega
    · by_cases e2 : n = s.size + 1
      · rw [e2, hts] at hx
        cases hx
      · have hk : n - (s.size + 2) < argCount m F := by omega
        obtain ⟨-, -, e3⟩ := hargs _ hk
        rw [show s.size + 2 + (n - (s.size + 2)) = n by omega] at e3
        rw [e3] at hx
        split at hx
        · rw [List.mem_singleton] at hx
          omega
        · cases hx
  have holdn : ∀ n, n < s.size → s5.node n = s.node n := fun n hn => hold n (Or.inl hn)
  have hinst : ∀ G b i, s5.nodes_map (.inst G b i) = s.nodes_map (.inst G b i) :=
    fun G b i => hmap _ (fun _ _ _ _ hc => by cases hc)
  have hmono : ∀ v x, s.nodes_map v = some x → s5.nodes_map v = some x := by
    intro v x hv
    rw [hmap v ?_]
    · exact hv
    · intro idx A _ _ hc
      rw [hc, (hpw.unreg F hF).2 (.arg F idx) rfl] at hv
      cases hv
  have hop : ∀ v op, operandOf s v = some op → operandOf s5 v = some op := by
    intro v op hv
    refine operandOf_stable hpw.map_lt hpw.null_lt (fun n hn => by rw [holdn n hn])
      (fun n hn => by rw [holdn n hn]) (hmono v) ?_ hv
    intro a ha
    rw [ha]
    exact hmap _ (fun _ _ _ _ hc => by cases hc)
  have hretlt : ∀ G t, G ≠ F → (s5.subgraphs_map G).root ≠ none →
      (s5.subgraphs_map G).ret = some t → t < s.size := by
    intro G t hG hr ht
    rw [hsub G hG] at hr ht
    exact (hwf.ret_node hr ht).1
  have hpw5 : PW m (Function.update Pend F (some ((0, 0), (0, 0)))) s5 := by
    refine ⟨by have := hpw.null_lt; omega, ?_, ?_, ?_, ?_, ?_, ?_, ?_⟩
    · intro v x hv
      by_cases hvv : ∃ idx A, (m.getFunc F).params.get? idx = some A ∧ A.isPointerTy = true ∧
          v = .arg F idx
      · obtain ⟨idx, A, hA, hp, rfl⟩ := hvv
        rw [hamap idx A hA hp] at hv
        cases hv
        have := ptrsBefore_lt hA hp
        have := ptrParams_le_argCount m F
        omega
      · rw [hmap v (fun idx A hA hp hc => hvv ⟨idx, A, hA, hp, hc⟩)] at hv
        have := hpw.map_lt v x hv
        omega
    · intro a
      rw [hmap _ (fun _ _ _ _ hc => by cases hc)]
      exact hpw.null_none a
    · intro G hG
      have hGF : G ≠ F := by
        intro hc
        subst hc
        rw [hregF] at hG
        cases hG
      rw [hsub G hGF] at hG
      rw [Function.update_noteq hGF]
      refine ⟨(hpw.unreg G hG).1, ?_⟩
      intro v hv
      rw [hmap v ?_]
      · exact (hpw.unreg G hG).2 v hv
      · intro idx A _ _ hc
        rw [hc] at hv
        cases hv
        exact hGF rfl
    · intro G p q hp
      by_cases hGF : G = F
      · subst hGF
        refine ⟨?_, ?_⟩
        · rw [hregF]
          exact fun hc => by cases hc
        · intro b i _
          rw [hinst]
          exact (hpw.unreg G hF).2 (.inst G b i) rfl
      · rw [Function.update_noteq hGF] at hp
        obtain ⟨g1, g2⟩ := hpw.pending G p q hp
        refine ⟨by rw [hsub G hGF]; exact g1, ?_⟩
        intro b i hbi
        rw [hinst]
        exact g2 b i hbi
    · intro G b i ty inc hr hI hty hlow
      by_cases hGF : G = F
      · subst hGF
        exact absurd (hlow _ _ (Function.update_same _ _ _)) (not_posLt_zero _)
      · rw [hsub G hGF] at hr
        obtain ⟨n, g1, g2, g3, g4, g5⟩ := hpw.phi G b i ty inc hr hI hty (by
          intro p q hp
          exact hlow p q (by rw [Function.update_noteq hGF]; exact hp))
        have hn : n < s.size := hpw.map_lt _ _ g1
        refine ⟨n, by rw [hinst]; exact g1, by rw [holdn n hn]; exact g2, ?_, ?_, ?_⟩
        · intro hc
          rcases hAN n hc with hc | hc
          · exact g3 hc
          · omega
        · rintro ⟨p, q, hp, hq⟩
          rw [holdn n hn]
          exact g4 ⟨p, q, by rw [Function.update_noteq hGF] at hp; exact hp, hq⟩
        · intro hq
          obtain ⟨e1, e2⟩ := g5 (by
            intro p q hp
            exact hq p q (by rw [Function.update_noteq hGF]; exact hp))
          have e3 : inc.map (operandOf s5) = inc.map (operandOf s) := by
            refine List.map_congr_left ?_
            intro v hv
            cases hx : operandOf s v with
            | none => exact absurd hx (e2 v hv)
            | some op => exact hop v op hx
          refine ⟨by rw [holdn n hn, e3]; exact e1, ?_⟩
          intro v hv
          cases hx : operandOf s v with
          | none => exact absurd hx (e2 v hv)
          | some op =>
            rw [hop v op hx]
            exact fun hc => by cases hc
    · intro F1 b1 i1 F2 b2 i2 ty1 inc1 ty2 inc2 n g1 g2 g3 g4 g5 g6
      rw [hinst] at g5 g6
      exact hpw.phi_inj F1 b1 i1 F2 b2 i2 ty1 inc1 ty2 inc2 n g1 g2 g3 g4 g5 g6
    · intro G r hr
      by_cases hGF : G = F
      · subst hGF
        rw [hregF] at hr
        cases hr
        refine ⟨by omega, by rw [hsubF], ?_⟩
        intro j hj
        obtain ⟨-, -, e3⟩ := hargs j (by omega)
        rw [e3, if_pos hj]
        rw [show s.size + 2 + j + 1 = s.size + 3 + j by omega]
      · have hr' := hreg G r hr hGF
        obtain ⟨e1, e2, e3⟩ := hpw.args G r hr'
        refine ⟨by omega, by rw [hsub G hGF]; exact e2, ?_⟩
        intro j hj
        rw [holdn _ (by omega)]
        exact e3 j hj
  have haw5 : AW m s5 := by
    refine ⟨?_, ?_, ?_, ?_, ?_, ?_⟩
    · intro G r j hr hj
      by_cases hGF : G = F
      · subst hGF
        rw [hregF] at hr
        cases hr
        exact (hargs j hj).1
      · have hr' := hreg G r hr hGF
        have := (hpw.args G r hr').1
        rw [holdn _ (by omega)]
        exact haw.kinds G r j hr' hj
    · intro G r j hr hj
      by_cases hGF : G = F
      · subst hGF
        rw [hregF] at hr
        cases hr
        obtain ⟨-, -, e3⟩ := hargs j (by omega)
        rw [e3, if_pos hj]
        rw [show s.size + 2 + j + 1 = s.size + 3 + j by omega]
      · have hr' := hreg G r hr hGF
        have := (hpw.args G r hr').1
        rw [holdn _ (by omega)]
        exact haw.chain G r j hr' hj
    · intro G r hr hpos
      by_cases hGF : G = F
      · subst hGF
        rw [hregF] at hr
        cases hr
        obtain ⟨-, -, e3⟩ := hargs (argCount m G - 1) (by omega)
        rw [show s.size + 2 + (argCount m G - 1) = s.size + 1 + argCount m G by omega] at e3
        rw [e3, if_neg (by omega)]
        simp
      · have hr' := hreg G r hr hGF
        have := (hpw.args G r hr').1
        rw [holdn _ (by omega)]
        exact haw.last G r hr' hpos
    · intro G r hr
      by_cases hGF : G = F
      · subst hGF
        rw [hregF] at hr
        cases hr
        rw [hsubF]
      · rw [hsub G hGF]
        exact haw.second G r (hreg G r hr hGF)
    · intro G r idx A hr hA hp
      by_cases hGF : G = F
      · subst hGF
        rw [hregF] at hr
        cases hr
        exact hamap idx A hA hp
      · rw [hmap _ ?_]
        · exact haw.argmap G r idx A (hreg G r hr hGF) hA hp
        · intro idx' A' _ _ hc
          injection hc with c1 c2
          exact hGF c1
    · intro G b l hl
      rw [hblk] at hl
      obtain ⟨e1, e2⟩ := haw.blocks_last G b l hl
      refine ⟨by omega, ?_⟩
      intro hc
      rcases hAN l hc with hc | hc
      · exact e2 hc
      · omega
  have hrw5 : RW m (Function.update Pend F (some ((0, 0), (0, 0)))) s5 := by
    refine ⟨?_, ?_, ?_, ?_, ?_⟩
    · intro n x hx
      by_cases g1 : n < s.size ∨ s5.size ≤ n
      · rw [hold n g1] at hx
        have := hrw.succ_lt n x hx
        omega
      · exact (hnew n x (by omega) (by omega) hx).2
    · intro G p q t hr hp ht n hn hc
      by_cases hGF : G = F
      · subst hGF
        rw [hsubF] at ht
        cases ht
        by_cases g1 : n < s.size
        · rw [holdn n g1] at hc
          have := hrw.succ_lt n _ hc
          omega
        · have := (hnew n _ (by omega) hn hc).1
          omega
      · have htlt := hretlt G t hGF hr ht
        rw [hsub G hGF] at hr ht
        rw [Function.update_noteq hGF] at hp
        by_cases g1 : n < s.size
        · rw [holdn n g1] at hc
          exact hrw.pend G p q t hr hp ht n g1 hc
        · have := (hnew n _ (by omega) hn hc).1
          omega
    · intro G t hr hp ht n hn
      have hGF : G ≠ F := by
        intro hc
        subst hc
        rw [Function.update_same] at hp
        cases hp
      have htlt := hretlt G t hGF hr ht
      rw [hsub G hGF] at hr ht
      rw [Function.update_noteq hGF] at hp
      rw [IsRetLast.of_blocks_eq hblk]
      by_cases g1 : n < s.size
      · rw [holdn n g1]
        exact hrw.done G t hr hp ht n g1
      · constructor
        · intro hc
          have := (hnew n _ (by omega) hn hc).1
          omega
        · intro hc
          exact absurd (hc.lt_size_rl hwf) g1
    · intro G b f hf
      rw [hblk] at hf
      obtain ⟨e1, e2⟩ := hrw.firsts G b f hf
      exact ⟨by omega, by rw [holdn f e1]; exact e2⟩
    · intro G b i rv hr hI hl hpos
      by_cases hGF : G = F
      · subst hGF
        have := hpos _ _ (Function.update_same _ _ _)
        simp only at this
        omega
      · rw [hsub G hGF] at hr
        obtain ⟨n, e1, e2, e3⟩ := hrw.rets G b i rv hr hI hl (by
          intro p q hp
          exact hpos p q (by rw [Function.update_noteq hGF]; exact hp))
        have hn : n < s.size := hpw.map_lt _ _ e1
        exact ⟨n, by rw [hinst]; exact e1, by rw [hblk]; exact e2, by rw [holdn n hn]; exact e3⟩
  have haf : ArgFrame m s s5 := by
    refine ⟨hANold, ?_, ?_⟩
    · intro n hn hc
      rcases hAN n hc with hc | hc
      · exact hc
      · omega
    · intro n hn
      rw [holdn n (hn.lt_size hpw)]
  refine ⟨⟨hpw5, haw5, hrw5, haf⟩, rfl, hregF, by rw [hsubF], _, hlast, ?_⟩
  by_cases hc : argCount m F = 0
  · rw [if_pos hc]
    exact Or.inl rfl
  · rw [if_neg hc]
    refine Or.inr ⟨rfl, by omega, ?_⟩
    obtain ⟨-, -, e3⟩ := hargs (argCount m F - 1) (by omega)
    rw [show s.size + 2 + (argCount m F - 1) = s.size + 1 + argCount m F by omega] at e3
    rw [e3, if_neg (by omega)]

/-! ## Stitching: the nodes it leaves alone and the return nodes it finds -/

theorem stitchBlocksLoop_rets {m : Module} {F : Nat} :
    ∀ (list : List BasicBlock) (b : Nat) (rets : List Nat) (s : LLVMPSSBuilder),
      (∀ b, (s.built_blocks (F, b)).1.isSome = (s.built_blocks (F, b)).2.isSome) →
      ∃ rets' s', stitchBlocksLoop m F list b rets s = .ok (rets', s') ∧
        s'.built_blocks = s.built_blocks ∧
        (∀ n, (∀ B, b ≤ B → B < b + list.length → (s.built_blocks (F, B)).2 ≠ some n) →
          s'.node n = s.node n) ∧
        (∀ x, x ∈ rets' ↔ x ∈ rets ∨ ∃ B, b ≤ B ∧ B < b + list.length ∧
          (s.built_blocks (F, B)).1 ≠ none ∧ (s.built_blocks (F, B)).2 = some x ∧
          ∀ S, StitchReach m s.built_blocks F B S → (s.built_blocks (F, S)).1 = none) := by
  intro list
  induction list with
  | nil =>
    intro b rets s _
    refine ⟨rets, s, rfl, rfl, fun _ _ => rfl, ?_⟩
    intro x
    constructor
    · exact Or.inl
    · rintro (h | ⟨B, h1, h2, -⟩)
      · exact h
      · simp at h2
        omega
  | cons B0 rest ih =>
    intro b rets s hcons
    unfold stitchBlocksLoop
    rw [M.get_bind, M.assert_bind _ _ _ (assert_consistent (hcons b))]
    cases h1 : (s.built_blocks (F, b)).1 with
    | none =>
      have h2 : (s.built_blocks (F, b)).2 = none := by
        have := hcons b
        rw [h1] at this
        cases hx : (s.built_blocks (F, b)).2 with
        | none => rfl
        | some v =>
          rw [hx] at this
          cases this
      simp only [h2]
      obtain ⟨rets', s', g1, g2, g3, g4⟩ := ih (b + 1) rets s hcons
      refine ⟨rets', s', g1, g2, ?_, ?_⟩
      · intro n hn
        refine g3 n ?_
        intro B k1 k2
        exact hn B (by omega) (by simp only [List.length_cons]; omega)
      · intro x
        rw [g4 x]
        constructor
        · rintro (h | ⟨B, k1, k2, k3⟩)
          · exact Or.inl h
          · exact Or.inr ⟨B, by omega, by simp only [List.length_cons]; omega, k3⟩
        · rintro (h | ⟨B, k1, k2, k3, k4⟩)
          · exact Or.inl h
          · by_cases hB : B = b
            · subst hB
              exact absurd h1 k3
            · exact Or.inr ⟨B, by omega, by simp only [List.length_cons] at k2; omega, k3, k4⟩
    | some first =>
      cases h2 : (s.built_blocks (F, b)).2 with
      | none =>
        have := hcons b
        rw [h1, h2] at this
        cases this
      | some last =>
        simp only []
        obtain ⟨num, found', s1, r1, r2, r3, r4, L, r5, r6, r7⟩ :=
          blockAddSuccessors_top (m := m) (F := F) (z := last) (B := b) hcons
        rw [M.bind_run r1]
        have hcons1 : ∀ b, (s1.built_blocks (F, b)).1.isSome =
            (s1.built_blocks (F, b)).2.isSome := by
          rw [r2]
          exact hcons
        have hzero : num = 0 ↔
            ∀ S, StitchReach m s.built_blocks F b S → (s.built_blocks (F, S)).1 = none := by
          constructor
          · intro hn S hS
            cases hx : (s.built_blocks (F, S)).1 with
            | none => rfl
            | some f =>
              have hf : f ∈ L := (r7 f).mpr ⟨S, hS, hx⟩
              rw [hn] at r6
              rw [List.length_eq_zero.mp r6] at hf
              cases hf
          · intro hall
            rw [← r6]
            cases L with
            | nil => rfl
            | cons f L' =>
              obtain ⟨S, k1, k2⟩ := (r7 f).mp (List.mem_cons_self _ _)
              rw [hall S k1] at k2
              cases k2
        have key : ∀ rets0, (∀ x, x ∈ rets0 ↔ x ∈ rets ∨ (x = last ∧ num = 0)) →
            ∃ rets' s', stitchBlocksLoop m F rest (b + 1) rets0 s1 = .ok (rets', s') ∧
            s'.built_blocks = s.built_blocks ∧
            (∀ n, (∀ B, b ≤ B → B < b + (B0 :: rest).length →
              (s.built_blocks (F, B)).2 ≠ some n) → s'.node n = s.node n) ∧
            (∀ x, x ∈ rets' ↔ x ∈ rets ∨ ∃ B, b ≤ B ∧ B < b + (B0 :: rest).length ∧
              (s.built_blocks (F, B)).1 ≠ none ∧ (s.built_blocks (F, B)).2 = some x ∧
              ∀ S, StitchReach m s.built_blocks F B S → (s.built_blocks (F, S)).1 = none) := by
          intro rets0 hr0
          obtain ⟨rets', s', g1, g2, g3, g4⟩ := ih (b + 1) rets0 s1 hcons1
          rw [r2] at g3 g4
          refine ⟨rets', s', g1, by rw [g2, r2], ?_, ?_⟩
          · intro n hn
            rw [g3 n (fun B k1 k2 => hn B (by omega) (by simp only [List.length_cons]; omega))]
            refine r4 n ?_
            intro hc
            exact hn b (le_refl _) (by simp) (by rw [h2, hc])
          · intro x
            rw [g4 x, hr0 x]
            constructor
            · rintro ((h | ⟨rfl, h⟩) | ⟨B, k1, k2, k3⟩)
              · exact Or.inl h
              · refine Or.inr ⟨b, le_refl _, by simp, ?_, h2, hzero.mp h⟩
                rw [h1]
                exact fun hc => by cases hc
              · exact Or.inr ⟨B, by omega, by simp only [List.length_cons]; omega, k3⟩
            · rintro (h | ⟨B, k1, k2, k3, k4, k5⟩)
              · exact Or.inl (Or.inl h)
              · by_cases hB : B = b
                · subst hB
                  rw [h2] at k4
                  cases k4
                  exact Or.inl (Or.inr ⟨rfl, hzero.mpr k5⟩)
                · exact Or.inr ⟨B, by omega, by simp only [List.length_cons] at k2; omega, k3,
                    k4, k5⟩
        split
        · rename_i hn
          refine key _ ?_
          intro x
          rw [List.mem_append, List.mem_singleton]
          constructor
          · rintro (h | h)
            · exact Or.inl h
            · exact Or.inr ⟨h, hn⟩
          · rintro (h | ⟨h, -⟩)
            · exact Or.inl h
            · exact Or.inr h
        · rename_i hn
          refine key _ ?_
          intro x
          constructor
          · exact Or.inl
          · rintro (h | ⟨-, h⟩)
            · exact h
            · exact absurd h hn

/-! ## Stitching and the return edges, on the invariants -/

/-- A step that only adds edges to existing nodes that are no `NOOP` nodes keeps the
edges to the `ret` nodes. -/
theorem RW.step_edges {m : Module} {Pend : Nat → Option ((Nat × Nat) × (Nat × Nat))}
    {P : Nat → Prop} {T : Nat → Prop} {s s' : LLVMPSSBuilder}
    (hrw : RW m Pend s) (hwf : WF P s) (hg : Grow s s') (hsz : s'.size = s.size)
    (hq : Quiet T (.const (.nullPtr 0)) s s')
    (hpre : ∀ n, (s.node n).successors <+: (s'.node n).successors)
    (hedge : ∀ n x, x ∈ (s'.node n).successors → x ∈ (s.node n).successors ∨
      (x < s.size ∧ (s.node x).kind ≠ .NOOP)) :
    RW m Pend s' := by
  have hmem : ∀ G t n, (s.subgraphs_map G).root ≠ none → (s.subgraphs_map G).ret = some t →
      (t ∈ (s'.node n).successors ↔ t ∈ (s.node n).successors) := by
    intro G t n hr ht
    constructor
    · intro hc
      rcases hedge n t hc with h | ⟨-, h⟩
      · exact h
      · exact absurd (hwf.ret_node hr ht).2 h
    · intro hc
      exact (hpre n).subset hc
  refine ⟨?_, ?_, ?_, ?_, ?_⟩
  · intro n x hx
    rw [hsz]
    rcases hedge n x hx with h | ⟨h, -⟩
    · exact hrw.succ_lt n x h
    · exact h
  · intro G p q t hr hp ht n hn
    rw [hg.subg_eq] at hr ht
    rw [hsz] at hn
    rw [hmem G t n hr ht]
    exact hrw.pend G p q t hr hp ht n hn
  · intro G t hr hp ht n hn
    rw [hg.subg_eq] at hr ht
    rw [hsz] at hn
    rw [hmem G t n hr ht, IsRetLast.of_blocks_eq hg.blocks_eq]
    exact hrw.done G t hr hp ht n hn
  · intro G b f hf
    rw [hg.blocks_eq] at hf
    obtain ⟨h1, h2⟩ := hrw.firsts G b f hf
    refine ⟨lt_of_lt_of_le h1 hg.size_le, ?_⟩
    rw [hg.kind_eq f h1]
    exact h2
  · intro G b i rv hr hi hl hp
    rw [hg.subg_eq] at hr
    obtain ⟨n, h1, h2, h3⟩ := hrw.rets G b i rv hr hi hl hp
    refine ⟨n, ?_, ?_, ?_⟩
    · rw [hq.map_eq (.inst G b i) (fun hc => by cases hc) rfl]
      exact h1
    · rw [hg.blocks_eq]
      exact h2
    · rw [hg.kind_eq n (hwf.blocks_ok G b n h2).1]
      exact h3

theorem stitchBlocksLoop_inv {m : Module} {Pend : Nat → Option ((Nat × Nat) × (Nat × Nat))}
    {P : Nat → Prop} {F : Nat} {rets : List Nat} {s s' : LLVMPSSBuilder}
    (hwf : WF P s) (hpw : PW m Pend s) (haw : AW m s) (hrw : RW m Pend s)
    (h : stitchBlocksLoop m F (m.getFunc F).blocks 0 [] s = .ok (rets, s')) :
    (WF P s' ∧ PW m Pend s' ∧ AW m s' ∧ RW m Pend s' ∧ ArgFrame m s s') ∧ Inert s s' ∧
      (∀ r, r ∈ rets → Exit s' r ∧ ¬ ArgNode m s' r) ∧
      (∀ x, x ∈ rets ↔ IsRetLast m s' F x) := by
  obtain ⟨hi, hex⟩ := stitchBlocksLoop_inert (fun b l hl => hwf.blocks_ok F b l hl)
    (fun _ hx => by cases hx) h
  have hq := (stitchBlocksLoop_quiets (fun _ => False) (.const (.nullPtr 0)) m F _ 0 []).keeps
    _ _ _ h
  obtain ⟨rets1, s1, g1, g2, g3, g4⟩ := stitchBlocksLoop_rets (m := m) (F := F)
    (m.getFunc F).blocks 0 [] s (hwf.blocks_cons F)
  rw [h] at g1
  cases g1
  obtain ⟨rets2, s2, k1, k2, k3, k4, k5, k6⟩ := stitchBlocksLoop_spec (m := m) (F := F)
    (m.getFunc F).blocks 0 [] s (hwf.blocks_cons F)
  rw [h] at k1
  cases k1
  have hrets : ∀ x, x ∈ rets ↔ IsRetLast m s F x := by
    intro x
    rw [g4 x]
    unfold IsRetLast
    constructor
    · rintro (hc | ⟨B, -, e2, e3⟩)
      · cases hc
      · rw [Nat.zero_add] at e2
        exact ⟨B, e2, e3⟩
    · rintro ⟨B, e2, e3⟩
      exact Or.inr ⟨B, Nat.zero_le _, by rw [Nat.zero_add]; exact e2, e3⟩
  have hkeep : ∀ n, ArgNode m s n → (s'.node n).successors = (s.node n).successors := by
    intro n hn
    rw [g3 n ?_]
    intro B _ _ hc
    exact (haw.blocks_last F B n hc).2 hn
  have haw' : AW m s' := haw.step hpw hi.to_grow hkeep
    (fun G idx => hq.map_eq (.arg G idx) (fun hc => by cases hc) rfl)
  have hrw' : RW m Pend s' := by
    refine hrw.step_edges hwf hi.to_grow k3 hq k4 ?_
    intro n x hx
    rcases k6 n x hx with hc | ⟨B, S, -, -, -, -, e5⟩
    · exact Or.inl hc
    · exact Or.inr (hrw.firsts F S x e5)
  refine ⟨⟨hwf.step_inert hi, hpw.step_same hi.to_grow hq (fun _ hn => hn.elim), haw', hrw',
    ArgFrame.of_grow hi.to_grow hkeep⟩, hi, ?_, ?_⟩
  · intro r hr
    refine ⟨hex r hr, ?_⟩
    obtain ⟨B, -, -, e3, -⟩ := (hrets r).mp hr
    rw [← hi.blocks_eq] at e3
    exact (haw'.blocks_last F B r e3).2
  · intro x
    rw [hrets x, IsRetLast.of_blocks_eq hi.blocks_eq]

theorem addReturnEdges_spec {ret : Nat} :
    ∀ (rets : List Nat) (u : Unit) (s s' : LLVMPSSBuilder),
      addReturnEdges ret rets s = .ok (u, s') →
      s'.size = s.size ∧ (∀ n, n ∉ rets → s'.node n = s.node n) ∧
        (∀ n, (s.node n).successors <+: (s'.node n).successors) ∧
        (∀ n x, x ∈ (s'.node n).successors →
          x ∈ (s.node n).successors ∨ (x = ret ∧ n ∈ rets)) ∧
        (∀ n, n ∈ rets → ret ∈ (s'.node n).successors) := by
  intro rets
  induction rets with
  | nil =>
    intro u s s' h
    unfold addReturnEdges at h
    obtain ⟨-, rfl⟩ := (M.pure_ok _ _ _ _).mp h
    exact ⟨rfl, fun _ _ => rfl, fun _ => List.prefix_refl _, fun _ _ hx => Or.inl hx,
      fun _ hn => by cases hn⟩
  | cons r rest ih =>
    intro u s s' h
    unfold addReturnEdges at h
    simp only [M.bind_ok] at h
    obtain ⟨u1, s1, h1, h2⟩ := h
    rw [addSuccessor_ok] at h1
    subst h1
    obtain ⟨g1, g2, g3, g4, g5⟩ := ih u _ s' h2
    have hpre1 : ∀ n, (s.node n).successors <+:
        ((s.update r fun x => { x with successors := x.successors ++ [ret] }).node
          n).successors := by
      intro n
      rw [LLVMPSSBuilder.update_node]
      split
      · subst_vars
        exact List.prefix_append _ _
      · exact List.prefix_refl _
    refine ⟨g1, ?_, fun n => (hpre1 n).trans (g3 n), ?_, ?_⟩
    · intro n hn
      rw [List.mem_cons, not_or] at hn
      rw [g2 n hn.2, LLVMPSSBuilder.update_node, if_neg hn.1]
    · intro n x hx
      rcases g4 n x hx with hc | ⟨hc, hn⟩
      · rw [LLVMPSSBuilder.update_node] at hc
        split at hc
        · subst_vars
          simp only [List.mem_append, List.mem_singleton] at hc
          rcases hc with hc | hc
          · exact Or.inl hc
          · exact Or.inr ⟨hc, List.mem_cons_self _ _⟩
        · exact Or.inl hc
      · exact Or.inr ⟨hc, List.mem_cons_of_mem _ hn⟩
    · intro n hn
      rcases List.mem_cons.mp hn with rfl | hn
      · apply (g3 n).subset
        rw [LLVMPSSBuilder.update_node, if_pos rfl]
        simp
      · exact g5 n hn

theorem getInst_block_lt {m : Module} {F b i : Nat} {I : Inst}
    (h : m.getInst F b i = some I) : b < (m.getFunc F).blocks.length := by
  by_contra hc
  unfold Module.getInst Module.getBlock at h
  rw [List.get?_eq_none.mpr (not_lt.mp hc)] at h
  cases h

/-- The edges from the return nodes of a function to its `ret` node: the function's
edges to `ret` are now as for a finished function. -/
theorem addReturnEdges_inv {m : Module} {Pend : Nat → Option ((Nat × Nat) × (Nat × Nat))}
    {P : Nat → Prop} {F root ret : Nat} {q : Nat × Nat} {rets : List Nat} {u : Unit}
    {s s' : LLVMPSSBuilder}
    (hwf : WF P s) (hpw : PW m Pend s) (haw : AW m s) (hrw : RW m Pend s)
    (hroot : (s.subgraphs_map F).root = some root) (hret : (s.subgraphs_map F).ret = some ret)
    (hp : Pend F = some (((m.getFunc F).blocks.length, 0), q))
    (hex : ∀ r, r ∈ rets → Exit s r ∧ ¬ ArgNode m s r)
    (hrets : ∀ x, x ∈ rets ↔ IsRetLast m s F x)
    (h : addReturnEdges ret rets s = .ok (u, s')) :
    (WF P s' ∧ PW m Pend s' ∧ AW m s' ∧ RW m (Function.update Pend F none) s' ∧
      ArgFrame m s s') ∧ Inert s s' := by
  have hi := addReturnEdges_inert (fun r hr => (hex r hr).1) h
  have hq := (addReturnEdges_quiets (fun _ => False) (.const (.nullPtr 0)) ret rets).keeps
    _ _ _ h
  obtain ⟨g1, g2, g3, g4, g5⟩ := addReturnEdges_spec rets u s s' h
  have hrF : (s.subgraphs_map F).root ≠ none := by
    rw [hroot]
    exact fun hc => by cases hc
  have hretn := hwf.ret_node hrF hret
  have hkeep : ∀ n, ArgNode m s n → (s'.node n).successors = (s.node n).successors := by
    intro n hn
    rw [g2 n ?_]
    intro hc
    exact (hex n hc).2 hn
  have hne : ∀ G t, G ≠ F → (s.subgraphs_map G).root ≠ none →
      (s.subgraphs_map G).ret = some t → t ≠ ret := by
    intro G t hG hr ht hc
    subst hc
    exact hG (hwf.ret_inj G F t hr hrF ht hret)
  have hmem : ∀ G t n, G ≠ F → (s.subgraphs_map G).root ≠ none →
      (s.subgraphs_map G).ret = some t →
      (t ∈ (s'.node n).successors ↔ t ∈ (s.node n).successors) := by
    intro G t n hG hr ht
    constructor
    · intro hc
      rcases g4 n t hc with hc | ⟨hc, -⟩
      · exact hc
      · exact absurd hc (hne G t hG hr ht)
    · exact fun hc => (g3 n).subset hc
  have hrw' : RW m (Function.update Pend F none) s' := by
    refine ⟨?_, ?_, ?_, ?_, ?_⟩
    · intro n x hx
      rw [g1]
      rcases g4 n x hx with hc | ⟨hc, -⟩
      · exact hrw.succ_lt n x hc
      · rw [hc]
        exact hretn.1
    · intro G p' q' t hr hp' ht n hn
      have hG : G ≠ F := by
        intro hc
        subst hc
        rw [Function.update_same] at hp'
        cases hp'
      rw [Function.update_noteq hG] at hp'
      rw [hi.subg_eq] at hr ht
      rw [g1] at hn
      rw [hmem G t n hG hr ht]
      exact hrw.pend G p' q' t hr hp' ht n hn
    · intro G t hr hp' ht n hn
      rw [hi.subg_eq] at hr ht
      rw [g1] at hn
      rw [IsRetLast.of_blocks_eq hi.blocks_eq]
      by_cases hG : G = F
      · subst hG
        rw [hret] at ht
        cases ht
        rw [← hrets n]
        constructor
        · intro hc
          rcases g4 n _ hc with hc | ⟨-, hc⟩
          · exact absurd hc (hrw.pend G _ _ _ hrF hp hret n hn)
          · exact hc
        · exact g5 n
      · rw [Function.update_noteq hG] at hp'
        rw [hmem G t n hG hr ht]
        exact hrw.done G t hr hp' ht n hn
    · intro G b f hf
      rw [hi.blocks_eq] at hf
      obtain ⟨h1, h2⟩ := hrw.firsts G b f hf
      refine ⟨lt_of_lt_of_le h1 hi.size_le, ?_⟩
      rw [hi.kind_eq f h1]
      exact h2
    · intro G b i rv hr hI hl hpos
      rw [hi.subg_eq] at hr
      obtain ⟨n, h1, h2, h3⟩ := hrw.rets G b i rv hr hI hl (by
        intro p0 q0 h0
        by_cases hG : G = F
        · subst hG
          rw [hp] at h0
          cases h0
          exact getInst_block_lt hI
        · exact hpos p0 q0 (by rw [Function.update_noteq hG]; exact h0))
      refine ⟨n, ?_, ?_, ?_⟩
      · rw [hq.map_eq (.inst G b i) (fun hc => by cases hc) rfl]
        exact h1
      · rw [hi.blocks_eq]
        exact h2
      · rw [hi.kind_eq n (hwf.blocks_ok G b n h2).1]
        exact h3
  exact ⟨⟨hwf.step_inert hi, hpw.step_same hi.to_grow hq (fun _ hn => hn.elim),
    haw.step hpw hi.to_grow hkeep
      (fun G idx => hq.map_eq (.arg G idx) (fun hc => by cases hc) rfl),
    hrw', ArgFrame.of_grow hi.to_grow hkeep⟩, hi⟩

/-! ## The operands of the PHI nodes -/

theorem addPHIOperands_spec {m : Module} {node : Nat} :
    ∀ (inc : List Value) (u : Unit) (s s' : LLVMPSSBuilder),
      (∀ v x, s.nodes_map v = some x → x < s.size) → NULLPTR < s.size → node < s.size →
      addPHIOperands m node inc s = .ok (u, s') →
      Inert s s' ∧ SuccKeep s s' ∧ Quiet (fun x => x = node) (.const (.nullPtr 0)) s s' ∧
        (s'.node node).operands = (s.node node).operands ++ inc.map (operandOf s') ∧
        ∀ v, v ∈ inc → operandOf s' v ≠ none := by
  intro inc
  induction inc with
  | nil =>
    intro u s s' _ _ _ h
    unfold addPHIOperands at h
    obtain ⟨-, rfl⟩ := (M.pure_ok _ _ _ _).mp h
    refine ⟨Inert.rfl_inert _, SuccKeep.rfl_sk _, Quiet.rfl_quiet _ _ _, by simp, ?_⟩
    intro v hv
    cases hv
  | cons v rest ih =>
    intro u s s' hml h0 hn h
    unfold addPHIOperands at h
    simp only [M.bind_ok] at h
    obtain ⟨op, s1, hop, u2, s2, hadd, h⟩ := h
    have i1 := getOperand_inert hop
    have k1 := (getOperand_succkeeps m v).keeps _ _ _ hop
    obtain ⟨q1, o1⟩ := getOperand_quiet hop
    have i2 := addOperand_inert hadd
    have k2 := (addOperand_succkeeps node op).keeps _ _ _ hadd
    unfold addOperand at hadd
    rw [M.modify_ok] at hadd
    subst hadd
    have hml1 := i1.to_grow.map_lt hml
    have h01 : NULLPTR < s1.size := lt_of_lt_of_le h0 i1.size_le
    have hn1 : node < s1.size := lt_of_lt_of_le hn i1.size_le
    have hml2 := i2.to_grow.map_lt hml1
    have q2 : Quiet (fun x => x = node) (.const (.nullPtr 0)) s1
        (s1.update node fun x => { x with operands := x.operands ++ [some op] }) :=
      Quiet.update_at _ s1 _ _
    obtain ⟨i3, k3, q3, e1, e2⟩ := ih u _ s' hml2 h01 hn1 h
    have o3 : operandOf s' v = some op := by
      have o2 : operandOf (s1.update node fun x =>
          { x with operands := x.operands ++ [some op] }) v = some op :=
        q2.operandOf_keep i2.to_grow hml1 h01 (Or.inr rfl) o1
      exact q3.operandOf_keep i3.to_grow hml2 h01 (Or.inr rfl) o2
    refine ⟨(i1.trans_inert i2).trans_inert i3, (k1.trans_sk k2).trans_sk k3,
      ((q1.1 _ _).trans_quiet q2).trans_quiet q3, ?_, ?_⟩
    · rw [e1, LLVMPSSBuilder.update_node, if_pos rfl]
      simp only
      rw [(q1.1 (fun _ => False) (.const (.nullPtr 0))).ops_eq _ hn (fun hc => hc)]
      rw [List.map_cons, o3]
      simp
    · intro w hw
      rcases List.mem_cons.mp hw with rfl | hw
      · rw [o3]
        exact fun hc => by cases hc
      · exact e2 w hw

/-- The loop over the instructions of a block in the PHI phase: the pointer PHI nodes
of the instructions it passes get their operands. -/
theorem addPHIOperandsBlock_inv {m : Module}
    {PendR : Nat → Option ((Nat × Nat) × (Nat × Nat))} {P : Nat → Prop} {F b : Nat}
    {p : Nat × Nat} (hb : b < p.1) :
    ∀ (l : List Inst) (PendW : Nat → Option ((Nat × Nat) × (Nat × Nat))) (i : Nat) (u : Unit)
      (s s' : LLVMPSSBuilder),
      (∀ k, l.get? k = (m.getBlock F b).insts.get? (i + k)) →
      WF P s → PW m PendW s → AW m s → RW m PendR s → PendW F = some (p, (b, i)) →
      addPHIOperandsBlock m F b l i s = .ok (u, s') →
      (WF P s' ∧ PW m (Function.update PendW F (some (p, (b, i + l.length)))) s' ∧ AW m s' ∧
        RW m PendR s' ∧ ArgFrame m s s') ∧ Inert s s' := by
  intro l
  induction l with
  | nil =>
    intro PendW i u s s' _ hwf hpw haw hrw hp h
    unfold addPHIOperandsBlock at h
    obtain ⟨-, rfl⟩ := (M.pure_ok _ _ _ _).mp h
    refine ⟨⟨hwf, ?_, haw, hrw, ArgFrame.rfl_af m _⟩, Inert.rfl_inert _⟩
    have hx : some (p, (b, i + ([] : List Inst).length)) = PendW F := hp.symm
    rw [hx, Function.update_eq_self]
    exact hpw
  | cons I rest ih =>
    intro PendW i u s s' hl hwf hpw haw hrw hp h
    unfold addPHIOperandsBlock at h
    simp only [M.bind_ok] at h
    obtain ⟨u1, s1, hstep, h⟩ := h
    have hI : m.getInst F b i = some I := by
      have := hl 0
      simp only [List.get?_cons_zero, Nat.add_zero] at this
      exact this.symm
    have hl1 : ∀ k, rest.get? k = (m.getBlock F b).insts.get? (i + 1 + k) := by
      intro k
      have := hl (k + 1)
      simp only [List.get?_cons_succ] at this
      rw [this]
      congr 1
      omega
    have hlow : posLt (b, i) p := Or.inl hb
    have hreg : (s.subgraphs_map F).root ≠ none := (hpw.pending F _ _ hp).1
    have key : (WF P s1 ∧ PW m (Function.update PendW F (some (p, (b, i + 1)))) s1 ∧ AW m s1 ∧
        RW m PendR s1 ∧ ArgFrame m s s1) ∧ Inert s s1 := by
      have hplain : ∀ (_ : ∀ ty inc, I = .phi ty inc → ty.isPointerTy = false), s1 = s →
          (WF P s1 ∧ PW m (Function.update PendW F (some (p, (b, i + 1)))) s1 ∧ AW m s1 ∧
            RW m PendR s1 ∧ ArgFrame m s s1) ∧ Inert s s1 := by
        intro hno hs
        subst hs
        refine ⟨⟨hwf, ?_, haw, hrw, ArgFrame.rfl_af m _⟩, Inert.rfl_inert _⟩
        refine hpw.repos hp (fun _ _ hx => hx) ?_
        intro b' i' ty inc hI' hty
        refine ⟨Iff.rfl, ?_⟩
        have hne : ¬ (b' = b ∧ i' = i) := by
          rintro ⟨rfl, rfl⟩
          rw [hI] at hI'
          have := hno ty inc (Option.some.inj hI')
          rw [hty] at this
          cases this
        unfold posLt
        simp only
        constructor
        · rintro (hx | ⟨hx, hy⟩)
          · exact Or.inl hx
          · refine Or.inr ⟨hx, ?_⟩
            by_contra hc
            exact hne ⟨hx, by omega⟩
        · rintro (hx | ⟨hx, hy⟩)
          · exact Or.inl hx
          · exact Or.inr ⟨hx, by omega⟩
      by_cases hty : I.getType.isPointerTy = true
      · rw [if_pos hty] at hstep
        cases I with
        | phi ty inc =>
          simp only [M.bind_ok, M.assert_ok, getNode_ok] at hstep
          obtain ⟨u0, s0, ⟨-, rfl⟩, known, s0', ⟨rfl, rfl⟩, hstep⟩ := hstep
          have hty' : ty.isPointerTy = true := hty
          obtain ⟨n, hn, hkind, hnarg, hnil, -⟩ := hpw.phi F b i ty inc hreg hI hty' (by
            intro p0 q0 hp0
            rw [hp] at hp0
            cases hp0
            exact hlow)
          rw [hn] at hstep
          simp only at hstep
          have hnlt : n < s.size := hpw.map_lt _ _ hn
          obtain ⟨i1, k1, q1, e1, e2⟩ :=
            addPHIOperands_spec inc u1 s s1 hpw.map_lt hpw.null_lt hnlt hstep
          refine ⟨⟨hwf.step_inert i1, hpw.step_phi i1.to_grow q1 hp hlow hI hty' hn ⟨e1, e2⟩,
            haw.step_keep_aw hpw i1.to_grow k1 q1 (fun _ _ hc => by cases hc),
            hrw.step_keep_rw hwf i1.to_grow k1 q1 (fun _ _ _ hc => by cases hc),
            ArgFrame.of_keep hpw i1.to_grow k1⟩, i1⟩
        | alloca _ =>
          obtain ⟨-, rfl⟩ := (M.pure_ok _ _ _ _).mp hstep
          exact hplain (fun _ _ hc => by cases hc) rfl
        | store _ _ =>
          obtain ⟨-, rfl⟩ := (M.pure_ok _ _ _ _).mp hstep
          exact hplain (fun _ _ hc => by cases hc) rfl
        | load _ _ =>
          obtain ⟨-, rfl⟩ := (M.pure_ok _ _ _ _).mp hstep
          exact hplain (fun _ _ hc => by cases hc) rfl
        | gep _ _ _ _ =>
          obtain ⟨-, rfl⟩ := (M.pure_ok _ _ _ _).mp hstep
          exact hplain (fun _ _ hc => by cases hc) rfl
        | select _ _ _ _ =>
          obtain ⟨-, rfl⟩ := (M.pure_ok _ _ _ _).mp hstep
          exact hplain (fun _ _ hc => by cases hc) rfl
        | bitcast _ _ =>
          obtain ⟨-, rfl⟩ := (M.pure_ok _ _ _ _).mp hstep
          exact hplain (fun _ _ hc => by cases hc) rfl
        | ptrtoint _ _ =>
          obtain ⟨-, rfl⟩ := (M.pure_ok _ _ _ _).mp hstep
          exact hplain (fun _ _ hc => by cases hc) rfl
        | inttoptr _ _ =>
          obtain ⟨-, rfl⟩ := (M.pure_ok _ _ _ _).mp hstep
          exact hplain (fun _ _ hc => by cases hc) rfl
        | ret _ =>
          obtain ⟨-, rfl⟩ := (M.pure_ok _ _ _ _).mp hstep
          exact hplain (fun _ _ hc => by cases hc) rfl
        | call _ _ _ =>
          obtain ⟨-, rfl⟩ := (M.pure_ok _ _ _ _).mp hstep
          exact hplain (fun _ _ hc => by cases hc) rfl
        | other _ =>
          obtain ⟨-, rfl⟩ := (M.pure_ok _ _ _ _).mp hstep
          exact hplain (fun _ _ hc => by cases hc) rfl
      · rw [if_neg hty] at hstep
        obtain ⟨-, rfl⟩ := (M.pure_ok _ _ _ _).mp hstep
        refine hplain ?_ rfl
        intro ty inc hc
        subst hc
        simpa [Inst.getType] using hty
    obtain ⟨⟨w1, p1, a1, r1, f1⟩, i1⟩ := key
    obtain ⟨⟨w2, p2, a2, r2, f2⟩, i2⟩ :=
      ih _ (i + 1) u s1 s' hl1 w1 p1 a1 r1 (Function.update_same _ _ _) h
    refine ⟨⟨w2, ?_, a2, r2, f1.trans_af f2 i1.size_le⟩, i1.trans_inert i2⟩
    rw [Function.update_idem] at p2
    rw [List.length_cons, show i + (rest.length + 1) = i + 1 + rest.length by omega]
    exact p2

/-- The loop over the blocks in the PHI phase. -/
theorem addPHIOperandsBlocks_inv {m : Module}
    {PendR : Nat → Option ((Nat × Nat) × (Nat × Nat))} {P : Nat → Prop} {F : Nat}
    {p : Nat × Nat} :
    ∀ (l : List BasicBlock) (PendW : Nat → Option ((Nat × Nat) × (Nat × Nat))) (b : Nat)
      (u : Unit) (s s' : LLVMPSSBuilder),
      (∀ k, l.get? k = (m.getFunc F).blocks.get? (b + k)) → b + l.length ≤ p.1 →
      WF P s → PW m PendW s → AW m s → RW m PendR s → PendW F = some (p, (b, 0)) →
      addPHIOperandsBlocks m F l b s = .ok (u, s') →
      (WF P s' ∧ PW m (Function.update PendW F (some (p, (b + l.length, 0)))) s' ∧ AW m s' ∧
        RW m PendR s' ∧ ArgFrame m s s') ∧ Inert s s' := by
  intro l
  induction l with
  | nil =>
    intro PendW b u s s' _ _ hwf hpw haw hrw hp h
    unfold addPHIOperandsBlocks at h
    obtain ⟨-, rfl⟩ := (M.pure_ok _ _ _ _).mp h
    refine ⟨⟨hwf, ?_, haw, hrw, ArgFrame.rfl_af m _⟩, Inert.rfl_inert _⟩
    have hx : some (p, (b + ([] : List BasicBlock).length, 0)) = PendW F := hp.symm
    rw [hx, Function.update_eq_self]
    exact hpw
  | cons B rest ih =>
    intro PendW b u s s' hl hlen hwf hpw haw hrw hp h
    unfold addPHIOperandsBlocks at h
    simp only [M.bind_ok] at h
    obtain ⟨u1, s1, hblock, h⟩ := h
    have hB : (m.getFunc F).blocks.get? b = some B := by
      have := hl 0
      simp only [List.get?_cons_zero, Nat.add_zero] at this
      exact this.symm
    have hBe : m.getBlock F b = B := by
      unfold Module.getBlock
      rw [hB]
      rfl
    have hl1 : ∀ k, rest.get? k = (m.getFunc F).blocks.get? (b + 1 + k) := by
      intro k
      have := hl (k + 1)
      simp only [List.get?_cons_succ] at this
      rw [this]
      congr 1
      omega
    rw [List.length_cons] at hlen
    obtain ⟨⟨w1, p1, a1, r1, f1⟩, i1⟩ := addPHIOperandsBlock_inv (show b < p.1 by omega)
      B.insts PendW 0 u1 s s1 (by
        intro k
        rw [hBe, Nat.zero_add]) hwf hpw haw hrw hp hblock
    have p1' : PW m (Function.update PendW F (some (p, (b + 1, 0)))) s1 := by
      have : PW m (Function.update (Function.update PendW F (some (p, (b, 0 + B.insts.length))))
          F (some (p, (b + 1, 0)))) s1 := p1.repos (Function.update_same _ _ _)
        (fun _ _ hx => hx) (by
          intro b' i' ty inc hI' hty
          refine ⟨Iff.rfl, ?_⟩
          have hlt : b' = b → i' < B.insts.length := by
            intro hbb
            subst hbb
            unfold Module.getInst at hI'
            rw [hBe] at hI'
            by_contra hc
            rw [List.get?_eq_none.mpr (not_lt.mp hc)] at hI'
            cases hI'
          unfold posLt
          simp only
          constructor
          · rintro (hx | ⟨hx, hy⟩)
            · by_cases hbb : b' = b
              · exact Or.inr ⟨hbb, by have := hlt hbb; omega⟩
              · exact Or.inl (by omega)
            · omega
          · rintro (hx | ⟨hx, hy⟩)
            · exact Or.inl (by omega)
            · exact Or.inl (by omega))
      rw [Function.update_idem] at this
      exact this
    obtain ⟨⟨w2, p2, a2, r2, f2⟩, i2⟩ :=
      ih _ (b + 1) u s1 s' hl1 (by omega) w1 p1' a1 r1 (Function.update_same _ _ _) h
    refine ⟨⟨w2, ?_, a2, r2, f1.trans_af f2 i1.size_le⟩, i1.trans_inert i2⟩
    rw [Function.update_idem] at p2
    rw [List.length_cons, show b + (rest.length + 1) = b + 1 + rest.length by omega]
    exact p2

/-- The PHI phase of a function: afterwards every pointer PHI node of the function has
its operands, and the function is finished. -/
theorem addPHIOperandsFunction_inv {m : Module}
    {PendW PendR : Nat → Option ((Nat × Nat) × (Nat × Nat))} {P : Nat → Prop} {F : Nat}
    {u : Unit} {s s' : LLVMPSSBuilder}
    (hwf : WF P s) (hpw : PW m PendW s) (haw : AW m s) (hrw : RW m PendR s)
    (hp : PendW F = some (((m.getFunc F).blocks.length, 0), (0, 0)))
    (h : addPHIOperandsFunction m F s = .ok (u, s')) :
    (WF P s' ∧ PW m (Function.update PendW F none) s' ∧ AW m s' ∧ RW m PendR s' ∧
      ArgFrame m s s') ∧ Inert s s' := by
  unfold addPHIOperandsFunction at h
  obtain ⟨⟨w1, p1, a1, r1, f1⟩, i1⟩ := addPHIOperandsBlocks_inv (m.getFunc F).blocks PendW 0 u s s'
    (fun k => by rw [Nat.zero_add]) (by simp) hwf hpw haw hrw hp h
  refine ⟨⟨w1, ?_, a1, r1, f1⟩, i1⟩
  have := p1.finish (Function.update_same _ _ _) (by
    intro b i ty inc hI _
    have hlt := getInst_block_lt hI
    exact ⟨Or.inl hlt, Or.inl (by simpa using hlt)⟩)
  rw [Function.update_idem] at this
  exact this

/-! ## The invariants along the build of a function -/

theorem buildLLVMPSSBody_inv {m : Module} {build : Nat → M Nat} (hb : BuildOK build)
    (hbp : BuildPW m build) {Pend : Nat → Option ((Nat × Nat) × (Nat × Nat))}
    {P : Nat → Prop} {F r : Nat} {s s' : LLVMPSSBuilder}
    (hwf : WF P s) (hpw : PW m Pend s) (haw : AW m s) (hrw : RW m Pend s)
    (hF : (s.subgraphs_map F).root = none)
    (h : buildLLVMPSSBody m build F s = .ok (r, s')) :
    PW m Pend s' ∧ AW m s' ∧ RW m Pend s' ∧ ArgFrame m s s' := by
  have hPF : Pend F = none := (hpw.unreg F hF).1
  unfold buildLLVMPSSBody at h
  simp only [M.bind_ok] at h
  obtain ⟨root, s1, h1, ret, s2, h2, args, s3, h3, u4, s4, h4, lastNode, s5, h5, h⟩ := h
  obtain ⟨i3, ha3⟩ := buildArguments_inert h3
  obtain ⟨w4, e4, hroot4, hex4, hreg4⟩ := registerSubgraph_wf hwf hF h1 h2 i3 h4
  have k5 : Inert s4 s5 ∧ ∀ l, lastNode = some l → Exit s5 l := by
    cases ha : args.1 with
    | none =>
      simp only [ha] at h5
      obtain ⟨rfl, rfl⟩ := (M.pure_ok _ _ _ _).mp h5
      refine ⟨Inert.rfl_inert _, fun l hl => ?_⟩
      cases hl
      exact hroot4
    | some a =>
      simp only [ha, M.bind_ok, M.pure_ok] at h5
      obtain ⟨u, t1, k1, rfl, rfl⟩ := h5
      have i1 := addSuccessor_inert hroot4 k1
      exact ⟨i1, fun l hl => (hex4 l (ha3 l hl)).mono_inert i1⟩
  obtain ⟨i5, hlast5⟩ := k5
  obtain ⟨⟨p5, a5, r5, f5⟩, hrs, hroot5, hret5, l, hl, hlast⟩ :=
    registerSubgraph_inv hwf hpw haw hrw hF h1 h2 h3 h4 h5
  subst hl
  have w5 := w4.step_inert i5
  simp only [M.bind_ok, M.pure_ok, M.assert_ok] at h
  obtain ⟨u6, s6, h6, rets, s7, h7, u8, s8, ⟨-, rfl⟩, u9, s9, h9, u10, s10, h10, rfl, rfl⟩ := h
  obtain ⟨⟨p6, a6, r6⟩, w6, e6, m6, n6, k6⟩ := buildBlocksLoop_inv hb hbp (m.getFunc F).blocks
    _ 0 none u6 s5 s6 w5 p5 a5 r5 hroot5 (Function.update_same _ _ _)
    (hroot4.mono_inert i5) (hlast5 l rfl) (by
      rcases hlast with hlast | ⟨g1, g2, g3⟩
      · exact Or.inl hlast
      · exact Or.inr ⟨g1, g2, fun _ => g3⟩) h6
  rw [Function.update_idem, Nat.zero_add] at p6 r6
  have f6 : ArgFrame m s s6 := by
    have hsz : s.size ≤ s5.size := le_trans e4.size_le i5.size_le
    refine ⟨fun n hn => m6 n (f5.mono n hn), ?_, ?_⟩
    · intro n hn h6n
      exact f5.anti n hn (n6 n (lt_of_lt_of_le hn hsz) h6n)
    · intro n hn
      have hlt := hn.lt_size hpw
      rw [k6 n (f5.mono n hn) ?_]
      · exact f5.succ_eq n hn
      · rcases hlast with hlast | ⟨g1, -, -⟩
        · omega
        · omega
  obtain ⟨⟨w7, p7, a7, r7, f7⟩, i7, hex7, hrets7⟩ := stitchBlocksLoop_inv w6 p6 a6 r6 h7
  have e57 : Ext s5 s7 := e6.trans_ext i7.to_ext
  have hrn : (s5.subgraphs_map F).root ≠ none := by
    rw [hroot5]
    exact fun hc => by cases hc
  have hroot7 : (s7.subgraphs_map F).root = some root := by
    rw [e57.subg_eq F hrn, hroot5]
  have hret7 : (s7.subgraphs_map F).ret = some ret := by
    rw [e57.subg_eq F hrn, hret5]
  obtain ⟨⟨w9, p9, a9, r9, f9⟩, i9⟩ := addReturnEdges_inv w7 p7 a7 r7 hroot7 hret7
    (Function.update_same _ _ _) hex7 hrets7 h9
  rw [Function.update_idem] at r9
  obtain ⟨⟨w10, p10, a10, r10, f10⟩, i10⟩ := addPHIOperandsFunction_inv w9 p9 a9 r9
    (Function.update_same _ _ _) h10
  rw [Function.update_idem] at p10
  have hP : Function.update Pend F none = Pend := by
    rw [← hPF]
    exact Function.update_eq_self F Pend
  rw [hP] at p10 r10
  have hsz6 : s.size ≤ s6.size := le_trans (le_trans e4.size_le i5.size_le) e6.size_le
  refine ⟨p10, a10, r10, f6.trans_af (f7.trans_af (f9.trans_af f10 i9.size_le) i7.size_le) hsz6⟩

theorem buildLLVMPSSFunction_pw (m : Module) (fuel : Nat) :
    BuildPW m (buildLLVMPSSFunction m fuel) := by
  induction fuel with
  | zero =>
    intro Pend P F r s s' _ _ _ _ _ h
    unfold buildLLVMPSSFunction at h
    exact ((M.fail_ok _ _ _ _).mp h).elim
  | succ fuel ih =>
    intro Pend P F r s s' hwf hpw haw hrw hF h
    unfold buildLLVMPSSFunction at h
    exact buildLLVMPSSBody_inv (buildLLVMPSSFunction_wf m fuel) ih hwf hpw haw hrw hF h

/-! ## The global phase: every edge leads to a node of the arena -/

theorem insertAfter_succlt {n after : Nat} {u : Unit} {s s' : LLVMPSSBuilder}
    (hs : SuccLt s) (hn : n < s.size) (h : insertAfter n after s = .ok (u, s')) :
    SuccLt s' := by
  unfold insertAfter at h
  rw [M.modify_ok] at h
  subst h
  intro k x hx
  show x < s.size
  simp only [LLVMPSSBuilder.update_node] at hx
  split at hx
  · simp only [List.mem_singleton] at hx
    rw [hx]
    exact hn
  · split at hx
    · exact hs _ x hx
    · exact hs _ x hx

theorem handleAggregateInitializer_succlt {m : Module} {node : Nat} {elems : List Constant} :
    ∀ {off last res : Nat} {s s' : LLVMPSSBuilder}, SuccLt s →
      handleAggregateInitializer m node elems off last s = .ok (res, s') → SuccLt s' := by
  induction elems with
  | nil =>
    intro off last res s s' hs h
    unfold handleAggregateInitializer at h
    obtain ⟨rfl, rfl⟩ := (M.pure_ok _ _ _ _).mp h
    exact hs
  | cons val rest ih =>
    intro off last res s s' hs h
    unfold handleAggregateInitializer at h
    simp only [M.bind_ok] at h
    obtain ⟨l1, s1, h1, h2⟩ := h
    have k : SuccLt s1 := by
      split at h1
      · simp only [M.bind_ok, M.pure_ok] at h1
        obtain ⟨op, t1, k1, tg, t2, k2, st, t3, k3, u, t4, k4, rfl, rfl⟩ := h1
        have c1 := hs.step_keep_sl ((getOperand_succkeeps m _).keeps _ _ _ k1)
        have c2 := c1.step_keep_sl ((mkConstant_succkeeps _ _).keeps _ _ _ k2)
        have c3 := c2.step_keep_sl ((mkOpNode_succkeeps _ _).keeps _ _ _ k3)
        obtain ⟨x, -, -, -, -, e3, p3⟩ := mkOpNode_ok _ _ _ _ _ k3
        refine insertAfter_succlt c3 ?_ k4
        rw [← p3, ← e3]
        exact Nat.lt_succ_self _
      · obtain ⟨rfl, rfl⟩ := (M.pure_ok _ _ _ _).mp h1
        exact hs
    exact ih k h2

theorem handleGlobalVariableInitializer_succlt {m : Module} {C : Initializer}
    {node res : Nat} {s s' : LLVMPSSBuilder} (hs : SuccLt s)
    (h : handleGlobalVariableInitializer m C node s = .ok (res, s')) : SuccLt s' := by
  have zero : ∀ {s s' : LLVMPSSBuilder} {res : Nat}, SuccLt s →
      (do setZeroInitialized node; pure node : M Nat) s = .ok (res, s') → SuccLt s' := by
    intro s s' res hs h
    simp only [M.bind_ok, M.pure_ok] at h
    obtain ⟨u, t1, k1, rfl, rfl⟩ := h
    exact hs.step_keep_sl ((setZeroInitialized_succkeeps _).keeps _ _ _ k1)
  have same : ∀ {s s' : LLVMPSSBuilder} {res : Nat}, SuccLt s →
      (pure node : M Nat) s = .ok (res, s') → SuccLt s' := by
    intro s s' res hs h
    obtain ⟨rfl, rfl⟩ := (M.pure_ok _ _ _ _).mp h
    exact hs
  unfold handleGlobalVariableInitializer at h
  split at h
  · exact zero hs h
  · exact handleAggregateInitializer_succlt hs h
  · split at h
    · exact zero hs h
    · split at h
      · exact same hs h
      · split at h
        · split at h
          · simp only [M.bind_ok, M.pure_ok] at h
            obtain ⟨v, t1, k1, p, t2, k2, st, t3, k3, u, t4, k4, rfl, rfl⟩ := h
            obtain ⟨rfl, -⟩ := singlePointer_ok k2
            have c1 := hs.step_keep_sl ((getOperand_succkeeps m _).keeps _ _ _ k1)
            have c3 := c1.step_keep_sl ((mkOpNode_succkeeps _ _).keeps _ _ _ k3)
            obtain ⟨x, -, -, -, -, e3, p3⟩ := mkOpNode_ok _ _ _ _ _ k3
            refine insertAfter_succlt c3 ?_ k4
            rw [← p3, ← e3]
            exact Nat.lt_succ_self _
          · exact same hs h
        · exact same hs h

theorem buildGlobalsAlloc_succlt {globals : List GlobalVariable} :
    ∀ {g : Nat} {prev first : Option Nat} {res : Option Nat × Option Nat}
      {s s' : LLVMPSSBuilder}, SuccLt s →
      buildGlobalsAlloc globals g prev first s = .ok (res, s') → SuccLt s' := by
  induction globals with
  | nil =>
    intro g prev first res s s' hs h
    unfold buildGlobalsAlloc at h
    obtain ⟨rfl, rfl⟩ := (M.pure_ok _ _ _ _).mp h
    exact hs
  | cons G rest ih =>
    intro g prev first res s s' hs h
    unfold buildGlobalsAlloc at h
    simp only [M.bind_ok] at h
    obtain ⟨cur, s1, h1, u2, s2, h2, f3, s3, h3, h4⟩ := h
    have c1 := hs.step_keep_sl ((mkOpNode_succkeeps _ _).keeps _ _ _ h1)
    have c2 := c1.step_keep_sl ((addNode_succkeeps _ _).keeps _ _ _ h2)
    obtain ⟨x, -, -, -, -, e1, p1⟩ := mkOpNode_ok _ _ _ _ _ h1
    have hcur : cur < s2.size := by
      have := ((addNode_succkeeps _ _).keeps _ _ _ h2).size_le
      have h3 : cur < s1.size := by
        rw [← p1, ← e1]
        exact Nat.lt_succ_self _
      omega
    have c3 : SuccLt s3 := by
      cases prev with
      | none =>
        obtain ⟨-, rfl⟩ := (M.pure_ok _ _ _ _).mp h3
        exact c2
      | some p =>
        simp only [M.bind_ok, M.pure_ok] at h3
        obtain ⟨u, t1, k1, -, rfl⟩ := h3
        rw [addSuccessor_ok] at k1
        subst k1
        exact c2.add_succ_sl p hcur
    exact ih c3 h4

theorem buildGlobalsInit_succlt {m : Module} {globals : List GlobalVariable} :
    ∀ {g : Nat} {cur res : Option Nat} {s s' : LLVMPSSBuilder}, SuccLt s →
      buildGlobalsInit m globals g cur s = .ok (res, s') → SuccLt s' := by
  induction globals with
  | nil =>
    intro g cur res s s' hs h
    unfold buildGlobalsInit at h
    obtain ⟨rfl, rfl⟩ := (M.pure_ok _ _ _ _).mp h
    exact hs
  | cons GV rest ih =>
    intro g cur res s s' hs h
    unfold buildGlobalsInit at h
    simp only [M.bind_ok] at h
    obtain ⟨c1, s1, h1, h2⟩ := h
    have k : SuccLt s1 := by
      have same : ∀ {c1 : Option Nat} {s1 : LLVMPSSBuilder},
          (pure cur : M (Option Nat)) s = .ok (c1, s1) → SuccLt s1 := by
        intro c1 s1 h
        obtain ⟨rfl, rfl⟩ := (M.pure_ok _ _ _ _).mp h
        exact hs
      cases hi : GV.initializer with
      | none =>
        simp only [hi] at h1
        exact same h1
      | some C =>
        simp only [hi] at h1
        split at h1
        · simp only [M.bind_ok, getNode_ok] at h1
          obtain ⟨known, t0, ⟨hk, rfl⟩, h1⟩ := h1
          cases known with
          | none => exact ((M.fail_ok _ _ _ _).mp h1).elim
          | some node =>
            simp only [M.bind_ok, M.pure_ok] at h1
            obtain ⟨last, t1, k1, rfl, rfl⟩ := h1
            exact handleGlobalVariableInitializer_succlt hs k1
        · exact same h1
    exact ih k h2

theorem buildGlobals_succlt {m : Module} {res : Option Nat × Option Nat}
    {s s' : LLVMPSSBuilder} (hs : SuccLt s) (h : buildGlobals m s = .ok (res, s')) :
    SuccLt s' := by
  unfold buildGlobals at h
  simp only [M.bind_ok, M.pure_ok, M.assert_ok] at h
  obtain ⟨r, s1, h1, cur, s2, h2, u, s3, ⟨-, rfl⟩, rfl, rfl⟩ := h
  exact buildGlobalsInit_succlt (buildGlobalsAlloc_succlt hs h1) h2

theorem init_succlt : SuccLt LLVMPSSBuilder.init := by
  intro n x hx
  unfold LLVMPSSBuilder.init at hx
  simp only at hx
  split at hx
  · simp [PSSNode.blank] at hx
  · split at hx
    · simp [PSSNode.blank] at hx
    · simp [PSSNode.blank] at hx

/-- The invariants hold after the global phase, with no function in progress. -/
theorem buildGlobals_inv {m : Module} {res : Option Nat × Option Nat} {s : LLVMPSSBuilder}
    (h : buildGlobals m LLVMPSSBuilder.init = .ok (res, s)) :
    WF (fun _ => False) s ∧ PW m (fun _ => none) s ∧ AW m s ∧ RW m (fun _ => none) s ∧
      (∀ n, ¬ ArgNode m s n) ∧ (∀ F, (s.subgraphs_map F).root = none) ∧
      (∀ p, res.2 = some p → p < s.size ∧ Exit s p) := by
  obtain ⟨g1, g2⟩ := buildGlobals_inert0 (fun v n hx => by cases hx) h
  obtain ⟨w1, ex1⟩ := WF.of_inert0 g1
  have hf := (buildGlobals_gframes m).keeps _ _ _ h
  have hsl := buildGlobals_succlt init_succlt h
  have hreg : ∀ F, (s.subgraphs_map F).root = none := by
    intro F
    rw [g1.subg_eq]
    rfl
  have hblk : ∀ k, s.built_blocks k = (none, none) := by
    intro k
    rw [g1.blocks_eq]
    rfl
  have hmap : ∀ v : Value, v.isConstant = false → s.nodes_map v = none := by
    intro v hv
    rw [hf.map_eq v hv]
    rfl
  have hsz : 2 ≤ s.size := g1.size_le
  have hnarg : ∀ n, ¬ ArgNode m s n := by
    rintro n ⟨G, r, hr, -⟩
    rw [hreg G] at hr
    cases hr
  refine ⟨w1, ⟨?_, g1.map_lt (fun v n hx => by cases hx), ?_, ?_, ?_, ?_, ?_, ?_⟩,
    ⟨?_, ?_, ?_, ?_, ?_, ?_⟩, ⟨hsl, ?_, ?_, ?_, ?_⟩, hnarg, hreg,
    fun p hp => ⟨g2 p hp, ex1 p (g2 p hp)⟩⟩
  · show 0 < s.size
    omega
  · intro a
    rw [hf.null_eq a]
    rfl
  · intro F _
    refine ⟨rfl, ?_⟩
    intro v hv
    refine hmap v ?_
    cases v with
    | const c => cases hv
    | _ => rfl
  · intro F p q hp
    cases hp
  · intro F b i ty inc hr
    exact absurd (hreg F) hr
  · intro F1 b1 i1 F2 b2 i2 ty1 inc1 ty2 inc2 n _ _ _ _ hn
    rw [hmap (.inst F1 b1 i1) rfl] at hn
    cases hn
  · intro G r hr
    rw [hreg G] at hr
    cases hr
  · intro G r j hr
    rw [hreg G] at hr
    cases hr
  · intro G r j hr
    rw [hreg G] at hr
    cases hr
  · intro G r hr
    rw [hreg G] at hr
    cases hr
  · intro G r hr
    rw [hreg G] at hr
    cases hr
  · intro G r idx A hr
    rw [hreg G] at hr
    cases hr
  · intro F b l hl
    rw [hblk] at hl
    cases hl
  · intro G p q t _ hp
    cases hp
  · intro G t hr
    exact absurd (hreg G) hr
  · intro G b f hf
    rw [hblk] at hf
    cases hf
  · intro G b i rv hr
    exact absurd (hreg G) hr

/-! ## The invariants of the finished graph -/

theorem buildLLVMPSSFunction_root {m : Module} {fuel : Nat} {P : Nat → Prop} {F r : Nat}
    {s s' : LLVMPSSBuilder} (hwf : WF P s) (hF : (s.subgraphs_map F).root = none)
    (h : buildLLVMPSSFunction m fuel F s = .ok (r, s')) :
    (s'.subgraphs_map F).root = some r := by
  cases fuel with
  | zero =>
    unfold buildLLVMPSSFunction at h
    exact ((M.fail_ok _ _ _ _).mp h).elim
  | succ fuel =>
    unfold buildLLVMPSSFunction at h
    exact (buildLLVMPSSBody_wf (buildLLVMPSSFunction_wf m fuel) hwf hF h).2.2

/-- The finished graph satisfies the invariants with no function in progress. -/
theorem buildLLVMPSS_inv {m : Module} {fuel root : Nat} {s : LLVMPSSBuilder}
    (h : build m fuel = .ok (root, s)) :
    WF (fun _ => False) s ∧ PW m (fun _ => none) s ∧ AW m s ∧ RW m (fun _ => none) s := by
  unfold build buildLLVMPSS at h
  cases hmain : m.getFunction "main" with
  | none =>
    simp only [hmain] at h
    exact ((M.fail_ok _ _ _ _).mp h).elim
  | some F =>
    simp only [hmain, M.bind_ok] at h
    obtain ⟨glob, s1, h1, r, s2, h2, h3⟩ := h
    obtain ⟨w1, p1, a1, r1, hna, hreg, hg2⟩ := buildGlobals_inv h1
    obtain ⟨w2, e2⟩ := buildLLVMPSSFunction_wf m fuel _ F r s1 s2 w1 (hreg F) h2
    obtain ⟨p2, a2, r2, f2⟩ :=
      buildLLVMPSSFunction_pw m fuel _ _ F r s1 s2 w1 p1 a1 r1 (hreg F) h2
    have hroot := buildLLVMPSSFunction_root w1 (hreg F) h2
    cases hg1 : glob.1 with
    | none =>
      simp only [hg1] at h3
      obtain ⟨-, rfl⟩ := (M.pure_ok _ _ _ _).mp h3
      exact ⟨w2, p2, a2, r2⟩
    | some gf =>
      cases hgs : glob.2 with
      | none =>
        simp only [hg1, hgs] at h3
        exact ((M.fail_ok _ _ _ _).mp h3).elim
      | some gs =>
        simp only [hg1, hgs, M.bind_ok, M.pure_ok] at h3
        obtain ⟨u, t1, k1, -, rfl⟩ := h3
        obtain ⟨hlt, hex⟩ := hg2 gs hgs
        have w3 := w2.step_inert (addSuccessor_inert (hex.after_ext e2) k1)
        rw [addSuccessor_ok] at k1
        subst k1
        obtain ⟨hrlt, hrk, -⟩ := w2.subg_ok F r hroot
        refine ⟨w3, p2.add_succ_pw gs r, a2.add_succ_aw p2 r ?_,
          r2.add_succ_rw w2.ret_kind gs hrlt ?_⟩
        · intro hc
          exact hna gs (f2.anti gs hlt hc)
        · rw [hrk]
          exact fun hc => by cases hc

/-- The nodes that `getOperand` gives for values that the maps resolve. -/
theorem resolved_operands {m : Module} {s : LLVMPSSBuilder} :
    ∀ (l : List Value), (∀ v, v ∈ l → operandOf s v ≠ none) →
      ∃ ops : List Nat, l.map (operandOf s) = ops.map some ∧ ops.length = l.length ∧
        List.Forall₂ (fun v op => getOperand m v s = .ok (op, s)) l ops := by
  intro l
  induction l with
  | nil => exact fun _ => ⟨[], rfl, rfl, List.Forall₂.nil⟩
  | cons v rest ih =>
    intro h
    obtain ⟨ops, e1, e2, e3⟩ := ih (fun w hw => h w (List.mem_cons_of_mem _ hw))
    cases ho : operandOf s v with
    | none => exact absurd ho (h v (List.mem_cons_self _ _))
    | some op =>
      refine ⟨op :: ops, ?_, ?_, List.Forall₂.cons (getOperand_of_operandOf ho) e3⟩
      · rw [List.map_cons, List.map_cons, ho, e1]
      · rw [List.length_cons, List.length_cons, e2]

/-! ## The operands of the PHI nodes in the finished graph -/

/-- C6: when a build succeeds, every pointer-typed PHI instruction of a function that
has a subgraph is mapped to a `PHI` node whose operand list has one entry for each
incoming value of the instruction, in the same order, and the entry for an incoming
value is the node that `getOperand` gives for that value in the finished graph. -/
theorem phi_operands_are_incoming {m : Module} {fuel root : Nat} {s : LLVMPSSBuilder}
    (h : build m fuel = .ok (root, s)) {F b i : Nat} {ty : Ty} {inc : List Value}
    (hF : (s.subgraphs_map F).root ≠ none)
    (hI : m.getInst F b i = some (.phi ty inc)) (hty : ty.isPointerTy = true) :
    ∃ n ops, s.nodes_map (.inst F b i) = some n ∧ n < s.size ∧ (s.node n).kind = .PHI ∧
      (s.node n).operands = ops.map some ∧ ops.length = inc.length ∧
      List.Forall₂ (fun v op => getOperand m v s = .ok (op, s)) inc ops := by
  obtain ⟨-, hpw, -, -⟩ := buildLLVMPSS_inv h
  obtain ⟨n, hn, hk, -, -, hops⟩ :=
    hpw.phi F b i ty inc hF hI hty (fun p q hp => by cases hp)
  obtain ⟨e1, e2⟩ := hops (fun p q hp => by cases hp)
  obtain ⟨ops, o1, o2, o3⟩ := resolved_operands (m := m) inc e2
  exact ⟨n, ops, hn, hpw.map_lt _ _ hn, hk, by rw [e1, o1], o2, o3⟩

set_option maxRecDepth 100000 in
theorem exPhi_builds : (finalState exPhi 1).isSome = true := by decide!

set_option maxRecDepth 100000 in
/-- C6 at the PHI instruction `%p` of the module `exPhi`. -/
theorem phi_operands_are_incoming_witness :
    ∃ n ops, (endState exPhi 1).nodes_map (.inst 0 1 0) = some n ∧
      n < (endState exPhi 1).size ∧ ((endState exPhi 1).node n).kind = .PHI ∧
      ((endState exPhi 1).node n).operands = ops.map some ∧
      ops.length = [Value.inst 0 0 0, Value.inst 0 1 0].length ∧
      List.Forall₂ (fun v op => getOperand exPhi v (endState exPhi 1) =
        .ok (op, endState exPhi 1)) [.inst 0 0 0, .inst 0 1 0] ops :=
  phi_operands_are_incoming (build_eq_end exPhi_builds) (F := 0) (b := 1) (i := 0)
    (by decide!)
    (show exPhi.getInst 0 1 0 = some (.phi (.ptr 0) [.inst 0 0 0, .inst 0 1 0]) from rfl) rfl

/-! ## The edges to the unified return node -/

/-- C18: when a build succeeds, for a function `F` with a subgraph whose `ret` node is
`t`: `t` is a `NOOP` node; a node of the graph has `t` among its successors exactly when
it is the last node of a block of `F` that is recorded with nodes in `built_blocks`
(an entry block that emitted nothing is recorded with the root as its nodes) and from
which the stitching reaches no block recorded with nodes, so that it added no
successor; and the node of a `ret` instruction that ends a block without successor
blocks is a `RETURN` node that has `t` among its successors. -/
theorem ret_edges_from_last_nodes {m : Module} {fuel root : Nat} {s : LLVMPSSBuilder}
    (h : build m fuel = .ok (root, s)) {F t : Nat}
    (hF : (s.subgraphs_map F).root ≠ none) (ht : (s.subgraphs_map F).ret = some t) :
    (s.node t).kind = .NOOP ∧
    (∀ n, n < s.size → (t ∈ (s.node n).successors ↔
      ∃ b, b < (m.getFunc F).blocks.length ∧ (s.built_blocks (F, b)).1 ≠ none ∧
        (s.built_blocks (F, b)).2 = some n ∧
        ∀ S, StitchReach m s.built_blocks F b S → (s.built_blocks (F, S)).1 = none)) ∧
    (∀ b i rv, m.getInst F b i = some (.ret rv) → i + 1 = (m.getBlock F b).insts.length →
      (m.getBlock F b).succs = [] →
      ∃ n, s.nodes_map (.inst F b i) = some n ∧ n < s.size ∧ (s.node n).kind = .RETURN ∧
        t ∈ (s.node n).successors) := by
  obtain ⟨hwf, hpw, -, hrw⟩ := buildLLVMPSS_inv h
  refine ⟨(hwf.ret_node hF ht).2, fun n hn => hrw.done F t hF rfl ht n hn, ?_⟩
  intro b i rv hI hlast hsucc
  obtain ⟨n, h1, h2, h3⟩ := hrw.rets F b i rv hF hI hlast (fun p q hp => by cases hp)
  have hlt : n < s.size := hpw.map_lt _ _ h1
  refine ⟨n, h1, hlt, h3, (hrw.done F t hF rfl ht n hlt).mpr
    ⟨b, getInst_block_lt hI, ?_, h2, ?_⟩⟩
  · have hc := hwf.blocks_cons F b
    rw [h2] at hc
    intro hx
    rw [hx] at hc
    cases hc
  · intro S hS
    cases hS with
    | edge hx =>
      rw [hsucc] at hx
      cases hx
    | through hx _ _ =>
      rw [hsucc] at hx
      cases hx

set_option maxRecDepth 100000 in
/-- C18 at the function `f` of the module `exRecursive`, whose `ret` is node 8. -/
theorem ret_edges_from_last_nodes_witness :
    ((endState exRecursive 2).node 8).kind = .NOOP ∧
    (∀ n, n < (endState exRecursive 2).size →
      (8 ∈ ((endState exRecursive 2).node n).successors ↔
        ∃ b, b < (exRecursive.getFunc 1).blocks.length ∧
          ((endState exRecursive 2).built_blocks (1, b)).1 ≠ none ∧
          ((endState exRecursive 2).built_blocks (1, b)).2 = some n ∧
          ∀ S, StitchReach exRecursive (endState exRecursive 2).built_blocks 1 b S →
            ((endState exRecursive 2).built_blocks (1, S)).1 = none)) ∧
    (∀ b i rv, exRecursive.getInst 1 b i = some (.ret rv) →
      i + 1 = (exRecursive.getBlock 1 b).insts.length →
      (exRecursive.getBlock 1 b).succs = [] →
      ∃ n, (endState exRecursive 2).nodes_map (.inst 1 b i) = some n ∧
        n < (endState exRecursive 2).size ∧
        ((endState exRecursive 2).node n).kind = .RETURN ∧
        8 ∈ ((endState exRecursive 2).node n).successors) :=
  ret_edges_from_last_nodes (build_eq_end exRecursive_builds) (F := 1) (t := 8)
    (by decide!) (by decide!)

set_option maxRecDepth 100000 in
/-- C18, counterexample to the claim as stated: in the finished graph of the module
`exSpin` the function `main` has the root 2 and the ret node 3, and these two and the
two sentinels are all the nodes, so that no block of `main` has produced a node; the
entry block is recorded with the root as its first and last node, the stitching adds no
successor to it, and so the root, an `ENTRY` node that is not the last node of a block
that produced a node, gets the ret node as a successor. -/
theorem entry_gets_ret_edge_counterexample :
    (finalState exSpin 1).isSome = true ∧ (endState exSpin 1).size = 4 ∧
    ((endState exSpin 1).subgraphs_map 0).root = some 2 ∧
    ((endState exSpin 1).subgraphs_map 0).ret = some 3 ∧
    ((endState exSpin 1).node 2).kind = .ENTRY ∧
    ((endState exSpin 1).node 2).successors = [3] ∧
    (endState exSpin 1).built_blocks (0, 0) = (some 2, some 2) ∧
    (endState exSpin 1).built_blocks (0, 1) = (none, none) ∧
    (∀ b, b < 2 → ∀ i, i < 1 → (endState exSpin 1).nodes_map (.inst 0 b i) = none) := by
  refine ⟨by decide!, by decide!, by decide!, by decide!, by decide!, by decide!, by decide!,
    by decide!, by decide!⟩

/-! ## The operands a call gives to the argument nodes of the callee -/

theorem argCount_vararg {m : Module} {F : Nat} (h : (m.getFunc F).isVarArg = true) :
    argCount m F = ptrParams m F + 1 := by
  unfold argCount
  rw [if_pos h]

/-- C11: `createCallToFunction`, run in a state of a build (one that satisfies the
invariants `WF`, `PW`, `AW`, `RW`) for a call with arguments `args` of the function
`F`, whether `F` has no subgraph yet, is being built or is finished.  Seen from the
state `s0` in which the walk over the parameters starts (the one `callSetup` ends in,
which for a function that has a subgraph already has the operands of the nodes of `s`
unchanged): every pointer parameter of `F` has an argument at its position, the
parameter is mapped to a `PHI` node of its own, and this node gets exactly one more
operand, the node `getOperand` gives for that argument; apart from the return node of
the call and the node for the variadic arguments of a variadic function, no other node
gets an operand, so nothing is appended for the other parameters. -/
theorem call_appends_parameter_operands {m : Module} {fuel : Nat}
    {Pend : Nat → Option ((Nat × Nat) × (Nat × Nat))} {P : Nat → Prop} {ty : Ty}
    {args : List Value} {F : Nat} {res : Nat × Nat} {s s' : LLVMPSSBuilder}
    (hwf : WF P s) (hpw : PW m Pend s) (haw : AW m s) (hrw : RW m Pend s)
    (h : createCallToFunction m (buildLLVMPSSFunction m fuel) ty args F s = .ok (res, s')) :
    ∃ subg s0, callSetup (buildLLVMPSSFunction m fuel) F s = .ok ((res.1, res.2, subg), s0) ∧
      ((s.subgraphs_map F).root ≠ none →
        ∀ n, n < s.size → (s0.node n).operands = (s.node n).operands) ∧
      (∀ idx A, (m.getFunc F).params.get? idx = some A → A.isPointerTy = true →
        ∃ v op n, args.get? idx = some v ∧ getOperand m v s' = .ok (op, s') ∧
          s'.nodes_map (.arg F idx) = some n ∧ n < s0.size ∧ (s'.node n).kind = .PHI ∧
          (s'.node n).operands = (s0.node n).operands ++ [some op]) ∧
      (∀ i j A B n, (m.getFunc F).params.get? i = some A → A.isPointerTy = true →
        (m.getFunc F).params.get? j = some B → B.isPointerTy = true →
        s'.nodes_map (.arg F i) = some n → s'.nodes_map (.arg F j) = some n → i = j) ∧
      (∀ n, n < s0.size → n ≠ res.2 →
        (∀ idx A, (m.getFunc F).params.get? idx = some A → A.isPointerTy = true →
          s'.nodes_map (.arg F idx) ≠ some n) →
        ((m.getFunc F).isVarArg = true → (s'.subgraphs_map F).args.2 ≠ some n) →
        (s'.node n).operands = (s0.node n).operands) := by
  have hb := buildLLVMPSSFunction_wf m fuel
  have hbp := buildLLVMPSSFunction_pw m fuel
  obtain ⟨subg, s0, r, hset, hroot0, ⟨w1, p1, a1, r1, f1⟩, i0, hq, hc, hsz, hck, hqk, hsame,
    hpar, hva, hframe⟩ := createCallToFunction_spec hb hbp hwf hpw haw hrw h
  obtain ⟨⟨-, p0, -, -, -⟩, -⟩ := callSetup_inv hb hbp hwf hpw haw hrw hset
  have hroot1 : (s'.subgraphs_map F).root = some r := by
    rw [i0.subg_eq]
    exact hroot0
  have hmap : ∀ idx A, (m.getFunc F).params.get? idx = some A → A.isPointerTy = true →
      s'.nodes_map (.arg F idx) = some (r + 2 + ptrsBefore m F idx) :=
    fun idx A hA hp => a1.argmap F r idx A hroot1 hA hp
  refine ⟨subg, s0, hset, hsame, ?_, ?_, ?_⟩
  · intro idx A hA hp
    obtain ⟨v, hv, hne, hops⟩ := hpar idx A hA hp
    have hlt := ptrsBefore_lt hA hp
    have hle := ptrParams_le_argCount m F
    have hsz0 := (p0.args F r hroot0).1
    cases ho : operandOf s' v with
    | none => exact absurd ho hne
    | some op =>
      refine ⟨v, op, r + 2 + ptrsBefore m F idx, hv, getOperand_of_operandOf ho,
        hmap idx A hA hp, by omega, a1.kinds F r _ hroot1 (by omega), ?_⟩
      rw [hops, ho]
  · intro i j A B n hA hpA hB hpB hi hj
    rw [hmap i A hA hpA] at hi
    rw [hmap j B hB hpB] at hj
    have e : ptrsBefore m F i = ptrsBefore m F j := by
      have := Option.some.inj (hi.trans hj.symm)
      omega
    rcases Nat.lt_trichotomy i j with hlt | heq | hgt
    · have := ptrsBefore_lt_of_lt hA hpA hlt
      omega
    · exact heq
    · have := ptrsBefore_lt_of_lt hB hpB hgt
      omega
  · intro n hn hne hnp hnv
    refine hframe n hn hne ?_ ?_
    · intro idx A hA hp hx
      exact hnp idx A hA hp (by rw [hmap idx A hA hp, hx])
    · intro hv hx
      refine hnv hv ?_
      rw [a1.second F r hroot1, argCount_vararg hv, if_neg (by omega), hx]
      congr 1
      omega

set_option maxRecDepth 100000 in
theorem exRecursiveCall_runs :
    (M.result? (createCallToFunction exRecursive (buildLLVMPSSFunction exRecursive 1) (.ptr 0)
      [.const (.nullPtr 0)] 1) LLVMPSSBuilder.init).isSome = true := by decide!

theorem exRecursive_start :
    WF (fun _ => False) LLVMPSSBuilder.init ∧
      PW exRecursive (fun _ => none) LLVMPSSBuilder.init ∧ AW exRecursive LLVMPSSBuilder.init ∧
      RW exRecursive (fun _ => none) LLVMPSSBuilder.init := by
  have h : buildGlobals exRecursive LLVMPSSBuilder.init =
      .ok ((none, none), LLVMPSSBuilder.init) := rfl
  obtain ⟨h1, h2, h3, h4, -⟩ := buildGlobals_inv h
  exact ⟨h1, h2, h3, h4⟩

/-- C11 at a call `f(null)` of the function `f` of the module `exRecursive`, lowered
from the initial state, where `f` has no subgraph yet and calls itself. -/
theorem call_appends_parameter_operands_witness :
    ∃ subg s0, callSetup (buildLLVMPSSFunction exRecursive 1) 1 LLVMPSSBuilder.init =
        .ok ((exRecursiveCall.1.1, exRecursiveCall.1.2, subg), s0) ∧
      ((LLVMPSSBuilder.init.subgraphs_map 1).root ≠ none →
        ∀ n, n < LLVMPSSBuilder.init.size →
          (s0.node n).operands = (LLVMPSSBuilder.init.node n).operands) ∧
      (∀ idx A, (exRecursive.getFunc 1).params.get? idx = some A → A.isPointerTy = true →
        ∃ v op n, [Value.const (.nullPtr 0)].get? idx = some v ∧
          getOperand exRecursive v exRecursiveCall.2 = .ok (op, exRecursiveCall.2) ∧
          exRecursiveCall.2.nodes_map (.arg 1 idx) = some n ∧ n < s0.size ∧
          (exRecursiveCall.2.node n).kind = .PHI ∧
          (exRecursiveCall.2.node n).operands = (s0.node n).operands ++ [some op]) ∧
      (∀ i j A B n, (exRecursive.getFunc 1).params.get? i = some A → A.isPointerTy = true →
        (exRecursive.getFunc 1).params.get? j = some B → B.isPointerTy = true →
        exRecursiveCall.2.nodes_map (.arg 1 i) = some n →
        exRecursiveCall.2.nodes_map (.arg 1 j) = some n → i = j) ∧
      (∀ n, n < s0.size → n ≠ exRecursiveCall.1.2 →
        (∀ idx A, (exRecursive.getFunc 1).params.get? idx = some A → A.isPointerTy = true →
          exRecursiveCall.2.nodes_map (.arg 1 idx) ≠ some n) →
        ((exRecursive.getFunc 1).isVarArg = true →
          (exRecursiveCall.2.subgraphs_map 1).args.2 ≠ some n) →
        (exRecursiveCall.2.node n).operands = (s0.node n).operands) :=
  call_appends_parameter_operands exRecursive_start.1 exRecursive_start.2.1
    exRecursive_start.2.2.1 exRecursive_start.2.2.2 (M.result_eq exRecursiveCall_runs _)

/-- C12: `createCallToFunction`, run in a state of a build for a call with arguments
`args` of a variadic function `F`.  The subgraph's `args.second` is a `PHI` node `a`,
the last one of the chain of argument nodes that starts at `args.first` (each node of
the chain but the last has the next one as its only successor), and it comes after the
node of every pointer parameter.  Seen from the state `s0` in which the walk over the
parameters starts, `a` gets as further operands exactly the nodes that `getOperand`
gives for the pointer-typed arguments beyond the parameters of `F`, in the order of the
arguments. -/
theorem call_appends_variadic_operands {m : Module} {fuel : Nat}
    {Pend : Nat → Option ((Nat × Nat) × (Nat × Nat))} {P : Nat → Prop} {ty : Ty}
    {args : List Value} {F : Nat} {res : Nat × Nat} {s s' : LLVMPSSBuilder}
    (hwf : WF P s) (hpw : PW m Pend s) (haw : AW m s) (hrw : RW m Pend s)
    (hva : (m.getFunc F).isVarArg = true)
    (h : createCallToFunction m (buildLLVMPSSFunction m fuel) ty args F s = .ok (res, s')) :
    ∃ subg s0 r a ops,
      callSetup (buildLLVMPSSFunction m fuel) F s = .ok ((res.1, res.2, subg), s0) ∧
      (s'.subgraphs_map F).root = some r ∧
      (s'.subgraphs_map F).args.1 = some (r + 2) ∧ (s'.subgraphs_map F).args.2 = some a ∧
      a = r + 1 + argCount m F ∧ a < s0.size ∧ (s'.node a).kind = .PHI ∧
      (s'.node a).successors.length ≤ 1 ∧
      (∀ j, j + 1 < argCount m F → (s'.node (r + 2 + j)).successors = [r + 3 + j]) ∧
      (∀ idx A, (m.getFunc F).params.get? idx = some A → A.isPointerTy = true →
        ∃ n, s'.nodes_map (.arg F idx) = some n ∧ r + 2 ≤ n ∧ n < a) ∧
      (s'.node a).operands = (s0.node a).operands ++ ops.map some ∧
      List.Forall₂ (fun v op => getOperand m v s' = .ok (op, s'))
        ((args.drop (m.getFunc F).params.length).filter fun v => (m.typeOf v).isPointerTy)
        ops := by
  have hb := buildLLVMPSSFunction_wf m fuel
  have hbp := buildLLVMPSSFunction_pw m fuel
  obtain ⟨subg, s0, r, hset, hroot0, ⟨w1, p1, a1, r1, f1⟩, i0, hq, hc, hsz, hck, hqk, hsame,
    hpar, hvar, hframe⟩ := createCallToFunction_spec hb hbp hwf hpw haw hrw h
  obtain ⟨⟨-, p0, -, -, -⟩, -⟩ := callSetup_inv hb hbp hwf hpw haw hrw hset
  have hroot1 : (s'.subgraphs_map F).root = some r := by
    rw [i0.subg_eq]
    exact hroot0
  have hac := argCount_vararg hva
  have hsz0 := (p0.args F r hroot0).1
  obtain ⟨hops, hres⟩ := hvar hva
  obtain ⟨ops, o1, -, o3⟩ := resolved_operands (m := m)
    ((args.drop (m.getFunc F).params.length).filter fun v => (m.typeOf v).isPointerTy)
    (fun v hv => hres v (List.mem_of_mem_filter hv) (by simpa using (List.mem_filter.mp hv).2))
  have ha : r + 2 + ptrParams m F = r + 1 + argCount m F := by omega
  refine ⟨subg, s0, r, r + 1 + argCount m F, ops, hset, hroot1, ?_, ?_, rfl, by omega, ?_, ?_,
    ?_, ?_, ?_, o3⟩
  · rw [(p1.args F r hroot1).2.1, if_neg (by omega)]
  · rw [a1.second F r hroot1, if_neg (by omega)]
  · have := a1.kinds F r (ptrParams m F) hroot1 (by omega)
    rw [ha] at this
    exact this
  · exact a1.last F r hroot1 (by omega)
  · exact fun j hj => a1.chain F r j hroot1 hj
  · intro idx A hA hp
    have := ptrsBefore_lt hA hp
    exact ⟨_, a1.argmap F r idx A hroot1 hA hp, by omega, by omega⟩
  · rw [← ha, hops, o1]

set_option maxRecDepth 100000 in
theorem exVarArgCall_runs :
    (M.result? (createCallToFunction exVarArg (buildLLVMPSSFunction exVarArg 1) .void
      [.const (.nullPtr 0), .const (.int 64 1), .const (.nullPtr 0), .const (.nullPtr 0),
        .const (.int 64 2), .const (.nullPtr 0)] 1) LLVMPSSBuilder.init).isSome = true := by
  decide!

theorem exVarArg_start :
    WF (fun _ => False) LLVMPSSBuilder.init ∧
      PW exVarArg (fun _ => none) LLVMPSSBuilder.init ∧ AW exVarArg LLVMPSSBuilder.init ∧
      RW exVarArg (fun _ => none) LLVMPSSBuilder.init := by
  have h : buildGlobals exVarArg LLVMPSSBuilder.init =
      .ok ((none, none), LLVMPSSBuilder.init) := rfl
  obtain ⟨h1, h2, h3, h4, -⟩ := buildGlobals_inv h
  exact ⟨h1, h2, h3, h4⟩

set_option maxRecDepth 100000 in
/-- The call `v(null, 1, null, null, 2, null)` of the module `exVarArg`, lowered from the
initial state: the call node is node 3 and its return node is node 2; the subgraph of
`v` has the root 4, the ret node 5 and the argument nodes 6 (`%p`), 7 (`%q`) and 8 (the
variadic arguments), which get the operands `[NULLPTR]`, `[NULLPTR]` and
`[NULLPTR, NULLPTR]`. -/
theorem exVarArgCall_eval :
    exVarArgCall.1 = (3, 2) ∧ (exVarArgCall.2.subgraphs_map 1).root = some 4 ∧
    (exVarArgCall.2.subgraphs_map 1).args = (some 6, some 8) ∧
    (List.range 10).map (fun n => ((exVarArgCall.2.node n).kind,
      (exVarArgCall.2.node n).operands)) =
      [(.NULLPTR, []), (.UNKNOWN_MEM, []), (.CALL_RETURN, []), (.CALL, []), (.ENTRY, []),
        (.NOOP, []), (.PHI, [some 0]), (.PHI, [some 0]), (.PHI, [some 0, some 0]),
        (.RETURN, [])] := by
  refine ⟨by decide!, by decide!, by decide!, by decide!⟩

/-- C12 at the call `v(null, 1, null, null, 2, null)` of the variadic function `v` of the
module `exVarArg`, lowered from the initial state. -/
theorem call_appends_variadic_operands_witness :
    ∃ subg s0 r a ops,
      callSetup (buildLLVMPSSFunction exVarArg 1) 1 LLVMPSSBuilder.init =
        .ok ((exVarArgCall.1.1, exVarArgCall.1.2, subg), s0) ∧
      (exVarArgCall.2.subgraphs_map 1).root = some r ∧
      (exVarArgCall.2.subgraphs_map 1).args.1 = some (r + 2) ∧
      (exVarArgCall.2.subgraphs_map 1).args.2 = some a ∧
      a = r + 1 + argCount exVarArg 1 ∧ a < s0.size ∧ (exVarArgCall.2.node a).kind = .PHI ∧
      (exVarArgCall.2.node a).successors.length ≤ 1 ∧
      (∀ j, j + 1 < argCount exVarArg 1 →
        (exVarArgCall.2.node (r + 2 + j)).successors = [r + 3 + j]) ∧
      (∀ idx A, (exVarArg.getFunc 1).params.get? idx = some A → A.isPointerTy = true →
        ∃ n, exVarArgCall.2.nodes_map (.arg 1 idx) = some n ∧ r + 2 ≤ n ∧ n < a) ∧
      (exVarArgCall.2.node a).operands = (s0.node a).operands ++ ops.map some ∧
      List.Forall₂ (fun v op => getOperand exVarArg v exVarArgCall.2 =
          .ok (op, exVarArgCall.2))
        (([Value.const (.nullPtr 0), .const (.int 64 1), .const (.nullPtr 0),
          .const (.nullPtr 0), .const (.int 64 2), .const (.nullPtr 0)].drop
            (exVarArg.getFunc 1).params.length).filter
          fun v => (exVarArg.typeOf v).isPointerTy) ops :=
  call_appends_variadic_operands exVarArg_start.1 exVarArg_start.2.1
    exVarArg_start.2.2.1 exVarArg_start.2.2.2 rfl (M.result_eq exVarArgCall_runs _)

/-! ## `realloc` -/

theorem getMemAllocationFunc_name {F : Function} {name : String} (hn : F.name = some name) :
    getMemAllocationFunc (some F) =
      (if name = "malloc" then .ok .MALLOC
      else if name = "calloc" then .ok .CALLOC
      else if name = "alloca" then .ok .ALLOCA
      else if name = "realloc" then .error (.assertion "realloc not implemented yet")
      else .ok .NONEMEM) := by
  unfold getMemAllocationFunc
  simp only [hn]

theorem getMemAllocationFunc_unnamed {F : Function} (hn : F.name = none) :
    getMemAllocationFunc (some F) = .ok .NONEMEM := by
  unfold getMemAllocationFunc
  simp only [hn]

theorem getMemAllocationFunc_cases (func : Option Function) :
    (func = none ∧ getMemAllocationFunc func = .ok .NONEMEM) ∨
    ∃ F, func = some F ∧
      ((F.name = some "malloc" ∧ getMemAllocationFunc func = .ok .MALLOC) ∨
        (F.name = some "calloc" ∧ getMemAllocationFunc func = .ok .CALLOC) ∨
        (F.name = some "alloca" ∧ getMemAllocationFunc func = .ok .ALLOCA) ∨
        (F.name = some "realloc" ∧
          getMemAllocationFunc func = .error (.assertion "realloc not implemented yet")) ∨
        (F.name ≠ some "malloc" ∧ F.name ≠ some "calloc" ∧ F.name ≠ some "alloca" ∧
          F.name ≠ some "realloc" ∧ getMemAllocationFunc func = .ok .NONEMEM)) := by
  cases func with
  | none => exact Or.inl ⟨rfl, rfl⟩
  | some F =>
    refine Or.inr ⟨F, rfl, ?_⟩
    cases hn : F.name with
    | none =>
      exact Or.inr (Or.inr (Or.inr (Or.inr ⟨by simp, by simp, by simp, by simp,
        getMemAllocationFunc_unnamed hn⟩)))
    | some name =>
      rw [getMemAllocationFunc_name hn]
      by_cases h1 : name = "malloc"
      · subst h1
        exact Or.inl ⟨rfl, rfl⟩
      · by_cases h2 : name = "calloc"
        · subst h2
          exact Or.inr (Or.inl ⟨rfl, rfl⟩)
        · by_cases h3 : name = "alloca"
          · subst h3
            exact Or.inr (Or.inr (Or.inl ⟨rfl, rfl⟩))
          · by_cases h4 : name = "realloc"
            · subst h4
              exact Or.inr (Or.inr (Or.inr (Or.inl ⟨rfl, rfl⟩)))
            · refine Or.inr (Or.inr (Or.inr (Or.inr ⟨?_, ?_, ?_, ?_, ?_⟩)))
              · exact fun hc => h1 (Option.some.inj hc)
              · exact fun hc => h2 (Option.some.inj hc)
              · exact fun hc => h3 (Option.some.inj hc)
              · exact fun hc => h4 (Option.some.inj hc)
              · rw [if_neg h1, if_neg h2, if_neg h3, if_neg h4]

theorem M.bind_error {α β : Type} {x : M α} {f : α → M β} {s : LLVMPSSBuilder} {e : Error}
    (h : x s = Except.error e) : (x >>= f) s = Except.error e := by
  show (match x s with
    | Except.ok (a, s') => f a s'
    | Except.error e => Except.error e) = Except.error e
  rw [h]

theorem buildPSSBlockInst_realloc {m : Module} {build : Nat → M Nat} {F b i : Nat} {ty : Ty}
    {cv : Value} {args : List Value} {f : Nat}
    (hf : (stripPointerCasts m cv).asFunction = some f)
    (hn : (m.getFunc f).name = some "realloc") (hd : isDbgValueInst m cv = false)
    (retFirst node : Option Nat) (s : LLVMPSSBuilder) :
    buildPSSBlockInst m build F b i (.call ty cv args) retFirst node s =
      .error (.assertion "realloc not implemented yet") := by
  have hg : getMemAllocationFunc (some (m.getFunc f)) =
      .error (.assertion "realloc not implemented yet") := by
    rw [getMemAllocationFunc_name hn]
    rfl
  unfold buildPSSBlockInst
  simp only
  by_cases hb : (m.getFunc f).blocks.length = 0
  · have hr : isRelevantCall m ty cv = .error (.assertion "realloc not implemented yet") := by
      unfold isRelevantCall
      rw [hd]
      simp only [hf, hb, hg]
      rfl
    rw [hr]
    rfl
  · have hr : isRelevantCall m ty cv = .ok true := by
      unfold isRelevantCall
      rw [hd]
      simp only [hf, hb]
      rfl
    rw [hr, M.bind_run (show M.ofExcept (Except.ok true) s = .ok (true, s) from rfl)]
    have hc : createCall m build (.inst F b i) F ty cv args s =
        .error (.assertion "realloc not implemented yet") := by
      unfold createCall
      simp only [hf, hg]
      rfl
    exact M.bind_error hc

theorem buildPSSBlockLoop_realloc {m : Module} {build : Nat → M Nat} {F b : Nat} {ty : Ty}
    {cv : Value} {args : List Value} {f : Nat}
    (hf : (stripPointerCasts m cv).asFunction = some f)
    (hn : (m.getFunc f).name = some "realloc") (hd : isDbgValueInst m cv = false) :
    ∀ (l : List Inst) (k i : Nat) (retFirst node : Option Nat) (s : LLVMPSSBuilder),
      l.get? k = some (.call ty cv args) →
      ∀ res s', buildPSSBlockLoop m build F b l i retFirst node s ≠ .ok (res, s') := by
  intro l
  induction l with
  | nil =>
    intro k i retFirst node s hk
    cases hk
  | cons I rest ih =>
    intro k i retFirst node s hk res s' h
    unfold buildPSSBlockLoop at h
    cases k with
    | zero =>
      simp only [List.get?_cons_zero] at hk
      cases hk
      simp only [M.bind_ok] at h
      obtain ⟨r, s1, h1, -⟩ := h
      rw [buildPSSBlockInst_realloc hf hn hd] at h1
      cases h1
    | succ k =>
      simp only [List.get?_cons_succ] at hk
      simp only [M.bind_ok] at h
      obtain ⟨r, s1, -, h2⟩ := h
      exact ih k (i + 1) r.1 r.2 s1 hk res s' h2

/-- C23: `getMemAllocationFunc` fails exactly for a function named `realloc`, with the
failed assertion `realloc not implemented yet`; it returns `MALLOC`, `CALLOC` and
`ALLOCA` exactly for the functions named `malloc`, `calloc` and `alloca`, and `NONEMEM`
exactly for a null function and for a function without name or with any other name.
So lowering a call of a function named `realloc` (that is no `llvm.dbg.value` call)
ends in that failed assertion in every state, whether the call is met in
`isRelevantCall` (`realloc` without body) or in `createCall`; lowering a block that
contains such a call never returns; and the build of the module `exRealloc`, whose
`main` calls `realloc`, ends in that error. -/
theorem realloc_is_lowering_error :
    (∀ func, (∃ e, getMemAllocationFunc func = .error e) ↔
      ∃ F, func = some F ∧ F.name = some "realloc") ∧
    (∀ func e, getMemAllocationFunc func = .error e →
      e = .assertion "realloc not implemented yet") ∧
    (∀ func, getMemAllocationFunc func = .ok .MALLOC ↔
      ∃ F, func = some F ∧ F.name = some "malloc") ∧
    (∀ func, getMemAllocationFunc func = .ok .CALLOC ↔
      ∃ F, func = some F ∧ F.name = some "calloc") ∧
    (∀ func, getMemAllocationFunc func = .ok .ALLOCA ↔
      ∃ F, func = some F ∧ F.name = some "alloca") ∧
    (∀ func, getMemAllocationFunc func = .ok .NONEMEM ↔
      func = none ∨ ∃ F, func = some F ∧ F.name ≠ some "malloc" ∧ F.name ≠ some "calloc" ∧
        F.name ≠ some "alloca" ∧ F.name ≠ some "realloc") ∧
    (∀ (m : Module) (build : Nat → M Nat) (F b i : Nat) (ty : Ty) (cv : Value)
        (args : List Value) (f : Nat) (retFirst node : Option Nat) (s : LLVMPSSBuilder),
      (stripPointerCasts m cv).asFunction = some f → (m.getFunc f).name = some "realloc" →
      isDbgValueInst m cv = false →
      buildPSSBlockInst m build F b i (.call ty cv args) retFirst node s =
        .error (.assertion "realloc not implemented yet")) ∧
    (∀ (m : Module) (build : Nat → M Nat) (F b i : Nat) (ty : Ty) (cv : Value)
        (args : List Value) (f : Nat) (s : LLVMPSSBuilder),
      m.getInst F b i = some (.call ty cv args) →
      (stripPointerCasts m cv).asFunction = some f → (m.getFunc f).name = some "realloc" →
      isDbgValueInst m cv = false →
      ∀ res s', buildPSSBlock m build F b s ≠ .ok (res, s')) ∧
    build exRealloc 1 = .error (.assertion "realloc not implemented yet") := by
  refine ⟨?_, ?_, ?_, ?_, ?_, ?_, ?_, ?_, rfl⟩
  · intro func
    rcases getMemAllocationFunc_cases func with ⟨rfl, h⟩ |
      ⟨F, rfl, ⟨hn, h⟩ | ⟨hn, h⟩ | ⟨hn, h⟩ | ⟨hn, h⟩ | ⟨h1, h2, h3, h4, h⟩⟩
    all_goals rw [h]
    · exact ⟨(fun ⟨e, he⟩ => by cases he), fun ⟨F, hF, _⟩ => by cases hF⟩
    · refine ⟨(fun ⟨e, he⟩ => by cases he), ?_⟩
      rintro ⟨G, hG, hGn⟩
      cases hG
      rw [hn] at hGn
      exact absurd hGn (by decide)
    · refine ⟨(fun ⟨e, he⟩ => by cases he), ?_⟩
      rintro ⟨G, hG, hGn⟩
      cases hG
      rw [hn] at hGn
      exact absurd hGn (by decide)
    · refine ⟨(fun ⟨e, he⟩ => by cases he), ?_⟩
      rintro ⟨G, hG, hGn⟩
      cases hG
      rw [hn] at hGn
      exact absurd hGn (by decide)
    · exact ⟨fun _ => ⟨F, rfl, hn⟩, fun _ => ⟨_, rfl⟩⟩
    · refine ⟨(fun ⟨e, he⟩ => by cases he), ?_⟩
      rintro ⟨G, hG, hGn⟩
      cases hG
      exact absurd hGn h4
  · intro func e he
    rcases getMemAllocationFunc_cases func with ⟨rfl, h⟩ |
      ⟨F, rfl, ⟨hn, h⟩ | ⟨hn, h⟩ | ⟨hn, h⟩ | ⟨hn, h⟩ | ⟨h1, h2, h3, h4, h⟩⟩
    all_goals rw [h] at he
    all_goals cases he
    rfl
  · intro func
    rcases getMemAllocationFunc_cases func with ⟨rfl, h⟩ |
      ⟨F, rfl, ⟨hn, h⟩ | ⟨hn, h⟩ | ⟨hn, h⟩ | ⟨hn, h⟩ | ⟨h1, h2, h3, h4, h⟩⟩
    all_goals rw [h]
    · exact ⟨(fun hc => by cases hc), fun ⟨F, hF, _⟩ => by cases hF⟩
    · exact ⟨fun _ => ⟨F, rfl, hn⟩, fun _ => rfl⟩
    · refine ⟨(fun hc => by cases hc), ?_⟩
      rintro ⟨G, hG, hGn⟩
      cases hG
      rw [hn] at hGn
      exact absurd hGn (by decide)
    · refine ⟨(fun hc => by cases hc), ?_⟩
      rintro ⟨G, hG, hGn⟩
      cases hG
      rw [hn] at hGn
      exact absurd hGn (by decide)
    · refine ⟨(fun hc => by cases hc), ?_⟩
      rintro ⟨G, hG, hGn⟩
      cases hG
      rw [hn] at hGn
      exact absurd hGn (by decide)
    · refine ⟨(fun hc => by cases hc), ?_⟩
      rintro ⟨G, hG, hGn⟩
      cases hG
      exact absurd hGn h1
  · intro func
    rcases getMemAllocationFunc_cases func with ⟨rfl, h⟩ |
      ⟨F, rfl, ⟨hn, h⟩ | ⟨hn, h⟩ | ⟨hn, h⟩ | ⟨hn, h⟩ | ⟨h1, h2, h3, h4, h⟩⟩
    all_goals rw [h]
    · exact ⟨(fun hc => by cases hc), fun ⟨F, hF, _⟩ => by cases hF⟩
    · refine ⟨(fun hc => by cases hc), ?_⟩
      rintro ⟨G, hG, hGn⟩
      cases hG
      rw [hn] at hGn
      exact absurd hGn (by decide)
    · exact ⟨fun _ => ⟨F, rfl, hn⟩, fun _ => rfl⟩
    · refine ⟨(fun hc => by cases hc), ?_⟩
      rintro ⟨G, hG, hGn⟩
      cases hG
      rw [hn] at hGn
      exact absurd hGn (by decide)
    · refine ⟨(fun hc => by cases hc), ?_⟩
      rintro ⟨G, hG, hGn⟩
      cases hG
      rw [hn] at hGn
      exact absurd hGn (by decide)
    · refine ⟨(fun hc => by cases hc), ?_⟩
      rintro ⟨G, hG, hGn⟩
      cases hG
      exact absurd hGn h2
  · intro func
    rcases getMemAllocationFunc_cases func with ⟨rfl, h⟩ |
      ⟨F, rfl, ⟨hn, h⟩ | ⟨hn, h⟩ | ⟨hn, h⟩ | ⟨hn, h⟩ | ⟨h1, h2, h3, h4, h⟩⟩
    all_goals rw [h]
    · exact ⟨(fun hc => by cases hc), fun ⟨F, hF, _⟩ => by cases hF⟩
    · refine ⟨(fun hc => by cases hc), ?_⟩
      rintro ⟨G, hG, hGn⟩
      cases hG
      rw [hn] at hGn
      exact absurd hGn (by decide)
    · refine ⟨(fun hc => by cases hc), ?_⟩
      rintro ⟨G, hG, hGn⟩
      cases hG
      rw [hn] at hGn
      exact absurd hGn (by decide)
    · exact ⟨fun _ => ⟨F, rfl, hn⟩, fun _ => rfl⟩
    · refine ⟨(fun hc => by cases hc), ?_⟩
      rintro ⟨G, hG, hGn⟩
      cases hG
      rw [hn] at hGn
      exact absurd hGn (by decide)
    · refine ⟨(fun hc => by cases hc), ?_⟩
      rintro ⟨G, hG, hGn⟩
      cases hG
      exact absurd hGn h3
  · intro func
    rcases getMemAllocationFunc_cases func with ⟨rfl, h⟩ |
      ⟨F, rfl, ⟨hn, h⟩ | ⟨hn, h⟩ | ⟨hn, h⟩ | ⟨hn, h⟩ | ⟨h1, h2, h3, h4, h⟩⟩
    all_goals rw [h]
    · exact ⟨fun _ => Or.inl rfl, fun _ => rfl⟩
    · refine ⟨(fun hc => by cases hc), ?_⟩
      rintro (hc | ⟨G, hG, g1, -⟩)
      · cases hc
      · cases hG
        exact absurd hn g1
    · refine ⟨(fun hc => by cases hc), ?_⟩
      rintro (hc | ⟨G, hG, -, g2, -⟩)
      · cases hc
      · cases hG
        exact absurd hn g2
    · refine ⟨(fun hc => by cases hc), ?_⟩
      rintro (hc | ⟨G, hG, -, -, g3, -⟩)
      · cases hc
      · cases hG
        exact absurd hn g3
    · refine ⟨(fun hc => by cases hc), ?_⟩
      rintro (hc | ⟨G, hG, -, -, -, g4⟩)
      · cases hc
      · cases hG
        exact absurd hn g4
    · exact ⟨fun _ => Or.inr ⟨F, rfl, h1, h2, h3, h4⟩, fun _ => rfl⟩
  · intro m build F b i ty cv args f retFirst node s hf hn hd
    exact buildPSSBlockInst_realloc hf hn hd retFirst node s
  · intro m build F b i ty cv args f s hI hf hn hd res s' h
    unfold buildPSSBlock at h
    exact buildPSSBlockLoop_realloc hf hn hd _ i 0 none none s hI res s' h

/-! ## Allocation calls -/

theorem createDynamicAlloc_simple {args : List Value} {cv : Value} {bits n : Nat}
    {type : MemAllocationFuncs} (ht : type = .MALLOC ∨ type = .ALLOCA)
    (hop : (args ++ [cv]).get? 0 = some (.const (.int bits n))) (hn : n < 2 ^ 64 - 1)
    (s : LLVMPSSBuilder) :
    ∃ s', createDynamicAlloc args cv type s = .ok (s.size, s') ∧ s'.size = s.size + 1 ∧
      s'.nodes_map = s.nodes_map ∧ (∀ i, i ≠ s.size → s'.node i = s.node i) ∧
      (s'.node s.size).kind = .DYN_ALLOC ∧
      (s'.node s.size).isHeap = decide (type = .MALLOC) ∧
      (s'.node s.size).zeroInitialized = false ∧ (s'.node s.size).size = n := by
  obtain ⟨c1, c2⟩ := getLimitedValue_small hn
  have hn' : ¬ n = 2 ^ 64 - 1 := by omega
  rcases ht with rfl | rfl
  · cases hres : createDynamicAlloc args cv .MALLOC s with
    | error e =>
      unfold createDynamicAlloc at hres
      simp [bind, mkOpNode, mkNode, newNode, setIsHeap, setSize, M.modify, pure,
        callOperand_run hop, c1, hn'] at hres
    | ok p =>
      unfold createDynamicAlloc at hres
      simp [bind, mkOpNode, mkNode, newNode, setIsHeap, setSize, M.modify, pure,
        callOperand_run hop, c1, hn'] at hres
      subst hres
      refine ⟨_, rfl, rfl, rfl, ?_, ?_, ?_, ?_, ?_⟩
      · intro i hi
        simp [hi]
      all_goals simp [PSSNode.blank]
      all_goals omega
  · cases hres : createDynamicAlloc args cv .ALLOCA s with
    | error e =>
      unfold createDynamicAlloc at hres
      simp [bind, mkOpNode, mkNode, newNode, setSize, M.modify, pure,
        callOperand_run hop, c1, hn'] at hres
    | ok p =>
      unfold createDynamicAlloc at hres
      simp [bind, mkOpNode, mkNode, newNode, setSize, M.modify, pure,
        callOperand_run hop, c1, hn'] at hres
      subst hres
      refine ⟨_, rfl, rfl, rfl, ?_, ?_, ?_, ?_, ?_⟩
      · intro i hi
        simp [hi]
      all_goals simp [PSSNode.blank]
      all_goals omega

theorem getLimitedValue_wide {v : Nat} (h : 2 ^ 64 - 1 ≤ v) :
    getLimitedValue v = 2 ^ 64 - 1 := by
  unfold getLimitedValue
  split
  · rfl
  · omega

/-- A constant size that is the all-ones 64-bit value or does not fit into 64 bits is
recorded as size 0. -/
theorem createDynamicAlloc_wide {args : List Value} {cv : Value} {bits n : Nat}
    {type : MemAllocationFuncs} (ht : type = .MALLOC ∨ type = .ALLOCA)
    (hop : (args ++ [cv]).get? 0 = some (.const (.int bits n))) (hn : 2 ^ 64 - 1 ≤ n)
    (s : LLVMPSSBuilder) :
    ∃ s', createDynamicAlloc args cv type s = .ok (s.size, s') ∧ s'.size = s.size + 1 ∧
      s'.nodes_map = s.nodes_map ∧ (∀ i, i ≠ s.size → s'.node i = s.node i) ∧
      (s'.node s.size).kind = .DYN_ALLOC ∧
      (s'.node s.size).isHeap = decide (type = .MALLOC) ∧
      (s'.node s.size).zeroInitialized = false ∧ (s'.node s.size).size = 0 := by
  have c1 := getLimitedValue_wide hn
  rcases ht with rfl | rfl
  · cases hres : createDynamicAlloc args cv .MALLOC s with
    | error e =>
      unfold createDynamicAlloc at hres
      simp [bind, mkOpNode, mkNode, newNode, setIsHeap, setSize, M.modify, pure,
        callOperand_run hop, c1] at hres
    | ok p =>
      unfold createDynamicAlloc at hres
      simp [bind, mkOpNode, mkNode, newNode, setIsHeap, setSize, M.modify, pure,
        callOperand_run hop, c1] at hres
      subst hres
      refine ⟨_, rfl, rfl, rfl, ?_, ?_, ?_, ?_, ?_⟩
      · intro i hi
        simp [hi]
      all_goals simp [PSSNode.blank]
  · cases hres : createDynamicAlloc args cv .ALLOCA s with
    | error e =>
      unfold createDynamicAlloc at hres
      simp [bind, mkOpNode, mkNode, newNode, setSize, M.modify, pure,
        callOperand_run hop, c1] at hres
    | ok p =>
      unfold createDynamicAlloc at hres
      simp [bind, mkOpNode, mkNode, newNode, setSize, M.modify, pure,
        callOperand_run hop, c1] at hres
      subst hres
      refine ⟨_, rfl, rfl, rfl, ?_, ?_, ?_, ?_, ?_⟩
      · intro i hi
        simp [hi]
      all_goals simp [PSSNode.blank]

theorem createDynamicAlloc_calloc_flags {args : List Value} {cv v : Value}
    (hop : (args ++ [cv]).get? 1 = some v) (s : LLVMPSSBuilder) :
    ∃ s', createDynamicAlloc args cv .CALLOC s = .ok (s.size, s') ∧ s'.size = s.size + 1 ∧
      s'.nodes_map = s.nodes_map ∧ (∀ i, i ≠ s.size → s'.node i = s.node i) ∧
      (s'.node s.size).kind = .DYN_ALLOC ∧ (s'.node s.size).isHeap = true ∧
      (s'.node s.size).zeroInitialized = true := by
  have h0 : ∃ v0, (args ++ [cv]).get? 0 = some v0 := by
    cases args with
    | nil => exact ⟨cv, rfl⟩
    | cons a rest => exact ⟨a, rfl⟩
  obtain ⟨v0, h0⟩ := h0
  cases v with
  | const c =>
    cases c with
    | int b value =>
      cases v0 with
      | const c0 =>
        cases c0 with
        | int b2 value2 =>
          by_cases h2 : getLimitedValue value2 = 18446744073709551615
          · cases hres : createDynamicAlloc args cv .CALLOC s with
            | error e =>
              unfold createDynamicAlloc at hres
              simp [bind, mkOpNode, mkNode, newNode, setIsHeap, setZeroInitialized, setSize,
                M.modify, pure, callOperand_run hop, callOperand_run h0, h2] at hres
            | ok p =>
              unfold createDynamicAlloc at hres
              simp [bind, mkOpNode, mkNode, newNode, setIsHeap, setZeroInitialized, setSize,
                M.modify, pure, callOperand_run hop, callOperand_run h0, h2] at hres
              subst hres
              refine ⟨_, rfl, rfl, rfl, ?_, ?_, ?_, ?_⟩
              · intro i hi
                simp [hi]
              all_goals simp [PSSNode.blank]
          · cases hres : createDynamicAlloc args cv .CALLOC s with
            | error e =>
              unfold createDynamicAlloc at hres
              simp [bind, mkOpNode, mkNode, newNode, setIsHeap, setZeroInitialized, setSize,
                M.modify, pure, callOperand_run hop, callOperand_run h0, h2] at hres
            | ok p =>
              unfold createDynamicAlloc at hres
              simp [bind, mkOpNode, mkNode, newNode, setIsHeap, setZeroInitialized, setSize,
                M.modify, pure, callOperand_run hop, callOperand_run h0, h2] at hres
              subst hres
              refine ⟨_, rfl, rfl, rfl, ?_, ?_, ?_, ?_⟩
              · intro i hi
                simp [hi]
              all_goals simp [PSSNode.blank]
        | _ =>
          cases hres : createDynamicAlloc args cv .CALLOC s with
          | error e =>
            unfold createDynamicAlloc at hres
            simp [bind, mkOpNode, mkNode, newNode, setIsHeap, setZeroInitialized, setSize,
              M.modify, pure, callOperand_run hop, callOperand_run h0] at hres
          | ok p =>
            unfold createDynamicAlloc at hres
            simp [bind, mkOpNode, mkNode, newNode, setIsHeap, setZeroInitialized, setSize,
              M.modify, pure, callOperand_run hop, callOperand_run h0] at hres
            subst hres
            refine ⟨_, rfl, rfl, rfl, ?_, ?_, ?_, ?_⟩
            · intro i hi
              simp [hi]
            all_goals simp [PSSNode.blank]
      | _ =>
        cases hres : createDynamicAlloc args cv .CALLOC s with
        | error e =>
          unfold createDynamicAlloc at hres
          simp [bind, mkOpNode, mkNode, newNode, setIsHeap, setZeroInitialized, setSize,
            M.modify, pure, callOperand_run hop, callOperand_run h0] at hres
        | ok p =>
          unfold createDynamicAlloc at hres
          simp [bind, mkOpNode, mkNode, newNode, setIsHeap, setZeroInitialized, setSize,
            M.modify, pure, callOperand_run hop, callOperand_run h0] at hres
          subst hres
          refine ⟨_, rfl, rfl, rfl, ?_, ?_, ?_, ?_⟩
          · intro i hi
            simp [hi]
          all_goals simp [PSSNode.blank]
    | _ =>
      cases hres : createDynamicAlloc args cv .CALLOC s with
      | error e =>
        unfold createDynamicAlloc at hres
        simp [bind, mkOpNode, mkNode, newNode, setIsHeap, setZeroInitialized, setSize,
          M.modify, pure, callOperand_run hop, callOperand_run h0] at hres
      | ok p =>
        unfold createDynamicAlloc at hres
        simp [bind, mkOpNode, mkNode, newNode, setIsHeap, setZeroInitialized, setSize,
          M.modify, pure, callOperand_run hop, callOperand_run h0] at hres
        subst hres
        refine ⟨_, rfl, rfl, rfl, ?_, ?_, ?_, ?_⟩
        · intro i hi
          simp [hi]
        all_goals simp [PSSNode.blank]
  | _ =>
    cases hres : createDynamicAlloc args cv .CALLOC s with
    | error e =>
      unfold createDynamicAlloc at hres
      simp [bind, mkOpNode, mkNode, newNode, setIsHeap, setZeroInitialized, setSize,
        M.modify, pure, callOperand_run hop, callOperand_run h0] at hres
    | ok p =>
      unfold createDynamicAlloc at hres
      simp [bind, mkOpNode, mkNode, newNode, setIsHeap, setZeroInitialized, setSize,
        M.modify, pure, callOperand_run hop, callOperand_run h0] at hres
      subst hres
      refine ⟨_, rfl, rfl, rfl, ?_, ?_, ?_, ?_⟩
      · intro i hi
        simp [hi]
      all_goals simp [PSSNode.blank]

/-- C21, amended: a call of `malloc` or of the function `alloca` whose operand 0 is a
constant integer `n` is lowered by `createDynamicMemAlloc` to one new node, returned as
both first and last and registered for the call instruction: a `DYN_ALLOC` that is not
zero-initialized, with `is_heap` set for `malloc` and not set for `alloca`, and of size
`n` when `n` is below the all-ones 64-bit value, of size 0 when `n` is that value or
does not fit into 64 bits.  A call of `calloc` is lowered in the same way to one new
`DYN_ALLOC` node with both `is_heap` and `zero_initialized` set.  No other node and no
other entry of the symbol table changes. -/
theorem createDynamicMemAlloc_node (CInst cv : Value) (args : List Value)
    (s : LLVMPSSBuilder) :
    (∀ type bits n, type = .MALLOC ∨ type = .ALLOCA →
      (args ++ [cv]).get? 0 = some (.const (.int bits n)) → n < 2 ^ 64 - 1 →
      ∃ s', createDynamicMemAlloc CInst args cv type s = .ok ((s.size, s.size), s') ∧
        s'.size = s.size + 1 ∧ s'.nodes_map CInst = some s.size ∧
        (∀ v, v ≠ CInst → s'.nodes_map v = s.nodes_map v) ∧
        (∀ i, i ≠ s.size → s'.node i = s.node i) ∧
        (s'.node s.size).kind = .DYN_ALLOC ∧
        ((s'.node s.size).isHeap = true ↔ type = .MALLOC) ∧
        (s'.node s.size).zeroInitialized = false ∧ (s'.node s.size).size = n) ∧
    (∀ type bits n, type = .MALLOC ∨ type = .ALLOCA →
      (args ++ [cv]).get? 0 = some (.const (.int bits n)) → 2 ^ 64 - 1 ≤ n →
      ∃ s', createDynamicMemAlloc CInst args cv type s = .ok ((s.size, s.size), s') ∧
        s'.size = s.size + 1 ∧ s'.nodes_map CInst = some s.size ∧
        (∀ v, v ≠ CInst → s'.nodes_map v = s.nodes_map v) ∧
        (∀ i, i ≠ s.size → s'.node i = s.node i) ∧
        (s'.node s.size).kind = .DYN_ALLOC ∧
        ((s'.node s.size).isHeap = true ↔ type = .MALLOC) ∧
        (s'.node s.size).zeroInitialized = false ∧ (s'.node s.size).size = 0) ∧
    (∀ v, (args ++ [cv]).get? 1 = some v →
      ∃ s', createDynamicMemAlloc CInst args cv .CALLOC s = .ok ((s.size, s.size), s') ∧
        s'.size = s.size + 1 ∧ s'.nodes_map CInst = some s.size ∧
        (∀ v, v ≠ CInst → s'.nodes_map v = s.nodes_map v) ∧
        (∀ i, i ≠ s.size → s'.node i = s.node i) ∧
        (s'.node s.size).kind = .DYN_ALLOC ∧ (s'.node s.size).isHeap = true ∧
        (s'.node s.size).zeroInitialized = true) := by
  refine ⟨?_, ?_, ?_⟩
  · intro type bits n ht hop hn
    obtain ⟨s1, h1, h2, h3, h4, h5, h6, h7, h8⟩ := createDynamicAlloc_simple ht hop hn s
    refine ⟨{ s1 with nodes_map := fun v => if v = CInst then some s.size else s1.nodes_map v },
      ?_, h2, ?_, ?_, h4, h5, ?_, h7, h8⟩
    · unfold createDynamicMemAlloc
      rw [M.bind_run h1]
      rfl
    · simp
    · intro v hv
      simp only [if_neg hv]
      rw [h3]
    · rw [h6]
      simp
  · intro type bits n ht hop hn
    obtain ⟨s1, h1, h2, h3, h4, h5, h6, h7, h8⟩ := createDynamicAlloc_wide ht hop hn s
    refine ⟨{ s1 with nodes_map := fun v => if v = CInst then some s.size else s1.nodes_map v },
      ?_, h2, ?_, ?_, h4, h5, ?_, h7, h8⟩
    · unfold createDynamicMemAlloc
      rw [M.bind_run h1]
      rfl
    · simp
    · intro v hv
      simp only [if_neg hv]
      rw [h3]
    · rw [h6]
      simp
  · intro v hop
    obtain ⟨s1, h1, h2, h3, h4, h5, h6, h7⟩ := createDynamicAlloc_calloc_flags hop s
    refine ⟨{ s1 with nodes_map := fun v => if v = CInst then some s.size else s1.nodes_map v },
      ?_, h2, ?_, ?_, h4, h5, h6, h7⟩
    · unfold createDynamicMemAlloc
      rw [M.bind_run h1]
      rfl
    · simp
    · intro v hv
      simp only [if_neg hv]
      rw [h3]

set_option maxRecDepth 100000 in
/-- C21, the claim as written fails: a call `malloc(i128 18446744073709551616)`, whose
argument `2 ^ 64` is a constant integer other than the all-ones 64-bit value
`2 ^ 64 - 1`, is lowered from the initial state to the `DYN_ALLOC` node 2 with
`is_heap` set, registered for the call, but of size 0 and not of size `2 ^ 64`:
`getLimitedValue` saturates the value to the all-ones value, which is read as unknown. -/
theorem malloc_wide_size_counterexample :
    (2 : Nat) ^ 64 ≠ 2 ^ 64 - 1 ∧
    (M.result? (createDynamicMemAlloc (.inst 0 0 0) [.const (.int 128 (2 ^ 64))]
      (.const (.func 1)) .MALLOC) LLVMPSSBuilder.init).map
      (fun r => (r.1, (r.2.node 2).kind, (r.2.node 2).isHeap, (r.2.node 2).size,
        r.2.nodes_map (.inst 0 0 0))) =
      some ((2, 2), .DYN_ALLOC, true, 0, some 2) := by
  refine ⟨by decide, by decide!⟩

/-! ## Calls of undefined functions -/

/-- C26: a call that `isRelevantCall` accepts and whose callee is a function that is no
memory-allocation function, no intrinsic and has no body has a pointer result type, so
the assertion of `createUnknownCall`, to which `createCall` dispatches it, holds; and
`createCall` returns one new node as both first and last: a `CALL` node paired with
itself whose points-to set is `PointerUnknown`, registered for the call instruction.
No other node and no other entry of the symbol table changes. -/
theorem createCall_unknown {m : Module} {ty : Ty} {cv : Value} {f : Nat}
    (hrel : isRelevantCall m ty cv = .ok true)
    (hf : (stripPointerCasts m cv).asFunction = some f)
    (hmem : getMemAllocationFunc (some (m.getFunc f)) = .ok .NONEMEM)
    (hint : (m.getFunc f).intrinsicID = none) (hbody : (m.getFunc f).blocks.length = 0)
    (build : Nat → M Nat) (Inst : Value) (F : Nat) (args : List Value) (s : LLVMPSSBuilder) :
    ty.isPointerTy = true ∧
    createCall m build Inst F ty cv args s = createUnknownCall Inst ty s ∧
    ∃ s', createCall m build Inst F ty cv args s = .ok ((s.size, s.size), s') ∧
      s'.size = s.size + 1 ∧ s'.nodes_map Inst = some s.size ∧
      (∀ v, v ≠ Inst → s'.nodes_map v = s.nodes_map v) ∧
      (∀ i, i ≠ s.size → s'.node i = s.node i) ∧
      (s'.node s.size).kind = .CALL ∧ (s'.node s.size).pairedNode = some s.size ∧
      (s'.node s.size).pointsTo = [PointerUnknown] ∧ (s'.node s.size).successors = [] ∧
      (s'.node s.size).operands = [] := by
  have hty : ty.isPointerTy = true := by
    unfold isRelevantCall at hrel
    split at hrel
    · cases hrel
    · simp only [hf, hbody, hmem, hint, if_true] at hrel
      by_cases hp : ty.isPointerTy = true
      · exact hp
      · exfalso
        simp [bind, Except.bind, pure, Except.pure, hp] at hrel
  have hcall : createCall m build Inst F ty cv args s = createUnknownCall Inst ty s := by
    unfold createCall
    simp only [hf, hmem]
    rw [M.bind_run (show M.ofExcept (Except.ok MemAllocationFuncs.NONEMEM) s =
      .ok (MemAllocationFuncs.NONEMEM, s) from rfl)]
    simp [hint, hbody]
  refine ⟨hty, hcall, ?_⟩
  rw [hcall]
  unfold createUnknownCall
  rw [hty]
  refine ⟨_, rfl, rfl, ?_, ?_, ?_, ?_, ?_, ?_, ?_, ?_⟩
  · simp
  · intro v hv
    simp [hv]
  · intro i hi
    simp [hi]
  all_goals simp [PSSNode.blank, PointerUnknown]

/-- C26 at the call `%p = call i8* @ext()` of the module `exExternal`, lowered from the
initial state. -/
theorem createCall_unknown_witness :
    (Ty.ptr 0).isPointerTy = true ∧
    createCall exExternal (buildLLVMPSSFunction exExternal 1) (.inst 0 0 0) 0 (.ptr 0)
        (.const (.func 1)) [] LLVMPSSBuilder.init =
      createUnknownCall (.inst 0 0 0) (.ptr 0) LLVMPSSBuilder.init ∧
    ∃ s', createCall exExternal (buildLLVMPSSFunction exExternal 1) (.inst 0 0 0) 0 (.ptr 0)
          (.const (.func 1)) [] LLVMPSSBuilder.init =
        .ok ((LLVMPSSBuilder.init.size, LLVMPSSBuilder.init.size), s') ∧
      s'.size = LLVMPSSBuilder.init.size + 1 ∧
      s'.nodes_map (.inst 0 0 0) = some LLVMPSSBuilder.init.size ∧
      (∀ v, v ≠ .inst 0 0 0 → s'.nodes_map v = LLVMPSSBuilder.init.nodes_map v) ∧
      (∀ i, i ≠ LLVMPSSBuilder.init.size → s'.node i = LLVMPSSBuilder.init.node i) ∧
      (s'.node LLVMPSSBuilder.init.size).kind = .CALL ∧
      (s'.node LLVMPSSBuilder.init.size).pairedNode = some LLVMPSSBuilder.init.size ∧
      (s'.node LLVMPSSBuilder.init.size).pointsTo = [PointerUnknown] ∧
      (s'.node LLVMPSSBuilder.init.size).successors = [] ∧
      (s'.node LLVMPSSBuilder.init.size).operands = [] :=
  createCall_unknown (m := exExternal) (f := 1)
    (show isRelevantCall exExternal (.ptr 0) (.const (.func 1)) = .ok true from rfl)
    rfl rfl rfl rfl _ _ _ _ _

/-! ## The offset of a constant GEP -/

/-- C28: for a constant GEP whose base operand resolves to a node with the one pointer
`(t, o)` and whose constant offset accumulates to `k`, fitting the pointer width,
`handleConstantGep` returns `(t, k)` when `o` is a known offset, whatever `o` is (the
offset of the base is replaced, not added to), and `(t, UNKNOWN_OFFSET)` when `o` is
`UNKNOWN_OFFSET`; the target is that of the base in both cases. -/
theorem handleConstantGep_replaces_offset (m : Module) (getOp : Constant → M Nat)
    (op : Constant) (k : Nat) (s s1 : LLVMPSSBuilder) (opNode t : Nat) (o : Offset)
    (h1 : getOp op s = .ok (opNode, s1)) (h2 : (s1.node opNode).pointsTo = [⟨t, o⟩])
    (hk : k < 2 ^ getPointerBitwidth m (.const op)) :
    (∀ n, o = .known n → handleConstantGep m getOp op (some k) s = .ok (⟨t, .known k⟩, s1)) ∧
    (o = UNKNOWN_OFFSET →
      handleConstantGep m getOp op (some k) s = .ok (⟨t, UNKNOWN_OFFSET⟩, s1)) := by
  have hsp : singlePointer opNode "Constant node has more that 1 pointer" s1 =
      .ok (⟨t, o⟩, s1) := by
    unfold singlePointer
    have h3 : getNodeData opNode s1 = .ok (s1.node opNode, s1) := rfl
    rw [M.bind_run h3]
    simp only [h2]
    rfl
  have hrun : handleConstantGep m getOp op (some k) s =
      .ok (if o.isUnknown then ⟨t, o⟩ else ⟨t, .known k⟩, s1) := by
    unfold handleConstantGep
    rw [M.bind_run h1, M.bind_run hsp]
    simp only
    cases o with
    | known n =>
      have : (decide (k < 2 ^ getPointerBitwidth m (.const op)) &&
          !(Offset.known n).isUnknown) = true := by
        simp [hk, Offset.isUnknown]
      rw [this]
      rfl
    | unknown =>
      have : (decide (k < 2 ^ getPointerBitwidth m (.const op)) &&
          !Offset.unknown.isUnknown) = false := by
        simp [Offset.isUnknown]
      rw [this]
      rfl
  constructor
  · intro n hn
    subst hn
    rw [hrun]
    rfl
  · intro ho
    rw [hrun, ho]
    rfl

set_option maxRecDepth 100000 in
theorem exGepBase_runs :
    (M.result? (getOperand exRecursive (.const (.gep (.func 0) (some 4) false false)))
      LLVMPSSBuilder.init).isSome = true := by decide!

set_option maxRecDepth 100000 in
theorem exGepBase_eval :
    exGepBase.1 = 3 ∧ (exGepBase.2.node 3).pointsTo = [⟨2, .known 4⟩] := by
  refine ⟨by decide!, by decide!⟩

/-- C28 at a constant GEP of accumulated offset 8 whose base is the constant GEP of
accumulated offset 4 on the function `main` of the module `exRecursive`: the base
resolves to node 3, which points to node 2 at offset 4, and the result is node 2 at
offset 8, not 12. -/
theorem handleConstantGep_replaces_offset_witness :
    (∀ n, Offset.known 4 = .known n →
      handleConstantGep exRecursive (fun c => getOperand exRecursive (.const c))
        (.gep (.func 0) (some 4) false false) (some 8) LLVMPSSBuilder.init =
        .ok (⟨2, .known 8⟩, exGepBase.2)) ∧
    (Offset.known 4 = UNKNOWN_OFFSET →
      handleConstantGep exRecursive (fun c => getOperand exRecursive (.const c))
        (.gep (.func 0) (some 4) false false) (some 8) LLVMPSSBuilder.init =
        .ok (⟨2, UNKNOWN_OFFSET⟩, exGepBase.2)) :=
  handleConstantGep_replaces_offset exRecursive (fun c => getOperand exRecursive (.const c))
    (.gep (.func 0) (some 4) false false) 8 LLVMPSSBuilder.init exGepBase.2 3 2 (.known 4)
    (by
      have h := M.result_eq exGepBase_runs (0, LLVMPSSBuilder.init)
      have e : exGepBase.1 = 3 := exGepBase_eval.1
      unfold exGepBase at e
      rw [e] at h
      exact h)
    exGepBase_eval.2 (by decide)

/-! ## The edges that `blockAddSuccessors` adds -/

/-- Two consecutive steps of the stitching compose: the blocks put into `found_blocks`
are those of the first step followed by those of the second, and so are the edges the
last node has got. -/
theorem stitchEdges_trans {F z : Nat} {f0 f1 f2 : List Nat} {s0 s1 s2 : LLVMPSSBuilder}
    {k1 k2 : Nat}
    (h1 : ∃ new, f1 = new ++ f0 ∧ s1.built_blocks = s0.built_blocks ∧
      (s1.node z).successors = (s0.node z).successors ++
        new.reverse.filterMap (fun S => (s0.built_blocks (F, S)).1) ∧
      k1 = (new.reverse.filterMap fun S => (s0.built_blocks (F, S)).1).length)
    (h2 : ∃ new, f2 = new ++ f1 ∧ s2.built_blocks = s1.built_blocks ∧
      (s2.node z).successors = (s1.node z).successors ++
        new.reverse.filterMap (fun S => (s1.built_blocks (F, S)).1) ∧
      k2 = (new.reverse.filterMap fun S => (s1.built_blocks (F, S)).1).length) :
    ∃ new, f2 = new ++ f0 ∧ s2.built_blocks = s0.built_blocks ∧
      (s2.node z).successors = (s0.node z).successors ++
        new.reverse.filterMap (fun S => (s0.built_blocks (F, S)).1) ∧
      k1 + k2 = (new.reverse.filterMap fun S => (s0.built_blocks (F, S)).1).length := by
  obtain ⟨n1, a1, b1, c1, d1⟩ := h1
  obtain ⟨n2, a2, b2, c2, d2⟩ := h2
  rw [b1] at c2 d2
  refine ⟨n2 ++ n1, ?_, ?_, ?_, ?_⟩
  · rw [a2, a1, List.append_assoc]
  · rw [b2, b1]
  · rw [c2, c1, List.reverse_append, List.filterMap_append, List.append_assoc]
  · rw [List.reverse_append, List.filterMap_append, List.length_append, d1, d2]

theorem blockAddSuccessorsLoop_edges {F z : Nat}
    {recurse : Nat → List Nat → M (Nat × List Nat)}
    (hrec : ∀ (S : Nat) (found : List Nat) (s s' : LLVMPSSBuilder) (r : Nat × List Nat),
      recurse S found s = .ok (r, s') →
      ∃ new, r.2 = new ++ found ∧ s'.built_blocks = s.built_blocks ∧
        (s'.node z).successors = (s.node z).successors ++
          new.reverse.filterMap (fun S => (s.built_blocks (F, S)).1) ∧
        r.1 = (new.reverse.filterMap fun S => (s.built_blocks (F, S)).1).length) :
    ∀ (list found : List Nat) (num : Nat) (s s' : LLVMPSSBuilder) (r : Nat × List Nat),
      blockAddSuccessorsLoop recurse F z list found num s = .ok (r, s') →
      ∃ k, r.1 = num + k ∧ ∃ new, r.2 = new ++ found ∧ s'.built_blocks = s.built_blocks ∧
        (s'.node z).successors = (s.node z).successors ++
          new.reverse.filterMap (fun S => (s.built_blocks (F, S)).1) ∧
        k = (new.reverse.filterMap fun S => (s.built_blocks (F, S)).1).length := by
  intro list
  induction list with
  | nil =>
    intro found num s s' r h
    unfold blockAddSuccessorsLoop at h
    obtain ⟨rfl, rfl⟩ := (M.pure_ok _ _ _ _).mp h
    exact ⟨0, rfl, [], rfl, rfl, by simp, rfl⟩
  | cons S rest ih =>
    intro found num s s' r h
    unfold blockAddSuccessorsLoop at h
    by_cases hS : S ∈ found
    · rw [if_pos hS] at h
      exact ih found num s s' r h
    · rw [if_neg hS] at h
      simp only [M.bind_ok, M.get_ok, M.assert_ok] at h
      obtain ⟨s0, t0, ⟨rfl, rfl⟩, u, t1, ⟨-, rfl⟩, h⟩ := h
      cases hf : (s.built_blocks (F, S)).1 with
      | none =>
        rw [hf] at h
        simp only [M.bind_ok] at h
        obtain ⟨r1, s1, h1, h2⟩ := h
        obtain ⟨n1, a1, b1, c1, d1⟩ := hrec S (S :: found) s s1 r1 h1
        obtain ⟨k, e1, g⟩ := ih r1.2 (num + r1.1) s1 s' r h2
        have step1 : ∃ new, r1.2 = new ++ found ∧ s1.built_blocks = s.built_blocks ∧
            (s1.node z).successors = (s.node z).successors ++
              new.reverse.filterMap (fun S => (s.built_blocks (F, S)).1) ∧
            r1.1 = (new.reverse.filterMap fun S => (s.built_blocks (F, S)).1).length := by
          refine ⟨n1 ++ [S], ?_, b1, ?_, ?_⟩
          · rw [a1, List.append_assoc]
            rfl
          · rw [c1, List.reverse_append, List.filterMap_append]
            simp [hf]
          · rw [d1, List.reverse_append, List.filterMap_append]
            simp [hf]
        refine ⟨r1.1 + k, by rw [e1, Nat.add_assoc], stitchEdges_trans step1 g⟩
      | some f =>
        rw [hf] at h
        simp only [M.bind_ok, addSuccessor_ok] at h
        obtain ⟨u1, s1, h1, h2⟩ := h
        subst h1
        obtain ⟨k, e1, g⟩ := ih (S :: found) (num + 1) _ s' r h2
        have step1 : ∃ new, S :: found = new ++ found ∧
            (s.update z fun x => { x with successors := x.successors ++ [f] }).built_blocks =
              s.built_blocks ∧
            ((s.update z fun x => { x with successors := x.successors ++ [f] }).node
              z).successors = (s.node z).successors ++
              new.reverse.filterMap (fun S => (s.built_blocks (F, S)).1) ∧
            1 = (new.reverse.filterMap fun S => (s.built_blocks (F, S)).1).length := by
          refine ⟨[S], rfl, rfl, ?_, ?_⟩
          · simp [hf]
          · simp [hf]
        refine ⟨1 + k, by rw [e1, Nat.add_assoc], stitchEdges_trans step1 g⟩

theorem blockAddSuccessors_edges {m : Module} {F z : Nat} :
    ∀ (fuel block : Nat) (found : List Nat) (s s' : LLVMPSSBuilder) (r : Nat × List Nat),
      blockAddSuccessors m F z fuel block found s = .ok (r, s') →
      ∃ new, r.2 = new ++ found ∧ s'.built_blocks = s.built_blocks ∧
        (s'.node z).successors = (s.node z).successors ++
          new.reverse.filterMap (fun S => (s.built_blocks (F, S)).1) ∧
        r.1 = (new.reverse.filterMap fun S => (s.built_blocks (F, S)).1).length := by
  intro fuel
  induction fuel with
  | zero =>
    intro block found s s' r h
    unfold blockAddSuccessors at h
    exact ((M.fail_ok _ _ _ _).mp h).elim
  | succ fuel ih =>
    intro block found s s' r h
    unfold blockAddSuccessors at h
    obtain ⟨k, e1, g⟩ := blockAddSuccessorsLoop_edges (fun S fd t t' r' hr => ih S fd t t' r' hr)
      _ found 0 s s' r h
    rw [Nat.zero_add] at e1
    rw [e1]
    exact g

/-- C29: `blockAddSuccessors`, started for a block `B` with empty `found_blocks` in a
state whose table of built blocks has for every block both nodes or neither, returns,
on every control-flow graph: the bound of the model on the descent through blocks
without nodes is not hit.  The blocks in the `found_blocks` it returns are without
repetition and are exactly the blocks reached from `B` through blocks without nodes.
The last node `z` gets, appended to its successors, the first node of each of these
blocks that has one, one edge for each such block in the order in which the blocks were
found, and the count returned is the number of these edges; no other node changes. -/
theorem blockAddSuccessors_terminates {m : Module} {F z B : Nat} {s : LLVMPSSBuilder}
    (hcons : ∀ b, (s.built_blocks (F, b)).1.isSome = (s.built_blocks (F, b)).2.isSome) :
    ∃ num found' s',
      blockAddSuccessors m F z (stitchFuel m F) B [] s = .ok ((num, found'), s') ∧
      found'.Nodup ∧ (∀ S, S ∈ found' ↔ StitchReach m s.built_blocks F B S) ∧
      s'.size = s.size ∧ (∀ i, i ≠ z → s'.node i = s.node i) ∧
      (s'.node z).successors = (s.node z).successors ++
        found'.reverse.filterMap (fun S => (s.built_blocks (F, S)).1) ∧
      num = (found'.reverse.filterMap fun S => (s.built_blocks (F, S)).1).length := by
  obtain ⟨num, found', s', g1, g2, g3, g4⟩ :=
    blockAddSuccessors_spec (m := m) (F := F) (z := z) (stitchFuel m F) B [] s
      List.nodup_nil (fun x hx => by cases hx) (entries_lt_stitchFuel m F) hcons
  have hcomplete : ∀ A S, StitchReach m s.built_blocks F A S →
      (A = B ∨ (A ∈ found' ∧ (s.built_blocks (F, A)).1 = none)) → S ∈ found' := by
    intro A S hr
    induction hr with
    | edge hS =>
      rename_i A' S'
      rintro (rfl | ⟨h1, h2⟩)
      · exact g3 _ hS
      · exact g2.closed _ h1 (by simp) h2 _ hS
    | through hE hEn _ ih =>
      rename_i A' E' S'
      intro hA
      apply ih
      right
      refine ⟨?_, hEn⟩
      rcases hA with rfl | ⟨h1, h2⟩
      · exact g3 _ hE
      · exact g2.closed _ h1 (by simp) h2 _ hE
  obtain ⟨new, a1, -, c1, d1⟩ := blockAddSuccessors_edges _ _ _ _ _ _ g1
  rw [List.append_nil] at a1
  have a1' : found' = new := a1
  subst a1'
  refine ⟨num, found', s', g1, g2.nodup, ?_, g2.size_eq, g2.other, c1, d1⟩
  intro S
  exact ⟨fun h => g4 S h (by simp), fun h => hcomplete B S h (Or.inl rfl)⟩

set_option maxRecDepth 100000 in
/-- C29 at the entry block of `main` of the module `exSpin`, whose successor `loop` is a
block without nodes that is its own successor, in the state the build ends in. -/
theorem blockAddSuccessors_terminates_witness :
    ∃ num found' s',
      blockAddSuccessors exSpin 0 2 (stitchFuel exSpin 0) 0 [] (endState exSpin 1) =
        .ok ((num, found'), s') ∧
      found'.Nodup ∧
      (∀ S, S ∈ found' ↔ StitchReach exSpin (endState exSpin 1).built_blocks 0 0 S) ∧
      s'.size = (endState exSpin 1).size ∧
      (∀ i, i ≠ 2 → s'.node i = (endState exSpin 1).node i) ∧
      (s'.node 2).successors = ((endState exSpin 1).node 2).successors ++
        found'.reverse.filterMap (fun S => ((endState exSpin 1).built_blocks (0, S)).1) ∧
      num = (found'.reverse.filterMap fun S =>
        ((endState exSpin 1).built_blocks (0, S)).1).length :=
  blockAddSuccessors_terminates
    (fun b => (buildLLVMPSS_wf (build_eq_end (by decide!))).blocks_cons 0 b)

/-! ## The order of lowering and registering a constant expression -/

theorem Constant.depth_strip_lt (op : Constant) (ty : Ty) (l : Bool)
    (h : (Constant.bitCast op ty l).stripPointerCasts ≠ .bitCast op ty l) :
    (Constant.bitCast op ty l).stripPointerCasts.depth < (Constant.bitCast op ty l).depth := by
  unfold Constant.stripPointerCasts at h ⊢
  split
  · have := Constant.depth_stripPointerCasts op
    simp only [Constant.depth]
    omega
  · rename_i hty
    rw [if_neg hty] at h
    exact absurd rfl h

theorem getConstantExprPointer_congr (m : Module) {g1 g2 : Constant → M Nat} {CE : Constant}
    (h : ∀ c, c.depth < CE.depth → g1 c = g2 c) :
    getConstantExprPointer m g1 CE = getConstantExprPointer m g2 CE := by
  cases CE with
  | gep base acc z ib =>
    unfold getConstantExprPointer
    simp only
    unfold handleConstantGep
    rw [h base (by simp [Constant.depth])]
  | bitCast op ty l =>
    unfold getConstantExprPointer
    simp only
    unfold handleConstantBitCast
    by_cases hl : (!l) = true
    · rw [if_pos hl, if_pos hl]
    · rw [if_neg hl, if_neg hl]
      by_cases hs : (Constant.bitCast op ty l).stripPointerCasts = .bitCast op ty l
      · rw [if_pos hs, if_pos hs]
      · rw [if_neg hs, if_neg hs, h _ (Constant.depth_strip_lt op ty l hs)]
  | _ => rfl

theorem getConstant_congr (m : Module) {g1 g2 : Constant → M Nat} {val : Value}
    (h : ∀ c, c.depth < val.depth → g1 c = g2 c) :
    getConstant m g1 val = getConstant m g2 val := by
  cases val with
  | const c =>
    have hc : createConstantExpr m g1 c = createConstantExpr m g2 c := by
      unfold createConstantExpr
      rw [getConstantExprPointer_congr m h]
    cases c with
    | nullPtr a => rfl
    | func f => rfl
    | global g =>
      unfold getConstant
      simp only [hc]
    | int b v =>
      unfold getConstant
      simp only [hc]
    | gep base acc z ib =>
      unfold getConstant
      simp only [hc]
    | bitCast op ty l =>
      unfold getConstant
      simp only [hc]
    | intToPtr op =>
      unfold getConstant
      simp only [hc]
    | exprOther i ty =>
      unfold getConstant
      simp only [hc]
    | other i ty =>
      unfold getConstant
      simp only [hc]
  | _ => rfl

/-- With enough levels for the nesting of the value, `getOperandAux` is `getOperand`. -/
theorem getOperandAux_fuel (m : Module) :
    ∀ (fuel : Nat) (val : Value), val.depth < fuel → getOperandAux m fuel val = getOperand m val := by
  intro fuel
  induction fuel using Nat.strong_induction_on with
  | _ fuel ih =>
    intro val hv
    cases fuel with
    | zero => omega
    | succ fuel =>
      unfold getOperand
      unfold getOperandAux
      have hg : getConstant m (fun c => getOperandAux m fuel (.const c)) val =
          getConstant m (fun c => getOperandAux m val.depth (.const c)) val := by
        refine getConstant_congr m ?_
        intro c hc
        show getOperandAux m fuel (.const c) = getOperandAux m val.depth (.const c)
        rw [ih fuel (Nat.lt_succ_self _) (.const c) (by show c.depth < fuel; omega),
          ih val.depth (by omega) (.const c) (by show c.depth < val.depth; exact hc)]
      rw [hg]

theorem getConstant_expr (m : Module) (g : Constant → M Nat) {CE : Constant}
    (hce : CE.isConstantExpr = true) :
    getConstant m g (.const CE) = createConstantExpr m g CE := by
  cases CE with
  | gep base acc z ib =>
    unfold getConstant
    simp only [hce, if_true]
  | bitCast op ty l =>
    unfold getConstant
    simp only [hce, if_true]
  | intToPtr op =>
    unfold getConstant
    simp only [hce, if_true]
  | exprOther i ty =>
    unfold getConstant
    simp only [hce, if_true]
  | _ => cases hce

/-- C24, amended: when `getOperand` lowers a constant expression `CE` that has no node,
it first resolves the operand of `CE`: `getConstantExprPointer` runs in the state in
which `CE` has no node, it changes the state through at most one call of `getOperand`,
for a constant nested strictly less deep than `CE`, and `CE` still has no node when it
is done.  Only then is the `CONSTANT` node made, as the next node, and registered for
`CE`.  The lowering of constants terminates because every recursive call is for a
constant nested strictly less deep: `getOperand` never uses up the bound of the
model. -/
theorem constant_expr_registered_after_operands {m : Module} {CE : Constant} {r : Nat}
    {s s' : LLVMPSSBuilder} (hce : CE.isConstantExpr = true)
    (hun : s.nodes_map (.const CE) = none)
    (h : getOperand m (.const CE) s = .ok (r, s')) :
    (∃ ptr s1,
      getConstantExprPointer m (fun c => getOperand m (.const c)) CE s = .ok (ptr, s1) ∧
      (s1 = s ∨ ∃ c k, c.depth < CE.depth ∧ getOperand m (.const c) s = .ok (k, s1)) ∧
      s1.nodes_map (.const CE) = none ∧
      r = s1.size ∧ s'.size = s1.size + 1 ∧ (∀ i, i < s1.size → s'.node i = s1.node i) ∧
      (s'.node r).kind = .CONSTANT ∧ (s'.node r).pointsTo = [ptr] ∧
      s'.nodes_map (.const CE) = some r ∧
      ∀ v, v ≠ .const CE → s'.nodes_map v = s1.nodes_map v) ∧
    ∀ (v : Value) (t : LLVMPSSBuilder), getOperand m v t ≠ .error .outOfFuel := by
  refine ⟨?_, fun v t => (getOperand_nofuel m v).never t⟩
  have hg : getConstant m (fun c => getOperandAux m CE.depth (.const c)) (.const CE) =
      createConstantExpr m (fun c => getOperand m (.const c)) CE := by
    rw [← getConstant_expr m _ hce]
    refine getConstant_congr m ?_
    intro c hc
    exact getOperandAux_fuel m CE.depth (.const c) hc
  unfold getOperand getOperandAux at h
  simp only [Value.depth] at h
  rw [M.bind_run (show getNode (.const CE) s = .ok (s.nodes_map (.const CE), s) from rfl),
    hun] at h
  simp only [M.bind_ok] at h
  obtain ⟨op, s2, h1, x, s3, h3, h4⟩ := h
  rw [hg] at h1
  unfold createConstantExpr at h1
  simp only [M.bind_ok, M.pure_ok] at h1
  obtain ⟨ptr, s1, k1, node, t2, k2, u, t3, k3, rfl, rfl⟩ := h1
  unfold mkConstant at k2
  rw [newNode_ok] at k2
  obtain ⟨rfl, rfl⟩ := k2
  unfold addNode at k3
  rw [M.modify_ok] at k3
  subst k3
  rw [getNodeData_ok] at h3
  obtain ⟨rfl, rfl⟩ := h3
  have hk : ¬ ((({ (s1.push { PSSNode.blank .CONSTANT with
      offset := ptr.offset, pointsTo := [⟨ptr.target, ptr.offset⟩] }) with
      nodes_map := fun v => if v = .const CE then some s1.size
        else (s1.push { PSSNode.blank .CONSTANT with
          offset := ptr.offset, pointsTo := [⟨ptr.target, ptr.offset⟩] }).nodes_map v } :
        LLVMPSSBuilder).node s1.size).kind = .CALL ∨
      (({ (s1.push { PSSNode.blank .CONSTANT with
      offset := ptr.offset, pointsTo := [⟨ptr.target, ptr.offset⟩] }) with
      nodes_map := fun v => if v = .const CE then some s1.size
        else (s1.push { PSSNode.blank .CONSTANT with
          offset := ptr.offset, pointsTo := [⟨ptr.target, ptr.offset⟩] }).nodes_map v } :
        LLVMPSSBuilder).node s1.size).kind = .CALL_FUNCPTR) := by
    simp [PSSNode.blank]
  rw [if_neg hk] at h4
  simp only [M.bind_ok, M.pure_ok] at h4
  obtain ⟨o, t4, ⟨rfl, rfl⟩, h5⟩ := h4
  simp only [M.pure_ok] at h5
  obtain ⟨rfl, rfl⟩ := h5
  have hstep : s1 = s ∨ ∃ c k, c.depth < CE.depth ∧ getOperand m (.const c) s = .ok (k, s1) := by
    rcases getConstantExprPointer_quiet k1 with e | ⟨c, k, hc, hk⟩
    · exact Or.inl e.symm
    · exact Or.inr ⟨c, k, hc, hk⟩
  have hun1 : s1.nodes_map (.const CE) = none := by
    rcases hstep with e | ⟨c, k, hc, hk⟩
    · rw [e]
      exact hun
    · rw [(getOperand_quiet hk).1.2 CE hc]
      exact hun
  refine ⟨ptr, s1, k1, hstep, hun1, rfl, rfl, ?_, ?_, ?_, ?_, ?_⟩
  · intro i hi
    have : i ≠ s1.size := ne_of_lt hi
    simp [this]
  · simp [PSSNode.blank]
  · simp [PSSNode.blank]
  · simp
  · intro v hv
    simp [hv]

set_option maxRecDepth 100000 in
theorem exBitCast_runs :
    (M.result? (getOperand exRecursive (.const (.bitCast (.func 0) (.ptr 0) true)))
      LLVMPSSBuilder.init).isSome = true := by decide!

/-- C24, amended, at the constant expression `bitcast (void ()* @main to i8*)` of the
module `exRecursive`, lowered from the initial state. -/
theorem constant_expr_registered_after_operands_witness :
    (∃ ptr s1,
      getConstantExprPointer exRecursive (fun c => getOperand exRecursive (.const c))
        (.bitCast (.func 0) (.ptr 0) true) LLVMPSSBuilder.init = .ok (ptr, s1) ∧
      (s1 = LLVMPSSBuilder.init ∨ ∃ c k,
        c.depth < (Constant.bitCast (.func 0) (.ptr 0) true).depth ∧
        getOperand exRecursive (.const c) LLVMPSSBuilder.init = .ok (k, s1)) ∧
      s1.nodes_map (.const (.bitCast (.func 0) (.ptr 0) true)) = none ∧
      exBitCast.1 = s1.size ∧ exBitCast.2.size = s1.size + 1 ∧
      (∀ i, i < s1.size → exBitCast.2.node i = s1.node i) ∧
      (exBitCast.2.node exBitCast.1).kind = .CONSTANT ∧
      (exBitCast.2.node exBitCast.1).pointsTo = [ptr] ∧
      exBitCast.2.nodes_map (.const (.bitCast (.func 0) (.ptr 0) true)) = some exBitCast.1 ∧
      ∀ v, v ≠ .const (.bitCast (.func 0) (.ptr 0) true) →
        exBitCast.2.nodes_map v = s1.nodes_map v) ∧
    ∀ (v : Value) (t : LLVMPSSBuilder), getOperand exRecursive v t ≠ .error .outOfFuel :=
  constant_expr_registered_after_operands rfl rfl (M.result_eq exBitCast_runs _)

set_option maxRecDepth 100000 in
/-- C24, the claim as written fails: in the module `exRecursive`, from the initial
state, in which neither the constant expression `bitcast (void ()* @main to i8*)` nor
`main` has a node, `getOperand` for the expression returns node 3.  Its operand `main`
is resolved first, to the new `FUNCTION` node 2, and in the state in which that is done
the expression has no node and node 3 does not exist yet: the `CONSTANT` node 3 is made
and registered for the expression only afterwards. -/
theorem constant_expr_registration_counterexample :
    LLVMPSSBuilder.init.nodes_map (.const (.bitCast (.func 0) (.ptr 0) true)) = none ∧
    (M.result? (getOperand exRecursive (.const (.func 0))) LLVMPSSBuilder.init).map
      (fun r => (r.1, r.2.size, r.2.nodes_map (.const (.func 0)),
        r.2.nodes_map (.const (.bitCast (.func 0) (.ptr 0) true)))) =
      some (2, 3, some 2, none) ∧
    (M.result? (getConstantExprPointer exRecursive
      (fun c => getOperand exRecursive (.const c)) (.bitCast (.func 0) (.ptr 0) true))
      LLVMPSSBuilder.init).map
      (fun r => (r.1, r.2.size, r.2.nodes_map (.const (.func 0)),
        r.2.nodes_map (.const (.bitCast (.func 0) (.ptr 0) true)))) =
      some (⟨2, .known 0⟩, 3, some 2, none) ∧
    exBitCast.1 = 3 ∧ exBitCast.2.size = 4 ∧
    exBitCast.2.nodes_map (.const (.bitCast (.func 0) (.ptr 0) true)) = some 3 ∧
    ((exBitCast.2.node 2).kind, (exBitCast.2.node 3).kind, (exBitCast.2.node 3).pointsTo) =
      (.FUNCTION, .CONSTANT, [⟨2, .known 0⟩]) := by
  refine ⟨rfl, by decide!, by decide!, by decide!, by decide!, by decide!, by decide!⟩

/-! ## Aggregate initializers -/

set_option maxRecDepth 100000 in
/-- The run of `exAggregateEnd`: the pointer elements are `@h` at offset 0 and the
bitcast of `@main` at offset 16; the nodes made are `CONSTANT` 4 and `STORE` 5 for the
first, `FUNCTION` 6 and `CONSTANT` 7 for the operand of the second, `CONSTANT` 8 and
`STORE` 9 for the second; the chain is 2, 5, 9, 3. -/
theorem exAggregateEnd_eval :
    aggregatePointerElems exAggregate [] [.global 1, .int 32 0, .bitCast (.func 0) (.ptr 0) true]
      = [(.global 1, 0), (.bitCast (.func 0) (.ptr 0) true, 16)] ∧
    exAggregateStart.size = 4 ∧ (exAggregateStart.node 2).successors = [3] ∧
    exAggregateEnd.1 = 9 ∧ exAggregateEnd.2.size = 10 ∧
    (exAggregateEnd.2.node 4).pointsTo = [⟨2, .known 0⟩] ∧
    (exAggregateEnd.2.node 5).operands = [some 3, some 4] ∧
    (exAggregateEnd.2.node 8).pointsTo = [⟨2, .known 16⟩] ∧
    (exAggregateEnd.2.node 9).operands = [some 7, some 8] ∧
    (exAggregateEnd.2.node 2).successors = [5] ∧
    (exAggregateEnd.2.node 5).successors = [9] ∧
    (exAggregateEnd.2.node 9).successors = [3] := by
  refine ⟨by decide!, by decide!, by decide!, by decide!, by decide!, by decide!, by decide!,
    by decide!, by decide!, by decide!, by decide!, by decide!⟩

theorem M.bind_assoc {α β γ : Type} (x : M α) (f : α → M β) (g : β → M γ) :
    (x >>= f) >>= g = x >>= fun a => f a >>= g := by
  funext s
  show (match (match x s with
      | .ok (a, s') => f a s'
      | .error e => .error e) with
    | .ok (b, s') => g b s'
    | .error e => .error e) = (match x s with
    | .ok (a, s') => (f a >>= g) s'
    | .error e => .error e)
  cases x s with
  | error e => rfl
  | ok p => rfl

/-- The build of a function is `buildLLVMPSSRets` followed by the assertion on `rets`,
the return edges and the operands of the PHI nodes. -/
theorem buildLLVMPSSBody_rets (m : Module) (build : Nat → M Nat) (F : Nat)
    (t : LLVMPSSBuilder) :
    buildLLVMPSSBody m build F t = (buildLLVMPSSRets m build F >>= fun r => do
      M.assert (!r.2.2.isEmpty) "BUG: Did not find any return node in function"
      addReturnEdges r.2.1 r.2.2
      addPHIOperandsFunction m F
      pure r.1) t := by
  unfold buildLLVMPSSBody buildLLVMPSSRets
  simp only [M.bind_assoc]
  refine M.bind_congr_at (fun root s1 _ => ?_)
  refine M.bind_congr_at (fun ret s2 _ => ?_)
  refine M.bind_congr_at (fun args s3 _ => ?_)
  refine M.bind_congr_at (fun u4 s4 _ => ?_)
  refine M.bind_congr_at (fun lastNode s5 _ => ?_)
  cases lastNode with
  | none => rfl
  | some l =>
    simp only [M.bind_assoc]
    refine M.bind_congr_at (fun u6 s6 _ => ?_)
    refine M.bind_congr_at (fun rets s7 _ => ?_)
    rfl

/-- A block without IR successors gets no edge from the stitching, whatever has been
built. -/
theorem blockAddSuccessors_leaf {m : Module} {F z b : Nat} (hsucc : (m.getBlock F b).succs = [])
    (found : List Nat) (t : LLVMPSSBuilder) :
    blockAddSuccessors m F z (stitchFuel m F) b found t = .ok ((0, found), t) := by
  unfold stitchFuel blockAddSuccessors
  rw [hsucc]
  unfold blockAddSuccessorsLoop
  rfl

/-- C25: the build of a function `F` is `buildLLVMPSSRets` followed by the assertion
that `rets` is not empty (and the return edges and PHI operands).  If `F` has a `ret`
instruction, which ends a block that has no IR successor, then whenever
`buildLLVMPSSRets` returns, from a state that satisfies the invariants of the build and
in which `F` is not registered, `rets` is not empty: the `ret` has a node, a `RETURN`,
which is recorded as the last node of its block and is in `rets`; and the stitching of
that block adds no successor, whatever the state.  So the assertion does not fail. -/
theorem ret_block_is_collected {m : Module} {fuel : Nat}
    {Pend : Nat → Option ((Nat × Nat) × (Nat × Nat))} {P : Nat → Prop} {F b i : Nat}
    {rv : Option Value} {s : LLVMPSSBuilder}
    (hwf : WF P s) (hpw : PW m Pend s) (haw : AW m s) (hrw : RW m Pend s)
    (hF : (s.subgraphs_map F).root = none)
    (hI : m.getInst F b i = some (.ret rv)) (hlast : i + 1 = (m.getBlock F b).insts.length)
    (hsucc : (m.getBlock F b).succs = []) :
    (∀ t, buildLLVMPSSFunction m (fuel + 1) F t =
      (buildLLVMPSSRets m (buildLLVMPSSFunction m fuel) F >>= fun r => do
        M.assert (!r.2.2.isEmpty) "BUG: Did not find any return node in function"
        addReturnEdges r.2.1 r.2.2
        addPHIOperandsFunction m F
        pure r.1) t) ∧
    ∀ res s', buildLLVMPSSRets m (buildLLVMPSSFunction m fuel) F s = .ok (res, s') →
      (!res.2.2.isEmpty) = true ∧
      ∃ n, n ∈ res.2.2 ∧ s'.nodes_map (.inst F b i) = some n ∧ (s'.node n).kind = .RETURN ∧
        (s'.built_blocks (F, b)).2 = some n ∧
        ∀ found t, blockAddSuccessors m F n (stitchFuel m F) b found t = .ok ((0, found), t) := by
  refine ⟨fun t => ?_, ?_⟩
  · show buildLLVMPSSBody m (buildLLVMPSSFunction m fuel) F t = _
    exact buildLLVMPSSBody_rets m _ F t
  intro res s' h
  have hb := buildLLVMPSSFunction_wf m fuel
  have hbp := buildLLVMPSSFunction_pw m fuel
  unfold buildLLVMPSSRets at h
  simp only [M.bind_ok] at h
  obtain ⟨root, s1, h1, ret, s2, h2, args, s3, h3, u4, s4, h4, lastNode, s5, h5, h⟩ := h
  obtain ⟨i3, ha3⟩ := buildArguments_inert h3
  obtain ⟨w4, e4, hroot4, hex4, hreg4⟩ := registerSubgraph_wf hwf hF h1 h2 i3 h4
  have k5 : Inert s4 s5 ∧ ∀ l, lastNode = some l → Exit s5 l := by
    cases ha : args.1 with
    | none =>
      simp only [ha] at h5
      obtain ⟨rfl, rfl⟩ := (M.pure_ok _ _ _ _).mp h5
      refine ⟨Inert.rfl_inert _, fun l hl => ?_⟩
      cases hl
      exact hroot4
    | some a =>
      simp only [ha, M.bind_ok, M.pure_ok] at h5
      obtain ⟨u, t1, k1, rfl, rfl⟩ := h5
      have i1 := addSuccessor_inert hroot4 k1
      exact ⟨i1, fun l hl => (hex4 l (ha3 l hl)).mono_inert i1⟩
  obtain ⟨i5, hlast5⟩ := k5
  obtain ⟨⟨p5, a5, r5, f5⟩, hrs, hroot5, hret5, l, hl, hlastN⟩ :=
    registerSubgraph_inv hwf hpw haw hrw hF h1 h2 h3 h4 h5
  subst hl
  have w5 := w4.step_inert i5
  simp only [M.bind_ok, M.pure_ok] at h
  obtain ⟨u6, s6, h6, rets, s7, h7, rfl, rfl⟩ := h
  obtain ⟨⟨p6, a6, r6⟩, w6, e6, -, -, -⟩ := buildBlocksLoop_inv hb hbp (m.getFunc F).blocks
    _ 0 none u6 s5 s6 w5 p5 a5 r5 hroot5 (Function.update_same _ _ _)
    (hroot4.mono_inert i5) (hlast5 l rfl) (by
      rcases hlastN with hlastN | ⟨g1, g2, g3⟩
      · exact Or.inl hlastN
      · exact Or.inr ⟨g1, g2, fun _ => g3⟩) h6
  rw [Function.update_idem, Nat.zero_add] at p6 r6
  have hrn : (s5.subgraphs_map F).root ≠ none := by
    rw [hroot5]
    exact fun hc => by cases hc
  have hroot6 : (s6.subgraphs_map F).root ≠ none := by
    rw [e6.subg_eq F hrn]
    exact hrn
  have hblt := getInst_block_lt hI
  obtain ⟨n, hn1, hn2, hn3⟩ := r6.rets F b i rv hroot6 hI hlast (by
    intro p q hpq
    rw [Function.update_same] at hpq
    cases hpq
    exact hblt)
  obtain ⟨⟨w7, p7, a7, r7, f7⟩, i7, hex7, hrets7⟩ := stitchBlocksLoop_inv w6 p6 a6 r6 h7
  have hq7 := (stitchBlocksLoop_quiets (fun _ => False) (.const (.nullPtr 0)) m F _ 0 []).keeps
    _ _ _ h7
  have hlt6 : n < s6.size := p6.map_lt _ _ hn1
  have hmem : n ∈ rets := by
    rw [hrets7]
    refine ⟨b, hblt, ?_, ?_, ?_⟩
    · rw [i7.blocks_eq]
      have hc := w6.blocks_cons F b
      rw [hn2] at hc
      intro hx
      rw [hx] at hc
      cases hc
    · rw [i7.blocks_eq]
      exact hn2
    · intro S hS
      cases hS with
      | edge hm =>
        rw [hsucc] at hm
        cases hm
      | through hm _ _ =>
        rw [hsucc] at hm
        cases hm
  refine ⟨?_, n, hmem, ?_, ?_, ?_, fun found t => blockAddSuccessors_leaf hsucc found t⟩
  · cases rets with
    | nil => cases hmem
    | cons _ _ => rfl
  · rw [hq7.map_eq (.inst F b i) (fun hc => by cases hc) rfl]
    exact hn1
  · rw [i7.kind_eq n hlt6]
    exact hn3
  · rw [i7.blocks_eq]
    exact hn2

set_option maxRecDepth 100000 in
theorem exRecursiveRets_runs :
    (M.result? (buildLLVMPSSRets exRecursive (buildLLVMPSSFunction exRecursive 1) 0)
      LLVMPSSBuilder.init).isSome = true := by decide!

set_option maxRecDepth 100000 in
/-- The run of `exRecursiveRets`: root 2, `ret` node 3, and `rets` holds node 13, the
`RETURN` of the `ret` of `main`. -/
theorem exRecursiveRets_eval :
    exRecursiveRets.1 = (2, 3, [13]) ∧
    exRecursiveRets.2.nodes_map (.inst 0 0 2) = some 13 ∧
    (exRecursiveRets.2.node 13).kind = .RETURN := by
  refine ⟨by decide!, by decide!, by decide!⟩

/-- C25 at `main` of the module `exRecursive`, built from the initial state; its `ret`
is instruction 2 of block 0. -/
theorem ret_block_is_collected_witness :
    (∀ t, buildLLVMPSSFunction exRecursive 2 0 t =
      (buildLLVMPSSRets exRecursive (buildLLVMPSSFunction exRecursive 1) 0 >>= fun r => do
        M.assert (!r.2.2.isEmpty) "BUG: Did not find any return node in function"
        addReturnEdges r.2.1 r.2.2
        addPHIOperandsFunction exRecursive 0
        pure r.1) t) ∧
    ∀ res s', buildLLVMPSSRets exRecursive (buildLLVMPSSFunction exRecursive 1) 0
        LLVMPSSBuilder.init = .ok (res, s') →
      (!res.2.2.isEmpty) = true ∧
      ∃ n, n ∈ res.2.2 ∧ s'.nodes_map (.inst 0 0 2) = some n ∧ (s'.node n).kind = .RETURN ∧
        (s'.built_blocks (0, 0)).2 = some n ∧
        ∀ found t, blockAddSuccessors exRecursive 0 n (stitchFuel exRecursive 0) 0 found t =
          .ok ((0, found), t) :=
  ret_block_is_collected
    (buildGlobals_inv (show buildGlobals exRecursive LLVMPSSBuilder.init =
      .ok ((none, none), LLVMPSSBuilder.init) from rfl)).1
    (buildGlobals_inv (show buildGlobals exRecursive LLVMPSSBuilder.init =
      .ok ((none, none), LLVMPSSBuilder.init) from rfl)).2.1
    (buildGlobals_inv (show buildGlobals exRecursive LLVMPSSBuilder.init =
      .ok ((none, none), LLVMPSSBuilder.init) from rfl)).2.2.1
    (buildGlobals_inv (show buildGlobals exRecursive LLVMPSSBuilder.init =
      .ok ((none, none), LLVMPSSBuilder.init) from rfl)).2.2.2.1
    rfl (show exRecursive.getInst 0 0 2 = some (.ret none) from rfl) rfl rfl

/-! ## The successors of the `ENTRY` nodes -/

theorem EKeep.rfl_ek (s : LLVMPSSBuilder) : EKeep s s :=
  ⟨le_refl _, fun _ _ => rfl, fun _ _ _ => rfl, fun _ _ => rfl, fun _ _ _ => rfl⟩

theorem EKeep.trans_ek {s1 s2 s3 : LLVMPSSBuilder} (h12 : EKeep s1 s2) (h23 : EKeep s2 s3) :
    EKeep s1 s3 := by
  have hle := h12.size_le
  have hreg : ∀ G, (s1.subgraphs_map G).root ≠ none → (s2.subgraphs_map G).root ≠ none := by
    intro G hG
    rw [h12.subg_eq G hG]
    exact hG
  refine ⟨le_trans h12.size_le h23.size_le, ?_, ?_, ?_, ?_⟩
  · intro n hn
    rw [h23.kind_eq n (by omega), h12.kind_eq n hn]
  · intro n hn hk
    rw [h23.succ_eq n (by omega) (by rw [h12.kind_eq n hn]; exact hk), h12.succ_eq n hn hk]
  · intro G hG
    rw [h23.subg_eq G (hreg G hG), h12.subg_eq G hG]
  · intro G hG b
    rw [h23.blocks_eq G (hreg G hG), h12.blocks_eq G hG]

/-- A step that extends the graph, keeps all successor lists and the recorded blocks. -/
theorem EKeep.of_keep_ek {s s' : LLVMPSSBuilder} (e : Ext s s') (k : SuccKeep s s')
    (hb : s'.built_blocks = s.built_blocks) : EKeep s s' :=
  ⟨e.size_le, e.kind_eq, fun n hn _ => k.old_eq n hn, e.subg_eq, fun _ _ _ => by rw [hb]⟩

theorem EKeep.of_inert_ek {s s' : LLVMPSSBuilder} (i : Inert s s') (k : SuccKeep s s') :
    EKeep s s' :=
  EKeep.of_keep_ek i.to_ext k i.blocks_eq

/-- An edge from a node that is no `ENTRY` node. -/
theorem EKeep.add_succ_ek {p t : Nat} {u : Unit} {s s' : LLVMPSSBuilder}
    (hk : (s.node p).kind ≠ .ENTRY) (h : addSuccessor p t s = .ok (u, s')) : EKeep s s' := by
  rw [addSuccessor_ok] at h
  subst h
  refine ⟨le_refl _, ?_, ?_, fun _ _ => rfl, fun _ _ _ => rfl⟩
  · intro n _
    rw [LLVMPSSBuilder.update_node]
    split
    · subst_vars
      rfl
    · rfl
  · intro n _ hn
    rw [LLVMPSSBuilder.update_node, if_neg]
    intro hx
    subst hx
    exact hk hn

theorem EKeep.push_ek (s : LLVMPSSBuilder) (x : PSSNode) : EKeep s (s.push x) := by
  have hold : ∀ n, n < s.size → (s.push x).node n = s.node n := by
    intro n hn
    rw [LLVMPSSBuilder.push_node, if_neg (ne_of_lt hn)]
  exact ⟨Nat.le_succ _, fun n hn => by rw [hold n hn], fun n hn _ => by rw [hold n hn],
    fun _ _ => rfl, fun _ _ _ => rfl⟩

theorem EKeep.update_ek (s : LLVMPSSBuilder) (n : Nat) (f : PSSNode → PSSNode)
    (hk : ∀ x, (f x).kind = x.kind)
    (hs : (s.node n).kind ≠ .ENTRY ∨ ∀ x, (f x).successors = x.successors) :
    EKeep s (s.update n f) := by
  refine ⟨le_refl _, ?_, ?_, fun _ _ => rfl, fun _ _ _ => rfl⟩
  · intro i _
    rw [LLVMPSSBuilder.update_node]
    split
    · subst_vars
      exact hk _
    · rfl
  · intro i _ hi
    rw [LLVMPSSBuilder.update_node]
    split
    · subst_vars
      rcases hs with hs | hs
      · exact absurd hi hs
      · exact hs _
    · rfl

theorem mkOpNode_ek {k : PSSNodeType} {ops : List (Option Nat)} {n : Nat}
    {s s' : LLVMPSSBuilder} (h : mkOpNode k ops s = .ok (n, s')) :
    EKeep s s' ∧ n = s.size ∧ s'.size = s.size + 1 ∧ (s'.node n).kind = k := by
  obtain ⟨x, hx, -, -, -, rfl, rfl⟩ := mkOpNode_ok _ _ _ _ _ h
  refine ⟨EKeep.push_ek _ _, rfl, rfl, ?_⟩
  rw [LLVMPSSBuilder.push_node, if_pos rfl]
  exact hx

theorem setPairedNode_ek {n p : Nat} {u : Unit} {s s' : LLVMPSSBuilder}
    (h : setPairedNode n p s = .ok (u, s')) :
    EKeep s s' ∧ s'.size = s.size ∧ ∀ i, (s'.node i).kind = (s.node i).kind := by
  rw [setPairedNode_ok] at h
  subst h
  refine ⟨EKeep.update_ek _ _ _ (fun _ => rfl) (Or.inr fun _ => rfl), rfl, ?_⟩
  intro i
  rw [LLVMPSSBuilder.update_node]
  split
  · subst_vars
    rfl
  · rfl

/-- The nodes made by a step that builds no call or subgraph structure are no `ENTRY`
nodes. -/
theorem Inert.fresh_not_entry {s s' : LLVMPSSBuilder} {n : Nat} (hi : Inert s s')
    (h1 : s.size ≤ n) (h2 : n < s'.size) : (s'.node n).kind ≠ .ENTRY := by
  intro hk
  rcases hi.fresh n h1 h2 with ⟨hp, -⟩ | ⟨hc, -⟩
  · rw [hk] at hp
    cases hp
  · rw [hk] at hc
    cases hc

/-- Calling a function leaves the `ENTRY` nodes alone: the two call edges start from the
`CALL` node and from the `ret` node of the callee. -/
theorem createCallToFunction_ek {m : Module} {build : Nat → M Nat} (hb : BuildOK build)
    (hbe : BuildEK build) {P : Nat → Prop} {ty : Ty} {args : List Value} {F : Nat}
    {res : Nat × Nat} {s s' : LLVMPSSBuilder} (hwf : WF P s)
    (h : createCallToFunction m build ty args F s = .ok (res, s')) :
    EKeep s s' ∧ res.2 < s'.size ∧ (s'.node res.2).kind = .CALL_RETURN := by
  obtain ⟨w', e', x', hlt1, -, hk1, hp1, hne, -⟩ := createCallToFunction_wf hb hwf h
  have hres : res.2 < s'.size ∧ (s'.node res.2).kind = .CALL_RETURN := by
    obtain ⟨p, g1, g2, g3⟩ := w'.pair_call res.1 hlt1 hk1
    rw [hp1] at g1
    cases g1
    rcases g3 with g3 | ⟨g3, -⟩
    · exact absurd g3 hne
    · exact ⟨g2, g3⟩
  refine ⟨?_, hres⟩
  unfold createCallToFunction at h
  simp only [M.bind_ok, M.get_ok] at h
  obtain ⟨q, s1, h1, c, s2, h2, u3, s3, h3, u4, s4, h4, s0, t0, ⟨rfl, rfl⟩, subg, s5, hsubg, h⟩ := h
  obtain ⟨hwf4, hext4, hq, hcv, hsz4, hck4, hcp4, hcs4, hqk4, hqp4⟩ := callPair_wf hwf h1 h2 h3 h4
  have k4 : EKeep s s4 := by
    have a1 := (mkOpNode_succkeeps .CALL_RETURN []).keeps _ _ _ h1
    have a2 := (mkOpNode_succkeeps .CALL []).keeps _ _ _ h2
    have a3 := (setPairedNode_succkeeps q c).keeps _ _ _ h3
    have a4 := (setPairedNode_succkeeps c q).keeps _ _ _ h4
    refine EKeep.of_keep_ek hext4 (((a1.trans_sk a2).trans_sk a3).trans_sk a4) ?_
    obtain ⟨y1, -, -, -, -, -, rfl⟩ := mkOpNode_ok _ _ _ _ _ h1
    obtain ⟨y2, -, -, -, -, -, rfl⟩ := mkOpNode_ok _ _ _ _ _ h2
    rw [setPairedNode_ok] at h3 h4
    subst h3
    subst h4
    rfl
  have hclt4 : c < s4.size := by omega
  have h5 : WF (fun n => P n ∨ n = c) s5 ∧ Ext s4 s5 ∧ EKeep s4 s5 ∧
      subg = s5.subgraphs_map F := by
    split at hsubg
    · simp only [M.bind_ok, M.get_ok, M.pure_ok] at hsubg
      obtain ⟨r0, t1, hbuild, t2, t3, ⟨rfl, rfl⟩, rfl, rfl⟩ := hsubg
      have hnone : (s4.subgraphs_map F).root = none := by
        cases hx : (s4.subgraphs_map F).root with
        | none => rfl
        | some v =>
          rename_i hcond
          rw [hx] at hcond
          simp at hcond
      obtain ⟨g1, g2⟩ := hb _ F r0 s4 _ hwf4 hnone hbuild
      exact ⟨g1, g2, hbe _ F r0 s4 _ hwf4 hnone hbuild, rfl⟩
    · obtain ⟨rfl, rfl⟩ := (M.pure_ok _ _ _ _).mp hsubg
      exact ⟨hwf4, Ext.rfl_ext _, EKeep.rfl_ek _, rfl⟩
  obtain ⟨hwf5, hext5, k5, rfl⟩ := h5
  have hck5 : (s5.node c).kind = .CALL := by rw [hext5.kind_eq c hclt4]; exact hck4
  cases hroot : (s5.subgraphs_map F).root with
  | none =>
    simp only [hroot] at h
    exact ((M.fail_ok _ _ _ _).mp h).elim
  | some root =>
  cases hret : (s5.subgraphs_map F).ret with
  | none =>
    simp only [hroot, hret] at h
    exact ((M.fail_ok _ _ _ _).mp h).elim
  | some ret =>
    simp only [hroot, hret, M.bind_ok, M.pure_ok] at h
    obtain ⟨u6, s6, h6, u7, s7, h7, r8, s8, h8, u9, s9, h9, u10, s10, h10, rfl, rfl⟩ := h
    obtain ⟨hrlt, hrk, t', ht', htlt, htk⟩ := hwf5.subg_ok F root hroot
    rw [hret] at ht'
    cases ht'
    have k6 : EKeep s5 s6 := EKeep.add_succ_ek (by rw [hck5]; exact fun hc => by cases hc) h6
    have k7 : EKeep s6 s7 := by
      refine EKeep.add_succ_ek ?_ h7
      rw [k6.kind_eq ret htlt, htk]
      exact fun hc => by cases hc
    have i8 : Inert s7 s8 := createCallToFunctionArgs_inert h8
    have k8 : EKeep s7 s8 := EKeep.of_inert_ek i8
      ((createCallToFunctionArgs_succkeeps m args _ 0 _).keeps _ _ _ h8)
    have k9 : EKeep s8 s9 := by
      split at h9
      · cases ha : r8.2 with
        | none =>
          simp only [ha] at h9
          exact ((M.fail_ok _ _ _ _).mp h9).elim
        | some a =>
          simp only [ha] at h9
          exact EKeep.of_inert_ek (createCallToFunctionVarArgs_inert h9)
            ((createCallToFunctionVarArgs_succkeeps m a _).keeps _ _ _ h9)
      · obtain ⟨-, rfl⟩ := (M.pure_ok _ _ _ _).mp h9
        exact EKeep.rfl_ek _
    have k10 : EKeep s9 s10 := by
      split at h10
      · simp only [M.bind_ok, M.get_ok] at h10
        obtain ⟨t1, t2, ⟨rfl, rfl⟩, h10⟩ := h10
        exact EKeep.of_inert_ek (addOperands_inert h10) ((addOperands_succkeeps _ _).keeps _ _ _ h10)
      · obtain ⟨-, rfl⟩ := (M.pure_ok _ _ _ _).mp h10
        exact EKeep.rfl_ek _
    exact (((((k4.trans_ek k5).trans_ek k6).trans_ek k7).trans_ek k8).trans_ek k9).trans_ek k10

/-- The lowering of a call leaves the `ENTRY` nodes alone, and the node it gives as the
exit of the call is no `ENTRY` node. -/
theorem createCall_ek {m : Module} {build : Nat → M Nat} (hb : BuildOK build)
    (hbe : BuildEK build) {P : Nat → Prop} {I : Value} {F : Nat} {ty : Ty} {cv : Value}
    {args : List Value} {res : Nat × Nat} {s s' : LLVMPSSBuilder} (hwf : WF P s)
    (h : createCall m build I F ty cv args s = .ok (res, s')) :
    EKeep s s' ∧ res.2 < s'.size ∧ (s'.node res.2).kind ≠ .ENTRY := by
  have created : ∀ {x : M (Nat × Nat)}, SuccKeeps x → Created s s' res.2 →
      x s = .ok (res, s') →
      EKeep s s' ∧ res.2 < s'.size ∧ (s'.node res.2).kind ≠ .ENTRY := by
    intro x hx hc hr
    exact ⟨EKeep.of_inert_ek hc.1 (hx.keeps _ _ _ hr), hc.2.2, hc.1.fresh_not_entry hc.2.1 hc.2.2⟩
  unfold createCall at h
  cases hf : (stripPointerCasts m cv).asFunction with
  | some f =>
    simp only [hf, M.bind_ok, M.ofExcept_ok] at h
    obtain ⟨type, s0, ⟨-, rfl⟩, h⟩ := h
    split at h
    · exact created (createDynamicMemAlloc_succkeeps _ _ _ _) (createDynamicMemAlloc_created h).1 h
    · split at h
      · exact created (createIntrinsic_succkeeps _ _ _ _ _ _) (createIntrinsic_created h).1 h
      · split at h
        · exact created (createUnknownCall_succkeeps _ _) (createUnknownCall_created h).1 h
        · unfold createOrGetSubgraph at h
          simp only [M.bind_ok, M.pure_ok] at h
          obtain ⟨cf, s1, h1, u, s2, h2, rfl, rfl⟩ := h
          obtain ⟨k1, g1, g2⟩ := createCallToFunction_ek hb hbe hwf h1
          obtain ⟨-, -, -, g4, -⟩ := createCallToFunction_wf hb hwf h1
          have i2 := addNode_inert g4 h2
          have k2 := EKeep.of_inert_ek i2 ((addNode_succkeeps _ _).keeps _ _ _ h2)
          refine ⟨k1.trans_ek k2, lt_of_lt_of_le g1 i2.size_le, ?_⟩
          rw [i2.kind_eq _ g1, g2]
          exact fun hc => by cases hc
  | none =>
    simp only [hf, M.bind_ok, M.pure_ok] at h
    obtain ⟨op, s1, h1, cf, s2, h2, rc, s3, h3, u4, s4, h4, u5, s5, h5, u6, s6, h6, u7, s7, h7,
      rfl, rfl⟩ := h
    have i1 := getOperand_inert h1
    have k1 := EKeep.of_inert_ek i1 ((getOperand_succkeeps m _).keeps _ _ _ h1)
    obtain ⟨g1, g2, g3, g4⟩ := funcPtrPair_wf (hwf.step_inert i1) h2 h3 h4 h5 h6
    have i7 := addNode_inert g4 h7
    have k7 := EKeep.of_inert_ek i7 ((addNode_succkeeps _ _).keeps _ _ _ h7)
    obtain ⟨k2, e2, z2, c2⟩ := mkOpNode_ek h2
    obtain ⟨k3, e3, z3, c3⟩ := mkOpNode_ek h3
    obtain ⟨k4, z4, c4⟩ := setPairedNode_ek h4
    obtain ⟨k5, z5, c5⟩ := setPairedNode_ek h5
    have hcf5 : (s5.node cf).kind = .CALL_FUNCPTR := by
      rw [c5, c4, k3.kind_eq cf (by omega), c2]
    have hrc5 : (s5.node rc).kind = .RETURN := by
      rw [c5, c4, c3]
    have k6 : EKeep s5 s6 := EKeep.add_succ_ek (by rw [hcf5]; exact fun hc => by cases hc) h6
    refine ⟨(((((k1.trans_ek k2).trans_ek k3).trans_ek k4).trans_ek k5).trans_ek k6).trans_ek k7,
      lt_of_lt_of_le g3.1 i7.size_le, ?_⟩
    rw [i7.kind_eq _ g3.1, k6.kind_eq rc (by omega), hrc5]
    exact fun hc => by cases hc

theorem buildPSSBlockLink_ek {retFirst prev node : Option Nat} {r : Option Nat × Option Nat}
    {s s' : LLVMPSSBuilder} (hp : ∀ p, prev = some p → (s.node p).kind ≠ .ENTRY)
    (h : buildPSSBlockLink retFirst prev node s = .ok (r, s')) :
    EKeep s s' ∧ r.2 = node ∧ s'.size = s.size ∧ ∀ i, (s'.node i).kind = (s.node i).kind := by
  unfold buildPSSBlockLink at h
  simp only [M.bind_ok, M.pure_ok] at h
  obtain ⟨u, s1, h1, rfl, rfl⟩ := h
  refine ⟨?_, rfl, ?_⟩
  · cases prev with
    | none =>
      obtain ⟨-, rfl⟩ := (M.pure_ok _ _ _ _).mp h1
      exact EKeep.rfl_ek _
    | some p =>
      simp only at h1
      split at h1
      · cases node with
        | none => exact ((M.fail_ok _ _ _ _).mp h1).elim
        | some n => exact EKeep.add_succ_ek (hp p rfl) h1
      · obtain ⟨-, rfl⟩ := (M.pure_ok _ _ _ _).mp h1
        exact EKeep.rfl_ek _
  · cases prev with
    | none =>
      obtain ⟨-, rfl⟩ := (M.pure_ok _ _ _ _).mp h1
      exact ⟨rfl, fun _ => rfl⟩
    | some p =>
      simp only at h1
      split at h1
      · cases node with
        | none => exact ((M.fail_ok _ _ _ _).mp h1).elim
        | some n =>
          rw [addSuccessor_ok] at h1
          subst h1
          refine ⟨rfl, fun i => ?_⟩
          rw [LLVMPSSBuilder.update_node]
          split
          · subst_vars
            rfl
          · rfl
      · obtain ⟨-, rfl⟩ := (M.pure_ok _ _ _ _).mp h1
        exact ⟨rfl, fun _ => rfl⟩

/-- The lowering of an instruction of a block leaves the `ENTRY` nodes alone, and the
node it ends in is no `ENTRY` node. -/
theorem buildPSSBlockInst_ek {m : Module} {build : Nat → M Nat} (hb : BuildOK build)
    (hbe : BuildEK build) {P : Nat → Prop} {F b i : Nat} {I : Inst}
    {retFirst node : Option Nat} {res : Option Nat × Option Nat} {s s' : LLVMPSSBuilder}
    (hwf : WF P s) (hex : ∀ n, node = some n → Exit s n)
    (hnode : ∀ n, node = some n → (s.node n).kind ≠ .ENTRY)
    (h : buildPSSBlockInst m build F b i I retFirst node s = .ok (res, s')) :
    EKeep s s' ∧ ∀ n, res.2 = some n → (s'.node n).kind ≠ .ENTRY := by
  unfold buildPSSBlockInst at h
  split at h
  · simp only [M.bind_ok, M.ofExcept_ok] at h
    obtain ⟨rel, s0, ⟨-, rfl⟩, h⟩ := h
    split at h
    · obtain ⟨k1, e1, -, c1⟩ := buildPSSBlockLink_ek hnode h
      refine ⟨k1, fun n hn => ?_⟩
      rw [e1] at hn
      rw [c1]
      exact hnode n hn
    · simp only [M.bind_ok] at h
      obtain ⟨subg, s1, h1, rf, s2, h2, h3⟩ := h
      obtain ⟨k1, l1, c1⟩ := createCall_ek hb hbe hwf h1
      have k2 : EKeep s1 s2 ∧ s2.size = s1.size ∧
          ∀ i, (s2.node i).kind = (s1.node i).kind := by
        cases node with
        | none =>
          obtain ⟨-, rfl⟩ := (M.pure_ok _ _ _ _).mp h2
          exact ⟨EKeep.rfl_ek _, rfl, fun _ => rfl⟩
        | some p =>
          simp only [M.bind_ok, M.pure_ok] at h2
          obtain ⟨u, t1, g1, -, rfl⟩ := h2
          have hk : (s1.node p).kind ≠ .ENTRY := by
            rw [k1.kind_eq p (hex p rfl).1]
            exact hnode p rfl
          refine ⟨EKeep.add_succ_ek hk g1, ?_⟩
          rw [addSuccessor_ok] at g1
          subst g1
          refine ⟨rfl, fun i => ?_⟩
          rw [LLVMPSSBuilder.update_node]
          split
          · subst_vars
            rfl
          · rfl
      obtain ⟨k2, z2, c2⟩ := k2
      obtain ⟨k3, e3, -, c3⟩ := buildPSSBlockLink_ek
        (fun p hp => by cases hp; rw [c2]; exact c1) h3
      refine ⟨(k1.trans_ek k2).trans_ek k3, fun n hn => ?_⟩
      rw [e3] at hn
      cases hn
      rw [c3, c2]
      exact c1
  · simp only [M.bind_ok] at h
    obtain ⟨n, s1, h1, h2⟩ := h
    obtain ⟨i1, hn⟩ := lowerInst_inert h1
    have k1 := EKeep.of_inert_ek i1 ((lowerInst_succkeeps m F b i _ node).keeps _ _ _ h1)
    have hnode1 : ∀ p, node = some p → (s1.node p).kind ≠ .ENTRY := by
      intro p hp
      rw [i1.kind_eq p (hex p hp).1]
      exact hnode p hp
    obtain ⟨k2, e2, -, c2⟩ := buildPSSBlockLink_ek hnode1 h2
    refine ⟨k1.trans_ek k2, fun k hk => ?_⟩
    rw [e2] at hk
    rw [c2]
    rcases hn with rfl | ⟨n', rfl, g1, g2⟩
    · exact hnode1 k hk
    · cases hk
      exact i1.fresh_not_entry g1 g2

theorem buildPSSBlockLoop_ek {m : Module} {build : Nat → M Nat} (hb : BuildOK build)
    (hbe : BuildEK build) {P : Nat → Prop} {F b : Nat} {insts : List Inst} :
    ∀ {i : Nat} {retFirst node : Option Nat} {res : Option Nat × Option Nat}
      {s s' : LLVMPSSBuilder}, WF P s → (∀ n, node = some n → Exit s n) →
      (∀ n, node = some n → (s.node n).kind ≠ .ENTRY) →
      buildPSSBlockLoop m build F b insts i retFirst node s = .ok (res, s') →
      EKeep s s' ∧ ∀ n, res.2 = some n → (s'.node n).kind ≠ .ENTRY := by
  induction insts with
  | nil =>
    intro i retFirst node res s s' _ _ hnode h
    unfold buildPSSBlockLoop at h
    obtain ⟨rfl, rfl⟩ := (M.pure_ok _ _ _ _).mp h
    exact ⟨EKeep.rfl_ek _, hnode⟩
  | cons I rest ih =>
    intro i retFirst node res s s' hwf hex hnode h
    unfold buildPSSBlockLoop at h
    simp only [M.bind_ok] at h
    obtain ⟨r, s1, h1, h2⟩ := h
    obtain ⟨g1, -, g3, -⟩ := buildPSSBlockInst_wf hb hwf hex h1
    obtain ⟨k1, c1⟩ := buildPSSBlockInst_ek hb hbe hwf hex hnode h1
    obtain ⟨k2, c2⟩ := ih g1 g3 c1 h2
    exact ⟨k1.trans_ek k2, c2⟩

/-- The lowering of a block leaves the `ENTRY` nodes alone, and the last node of the
block is no `ENTRY` node. -/
theorem buildPSSBlock_ek {m : Module} {build : Nat → M Nat} (hb : BuildOK build)
    (hbe : BuildEK build) {P : Nat → Prop} {F b : Nat} {res : Option Nat × Option Nat}
    {s s' : LLVMPSSBuilder} (hwf : WF P s) (h : buildPSSBlock m build F b s = .ok (res, s')) :
    EKeep s s' ∧ ∀ n, res.2 = some n → (s'.node n).kind ≠ .ENTRY :=
  buildPSSBlockLoop_ek hb hbe hwf (fun _ hn => by cases hn) (fun _ hn => by cases hn) h

theorem setBuiltBlock_nodes {key : Nat × Nat} {nds : Option Nat × Option Nat} {u : Unit}
    {s s' : LLVMPSSBuilder} (h : setBuiltBlock key nds s = .ok (u, s')) :
    s'.size = s.size ∧ s'.node = s.node ∧ s'.subgraphs_map = s.subgraphs_map ∧
      s'.nodes_map = s.nodes_map ∧ s'.built_blocks key = nds ∧
      ∀ k, k ≠ key → s'.built_blocks k = s.built_blocks k := by
  unfold setBuiltBlock at h
  rw [M.modify_ok] at h
  subst h
  refine ⟨rfl, rfl, rfl, rfl, ?_, ?_⟩
  · show (if key = key then nds else _) = nds
    rw [if_pos rfl]
  · intro k hk
    show (if k = key then nds else _) = _
    rw [if_neg hk]

/-- The first loop of the build of a function `F` and the `ENTRY` nodes: they keep their
successors, but for `lastNode` when no first node has been found yet; the other
functions keep their recorded blocks; and of the last nodes recorded for the blocks of
the loop only the root recorded for an entry block without nodes is an `ENTRY` node. -/
theorem buildBlocksLoop_ek {m : Module} {build : Nat → M Nat} (hb : BuildOK build)
    (hbe : BuildEK build) {P : Nat → Prop} {F root lastNode : Nat} :
    ∀ (blocks : List BasicBlock) (b : Nat) (first : Option Nat) (u : Unit)
      (s s' : LLVMPSSBuilder),
      WF P s → (s.subgraphs_map F).root = some root → Exit s root → Exit s lastNode →
      buildBlocksLoop m build F root lastNode blocks b first s = .ok (u, s') →
      s.size ≤ s'.size ∧
      (∀ n, n < s.size → (s'.node n).kind = (s.node n).kind) ∧
      (∀ n, n < s.size → (s.node n).kind = .ENTRY → (n ≠ lastNode ∨ first ≠ none) →
        (s'.node n).successors = (s.node n).successors) ∧
      (∀ G, (s.subgraphs_map G).root ≠ none → s'.subgraphs_map G = s.subgraphs_map G) ∧
      (∀ G, (s.subgraphs_map G).root ≠ none → G ≠ F →
        ∀ B, s'.built_blocks (G, B) = s.built_blocks (G, B)) ∧
      (∀ B, B < b ∨ b + blocks.length ≤ B → s'.built_blocks (F, B) = s.built_blocks (F, B)) ∧
      (∀ B l, b ≤ B → B < b + blocks.length → (s'.built_blocks (F, B)).2 = some l →
        (s'.node l).kind = .ENTRY → l = root ∧ first = none ∧ B = b) := by
  intro blocks
  induction blocks with
  | nil =>
    intro b first u s s' _ _ _ _ h
    unfold buildBlocksLoop at h
    obtain ⟨-, rfl⟩ := (M.pure_ok _ _ _ _).mp h
    refine ⟨le_refl _, fun _ _ => rfl, fun _ _ _ _ => rfl, fun _ _ => rfl, fun _ _ _ _ => rfl,
      fun _ _ => rfl, ?_⟩
    intro B l h1 h2
    simp only [List.length_nil, Nat.add_zero] at h2
    omega
  | cons B0 rest ih =>
    intro b first u s s' hwf hroot hxr hxl h
    unfold buildBlocksLoop at h
    simp only [M.bind_ok] at h
    obtain ⟨nds, s1, h1, r, s2, h2, u3, s3, h3, h4⟩ := h
    obtain ⟨g1, g2, g3, g3c⟩ := buildPSSBlock_wf hb hwf h1
    obtain ⟨k1, c1⟩ := buildPSSBlock_ek hb hbe hwf h1
    have hroot1 := hxr.after_ext g2
    have hlast1 := hxl.after_ext g2
    have hrn : (s.subgraphs_map F).root ≠ none := by
      rw [hroot]
      exact fun hc => by cases hc
    have hsroot1 : (s1.subgraphs_map F).root = some root := by
      rw [k1.subg_eq F hrn]
      exact hroot
    have k : Inert s1 s2 ∧ (∀ l, r.1.2 = some l → Exit s2 l) ∧
        r.1.1.isSome = r.1.2.isSome ∧ r.2 ≠ none ∧
        (∀ n, n < s1.size → (n ≠ lastNode ∨ first ≠ none) →
          (s2.node n).successors = (s1.node n).successors) ∧
        (∀ l, r.1.2 = some l → (s2.node l).kind = .ENTRY → l = root ∧ first = none) := by
      cases first with
      | none =>
        cases hn : nds.1 with
        | none =>
          simp only [hn] at h2
          obtain ⟨rfl, rfl⟩ := (M.pure_ok _ _ _ _).mp h2
          refine ⟨Inert.rfl_inert _, fun l hl => ?_, rfl, (fun hc => by cases hc),
            fun _ _ _ => rfl, fun l hl _ => ?_⟩
          · cases hl
            exact hroot1
          · cases hl
            exact ⟨rfl, rfl⟩
        | some f =>
          simp only [hn, M.bind_ok, M.pure_ok] at h2
          obtain ⟨u1, t1, g, rfl, rfl⟩ := h2
          have i1 := addSuccessor_inert hlast1 g
          refine ⟨i1, fun l hl => (g3 l hl).mono_inert i1, g3c, (fun hc => by cases hc), ?_, ?_⟩
          · intro n _ hne
            rcases hne with hne | hne
            · rw [addSuccessor_ok] at g
              subst g
              rw [LLVMPSSBuilder.update_node, if_neg hne]
            · exact absurd rfl hne
          · intro l hl hk
            rw [i1.kind_eq l (g3 l hl).1] at hk
            exact absurd hk (c1 l hl)
      | some f =>
        obtain ⟨rfl, rfl⟩ := (M.pure_ok _ _ _ _).mp h2
        refine ⟨Inert.rfl_inert _, g3, g3c, (fun hc => by cases hc), fun _ _ _ => rfl, ?_⟩
        intro l hl hk
        exact absurd hk (c1 l hl)
    obtain ⟨i2, hl2, hc2, hr2, hs2, he2⟩ := k
    obtain ⟨w3, e3⟩ := setBuiltBlock_wf (g1.step_inert i2) hl2 hc2 h3
    obtain ⟨z3, n3, sg3, -, b3, o3⟩ := setBuiltBlock_nodes h3
    have hsroot3 : (s3.subgraphs_map F).root = some root := by
      rw [sg3, i2.subg_eq]
      exact hsroot1
    obtain ⟨a1, a2, a3, a4, a5, a6, a7⟩ := ih (b + 1) r.2 u s3 s' w3 hsroot3
      ((hroot1.mono_inert i2).after_ext e3) ((hlast1.mono_inert i2).after_ext e3) h4
    have hle1 := k1.size_le
    have hle2 := i2.size_le
    have hreg3 : ∀ G, (s.subgraphs_map G).root ≠ none → (s3.subgraphs_map G).root ≠ none := by
      intro G hG
      rw [sg3, i2.subg_eq, k1.subg_eq G hG]
      exact hG
    refine ⟨by omega, ?_, ?_, ?_, ?_, ?_, ?_⟩
    · intro n hn
      rw [a2 n (by omega), n3, i2.kind_eq n (by omega), k1.kind_eq n hn]
    · intro n hn hk hne
      have hk3 : (s3.node n).kind = .ENTRY := by
        rw [n3, i2.kind_eq n (by omega), k1.kind_eq n hn]
        exact hk
      rw [a3 n (by omega) hk3 (Or.inr hr2), n3, hs2 n (by omega) hne, k1.succ_eq n hn hk]
    · intro G hG
      rw [a4 G (hreg3 G hG), sg3, i2.subg_eq, k1.subg_eq G hG]
    · intro G hG hne B
      rw [a5 G (hreg3 G hG) hne B, o3 _ (by
        intro hx
        cases hx
        exact hne rfl), i2.blocks_eq, k1.blocks_eq G hG]
    · intro B hB
      rw [List.length_cons] at hB
      rw [a6 B (by omega), o3 _ (by
        intro hx
        cases hx
        omega), i2.blocks_eq, k1.blocks_eq F hrn]
    · intro B l hB1 hB2 hl hk
      rw [List.length_cons] at hB2
      by_cases hBb : B = b
      · subst hBb
        rw [a6 B (Or.inl (Nat.lt_succ_self _)), b3] at hl
        have hlt : l < s3.size := by
          rw [z3]
          exact (hl2 l hl).1
        rw [a2 l hlt, n3] at hk
        obtain ⟨q1, q2⟩ := he2 l hl hk
        exact ⟨q1, q2, rfl⟩
      · obtain ⟨-, q2, -⟩ := a7 B l (by omega) (by omega) hl hk
        exact absurd q2 hr2

/-- The build of a function leaves the `ENTRY` nodes that are there alone: every edge it
adds starts from a node it has made or from a node that is no `ENTRY` node. -/
theorem buildLLVMPSSBody_ek {m : Module} {build : Nat → M Nat} (hb : BuildOK build)
    (hbe : BuildEK build) {P : Nat → Prop} {F r : Nat} {s s' : LLVMPSSBuilder} (hwf : WF P s)
    (hF : (s.subgraphs_map F).root = none)
    (h : buildLLVMPSSBody m build F s = .ok (r, s')) : EKeep s s' := by
  obtain ⟨-, e', -⟩ := buildLLVMPSSBody_wf hb hwf hF h
  unfold buildLLVMPSSBody at h
  simp only [M.bind_ok] at h
  obtain ⟨root, s1, h1, ret, s2, h2, args, s3, h3, u4, s4, h4, lastNode, s5, h5, h⟩ := h
  obtain ⟨i3, ha3⟩ := buildArguments_inert h3
  obtain ⟨w4, e4, hroot4, hex4, hreg4⟩ := registerSubgraph_wf hwf hF h1 h2 i3 h4
  have k5 : Inert s4 s5 ∧ ∀ l, lastNode = some l → Exit s5 l := by
    cases ha : args.1 with
    | none =>
      simp only [ha] at h5
      obtain ⟨rfl, rfl⟩ := (M.pure_ok _ _ _ _).mp h5
      refine ⟨Inert.rfl_inert _, fun l hl => ?_⟩
      cases hl
      exact hroot4
    | some a =>
      simp only [ha, M.bind_ok, M.pure_ok] at h5
      obtain ⟨u, t1, k1, rfl, rfl⟩ := h5
      have i1 := addSuccessor_inert hroot4 k1
      exact ⟨i1, fun l hl => (hex4 l (ha3 l hl)).mono_inert i1⟩
  obtain ⟨i5, hlast5⟩ := k5
  obtain ⟨hr, -, hsz5, hold, -, -, -, -, -, -, -, hsubF, hsub, hblk, hlastN⟩ :=
    registerSubgraph_shape h1 h2 h3 h4 h5
  subst hr
  cases lastNode with
  | none => exact ((M.fail_ok _ _ _ _).mp h).elim
  | some last =>
    simp only [M.bind_ok, M.pure_ok, M.assert_ok] at h
    obtain ⟨u6, s6, h6, rets, s7, h7, u8, s8, ⟨-, rfl⟩, u9, s9, h9, u10, s10, h10, rfl, rfl⟩ := h
    have w5 := w4.step_inert i5
    have hroot5 : (s5.subgraphs_map F).root = some s.size := by rw [hsubF]
    obtain ⟨w6, e6⟩ := buildBlocksLoop_wf hb w5 (hroot4.mono_inert i5) (hlast5 last rfl) h6
    obtain ⟨a1, a2, a3, a4, a5, a6, a7⟩ := buildBlocksLoop_ek hb hbe (m.getFunc F).blocks 0 none
      u6 s5 s6 w5 hroot5 (hroot4.mono_inert i5) (hlast5 last rfl) h6
    obtain ⟨i7, hrets⟩ := stitchBlocksLoop_inert (fun b l hl => w6.blocks_ok F b l hl)
      (fun _ hx => by cases hx) h7
    obtain ⟨rets1, t1, g1, g2, g3, g4⟩ := stitchBlocksLoop_rets (m := m) (F := F)
      (m.getFunc F).blocks 0 [] s6 (w6.blocks_cons F)
    rw [h7] at g1
    cases g1
    have i9 := addReturnEdges_inert hrets h9
    obtain ⟨-, q2, -⟩ := addReturnEdges_spec rets u9 s7 s9 h9
    have i10 := addPHIOperandsFunction_inert h10
    have k10 := (addPHIOperandsFunction_succkeeps m F).keeps _ _ _ h10
    have hsz : s.size ≤ s5.size := by omega
    -- an `ENTRY` node that was there is not the last node recorded for a block of `F`
    have hnl : ∀ n, n < s.size → (s.node n).kind = .ENTRY →
        ∀ B, 0 ≤ B → B < 0 + (m.getFunc F).blocks.length →
          (s6.built_blocks (F, B)).2 ≠ some n := by
      intro n hn hk B hB1 hB2 hl
      have hk6 : (s6.node n).kind = .ENTRY := by
        rw [a2 n (by omega), hold n (Or.inl hn)]
        exact hk
      obtain ⟨q, -, -⟩ := a7 B n hB1 hB2 hl hk6
      omega
    refine ⟨e'.size_le, e'.kind_eq, ?_, e'.subg_eq, ?_⟩
    · intro n hn hk
      have hlast : last ≠ n := by
        cases hlastN
        split <;> omega
      have hn9 : n ∉ rets := by
        intro hx
        rcases (g4 n).mp hx with hx | ⟨B, b1, b2, -, b4, -⟩
        · cases hx
        · exact hnl n hn hk B b1 b2 b4
      rw [k10.old_eq n (by have := i7.size_le; have := i9.size_le; omega), q2 n hn9,
        g3 n (hnl n hn hk)]
      have hk5 : (s5.node n).kind = .ENTRY := by
        rw [hold n (Or.inl hn)]
        exact hk
      rw [a3 n (by omega) hk5 (Or.inl (Ne.symm hlast)), hold n (Or.inl hn)]
    · intro G hG B
      have hGF : G ≠ F := by
        intro hx
        subst hx
        exact hG hF
      have hG5 : (s5.subgraphs_map G).root ≠ none := by
        rw [hsub G hGF]
        exact hG
      rw [i10.blocks_eq, i9.blocks_eq, g2, a5 G hG5 hGF B, hblk]

theorem buildLLVMPSSFunction_ek (m : Module) (fuel : Nat) :
    BuildEK (buildLLVMPSSFunction m fuel) := by
  induction fuel with
  | zero =>
    intro P F r s s' _ _ h
    unfold buildLLVMPSSFunction at h
    exact ((M.fail_ok _ _ _ _).mp h).elim
  | succ fuel ih =>
    intro P F r s s' hwf hF h
    unfold buildLLVMPSSFunction at h
    exact buildLLVMPSSBody_ek (buildLLVMPSSFunction_wf m fuel) ih hwf hF h

/-- Once a first node has been found, the first loop of the build of a function makes no
use of `lastNode`. -/
theorem buildBlocksLoop_some {m : Module} {build : Nat → M Nat} {F root : Nat} (l1 l2 : Nat) :
    ∀ (blocks : List BasicBlock) (b f : Nat) (s : LLVMPSSBuilder),
      buildBlocksLoop m build F root l1 blocks b (some f) s =
        buildBlocksLoop m build F root l2 blocks b (some f) s := by
  intro blocks
  induction blocks with
  | nil =>
    intro b f s
    rfl
  | cons B0 rest ih =>
    intro b f s
    unfold buildBlocksLoop
    refine M.bind_congr_at (fun nds s1 _ => ?_)
    refine M.bind_congr_at (fun r s2 h2 => ?_)
    obtain ⟨rfl, rfl⟩ := (M.pure_ok _ _ _ _).mp h2
    refine M.bind_congr_at (fun u s3 _ => ?_)
    exact ih (b + 1) f s3

/-- When the entry block gives no node, the first loop of the build of a function makes
no use of `lastNode`. -/
theorem buildBlocksLoop_fake {m : Module} {build : Nat → M Nat} {F root : Nat} (l1 l2 : Nat)
    {B0 : BasicBlock} {rest : List BasicBlock} {b : Nat} {nds : Option Nat × Option Nat}
    {s s1 : LLVMPSSBuilder} (h1 : buildPSSBlock m build F b s = .ok (nds, s1))
    (hn : nds.1 = none) :
    buildBlocksLoop m build F root l1 (B0 :: rest) b none s =
      buildBlocksLoop m build F root l2 (B0 :: rest) b none s := by
  unfold buildBlocksLoop
  rw [M.bind_run h1, M.bind_run h1]
  simp only [hn]
  refine M.bind_congr_at (fun r s2 h2 => ?_)
  obtain ⟨rfl, rfl⟩ := (M.pure_ok _ _ _ _).mp h2
  refine M.bind_congr_at (fun u s3 _ => ?_)
  exact buildBlocksLoop_some l1 l2 rest (b + 1) root s3

/-- The first loop of the build of a function, started after the registration of the
subgraph: what it does to `lastNode` and to the root, by whether the entry block gives
a node.  The root is the last node recorded for the entry block only, and only when the
block gave no node. -/
theorem buildBlocksLoop_entry {m : Module} {build : Nat → M Nat} (hb : BuildOK build)
    (hbp : BuildPW m build) (hbe : BuildEK build)
    {Pend : Nat → Option ((Nat × Nat) × (Nat × Nat))} {P : Nat → Prop}
    {F root last : Nat} {B0 : BasicBlock} {rest : List BasicBlock} {u : Unit}
    {s5 s6 : LLVMPSSBuilder}
    (w5 : WF P s5) (p5 : PW m Pend s5) (a5 : AW m s5) (r5 : RW m Pend s5)
    (hroot5 : (s5.subgraphs_map F).root = some root) (hp : Pend F = some ((0, 0), (0, 0)))
    (hxr : Exit s5 root) (hxl : Exit s5 last)
    (hl : last = root ∨ (last = root + 1 + argCount m F ∧ 0 < argCount m F ∧
      (s5.node last).successors = []))
    (h6 : buildBlocksLoop m build F root last (B0 :: rest) 0 none s5 = .ok (u, s6)) :
    ∃ nds s6a, buildPSSBlock m build F 0 s5 = .ok (nds, s6a) ∧
      (∀ B, B < (B0 :: rest).length → (s6.built_blocks (F, B)).2 = some root →
        B = 0 ∧ nds.1 = none) ∧
      (∀ f, nds.1 = some f → s6.built_blocks (F, 0) = nds ∧
        (s6.node last).successors = (s5.node last).successors ++ [f] ∧
        (last ≠ root → (s6.node root).successors = (s5.node root).successors)) ∧
      (nds.1 = none → s6.built_blocks (F, 0) = (some root, some root) ∧
        (s6.node root).successors = (s5.node root).successors ∧
        (last ≠ root → (s6.node last).successors = (s5.node last).successors)) := by
  have h6' := h6
  obtain ⟨hrlt, hrk, -⟩ := w5.subg_ok F root hroot5
  obtain ⟨⟨-, a6, -⟩, w6, e6, -, -, -⟩ := buildBlocksLoop_inv hb hbp (B0 :: rest) _ 0 none u
    s5 s6 w5 p5 a5 r5 hroot5 hp hxr hxl (by
      rcases hl with hl | ⟨g1, g2, g3⟩
      · exact Or.inl hl
      · exact Or.inr ⟨g1, g2, fun _ => g3⟩) h6
  obtain ⟨-, c2, c3, -, -, -, c7⟩ := buildBlocksLoop_ek hb hbe (B0 :: rest) 0 none u s5 s6 w5
    hroot5 hxr hxl h6
  unfold buildBlocksLoop at h6
  simp only [M.bind_ok] at h6
  obtain ⟨nds, s1, h1, r, s2, h2, u3, s3, h3, h4⟩ := h6
  obtain ⟨g1, g2, g3, g3c⟩ := buildPSSBlock_wf hb w5 h1
  obtain ⟨k1, c1⟩ := buildPSSBlock_ek hb hbe w5 h1
  obtain ⟨⟨-, -, -, f1⟩, -, -, -⟩ := buildPSSBlock_inv hb hbp w5 p5 a5 r5 hp h1
  have hroot1 := hxr.after_ext g2
  have hlast1 := hxl.after_ext g2
  have hrn : (s5.subgraphs_map F).root ≠ none := by
    rw [hroot5]
    exact fun hc => by cases hc
  have hk1 : (s1.node root).kind = .ENTRY := by
    rw [k1.kind_eq root hrlt]
    exact hrk
  have hk6 : (s6.node root).kind = .ENTRY := by
    rw [c2 root hrlt]
    exact hrk
  -- the states after the first block is recorded
  have K : Inert s1 s2 ∧ (∀ l, r.1.2 = some l → Exit s2 l) ∧
      r.1.1.isSome = r.1.2.isSome ∧ r.2 ≠ none := by
    cases hn : nds.1 with
    | none =>
      simp only [hn] at h2
      obtain ⟨rfl, rfl⟩ := (M.pure_ok _ _ _ _).mp h2
      refine ⟨Inert.rfl_inert _, fun l hx => ?_, rfl, (fun hc => by cases hc)⟩
      cases hx
      exact hroot1
    | some f =>
      simp only [hn, M.bind_ok, M.pure_ok] at h2
      obtain ⟨u1, t1, g, rfl, rfl⟩ := h2
      have i1 := addSuccessor_inert hlast1 g
      exact ⟨i1, fun l hx => (g3 l hx).mono_inert i1, g3c, (fun hc => by cases hc)⟩
  obtain ⟨i2, hl2, hc2, hr2⟩ := K
  obtain ⟨w3, e3⟩ := setBuiltBlock_wf (g1.step_inert i2) hl2 hc2 h3
  obtain ⟨z3, n3, sg3, -, b3, o3⟩ := setBuiltBlock_nodes h3
  have hsroot3 : (s3.subgraphs_map F).root = some root := by
    rw [sg3, i2.subg_eq, k1.subg_eq F hrn]
    exact hroot5
  have hxr3 := (hroot1.mono_inert i2).after_ext e3
  have hxl3 := (hlast1.mono_inert i2).after_ext e3
  obtain ⟨w6', e36⟩ := buildBlocksLoop_wf hb w3 hxr3 hxl3 h4
  obtain ⟨-, -, d3, -, -, d6, -⟩ := buildBlocksLoop_ek hb hbe rest 1 r.2 u s3 s6 w3 hsroot3
    hxr3 hxl3 h4
  have hle1 := k1.size_le
  have hle2 := i2.size_le
  have hk3 : (s3.node root).kind = .ENTRY := by
    rw [n3, i2.kind_eq root (by omega)]
    exact hk1
  have hb06 : s6.built_blocks (F, 0) = r.1 := by
    rw [d6 0 (Or.inl Nat.zero_lt_one), b3]
  have hroot63 : (s6.node root).successors = (s3.node root).successors :=
    d3 root (by omega) hk3 (Or.inr hr2)
  refine ⟨nds, s1, h1, ?_, ?_, ?_⟩
  · intro B hB hlB
    obtain ⟨-, -, q3⟩ := c7 B root (Nat.zero_le _) (by omega) hlB hk6
    subst q3
    refine ⟨rfl, ?_⟩
    cases hn : nds.1 with
    | none => rfl
    | some f =>
      simp only [hn, M.bind_ok, M.pure_ok] at h2
      obtain ⟨u1, t1, g, rfl, rfl⟩ := h2
      rw [hb06] at hlB
      exact absurd hk1 (c1 root hlB)
  · intro f hn
    simp only [hn, M.bind_ok, M.pure_ok] at h2
    obtain ⟨u1, t1, g, rfl, rfl⟩ := h2
    rw [addSuccessor_ok] at g
    subst g
    refine ⟨hb06, ?_, ?_⟩
    · have hs2 : ((s1.update last fun x =>
          { x with successors := x.successors ++ [f] }).node last).successors =
          (s1.node last).successors ++ [f] := by
        rw [LLVMPSSBuilder.update_node, if_pos rfl]
      rcases hl with rfl | ⟨hla, hpos, hnil⟩
      · rw [hroot63, n3, hs2, k1.succ_eq _ hrlt hrk]
      · have han : ArgNode m s5 last := by
          rw [hla]
          exact ArgNode.last_arg hroot5 hpos
        have hs1 : (s1.node last).successors = [] := by
          rw [f1.succ_eq last han]
          exact hnil
        rw [hnil, List.nil_append]
        have hpre := e36.succ_prefix last (by rw [z3]; exact hlast1.1)
        rw [n3, hs2, hs1, List.nil_append] at hpre
        have hroot6 : (s6.subgraphs_map F).root = some root := by
          rw [e6.subg_eq F hrn]
          exact hroot5
        have hlen := a6.last F root hroot6 hpos
        rw [← hla] at hlen
        obtain ⟨t, ht⟩ := hpre
        rw [← ht] at hlen ⊢
        cases t with
        | nil => rfl
        | cons x xs =>
          simp only [List.length_append, List.length_cons, List.length_nil] at hlen
          omega
    · intro hne
      rw [hroot63, n3, LLVMPSSBuilder.update_node, if_neg (Ne.symm hne), k1.succ_eq _ hrlt hrk]
  · intro hn
    simp only [hn] at h2
    obtain ⟨rfl, rfl⟩ := (M.pure_ok _ _ _ _).mp h2
    refine ⟨hb06, ?_, ?_⟩
    · rw [hroot63, n3, k1.succ_eq _ hrlt hrk]
    · intro hne
      rcases hl with hl | ⟨hla, hpos, -⟩
      · exact absurd hl hne
      · have han : ArgNode m s5 last := by
          rw [hla]
          exact ArgNode.last_arg hroot5 hpos
        rw [buildBlocksLoop_fake last root h1 hn] at h6'
        obtain ⟨-, -, -, -, -, q⟩ := buildBlocksLoop_inv hb hbp (B0 :: rest) _ 0 none u
          s5 s6 w5 p5 a5 r5 hroot5 hp hxr hxr (Or.inl rfl) h6'
        exact q last han hne

/-- The return edges, node by node: every occurrence of a node in `rets` appends one
edge to `ret`. -/
theorem addReturnEdges_count {ret : Nat} :
    ∀ (rets : List Nat) (u : Unit) (s s' : LLVMPSSBuilder),
      addReturnEdges ret rets s = .ok (u, s') →
      ∀ n, (s'.node n).successors = (s.node n).successors ++ List.replicate (rets.count n) ret := by
  intro rets
  induction rets with
  | nil =>
    intro u s s' h n
    unfold addReturnEdges at h
    obtain ⟨-, rfl⟩ := (M.pure_ok _ _ _ _).mp h
    simp
  | cons r rest ih =>
    intro u s s' h n
    unfold addReturnEdges at h
    simp only [M.bind_ok] at h
    obtain ⟨u1, s1, h1, h2⟩ := h
    rw [addSuccessor_ok] at h1
    subst h1
    rw [ih u _ s' h2 n, LLVMPSSBuilder.update_node, List.count_cons]
    by_cases hn : n = r
    · subst hn
      rw [if_pos rfl, beq_self_eq_true, if_pos rfl, List.replicate_succ]
      show ((s.node n).successors ++ [ret]) ++ _ = _
      rw [List.append_assoc, List.singleton_append]
    · have hne : (r == n) = false := by
        rw [beq_eq_false_iff_ne]
        exact Ne.symm hn
      rw [if_neg hn, hne]
      rfl

/-- A node that is not the last node recorded for a block of the loop is not added to
`rets` by the stitching loop. -/
theorem stitchBlocksLoop_count {m : Module} {F n : Nat} :
    ∀ (list : List BasicBlock) (b : Nat) (rets res : List Nat) (s s' : LLVMPSSBuilder),
      (∀ b, (s.built_blocks (F, b)).1.isSome = (s.built_blocks (F, b)).2.isSome) →
      (∀ B, b ≤ B → B < b + list.length → (s.built_blocks (F, B)).2 ≠ some n) →
      stitchBlocksLoop m F list b rets s = .ok (res, s') →
      res.count n = rets.count n := by
  intro list
  induction list with
  | nil =>
    intro b rets res s s' _ _ h
    unfold stitchBlocksLoop at h
    obtain ⟨rfl, -⟩ := (M.pure_ok _ _ _ _).mp h
    rfl
  | cons B0 rest ih =>
    intro b rets res s s' hcons hn h
    unfold stitchBlocksLoop at h
    rw [M.get_bind, M.assert_bind _ _ _ (assert_consistent (hcons b))] at h
    have hnext : ∀ B, b + 1 ≤ B → B < b + 1 + rest.length →
        (s.built_blocks (F, B)).2 ≠ some n := by
      intro B h1 h2
      exact hn B (by omega) (by rw [List.length_cons]; omega)
    cases h1 : (s.built_blocks (F, b)).1 with
    | none =>
      simp only [h1] at h
      exact ih (b + 1) rets res s s' hcons hnext h
    | some f =>
      cases h2 : (s.built_blocks (F, b)).2 with
      | none =>
        simp only [h1, h2] at h
        exact ih (b + 1) rets res s s' hcons hnext h
      | some last =>
        simp only [h1, h2, M.bind_ok] at h
        obtain ⟨r, t, g, h⟩ := h
        obtain ⟨num, found', t', q1, q2, -⟩ := blockAddSuccessors_top (m := m) (F := F)
          (z := last) (B := b) hcons
        rw [g] at q1
        cases q1
        have hcons' : ∀ b, (t.built_blocks (F, b)).1.isSome = (t.built_blocks (F, b)).2.isSome := by
          intro b'
          rw [q2]
          exact hcons b'
        have hnext' : ∀ B, b + 1 ≤ B → B < b + 1 + rest.length →
            (t.built_blocks (F, B)).2 ≠ some n := by
          intro B b1 b2
          rw [q2]
          exact hnext B b1 b2
        have hln : last ≠ n := by
          intro hx
          subst hx
          exact hn b (le_refl _) (by rw [List.length_cons]; omega) h2
        split at h
        · rw [ih (b + 1) _ res t s' hcons' hnext' h, List.count_append, List.count_cons,
            List.count_nil]
          have hne : (last == n) = false := by
            rw [beq_eq_false_iff_ne]
            exact hln
          rw [hne]
          simp
        · exact ih (b + 1) _ res t s' hcons' hnext' h

/-! ## The entry block of a function and the argument chain -/

theorem buildLLVMPSSStart_run {m : Module} {F root ret : Nat}
    {args : Option Nat × Option Nat} {last : Nat} {u : Unit}
    {s s1 s2 s3 s4 s5 : LLVMPSSBuilder}
    (h1 : mkOpNode .ENTRY [] s = .ok (root, s1)) (h2 : mkOpNode .NOOP [] s1 = .ok (ret, s2))
    (h3 : buildArguments m F s2 = .ok (args, s3))
    (h4 : setSubgraph F ⟨some root, some ret, args⟩ s3 = .ok (u, s4))
    (h5 : (match args.1 with
      | some a => do
        addSuccessor root a
        pure args.2
      | none => pure (some root) : M (Option Nat)) s4 = .ok (some last, s5)) :
    buildLLVMPSSStart m F s = .ok ((root, ret, last), s5) := by
  unfold buildLLVMPSSStart
  rw [M.bind_run h1, M.bind_run h2, M.bind_run h3, M.bind_run h4]
  exact M.bind_run h5

/-- C27: the build of a function `F`, from a state that satisfies the invariants of the
build and in which `F` has no subgraph.  After the start of the build (root, `ret`
node, argument nodes, registration) `lastNode`, which is the last argument node or, when
`F` has no argument node, the root, has no successor.  Then the entry block is lowered.
If it gives a first node `f`, the block is recorded with its own nodes and in the
finished graph `f` is the one successor of `lastNode` (and the root, when it is not
`lastNode`, has the first argument node as its one successor).  If it gives no node, the
root is recorded as the first and the last node of the entry block; in the finished
graph the last argument node, when there is one, has no successor, and the successors
of the root are the first argument node, when there is one, followed by the first nodes
of the blocks that the stitching reaches from the entry block, followed by the `ret`
node when the stitching reaches none. -/
theorem entry_block_wiring {m : Module} {fuel : Nat}
    {Pend : Nat → Option ((Nat × Nat) × (Nat × Nat))} {P : Nat → Prop} {F r : Nat}
    {s s' : LLVMPSSBuilder}
    (hwf : WF P s) (hpw : PW m Pend s) (haw : AW m s) (hrw : RW m Pend s)
    (hF : (s.subgraphs_map F).root = none)
    (h : buildLLVMPSSFunction m (fuel + 1) F s = .ok (r, s')) :
    ∃ ret last s5 nds s6,
      buildLLVMPSSStart m F s = .ok ((r, ret, last), s5) ∧
      last = (if argCount m F = 0 then r else r + 1 + argCount m F) ∧
      (s5.node last).successors = [] ∧
      (s5.node r).successors = (if argCount m F = 0 then [] else [r + 2]) ∧
      buildPSSBlock m (buildLLVMPSSFunction m fuel) F 0 s5 = .ok (nds, s6) ∧
      (∀ f, nds.1 = some f →
        s'.built_blocks (F, 0) = nds ∧ (s'.node last).successors = [f] ∧
        (s'.node r).successors = (if argCount m F = 0 then [f] else [r + 2])) ∧
      (nds.1 = none →
        s'.built_blocks (F, 0) = (some r, some r) ∧
        (0 < argCount m F → (s'.node last).successors = []) ∧
        ∃ L, (∀ x, x ∈ L ↔ ∃ S, StitchReach m s'.built_blocks F 0 S ∧
            (s'.built_blocks (F, S)).1 = some x) ∧
          (s'.node r).successors = (if argCount m F = 0 then [] else [r + 2]) ++ L ++
            (if L.isEmpty then [ret] else [])) := by
  have hb := buildLLVMPSSFunction_wf m fuel
  have hbp := buildLLVMPSSFunction_pw m fuel
  have hbe := buildLLVMPSSFunction_ek m fuel
  unfold buildLLVMPSSFunction buildLLVMPSSBody at h
  simp only [M.bind_ok] at h
  obtain ⟨root, s1, h1, ret, s2, h2, args, s3, h3, u4, s4, h4, lastNode, s5, h5, h⟩ := h
  obtain ⟨i3, ha3⟩ := buildArguments_inert h3
  obtain ⟨w4, e4, hroot4, hex4, hreg4⟩ := registerSubgraph_wf hwf hF h1 h2 i3 h4
  have k5 : Inert s4 s5 ∧ ∀ l, lastNode = some l → Exit s5 l := by
    cases ha : args.1 with
    | none =>
      simp only [ha] at h5
      obtain ⟨rfl, rfl⟩ := (M.pure_ok _ _ _ _).mp h5
      refine ⟨Inert.rfl_inert _, fun l hl => ?_⟩
      cases hl
      exact hroot4
    | some a =>
      simp only [ha, M.bind_ok, M.pure_ok] at h5
      obtain ⟨u, t1, k1, rfl, rfl⟩ := h5
      have i1 := addSuccessor_inert hroot4 k1
      exact ⟨i1, fun l hl => (hex4 l (ha3 l hl)).mono_inert i1⟩
  obtain ⟨i5, hlast5⟩ := k5
  obtain ⟨⟨p5, a5, r5, f5⟩, hrs, hroot5, hret5, l, hl, hlastN⟩ :=
    registerSubgraph_inv hwf hpw haw hrw hF h1 h2 h3 h4 h5
  obtain ⟨-, -, hsz5, -, -, hrsucc, -, -, hargs, -, -, -, -, -, hlastE⟩ :=
    registerSubgraph_shape h1 h2 h3 h4 h5
  subst hl
  subst hrs
  cases hlastE
  have w5 := w4.step_inert i5
  have hstart := buildLLVMPSSStart_run h1 h2 h3 h4 h5
  have hlsucc : (s5.node (if argCount m F = 0 then s.size
      else s.size + 1 + argCount m F)).successors = [] := by
    by_cases hz : argCount m F = 0
    · rw [if_pos hz, hrsucc, if_pos hz]
    · rw [if_neg hz]
      have := (hargs (argCount m F - 1) (by omega)).2.2
      rw [show s.size + 2 + (argCount m F - 1) = s.size + 1 + argCount m F by omega,
        if_neg (by omega)] at this
      exact this
  simp only [M.bind_ok, M.pure_ok, M.assert_ok] at h
  obtain ⟨u6, s6, h6, rets, s7, h7, u8, s8, ⟨hne, rfl⟩, u9, s9, h9, u10, s10, h10, rfl, rfl⟩ := h
  obtain ⟨⟨p6, a6, r6⟩, w6, e6, -, -, -⟩ := buildBlocksLoop_inv hb hbp (m.getFunc F).blocks
    _ 0 none u6 s5 s6 w5 p5 a5 r5 hroot5 (Function.update_same _ _ _)
    (hroot4.mono_inert i5) (hlast5 _ rfl) (by
      rcases hlastN with hlastN | ⟨g1, g2, g3⟩
      · exact Or.inl hlastN
      · exact Or.inr ⟨g1, g2, fun _ => g3⟩) h6
  rw [Function.update_idem, Nat.zero_add] at p6 r6
  obtain ⟨⟨w7, p7, a7, r7, f7⟩, i7, hex7, hrets7⟩ := stitchBlocksLoop_inv w6 p6 a6 r6 h7
  have e57 : Ext s5 s7 := e6.trans_ext i7.to_ext
  have hrn : (s5.subgraphs_map F).root ≠ none := by
    rw [hroot5]
    exact fun hc => by cases hc
  have hroot6 : (s6.subgraphs_map F).root = some s.size := by
    rw [e6.subg_eq F hrn, hroot5]
  have hroot7 : (s7.subgraphs_map F).root = some s.size := by
    rw [e57.subg_eq F hrn, hroot5]
  have hret7 : (s7.subgraphs_map F).ret = some ret := by
    rw [e57.subg_eq F hrn, hret5]
  obtain ⟨⟨w9, p9, a9, r9, f9⟩, i9⟩ := addReturnEdges_inv w7 p7 a7 r7 hroot7 hret7
    (Function.update_same _ _ _) hex7 hrets7 h9
  obtain ⟨⟨-, -, -, -, f10⟩, i10⟩ := addPHIOperandsFunction_inv w9 p9 a9 r9
    (Function.update_same _ _ _) h10
  have k10 := (addPHIOperandsFunction_succkeeps m F).keeps _ _ _ h10
  have f610 : ArgFrame m s6 s10 :=
    f7.trans_af (f9.trans_af f10 i9.size_le) i7.size_le
  have hblk : s10.built_blocks = s6.built_blocks := by
    rw [i10.blocks_eq, i9.blocks_eq, i7.blocks_eq]
  obtain ⟨rets1, t1, g1, g2, g3, g4⟩ := stitchBlocksLoop_rets (m := m) (F := F)
    (m.getFunc F).blocks 0 [] s6 (w6.blocks_cons F)
  rw [h7] at g1
  cases g1
  obtain ⟨-, q2, -⟩ := addReturnEdges_spec rets u9 s7 s9 h9
  have hcnt := addReturnEdges_count rets u9 s7 s9 h9
  have hle67 := i7.size_le
  have hle79 := i9.size_le
  have hrlt6 : s.size < s6.size := by
    have := e6.size_le
    omega
  -- the last argument node keeps the successors it has after the first loop
  have harg : 0 < argCount m F →
      (s10.node (s.size + 1 + argCount m F)).successors =
        (s6.node (s.size + 1 + argCount m F)).successors := by
    intro hpos
    exact f610.succ_eq _ (ArgNode.last_arg hroot6 hpos)
  cases hblocks : (m.getFunc F).blocks with
  | nil =>
    rw [hblocks] at h7
    unfold stitchBlocksLoop at h7
    obtain ⟨rfl, -⟩ := (M.pure_ok _ _ _ _).mp h7
    cases hne
  | cons B0 rest =>
    rw [hblocks] at h6
    obtain ⟨nds, s6a, hrun, hrl, hc1, hc2⟩ := buildBlocksLoop_entry hb hbp hbe w5 p5 a5 r5 hroot5
      (Function.update_same _ _ _) (hroot4.mono_inert i5) (hlast5 _ rfl) (by
        rcases hlastN with hlastN | ⟨g1, g2, g3⟩
        · exact Or.inl hlastN
        · exact Or.inr ⟨g1, g2, g3⟩) h6
    have hlen : (B0 :: rest).length = (m.getFunc F).blocks.length := by rw [hblocks]
    refine ⟨ret, _, s5, nds, s6a, hstart, rfl, hlsucc, hrsucc, hrun, ?_, ?_⟩
    · -- the entry block has nodes
      intro f hf
      obtain ⟨b1, b2, b3⟩ := hc1 f hf
      have hnl : ∀ B, 0 ≤ B → B < 0 + (m.getFunc F).blocks.length →
          (s6.built_blocks (F, B)).2 ≠ some s.size := by
        intro B _ hB hx
        obtain ⟨-, q⟩ := hrl B (by rw [hlen]; omega) hx
        rw [hf] at q
        cases q
      have hnr : s.size ∉ rets := by
        intro hx
        rcases (g4 s.size).mp hx with hx | ⟨B, c1, c2, -, c4, -⟩
        · cases hx
        · exact hnl B c1 c2 c4
      have hroot10 : (s10.node s.size).successors = (s6.node s.size).successors := by
        rw [k10.old_eq _ (by omega), q2 _ hnr, g3 _ hnl]
      rw [hblk]
      refine ⟨b1, ?_, ?_⟩
      · by_cases hz : argCount m F = 0
        · simp only [if_pos hz] at b2 hlsucc ⊢
          rw [hroot10, b2, hlsucc, List.nil_append]
        · simp only [if_neg hz] at b2 hlsucc ⊢
          rw [harg (by omega), b2, hlsucc, List.nil_append]
      · by_cases hz : argCount m F = 0
        · simp only [if_pos hz] at b2 hlsucc ⊢
          rw [hroot10, b2, hlsucc, List.nil_append]
        · simp only [if_neg hz] at b3 ⊢
          rw [hroot10, b3 (by omega), hrsucc, if_neg hz]
    · -- the entry block has no node
      intro hn
      obtain ⟨b1, b2, b3⟩ := hc2 hn
      rw [hblk]
      refine ⟨b1, ?_, ?_⟩
      · intro hpos
        rw [if_neg (by omega), harg hpos]
        have := b3 (by rw [if_neg (by omega)]; omega)
        rw [if_neg (by omega)] at this hlsucc
        rw [this, hlsucc]
      · rw [hblocks] at h7
        have hcons6 := w6.blocks_cons F
        unfold stitchBlocksLoop at h7
        rw [M.get_bind, M.assert_bind _ _ _ (assert_consistent (hcons6 0))] at h7
        simp only [b1, M.bind_ok] at h7
        obtain ⟨rr, t, hadd, h7⟩ := h7
        obtain ⟨num, found', t', c1, c2, c3, c4, L, c5, c6, c7⟩ :=
          blockAddSuccessors_top (m := m) (F := F) (z := s.size) (B := 0) hcons6
        rw [hadd] at c1
        cases c1
        have hcons' : ∀ b, (t.built_blocks (F, b)).1.isSome =
            (t.built_blocks (F, b)).2.isSome := by
          intro b'
          rw [c2]
          exact hcons6 b'
        have hnl : ∀ B, 1 ≤ B → B < 1 + rest.length →
            (t.built_blocks (F, B)).2 ≠ some s.size := by
          intro B hB1 hB2 hx
          rw [c2] at hx
          obtain ⟨q, -⟩ := hrl B (by rw [List.length_cons]; omega) hx
          omega
        have hrest : ∃ rets0, stitchBlocksLoop m F rest 1 rets0 t = .ok (rets, s7) ∧
            rets0.count s.size = (if num = 0 then 1 else 0) := by
          split at h7
          · rename_i hz
            refine ⟨_, h7, ?_⟩
            rw [if_pos hz]
            simp
          · rename_i hz
            refine ⟨_, h7, ?_⟩
            rw [if_neg hz]
            simp
        obtain ⟨rets0, hrest, hcnt0⟩ := hrest
        obtain ⟨rets2, t2, d1, -, d3, -⟩ := stitchBlocksLoop_rets (m := m) (F := F) rest 1 rets0 t
          hcons'
        rw [hrest] at d1
        cases d1
        have hcount := stitchBlocksLoop_count rest 1 rets0 rets t s7 hcons' hnl hrest
        refine ⟨L, ?_, ?_⟩
        · intro x
          exact c7 x
        · rw [k10.old_eq _ (by omega), hcnt, d3 _ hnl, c5, b2, hrsucc, hcount, hcnt0]
          congr 1
          by_cases hz : num = 0
          · rw [if_pos hz]
            have : L = [] := List.length_eq_zero.mp (by rw [c6]; exact hz)
            rw [this]
            rfl
          · rw [if_neg hz]
            cases L with
            | nil => exact absurd c6.symm hz
            | cons x xs => rfl

set_option maxRecDepth 100000 in
theorem exDeadArgEnd_runs :
    (M.result? (buildLLVMPSSFunction exDeadArg 1 1) LLVMPSSBuilder.init).isSome = true := by
  decide!

set_option maxRecDepth 100000 in
/-- The build of `f` in `exDeadArg`: the root is node 2, the `ret` node 3, the argument
node 4, and the `RETURN` of block `exit` node 5.  The entry block gives no node and is
recorded with the root as its first and last node; the root has the argument node and
the stitched successor 5 as its successors, and the argument node has no successor. -/
theorem exDeadArgEnd_eval :
    exDeadArgEnd.1 = 2 ∧ argCount exDeadArg 1 = 1 ∧
    (M.result? (buildLLVMPSSStart exDeadArg 1) LLVMPSSBuilder.init).map (fun x => x.1) =
      some (2, 3, 4) ∧
    exDeadArgEnd.2.built_blocks (1, 0) = (some 2, some 2) ∧
    exDeadArgEnd.2.built_blocks (1, 1) = (some 5, some 5) ∧
    (exDeadArgEnd.2.node 2).successors = [4, 5] ∧
    (exDeadArgEnd.2.node 4).kind = .PHI ∧
    (exDeadArgEnd.2.node 4).successors = [] ∧
    (exDeadArgEnd.2.node 5).successors = [3] := by
  refine ⟨by decide!, by decide!, by decide!, by decide!, by decide!, by decide!, by decide!,
    by decide!, by decide!⟩

/-- C27 at the function `f` of the module `exDeadArg`, built from the initial state. -/
theorem entry_block_wiring_witness :
    ∃ ret last s5 nds s6,
      buildLLVMPSSStart exDeadArg 1 LLVMPSSBuilder.init = .ok ((exDeadArgEnd.1, ret, last), s5) ∧
      last = (if argCount exDeadArg 1 = 0 then exDeadArgEnd.1
        else exDeadArgEnd.1 + 1 + argCount exDeadArg 1) ∧
      (s5.node last).successors = [] ∧
      (s5.node exDeadArgEnd.1).successors =
        (if argCount exDeadArg 1 = 0 then [] else [exDeadArgEnd.1 + 2]) ∧
      buildPSSBlock exDeadArg (buildLLVMPSSFunction exDeadArg 0) 1 0 s5 = .ok (nds, s6) ∧
      (∀ f, nds.1 = some f →
        exDeadArgEnd.2.built_blocks (1, 0) = nds ∧ (exDeadArgEnd.2.node last).successors = [f] ∧
        (exDeadArgEnd.2.node exDeadArgEnd.1).successors =
          (if argCount exDeadArg 1 = 0 then [f] else [exDeadArgEnd.1 + 2])) ∧
      (nds.1 = none →
        exDeadArgEnd.2.built_blocks (1, 0) = (some exDeadArgEnd.1, some exDeadArgEnd.1) ∧
        (0 < argCount exDeadArg 1 → (exDeadArgEnd.2.node last).successors = []) ∧
        ∃ L, (∀ x, x ∈ L ↔ ∃ S, StitchReach exDeadArg exDeadArgEnd.2.built_blocks 1 0 S ∧
            (exDeadArgEnd.2.built_blocks (1, S)).1 = some x) ∧
          (exDeadArgEnd.2.node exDeadArgEnd.1).successors =
            (if argCount exDeadArg 1 = 0 then [] else [exDeadArgEnd.1 + 2]) ++ L ++
              (if L.isEmpty then [ret] else [])) :=
  entry_block_wiring
    (buildGlobals_inv (show buildGlobals exDeadArg LLVMPSSBuilder.init =
      .ok ((none, none), LLVMPSSBuilder.init) from rfl)).1
    (buildGlobals_inv (show buildGlobals exDeadArg LLVMPSSBuilder.init =
      .ok ((none, none), LLVMPSSBuilder.init) from rfl)).2.1
    (buildGlobals_inv (show buildGlobals exDeadArg LLVMPSSBuilder.init =
      .ok ((none, none), LLVMPSSBuilder.init) from rfl)).2.2.1
    (buildGlobals_inv (show buildGlobals exDeadArg LLVMPSSBuilder.init =
      .ok ((none, none), LLVMPSSBuilder.init) from rfl)).2.2.2.1
    rfl (M.result_eq exDeadArgEnd_runs _)

/-! ## The wiring of the direct calls: the call instructions and their callees -/

/-- What `directCallee` says of a call instruction. -/
theorem directCallee_of_call {m : Module} {F b i : Nat} {ty : Ty} {cv : Value}
    {args : List Value} (hI : m.getInst F b i = some (.call ty cv args)) (f : Nat) :
    directCallee m F b i = some f ↔
      ((stripPointerCasts m cv).asFunction = some f ∧
        getMemAllocationFunc (some (m.getFunc f)) = .ok .NONEMEM ∧
        (m.getFunc f).intrinsicID.isSome = false ∧ (m.getFunc f).blocks.length ≠ 0) := by
  unfold directCallee
  rw [hI]
  simp only
  cases hg : (stripPointerCasts m cv).asFunction with
  | none => simp
  | some g =>
    simp only [Option.some.injEq]
    cases hmem : getMemAllocationFunc (some (m.getFunc g)) with
    | error e =>
      simp only
      constructor
      · intro hc
        cases hc
      · rintro ⟨rfl, hc, -⟩
        rw [hmem] at hc
        cases hc
    | ok type =>
      cases type with
      | NONEMEM =>
        simp only
        by_cases hint : (m.getFunc g).intrinsicID.isSome = true
        · rw [if_pos hint]
          constructor
          · intro hc
            cases hc
          · rintro ⟨rfl, -, hc, -⟩
            rw [hint] at hc
            cases hc
        · rw [if_neg hint]
          by_cases hlen : (m.getFunc g).blocks.length = 0
          · rw [if_pos hlen]
            constructor
            · intro hc
              cases hc
            · rintro ⟨rfl, -, -, hc⟩
              exact absurd hlen hc
          · rw [if_neg hlen]
            constructor
            · intro hc
              cases hc
              exact ⟨rfl, hmem, by simpa using hint, hlen⟩
            · rintro ⟨rfl, -⟩
              rfl
      | MALLOC =>
        simp only
        constructor
        · intro hc
          cases hc
        · rintro ⟨rfl, hc, -⟩
          rw [hmem] at hc
          cases hc
      | CALLOC =>
        simp only
        constructor
        · intro hc
          cases hc
        · rintro ⟨rfl, hc, -⟩
          rw [hmem] at hc
          cases hc
      | ALLOCA =>
        simp only
        constructor
        · intro hc
          cases hc
        · rintro ⟨rfl, hc, -⟩
          rw [hmem] at hc
          cases hc

/-- An instruction with a direct callee is a call instruction. -/
theorem directCallee_call {m : Module} {F b i f : Nat} (h : directCallee m F b i = some f) :
    ∃ ty cv args, m.getInst F b i = some (.call ty cv args) := by
  unfold directCallee at h
  split at h
  · rename_i ty cv args hI
    exact ⟨ty, cv, args, hI⟩
  · cases h

/-- An instruction that is no call has no direct callee. -/
theorem directCallee_none {m : Module} {F b i : Nat} {I : Inst}
    (hI : m.getInst F b i = some I) (hn : ∀ ty cv args, I ≠ .call ty cv args) :
    directCallee m F b i = none := by
  cases hd : directCallee m F b i with
  | none => rfl
  | some f =>
    obtain ⟨ty, cv, args, hx⟩ := directCallee_call hd
    rw [hI] at hx
    cases hx
    exact absurd rfl (hn ty cv args)

/-- The block of an instruction with a direct callee is a block of the function. -/
theorem directCallee_block_lt {m : Module} {F b i f : Nat}
    (h : directCallee m F b i = some f) : b < (m.getFunc F).blocks.length := by
  obtain ⟨ty, cv, args, hI⟩ := directCallee_call h
  exact getInst_block_lt hI

theorem directCallee_inst_lt {m : Module} {F b i f : Nat}
    (h : directCallee m F b i = some f) : i < (m.getBlock F b).insts.length := by
  obtain ⟨ty, cv, args, hI⟩ := directCallee_call h
  unfold Module.getInst at hI
  rw [List.get?_eq_some] at hI
  exact hI.1

/-- A constant that is a function is left as it is by `stripPointerCasts`. -/
theorem stripPointerCasts_of_function {m : Module} {cv : Value} {g : Nat}
    (h : cv.asFunction = some g) : stripPointerCasts m cv = cv := by
  unfold Value.asFunction at h
  split at h
  · unfold stripPointerCasts stripPointerCastsAux
    rfl
  · cases h

/-- A direct call of a function with a body is a relevant call: `buildPSSBlock` lowers
it. -/
theorem directCallee_relevant {m : Module} {F b i f : Nat} {ty : Ty} {cv : Value}
    {args : List Value} (hI : m.getInst F b i = some (.call ty cv args))
    (h : directCallee m F b i = some f) : isRelevantCall m ty cv = .ok true := by
  obtain ⟨hf, -, hint, hlen⟩ := (directCallee_of_call hI f).mp h
  have hdbg : isDbgValueInst m cv = false := by
    unfold isDbgValueInst
    cases hg : cv.asFunction with
    | none => rfl
    | some g =>
      simp only
      rw [stripPointerCasts_of_function hg, hg] at hf
      cases hf
      cases hx : (m.getFunc f).intrinsicID with
      | none => simp
      | some id =>
        rw [hx] at hint
        cases hint
  unfold isRelevantCall
  rw [hdbg]
  simp only [hf, Bool.false_eq_true, if_false]
  rw [if_neg hlen]
  rfl

/-! ## Steps that keep the wiring of the direct calls -/

/-- The wiring of the direct calls does not look at the record of the blocks. -/
theorem CW.congr_cw {m : Module} {Pend : Nat → Option ((Nat × Nat) × (Nat × Nat))}
    {s s' : LLVMPSSBuilder} (hcw : CW m Pend s) (hsz : s'.size = s.size)
    (hnode : s'.node = s.node) (hmap : s'.nodes_map = s.nodes_map)
    (hsub : s'.subgraphs_map = s.subgraphs_map) : CW m Pend s' := by
  refine ⟨?_, ?_, ?_, ?_⟩
  · intro F b i f hr hd hp
    rw [hsub] at hr
    rw [hmap]
    exact hcw.calls F b i f hr hd hp
  · intro F b i f c hd hc
    rw [hmap] at hc
    rw [hsz, hnode, hsub]
    exact hcw.wired F b i f c hd hc
  · intro c hc hk hp hs
    rw [hsz] at hc
    rw [hnode] at hk hp hs
    rw [hmap]
    exact hcw.nodes c hc hk hp hs
  · intro F1 b1 i1 f1 F2 b2 i2 f2 c h1 h2 h3 h4
    rw [hmap] at h3 h4
    exact hcw.inj F1 b1 i1 f1 F2 b2 i2 f2 c h1 h2 h3 h4

/-- A step of the build, on the wiring of the direct calls.  The step keeps kind and
pairing of the nodes, the subgraphs that are registered, the entries of `nodes_map` for
the instructions, and the successors of the call nodes that are wired; it may register
the node of the call instruction `I`, wired to the root of the callee, and every call
node that is wired after the step was so before or has been registered. -/
theorem CW.step_cw {m : Module} {Pend Pend' : Nat → Option ((Nat × Nat) × (Nat × Nat))}
    {s s' : LLVMPSSBuilder} (I : Value) (hcw : CW m Pend s) (hsz : s.size ≤ s'.size)
    (hkind : ∀ n, n < s.size → (s'.node n).kind = (s.node n).kind)
    (hpair : ∀ n, n < s.size → (s'.node n).pairedNode = (s.node n).pairedNode)
    (hsubg : ∀ G, (s.subgraphs_map G).root ≠ none → s'.subgraphs_map G = s.subgraphs_map G)
    (hmono : ∀ G b i c, s.nodes_map (.inst G b i) = some c →
      s'.nodes_map (.inst G b i) = some c)
    (hsucc : ∀ n, n < s.size → (s.node n).kind = .CALL → (s.node n).pairedNode ≠ some n →
      (s.node n).successors ≠ [] → (s'.node n).successors = (s.node n).successors)
    (hnew : ∀ G b i f c, directCallee m G b i = some f →
      s'.nodes_map (.inst G b i) = some c →
      s.nodes_map (.inst G b i) = some c ∨
        (.inst G b i = I ∧ (s.size ≤ c ∨ (s.node c).successors = []) ∧ c < s'.size ∧
          (s'.node c).kind = .CALL ∧ (s'.node c).pairedNode ≠ some c ∧
          ∃ r, (s'.subgraphs_map f).root = some r ∧ (s'.node c).successors = [r]))
    (hlive : ∀ n, n < s'.size → (s'.node n).kind = .CALL →
      (s'.node n).pairedNode ≠ some n → (s'.node n).successors ≠ [] →
      (n < s.size ∧ (s.node n).successors ≠ []) ∨
        ∃ G b i f, directCallee m G b i = some f ∧ s'.nodes_map (.inst G b i) = some n)
    (hcalls : ∀ G b i f, (s'.subgraphs_map G).root ≠ none → directCallee m G b i = some f →
      (∀ p q, Pend' G = some (p, q) → posLt (b, i) p) →
      ((s.subgraphs_map G).root ≠ none ∧ ∀ p q, Pend G = some (p, q) → posLt (b, i) p) ∨
        ∃ c, s'.nodes_map (.inst G b i) = some c) :
    CW m Pend' s' := by
  have hold : ∀ G b i f c, directCallee m G b i = some f →
      s.nodes_map (.inst G b i) = some c →
      c < s.size ∧ (s'.node c).kind = .CALL ∧ (s'.node c).pairedNode ≠ some c ∧
        ∃ r, (s'.subgraphs_map f).root = some r ∧ (s'.node c).successors = [r] := by
    intro G b i f c hd hc
    obtain ⟨g1, g2, g3, r, g4, g5⟩ := hcw.wired G b i f c hd hc
    refine ⟨g1, by rw [hkind c g1]; exact g2, by rw [hpair c g1]; exact g3, r, ?_, ?_⟩
    · rw [hsubg f (by rw [g4]; exact fun hx => by cases hx)]
      exact g4
    · rw [hsucc c g1 g2 g3 (by rw [g5]; exact fun hx => by cases hx)]
      exact g5
  refine ⟨?_, ?_, ?_, ?_⟩
  · intro G b i f hr hd hp
    rcases hcalls G b i f hr hd hp with ⟨g1, g2⟩ | g
    · obtain ⟨c, hc⟩ := hcw.calls G b i f g1 hd g2
      exact ⟨c, hmono G b i c hc⟩
    · exact g
  · intro G b i f c hd hc
    rcases hnew G b i f c hd hc with g | ⟨-, -, g2, g3, g4, g5⟩
    · obtain ⟨g1, g2, g3, g4⟩ := hold G b i f c hd g
      exact ⟨lt_of_lt_of_le g1 hsz, g2, g3, g4⟩
    · exact ⟨g2, g3, g4, g5⟩
  · intro n hn hk hp hs
    rcases hlive n hn hk hp hs with ⟨g1, g2⟩ | g
    · obtain ⟨G, b, i, f, hd, hc⟩ := hcw.nodes n g1 (by rw [← hkind n g1]; exact hk)
        (by rw [← hpair n g1]; exact hp) g2
      exact ⟨G, b, i, f, hd, hmono G b i n hc⟩
    · exact g
  · intro F1 b1 i1 f1 F2 b2 i2 f2 c h1 h2 h3 h4
    rcases hnew F1 b1 i1 f1 c h1 h3 with g | ⟨e1, x1, -⟩
    · rcases hnew F2 b2 i2 f2 c h2 h4 with k | ⟨e2, x2, -⟩
      · exact hcw.inj F1 b1 i1 f1 F2 b2 i2 f2 c h1 h2 g k
      · obtain ⟨y1, -, -, r, -, y2⟩ := hcw.wired F1 b1 i1 f1 c h1 g
        rcases x2 with x2 | x2
        · omega
        · rw [x2] at y2
          cases y2
    · rcases hnew F2 b2 i2 f2 c h2 h4 with k | ⟨e2, x2, -⟩
      · obtain ⟨y1, -, -, r, -, y2⟩ := hcw.wired F2 b2 i2 f2 c h2 k
        rcases x1 with x1 | x1
        · omega
        · rw [x1] at y2
          cases y2
      · rw [← e2] at e1
        cases e1
        exact ⟨rfl, rfl, rfl⟩

/-- A `CALL` node that is not paired with itself receives no successor from a step that
builds no call structure. -/
theorem Inert.call_succ_keep {s s' : LLVMPSSBuilder} (hi : Inert s s') {n : Nat}
    (hn : n < s.size) (hk : (s.node n).kind = .CALL) (hp : (s.node n).pairedNode ≠ some n) :
    (s'.node n).successors = (s.node n).successors :=
  hi.succ_eq n hn (fun hx => hp (hx.2.2.2 hk))

/-- A `CALL` node not paired with itself that is there after a step that builds no call
structure was there before, with the same successors. -/
theorem Inert.call_live {s s' : LLVMPSSBuilder} (hi : Inert s s') {n : Nat}
    (hn : n < s'.size) (hk : (s'.node n).kind = .CALL)
    (hp : (s'.node n).pairedNode ≠ some n) :
    n < s.size ∧ (s.node n).kind = .CALL ∧ (s.node n).pairedNode ≠ some n ∧
      (s'.node n).successors = (s.node n).successors := by
  by_cases hlt : n < s.size
  · rw [hi.kind_eq n hlt] at hk
    rw [hi.paired_eq n hlt] at hp
    exact ⟨hlt, hk, hp, hi.call_succ_keep hlt hk hp⟩
  · rcases hi.fresh n (not_lt.mp hlt) hn with ⟨g1, -⟩ | ⟨-, g2⟩
    · rw [hk] at g1
      cases g1
    · exact absurd g2 hp

/-- A step that builds no call structure and leaves the entries of `nodes_map` for the
instructions as they are keeps the wiring of the direct calls. -/
theorem CW.keep_inert {m : Module} {Pend : Nat → Option ((Nat × Nat) × (Nat × Nat))}
    {s s' : LLVMPSSBuilder} (hcw : CW m Pend s) (hi : Inert s s')
    (hmap : ∀ v : Value, v.isConstant = false → s'.nodes_map v = s.nodes_map v) :
    CW m Pend s' := by
  refine hcw.step_cw (.const (.nullPtr 0)) hi.size_le hi.kind_eq hi.paired_eq
    (fun G _ => by rw [hi.subg_eq]) ?_ ?_ ?_ ?_ ?_
  · intro G b i c hc
    rw [hmap (.inst G b i) rfl]
    exact hc
  · intro n hn hk hp _
    exact hi.call_succ_keep hn hk hp
  · intro G b i f c _ hc
    rw [hmap (.inst G b i) rfl] at hc
    exact Or.inl hc
  · intro n hn hk hp hs
    obtain ⟨g1, -, -, g4⟩ := hi.call_live hn hk hp
    rw [g4] at hs
    exact Or.inl ⟨g1, hs⟩
  · intro G b i f hr _ hp
    rw [hi.subg_eq] at hr
    exact Or.inl ⟨hr, hp⟩

/-- Renaming the positions the functions in progress have got to, when every direct
call before the new position is before the old one or has its node. -/
theorem CW.repend_cw {m : Module} {Pend Pend' : Nat → Option ((Nat × Nat) × (Nat × Nat))}
    {s : LLVMPSSBuilder} (hcw : CW m Pend s)
    (h : ∀ G b i f, (s.subgraphs_map G).root ≠ none → directCallee m G b i = some f →
      (∀ p q, Pend' G = some (p, q) → posLt (b, i) p) →
      (∀ p q, Pend G = some (p, q) → posLt (b, i) p) ∨
        ∃ c, s.nodes_map (.inst G b i) = some c) :
    CW m Pend' s := by
  refine ⟨?_, hcw.wired, hcw.nodes, hcw.inj⟩
  intro G b i f hr hd hp
  rcases h G b i f hr hd hp with g | g
  · exact hcw.calls G b i f hr hd g
  · exact g

/-- Moving on by one instruction that is no direct call of a defined function. -/
theorem CW.skip_cw {m : Module} {Pend : Nat → Option ((Nat × Nat) × (Nat × Nat))}
    {F b i : Nat} {q : Nat × Nat} {s : LLVMPSSBuilder} (hcw : CW m Pend s)
    (hp : Pend F = some ((b, i), q)) (hd : directCallee m F b i = none) :
    CW m (Function.update Pend F (some ((b, i + 1), q))) s := by
  refine hcw.repend_cw ?_
  intro G b' i' f _ hd' hpos
  refine Or.inl ?_
  intro p0 q0 h0
  by_cases hG : G = F
  · subst hG
    rw [hp] at h0
    cases h0
    have := hpos _ _ (Function.update_same _ _ _)
    rcases (posLt_succ b i b' i').mp this with g | ⟨rfl, rfl⟩
    · exact g
    · rw [hd] at hd'
      cases hd'
  · exact hpos p0 q0 (by rw [Function.update_noteq hG]; exact h0)

/-- Lowering the instruction at the position a function in progress has got to, when
it is no direct call of a defined function, by a step that makes no `CALL` node other
than one paired with itself and gives the call nodes there are no successor. -/
theorem CW.lower_cw {m : Module} {Pend : Nat → Option ((Nat × Nat) × (Nat × Nat))}
    {T : Nat → Prop} {F b i : Nat} {q : Nat × Nat} {s s' : LLVMPSSBuilder}
    (hcw : CW m Pend s) (hpw : PW m Pend s) (hp : Pend F = some ((b, i), q))
    (hsz : s.size ≤ s'.size)
    (hkind : ∀ n, n < s.size → (s'.node n).kind = (s.node n).kind)
    (hpair : ∀ n, n < s.size → (s'.node n).pairedNode = (s.node n).pairedNode)
    (hsub : s'.subgraphs_map = s.subgraphs_map)
    (hcs : ∀ n, n < s.size → (s.node n).kind = .CALL → (s.node n).pairedNode ≠ some n →
      (s'.node n).successors = (s.node n).successors)
    (hfresh : ∀ n, s.size ≤ n → n < s'.size → (s'.node n).kind = .CALL →
      (s'.node n).pairedNode = some n)
    (hq : Quiet T (.inst F b i) s s') (hd : directCallee m F b i = none) :
    CW m (Function.update Pend F (some ((b, i + 1), q))) s' := by
  have hnoneI : s.nodes_map (.inst F b i) = none :=
    (hpw.pending F _ _ hp).2 b i (posLt_irrefl _)
  have hmap : ∀ G b' i', Value.inst G b' i' ≠ .inst F b i →
      s'.nodes_map (.inst G b' i') = s.nodes_map (.inst G b' i') :=
    fun G b' i' hx => hq.map_eq _ hx rfl
  refine (hcw.skip_cw hp hd).step_cw (.const (.nullPtr 0)) hsz hkind hpair
    (fun G _ => by rw [hsub]) ?_ ?_ ?_ ?_ ?_
  · intro G b' i' c hc
    by_cases hx : Value.inst G b' i' = .inst F b i
    · rw [hx, hnoneI] at hc
      cases hc
    · rw [hmap G b' i' hx]
      exact hc
  · intro n hn hk hp' _
    exact hcs n hn hk hp'
  · intro G b' i' f c hd' hc
    have hx : Value.inst G b' i' ≠ .inst F b i := by
      intro hx
      cases hx
      rw [hd] at hd'
      cases hd'
    rw [hmap _ _ _ hx] at hc
    exact Or.inl hc
  · intro n hn hk hp' hs
    by_cases hlt : n < s.size
    · rw [hkind n hlt] at hk
      rw [hpair n hlt] at hp'
      rw [hcs n hlt hk hp'] at hs
      exact Or.inl ⟨hlt, hs⟩
    · exact absurd (hfresh n (not_lt.mp hlt) hn hk) hp'
  · intro G b' i' f hr _ hpos
    rw [hsub] at hr
    exact Or.inl ⟨hr, hpos⟩

/-- Lowering an instruction that is no direct call of a defined function by a step that
builds no call structure. -/
theorem CW.lower_inert {m : Module} {Pend : Nat → Option ((Nat × Nat) × (Nat × Nat))}
    {T : Nat → Prop} {F b i : Nat} {q : Nat × Nat} {s s' : LLVMPSSBuilder}
    (hcw : CW m Pend s) (hpw : PW m Pend s) (hp : Pend F = some ((b, i), q))
    (hi : Inert s s') (hq : Quiet T (.inst F b i) s s')
    (hd : directCallee m F b i = none) :
    CW m (Function.update Pend F (some ((b, i + 1), q))) s' := by
  refine hcw.lower_cw hpw hp hi.size_le hi.kind_eq hi.paired_eq hi.subg_eq
    (fun n hn hk hp' => hi.call_succ_keep hn hk hp') ?_ hq hd
  intro n h1 h2 hk
  rcases hi.fresh n h1 h2 with ⟨g1, -⟩ | ⟨-, g2⟩
  · rw [hk] at g1
    cases g1
  · exact g2

/-! ## Steps that leave the entries of `nodes_map` for the instructions as they are -/

@[simp] theorem addOperand_gframes (n op : Nat) : GFrames (addOperand n op) := by
  refine ⟨fun s a s' h => ?_⟩
  unfold addOperand at h
  rw [M.modify_ok] at h
  subst h
  exact ⟨fun _ _ => rfl, fun _ => rfl⟩

@[simp] theorem getNodeData_gframes (n : Nat) : GFrames (getNodeData n) :=
  GFrames.of_quiets (by simp)

@[simp] theorem getArgOperand_gframes (args : List Value) (idx : Nat) :
    GFrames (getArgOperand args idx) :=
  GFrames.of_quiets (by simp)

@[simp] theorem addOperands_gframes (n : Nat) (l : List Nat) : GFrames (addOperands n l) := by
  induction l with
  | nil =>
    unfold addOperands
    simp
  | cons r rest ih =>
    unfold addOperands
    exact GFrames.bind_gframes (by simp) (fun _ => ih)

@[simp] theorem createCallToFunctionArgs_gframes (m : Module) (args : List Value)
    (params : List Ty) : ∀ (idx : Nat) (arg : Option Nat),
    GFrames (createCallToFunctionArgs m args params idx arg) := by
  induction params with
  | nil =>
    intro idx arg
    unfold createCallToFunctionArgs
    simp
  | cons A rest ih =>
    intro idx arg
    unfold createCallToFunctionArgs
    split
    · cases arg with
      | none => simp
      | some a =>
        simp only
        refine GFrames.bind_gframes (by simp) (fun v => ?_)
        refine GFrames.bind_gframes (by simp) (fun op => ?_)
        refine GFrames.bind_gframes (by simp) (fun _ => ?_)
        refine GFrames.bind_gframes (by simp) (fun x => ?_)
        refine GFrames.bind_gframes (by simp) (fun _ => ?_)
        exact ih _ _
    · exact ih _ _

@[simp] theorem createCallToFunctionVarArgs_gframes (m : Module) (arg : Nat)
    (l : List Value) : GFrames (createCallToFunctionVarArgs m arg l) := by
  induction l with
  | nil =>
    unfold createCallToFunctionVarArgs
    simp
  | cons v rest ih =>
    unfold createCallToFunctionVarArgs
    refine GFrames.bind_gframes ?_ (fun _ => ih)
    split
    · exact GFrames.bind_gframes (by simp) (fun _ => by simp)
    · simp

@[simp] theorem addPHIOperands_gframes (m : Module) (node : Nat) (l : List Value) :
    GFrames (addPHIOperands m node l) := by
  induction l with
  | nil =>
    unfold addPHIOperands
    simp
  | cons v rest ih =>
    unfold addPHIOperands
    refine GFrames.bind_gframes (by simp) (fun op => ?_)
    exact GFrames.bind_gframes (by simp) (fun _ => ih)

@[simp] theorem addPHIOperandsBlock_gframes (m : Module) (F b : Nat) (l : List Inst) :
    ∀ i, GFrames (addPHIOperandsBlock m F b l i) := by
  induction l with
  | nil =>
    intro i
    unfold addPHIOperandsBlock
    simp
  | cons I rest ih =>
    intro i
    unfold addPHIOperandsBlock
    refine GFrames.bind_gframes ?_ (fun _ => ih _)
    split
    · split
      · refine GFrames.bind_gframes (by simp) (fun _ => ?_)
        refine GFrames.bind_gframes (by simp) (fun known => ?_)
        cases known <;> simp
      · simp
    · simp

@[simp] theorem addPHIOperandsBlocks_gframes (m : Module) (F : Nat) (l : List BasicBlock) :
    ∀ b, GFrames (addPHIOperandsBlocks m F l b) := by
  induction l with
  | nil =>
    intro b
    unfold addPHIOperandsBlocks
    simp
  | cons B rest ih =>
    intro b
    unfold addPHIOperandsBlocks
    exact GFrames.bind_gframes (by simp) (fun _ => ih _)

@[simp] theorem addPHIOperandsFunction_gframes (m : Module) (F : Nat) :
    GFrames (addPHIOperandsFunction m F) := by
  unfold addPHIOperandsFunction
  simp

@[simp] theorem stitchBlocksLoop_gframes (m : Module) (F : Nat) (l : List BasicBlock)
    (b : Nat) (rets : List Nat) : GFrames (stitchBlocksLoop m F l b rets) :=
  GFrames.of_quiets (by simp)

@[simp] theorem addReturnEdges_gframes (ret : Nat) (rets : List Nat) :
    GFrames (addReturnEdges ret rets) :=
  GFrames.of_quiets (by simp)

@[simp] theorem buildPSSBlockLink_gframes (retFirst prev node : Option Nat) :
    GFrames (buildPSSBlockLink retFirst prev node) :=
  GFrames.of_quiets (by simp)

/-! ## The wiring of the direct calls: lowering a call -/

/-- The set-up of a direct call, on the wiring of the direct calls.  In the state `s5`
before the two call edges are added the wiring holds, the instruction is not lowered
yet and the call node has no successor; the two edges change the successors of the call
node and of the callee's `ret` node only. -/
theorem callSetup_cw {m : Module} {build : Nat → M Nat} (hb : BuildOK build)
    (hbp : BuildPW m build) (hbc : BuildCW m build)
    {Pend : Nat → Option ((Nat × Nat) × (Nat × Nat))}
    {P : Nat → Prop} {f c q : Nat} {subg : Subgraph} {s s0 : LLVMPSSBuilder}
    (hwf : WF P s) (hpw : PW m Pend s) (haw : AW m s) (hrw : RW m Pend s)
    (hcw : CW m Pend s) (h : callSetup build f s = .ok ((c, q, subg), s0)) :
    ∃ s5 r, CW m Pend s5 ∧ PW m Pend s5 ∧ s0.size = s5.size ∧ c < s5.size ∧
      (s5.node c).kind = .CALL ∧ (s5.node c).pairedNode = some q ∧ q ≠ c ∧
      (s5.node c).successors = [] ∧ (s5.subgraphs_map f).root = some r ∧
      s0.nodes_map = s5.nodes_map ∧ s0.subgraphs_map = s5.subgraphs_map ∧
      (∀ n, (s0.node n).kind = (s5.node n).kind) ∧
      (∀ n, (s0.node n).pairedNode = (s5.node n).pairedNode) ∧
      (s0.node c).successors = [r] ∧
      (∀ n, (s5.node n).kind = .CALL → n ≠ c →
        (s0.node n).successors = (s5.node n).successors) := by
  unfold callSetup at h
  simp only [M.bind_ok, M.get_ok] at h
  obtain ⟨q, s1, h1, c, s2, h2, u3, s3, h3, u4, s4, h4, s0', t0, ⟨rfl, rfl⟩, subg', s5, hsubg,
    h⟩ := h
  obtain ⟨hwf4, hext4, hq, hcv, hsz4, hck4, hcp4, hcs4, hqk4, hqp4⟩ := callPair_wf hwf h1 h2 h3 h4
  obtain ⟨hg4, hk4, hq4, -, -⟩ := callPair_frames h1 h2 h3 h4
  obtain ⟨pw4, aw4, rw4, af4⟩ := grow_step hwf hpw haw hrw hg4 hk4
    (hq4 (fun _ => False) _) (fun _ hn => hn.elim)
  have hclt4 : c < s4.size := by omega
  have hqlt4 : q < s4.size := by omega
  have hqc : q ≠ c := by omega
  -- the wiring after the two nodes are made
  have hmap4 : ∀ G b i, s4.nodes_map (.inst G b i) = s.nodes_map (.inst G b i) :=
    fun G b i => (hq4 (fun _ => False) (.const (.nullPtr 0))).map_eq _
      (fun hx => by cases hx) rfl
  have cw4 : CW m Pend s4 := by
    refine hcw.step_cw (.const (.nullPtr 0)) hext4.size_le hext4.kind_eq hext4.paired_eq
      (fun G _ => by rw [hg4.subg_eq]) ?_ ?_ ?_ ?_ ?_
    · intro G b i x hx
      rw [hmap4]
      exact hx
    · intro n hn hk hp _
      exact hext4.call_succ_eq n hn (Or.inr ⟨hk, hp⟩)
    · intro G b i g x _ hx
      rw [hmap4] at hx
      exact Or.inl hx
    · intro n hn hk hp hs
      by_cases hlt : n < s.size
      · rw [hext4.kind_eq n hlt] at hk
        rw [hext4.paired_eq n hlt] at hp
        rw [hext4.call_succ_eq n hlt (Or.inr ⟨hk, hp⟩)] at hs
        exact Or.inl ⟨hlt, hs⟩
      · have hn' : n = q ∨ n = c := by omega
        rcases hn' with rfl | rfl
        · rw [hqk4] at hk
          cases hk
        · exact absurd hcs4 hs
    · intro G b i g hr _ hp
      rw [hg4.subg_eq] at hr
      exact Or.inl ⟨hr, hp⟩
  -- the callee's subgraph, built now if it was not there
  have h5 : WF (fun n => P n ∨ n = c) s5 ∧ PW m Pend s5 ∧ CW m Pend s5 ∧ Ext s4 s5 ∧
      subg' = s5.subgraphs_map f := by
    split at hsubg
    · simp only [M.bind_ok, M.get_ok, M.pure_ok] at hsubg
      obtain ⟨r0, t1, hbuild, t2, t3, ⟨rfl, rfl⟩, rfl, rfl⟩ := hsubg
      have hnone : (s4.subgraphs_map f).root = none := by
        cases hx : (s4.subgraphs_map f).root with
        | none => rfl
        | some v =>
          rename_i hcond
          rw [hx] at hcond
          simp at hcond
      obtain ⟨g1, g2⟩ := hb _ f r0 s4 _ hwf4 hnone hbuild
      obtain ⟨g3, -, -, -⟩ := hbp Pend _ f r0 s4 _ hwf4 pw4 aw4 rw4 hnone hbuild
      exact ⟨g1, g3, hbc Pend _ f r0 s4 _ hwf4 pw4 aw4 rw4 cw4 hnone hbuild, g2, rfl⟩
    · obtain ⟨rfl, rfl⟩ := (M.pure_ok _ _ _ _).mp hsubg
      exact ⟨hwf4, pw4, cw4, Ext.rfl_ext _, rfl⟩
  obtain ⟨hwf5, pw5, cw5, hext5, rfl⟩ := h5
  have hck5 : (s5.node c).kind = .CALL := by rw [hext5.kind_eq c hclt4]; exact hck4
  have hcp5 : (s5.node c).pairedNode = some q := by rw [hext5.paired_eq c hclt4]; exact hcp4
  have hcs5 : (s5.node c).successors = [] := by
    rw [hext5.call_succ_eq c hclt4 (Or.inr ⟨hck4, by rw [hcp4]; intro hx; cases hx; exact hqc rfl⟩)]
    exact hcs4
  have hclt5 : c < s5.size := lt_of_lt_of_le hclt4 hext5.size_le
  cases hroot : (s5.subgraphs_map f).root with
  | none =>
    simp only [hroot] at h
    exact ((M.fail_ok _ _ _ _).mp h).elim
  | some root =>
  cases hret : (s5.subgraphs_map f).ret with
  | none =>
    simp only [hroot, hret] at h
    exact ((M.fail_ok _ _ _ _).mp h).elim
  | some ret =>
    simp only [hroot, hret, M.bind_ok, M.pure_ok] at h
    obtain ⟨u6, s6, h6, u7, s7, h7, hres, rfl⟩ := h
    simp only [Prod.mk.injEq] at hres
    obtain ⟨rfl, rfl, rfl⟩ := hres
    obtain ⟨hrlt, hrk, t', ht', htlt, htk⟩ := hwf5.subg_ok f root hroot
    rw [hret] at ht'
    cases ht'
    have hct : c ≠ ret := by
      intro hx
      rw [hx, htk] at hck5
      cases hck5
    rw [addSuccessor_ok] at h6
    subst h6
    rw [addSuccessor_ok] at h7
    subst h7
    refine ⟨s5, root, cw5, pw5, rfl, hclt5, hck5, hcp5, hqc, hcs5, hroot, rfl, rfl, ?_, ?_, ?_,
      ?_⟩
    · intro i
      simp only [LLVMPSSBuilder.update_node]
      split
      · split
        · subst_vars
          rfl
        · subst_vars
          rfl
      · split
        · subst_vars
          rfl
        · rfl
    · intro i
      simp only [LLVMPSSBuilder.update_node]
      split
      · split
        · subst_vars
          rfl
        · subst_vars
          rfl
      · split
        · subst_vars
          rfl
        · rfl
    · simp [hct, hcs5]
    · intro n hk hnc
      have hnt : n ≠ ret := by
        intro hx
        rw [hx, htk] at hk
        cases hk
      simp [hnc, hnt]

/-- The steps of `createCallToFunction` after the set-up of the call leave the entries
of `nodes_map` for the instructions as they are. -/
theorem createCallToFunction_gframe {m : Module} {build : Nat → M Nat} {ty : Ty}
    {args : List Value} {F : Nat} {res : Nat × Nat} {s s' : LLVMPSSBuilder}
    (h : createCallToFunction m build ty args F s = .ok (res, s')) :
    ∃ subg s0, callSetup build F s = .ok ((res.1, res.2, subg), s0) ∧ GFrame s0 s' := by
  obtain ⟨c, q, subg, s0, ret, r8, s8, u9, s9, u10, hset, hret, h8, h9, h10, rfl⟩ :=
    createCallToFunction_ok h
  refine ⟨subg, s0, hset, ?_⟩
  have g8 := (createCallToFunctionArgs_gframes m args _ 0 subg.args.1).keeps _ _ _ h8
  have g9 : GFrame s8 s9 := by
    split at h9
    · cases hr : r8.2 with
      | none =>
        simp only [hr] at h9
        exact ((M.fail_ok _ _ _ _).mp h9).elim
      | some a =>
        simp only [hr] at h9
        exact (createCallToFunctionVarArgs_gframes m a _).keeps _ _ _ h9
    · obtain ⟨-, rfl⟩ := (M.pure_ok _ _ _ _).mp h9
      exact GFrame.rfl_gframe _
  have g10 : GFrame s9 s' := by
    split at h10
    · simp only [M.bind_ok, M.get_ok] at h10
      obtain ⟨t1, t2, ⟨rfl, rfl⟩, h10⟩ := h10
      exact (addOperands_gframes _ _).keeps _ _ _ h10
    · obtain ⟨-, rfl⟩ := (M.pure_ok _ _ _ _).mp h10
      exact GFrame.rfl_gframe _
  exact (g8.trans_gframe g9).trans_gframe g10

/-- Lowering a call instruction, on the wiring of the direct calls: the node registered
for a direct call of a defined function is a call node wired to the root of the
callee. -/
theorem createCall_cw {m : Module} {build : Nat → M Nat} (hb : BuildOK build)
    (hbp : BuildPW m build) (hbc : BuildCW m build)
    {Pend : Nat → Option ((Nat × Nat) × (Nat × Nat))}
    {P : Nat → Prop} {F b i : Nat} {ty : Ty} {cv : Value} {args : List Value}
    {res : Nat × Nat} {s s' : LLVMPSSBuilder}
    (hwf : WF P s) (hpw : PW m Pend s) (haw : AW m s) (hrw : RW m Pend s)
    (hcw : CW m Pend s)
    (hI : m.getInst F b i = some (.call ty cv args)) (hp : Pend F = some ((b, i), (0, 0)))
    (h : createCall m build (.inst F b i) F ty cv args s = .ok (res, s')) :
    CW m (Function.update Pend F (some ((b, i + 1), (0, 0)))) s' := by
  have hcreated : ∀ {r : Nat}, Created s s' r → Quiet (fun _ => False) (.inst F b i) s s' →
      directCallee m F b i = none →
      CW m (Function.update Pend F (some ((b, i + 1), (0, 0)))) s' :=
    fun hc hq hd => hcw.lower_inert hpw hp hc.1 hq hd
  have hnone : ∀ g, (stripPointerCasts m cv).asFunction = some g →
      (getMemAllocationFunc (some (m.getFunc g)) = .ok .NONEMEM →
        (m.getFunc g).intrinsicID.isSome = false → (m.getFunc g).blocks.length ≠ 0 → False) →
      directCallee m F b i = none := by
    intro g hg hx
    cases hd : directCallee m F b i with
    | none => rfl
    | some f =>
      obtain ⟨e1, e2, e3, e4⟩ := (directCallee_of_call hI f).mp hd
      rw [hg] at e1
      cases e1
      exact (hx e2 e3 e4).elim
  unfold createCall at h
  cases hf : (stripPointerCasts m cv).asFunction with
  | some f =>
    simp only [hf, M.bind_ok, M.ofExcept_ok] at h
    obtain ⟨type, s0, ⟨htype, rfl⟩, h⟩ := h
    split at h
    · rename_i hne
      obtain ⟨hc, -⟩ := createDynamicMemAlloc_created h
      refine hcreated hc
        ((createDynamicMemAlloc_quiets _ (I := .inst F b i) rfl _ _ _).keeps _ _ _ h)
        (hnone f hf ?_)
      intro e2 _ _
      rw [htype] at e2
      cases e2
      exact hne rfl
    · split at h
      · rename_i hint
        obtain ⟨hc, -⟩ := createIntrinsic_created h
        refine hcreated hc
          ((createIntrinsic_quiets _ (I := .inst F b i) rfl _ _ _ _ _).keeps _ _ _ h)
          (hnone f hf ?_)
        intro _ e3 _
        rw [hint] at e3
        cases e3
      · split at h
        · rename_i hlen
          obtain ⟨hc, -⟩ := createUnknownCall_created h
          refine hcreated hc
            ((createUnknownCall_quiets _ (I := .inst F b i) rfl _).keeps _ _ _ h)
            (hnone f hf ?_)
          intro _ _ e4
          exact e4 hlen
        · rename_i hne hint hlen
          have hd : directCallee m F b i = some f := by
            refine (directCallee_of_call hI f).mpr ⟨hf, ?_, by simpa using hint, hlen⟩
            rw [htype]
            congr 1
            by_contra hx
            exact hne hx
          unfold createOrGetSubgraph at h
          simp only [M.bind_ok, M.pure_ok] at h
          obtain ⟨cf, s1, h1, u, s2, h2, rfl, rfl⟩ := h
          obtain ⟨subg, t0, r0, hset0, -, -, i01, -⟩ :=
            createCallToFunction_spec hb hbp hwf hpw haw hrw h1
          obtain ⟨subg', t0', hset, g01⟩ := createCallToFunction_gframe h1
          rw [hset0] at hset
          cases hset
          obtain ⟨s5, r, cw5, pw5, hsz5, hclt, hck, hcp, hqc, hcs, hroot, hmap5, hsub5, hk5,
            hp5, hsc, hso⟩ := callSetup_cw hb hbp hbc hwf hpw haw hrw hcw hset0
          unfold addNode at h2
          rw [M.modify_ok] at h2
          subst h2
          have hnoneI : s5.nodes_map (.inst F b i) = none :=
            (pw5.pending F _ _ hp).2 b i (posLt_irrefl _)
          have hcne : (s5.node cf.1).pairedNode ≠ some cf.1 := by
            rw [hcp]
            intro hx
            exact hqc (Option.some.inj hx)
          have hclt0 : cf.1 < t0.size := by rw [hsz5]; exact hclt
          have hentry0 : ∀ n, (s5.node n).kind = .CALL → (s5.node n).pairedNode ≠ some n →
              ¬ Exit t0 n := by
            intro n hk hpn hx
            apply hpn
            rw [← hp5]
            exact hx.2.2.2 (by rw [hk5]; exact hk)
          have hsucc1 : ∀ n, n < s5.size → (s5.node n).kind = .CALL →
              (s5.node n).pairedNode ≠ some n → (s1.node n).successors =
                (t0.node n).successors := by
            intro n hn hk hpn
            exact i01.succ_eq n (by rw [hsz5]; exact hn) (hentry0 n hk hpn)
          have hmapi : ∀ G b' i', Value.inst G b' i' ≠ .inst F b i →
              (if Value.inst G b' i' = .inst F b i then some cf.1
                else s1.nodes_map (.inst G b' i')) = s5.nodes_map (.inst G b' i') := by
            intro G b' i' hx
            rw [if_neg hx, g01.map_eq (.inst G b' i') rfl, hmap5]
          have hcsucc : (s1.node cf.1).successors = [r] := by
            rw [hsucc1 cf.1 hclt hck hcne]
            exact hsc
          refine cw5.step_cw (.inst F b i)
            (by rw [← hsz5]; exact i01.size_le) ?_ ?_ ?_ ?_ ?_ ?_ ?_ ?_
          · intro n hn
            show (s1.node n).kind = _
            rw [i01.kind_eq n (by rw [hsz5]; exact hn), hk5]
          · intro n hn
            show (s1.node n).pairedNode = _
            rw [i01.paired_eq n (by rw [hsz5]; exact hn), hp5]
          · intro G _
            show s1.subgraphs_map G = _
            rw [i01.subg_eq, hsub5]
          · intro G b' i' x hx
            show (if Value.inst G b' i' = .inst F b i then some cf.1
              else s1.nodes_map (.inst G b' i')) = _
            by_cases hk : Value.inst G b' i' = .inst F b i
            · rw [hk, hnoneI] at hx
              cases hx
            · rw [hmapi G b' i' hk]
              exact hx
          · intro n hn hk hpn hs
            show (s1.node n).successors = _
            rw [hsucc1 n hn hk hpn]
            refine hso n hk ?_
            intro hx
            rw [hx] at hs
            exact hs hcs
          · intro G b' i' g x hdg hx
            by_cases hk : Value.inst G b' i' = .inst F b i
            · refine Or.inr ⟨hk, ?_⟩
              cases hk
              rw [hd] at hdg
              cases hdg
              have hx' : (if Value.inst F b i = .inst F b i then some cf.1
                  else s1.nodes_map (.inst F b i)) = some x := hx
              rw [if_pos rfl] at hx'
              cases hx'
              refine ⟨Or.inr hcs, lt_of_lt_of_le hclt0 i01.size_le, ?_, ?_, r, ?_, hcsucc⟩
              · show (s1.node cf.1).kind = _
                rw [i01.kind_eq _ hclt0, hk5]
                exact hck
              · show (s1.node cf.1).pairedNode ≠ _
                rw [i01.paired_eq _ hclt0, hp5]
                exact hcne
              · show (s1.subgraphs_map f).root = _
                rw [i01.subg_eq, hsub5]
                exact hroot
            · have hx' : (if Value.inst G b' i' = .inst F b i then some cf.1
                  else s1.nodes_map (.inst G b' i')) = some x := hx
              rw [hmapi G b' i' hk] at hx'
              exact Or.inl hx'
          · intro n hn hk hpn hs
            have hn1 : n < s1.size := hn
            have hk1 : (s1.node n).kind = .CALL := hk
            have hpn1 : (s1.node n).pairedNode ≠ some n := hpn
            have hs1 : (s1.node n).successors ≠ [] := hs
            obtain ⟨g1, g2, g3, g4⟩ := i01.call_live hn1 hk1 hpn1
            rw [hsz5] at g1
            rw [hk5] at g2
            rw [hp5] at g3
            by_cases hnc : n = cf.1
            · refine Or.inr ⟨F, b, i, f, hd, ?_⟩
              show (if Value.inst F b i = .inst F b i then some cf.1
                else s1.nodes_map (.inst F b i)) = _
              rw [if_pos rfl, hnc]
            · refine Or.inl ⟨g1, ?_⟩
              rw [g4, hso n g2 hnc] at hs1
              exact hs1
          · intro G b' i' g hr hdg hpos
            have hr1 : (s1.subgraphs_map G).root ≠ none := hr
            rw [i01.subg_eq, hsub5] at hr1
            by_cases hG : G = F
            · subst hG
              have := hpos _ _ (Function.update_same _ _ _)
              rcases (posLt_succ b i b' i').mp this with g | ⟨rfl, rfl⟩
              · refine Or.inl ⟨hr1, ?_⟩
                intro p0 q0 h0
                rw [hp] at h0
                cases h0
                exact g
              · refine Or.inr ⟨cf.1, ?_⟩
                show (if Value.inst G b' i' = .inst G b' i' then some cf.1
                  else s1.nodes_map (.inst G b' i')) = _
                rw [if_pos rfl]
            · refine Or.inl ⟨hr1, ?_⟩
              intro p0 q0 h0
              exact hpos p0 q0 (by rw [Function.update_noteq hG]; exact h0)
  | none =>
    simp only [hf, M.bind_ok, M.pure_ok] at h
    obtain ⟨op, s1, h1, cf, s2, h2, rc, s3, h3, u4, s4, h4, u5, s5, h5, u6, s6, h6, u7, s7, h7,
      rfl, rfl⟩ := h
    have hd : directCallee m F b i = none := by
      cases hd : directCallee m F b i with
      | none => rfl
      | some f =>
        obtain ⟨e1, -⟩ := (directCallee_of_call hI f).mp hd
        rw [hf] at e1
        cases e1
    obtain ⟨⟨w1, p1, a1, r1, f1⟩, i1, -, -, -⟩ := getOperand_inv hwf hpw haw hrw h1
    have q1 := (getOperand_quiets m (fun _ => False) (.inst F b i) _).keeps _ _ _ h1
    obtain ⟨g7, k7, q7, ecf, erc, esz, ek⟩ := funcPtrPair_frames (I := .inst F b i) rfl
      h2 h3 h4 h5 h6 h7
    obtain ⟨-, -, hex6, -⟩ := funcPtrPair_wf w1 h2 h3 h4 h5 h6
    have hnode7 : s7.node = s6.node := by
      unfold addNode at h7
      rw [M.modify_ok] at h7
      rw [← h7]
    have i17 : Inert s s1 := i1
    have hq : Quiet (fun _ => False) (.inst F b i) s s7 := q1.trans_quiet (q7 _)
    refine hcw.lower_cw hpw hp (le_trans i1.size_le g7.size_le) ?_ ?_ ?_ ?_ ?_ hq hd
    · intro n hn
      rw [g7.kind_eq n (lt_of_lt_of_le hn i1.size_le), i1.kind_eq n hn]
    · intro n hn
      rw [g7.paired_eq n (lt_of_lt_of_le hn i1.size_le), i1.paired_eq n hn]
    · rw [g7.subg_eq, i1.subg_eq]
    · intro n hn hk hpn
      rw [k7.old_eq n (lt_of_lt_of_le hn i1.size_le)]
      exact i1.call_succ_keep hn hk hpn
    · intro n h1n h2n hk
      by_cases hlt : n < s1.size
      · rw [g7.kind_eq n hlt] at hk
        rw [g7.paired_eq n hlt]
        rcases i1.fresh n h1n hlt with ⟨x1, -⟩ | ⟨-, x2⟩
        · rw [hk] at x1
          cases x1
        · exact x2
      · have hn' : n = cf ∨ n = rc := by omega
        rcases hn' with rfl | rfl
        · rw [ek] at hk
          cases hk
        · rw [hnode7] at hk ⊢
          exact hex6.2.2.2 hk

/-! ## The wiring of the direct calls: blocks -/

theorem buildPSSBlockInst_cw {m : Module} {build : Nat → M Nat} (hb : BuildOK build)
    (hbp : BuildPW m build) (hbc : BuildCW m build)
    {Pend : Nat → Option ((Nat × Nat) × (Nat × Nat))}
    {P : Nat → Prop} {F b i : Nat} {I : Inst} {retFirst node : Option Nat}
    {res : Option Nat × Option Nat} {s s' : LLVMPSSBuilder}
    (hwf : WF P s) (hpw : PW m Pend s) (haw : AW m s) (hrw : RW m Pend s)
    (hcw : CW m Pend s)
    (hI : m.getInst F b i = some I) (hp : Pend F = some ((b, i), (0, 0)))
    (hnode : ∀ n, node = some n → Exit s n ∧ ¬ ArgNode m s n)
    (h : buildPSSBlockInst m build F b i I retFirst node s = .ok (res, s')) :
    CW m (Function.update Pend F (some ((b, i + 1), (0, 0)))) s' := by
  unfold buildPSSBlockInst at h
  split at h
  · rename_i ty cv args
    simp only [M.bind_ok, M.ofExcept_ok] at h
    obtain ⟨rel, s0, ⟨hrel, rfl⟩, h⟩ := h
    split at h
    · rename_i hnr
      obtain ⟨-, i1, -, -⟩ := buildPSSBlockLink_inv hwf hpw haw hrw hnode
        (fun n hn => (hnode n hn).1) h
      have g1 := (buildPSSBlockLink_gframes _ _ _).keeps _ _ _ h
      have hd : directCallee m F b i = none := by
        cases hd : directCallee m F b i with
        | none => rfl
        | some f =>
          rw [directCallee_relevant hI hd] at hrel
          cases hrel
          simp at hnr
      exact (hcw.skip_cw hp hd).keep_inert i1 g1.map_eq
    · simp only [M.bind_ok] at h
      obtain ⟨subg, s1, h1, rf, s2, h2, h3⟩ := h
      obtain ⟨⟨p1, a1, r1, f1⟩, e1, e2, e3, e4⟩ := createCall_inv hb hbp hwf hpw haw hrw hI hp h1
      obtain ⟨w1, x1, ex1⟩ := createCall_wf hb hwf h1
      have c1 := createCall_cw hb hbp hbc hwf hpw haw hrw hcw hI hp h1
      have k2 : (PW m (Function.update Pend F (some ((b, i + 1), (0, 0)))) s2 ∧ AW m s2 ∧
          RW m (Function.update Pend F (some ((b, i + 1), (0, 0)))) s2 ∧ ArgFrame m s1 s2) ∧
          WF P s2 ∧ Inert s1 s2 ∧
          CW m (Function.update Pend F (some ((b, i + 1), (0, 0)))) s2 := by
        cases node with
        | none =>
          obtain ⟨rfl, rfl⟩ := (M.pure_ok _ _ _ _).mp h2
          exact ⟨⟨p1, a1, r1, ArgFrame.rfl_af m _⟩, w1, Inert.rfl_inert _, c1⟩
        | some p =>
          simp only [M.bind_ok, M.pure_ok] at h2
          obtain ⟨u, t1, k1, rfl, rfl⟩ := h2
          have hpe := ((hnode p rfl).1).after_ext x1
          have i2 := addSuccessor_inert hpe k1
          have g2 := (addSuccessor_gframes _ _).keeps _ _ _ k1
          have c2 := c1.keep_inert i2 g2.map_eq
          rw [addSuccessor_ok] at k1
          subst k1
          have hpa : ¬ ArgNode m s1 p := fun hc => (hnode p rfl).2 (f1.anti p (hnode p rfl).1.1 hc)
          exact ⟨(add_succ_step p1 a1 r1 w1.ret_kind hpa e2 e3).1, w1.step_inert i2, i2, c2⟩
      obtain ⟨⟨p2, a2, r2, f2⟩, w2, i2, c2⟩ := k2
      have hex2 : Exit s2 subg.2 := ex1.mono_inert i2
      have ha2 : ¬ ArgNode m s2 subg.2 := fun hc => e4 (f2.anti _ ex1.1 hc)
      obtain ⟨-, i3, -, -⟩ := buildPSSBlockLink_inv w2 p2 a2 r2
        (fun p hx => by cases hx; exact ⟨hex2, ha2⟩) (fun n hn => by cases hn; exact hex2) h3
      have g3 := (buildPSSBlockLink_gframes _ _ _).keeps _ _ _ h3
      exact c2.keep_inert i3 g3.map_eq
  · rename_i hncall
    simp only [M.bind_ok] at h
    obtain ⟨n, s1, h1, h2⟩ := h
    obtain ⟨i1, hdich⟩ := lowerInst_inert h1
    have k1 := (lowerInst_succkeeps m F b i I node).keeps _ _ _ h1
    have q1 := (lowerInst_quiets (fun _ => False) m F b i I node).keeps _ _ _ h1
    have w1 := hwf.step_inert i1
    have hd : directCallee m F b i = none :=
      directCallee_none hI (fun ty cv args hx => hncall ty cv args hx)
    have c1 := hcw.lower_inert hpw hp i1 q1 hd
    obtain ⟨p1, a1, r1, f1⟩ := lower_step hwf hpw haw hrw hp i1.to_grow k1 q1
      (fun _ hn => hn.elim) (by
        intro ty inc hx hty
        rw [hI] at hx
        cases hx
        obtain ⟨x, -, g2, g3, g4, g5⟩ := lowerInst_phi hty h1
        exact ⟨x, g2, g3, g4, g5⟩)
    have hn1 : ∀ x, n = some x → Exit s1 x ∧ ¬ ArgNode m s1 x := by
      intro x hx
      rcases hdich with rfl | ⟨y, rfl, g1, g2⟩
      · exact ⟨(hnode x hx).1.mono_inert i1,
          fun hc => (hnode x hx).2 (f1.anti x (hnode x hx).1.1 hc)⟩
      · cases hx
        exact ⟨i1.exit_fresh g1 g2, not_argNode_fresh hpw i1.subg_eq g1⟩
    obtain ⟨-, i2, -, -⟩ := buildPSSBlockLink_inv w1 p1 a1 r1
      (fun p hx => ⟨(hnode p hx).1.mono_inert i1,
        fun hc => (hnode p hx).2 (f1.anti p (hnode p hx).1.1 hc)⟩)
      (fun x hx => (hn1 x hx).1) h2
    have g2 := (buildPSSBlockLink_gframes _ _ _).keeps _ _ _ h2
    exact c1.keep_inert i2 g2.map_eq

theorem buildPSSBlockLoop_cw {m : Module} {build : Nat → M Nat} (hb : BuildOK build)
    (hbp : BuildPW m build) (hbc : BuildCW m build) {P : Nat → Prop} {F b : Nat} :
    ∀ (insts : List Inst) (Pend : Nat → Option ((Nat × Nat) × (Nat × Nat))) (i : Nat)
      (retFirst node : Option Nat) (res : Option Nat × Option Nat) (s s' : LLVMPSSBuilder),
      WF P s → PW m Pend s → AW m s → RW m Pend s → CW m Pend s →
      (∀ k, insts.get? k = m.getInst F b (i + k)) → Pend F = some ((b, i), (0, 0)) →
      (∀ n, node = some n → Exit s n ∧ ¬ ArgNode m s n) →
      (∀ f, retFirst = some f → f < s.size ∧ (s.node f).kind ≠ .NOOP) →
      buildPSSBlockLoop m build F b insts i retFirst node s = .ok (res, s') →
      CW m (Function.update Pend F (some ((b, i + insts.length), (0, 0)))) s' := by
  intro insts
  induction insts with
  | nil =>
    intro Pend i retFirst node res s s' hwf hpw haw hrw hcw _ hp hnode hrf h
    unfold buildPSSBlockLoop at h
    obtain ⟨rfl, rfl⟩ := (M.pure_ok _ _ _ _).mp h
    have hP : Function.update Pend F (some ((b, i + ([] : List Inst).length), (0, 0))) = Pend := by
      have hx : some ((b, i + ([] : List Inst).length), ((0 : Nat), (0 : Nat))) = Pend F :=
        hp.symm
      rw [hx]
      exact Function.update_eq_self F Pend
    rw [hP]
    exact hcw
  | cons I rest ih =>
    intro Pend i retFirst node res s s' hwf hpw haw hrw hcw hins hp hnode hrf h
    unfold buildPSSBlockLoop at h
    simp only [M.bind_ok] at h
    obtain ⟨r, s1, h1, h2⟩ := h
    have hI : m.getInst F b i = some I := by
      have := hins 0
      simpa using this.symm
    have hins' : ∀ k, rest.get? k = m.getInst F b (i + 1 + k) := by
      intro k
      have := hins (k + 1)
      rw [List.get?_cons_succ] at this
      rw [this]
      congr 1
      omega
    obtain ⟨w1, x1, ex1, -⟩ := buildPSSBlockInst_wf hb hwf (fun n hn => (hnode n hn).1) h1
    obtain ⟨⟨p1, a1, r1, f1⟩, e1, e2, e3⟩ :=
      buildPSSBlockInst_inv hb hbp hwf hpw haw hrw hI hp hnode hrf h1
    have c1 := buildPSSBlockInst_cw hb hbp hbc hwf hpw haw hrw hcw hI hp hnode h1
    have c2 := ih _ (i + 1) r.1 r.2 res s1 s' w1 p1 a1 r1 c1 hins' (Function.update_same _ _ _)
      (fun n hn => ⟨ex1 n hn, e1 n hn⟩) e2 h2
    have hP : Function.update (Function.update Pend F (some ((b, i + 1), (0, 0)))) F
        (some ((b, i + 1 + rest.length), (0, 0))) =
        Function.update Pend F (some ((b, i + (I :: rest).length), (0, 0))) := by
      rw [Function.update_idem, List.length_cons,
        show i + 1 + rest.length = i + (rest.length + 1) by omega]
    rw [hP] at c2
    exact c2

theorem buildPSSBlock_cw {m : Module} {build : Nat → M Nat} (hb : BuildOK build)
    (hbp : BuildPW m build) (hbc : BuildCW m build)
    {Pend : Nat → Option ((Nat × Nat) × (Nat × Nat))}
    {P : Nat → Prop} {F b : Nat} {res : Option Nat × Option Nat} {s s' : LLVMPSSBuilder}
    (hwf : WF P s) (hpw : PW m Pend s) (haw : AW m s) (hrw : RW m Pend s)
    (hcw : CW m Pend s) (hp : Pend F = some ((b, 0), (0, 0)))
    (h : buildPSSBlock m build F b s = .ok (res, s')) :
    CW m (Function.update Pend F (some ((b, (m.getBlock F b).insts.length), (0, 0)))) s' := by
  unfold buildPSSBlock at h
  have g0 := buildPSSBlockLoop_cw hb hbp hbc (m.getBlock F b).insts Pend 0 none none
    res s s' hwf hpw haw hrw hcw (fun k => by rw [Nat.zero_add]; rfl) hp
    (fun _ hn => by cases hn) (fun _ hf => by cases hf) h
  rw [Nat.zero_add] at g0
  exact g0

/-- Moving on to the next block, on the wiring of the direct calls. -/
theorem CW.next_block_cw {m : Module} {Pend : Nat → Option ((Nat × Nat) × (Nat × Nat))}
    {s : LLVMPSSBuilder} {F b : Nat} {q : Nat × Nat} (hcw : CW m Pend s)
    (hp : Pend F = some ((b, (m.getBlock F b).insts.length), q)) :
    CW m (Function.update Pend F (some ((b + 1, 0), q))) s := by
  refine hcw.repend_cw ?_
  intro G b' i' f _ hd hpos
  refine Or.inl ?_
  intro p0 q0 h0
  by_cases hG : G = F
  · subst hG
    rw [hp] at h0
    cases h0
    have hlt := directCallee_inst_lt hd
    have := hpos _ _ (Function.update_same _ _ _)
    unfold posLt at this ⊢
    simp only at this ⊢
    rcases this with hc | hc
    · by_cases hbb : b' = b
      · subst hbb
        exact Or.inr ⟨rfl, hlt⟩
      · exact Or.inl (by omega)
    · omega
  · exact hpos p0 q0 (by rw [Function.update_noteq hG]; exact h0)

theorem buildBlocksLoop_cw {m : Module} {build : Nat → M Nat} (hb : BuildOK build)
    (hbp : BuildPW m build) (hbc : BuildCW m build) {P : Nat → Prop}
    {F root lastNode : Nat} :
    ∀ (blocks : List BasicBlock) (Pend : Nat → Option ((Nat × Nat) × (Nat × Nat))) (b : Nat)
      (first : Option Nat) (u : Unit) (s s' : LLVMPSSBuilder),
      WF P s → PW m Pend s → AW m s → RW m Pend s → CW m Pend s →
      (s.subgraphs_map F).root = some root → Pend F = some ((b, 0), (0, 0)) →
      Exit s root → Exit s lastNode →
      (lastNode = root ∨ (lastNode = root + 1 + argCount m F ∧ 0 < argCount m F ∧
        (first = none → (s.node lastNode).successors = []))) →
      buildBlocksLoop m build F root lastNode blocks b first s = .ok (u, s') →
      CW m (Function.update Pend F (some ((b + blocks.length, 0), (0, 0)))) s' := by
  intro blocks
  induction blocks with
  | nil =>
    intro Pend b first u s s' hwf hpw haw hrw hcw _ hp _ _ _ h
    unfold buildBlocksLoop at h
    obtain ⟨-, rfl⟩ := (M.pure_ok _ _ _ _).mp h
    have hP : Function.update Pend F (some ((b + ([] : List BasicBlock).length, 0), (0, 0))) =
        Pend := by
      have hx : some ((b + ([] : List BasicBlock).length, (0 : Nat)), ((0 : Nat), (0 : Nat))) =
          Pend F := hp.symm
      rw [hx]
      exact Function.update_eq_self F Pend
    rw [hP]
    exact hcw
  | cons B rest ih =>
    intro Pend b first u s s' hwf hpw haw hrw hcw hroot hp hxr hxl hl h
    unfold buildBlocksLoop at h
    simp only [M.bind_ok] at h
    obtain ⟨nds, s1, h1, r, s2, h2, u3, s3, h3, h4⟩ := h
    obtain ⟨w1, x1, ex1, cons1⟩ := buildPSSBlock_wf hb hwf h1
    obtain ⟨⟨p1, a1, r1, f1⟩, e1, e2, e3⟩ := buildPSSBlock_inv hb hbp hwf hpw haw hrw hp h1
    have c1 := buildPSSBlock_cw hb hbp hbc hwf hpw haw hrw hcw hp h1
    have hroot1 : (s1.subgraphs_map F).root = some root := by
      rw [x1.subg_eq F (by rw [hroot]; exact fun hc => by cases hc)]
      exact hroot
    have hxr1 := hxr.after_ext x1
    have hxl1 := hxl.after_ext x1
    have hra1 : ¬ ArgNode m s1 root := not_argNode_root w1 a1 hroot1
    have hp1 : Function.update Pend F (some ((b, (m.getBlock F b).insts.length), (0, 0))) F =
        some ((b, (m.getBlock F b).insts.length), (0, 0)) := Function.update_same _ _ _
    -- the edge to the first block with nodes
    have K : (PW m (Function.update Pend F (some ((b, (m.getBlock F b).insts.length),
          (0, 0)))) s2 ∧ AW m s2 ∧
        RW m (Function.update Pend F (some ((b, (m.getBlock F b).insts.length), (0, 0)))) s2) ∧
        WF P s2 ∧ Inert s1 s2 ∧ s2.nodes_map = s1.nodes_map ∧
        (∀ n, n ≠ lastNode → (s2.node n).successors = (s1.node n).successors) ∧
        (∀ l, r.1.2 = some l → Exit s2 l ∧ ¬ ArgNode m s2 l) ∧
        r.1.1.isSome = r.1.2.isSome ∧
        (∀ f, r.1.1 = some f → f < s2.size ∧ (s2.node f).kind ≠ .NOOP) ∧
        (∀ k rv, m.getInst F b k = some (.ret rv) →
          k + 1 = (m.getBlock F b).insts.length →
          ∃ n, s2.nodes_map (.inst F b k) = some n ∧ r.1.2 = some n ∧
            (s2.node n).kind = .RETURN) ∧
        r.2 ≠ none := by
      have same : ∀ first', r = (nds, some first') → s2 = s1 →
          (PW m (Function.update Pend F (some ((b, (m.getBlock F b).insts.length),
              (0, 0)))) s2 ∧ AW m s2 ∧
            RW m (Function.update Pend F (some ((b, (m.getBlock F b).insts.length),
              (0, 0)))) s2) ∧
          WF P s2 ∧ Inert s1 s2 ∧ s2.nodes_map = s1.nodes_map ∧
          (∀ n, n ≠ lastNode → (s2.node n).successors = (s1.node n).successors) ∧
          (∀ l, r.1.2 = some l → Exit s2 l ∧ ¬ ArgNode m s2 l) ∧
          r.1.1.isSome = r.1.2.isSome ∧
          (∀ f, r.1.1 = some f → f < s2.size ∧ (s2.node f).kind ≠ .NOOP) ∧
          (∀ k rv, m.getInst F b k = some (.ret rv) →
            k + 1 = (m.getBlock F b).insts.length →
            ∃ n, s2.nodes_map (.inst F b k) = some n ∧ r.1.2 = some n ∧
              (s2.node n).kind = .RETURN) ∧
          r.2 ≠ none := by
        intro first' hr hs
        subst hr
        subst hs
        refine ⟨⟨p1, a1, r1⟩, w1, Inert.rfl_inert _, rfl, fun _ _ => rfl,
          fun l hx => ⟨ex1 l hx, e1 l hx⟩, cons1, e2, ?_, fun hc => by cases hc⟩
        intro k rv hk hlen
        obtain ⟨n, g1, g2, g3⟩ := e3 k rv hk hlen
        exact ⟨n, g2, g1, g3⟩
      cases first with
      | none =>
        cases hn : nds.1 with
        | none =>
          simp only [hn] at h2
          obtain ⟨rfl, rfl⟩ := (M.pure_ok _ _ _ _).mp h2
          refine ⟨⟨p1, a1, r1⟩, w1, Inert.rfl_inert _, rfl, fun _ _ => rfl, ?_, rfl, ?_, ?_,
            fun hc => by cases hc⟩
          · intro l hx
            cases hx
            exact ⟨hxr1, hra1⟩
          · intro f hx
            cases hx
            exact ⟨hxr1.1, hxr1.2.1⟩
          · intro k rv hk hlen
            obtain ⟨n, g1, -, -⟩ := e3 k rv hk hlen
            rw [hn, g1] at cons1
            cases cons1
        | some f =>
          simp only [hn, M.bind_ok, M.pure_ok] at h2
          obtain ⟨u1, t1, k1, rfl, rfl⟩ := h2
          have i2 := addSuccessor_inert hxl1 k1
          rw [addSuccessor_ok] at k1
          subst k1
          obtain ⟨hf1, hf2⟩ := e2 f hn
          have haw2 : AW m (s1.update lastNode fun x =>
              { x with successors := x.successors ++ [f] }) := by
            rcases hl with rfl | ⟨rfl, hpos, hnil⟩
            · exact a1.add_succ_aw p1 f hra1
            · refine a1.add_last p1 f hroot1 ?_
              rw [f1.succ_eq _ (ArgNode.last_arg hroot hpos)]
              exact hnil rfl
          have hkind : ∀ n, ((s1.update lastNode fun x =>
              { x with successors := x.successors ++ [f] }).node n).kind = (s1.node n).kind := by
            intro n
            rw [LLVMPSSBuilder.update_node]
            split
            · subst_vars
              rfl
            · rfl
          refine ⟨⟨p1.add_succ_pw lastNode f, haw2, r1.add_succ_rw w1.ret_kind lastNode hf1 hf2⟩,
            w1.step_inert i2, i2, rfl, ?_, ?_, cons1, ?_, ?_, fun hc => by cases hc⟩
          · intro n hne
            rw [LLVMPSSBuilder.update_node, if_neg hne]
          · intro l hx
            refine ⟨(ex1 l hx).mono_inert i2, ?_⟩
            intro hc
            exact e1 l hx ((ArgNode.of_subg_eq i2.subg_eq).mp hc)
          · intro f' hx
            obtain ⟨g1, g2⟩ := e2 f' hx
            exact ⟨g1, by rw [hkind]; exact g2⟩
          · intro k rv hk hlen
            obtain ⟨n, g1, g2, g3⟩ := e3 k rv hk hlen
            exact ⟨n, g2, g1, by rw [hkind]; exact g3⟩
      | some f0 =>
        obtain ⟨rfl, rfl⟩ := (M.pure_ok _ _ _ _).mp h2
        exact same f0 rfl rfl
    obtain ⟨⟨p2, a2, r2⟩, w2, i2, hmap2, hsucc2, hl2, hc2, hf2, hret2, hfirst2⟩ := K
    have c2 := c1.keep_inert i2 (fun v _ => by rw [hmap2])
    -- the block is recorded
    obtain ⟨w3, x3⟩ := setBuiltBlock_wf w2 (fun l hx => (hl2 l hx).1) hc2 h3
    unfold setBuiltBlock at h3
    rw [M.modify_ok] at h3
    subst h3
    have p3 := (p2.set_block_pw (F, b) r.1).next_block hp1
    have a3 := a2.set_block_aw (F, b) r.1 (fun l hx => ⟨(hl2 l hx).1.1, (hl2 l hx).2⟩)
    have r3 := r2.set_block_rw hp1 r.1 hf2 hret2
    have c3 : CW m (Function.update (Function.update Pend F
        (some ((b, (m.getBlock F b).insts.length), (0, 0)))) F (some ((b + 1, 0), (0, 0))))
        { s2 with built_blocks := fun k => if k = (F, b) then r.1 else s2.built_blocks k } :=
      (c2.next_block_cw hp1).congr_cw rfl rfl rfl rfl
    rw [Function.update_idem] at p3 r3 c3
    have x13 : Ext s1 { s2 with built_blocks := fun k =>
        if k = (F, b) then r.1 else s2.built_blocks k } := i2.to_ext.trans_ext x3
    have x03 := x1.trans_ext x13
    have hroot3 : (({ s2 with built_blocks := fun k =>
        if k = (F, b) then r.1 else s2.built_blocks k } : LLVMPSSBuilder).subgraphs_map
        F).root = some root := by
      show (s2.subgraphs_map F).root = some root
      rw [i2.subg_eq]
      exact hroot1
    have hl3 : lastNode = root ∨ (lastNode = root + 1 + argCount m F ∧ 0 < argCount m F ∧
        (r.2 = none → (({ s2 with built_blocks := fun k =>
          if k = (F, b) then r.1 else s2.built_blocks k } : LLVMPSSBuilder).node
          lastNode).successors = [])) := by
      rcases hl with hl | ⟨g1, g2, -⟩
      · exact Or.inl hl
      · exact Or.inr ⟨g1, g2, fun hc => absurd hc hfirst2⟩
    have c4 := ih _ (b + 1) r.2 u _ s' w3 p3 a3 r3 c3 hroot3 (Function.update_same _ _ _)
      (hxr.after_ext x03) (hxl.after_ext x03) hl3 h4
    rw [Function.update_idem, show b + 1 + rest.length = b + (B :: rest).length by
      simp only [List.length_cons]; omega] at c4
    exact c4

/-! ## The wiring of the direct calls along the build of a function -/

theorem registerSubgraph_cw {m : Module} {Pend : Nat → Option ((Nat × Nat) × (Nat × Nat))}
    {F root ret : Nat} {args : Option Nat × Option Nat}
    {lastNode : Option Nat} {u : Unit} {s s1 s2 s3 s4 s5 : LLVMPSSBuilder}
    (hcw : CW m Pend s) (hF : (s.subgraphs_map F).root = none)
    (h1 : mkOpNode .ENTRY [] s = .ok (root, s1)) (h2 : mkOpNode .NOOP [] s1 = .ok (ret, s2))
    (h3 : buildArguments m F s2 = .ok (args, s3))
    (h4 : setSubgraph F ⟨some root, some ret, args⟩ s3 = .ok (u, s4))
    (h5 : (match args.1 with
      | some a => do
        addSuccessor root a
        pure args.2
      | none => pure (some root) : M (Option Nat)) s4 = .ok (lastNode, s5)) :
    CW m (Function.update Pend F (some ((0, 0), (0, 0)))) s5 := by
  obtain ⟨-, -, hsz, hold, hrk, -, htk, -, hargs, -, hmap, -, hsub, -, -⟩ :=
    registerSubgraph_shape h1 h2 h3 h4 h5
  have hmapi : ∀ G b i, s5.nodes_map (.inst G b i) = s.nodes_map (.inst G b i) :=
    fun G b i => hmap _ (fun _ _ _ _ hx => by cases hx)
  have hGF : ∀ G, (s.subgraphs_map G).root ≠ none → G ≠ F := by
    intro G hG hx
    rw [hx] at hG
    exact hG hF
  refine hcw.step_cw (.const (.nullPtr 0)) (by omega) ?_ ?_ ?_ ?_ ?_ ?_ ?_ ?_
  · intro n hn
    rw [hold n (Or.inl hn)]
  · intro n hn
    rw [hold n (Or.inl hn)]
  · intro G hG
    exact hsub G (hGF G hG)
  · intro G b i c hc
    rw [hmapi]
    exact hc
  · intro n hn _ _ _
    rw [hold n (Or.inl hn)]
  · intro G b i f c _ hc
    rw [hmapi] at hc
    exact Or.inl hc
  · intro n hn hk _ hs
    by_cases hlt : n < s.size
    · rw [hold n (Or.inl hlt)] at hs
      exact Or.inl ⟨hlt, hs⟩
    · by_cases h0 : n = s.size
      · rw [h0, hrk] at hk
        cases hk
      · by_cases h1' : n = s.size + 1
        · rw [h1', htk] at hk
          cases hk
        · have := (hargs (n - (s.size + 2)) (by omega)).1
          rw [show s.size + 2 + (n - (s.size + 2)) = n by omega, hk] at this
          cases this
  · intro G b i f hr _ hpos
    by_cases hG : G = F
    · subst hG
      exact absurd (hpos _ _ (Function.update_same _ _ _)) (not_posLt_zero _)
    · rw [hsub G hG] at hr
      refine Or.inl ⟨hr, ?_⟩
      intro p0 q0 h0
      exact hpos p0 q0 (by rw [Function.update_noteq hG]; exact h0)

theorem buildLLVMPSSBody_cw {m : Module} {build : Nat → M Nat} (hb : BuildOK build)
    (hbp : BuildPW m build) (hbc : BuildCW m build)
    {Pend : Nat → Option ((Nat × Nat) × (Nat × Nat))}
    {P : Nat → Prop} {F r : Nat} {s s' : LLVMPSSBuilder}
    (hwf : WF P s) (hpw : PW m Pend s) (haw : AW m s) (hrw : RW m Pend s)
    (hcw : CW m Pend s) (hF : (s.subgraphs_map F).root = none)
    (h : buildLLVMPSSBody m build F s = .ok (r, s')) : CW m Pend s' := by
  have hPF : Pend F = none := (hpw.unreg F hF).1
  unfold buildLLVMPSSBody at h
  simp only [M.bind_ok] at h
  obtain ⟨root, s1, h1, ret, s2, h2, args, s3, h3, u4, s4, h4, lastNode, s5, h5, h⟩ := h
  obtain ⟨i3, ha3⟩ := buildArguments_inert h3
  obtain ⟨w4, e4, hroot4, hex4, hreg4⟩ := registerSubgraph_wf hwf hF h1 h2 i3 h4
  have k5 : Inert s4 s5 ∧ ∀ l, lastNode = some l → Exit s5 l := by
    cases ha : args.1 with
    | none =>
      simp only [ha] at h5
      obtain ⟨rfl, rfl⟩ := (M.pure_ok _ _ _ _).mp h5
      refine ⟨Inert.rfl_inert _, fun l hl => ?_⟩
      cases hl
      exact hroot4
    | some a =>
      simp only [ha, M.bind_ok, M.pure_ok] at h5
      obtain ⟨u, t1, k1, rfl, rfl⟩ := h5
      have i1 := addSuccessor_inert hroot4 k1
      exact ⟨i1, fun l hl => (hex4 l (ha3 l hl)).mono_inert i1⟩
  obtain ⟨i5, hlast5⟩ := k5
  obtain ⟨⟨p5, a5, r5, f5⟩, hrs, hroot5, hret5, l, hl, hlast⟩ :=
    registerSubgraph_inv hwf hpw haw hrw hF h1 h2 h3 h4 h5
  have c5 := registerSubgraph_cw hcw hF h1 h2 h3 h4 h5
  subst hl
  have w5 := w4.step_inert i5
  simp only [M.bind_ok, M.pure_ok, M.assert_ok] at h
  obtain ⟨u6, s6, h6, rets, s7, h7, u8, s8, ⟨-, rfl⟩, u9, s9, h9, u10, s10, h10, rfl, rfl⟩ := h
  have hl5 : l = root ∨ (l = root + 1 + argCount m F ∧ 0 < argCount m F ∧
      ((none : Option Nat) = none → (s5.node l).successors = [])) := by
    rcases hlast with hlast | ⟨g1, g2, g3⟩
    · exact Or.inl hlast
    · exact Or.inr ⟨g1, g2, fun _ => g3⟩
  obtain ⟨⟨p6, a6, r6⟩, w6, e6, m6, n6, k6⟩ := buildBlocksLoop_inv hb hbp (m.getFunc F).blocks
    _ 0 none u6 s5 s6 w5 p5 a5 r5 hroot5 (Function.update_same _ _ _)
    (hroot4.mono_inert i5) (hlast5 l rfl) hl5 h6
  have c6 := buildBlocksLoop_cw hb hbp hbc (m.getFunc F).blocks
    _ 0 none u6 s5 s6 w5 p5 a5 r5 c5 hroot5 (Function.update_same _ _ _)
    (hroot4.mono_inert i5) (hlast5 l rfl) hl5 h6
  rw [Function.update_idem, Nat.zero_add] at p6 r6 c6
  obtain ⟨⟨w7, p7, a7, r7, f7⟩, i7, hex7, hrets7⟩ := stitchBlocksLoop_inv w6 p6 a6 r6 h7
  have c7 := c6.keep_inert i7 ((stitchBlocksLoop_gframes _ _ _ _ _).keeps _ _ _ h7).map_eq
  have e57 : Ext s5 s7 := e6.trans_ext i7.to_ext
  have hrn : (s5.subgraphs_map F).root ≠ none := by
    rw [hroot5]
    exact fun hc => by cases hc
  have hroot7 : (s7.subgraphs_map F).root = some root := by
    rw [e57.subg_eq F hrn, hroot5]
  have hret7 : (s7.subgraphs_map F).ret = some ret := by
    rw [e57.subg_eq F hrn, hret5]
  obtain ⟨⟨w9, p9, a9, r9, f9⟩, i9⟩ := addReturnEdges_inv w7 p7 a7 r7 hroot7 hret7
    (Function.update_same _ _ _) hex7 hrets7 h9
  have c9 := c7.keep_inert i9 ((addReturnEdges_gframes _ _).keeps _ _ _ h9).map_eq
  obtain ⟨-, i10⟩ := addPHIOperandsFunction_inv w9 p9 a9 r9
    (Function.update_same _ _ _) h10
  have c10 := c9.keep_inert i10 ((addPHIOperandsFunction_gframes _ _).keeps _ _ _ h10).map_eq
  refine c10.repend_cw ?_
  intro G b i f _ hd _
  refine Or.inl ?_
  intro p0 q0 h0
  by_cases hG : G = F
  · subst hG
    rw [Function.update_same] at h0
    cases h0
    exact Or.inl (directCallee_block_lt hd)
  · rw [Function.update_noteq hG] at h0
    rename_i hpos
    exact hpos p0 q0 h0

theorem buildLLVMPSSFunction_cw (m : Module) (fuel : Nat) :
    BuildCW m (buildLLVMPSSFunction m fuel) := by
  induction fuel with
  | zero =>
    intro Pend P F r s s' _ _ _ _ _ _ h
    unfold buildLLVMPSSFunction at h
    exact ((M.fail_ok _ _ _ _).mp h).elim
  | succ fuel ih =>
    intro Pend P F r s s' hwf hpw haw hrw hcw hF h
    unfold buildLLVMPSSFunction at h
    exact buildLLVMPSSBody_cw (buildLLVMPSSFunction_wf m fuel) (buildLLVMPSSFunction_pw m fuel)
      ih hwf hpw haw hrw hcw hF h

/-- In the finished graph the direct calls of defined functions are wired to their
callees. -/
theorem buildLLVMPSS_cw {m : Module} {fuel root : Nat} {s : LLVMPSSBuilder}
    (h : build m fuel = .ok (root, s)) : CW m (fun _ => none) s := by
  unfold build buildLLVMPSS at h
  cases hmain : m.getFunction "main" with
  | none =>
    simp only [hmain] at h
    exact ((M.fail_ok _ _ _ _).mp h).elim
  | some F =>
    simp only [hmain, M.bind_ok] at h
    obtain ⟨glob, s1, h1, r, s2, h2, h3⟩ := h
    obtain ⟨w1, p1, a1, r1, hna, hreg, hg2⟩ := buildGlobals_inv h1
    have c1 : CW m (fun _ => none) s1 := by
      refine ⟨?_, ?_, ?_, ?_⟩
      · intro G b i f hr
        exact absurd (hreg G) hr
      · intro G b i f c _ hc
        rw [(p1.unreg G (hreg G)).2 (.inst G b i) rfl] at hc
        cases hc
      · intro c hc hk hp _
        rcases w1.call_succ c hc hk hp with ⟨hx, -⟩ | ⟨-, G, r', hr, -⟩
        · exact hx.elim
        · rw [hreg G] at hr
          cases hr
      · intro F1 b1 i1 f1 F2 b2 i2 f2 c _ _ hc
        rw [(p1.unreg F1 (hreg F1)).2 (.inst F1 b1 i1) rfl] at hc
        cases hc
    obtain ⟨w2, e2⟩ := buildLLVMPSSFunction_wf m fuel _ F r s1 s2 w1 (hreg F) h2
    have c2 := buildLLVMPSSFunction_cw m fuel _ _ F r s1 s2 w1 p1 a1 r1 c1 (hreg F) h2
    cases hg1 : glob.1 with
    | none =>
      simp only [hg1] at h3
      obtain ⟨-, rfl⟩ := (M.pure_ok _ _ _ _).mp h3
      exact c2
    | some gf =>
      cases hgs : glob.2 with
      | none =>
        simp only [hg1, hgs] at h3
        exact ((M.fail_ok _ _ _ _).mp h3).elim
      | some gs =>
        simp only [hg1, hgs, M.bind_ok, M.pure_ok] at h3
        obtain ⟨u, t1, k1, -, rfl⟩ := h3
        obtain ⟨hlt, hex⟩ := hg2 gs hgs
        exact c2.keep_inert (addSuccessor_inert (hex.after_ext e2) k1)
          ((addSuccessor_gframes _ _).keeps _ _ _ k1).map_eq

/-! ## Call entries, pairing and return edges in the finished graph -/

/-- The node of a direct call of a defined function in the finished graph, with the edges
to and from the subgraph of the callee. -/
theorem direct_call_edges {m : Module} {fuel root : Nat} {s : LLVMPSSBuilder}
    (h : build m fuel = .ok (root, s)) {F b i f c : Nat}
    (hd : directCallee m F b i = some f) (hc : s.nodes_map (.inst F b i) = some c) :
    c < s.size ∧ (s.node c).kind = .CALL ∧
      ∃ q r t, (s.node c).pairedNode = some q ∧ q ≠ c ∧ q < s.size ∧
        (s.node q).kind = .CALL_RETURN ∧ (s.node q).pairedNode = some c ∧
        (s.subgraphs_map f).root = some r ∧ (s.subgraphs_map f).ret = some t ∧
        (s.node c).successors = [r] ∧ q ∈ (s.node t).successors := by
  have hwf := buildLLVMPSS_wf h
  obtain ⟨g1, g2, g3, r, g4, g5⟩ := (buildLLVMPSS_cw h).wired F b i f c hd hc
  obtain ⟨q, k1, k2, k3⟩ := hwf.pair_call c g1 g2
  have hqc : q ≠ c := by
    intro hx
    rw [k1, hx] at g3
    exact g3 rfl
  rcases k3 with k3 | ⟨k3, k4⟩
  · exact absurd k3 hqc
  · obtain ⟨-, -, t, ht, -, -⟩ := hwf.subg_ok f r g4
    exact ⟨g1, g2, q, r, t, k1, hqc, k2, k3, k4, g4, ht, g5,
      ((hwf.ret_succ f r t g4 ht).2 q).mpr ⟨c, g1, g2, k1, hqc, g5⟩⟩

/-- A `CALL` node of the finished graph that is not paired with itself is the node of a
direct call of a defined function. -/
theorem call_node_instruction {m : Module} {fuel root : Nat} {s : LLVMPSSBuilder}
    (h : build m fuel = .ok (root, s)) {c : Nat} (hc : c < s.size)
    (hk : (s.node c).kind = .CALL) (hp : (s.node c).pairedNode ≠ some c) :
    ∃ F b i f, directCallee m F b i = some f ∧ s.nodes_map (.inst F b i) = some c := by
  have hwf := buildLLVMPSS_wf h
  refine (buildLLVMPSS_cw h).nodes c hc hk hp ?_
  rcases hwf.call_succ c hc hk hp with ⟨hx, -⟩ | ⟨-, G, r, -, hs⟩
  · exact hx.elim
  · rw [hs]
    exact fun hx => by cases hx

/-- C10, amended: in the finished graph the successor list of the unified ret node of a
function `F` with a subgraph has no duplicates and holds exactly the `CALL_RETURN` nodes
paired with the `CALL` nodes of the call instructions that call `F` directly; two such
call instructions have different `CALL_RETURN` nodes; and every such call instruction
in a function with a subgraph has its `CALL_RETURN` node in the list.  So the list has
one entry per call site of `F`. -/
theorem ret_successors_are_call_returns {m : Module} {fuel root : Nat} {s : LLVMPSSBuilder}
    (h : build m fuel = .ok (root, s)) (F r t : Nat)
    (hr : (s.subgraphs_map F).root = some r) (ht : (s.subgraphs_map F).ret = some t) :
    (s.node t).successors.Nodup ∧
    (∀ q, q ∈ (s.node t).successors ↔
      ∃ G b i c, directCallee m G b i = some F ∧ s.nodes_map (.inst G b i) = some c ∧
        (s.node c).kind = .CALL ∧ (s.node c).pairedNode = some q ∧
        (s.node q).kind = .CALL_RETURN) ∧
    (∀ G1 b1 i1 c1 G2 b2 i2 c2 q, directCallee m G1 b1 i1 = some F →
      directCallee m G2 b2 i2 = some F → s.nodes_map (.inst G1 b1 i1) = some c1 →
      s.nodes_map (.inst G2 b2 i2) = some c2 → (s.node c1).pairedNode = some q →
      (s.node c2).pairedNode = some q → G1 = G2 ∧ b1 = b2 ∧ i1 = i2) ∧
    (∀ G b i, (s.subgraphs_map G).root ≠ none → directCallee m G b i = some F →
      ∃ c q, s.nodes_map (.inst G b i) = some c ∧ (s.node c).pairedNode = some q ∧
        q ∈ (s.node t).successors) := by
  have hwf := buildLLVMPSS_wf h
  have hcw := buildLLVMPSS_cw h
  obtain ⟨h1, h2⟩ := hwf.ret_succ F r t hr ht
  refine ⟨h1, fun q => ⟨fun hq => ?_, fun hq => ?_⟩, ?_, ?_⟩
  · obtain ⟨c, hc, hk, hp, hqc, hs⟩ := (h2 q).mp hq
    have hne : (s.node c).pairedNode ≠ some c := by
      rw [hp]
      intro hx
      exact hqc (Option.some.inj hx)
    obtain ⟨G, b, i, f, hd, hx⟩ := call_node_instruction h hc hk hne
    obtain ⟨-, -, q', r', t', g3, -, -, g5, -, g6, -, g8, -⟩ := direct_call_edges h hd hx
    rw [hp] at g3
    cases g3
    rw [hs] at g8
    cases g8
    have hfF : f = F := hwf.root_inj f F r g6 hr
    subst hfF
    exact ⟨G, b, i, c, hd, hx, hk, hp, g5⟩
  · obtain ⟨G, b, i, c, hd, hx, hk, hp, hqk⟩ := hq
    obtain ⟨-, -, q', r', t', g3, -, -, -, -, g6, g7, -, g9⟩ := direct_call_edges h hd hx
    rw [hp] at g3
    cases g3
    rw [ht] at g7
    cases g7
    exact g9
  · intro G1 b1 i1 c1 G2 b2 i2 c2 q d1 d2 x1 x2 p1 p2
    obtain ⟨-, -, q1, -, -, g3, -, -, -, g4, -⟩ := direct_call_edges h d1 x1
    obtain ⟨-, -, q2, -, -, k3, -, -, -, k4, -⟩ := direct_call_edges h d2 x2
    rw [p1] at g3
    cases g3
    rw [p2] at k3
    cases k3
    rw [g4] at k4
    cases k4
    exact hcw.inj G1 b1 i1 F G2 b2 i2 F c1 d1 d2 x1 x2
  · intro G b i hG hd
    obtain ⟨c, hc⟩ := hcw.calls G b i F hG hd (fun p q hx => by cases hx)
    obtain ⟨-, -, q, r', t', g3, -, -, -, -, -, g7, -, g9⟩ := direct_call_edges h hd hc
    rw [ht] at g7
    cases g7
    exact ⟨c, q, hc, g3, g9⟩

set_option maxRecDepth 100000 in
/-- C10, amended, at the function `f` of the module `exRecursive`, whose root is node 7
and whose ret is node 8; `f` is called by `main` and by itself. -/
theorem ret_successors_are_call_returns_witness :
    (directCallee exRecursive 0 0 1 = some 1 ∧ directCallee exRecursive 1 0 0 = some 1) ∧
    ((endState exRecursive 2).node 8).successors.Nodup ∧
    (∀ q, q ∈ ((endState exRecursive 2).node 8).successors ↔
      ∃ G b i c, directCallee exRecursive G b i = some 1 ∧
        (endState exRecursive 2).nodes_map (.inst G b i) = some c ∧
        ((endState exRecursive 2).node c).kind = .CALL ∧
        ((endState exRecursive 2).node c).pairedNode = some q ∧
        ((endState exRecursive 2).node q).kind = .CALL_RETURN) ∧
    (∀ G1 b1 i1 c1 G2 b2 i2 c2 q, directCallee exRecursive G1 b1 i1 = some 1 →
      directCallee exRecursive G2 b2 i2 = some 1 →
      (endState exRecursive 2).nodes_map (.inst G1 b1 i1) = some c1 →
      (endState exRecursive 2).nodes_map (.inst G2 b2 i2) = some c2 →
      ((endState exRecursive 2).node c1).pairedNode = some q →
      ((endState exRecursive 2).node c2).pairedNode = some q → G1 = G2 ∧ b1 = b2 ∧ i1 = i2) ∧
    (∀ G b i, ((endState exRecursive 2).subgraphs_map G).root ≠ none →
      directCallee exRecursive G b i = some 1 →
      ∃ c q, (endState exRecursive 2).nodes_map (.inst G b i) = some c ∧
        ((endState exRecursive 2).node c).pairedNode = some q ∧
        q ∈ ((endState exRecursive 2).node 8).successors) :=
  ⟨⟨by decide, by decide⟩,
    ret_successors_are_call_returns (build_eq_end exRecursive_builds) 1 7 8
      (by decide!) (by decide!)⟩

end PSS
